import Mathlib

/-!
fastsir: SIR-type spreading processes on a contact network

A shallow embedding of the simulation engine (`BaseContagion`), of the graph
storage (`Network`) and of the three event-generation strategies
(`ContinuousSIR`, `DiscreteSIR`, `AnnealedContinuousSIR`).

Modelling conventions

* `double` values (rates, weights, the clock) are exact rationals; the value
  `+infinity` of a lifetime is `none`.
* `std::vector<T>` indexed by a node is a function `Node → T` together with the
  number of nodes `size`; an access outside `[0, size)` is reported as an error.
* `std::unordered_set<Node>` is a list without repetition, iterated in list order.
* `std::unordered_map<Node, T>` is a function `Node → Option T`.
* a C++ exception is an `Err` value returned next to the state in which the
  exception left the object; the state is not rolled back.
* every random draw is an explicit argument.
-/

namespace fastsir

/-! ## Basic types -/

abbrev Node := Nat
abbrev EdgeList := List (Node × Node)
abbrev Time := ℚ
abbrev Generation := Nat
abbrev InfectedDegree := Nat

inductive NodeState where
  | S
  | I
  | R
deriving DecidableEq, Repr

inductive Action where
  | RECOVERY
  | INFECTION
deriving DecidableEq, Repr

abbrev Event := Node × Action

/-- Snapshot `(time, #S, #I, #R)`. -/
structure MacroState where
  time : Time
  nS : Nat
  nI : Nat
  nR : Nat
deriving DecidableEq

/-- Record `(time, generation of the infector, infector, infectee, infected degree)`. -/
structure Transmission where
  time : Time
  generation : Generation
  infector : Node
  infectee : Node
  infected_degree : InfectedDegree
deriving DecidableEq

/-- Ways in which an operation can fail. -/
inductive Err where
  | not_susceptible      -- runtime_error "Infection attempt: the node is not susceptible"
  | not_infected         -- runtime_error "Recovery attempt: the node is not infected"
  | out_of_range         -- std::out_of_range thrown by `.at`
  | bad_optional_access  -- `.value()` on the empty result of `sample()`
  | undefined_behaviour  -- unchecked access outside a container
  | non_finite           -- a clock value that is not a finite number
  | out_of_draws         -- the supplied random draws ended while the loop was still running
deriving DecidableEq, Repr

/-! ## Network -/

structure Network where
  adjacency_list_ : List (List Node)
  nodes_ : List Node
  min_degree_ : Nat
  max_degree_ : Nat

namespace Network

def degree (g : Network) (node : Node) : Nat := (g.adjacency_list_.getD node []).length

def size (g : Network) : Nat := g.adjacency_list_.length

def adjacent_nodes (g : Network) (node : Node) : List Node := g.adjacency_list_.getD node []

/-- First loop of the constructor: the largest label seen. -/
def max_label (edge_list : EdgeList) : Nat :=
  edge_list.foldl
    (fun nb_nodes e =>
      let nb1 := if e.1 > nb_nodes then e.1 else nb_nodes
      if e.2 > nb1 then e.2 else nb1) 0

/-- Source: `adjacency_list_[u].push_back(v)`. -/
def push_back_at (adj : List (List Node)) (u v : Node) : List (List Node) :=
  adj.set u (adj.getD u [] ++ [v])

/-- Second loop of the constructor. -/
def fill (adj : List (List Node)) (edge_list : EdgeList) : List (List Node) :=
  edge_list.foldl (fun a e => push_back_at (push_back_at a e.1 e.2) e.2 e.1) adj

/-- Third loop of the constructor, from given values of `(min_degree_, max_degree_)`. -/
def degree_bounds.go (adj : List (List Node)) (nodes : List Node) (init : Nat × Nat) : Nat × Nat :=
  nodes.foldl
    (fun mm node =>
      let deg := (adj.getD node []).length
      let mn := if node = 0 then deg else mm.1
      let mn := if deg < mn then deg else mn
      let mx := if deg > mm.2 then deg else mm.2
      (mn, mx)) init

/-- Third loop of the constructor: `(min_degree_, max_degree_)`, both initialised to 0. -/
def degree_bounds (adj : List (List Node)) (nodes : List Node) : Nat × Nat :=
  degree_bounds.go adj nodes (0, 0)

/-- Source: `Network::Network(const EdgeList&)`. -/
def ofEdgeList (edge_list : EdgeList) : Network :=
  let nb_nodes := max_label edge_list + 1
  let adj := fill (List.replicate nb_nodes []) edge_list
  let nodes := List.range nb_nodes
  let mm := degree_bounds adj nodes
  { adjacency_list_ := adj, nodes_ := nodes, min_degree_ := mm.1, max_degree_ := mm.2 }

end Network

/-! ## Sets of nodes and the weighted event set -/

/-- Source: `std::unordered_set<Node>::insert`. -/
def set_insert (l : List Node) (v : Node) : List Node := if v ∈ l then l else l ++ [v]

/-- Source: `std::unordered_set<Node>::erase`. -/
def set_erase (l : List Node) (v : Node) : List Node := l.filter (fun x => x ≠ v)

/-- Modelled from the spec: the weighted event set (`sset::SamplableSet<Node>`, whose
source is not part of the repository files): a dynamic mapping from node to weight
with insert, erase, weight update, total weight, size and weighted sampling.  The
sampling takes the raw draw as an argument and can return any element. -/
structure SamplableSet where
  items : List (Node × ℚ)

namespace SamplableSet

def empty : SamplableSet := ⟨[]⟩

def keys (w : SamplableSet) : List Node := w.items.map Prod.fst

def size (w : SamplableSet) : Nat := w.items.length

def total_weight (w : SamplableSet) : ℚ := (w.items.map Prod.snd).sum

def erase (w : SamplableSet) (k : Node) : SamplableSet := ⟨w.items.filter (fun p => p.1 ≠ k)⟩

def insert (w : SamplableSet) (k : Node) (x : ℚ) : SamplableSet :=
  if k ∈ w.keys then w else ⟨w.items ++ [(k, x)]⟩

def set_weight (w : SamplableSet) (k : Node) (x : ℚ) : SamplableSet := (w.erase k).insert k x

def clear (_w : SamplableSet) : SamplableSet := ⟨[]⟩

def sample (w : SamplableSet) (draw : Nat) : Option (Node × ℚ) :=
  if w.items.length = 0 then none else w.items.get? (draw % w.items.length)

end SamplableSet

/-! ## The simulation object -/

/-- Dynamic type of the object: which strategy overrides the virtual functions. -/
inductive Kind where
  | continuous
  | discrete
  | annealed
deriving DecidableEq, Repr

/-- All data members of `BaseContagion` followed by those of the derived classes. -/
structure Sim where
  kind : Kind
  -- BaseContagion
  network_ : Network
  state_vector_ : Node → NodeState
  infected_node_set_ : List Node
  recovered_node_set_ : List Node
  infection_generation_ : Node → Option Generation
  infected_neighbors_vector_ : Node → List Node
  infected_neighbor_position_vector_ : Node → Node → Option Nat
  macro_state_vector_ : List MacroState
  transmission_tree_ : List Transmission
  current_time_ : Time
  last_event_time_ : Time
  -- ContinuousSIR, AnnealedContinuousSIR: recovery_rate_; DiscreteSIR: recovery_probability_
  recovery_rate_ : ℚ
  -- ContinuousSIR, AnnealedContinuousSIR: infection_rate_; DiscreteSIR: infection_probability_
  infection_rate_ : List ℚ
  -- DiscreteSIR: infection_propensity_
  infection_propensity_ : List ℚ
  infection_event_set_ : SamplableSet
  recovery_event_set_ : SamplableSet
  -- AnnealedContinuousSIR
  degree_ : Nat
  meanfield_infection_rate_ : ℚ
  binomial_coeff_ : List Int

/-- Outcome of a mutator: the state it left and the exception it threw, if any. -/
structure Res where
  st : Sim
  err : Option Err

namespace Res

def ok (s : Sim) : Res := ⟨s, none⟩

def fail (s : Sim) (e : Err) : Res := ⟨s, some e⟩

/-- Sequencing: the continuation runs only when no exception is pending. -/
def andThen (r : Res) (f : Sim → Res) : Res :=
  match r.err with
  | none => f r.st
  | some _ => r

end Res

/-- A range-based `for` whose body may throw. -/
def for_each {α : Type} (body : Sim → α → Res) : List α → Sim → Res
  | [], s => Res.ok s
  | x :: xs, s => (body s x).andThen (for_each body xs)

namespace Sim

def size (s : Sim) : Nat := s.network_.size

def get_number_of_infected_nodes (s : Sim) : Nat := s.infected_node_set_.length

/-- Source: `infected_neighbors_vector_.at(node).size()`; `none` is the `out_of_range` exception. -/
def get_infected_degree (s : Sim) (node : Node) : Option InfectedDegree :=
  if node < s.size then some (s.infected_neighbors_vector_ node).length else none

/-- Source: `get_current_macro_state`; the subtractions are on `size_t` (64 bits). -/
def get_current_macro_state (s : Sim) : MacroState :=
  { time := s.current_time_,
    nS := Int.toNat (((s.size : Int) - (s.infected_node_set_.length : Int)
            - (s.recovered_node_set_.length : Int)) % 2 ^ 64),
    nI := s.infected_node_set_.length,
    nR := s.recovered_node_set_.length }

def store_current_macro_state (s : Sim) : Sim :=
  { s with macro_state_vector_ := s.macro_state_vector_ ++ [s.get_current_macro_state] }

end Sim

/-! ## ContinuousSIR -/

namespace ContinuousSIR

/-- The constructor.  The bounds handed to the weighted set are not part of the model. -/
def create (edge_list : EdgeList) (recovery_rate : ℚ) (infection_rate : List ℚ) : Sim :=
  { kind := Kind.continuous,
    network_ := Network.ofEdgeList edge_list,
    state_vector_ := fun _ => NodeState.S,
    infected_node_set_ := [],
    recovered_node_set_ := [],
    infection_generation_ := fun _ => none,
    infected_neighbors_vector_ := fun _ => [],
    infected_neighbor_position_vector_ := fun _ _ => none,
    macro_state_vector_ := [],
    transmission_tree_ := [],
    current_time_ := 0,
    last_event_time_ := 0,
    recovery_rate_ := recovery_rate,
    infection_rate_ := infection_rate,
    infection_propensity_ := [],
    infection_event_set_ := SamplableSet.empty,
    recovery_event_set_ := SamplableSet.empty,
    degree_ := 0,
    meanfield_infection_rate_ := 0,
    binomial_coeff_ := [] }

def get_total_rate (s : Sim) : ℚ :=
  s.infection_event_set_.total_weight + s.recovery_rate_ * s.recovery_event_set_.total_weight

/-- The lifetime; `none` is `+infinity` (also the value of `1./0.`). -/
def get_lifetime (s : Sim) : Option ℚ :=
  if s.infected_node_set_.length = 0 then none
  else if get_total_rate s = 0 then none else some (1 / get_total_rate s)

/-- Source: `infection_rate_.at(get_infected_degree(node))`; `none` is `out_of_range`. -/
def get_infection_rate (s : Sim) (node : Node) : Option ℚ :=
  match s.get_infected_degree node with
  | none => none
  | some d => s.infection_rate_.get? d

end ContinuousSIR

/-- The bookkeeping part shared verbatim by `ContinuousSIR::update_infection_rate` and
`DiscreteSIR::update_infection_propensity`: the swap-and-pop removal (`RECOVERY`) or
the append (`INFECTION`) of `event.first` in the infected-neighbour list of `node`.
`none` is an unchecked access outside the list. -/
def update_infected_neighbors (s : Sim) (node : Node) (event : Event) : Option Sim :=
  let other_node := event.1
  let infected_neighbors := s.infected_neighbors_vector_ node
  let infected_neighbor_position := s.infected_neighbor_position_vector_ node
  match event.2 with
  | Action.RECOVERY =>
    -- `operator[]` yields 0 for a missing key
    let position := (infected_neighbor_position other_node).getD 0
    match infected_neighbors.get? position, infected_neighbors.getLast? with
    | some x, some back =>
      -- swap(infected_neighbors[position], infected_neighbors.back())
      let swapped := (infected_neighbors.set position back).set (infected_neighbors.length - 1) x
      let back_node := swapped.getD position back
      let position_map := Function.update infected_neighbor_position back_node (some position)
      some { s with
        infected_neighbors_vector_ :=
          Function.update s.infected_neighbors_vector_ node swapped.dropLast,
        infected_neighbor_position_vector_ :=
          Function.update s.infected_neighbor_position_vector_ node
            (Function.update position_map other_node none) }
    | _, _ => none
  | Action.INFECTION =>
    some { s with
      infected_neighbors_vector_ :=
        Function.update s.infected_neighbors_vector_ node (infected_neighbors ++ [other_node]),
      infected_neighbor_position_vector_ :=
        Function.update s.infected_neighbor_position_vector_ node
          (Function.update infected_neighbor_position other_node
            (some infected_neighbors.length)) }

namespace ContinuousSIR

/-- Source: `ContinuousSIR::update_infection_rate`. -/
def update_infection_rate (s : Sim) (node : Node) (event : Event) : Res :=
  if node < s.size then
    match update_infected_neighbors s node event with
    | none => Res.fail s Err.undefined_behaviour
    | some s1 =>
      match get_infection_rate s1 node with
      | none => Res.fail s1 Err.out_of_range
      | some new_rate =>
        if new_rate > 0 then
          Res.ok { s1 with infection_event_set_ := s1.infection_event_set_.set_weight node new_rate }
        else
          Res.ok { s1 with infection_event_set_ := s1.infection_event_set_.erase node }
  else Res.fail s Err.undefined_behaviour

/-- Body of the loop over the neighbours in `infect` and `recover`. -/
def visit_neighbor (event : Event) (s : Sim) (neighbor : Node) : Res :=
  if neighbor < s.size then
    if s.state_vector_ neighbor = NodeState.S then update_infection_rate s neighbor event
    else Res.ok s
  else Res.fail s Err.undefined_behaviour

/-- Source: `ContinuousSIR::infect`. -/
def infect (s : Sim) (node : Node) : Res :=
  if node < s.size then
    if s.state_vector_ node = NodeState.S then
      let s1 := { s with
        infection_event_set_ := s.infection_event_set_.erase node,
        state_vector_ := Function.update s.state_vector_ node NodeState.I,
        infected_node_set_ := set_insert s.infected_node_set_ node }
      (for_each (visit_neighbor (node, Action.INFECTION)) (s1.network_.adjacent_nodes node) s1).andThen
        fun s2 => Res.ok { s2 with
          recovery_event_set_ := s2.recovery_event_set_.insert node 1,
          infected_neighbors_vector_ := Function.update s2.infected_neighbors_vector_ node [],
          infected_neighbor_position_vector_ :=
            Function.update s2.infected_neighbor_position_vector_ node (fun _ => none) }
    else Res.fail s Err.not_susceptible
  else Res.fail s Err.undefined_behaviour

/-- Source: `ContinuousSIR::recover`. -/
def recover (s : Sim) (node : Node) : Res :=
  if node < s.size then
    if s.state_vector_ node = NodeState.I then
      let s1 := { s with
        state_vector_ := Function.update s.state_vector_ node NodeState.R,
        infected_node_set_ := set_erase s.infected_node_set_ node,
        recovered_node_set_ := set_insert s.recovered_node_set_ node }
      (for_each (visit_neighbor (node, Action.RECOVERY)) (s1.network_.adjacent_nodes node) s1).andThen
        fun s2 => Res.ok { s2 with recovery_event_set_ := s2.recovery_event_set_.erase node }
    else Res.fail s Err.not_infected
  else Res.fail s Err.undefined_behaviour

end ContinuousSIR

/-- One call of the random generator per use in an iteration of the event loop. -/
structure Draw where
  u : ℚ                 -- `random_01_(gen_)` in `next_step` of the continuous-time strategies
  nb_rec : Nat          -- `binomial_dist_(gen_)`
  nb_inf : Nat          -- `poisson_dist_(gen_)`
  rec_pick : Nat → Nat  -- raw draws behind `recovery_event_set_.sample()`
  inf_pick : Nat → Nat  -- raw draws behind `infection_event_set_.sample()`
  infector_u : Nat → ℚ  -- `random_01_(gen_)` in `random_infected_neighbor`, per event of the batch

namespace ContinuousSIR

/-- Source: `ContinuousSIR::next_step`: the state with the clock advanced and the selected event. -/
def next_step (s : Sim) (d : Draw) : Res × List Event :=
  match get_lifetime s with
  | none => (Res.fail s Err.non_finite, [])
  | some lifetime =>
    let s1 := { s with current_time_ := s.last_event_time_ + lifetime }
    let s2 := { s1 with last_event_time_ := s1.current_time_ }
    if s2.infection_event_set_.total_weight / get_total_rate s2 > d.u then
      match s2.infection_event_set_.sample (d.inf_pick 0) with
      | none => (Res.fail s2 Err.bad_optional_access, [])
      | some p => (Res.ok s2, [(p.1, Action.INFECTION)])
    else
      match s2.recovery_event_set_.sample (d.rec_pick 0) with
      | none => (Res.fail s2 Err.bad_optional_access, [])
      | some p => (Res.ok s2, [(p.1, Action.RECOVERY)])

end ContinuousSIR

/-! ## DiscreteSIR -/

namespace DiscreteSIR

/-- The constructor.  `neg_log1m` stands for `p ↦ -log(1 - p)`. -/
def create (edge_list : EdgeList) (recovery_probability : ℚ) (infection_probability : List ℚ)
    (neg_log1m : ℚ → ℚ) : Sim :=
  { kind := Kind.discrete,
    network_ := Network.ofEdgeList edge_list,
    state_vector_ := fun _ => NodeState.S,
    infected_node_set_ := [],
    recovered_node_set_ := [],
    infection_generation_ := fun _ => none,
    infected_neighbors_vector_ := fun _ => [],
    infected_neighbor_position_vector_ := fun _ _ => none,
    macro_state_vector_ := [],
    transmission_tree_ := [],
    current_time_ := 0,
    last_event_time_ := 0,
    recovery_rate_ := recovery_probability,
    infection_rate_ := infection_probability,
    infection_propensity_ := infection_probability.map neg_log1m,
    infection_event_set_ := SamplableSet.empty,
    recovery_event_set_ := SamplableSet.empty,
    degree_ := 0,
    meanfield_infection_rate_ := 0,
    binomial_coeff_ := [] }

/-- Source: `DiscreteSIR::get_lifetime`; `none` is `+infinity`. -/
def get_lifetime (s : Sim) : Option ℚ :=
  if s.infected_node_set_.length = 0 then none else some 1

/-- Source: `infection_propensity_.at(get_infected_degree(node))`; `none` is `out_of_range`. -/
def get_infection_propensity (s : Sim) (node : Node) : Option ℚ :=
  match s.get_infected_degree node with
  | none => none
  | some d => s.infection_propensity_.get? d

/-- Source: `DiscreteSIR::update_infection_propensity`. -/
def update_infection_propensity (s : Sim) (node : Node) (event : Event) : Res :=
  if node < s.size then
    match update_infected_neighbors s node event with
    | none => Res.fail s Err.undefined_behaviour
    | some s1 =>
      match get_infection_propensity s1 node with
      | none => Res.fail s1 Err.out_of_range
      | some new_propensity =>
        if new_propensity > 0 then
          Res.ok { s1 with
            infection_event_set_ := s1.infection_event_set_.set_weight node new_propensity }
        else
          Res.ok { s1 with infection_event_set_ := s1.infection_event_set_.erase node }
  else Res.fail s Err.undefined_behaviour

/-- Body of the loop over the neighbours in `infect` and `recover`. -/
def visit_neighbor (event : Event) (s : Sim) (neighbor : Node) : Res :=
  if neighbor < s.size then
    if s.state_vector_ neighbor = NodeState.S then update_infection_propensity s neighbor event
    else Res.ok s
  else Res.fail s Err.undefined_behaviour

/-- Source: `DiscreteSIR::infect`. -/
def infect (s : Sim) (node : Node) : Res :=
  if node < s.size then
    if s.state_vector_ node = NodeState.S then
      let s1 := { s with
        infection_event_set_ := s.infection_event_set_.erase node,
        state_vector_ := Function.update s.state_vector_ node NodeState.I,
        infected_node_set_ := set_insert s.infected_node_set_ node }
      (for_each (visit_neighbor (node, Action.INFECTION)) (s1.network_.adjacent_nodes node) s1).andThen
        fun s2 => Res.ok { s2 with recovery_event_set_ := s2.recovery_event_set_.insert node 1 }
    else Res.fail s Err.not_susceptible
  else Res.fail s Err.undefined_behaviour

/-- Source: `DiscreteSIR::recover`. -/
def recover (s : Sim) (node : Node) : Res :=
  if node < s.size then
    if s.state_vector_ node = NodeState.I then
      let s1 := { s with
        state_vector_ := Function.update s.state_vector_ node NodeState.R,
        infected_node_set_ := set_erase s.infected_node_set_ node,
        recovered_node_set_ := set_insert s.recovered_node_set_ node }
      (for_each (visit_neighbor (node, Action.RECOVERY)) (s1.network_.adjacent_nodes node) s1).andThen
        fun s2 => Res.ok { s2 with recovery_event_set_ := s2.recovery_event_set_.erase node }
    else Res.fail s Err.not_infected
  else Res.fail s Err.undefined_behaviour

/-- The sampling loops of `next_step`: `n` draws from `w`, collected in a set;
`none` is `bad_optional_access`. -/
def sample_distinct (w : SamplableSet) (pick : Nat → Nat) (n : Nat) : Option (List Node) :=
  (List.range n).foldl
    (fun acc i =>
      match acc, w.sample (pick i) with
      | some l, some p => some (set_insert l p.1)
      | _, _ => none)
    (some [])

/-- Source: `DiscreteSIR::next_step`. -/
def next_step (s : Sim) (d : Draw) : Res × List Event :=
  match get_lifetime s with
  | none => (Res.fail s Err.non_finite, [])
  | some lifetime =>
    let s1 := { s with current_time_ := s.last_event_time_ + lifetime }
    let s2 := { s1 with last_event_time_ := s1.current_time_ }
    match sample_distinct s2.recovery_event_set_ d.rec_pick d.nb_rec with
    | none => (Res.fail s2 Err.bad_optional_access, [])
    | some new_susceptible =>
      match sample_distinct s2.infection_event_set_ d.inf_pick d.nb_inf with
      | none => (Res.fail s2 Err.bad_optional_access, [])
      | some new_infected =>
        (Res.ok s2,
          new_susceptible.map (fun node => (node, Action.RECOVERY))
            ++ new_infected.map (fun node => (node, Action.INFECTION)))

end DiscreteSIR

/-! ## AnnealedContinuousSIR -/

namespace AnnealedContinuousSIR

/-- Source: `dummy_edge_list`. -/
def dummy_edge_list (number_of_nodes : Nat) : EdgeList :=
  (List.range number_of_nodes).map (fun i => (0, i))

/-- The entry `aSolutions[i]` computed by the loop of `BinomialCoefficient(n, k)`,
over unbounded integers. -/
def aSolutions (n k : Int) : Nat → Int
  | 0 => n - k + 1
  | i + 1 => Int.tdiv (aSolutions n k i * (n - k + 1 + ((i : Int) + 1))) ((i : Int) + 1 + 1)

/-- Source: `BinomialCoefficient(n, k)`; `none` when the work vector is empty (`k = 0`): the
function then reads and writes outside it. -/
def BinomialCoefficient (n k : Nat) : Option Int :=
  if k = 0 then none else some (aSolutions n k (k - 1))

/-- The constructor.  `coeff0` is the indeterminate value that the call
`BinomialCoefficient(degree, 0)` leaves in `binomial_coeff_[0]`, and `rate0` the
indeterminate initial value of `meanfield_infection_rate_`, which the constructor
does not initialise. -/
def create (number_of_nodes degree : Nat) (recovery_rate : ℚ) (infection_rate : List ℚ)
    (coeff0 : Int) (rate0 : ℚ) : Sim :=
  let network := Network.ofEdgeList (dummy_edge_list number_of_nodes)
  { kind := Kind.annealed,
    network_ := network,
    state_vector_ := fun _ => NodeState.S,
    infected_node_set_ := [],
    recovered_node_set_ := [],
    infection_generation_ := fun _ => none,
    infected_neighbors_vector_ := fun _ => [],
    infected_neighbor_position_vector_ := fun _ _ => none,
    macro_state_vector_ := [],
    transmission_tree_ := [],
    current_time_ := 0,
    last_event_time_ := 0,
    recovery_rate_ := recovery_rate,
    infection_rate_ := infection_rate,
    infection_propensity_ := [],
    infection_event_set_ :=
      (List.range network.size).foldl (fun w node => w.insert node 1) SamplableSet.empty,
    recovery_event_set_ := SamplableSet.empty,
    degree_ := degree,
    meanfield_infection_rate_ := rate0,
    binomial_coeff_ :=
      (List.range (degree + 1)).map (fun i => (BinomialCoefficient degree i).getD coeff0) }

def get_total_rate (s : Sim) : ℚ :=
  s.meanfield_infection_rate_ * s.infection_event_set_.total_weight
    + s.recovery_rate_ * s.recovery_event_set_.total_weight

/-- The lifetime; `none` is `+infinity` (also the value of `1./0.`). -/
def get_lifetime (s : Sim) : Option ℚ :=
  if s.infected_node_set_.length = 0 then none
  else if get_total_rate s = 0 then none else some (1 / get_total_rate s)

/-- The sum of the terms `0 .. n-1` of `update_meanfield_rate`; `none` is the
`out_of_range` of `infection_rate_.at(i)`. -/
def meanfield_sum (s : Sim) (prevalence : ℚ) : Nat → Option ℚ
  | 0 => some 0
  | i + 1 =>
    match meanfield_sum s prevalence i, s.infection_rate_.get? i with
    | some sum, some rate =>
      some (sum + (s.binomial_coeff_.getD i 0 : ℚ) * prevalence ^ i
        * (1 - prevalence) ^ (s.degree_ - i) * rate)
    | _, _ => none

/-- Source: `AnnealedContinuousSIR::update_meanfield_rate`. -/
def update_meanfield_rate (s : Sim) : Res :=
  let prevalence : ℚ := (s.get_number_of_infected_nodes : ℚ) / (s.size : ℚ)
  match meanfield_sum s prevalence (s.degree_ + 1) with
  | none => Res.fail s Err.out_of_range
  | some sum => Res.ok { s with meanfield_infection_rate_ := sum }

/-- Source: `AnnealedContinuousSIR::infect`. -/
def infect (s : Sim) (node : Node) : Res :=
  if node < s.size then
    if s.state_vector_ node = NodeState.S then
      update_meanfield_rate { s with
        infection_event_set_ := s.infection_event_set_.erase node,
        state_vector_ := Function.update s.state_vector_ node NodeState.I,
        infected_node_set_ := set_insert s.infected_node_set_ node,
        recovery_event_set_ := s.recovery_event_set_.insert node 1 }
    else Res.fail s Err.not_susceptible
  else Res.fail s Err.undefined_behaviour

/-- Source: `AnnealedContinuousSIR::recover`. -/
def recover (s : Sim) (node : Node) : Res :=
  if node < s.size then
    if s.state_vector_ node = NodeState.I then
      update_meanfield_rate { s with
        state_vector_ := Function.update s.state_vector_ node NodeState.R,
        infected_node_set_ := set_erase s.infected_node_set_ node,
        recovered_node_set_ := set_insert s.recovered_node_set_ node,
        recovery_event_set_ := s.recovery_event_set_.erase node }
    else Res.fail s Err.not_infected
  else Res.fail s Err.undefined_behaviour

/-- Source: `AnnealedContinuousSIR::next_step`. -/
def next_step (s : Sim) (d : Draw) : Res × List Event :=
  match get_lifetime s with
  | none => (Res.fail s Err.non_finite, [])
  | some lifetime =>
    let s1 := { s with current_time_ := s.last_event_time_ + lifetime }
    let s2 := { s1 with last_event_time_ := s1.current_time_ }
    if s2.meanfield_infection_rate_ * s2.infection_event_set_.total_weight / get_total_rate s2
        > d.u then
      match s2.infection_event_set_.sample (d.inf_pick 0) with
      | none => (Res.fail s2 Err.bad_optional_access, [])
      | some p => (Res.ok s2, [(p.1, Action.INFECTION)])
    else
      match s2.recovery_event_set_.sample (d.rec_pick 0) with
      | none => (Res.fail s2 Err.bad_optional_access, [])
      | some p => (Res.ok s2, [(p.1, Action.RECOVERY)])

end AnnealedContinuousSIR

/-! ## Virtual functions of `BaseContagion` -/

def get_lifetime (s : Sim) : Option ℚ :=
  match s.kind with
  | Kind.continuous => ContinuousSIR.get_lifetime s
  | Kind.discrete => DiscreteSIR.get_lifetime s
  | Kind.annealed => AnnealedContinuousSIR.get_lifetime s

def infect (s : Sim) (node : Node) : Res :=
  match s.kind with
  | Kind.continuous => ContinuousSIR.infect s node
  | Kind.discrete => DiscreteSIR.infect s node
  | Kind.annealed => AnnealedContinuousSIR.infect s node

def recover (s : Sim) (node : Node) : Res :=
  match s.kind with
  | Kind.continuous => ContinuousSIR.recover s node
  | Kind.discrete => DiscreteSIR.recover s node
  | Kind.annealed => AnnealedContinuousSIR.recover s node

def next_step (s : Sim) (d : Draw) : Res × List Event :=
  match s.kind with
  | Kind.continuous => ContinuousSIR.next_step s d
  | Kind.discrete => DiscreteSIR.next_step s d
  | Kind.annealed => AnnealedContinuousSIR.next_step s d

/-! ## BaseContagion: the engine -/

namespace BaseContagion

/-- Source: `random_infected_neighbor`; `none` is the `out_of_range` of `.at`. -/
def random_infected_neighbor (s : Sim) (node : Node) (u : ℚ) : Option Node :=
  if node < s.size then
    let index := Int.toNat ⌊u * ((s.infected_neighbors_vector_ node).length : ℚ)⌋
    (s.infected_neighbors_vector_ node).get? index
  else none

/-- Source: `update_transmission_tree`; the first argument counts the events already visited. -/
def update_transmission_tree (us : Nat → ℚ) : Nat → List Event → Sim → Res
  | _, [], s => Res.ok s
  | i, event :: rest, s =>
    match event.2 with
    | Action.INFECTION =>
      let infectee := event.1
      match random_infected_neighbor s infectee (us i) with
      | none => Res.fail s Err.out_of_range
      | some infector =>
        match s.infection_generation_ infector with
        | none => Res.fail s Err.out_of_range
        | some generation =>
          let s1 := { s with
            infection_generation_ :=
              Function.update s.infection_generation_ infectee (some (generation + 1)) }
          match s1.get_infected_degree infectee with
          | none => Res.fail s1 Err.out_of_range
          | some infected_degree =>
            update_transmission_tree us (i + 1) rest { s1 with
              transmission_tree_ := s1.transmission_tree_ ++
                [{ time := s1.current_time_, generation := generation, infector := infector,
                   infectee := infectee, infected_degree := infected_degree }] }
    | Action.RECOVERY => update_transmission_tree us (i + 1) rest s

/-- Body of the loop of `apply_events`. -/
def apply_event (s : Sim) (event : Event) : Res :=
  match event.2 with
  | Action.INFECTION => infect s event.1
  | Action.RECOVERY => recover s event.1

/-- Source: `apply_events`. -/
def apply_events (event_vector : List Event) (s : Sim) : Res :=
  for_each apply_event event_vector s

/-- Source: `(unsigned int) floor(network_.size()*fraction)`; a negative value is taken as 0. -/
def number_of_infection (s : Sim) (fraction : ℚ) : Nat := Int.toNat ⌊(s.size : ℚ) * fraction⌋

/-- The loop of `infect_fraction`: one uniform draw per iteration. -/
def infect_fraction_loop (number_of_infection : Nat) : List ℚ → Nat → Sim → Res
  | [], count, s =>
    if count < number_of_infection then Res.fail s Err.out_of_draws else Res.ok s
  | u :: us, count, s =>
    if count < number_of_infection then
      let node := Int.toNat ⌊u * (s.size : ℚ)⌋
      if node < s.size then
        if s.state_vector_ node = NodeState.S then
          (infect s node).andThen fun s1 =>
            infect_fraction_loop number_of_infection us (count + 1) { s1 with
              infection_generation_ := Function.update s1.infection_generation_ node (some 0) }
        else infect_fraction_loop number_of_infection us count s
      else Res.fail s Err.undefined_behaviour
    else Res.ok s

/-- Source: `infect_fraction`. -/
def infect_fraction (s : Sim) (fraction : ℚ) (draws : List ℚ) : Res :=
  infect_fraction_loop (number_of_infection s fraction) draws 0 s

/-- Body of the loop of `infect_node_set`. -/
def infect_node_set_body (s : Sim) (node : Node) : Res :=
  if node < s.size then
    if s.state_vector_ node = NodeState.S then
      (infect s node).andThen fun s1 => Res.ok { s1 with
        infection_generation_ := Function.update s1.infection_generation_ node (some 0) }
    else Res.ok s
  else Res.fail s Err.undefined_behaviour

/-- Source: `infect_node_set`; the argument lists the set in its iteration order. -/
def infect_node_set (s : Sim) (node_set : List Node) : Res :=
  for_each infect_node_set_body node_set s

/-- Source: `BaseContagion::clear`. -/
def clear (s : Sim) : Res :=
  let infected_node_set_copy := s.infected_node_set_
  (for_each recover infected_node_set_copy s).andThen fun s1 =>
    Res.ok { s1 with
      state_vector_ :=
        s1.recovered_node_set_.foldl (fun sv node => Function.update sv node NodeState.S)
          s1.state_vector_,
      recovered_node_set_ := [],
      infection_generation_ := fun _ => none }

/-- Source: `BaseContagion::reset`; the call of `clear` is bound statically to the base class. -/
def reset (s : Sim) : Res :=
  (clear s).andThen fun s1 =>
    Res.ok { s1 with
      macro_state_vector_ := [],
      transmission_tree_ := [],
      current_time_ := 0,
      last_event_time_ := 0 }

/-- Guard of the event loop of `evolve`. -/
def loop_guard (s : Sim) (initial_time period : ℚ) : Bool :=
  match get_lifetime s with
  | none => false
  | some lifetime => decide (s.last_event_time_ + lifetime - initial_time ≤ period)

/-- One iteration of the event loop of `evolve`. -/
def loop_body (save_transmission_tree save_macro_state : Bool) (d : Draw) (s : Sim) : Res :=
  let step := next_step s d
  let event_vector := step.2
  step.1.andThen fun s1 =>
    (if save_transmission_tree ∧ event_vector.length > 0 then
        update_transmission_tree d.infector_u 0 event_vector s1
      else Res.ok s1).andThen fun s2 =>
      (apply_events event_vector s2).andThen fun s3 =>
        Res.ok (if save_macro_state then s3.store_current_macro_state else s3)

/-- Outcome of `evolve`: as `Res`, with the values that `next_step` gave to the clock
during the call, in order. -/
structure Run where
  st : Sim
  err : Option Err
  event_times : List Time

/-- The event loop of `evolve`, one `Draw` per iteration. -/
def evolve_loop (initial_time period : ℚ) (save_transmission_tree save_macro_state : Bool) :
    List Draw → Sim → Run
  | [], s =>
    if loop_guard s initial_time period then ⟨s, some Err.out_of_draws, []⟩ else ⟨s, none, []⟩
  | d :: ds, s =>
    if loop_guard s initial_time period then
      let t := (next_step s d).1.st.current_time_
      let r := loop_body save_transmission_tree save_macro_state d s
      match r.err with
      | some e => ⟨r.st, some e, [t]⟩
      | none =>
        let run := evolve_loop initial_time period save_transmission_tree save_macro_state ds r.st
        ⟨run.st, run.err, t :: run.event_times⟩
    else ⟨s, none, []⟩

/-- Source: `BaseContagion::evolve`. -/
def evolve (s : Sim) (period : ℚ) (save_transmission_tree save_macro_state : Bool)
    (draws : List Draw) : Run :=
  let s0 :=
    if save_macro_state ∧ s.macro_state_vector_.length = 0 then s.store_current_macro_state else s
  let initial_time := s0.current_time_
  let run := evolve_loop initial_time period save_transmission_tree save_macro_state draws s0
  match run.err with
  | some _ => run
  | none => ⟨{ run.st with current_time_ := initial_time + period }, none, run.event_times⟩

end BaseContagion

/-! ## The overloads of `clear` in the derived classes -/

/-- Source: `ContinuousSIR::clear`. -/
def ContinuousSIR.clear (s : Sim) : Res :=
  (BaseContagion.clear s).andThen fun s1 =>
    Res.ok { s1 with
      infection_event_set_ := s1.infection_event_set_.clear,
      recovery_event_set_ := s1.recovery_event_set_.clear }

/-- Source: `DiscreteSIR::clear`. -/
def DiscreteSIR.clear (s : Sim) : Res :=
  (BaseContagion.clear s).andThen fun s1 =>
    Res.ok { s1 with
      infection_event_set_ := s1.infection_event_set_.clear,
      recovery_event_set_ := s1.recovery_event_set_.clear }

/-- Source: `AnnealedContinuousSIR::clear`. -/
def AnnealedContinuousSIR.clear (s : Sim) : Res :=
  (BaseContagion.clear s).andThen fun s1 =>
    Res.ok { s1 with
      infection_event_set_ :=
        (List.range s1.size).foldl (fun w node => w.insert node 1) s1.infection_event_set_.clear,
      recovery_event_set_ := s1.recovery_event_set_.clear }

/-- The `clear` selected by the static type of the object. -/
def clear (s : Sim) : Res :=
  match s.kind with
  | Kind.continuous => ContinuousSIR.clear s
  | Kind.discrete => DiscreteSIR.clear s
  | Kind.annealed => AnnealedContinuousSIR.clear s


/-! ## Vocabulary of the statements -/

/-- The members fixed by the constructor agree in both states. -/
structure SameParams (s s' : Sim) : Prop where
  kind : s'.kind = s.kind
  network_ : s'.network_ = s.network_
  recovery_rate_ : s'.recovery_rate_ = s.recovery_rate_
  infection_rate_ : s'.infection_rate_ = s.infection_rate_
  infection_propensity_ : s'.infection_propensity_ = s.infection_propensity_
  degree_ : s'.degree_ = s.degree_
  binomial_coeff_ : s'.binomial_coeff_ = s.binomial_coeff_

/-- The histories, the generation map and the clock agree in both states. -/
structure SameHistory (s s' : Sim) : Prop where
  infection_generation_ : s'.infection_generation_ = s.infection_generation_
  macro_state_vector_ : s'.macro_state_vector_ = s.macro_state_vector_
  transmission_tree_ : s'.transmission_tree_ = s.transmission_tree_
  current_time_ : s'.current_time_ = s.current_time_
  last_event_time_ : s'.last_event_time_ = s.last_event_time_

/-- The second state is the first one up to the infected-neighbour bookkeeping and the
infection event set. -/
def SameButBookkeeping (s s' : Sim) : Prop :=
  ∃ l p w, s' = { s with
    infected_neighbors_vector_ := l,
    infected_neighbor_position_vector_ := p,
    infection_event_set_ := w }

/-- The population, the constructor members and the histories agree in both states. -/
structure SameCore (s s' : Sim) : Prop where
  state_vector_ : s'.state_vector_ = s.state_vector_
  infected_node_set_ : s'.infected_node_set_ = s.infected_node_set_
  recovered_node_set_ : s'.recovered_node_set_ = s.recovered_node_set_
  params : SameParams s s'
  history : SameHistory s s'

/-- What a call of `infect` that passed its guard did to the population. -/
structure InfectEffect (s s' : Sim) (v : Node) : Prop where
  state_vector_ : s'.state_vector_ = Function.update s.state_vector_ v NodeState.I
  infected_node_set_ : s'.infected_node_set_ = set_insert s.infected_node_set_ v
  recovered_node_set_ : s'.recovered_node_set_ = s.recovered_node_set_
  params : SameParams s s'
  history : SameHistory s s'

/-- What a call of `recover` that passed its guard did to the population. -/
structure RecoverEffect (s s' : Sim) (v : Node) : Prop where
  state_vector_ : s'.state_vector_ = Function.update s.state_vector_ v NodeState.R
  infected_node_set_ : s'.infected_node_set_ = set_erase s.infected_node_set_ v
  recovered_node_set_ : s'.recovered_node_set_ = set_insert s.recovered_node_set_ v
  params : SameParams s s'
  history : SameHistory s s'

/-- Number of nodes whose entry of `state_vector_` is `q`. -/
def count_state (s : Sim) (q : NodeState) : Nat :=
  ((List.range s.size).filter (fun v => s.state_vector_ v = q)).length

/-- The two node sets list, without repetition, the nodes whose state is `I`, resp. `R`. -/
structure PopulationInv (s : Sim) : Prop where
  infected_nodup : s.infected_node_set_.Nodup
  recovered_nodup : s.recovered_node_set_.Nodup
  infected_iff : ∀ v, v ∈ s.infected_node_set_ ↔ v < s.size ∧ s.state_vector_ v = NodeState.I
  recovered_iff : ∀ v, v ∈ s.recovered_node_set_ ↔ v < s.size ∧ s.state_vector_ v = NodeState.R

/-- The states that a client can reach: construction of one of the three strategies, then
any sequence of calls of the public mutators, with any arguments and any random draws.
A call that raised, or whose loop is still running when the draws end, leaves a state
from which the client can go on. -/
inductive Reachable : Sim → Prop where
  | continuous (edge_list : EdgeList) (recovery_rate : ℚ) (infection_rate : List ℚ) :
      Reachable (ContinuousSIR.create edge_list recovery_rate infection_rate)
  | discrete (edge_list : EdgeList) (recovery_probability : ℚ) (infection_probability : List ℚ)
      (neg_log1m : ℚ → ℚ) :
      Reachable (DiscreteSIR.create edge_list recovery_probability infection_probability neg_log1m)
  | annealed (number_of_nodes degree : Nat) (recovery_rate : ℚ) (infection_rate : List ℚ)
      (coeff0 : Int) (rate0 : ℚ) :
      Reachable (AnnealedContinuousSIR.create number_of_nodes degree recovery_rate
        infection_rate coeff0 rate0)
  | infect_fraction {s : Sim} (fraction : ℚ) (draws : List ℚ) :
      Reachable s → Reachable (BaseContagion.infect_fraction s fraction draws).st
  | infect_node_set {s : Sim} (node_set : List Node) :
      Reachable s → Reachable (BaseContagion.infect_node_set s node_set).st
  | evolve {s : Sim} (period : ℚ) (save_transmission_tree save_macro_state : Bool)
      (draws : List Draw) :
      Reachable s →
      Reachable (BaseContagion.evolve s period save_transmission_tree save_macro_state draws).st
  | base_clear {s : Sim} : Reachable s → Reachable (BaseContagion.clear s).st
  | clear {s : Sim} : Reachable s → Reachable (clear s).st
  | reset {s : Sim} : Reachable s → Reachable (BaseContagion.reset s).st

/-- A property of the state kept by what an iteration of the event loop does after
`next_step`: state changes, records of the transmission tree, snapshots. -/
structure StableCore (P : Sim → Prop) : Prop where
  infect : ∀ s v, P s → P (infect s v).st
  recover : ∀ s v, P s → P (recover s v).st
  generation : ∀ (s : Sim) (g : Node → Option Generation), P s →
    P { s with infection_generation_ := g }
  tree : ∀ (s : Sim) (tr : List Transmission), P s → P { s with transmission_tree_ := tr }
  snapshot : ∀ (s : Sim) (m : List MacroState), P s → P { s with macro_state_vector_ := m }

/-- A property of the state that every elementary mutation of the engine keeps. -/
structure Stable (P : Sim → Prop) extends StableCore P : Prop where
  clock : ∀ (s : Sim) (t t' : Time), P s → P { s with current_time_ := t, last_event_time_ := t' }
  flip : ∀ s : Sim, P s → P { s with
    state_vector_ :=
      s.recovered_node_set_.foldl (fun sv node => Function.update sv node NodeState.S)
        s.state_vector_,
    recovered_node_set_ := [] }
  clear_sets : ∀ s : Sim, P s → P { s with
    infection_event_set_ := s.infection_event_set_.clear,
    recovery_event_set_ := s.recovery_event_set_.clear }
  refill_sets : ∀ s : Sim, P s → P { s with
    infection_event_set_ :=
      (List.range s.size).foldl (fun w node => w.insert node 1) s.infection_event_set_.clear,
    recovery_event_set_ := s.recovery_event_set_.clear }

/-- Weight of a node in the progress measure of the event loop. -/
def NodeState.weight : NodeState → Nat
  | NodeState.S => 2
  | NodeState.I => 1
  | NodeState.R => 0

/-- Twice the number of susceptible nodes plus the number of infected nodes. -/
def potential (s : Sim) : Nat :=
  ((List.range s.size).map (fun v => (s.state_vector_ v).weight)).sum

/-- A number of iterations that the event loop of `evolve`, entered in state `s`, cannot
exceed: the remaining whole ticks for the discrete strategy, the potential otherwise. -/
def loop_bound (s : Sim) (initial_time period : ℚ) : Nat :=
  match s.kind with
  | Kind.discrete => Int.toNat ⌊period + initial_time - s.last_event_time_⌋
  | _ => potential s

/-- The clock read after each call of a sequence of calls of `evolve`, given by their
arguments and draws; `none` when one of the calls does not return. -/
def clock_after_calls : Sim → List (ℚ × Bool × Bool × List Draw) → Option (List Time)
  | _, [] => some []
  | s, c :: cs =>
    match (BaseContagion.evolve s c.1 c.2.1 c.2.2.1 c.2.2.2).err with
    | some _ => none
    | none =>
      (clock_after_calls (BaseContagion.evolve s c.1 c.2.1 c.2.2.1 c.2.2.2).st cs).map
        (fun ts => (BaseContagion.evolve s c.1 c.2.1 c.2.2.1 c.2.2.2).st.current_time_ :: ts)

/-- Constructor arguments that are rates: a non-negative recovery rate and, for the
annealed strategy, a table of non-negative rates with an entry for each of `0 .. degree_`
and non-negative binomial coefficients. -/
structure NonnegParams (s : Sim) : Prop where
  recovery_rate : 0 ≤ s.recovery_rate_
  annealed : s.kind = Kind.annealed →
    (∀ r ∈ s.infection_rate_, 0 ≤ r) ∧ (∀ c ∈ s.binomial_coeff_, 0 ≤ c)
      ∧ s.degree_ < s.infection_rate_.length

/-- No weight of the two event sets is negative, and the mean-field rate of the annealed
strategy is not negative once a node is infected. -/
structure RatesInv (s : Sim) : Prop where
  infection_weights : ∀ p ∈ s.infection_event_set_.items, 0 ≤ p.2
  recovery_weights : ∀ p ∈ s.recovery_event_set_.items, 0 ≤ p.2
  meanfield : s.kind = Kind.annealed →
    s.infected_node_set_ = [] ∨ 0 ≤ s.meanfield_infection_rate_

/-- The population invariant, and the invariant on the rates when the constructor
arguments are rates. -/
def RatesOK (s : Sim) : Prop := PopulationInv s ∧ (NonnegParams s → RatesInv s)

/-- The list and index parts of `update_infected_neighbors`, on the entry of one node:
`l` is its `infected_neighbors_vector_` entry, `p` its `infected_neighbor_position_vector_`
entry. -/
def slot_update (event : Event) (l : List Node) (p : Node → Option Nat) :
    Option (List Node × (Node → Option Nat)) :=
  match event.2 with
  | Action.RECOVERY =>
    let position := (p event.1).getD 0
    match l.get? position, l.getLast? with
    | some x, some back =>
      let swapped := (l.set position back).set (l.length - 1) x
      let back_node := swapped.getD position back
      some (swapped.dropLast,
        Function.update (Function.update p back_node (some position)) event.1 none)
    | _, _ => none
  | Action.INFECTION =>
    some (l ++ [event.1], Function.update p event.1 (some l.length))

/-- The index maps each element of the list to its position and has no other key. -/
def SlotOK (l : List Node) (p : Node → Option Nat) : Prop :=
  ∀ u i, p u = some i ↔ l.get? i = some u

/-- An edge list without self-loop and without repeated edge, in either orientation. -/
def SimpleEdgeList (edge_list : EdgeList) : Prop :=
  (∀ e ∈ edge_list, e.1 ≠ e.2)
    ∧ edge_list.Pairwise (fun e f => e ≠ f ∧ e ≠ (f.2, f.1))

/-- The adjacency lists of a simple graph: no repetition, no node adjacent to itself,
symmetric, made of nodes, and no longer than `max_degree_`. -/
structure Network.Simple (g : Network) : Prop where
  nodup : ∀ v, (g.adjacent_nodes v).Nodup
  irrefl : ∀ v, v ∉ g.adjacent_nodes v
  symm : ∀ v u, u ∈ g.adjacent_nodes v → v ∈ g.adjacent_nodes u
  lt_size : ∀ v u, u ∈ g.adjacent_nodes v → u < g.size
  degree_le : ∀ v, (g.adjacent_nodes v).length ≤ g.max_degree_

/-- The infected-neighbour bookkeeping is exact: the entry of a susceptible node lists,
without repetition, its infected neighbours, and its index is consistent with the list;
the entry of any other node is empty. -/
structure BookkeepingInv (s : Sim) : Prop where
  susceptible : ∀ v, v < s.size → s.state_vector_ v = NodeState.S →
    (s.infected_neighbors_vector_ v).Nodup
    ∧ (∀ u, u ∈ s.infected_neighbors_vector_ v ↔
        u ∈ s.network_.adjacent_nodes v ∧ s.state_vector_ u = NodeState.I)
    ∧ SlotOK (s.infected_neighbors_vector_ v) (s.infected_neighbor_position_vector_ v)
  other : ∀ v, v < s.size → s.state_vector_ v ≠ NodeState.S →
    s.infected_neighbors_vector_ v = []
    ∧ s.infected_neighbor_position_vector_ v = fun _ => none

/-- The states of a `ContinuousSIR` built from the given arguments that are reached by
calls of `infect` on susceptible nodes, of `recover` on infected nodes, and of `clear`
(that of the class and that of its base). -/
inductive ContinuousSIR.Reach (edge_list : EdgeList) (recovery_rate : ℚ)
    (infection_rate : List ℚ) : Sim → Prop where
  | create : ContinuousSIR.Reach edge_list recovery_rate infection_rate
      (ContinuousSIR.create edge_list recovery_rate infection_rate)
  | infect {s : Sim} (v : Node) :
      ContinuousSIR.Reach edge_list recovery_rate infection_rate s →
      v < s.size → s.state_vector_ v = NodeState.S →
      ContinuousSIR.Reach edge_list recovery_rate infection_rate (fastsir.infect s v).st
  | recover {s : Sim} (v : Node) :
      ContinuousSIR.Reach edge_list recovery_rate infection_rate s →
      v < s.size → s.state_vector_ v = NodeState.I →
      ContinuousSIR.Reach edge_list recovery_rate infection_rate (fastsir.recover s v).st
  | clear {s : Sim} :
      ContinuousSIR.Reach edge_list recovery_rate infection_rate s →
      ContinuousSIR.Reach edge_list recovery_rate infection_rate (ContinuousSIR.clear s).st
  | base_clear {s : Sim} :
      ContinuousSIR.Reach edge_list recovery_rate infection_rate s →
      ContinuousSIR.Reach edge_list recovery_rate infection_rate (BaseContagion.clear s).st

/-- The other endpoints of the edges incident to `v`, in edge-list order; a self-loop
contributes twice. -/
def Network.neighbors_from (v : Node) : EdgeList → List Node
  | [] => []
  | e :: es =>
    (if e.1 = v then [e.2] else []) ++ (if e.2 = v then [e.1] else [])
      ++ Network.neighbors_from v es

/-- The invariant of a `ContinuousSIR` on the network `g` with the rate table `rates`. -/
structure ContinuousInv (g : Network) (rates : List ℚ) (s : Sim) : Prop where
  kind : s.kind = Kind.continuous
  network : s.network_ = g
  rates : s.infection_rate_ = rates
  population : PopulationInv s
  bookkeeping : BookkeepingInv s

/-- The states reached from the construction of one of the three strategies by calls of
the public mutators that returned. -/
inductive Reached : Sim → Prop where
  | continuous (edge_list : EdgeList) (recovery_rate : ℚ) (infection_rate : List ℚ) :
      Reached (ContinuousSIR.create edge_list recovery_rate infection_rate)
  | discrete (edge_list : EdgeList) (recovery_probability : ℚ) (infection_probability : List ℚ)
      (neg_log1m : ℚ → ℚ) :
      Reached (DiscreteSIR.create edge_list recovery_probability infection_probability neg_log1m)
  | annealed (number_of_nodes degree : Nat) (recovery_rate : ℚ) (infection_rate : List ℚ)
      (coeff0 : Int) (rate0 : ℚ) :
      Reached (AnnealedContinuousSIR.create number_of_nodes degree recovery_rate
        infection_rate coeff0 rate0)
  | infect_fraction {s : Sim} (fraction : ℚ) (draws : List ℚ) :
      Reached s → (BaseContagion.infect_fraction s fraction draws).err = none →
      Reached (BaseContagion.infect_fraction s fraction draws).st
  | infect_node_set {s : Sim} (node_set : List Node) :
      Reached s → (BaseContagion.infect_node_set s node_set).err = none →
      Reached (BaseContagion.infect_node_set s node_set).st
  | evolve {s : Sim} (period : ℚ) (save_transmission_tree save_macro_state : Bool)
      (draws : List Draw) :
      Reached s →
      (BaseContagion.evolve s period save_transmission_tree save_macro_state draws).err = none →
      Reached (BaseContagion.evolve s period save_transmission_tree save_macro_state draws).st
  | base_clear {s : Sim} :
      Reached s → (BaseContagion.clear s).err = none → Reached (BaseContagion.clear s).st
  | clear {s : Sim} : Reached s → (clear s).err = none → Reached (clear s).st
  | reset {s : Sim} :
      Reached s → (BaseContagion.reset s).err = none → Reached (BaseContagion.reset s).st

/-- A property of the state kept by every elementary mutation of the engine, where `infect`
and `recover` are calls that returned, the recovered nodes are made susceptible once no
node is infected, and the event sets are rebuilt by the `clear` of the strategy once the
two node sets are empty. -/
structure Kept (P : Sim → Prop) : Prop where
  infect : ∀ s v, P s → (infect s v).err = none → P (infect s v).st
  recover : ∀ s v, P s → (recover s v).err = none → P (recover s v).st
  generation : ∀ (s : Sim) (g : Node → Option Generation), P s →
    P { s with infection_generation_ := g }
  tree : ∀ (s : Sim) (tr : List Transmission), P s → P { s with transmission_tree_ := tr }
  snapshot : ∀ (s : Sim) (m : List MacroState), P s → P { s with macro_state_vector_ := m }
  clock : ∀ (s : Sim) (t t' : Time), P s → P { s with current_time_ := t, last_event_time_ := t' }
  flip : ∀ s : Sim, P s → s.infected_node_set_ = [] → P { s with
    state_vector_ :=
      s.recovered_node_set_.foldl (fun sv node => Function.update sv node NodeState.S)
        s.state_vector_,
    recovered_node_set_ := [] }
  clear_sets : ∀ s : Sim, P s → s.kind ≠ Kind.annealed → s.infected_node_set_ = [] →
    s.recovered_node_set_ = [] → P { s with
      infection_event_set_ := s.infection_event_set_.clear,
      recovery_event_set_ := s.recovery_event_set_.clear }
  refill_sets : ∀ s : Sim, P s → s.kind = Kind.annealed → s.infected_node_set_ = [] →
    s.recovered_node_set_ = [] → P { s with
      infection_event_set_ :=
        (List.range s.size).foldl (fun w node => w.insert node 1) s.infection_event_set_.clear,
      recovery_event_set_ := s.recovery_event_set_.clear }

/-- The recovery candidates are the infected nodes, each with weight 1. -/
structure RecoveryInv (s : Sim) : Prop where
  keys_nodup : s.recovery_event_set_.keys.Nodup
  keys_iff : ∀ v, v ∈ s.recovery_event_set_.keys ↔ v ∈ s.infected_node_set_
  weight_one : ∀ p ∈ s.recovery_event_set_.items, p.2 = 1

/-- The population is as the constructors set it: every node susceptible, the two node
sets and the generation map empty. -/
structure AllSusceptible (s : Sim) : Prop where
  susceptible : ∀ v, v < s.size → s.state_vector_ v = NodeState.S
  infected_node_set_ : s.infected_node_set_ = []
  recovered_node_set_ : s.recovered_node_set_ = []
  infection_generation_ : ∀ v, s.infection_generation_ v = none

/-- The two histories and the clock agree in both states. -/
structure SameRecords (s s' : Sim) : Prop where
  macro_state_vector_ : s'.macro_state_vector_ = s.macro_state_vector_
  transmission_tree_ : s'.transmission_tree_ = s.transmission_tree_
  current_time_ : s'.current_time_ = s.current_time_
  last_event_time_ : s'.last_event_time_ = s.last_event_time_

/-- The population, the clock and the histories are as the constructors set them. -/
structure AsConstructed (s : Sim) : Prop where
  population : AllSusceptible s
  current_time_ : s.current_time_ = 0
  last_event_time_ : s.last_event_time_ = 0
  macro_state_vector_ : s.macro_state_vector_ = []
  transmission_tree_ : s.transmission_tree_ = []

/-- Number of entries of the adjacency list of `v` that are infected nodes. -/
def Sim.infected_slots (s : Sim) (v : Node) : Nat :=
  (s.network_.adjacent_nodes v).countP (fun u => decide (s.state_vector_ u = NodeState.I))

/-- The adjacency lists are made of nodes, and `u` occurs in that of `v` as often as `v`
in that of `u`. -/
structure Network.Symmetric (g : Network) : Prop where
  count_symm : ∀ u v, (g.adjacent_nodes v).count u = (g.adjacent_nodes u).count v
  lt_size : ∀ v u, u ∈ g.adjacent_nodes v → u < g.size

/-- The infection candidates of `ContinuousSIR`: the keys are susceptible nodes, none is
repeated, and a susceptible node is a key exactly when the table gives a positive rate for
the length of its infected-neighbour list, which is then its weight. -/
structure InfectionWeights (s : Sim) : Prop where
  keys_nodup : s.infection_event_set_.keys.Nodup
  key_susceptible : ∀ v ∈ s.infection_event_set_.keys,
    v < s.size ∧ s.state_vector_ v = NodeState.S
  rate : ∀ v, v < s.size → s.state_vector_ v = NodeState.S →
    ∃ r, s.infection_rate_.get? (s.infected_neighbors_vector_ v).length = some r
      ∧ (0 < r → (v, r) ∈ s.infection_event_set_.items)
      ∧ (¬ 0 < r → v ∉ s.infection_event_set_.keys)

/-- The infected-neighbour list of a susceptible node is as long as the number of infected
entries of its adjacency list; that of any other node is empty. -/
structure InfectedDegreeInv (s : Sim) : Prop where
  other : ∀ v, s.state_vector_ v ≠ NodeState.S → s.infected_neighbors_vector_ v = []
  degree : ∀ v, v < s.size → s.state_vector_ v = NodeState.S →
    (s.infected_neighbors_vector_ v).length = s.infected_slots v

/-- The invariant of the event sets of a `ContinuousSIR` whose table gives the rate 0 to
the infected degree 0. -/
def ContinuousOK (s : Sim) : Prop :=
  PopulationInv s
    ∧ (s.kind = Kind.continuous → s.infection_rate_.get? 0 = some 0 →
        Network.Symmetric s.network_ ∧ InfectionWeights s ∧ InfectedDegreeInv s)

/-- The sum, over the susceptible nodes, of the rate that `get_infection_rate` returns. -/
def ContinuousSIR.susceptible_rate_sum (s : Sim) : ℚ :=
  (((List.range s.size).filter (fun v => decide (s.state_vector_ v = NodeState.S))).map
    (fun v => (ContinuousSIR.get_infection_rate s v).getD 0)).sum

/-- The states of an `AnnealedContinuousSIR` built from the given arguments that are
reached by calls of `infect`, of `recover` and of `AnnealedContinuousSIR::clear` that
returned. -/
inductive AnnealedContinuousSIR.Reach (number_of_nodes degree : Nat) (recovery_rate : ℚ)
    (infection_rate : List ℚ) (coeff0 : Int) (rate0 : ℚ) : Sim → Prop where
  | create : AnnealedContinuousSIR.Reach number_of_nodes degree recovery_rate infection_rate
      coeff0 rate0
      (AnnealedContinuousSIR.create number_of_nodes degree recovery_rate infection_rate
        coeff0 rate0)
  | infect {s : Sim} (v : Node) :
      AnnealedContinuousSIR.Reach number_of_nodes degree recovery_rate infection_rate
        coeff0 rate0 s →
      (fastsir.infect s v).err = none →
      AnnealedContinuousSIR.Reach number_of_nodes degree recovery_rate infection_rate
        coeff0 rate0 (fastsir.infect s v).st
  | recover {s : Sim} (v : Node) :
      AnnealedContinuousSIR.Reach number_of_nodes degree recovery_rate infection_rate
        coeff0 rate0 s →
      (fastsir.recover s v).err = none →
      AnnealedContinuousSIR.Reach number_of_nodes degree recovery_rate infection_rate
        coeff0 rate0 (fastsir.recover s v).st
  | clear {s : Sim} :
      AnnealedContinuousSIR.Reach number_of_nodes degree recovery_rate infection_rate
        coeff0 rate0 s →
      (AnnealedContinuousSIR.clear s).err = none →
      AnnealedContinuousSIR.Reach number_of_nodes degree recovery_rate infection_rate
        coeff0 rate0 (AnnealedContinuousSIR.clear s).st

/-- The infection candidates of `AnnealedContinuousSIR`: the susceptible nodes, each once
and with weight 1. -/
structure AnnealedCandidates (s : Sim) : Prop where
  keys_nodup : s.infection_event_set_.keys.Nodup
  keys_iff : ∀ v, v ∈ s.infection_event_set_.keys ↔ v < s.size ∧ s.state_vector_ v = NodeState.S
  weight_one : ∀ p ∈ s.infection_event_set_.items, p.2 = 1

/-- The binomial mixing formula as the specification writes it, with the binomial
coefficients of mathematics: `Σ_{i=0}^{d} C(d,i)·ρ^i·(1-ρ)^(d-i)·rate(i)`. -/
def spec_binomial_mixing (d : Nat) (rho : ℚ) (rate : Nat → ℚ) : ℚ :=
  ∑ i ∈ Finset.range (d + 1), (Nat.choose d i : ℚ) * rho ^ i * (1 - rho) ^ (d - i) * rate i

/-- The prevalence `ρ`: the fraction of the nodes that `infected_node_set_` lists. -/
def Sim.prevalence (s : Sim) : ℚ := (s.get_number_of_infected_nodes : ℚ) / (s.size : ℚ)

/-- Source: the body of `BinomialCoefficient(n, k)` up to its `return`, statement by
statement on the work vector `aSolutions` of `k` elements: the vector after the write of
`aSolutions[0]` and `i` iterations of the loop.  Every access is checked against the
length of the vector; `none` when one falls outside it. -/
def AnnealedContinuousSIR.work_vector (n k : Nat) : Nat → Option (List Int)
  | 0 =>
    -- vector<int> aSolutions(k); aSolutions[0] = n - k + 1;
    if 0 < (List.replicate k (0 : Int)).length then
      some ((List.replicate k (0 : Int)).set 0 ((n : Int) - (k : Int) + 1))
    else none
  | i + 1 =>
    match AnnealedContinuousSIR.work_vector n k i with
    | none => none
    | some v =>
      -- aSolutions[i] = aSolutions[i - 1] * (n - k + 1 + i) / (i + 1), loop variable `i + 1`
      match v.get? i with
      | none => none
      | some prev =>
        if i + 1 < v.length then
          some (v.set (i + 1)
            (Int.tdiv (prev * ((n : Int) - (k : Int) + 1 + ((i : Int) + 1))) ((i : Int) + 1 + 1)))
        else none

/-- Source: `BinomialCoefficient(n, k)` on its work vector: the loop runs for the values
`1 .. k - 1` of its variable, then `aSolutions[k - 1]` is read; `none` when an access
falls outside the vector. -/
def AnnealedContinuousSIR.BinomialCoefficient_run (n k : Nat) : Option Int :=
  match AnnealedContinuousSIR.work_vector n k (k - 1) with
  | none => none
  | some v => if k = 0 then none else v.get? (k - 1)

/-- Every infection candidate is a susceptible node. -/
def InfectionKeysInv (s : Sim) : Prop :=
  ∀ v ∈ s.infection_event_set_.keys, v < s.size ∧ s.state_vector_ v = NodeState.S

/-- A property of the state kept by every elementary mutation of the engine, where
`infect` and `recover` are any calls, returning or not, the recovered nodes are made
susceptible once no node is infected, and the event sets are rebuilt by the `clear` of
the strategy once the two node sets are empty. -/
structure Robust (P : Sim → Prop) extends StableCore P : Prop where
  clock : ∀ (s : Sim) (t t' : Time), P s → P { s with current_time_ := t, last_event_time_ := t' }
  flip : ∀ s : Sim, P s → s.infected_node_set_ = [] → P { s with
    state_vector_ :=
      s.recovered_node_set_.foldl (fun sv node => Function.update sv node NodeState.S)
        s.state_vector_,
    recovered_node_set_ := [] }
  clear_sets : ∀ s : Sim, P s → s.kind ≠ Kind.annealed → s.infected_node_set_ = [] →
    s.recovered_node_set_ = [] → P { s with
      infection_event_set_ := s.infection_event_set_.clear,
      recovery_event_set_ := s.recovery_event_set_.clear }
  refill_sets : ∀ s : Sim, P s → s.kind = Kind.annealed → s.infected_node_set_ = [] →
    s.recovered_node_set_ = [] → P { s with
      infection_event_set_ :=
        (List.range s.size).foldl (fun w node => w.insert node 1) s.infection_event_set_.clear,
      recovery_event_set_ := s.recovery_event_set_.clear }

/-- The invariant of a `ContinuousSIR` whose network is a simple graph and whose rate table
has at least `max_degree + 1` entries; it says nothing of the other objects. -/
def ContinuousGuarded (s : Sim) : Prop :=
  s.kind = Kind.continuous → Network.Simple s.network_ →
    s.network_.max_degree_ + 1 ≤ s.infection_rate_.length →
    ContinuousInv s.network_ s.infection_rate_ s

/-- The record `t` is the one that `update_transmission_tree`, run on the batch `events`
from the state `s`, creates at the event of index `k`: that event is the infection of the
infectee of `t`; in the state reached after the events before it, the infector is the
node that `random_infected_neighbor` returns, the generation written into the record is
the generation stored for the infector, the infected degree and the time of the record
are those of the infectee and of the clock; right after the event, the generation stored
for the infectee is that of the record plus one. -/
def BaseContagion.CreatedAt (us : Nat → ℚ) (i : Nat) (events : List Event) (s : Sim)
    (t : Transmission) (k : Nat) : Prop :=
  events.get? k = some (t.infectee, Action.INFECTION)
  ∧ (BaseContagion.update_transmission_tree us i (events.take k) s).err = none
  ∧ BaseContagion.random_infected_neighbor
      (BaseContagion.update_transmission_tree us i (events.take k) s).st t.infectee (us (i + k))
      = some t.infector
  ∧ (BaseContagion.update_transmission_tree us i (events.take k) s).st.infection_generation_
      t.infector = some t.generation
  ∧ (BaseContagion.update_transmission_tree us i (events.take k) s).st.get_infected_degree
      t.infectee = some t.infected_degree
  ∧ t.time = (BaseContagion.update_transmission_tree us i (events.take k) s).st.current_time_
  ∧ (BaseContagion.update_transmission_tree us i (events.take (k + 1))
      s).st.infection_generation_ t.infectee = some (t.generation + 1)

/-- The states in which an iteration of the event loop of `evolve` starts: the states
reached by calls that returned, the state after the snapshot that `evolve` takes first,
and the states after iterations that returned. -/
inductive Visited : Sim → Prop where
  | reached {s : Sim} : Reached s → Visited s
  | store {s : Sim} : Visited s → Visited s.store_current_macro_state
  | iteration {s : Sim} (save_transmission_tree save_macro_state : Bool) (d : Draw) :
      Visited s →
      (BaseContagion.loop_body save_transmission_tree save_macro_state d s).err = none →
      Visited (BaseContagion.loop_body save_transmission_tree save_macro_state d s).st

/-- No susceptible node has an infected neighbour. -/
def Quiet (s : Sim) : Prop :=
  ∀ v, v < s.size → s.state_vector_ v = NodeState.S → s.infected_slots v = 0

/-- From the first state to the second, the constructor members are the same, the
susceptible nodes are the same, and no node became infected. -/
structure OnlyRecoveries (s s' : Sim) : Prop where
  params : SameParams s s'
  susceptible : ∀ v, s'.state_vector_ v = NodeState.S ↔ s.state_vector_ v = NodeState.S
  infected : ∀ v, s'.state_vector_ v = NodeState.I → s.state_vector_ v = NodeState.I

/-- The infection candidates of `DiscreteSIR`: every weight is a positive entry of the
propensity table. -/
def DiscreteWeights (s : Sim) : Prop :=
  s.kind = Kind.discrete →
    ∀ p ∈ s.infection_event_set_.items, 0 < p.2 ∧ p.2 ∈ s.infection_propensity_

/-- The state that an event gives to its node once it is applied. -/
def Action.outcome : Action → NodeState
  | Action.INFECTION => NodeState.I
  | Action.RECOVERY => NodeState.R

/-- The state that an event requires of its node. -/
def Action.source : Action → NodeState
  | Action.INFECTION => NodeState.S
  | Action.RECOVERY => NodeState.I

/-- The states since the construction or the last `reset()`, reached by seeding calls and
calls of `evolve` that returned, without any `clear()`, together with the nodes that the
seeding calls infected since then, in order. -/
inductive Seeded : Sim → List Node → Prop where
  | continuous (edge_list : EdgeList) (recovery_rate : ℚ) (infection_rate : List ℚ) :
      Seeded (ContinuousSIR.create edge_list recovery_rate infection_rate) []
  | discrete (edge_list : EdgeList) (recovery_probability : ℚ) (infection_probability : List ℚ)
      (neg_log1m : ℚ → ℚ) :
      Seeded (DiscreteSIR.create edge_list recovery_probability infection_probability
        neg_log1m) []
  | annealed (number_of_nodes degree : Nat) (recovery_rate : ℚ) (infection_rate : List ℚ)
      (coeff0 : Int) (rate0 : ℚ) :
      Seeded (AnnealedContinuousSIR.create number_of_nodes degree recovery_rate
        infection_rate coeff0 rate0) []
  | reset {s : Sim} :
      Reached s → (BaseContagion.reset s).err = none → Seeded (BaseContagion.reset s).st []
  | infect_node_set {s : Sim} {seeds : List Node} (node_set : List Node) :
      Seeded s seeds → (BaseContagion.infect_node_set s node_set).err = none →
      Seeded (BaseContagion.infect_node_set s node_set).st
        (seeds ++ node_set.filter (fun v => decide (s.state_vector_ v = NodeState.S)))
  | infect_fraction {s : Sim} {seeds : List Node} (fraction : ℚ) (draws : List ℚ) :
      Seeded s seeds → (BaseContagion.infect_fraction s fraction draws).err = none →
      Seeded (BaseContagion.infect_fraction s fraction draws).st
        (seeds ++ (List.range s.size).filter (fun v =>
          decide (s.state_vector_ v = NodeState.S
            ∧ (BaseContagion.infect_fraction s fraction draws).st.state_vector_ v
                = NodeState.I)))
  | evolve {s : Sim} {seeds : List Node} (period : ℚ)
      (save_transmission_tree save_macro_state : Bool) (draws : List Draw) :
      Seeded s seeds →
      (BaseContagion.evolve s period save_transmission_tree save_macro_state draws).err = none →
      Seeded (BaseContagion.evolve s period save_transmission_tree save_macro_state draws).st
        seeds

/-- The transmission tree and the seeds: no node is the infectee of two records, no seed
is the infectee of a record, and the infectees and the seeds are not susceptible. -/
structure ForestInv (s : Sim) (seeds : List Node) : Prop where
  infectee_nodup : (s.transmission_tree_.map (fun t => t.infectee)).Nodup
  infectee_state : ∀ v ∈ s.transmission_tree_.map (fun t => t.infectee),
    s.state_vector_ v ≠ NodeState.S
  seed_state : ∀ v ∈ seeds, s.state_vector_ v ≠ NodeState.S
  seed_root : ∀ v ∈ seeds, v ∉ s.transmission_tree_.map (fun t => t.infectee)

/-- The records are rooted at the seeds: every node with a stored generation is a seed or
the infectee of a record, and the infector of every record is a seed or the infectee of
an earlier record. -/
structure Rooted (s : Sim) (seeds : List Node) : Prop where
  generation_known : ∀ v, s.infection_generation_ v ≠ none →
    v ∈ seeds ∨ v ∈ s.transmission_tree_.map (fun t => t.infectee)
  infector_known : ∀ i t, s.transmission_tree_.get? i = some t →
    t.infector ∈ seeds ∨ t.infector ∈ (s.transmission_tree_.take i).map (fun t => t.infectee)

/-- A property of the state kept by the mutations of a run without `clear()` or
`reset()`: calls of `infect` and `recover` that returned, and writes of the generation
map, of the histories and of the clock. -/
structure KeptCore (P : Sim → Prop) : Prop where
  infect : ∀ s v, P s → (infect s v).err = none → P (infect s v).st
  recover : ∀ s v, P s → (recover s v).err = none → P (recover s v).st
  generation : ∀ (s : Sim) (g : Node → Option Generation), P s →
    P { s with infection_generation_ := g }
  tree : ∀ (s : Sim) (tr : List Transmission), P s → P { s with transmission_tree_ := tr }
  snapshot : ∀ (s : Sim) (m : List MacroState), P s → P { s with macro_state_vector_ := m }
  clock : ∀ (s : Sim) (t t' : Time), P s → P { s with current_time_ := t, last_event_time_ := t' }

/-- The states of a run since the construction, without `clear()` or `reset()`, in which
a call or an iteration of the event loop starts: those reached by seeding calls and calls
of `evolve` that returned, the state after the snapshot that `evolve` takes first, and
the states after iterations that returned. -/
inductive Fresh : Sim → Prop where
  | continuous (edge_list : EdgeList) (recovery_rate : ℚ) (infection_rate : List ℚ) :
      Fresh (ContinuousSIR.create edge_list recovery_rate infection_rate)
  | discrete (edge_list : EdgeList) (recovery_probability : ℚ) (infection_probability : List ℚ)
      (neg_log1m : ℚ → ℚ) :
      Fresh (DiscreteSIR.create edge_list recovery_probability infection_probability neg_log1m)
  | annealed (number_of_nodes degree : Nat) (recovery_rate : ℚ) (infection_rate : List ℚ)
      (coeff0 : Int) (rate0 : ℚ) :
      Fresh (AnnealedContinuousSIR.create number_of_nodes degree recovery_rate
        infection_rate coeff0 rate0)
  | infect_fraction {s : Sim} (fraction : ℚ) (draws : List ℚ) :
      Fresh s → (BaseContagion.infect_fraction s fraction draws).err = none →
      Fresh (BaseContagion.infect_fraction s fraction draws).st
  | infect_node_set {s : Sim} (node_set : List Node) :
      Fresh s → (BaseContagion.infect_node_set s node_set).err = none →
      Fresh (BaseContagion.infect_node_set s node_set).st
  | evolve {s : Sim} (period : ℚ) (save_transmission_tree save_macro_state : Bool)
      (draws : List Draw) :
      Fresh s →
      (BaseContagion.evolve s period save_transmission_tree save_macro_state draws).err = none →
      Fresh (BaseContagion.evolve s period save_transmission_tree save_macro_state draws).st
  | store {s : Sim} : Fresh s → Fresh s.store_current_macro_state
  | iteration {s : Sim} (save_transmission_tree save_macro_state : Bool) (d : Draw) :
      Fresh s →
      (BaseContagion.loop_body save_transmission_tree save_macro_state d s).err = none →
      Fresh (BaseContagion.loop_body save_transmission_tree save_macro_state d s).st

/-- The infected-neighbour bookkeeping of a `DiscreteSIR` on a simple graph, for the
susceptible nodes: the entry lists the infected neighbours and its index is consistent
with the list.  Nothing is said of the entry of a node that is not susceptible, which
`DiscreteSIR::infect` leaves as it is. -/
def DiscreteBook (s : Sim) : Prop :=
  s.kind = Kind.discrete → Network.Simple s.network_ →
    ∀ v, v < s.size → s.state_vector_ v = NodeState.S →
      SlotOK (s.infected_neighbors_vector_ v) (s.infected_neighbor_position_vector_ v)
      ∧ ∀ u, u ∈ s.infected_neighbors_vector_ v ↔
          u ∈ s.network_.adjacent_nodes v ∧ s.state_vector_ u = NodeState.I

/-- The states of a `ContinuousSIR` after the construction and any sequence of calls of
`infect` and `recover` that returned. -/
inductive ContinuousSIR.Called (edge_list : EdgeList) (recovery_rate : ℚ)
    (infection_rate : List ℚ) : Sim → Prop where
  | create : ContinuousSIR.Called edge_list recovery_rate infection_rate
      (ContinuousSIR.create edge_list recovery_rate infection_rate)
  | infect {s : Sim} (v : Node) :
      ContinuousSIR.Called edge_list recovery_rate infection_rate s →
      (fastsir.infect s v).err = none →
      ContinuousSIR.Called edge_list recovery_rate infection_rate (fastsir.infect s v).st
  | recover {s : Sim} (v : Node) :
      ContinuousSIR.Called edge_list recovery_rate infection_rate s →
      (fastsir.recover s v).err = none →
      ContinuousSIR.Called edge_list recovery_rate infection_rate (fastsir.recover s v).st

/-- Every infected node has an entry in `infection_generation_`. -/
def GenerationInv (s : Sim) : Prop :=
  ∀ v, v < s.size → s.state_vector_ v = NodeState.I → s.infection_generation_ v ≠ none

/-- The states reached from the construction of one of the three strategies by calls of
the public mutators that returned, every call of `evolve` having `save_transmission_tree`
set. -/
inductive Recorded : Sim → Prop where
  | continuous (edge_list : EdgeList) (recovery_rate : ℚ) (infection_rate : List ℚ) :
      Recorded (ContinuousSIR.create edge_list recovery_rate infection_rate)
  | discrete (edge_list : EdgeList) (recovery_probability : ℚ) (infection_probability : List ℚ)
      (neg_log1m : ℚ → ℚ) :
      Recorded (DiscreteSIR.create edge_list recovery_probability infection_probability neg_log1m)
  | annealed (number_of_nodes degree : Nat) (recovery_rate : ℚ) (infection_rate : List ℚ)
      (coeff0 : Int) (rate0 : ℚ) :
      Recorded (AnnealedContinuousSIR.create number_of_nodes degree recovery_rate
        infection_rate coeff0 rate0)
  | infect_fraction {s : Sim} (fraction : ℚ) (draws : List ℚ) :
      Recorded s → (BaseContagion.infect_fraction s fraction draws).err = none →
      Recorded (BaseContagion.infect_fraction s fraction draws).st
  | infect_node_set {s : Sim} (node_set : List Node) :
      Recorded s → (BaseContagion.infect_node_set s node_set).err = none →
      Recorded (BaseContagion.infect_node_set s node_set).st
  | evolve {s : Sim} (period : ℚ) (save_macro_state : Bool) (draws : List Draw) :
      Recorded s →
      (BaseContagion.evolve s period true save_macro_state draws).err = none →
      Recorded (BaseContagion.evolve s period true save_macro_state draws).st
  | base_clear {s : Sim} :
      Recorded s → (BaseContagion.clear s).err = none → Recorded (BaseContagion.clear s).st
  | clear {s : Sim} : Recorded s → (clear s).err = none → Recorded (clear s).st
  | reset {s : Sim} :
      Recorded s → (BaseContagion.reset s).err = none → Recorded (BaseContagion.reset s).st

/-- The precondition of the operation that applies an event: the node exists and is
Susceptible for an `INFECTION`, Infected for a `RECOVERY`. -/
def Applicable (s : Sim) (e : Event) : Prop :=
  e.1 < s.size ∧ s.state_vector_ e.1 = e.2.source

/-- The values that the random generator can give to the draws of one iteration in the
state `s`: the uniform draw of the continuous-time strategies is not negative, and the
Poisson draw of `DiscreteSIR` is 0 when its mean, the total weight of the infection set,
is 0. -/
def DrawSupported (s : Sim) (d : Draw) : Prop :=
  (s.kind ≠ Kind.discrete → 0 ≤ d.u)
    ∧ (s.kind = Kind.discrete → s.infection_event_set_.total_weight = 0 → d.nb_inf = 0)

/-- The draws of a run of the event loop from `s` are supported, each in the state in which
its iteration starts. -/
def BaseContagion.SupportedDraws (initial_time period : ℚ)
    (save_transmission_tree save_macro_state : Bool) : List Draw → Sim → Prop
  | [], _ => True
  | d :: ds, s =>
    BaseContagion.loop_guard s initial_time period = true →
      DrawSupported s d
      ∧ ((BaseContagion.loop_body save_transmission_tree save_macro_state d s).err = none →
          BaseContagion.SupportedDraws initial_time period save_transmission_tree
            save_macro_state ds
            (BaseContagion.loop_body save_transmission_tree save_macro_state d s).st)

/-! ## The arithmetic of `double` -/

/-- Floor of the base-2 logarithm of a positive natural number, by halving; the first
argument bounds the number of halvings. -/
def log2_floor : Nat → Nat → Nat
  | 0, _ => 0
  | fuel + 1, n => if n < 2 then 0 else log2_floor fuel (n / 2) + 1

/-- The power of 2 with an integer exponent. -/
def pow2 (e : Int) : ℚ := if 0 ≤ e then (2 : ℚ) ^ e.toNat else 1 / (2 : ℚ) ^ (-e).toNat

/-- The value of type `double` (IEEE 754 binary64, 53 significant bits) that an arithmetic
operation of the source returns when its exact result is `q`: the nearest one, the one
with an even significand in a tie.  The exponent range is not bounded (no overflow, no
subnormal number), and numerator and denominator of `q` are below `2 ^ 4096`. -/
def round_double (q : ℚ) : ℚ :=
  if q = 0 then 0 else
    let a : ℚ := |q|
    let e0 : Int := (log2_floor 4096 a.num.natAbs : Int) - (log2_floor 4096 a.den : Int)
    -- 2 ^ e ≤ a < 2 ^ (e + 1)
    let e : Int := if a < pow2 e0 then e0 - 1 else e0
    let ulp : ℚ := pow2 (e - 52)
    let m : ℚ := a / ulp
    let f : Int := ⌊m⌋
    let r : Int :=
      if m - f < 1 / 2 then f
      else if 1 / 2 < m - f then f + 1
      else if f % 2 = 0 then f else f + 1
    (if q < 0 then -1 else 1) * (r : ℚ) * ulp

namespace ContinuousSIR

/-- Source: `ContinuousSIR::get_total_rate`, each operation rounded to `double`; the two
total weights are the values that the weighted sets return. -/
def get_total_rate_double (s : Sim) : ℚ :=
  round_double (s.infection_event_set_.total_weight
    + round_double (s.recovery_rate_ * s.recovery_event_set_.total_weight))

/-- Source: `ContinuousSIR::get_lifetime` with an infected node and a total rate that is
not 0, the division rounded to `double`. -/
def get_lifetime_double (s : Sim) : ℚ := round_double (1 / get_total_rate_double s)

/-- Source: the value that the first statement of `ContinuousSIR::next_step`,
`current_time_ = last_event_time_ + get_lifetime()`, gives to the clock, the addition
rounded to `double`. -/
def next_event_time_double (s : Sim) : ℚ :=
  round_double (s.last_event_time_ + get_lifetime_double s)

/-- Source: the guard of the event loop of `evolve` with a finite lifetime,
`last_event_time_ + get_lifetime() - initial_time <= period`, each operation rounded to
`double`. -/
def loop_guard_double (s : Sim) (initial_time period : ℚ) : Bool :=
  decide (round_double (round_double (s.last_event_time_ + get_lifetime_double s)
    - initial_time) ≤ period)

end ContinuousSIR

/-! # Theorems -/

/-! ## General facts on outcomes, loops and sets -/

section Basics

@[simp] theorem Res.ok_st (s : Sim) : (Res.ok s).st = s := rfl

@[simp] theorem Res.ok_err (s : Sim) : (Res.ok s).err = none := rfl

@[simp] theorem Res.fail_st (s : Sim) (e : Err) : (Res.fail s e).st = s := rfl

@[simp] theorem Res.fail_err (s : Sim) (e : Err) : (Res.fail s e).err = some e := rfl

theorem Res.andThen_of_ok {r : Res} (f : Sim → Res) (h : r.err = none) :
    r.andThen f = f r.st := by
  simp [Res.andThen, h]

theorem Res.andThen_of_err {r : Res} (f : Sim → Res) {e : Err} (h : r.err = some e) :
    r.andThen f = r := by
  simp [Res.andThen, h]

theorem Res.andThen_cases (r : Res) (f : Sim → Res) :
    (r.err = none ∧ r.andThen f = f r.st) ∨ (r.err ≠ none ∧ r.andThen f = r) := by
  cases h : r.err with
  | none => exact Or.inl ⟨rfl, Res.andThen_of_ok f h⟩
  | some e => exact Or.inr ⟨by simp, Res.andThen_of_err f h⟩

/-- If the sequence succeeded, both of its parts did. -/
theorem Res.andThen_err_none {r : Res} {f : Sim → Res} (h : (r.andThen f).err = none) :
    r.err = none ∧ (f r.st).err = none := by
  rcases Res.andThen_cases r f with ⟨h1, h2⟩ | ⟨h1, h2⟩
  · exact ⟨h1, by rw [← h2]; exact h⟩
  · rw [h2] at h; exact absurd h h1

@[simp] theorem for_each_nil {α : Type} (body : Sim → α → Res) (s : Sim) :
    for_each body [] s = Res.ok s := rfl

@[simp] theorem for_each_cons {α : Type} (body : Sim → α → Res) (x : α) (xs : List α) (s : Sim) :
    for_each body (x :: xs) s = (body s x).andThen (for_each body xs) := rfl

/-- A reflexive and transitive relation that every run of the body satisfies is
satisfied by the whole loop, whether or not it is interrupted. -/
theorem for_each_rel {α : Type} (Rel : Sim → Sim → Prop) (hrefl : ∀ s, Rel s s)
    (htrans : ∀ a b c, Rel a b → Rel b c → Rel a c) (body : Sim → α → Res)
    (hbody : ∀ s x, Rel s (body s x).st) :
    ∀ (xs : List α) (s : Sim), Rel s (for_each body xs s).st := by
  intro xs
  induction xs with
  | nil => intro s; exact hrefl s
  | cons x xs ih =>
    intro s
    rw [for_each_cons]
    rcases Res.andThen_cases (body s x) (for_each body xs) with ⟨_, h2⟩ | ⟨_, h2⟩
    · rw [h2]; exact htrans _ _ _ (hbody s x) (ih _)
    · rw [h2]; exact hbody s x

/-- A property kept by every run of the body is kept by the loop. -/
theorem for_each_inv {α : Type} (P : Sim → Prop) (body : Sim → α → Res)
    (hbody : ∀ s x, P s → P (body s x).st) (xs : List α) (s : Sim) (h : P s) :
    P (for_each body xs s).st :=
  for_each_rel (fun a b => P a → P b) (fun _ h => h) (fun _ _ _ h1 h2 h => h2 (h1 h)) body
    hbody xs s h

/-- An error that the body never raises is not raised by the loop. -/
theorem for_each_err_ne {α : Type} (e : Err) (body : Sim → α → Res)
    (hbody : ∀ s x, (body s x).err ≠ some e) (xs : List α) (s : Sim) :
    (for_each body xs s).err ≠ some e := by
  induction xs generalizing s with
  | nil => simp
  | cons x xs ih =>
    rw [for_each_cons]
    rcases Res.andThen_cases (body s x) (for_each body xs) with ⟨_, h2⟩ | ⟨_, h2⟩
    · rw [h2]; exact ih _
    · rw [h2]; exact hbody s x

theorem mem_set_insert {l : List Node} {v u : Node} : u ∈ set_insert l v ↔ u ∈ l ∨ u = v := by
  unfold set_insert
  split
  · constructor
    · exact Or.inl
    · rintro (h | h)
      · exact h
      · subst h; assumption
  · simp

theorem mem_set_erase {l : List Node} {v u : Node} : u ∈ set_erase l v ↔ u ∈ l ∧ u ≠ v := by
  simp [set_erase]

theorem nodup_set_insert {l : List Node} (v : Node) (h : l.Nodup) : (set_insert l v).Nodup := by
  unfold set_insert
  split
  · exact h
  · rw [List.nodup_append]
    refine ⟨h, List.nodup_singleton v, ?_⟩
    intro a ha hb
    simp at hb
    subst hb
    contradiction

theorem nodup_set_erase {l : List Node} (v : Node) (h : l.Nodup) : (set_erase l v).Nodup :=
  h.filter _

end Basics


/-! ## Frames of the strategy operations -/

section Frames

theorem SameParams.refl_params (s : Sim) : SameParams s s := ⟨rfl, rfl, rfl, rfl, rfl, rfl, rfl⟩

theorem SameParams.trans_params {a b c : Sim} (h1 : SameParams a b) (h2 : SameParams b c) :
    SameParams a c :=
  ⟨h2.1.trans h1.1, h2.2.trans h1.2, h2.3.trans h1.3, h2.4.trans h1.4, h2.5.trans h1.5,
    h2.6.trans h1.6, h2.7.trans h1.7⟩

theorem SameParams.size_eq {s s' : Sim} (h : SameParams s s') : s'.size = s.size := by
  unfold Sim.size; rw [h.network_]

theorem SameHistory.refl_history (s : Sim) : SameHistory s s := ⟨rfl, rfl, rfl, rfl, rfl⟩

theorem SameHistory.trans_history {a b c : Sim} (h1 : SameHistory a b) (h2 : SameHistory b c) :
    SameHistory a c :=
  ⟨h2.1.trans h1.1, h2.2.trans h1.2, h2.3.trans h1.3, h2.4.trans h1.4, h2.5.trans h1.5⟩

theorem SameButBookkeeping.refl_bookkeeping (s : Sim) : SameButBookkeeping s s :=
  ⟨s.infected_neighbors_vector_, s.infected_neighbor_position_vector_, s.infection_event_set_, rfl⟩

theorem SameButBookkeeping.trans_bookkeeping {a b c : Sim} (h1 : SameButBookkeeping a b)
    (h2 : SameButBookkeeping b c) : SameButBookkeeping a c := by
  obtain ⟨l1, p1, w1, rfl⟩ := h1
  obtain ⟨l2, p2, w2, rfl⟩ := h2
  exact ⟨l2, p2, w2, rfl⟩

theorem SameButBookkeeping.size_eq_bookkeeping {s s' : Sim} (h : SameButBookkeeping s s') : s'.size = s.size := by
  obtain ⟨l, p, w, rfl⟩ := h; rfl

theorem update_infected_neighbors_frame {s s1 : Sim} {node : Node} {event : Event}
    (h : update_infected_neighbors s node event = some s1) : SameButBookkeeping s s1 := by
  unfold update_infected_neighbors at h
  cases ha : event.2 <;> simp only [ha] at h
  · split at h
    · simp only [Option.some.injEq] at h
      exact ⟨_, _, s.infection_event_set_, h.symm⟩
    · exact absurd h (by simp)
  · simp only [Option.some.injEq] at h
    exact ⟨_, _, s.infection_event_set_, h.symm⟩

theorem continuous_update_infection_rate_frame (s : Sim) (node : Node) (event : Event) :
    SameButBookkeeping s (ContinuousSIR.update_infection_rate s node event).st := by
  unfold ContinuousSIR.update_infection_rate
  split
  · cases h1 : update_infected_neighbors s node event with
    | none => exact SameButBookkeeping.refl_bookkeeping s
    | some s1 =>
      have hf := update_infected_neighbors_frame h1
      simp only
      cases h2 : ContinuousSIR.get_infection_rate s1 node with
      | none => exact hf
      | some new_rate =>
        simp only
        split
        · exact hf.trans_bookkeeping ⟨_, _, _, rfl⟩
        · exact hf.trans_bookkeeping ⟨_, _, _, rfl⟩
  · exact SameButBookkeeping.refl_bookkeeping s

theorem continuous_visit_neighbor_frame (event : Event) (s : Sim) (neighbor : Node) :
    SameButBookkeeping s (ContinuousSIR.visit_neighbor event s neighbor).st := by
  unfold ContinuousSIR.visit_neighbor
  split
  · split
    · exact continuous_update_infection_rate_frame s neighbor event
    · exact SameButBookkeeping.refl_bookkeeping s
  · exact SameButBookkeeping.refl_bookkeeping s

theorem discrete_update_infection_propensity_frame (s : Sim) (node : Node) (event : Event) :
    SameButBookkeeping s (DiscreteSIR.update_infection_propensity s node event).st := by
  unfold DiscreteSIR.update_infection_propensity
  split
  · cases h1 : update_infected_neighbors s node event with
    | none => exact SameButBookkeeping.refl_bookkeeping s
    | some s1 =>
      have hf := update_infected_neighbors_frame h1
      simp only
      cases h2 : DiscreteSIR.get_infection_propensity s1 node with
      | none => exact hf
      | some new_rate =>
        simp only
        split
        · exact hf.trans_bookkeeping ⟨_, _, _, rfl⟩
        · exact hf.trans_bookkeeping ⟨_, _, _, rfl⟩
  · exact SameButBookkeeping.refl_bookkeeping s

theorem discrete_visit_neighbor_frame (event : Event) (s : Sim) (neighbor : Node) :
    SameButBookkeeping s (DiscreteSIR.visit_neighbor event s neighbor).st := by
  unfold DiscreteSIR.visit_neighbor
  split
  · split
    · exact discrete_update_infection_propensity_frame s neighbor event
    · exact SameButBookkeeping.refl_bookkeeping s
  · exact SameButBookkeeping.refl_bookkeeping s

theorem continuous_neighbor_loop_frame (event : Event) (xs : List Node) (s : Sim) :
    SameButBookkeeping s (for_each (ContinuousSIR.visit_neighbor event) xs s).st :=
  for_each_rel SameButBookkeeping SameButBookkeeping.refl_bookkeeping
    (fun _ _ _ h1 h2 => h1.trans_bookkeeping h2) _ (fun s x => continuous_visit_neighbor_frame event s x) xs s

theorem discrete_neighbor_loop_frame (event : Event) (xs : List Node) (s : Sim) :
    SameButBookkeeping s (for_each (DiscreteSIR.visit_neighbor event) xs s).st :=
  for_each_rel SameButBookkeeping SameButBookkeeping.refl_bookkeeping
    (fun _ _ _ h1 h2 => h1.trans_bookkeeping h2) _ (fun s x => discrete_visit_neighbor_frame event s x) xs s

end Frames


/-! ## Effect of `infect` and `recover` on the population -/

section Effects

theorem continuous_update_infection_rate_err (s : Sim) (node : Node) (event : Event) :
    (ContinuousSIR.update_infection_rate s node event).err = none
      ∨ (ContinuousSIR.update_infection_rate s node event).err = some Err.undefined_behaviour
      ∨ (ContinuousSIR.update_infection_rate s node event).err = some Err.out_of_range := by
  unfold ContinuousSIR.update_infection_rate
  split
  · cases update_infected_neighbors s node event with
    | none => simp
    | some s1 =>
      simp only
      cases ContinuousSIR.get_infection_rate s1 node with
      | none => simp
      | some new_rate => simp only; split <;> simp
  · simp

theorem discrete_update_infection_propensity_err (s : Sim) (node : Node) (event : Event) :
    (DiscreteSIR.update_infection_propensity s node event).err = none
      ∨ (DiscreteSIR.update_infection_propensity s node event).err = some Err.undefined_behaviour
      ∨ (DiscreteSIR.update_infection_propensity s node event).err = some Err.out_of_range := by
  unfold DiscreteSIR.update_infection_propensity
  split
  · cases update_infected_neighbors s node event with
    | none => simp
    | some s1 =>
      simp only
      cases DiscreteSIR.get_infection_propensity s1 node with
      | none => simp
      | some new_rate => simp only; split <;> simp
  · simp

theorem continuous_visit_neighbor_err (event : Event) (s : Sim) (neighbor : Node) :
    (ContinuousSIR.visit_neighbor event s neighbor).err = none
      ∨ (ContinuousSIR.visit_neighbor event s neighbor).err = some Err.undefined_behaviour
      ∨ (ContinuousSIR.visit_neighbor event s neighbor).err = some Err.out_of_range := by
  unfold ContinuousSIR.visit_neighbor
  split
  · split
    · exact continuous_update_infection_rate_err s neighbor event
    · simp
  · simp

theorem discrete_visit_neighbor_err (event : Event) (s : Sim) (neighbor : Node) :
    (DiscreteSIR.visit_neighbor event s neighbor).err = none
      ∨ (DiscreteSIR.visit_neighbor event s neighbor).err = some Err.undefined_behaviour
      ∨ (DiscreteSIR.visit_neighbor event s neighbor).err = some Err.out_of_range := by
  unfold DiscreteSIR.visit_neighbor
  split
  · split
    · exact discrete_update_infection_propensity_err s neighbor event
    · simp
  · simp

/-- The loop over the neighbours raises nothing but the two access errors. -/
theorem continuous_neighbor_loop_err (event : Event) (xs : List Node) (s : Sim) (e : Err)
    (h1 : e ≠ Err.undefined_behaviour) (h2 : e ≠ Err.out_of_range) :
    (for_each (ContinuousSIR.visit_neighbor event) xs s).err ≠ some e := by
  apply for_each_err_ne
  intro s x
  rcases continuous_visit_neighbor_err event s x with h | h | h <;> rw [h] <;> simp
  · exact fun h => h1 h.symm
  · exact fun h => h2 h.symm

theorem discrete_neighbor_loop_err (event : Event) (xs : List Node) (s : Sim) (e : Err)
    (h1 : e ≠ Err.undefined_behaviour) (h2 : e ≠ Err.out_of_range) :
    (for_each (DiscreteSIR.visit_neighbor event) xs s).err ≠ some e := by
  apply for_each_err_ne
  intro s x
  rcases discrete_visit_neighbor_err event s x with h | h | h <;> rw [h] <;> simp
  · exact fun h => h1 h.symm
  · exact fun h => h2 h.symm

theorem annealed_update_meanfield_rate_frame (s : Sim) :
    ∃ m, (AnnealedContinuousSIR.update_meanfield_rate s).st
      = { s with meanfield_infection_rate_ := m } := by
  unfold AnnealedContinuousSIR.update_meanfield_rate
  simp only
  split
  · exact ⟨s.meanfield_infection_rate_, rfl⟩
  · exact ⟨_, rfl⟩

theorem annealed_update_meanfield_rate_err (s : Sim) :
    (AnnealedContinuousSIR.update_meanfield_rate s).err = none
      ∨ (AnnealedContinuousSIR.update_meanfield_rate s).err = some Err.out_of_range := by
  unfold AnnealedContinuousSIR.update_meanfield_rate
  simp only
  split <;> simp

/-- The function `infect` on a node that is not susceptible: the precondition error, nothing changed. -/
theorem infect_of_not_susceptible (s : Sim) (v : Node) (hv : v < s.size)
    (h : s.state_vector_ v ≠ NodeState.S) : infect s v = Res.fail s Err.not_susceptible := by
  unfold infect
  cases s.kind <;>
    simp [ContinuousSIR.infect, DiscreteSIR.infect, AnnealedContinuousSIR.infect, hv, h]

theorem infect_of_not_node (s : Sim) (v : Node) (hv : ¬ v < s.size) :
    infect s v = Res.fail s Err.undefined_behaviour := by
  unfold infect
  cases s.kind <;>
    simp [ContinuousSIR.infect, DiscreteSIR.infect, AnnealedContinuousSIR.infect, hv]

/-- The function `recover` on a node that is not infected: the precondition error, nothing changed. -/
theorem recover_of_not_infected (s : Sim) (v : Node) (hv : v < s.size)
    (h : s.state_vector_ v ≠ NodeState.I) : recover s v = Res.fail s Err.not_infected := by
  unfold recover
  cases s.kind <;>
    simp [ContinuousSIR.recover, DiscreteSIR.recover, AnnealedContinuousSIR.recover, hv, h]

theorem recover_of_not_node (s : Sim) (v : Node) (hv : ¬ v < s.size) :
    recover s v = Res.fail s Err.undefined_behaviour := by
  unfold recover
  cases s.kind <;>
    simp [ContinuousSIR.recover, DiscreteSIR.recover, AnnealedContinuousSIR.recover, hv]

theorem SameCore.refl_core (s : Sim) : SameCore s s :=
  ⟨rfl, rfl, rfl, SameParams.refl_params s, SameHistory.refl_history s⟩

theorem SameCore.trans_core {a b c : Sim} (h1 : SameCore a b) (h2 : SameCore b c) : SameCore a c :=
  ⟨h2.1.trans h1.1, h2.2.trans h1.2, h2.3.trans h1.3, h1.4.trans_params h2.4, h1.5.trans_history h2.5⟩

theorem SameButBookkeeping.core {s s' : Sim} (h : SameButBookkeeping s s') : SameCore s s' := by
  obtain ⟨l, p, w, rfl⟩ := h
  exact ⟨rfl, rfl, rfl, ⟨rfl, rfl, rfl, rfl, rfl, rfl, rfl⟩, ⟨rfl, rfl, rfl, rfl, rfl⟩⟩

/-- A sequence keeps a transitive relation that its two parts keep. -/
theorem Res.andThen_rel (Rel : Sim → Sim → Prop) (htrans : ∀ a b c, Rel a b → Rel b c → Rel a c)
    {s : Sim} {r : Res} {f : Sim → Res} (h1 : Rel s r.st) (h2 : ∀ s2, Rel s2 (f s2).st) :
    Rel s (r.andThen f).st := by
  rcases Res.andThen_cases r f with ⟨_, h⟩ | ⟨_, h⟩
  · rw [h]; exact htrans _ _ _ h1 (h2 _)
  · rw [h]; exact h1

theorem InfectEffect.infect_then_core {s a b : Sim} {v : Node} (h1 : InfectEffect s a v)
    (h2 : SameCore a b) : InfectEffect s b v :=
  ⟨h2.1.trans h1.1, h2.2.trans h1.2, h2.3.trans h1.3, h1.4.trans_params h2.4, h1.5.trans_history h2.5⟩

theorem RecoverEffect.recover_then_core {s a b : Sim} {v : Node} (h1 : RecoverEffect s a v)
    (h2 : SameCore a b) : RecoverEffect s b v :=
  ⟨h2.1.trans h1.1, h2.2.trans h1.2, h2.3.trans h1.3, h1.4.trans_params h2.4, h1.5.trans_history h2.5⟩

theorem continuous_infect_effect (s : Sim) (v : Node) (hv : v < s.size)
    (h : s.state_vector_ v = NodeState.S) : InfectEffect s (ContinuousSIR.infect s v).st v := by
  unfold ContinuousSIR.infect
  simp only [hv, h, if_true]
  apply InfectEffect.infect_then_core
  rotate_left
  · apply Res.andThen_rel SameCore (fun _ _ _ h1 h2 => h1.trans_core h2)
    · exact (continuous_neighbor_loop_frame _ _ _).core
    · intro s2
      exact ⟨rfl, rfl, rfl, ⟨rfl, rfl, rfl, rfl, rfl, rfl, rfl⟩, ⟨rfl, rfl, rfl, rfl, rfl⟩⟩
  · exact ⟨rfl, rfl, rfl, ⟨rfl, rfl, rfl, rfl, rfl, rfl, rfl⟩, ⟨rfl, rfl, rfl, rfl, rfl⟩⟩

theorem continuous_recover_effect (s : Sim) (v : Node) (hv : v < s.size)
    (h : s.state_vector_ v = NodeState.I) : RecoverEffect s (ContinuousSIR.recover s v).st v := by
  unfold ContinuousSIR.recover
  simp only [hv, h, if_true]
  apply RecoverEffect.recover_then_core
  rotate_left
  · apply Res.andThen_rel SameCore (fun _ _ _ h1 h2 => h1.trans_core h2)
    · exact (continuous_neighbor_loop_frame _ _ _).core
    · intro s2
      exact ⟨rfl, rfl, rfl, ⟨rfl, rfl, rfl, rfl, rfl, rfl, rfl⟩, ⟨rfl, rfl, rfl, rfl, rfl⟩⟩
  · exact ⟨rfl, rfl, rfl, ⟨rfl, rfl, rfl, rfl, rfl, rfl, rfl⟩, ⟨rfl, rfl, rfl, rfl, rfl⟩⟩

theorem discrete_infect_effect (s : Sim) (v : Node) (hv : v < s.size)
    (h : s.state_vector_ v = NodeState.S) : InfectEffect s (DiscreteSIR.infect s v).st v := by
  unfold DiscreteSIR.infect
  simp only [hv, h, if_true]
  apply InfectEffect.infect_then_core
  rotate_left
  · apply Res.andThen_rel SameCore (fun _ _ _ h1 h2 => h1.trans_core h2)
    · exact (discrete_neighbor_loop_frame _ _ _).core
    · intro s2
      exact ⟨rfl, rfl, rfl, ⟨rfl, rfl, rfl, rfl, rfl, rfl, rfl⟩, ⟨rfl, rfl, rfl, rfl, rfl⟩⟩
  · exact ⟨rfl, rfl, rfl, ⟨rfl, rfl, rfl, rfl, rfl, rfl, rfl⟩, ⟨rfl, rfl, rfl, rfl, rfl⟩⟩

theorem discrete_recover_effect (s : Sim) (v : Node) (hv : v < s.size)
    (h : s.state_vector_ v = NodeState.I) : RecoverEffect s (DiscreteSIR.recover s v).st v := by
  unfold DiscreteSIR.recover
  simp only [hv, h, if_true]
  apply RecoverEffect.recover_then_core
  rotate_left
  · apply Res.andThen_rel SameCore (fun _ _ _ h1 h2 => h1.trans_core h2)
    · exact (discrete_neighbor_loop_frame _ _ _).core
    · intro s2
      exact ⟨rfl, rfl, rfl, ⟨rfl, rfl, rfl, rfl, rfl, rfl, rfl⟩, ⟨rfl, rfl, rfl, rfl, rfl⟩⟩
  · exact ⟨rfl, rfl, rfl, ⟨rfl, rfl, rfl, rfl, rfl, rfl, rfl⟩, ⟨rfl, rfl, rfl, rfl, rfl⟩⟩

theorem annealed_update_meanfield_rate_core (s : Sim) :
    SameCore s (AnnealedContinuousSIR.update_meanfield_rate s).st := by
  obtain ⟨m, hm⟩ := annealed_update_meanfield_rate_frame s
  rw [hm]
  exact ⟨rfl, rfl, rfl, ⟨rfl, rfl, rfl, rfl, rfl, rfl, rfl⟩, ⟨rfl, rfl, rfl, rfl, rfl⟩⟩

theorem annealed_infect_effect (s : Sim) (v : Node) (hv : v < s.size)
    (h : s.state_vector_ v = NodeState.S) :
    InfectEffect s (AnnealedContinuousSIR.infect s v).st v := by
  unfold AnnealedContinuousSIR.infect
  simp only [hv, h, if_true]
  refine InfectEffect.infect_then_core ?_ (annealed_update_meanfield_rate_core _)
  exact ⟨rfl, rfl, rfl, ⟨rfl, rfl, rfl, rfl, rfl, rfl, rfl⟩, ⟨rfl, rfl, rfl, rfl, rfl⟩⟩

theorem annealed_recover_effect (s : Sim) (v : Node) (hv : v < s.size)
    (h : s.state_vector_ v = NodeState.I) :
    RecoverEffect s (AnnealedContinuousSIR.recover s v).st v := by
  unfold AnnealedContinuousSIR.recover
  simp only [hv, h, if_true]
  refine RecoverEffect.recover_then_core ?_ (annealed_update_meanfield_rate_core _)
  exact ⟨rfl, rfl, rfl, ⟨rfl, rfl, rfl, rfl, rfl, rfl, rfl⟩, ⟨rfl, rfl, rfl, rfl, rfl⟩⟩

/-- The function `infect` on a susceptible node: the population after the call, whatever the outcome. -/
theorem infect_effect (s : Sim) (v : Node) (hv : v < s.size)
    (h : s.state_vector_ v = NodeState.S) : InfectEffect s (infect s v).st v := by
  unfold infect
  cases hk : s.kind
  · exact continuous_infect_effect s v hv h
  · exact discrete_infect_effect s v hv h
  · exact annealed_infect_effect s v hv h

/-- The function `recover` on an infected node: the population after the call, whatever the outcome. -/
theorem recover_effect (s : Sim) (v : Node) (hv : v < s.size)
    (h : s.state_vector_ v = NodeState.I) : RecoverEffect s (recover s v).st v := by
  unfold recover
  cases hk : s.kind
  · exact continuous_recover_effect s v hv h
  · exact discrete_recover_effect s v hv h
  · exact annealed_recover_effect s v hv h

/-- Past its guard, `infect` raises nothing but the two access errors. -/
theorem infect_err_ne (s : Sim) (v : Node) (hv : v < s.size)
    (h : s.state_vector_ v = NodeState.S) (e : Err) (h1 : e ≠ Err.undefined_behaviour)
    (h2 : e ≠ Err.out_of_range) : (infect s v).err ≠ some e := by
  unfold infect
  cases hk : s.kind
  · simp only [ContinuousSIR.infect, hv, h, if_true]
    intro he
    rcases Res.andThen_cases (for_each (ContinuousSIR.visit_neighbor (v, Action.INFECTION))
      (s.network_.adjacent_nodes v) _) _ with ⟨_, h3⟩ | ⟨_, h3⟩
    · rw [h3] at he; simp at he
    · rw [h3] at he; exact continuous_neighbor_loop_err _ _ _ e h1 h2 he
  · simp only [DiscreteSIR.infect, hv, h, if_true]
    intro he
    rcases Res.andThen_cases (for_each (DiscreteSIR.visit_neighbor (v, Action.INFECTION))
      (s.network_.adjacent_nodes v) _) _ with ⟨_, h3⟩ | ⟨_, h3⟩
    · rw [h3] at he; simp at he
    · rw [h3] at he; exact discrete_neighbor_loop_err _ _ _ e h1 h2 he
  · simp only [AnnealedContinuousSIR.infect, hv, h, if_true]
    intro he
    rcases annealed_update_meanfield_rate_err _ with h3 | h3
    · rw [h3] at he; simp at he
    · rw [h3] at he; simp at he; exact h2 he.symm

/-- Past its guard, `recover` raises nothing but the two access errors. -/
theorem recover_err_ne (s : Sim) (v : Node) (hv : v < s.size)
    (h : s.state_vector_ v = NodeState.I) (e : Err) (h1 : e ≠ Err.undefined_behaviour)
    (h2 : e ≠ Err.out_of_range) : (recover s v).err ≠ some e := by
  unfold recover
  cases hk : s.kind
  · simp only [ContinuousSIR.recover, hv, h, if_true]
    intro he
    rcases Res.andThen_cases (for_each (ContinuousSIR.visit_neighbor (v, Action.RECOVERY))
      (s.network_.adjacent_nodes v) _) _ with ⟨_, h3⟩ | ⟨_, h3⟩
    · rw [h3] at he; simp at he
    · rw [h3] at he; exact continuous_neighbor_loop_err _ _ _ e h1 h2 he
  · simp only [DiscreteSIR.recover, hv, h, if_true]
    intro he
    rcases Res.andThen_cases (for_each (DiscreteSIR.visit_neighbor (v, Action.RECOVERY))
      (s.network_.adjacent_nodes v) _) _ with ⟨_, h3⟩ | ⟨_, h3⟩
    · rw [h3] at he; simp at he
    · rw [h3] at he; exact discrete_neighbor_loop_err _ _ _ e h1 h2 he
  · simp only [AnnealedContinuousSIR.recover, hv, h, if_true]
    intro he
    rcases annealed_update_meanfield_rate_err _ with h3 | h3
    · rw [h3] at he; simp at he
    · rw [h3] at he; simp at he; exact h2 he.symm

/-- In every case `infect` leaves the constructor members and the histories alone. -/
theorem infect_params_history (s : Sim) (v : Node) :
    SameParams s (infect s v).st ∧ SameHistory s (infect s v).st := by
  by_cases hv : v < s.size
  · by_cases h : s.state_vector_ v = NodeState.S
    · exact ⟨(infect_effect s v hv h).params, (infect_effect s v hv h).history⟩
    · rw [infect_of_not_susceptible s v hv h]; exact ⟨SameParams.refl_params s, SameHistory.refl_history s⟩
  · rw [infect_of_not_node s v hv]; exact ⟨SameParams.refl_params s, SameHistory.refl_history s⟩

/-- In every case `recover` leaves the constructor members and the histories alone. -/
theorem recover_params_history (s : Sim) (v : Node) :
    SameParams s (recover s v).st ∧ SameHistory s (recover s v).st := by
  by_cases hv : v < s.size
  · by_cases h : s.state_vector_ v = NodeState.I
    · exact ⟨(recover_effect s v hv h).params, (recover_effect s v hv h).history⟩
    · rw [recover_of_not_infected s v hv h]; exact ⟨SameParams.refl_params s, SameHistory.refl_history s⟩
  · rw [recover_of_not_node s v hv]; exact ⟨SameParams.refl_params s, SameHistory.refl_history s⟩

end Effects


/-! ## Properties kept by the engine -/

section Engine

theorem continuous_next_step_clock (s : Sim) (d : Draw) :
    ∃ t t', (ContinuousSIR.next_step s d).1.st
      = { s with current_time_ := t, last_event_time_ := t' } := by
  unfold ContinuousSIR.next_step
  cases ContinuousSIR.get_lifetime s with
  | none => exact ⟨s.current_time_, s.last_event_time_, rfl⟩
  | some l =>
    simp only
    split
    · split <;> exact ⟨_, _, rfl⟩
    · split <;> exact ⟨_, _, rfl⟩

theorem discrete_next_step_clock (s : Sim) (d : Draw) :
    ∃ t t', (DiscreteSIR.next_step s d).1.st
      = { s with current_time_ := t, last_event_time_ := t' } := by
  unfold DiscreteSIR.next_step
  cases DiscreteSIR.get_lifetime s with
  | none => exact ⟨s.current_time_, s.last_event_time_, rfl⟩
  | some l =>
    simp only
    split
    · exact ⟨_, _, rfl⟩
    · split <;> exact ⟨_, _, rfl⟩

theorem annealed_next_step_clock (s : Sim) (d : Draw) :
    ∃ t t', (AnnealedContinuousSIR.next_step s d).1.st
      = { s with current_time_ := t, last_event_time_ := t' } := by
  unfold AnnealedContinuousSIR.next_step
  cases AnnealedContinuousSIR.get_lifetime s with
  | none => exact ⟨s.current_time_, s.last_event_time_, rfl⟩
  | some l =>
    simp only
    split
    · split <;> exact ⟨_, _, rfl⟩
    · split <;> exact ⟨_, _, rfl⟩

/-- The function `next_step` writes the clock and nothing else. -/
theorem next_step_clock (s : Sim) (d : Draw) :
    ∃ t t', (next_step s d).1.st = { s with current_time_ := t, last_event_time_ := t' } := by
  unfold next_step
  split
  · exact continuous_next_step_clock s d
  · exact discrete_next_step_clock s d
  · exact annealed_next_step_clock s d

variable {P : Sim → Prop}

theorem Stable.next_step (hP : Stable P) (s : Sim) (d : Draw) (h : P s) :
    P (next_step s d).1.st := by
  obtain ⟨t, t', ht⟩ := next_step_clock s d
  rw [ht]; exact hP.clock s t t' h

theorem StableCore.update_transmission_tree (hP : StableCore P) (us : Nat → ℚ) (events : List Event) :
    ∀ (i : Nat) (s : Sim), P s → P (BaseContagion.update_transmission_tree us i events s).st := by
  induction events with
  | nil => intro i s h; exact h
  | cons event rest ih =>
    intro i s h
    unfold BaseContagion.update_transmission_tree
    cases event.2 with
    | RECOVERY => exact ih _ _ h
    | INFECTION =>
      simp only
      cases BaseContagion.random_infected_neighbor s event.1 (us i) with
      | none => exact h
      | some infector =>
        simp only
        cases s.infection_generation_ infector with
        | none => exact h
        | some generation =>
          simp only
          split
          · exact hP.generation s _ h
          · apply ih
            have h1 := hP.generation s
              (Function.update s.infection_generation_ event.1 (some (generation + 1))) h
            exact hP.tree _ _ h1

theorem StableCore.apply_events (hP : StableCore P) (events : List Event) (s : Sim) (h : P s) :
    P (BaseContagion.apply_events events s).st := by
  apply for_each_inv P _ _ events s h
  intro s event h
  unfold BaseContagion.apply_event
  cases event.2
  · exact hP.recover s _ h
  · exact hP.infect s _ h

theorem StableCore.store (hP : StableCore P) (s : Sim) (h : P s) : P s.store_current_macro_state :=
  hP.snapshot s _ h

theorem Res.andThen_inv {r : Res} {f : Sim → Res} (h1 : P r.st) (h2 : ∀ s, P s → P (f s).st) :
    P (r.andThen f).st := by
  rcases Res.andThen_cases r f with ⟨_, h⟩ | ⟨_, h⟩
  · rw [h]; exact h2 _ h1
  · rw [h]; exact h1

/-- What an iteration of the event loop does once `next_step` has returned. -/
theorem StableCore.loop_tail (hP : StableCore P) (a b : Bool) (d : Draw) (events : List Event)
    (s1 : Sim) (h1 : P s1) :
    P ((if a = true ∧ events.length > 0 then
          BaseContagion.update_transmission_tree d.infector_u 0 events s1
        else Res.ok s1).andThen fun s2 =>
        (BaseContagion.apply_events events s2).andThen fun s3 =>
          Res.ok (if b = true then s3.store_current_macro_state else s3)).st := by
  apply Res.andThen_inv
  · split
    · exact hP.update_transmission_tree _ _ _ _ h1
    · exact h1
  · intro s2 h2
    apply Res.andThen_inv (hP.apply_events _ _ h2)
    intro s3 h3
    simp only [Res.ok_st]
    split
    · exact hP.store s3 h3
    · exact h3

theorem loop_body_eq (a b : Bool) (d : Draw) (s : Sim) :
    BaseContagion.loop_body a b d s
      = (next_step s d).1.andThen fun s1 =>
          (if a = true ∧ (next_step s d).2.length > 0 then
              BaseContagion.update_transmission_tree d.infector_u 0 (next_step s d).2 s1
            else Res.ok s1).andThen fun s2 =>
            (BaseContagion.apply_events (next_step s d).2 s2).andThen fun s3 =>
              Res.ok (if b = true then s3.store_current_macro_state else s3) := rfl

theorem Stable.loop_body (hP : Stable P) (a b : Bool) (d : Draw) (s : Sim) (h : P s) :
    P (BaseContagion.loop_body a b d s).st := by
  rw [loop_body_eq]
  apply Res.andThen_inv (hP.next_step s d h)
  intro s1 h1
  exact hP.toStableCore.loop_tail a b d _ s1 h1

theorem Stable.evolve_loop (hP : Stable P) (t0 period : ℚ) (a b : Bool) (draws : List Draw) :
    ∀ s, P s → P (BaseContagion.evolve_loop t0 period a b draws s).st := by
  induction draws with
  | nil =>
    intro s h
    unfold BaseContagion.evolve_loop
    split <;> exact h
  | cons d ds ih =>
    intro s h
    unfold BaseContagion.evolve_loop
    split
    · simp only
      split
      · exact hP.loop_body a b d s h
      · exact ih _ (hP.loop_body a b d s h)
    · exact h

theorem Stable.evolve (hP : Stable P) (s : Sim) (period : ℚ) (a b : Bool) (draws : List Draw)
    (h : P s) : P (BaseContagion.evolve s period a b draws).st := by
  unfold BaseContagion.evolve
  simp only
  have h0 : P (if b = true ∧ s.macro_state_vector_.length = 0
      then s.store_current_macro_state else s) := by
    split
    · exact hP.store s h
    · exact h
  have h1 := hP.evolve_loop (if b = true ∧ s.macro_state_vector_.length = 0
      then s.store_current_macro_state else s).current_time_ period a b draws _ h0
  split
  · exact h1
  · exact hP.clock _ _ _ h1

theorem Stable.infect_fraction_loop (hP : Stable P) (n : Nat) (draws : List ℚ) :
    ∀ (count : Nat) (s : Sim), P s →
      P (BaseContagion.infect_fraction_loop n draws count s).st := by
  induction draws with
  | nil =>
    intro count s h
    unfold BaseContagion.infect_fraction_loop
    split <;> exact h
  | cons u us ih =>
    intro count s h
    unfold BaseContagion.infect_fraction_loop
    split
    · simp only
      split
      · split
        · apply Res.andThen_inv (hP.infect s _ h)
          intro s1 h1
          exact ih _ _ (hP.generation s1 _ h1)
        · exact ih _ _ h
      · exact h
    · exact h

theorem Stable.infect_fraction (hP : Stable P) (s : Sim) (fraction : ℚ) (draws : List ℚ)
    (h : P s) : P (BaseContagion.infect_fraction s fraction draws).st :=
  hP.infect_fraction_loop _ draws 0 s h

theorem Stable.infect_node_set (hP : Stable P) (s : Sim) (node_set : List Node) (h : P s) :
    P (BaseContagion.infect_node_set s node_set).st := by
  apply for_each_inv P _ _ node_set s h
  intro s node h
  unfold BaseContagion.infect_node_set_body
  split
  · split
    · apply Res.andThen_inv (hP.infect s _ h)
      intro s1 h1
      exact hP.generation s1 _ h1
    · exact h
  · exact h

theorem Stable.base_clear (hP : Stable P) (s : Sim) (h : P s) :
    P (BaseContagion.clear s).st := by
  unfold BaseContagion.clear
  simp only
  apply Res.andThen_inv (for_each_inv P _ (fun s v h => hP.recover s v h) _ s h)
  intro s1 h1
  exact hP.generation _ _ (hP.flip s1 h1)

theorem Stable.reset (hP : Stable P) (s : Sim) (h : P s) : P (BaseContagion.reset s).st := by
  unfold BaseContagion.reset
  apply Res.andThen_inv (hP.base_clear s h)
  intro s1 h1
  exact hP.clock _ 0 0 (hP.tree _ [] (hP.snapshot s1 [] h1))

theorem Stable.derived_clear (hP : Stable P) (s : Sim) (h : P s) : P (fastsir.clear s).st := by
  unfold fastsir.clear
  split
  · apply Res.andThen_inv (hP.base_clear s h)
    intro s1 h1
    exact hP.clear_sets s1 h1
  · apply Res.andThen_inv (hP.base_clear s h)
    intro s1 h1
    exact hP.clear_sets s1 h1
  · apply Res.andThen_inv (hP.base_clear s h)
    intro s1 h1
    exact hP.refill_sets s1 h1

/-- A stable property that holds after every construction holds in every reachable state. -/
theorem Stable.reachable (hP : Stable P)
    (hc : ∀ el rr rates, P (ContinuousSIR.create el rr rates))
    (hd : ∀ el rp probs f, P (DiscreteSIR.create el rp probs f))
    (ha : ∀ n d rr rates c0 r0, P (AnnealedContinuousSIR.create n d rr rates c0 r0))
    {s : Sim} (h : Reachable s) : P s := by
  induction h with
  | continuous el rr rates => exact hc el rr rates
  | discrete el rp probs f => exact hd el rp probs f
  | annealed n d rr rates c0 r0 => exact ha n d rr rates c0 r0
  | infect_fraction fraction draws _ ih => exact hP.infect_fraction _ fraction draws ih
  | infect_node_set node_set _ ih => exact hP.infect_node_set _ node_set ih
  | evolve period a b draws _ ih => exact hP.evolve _ period a b draws ih
  | base_clear _ ih => exact hP.base_clear _ ih
  | clear _ ih => exact hP.derived_clear _ ih
  | reset _ ih => exact hP.reset _ ih

end Engine


/-! ## The population invariant -/

section Population

theorem foldl_update_apply (l : List Node) (sv : Node → NodeState) (u : Node) :
    (l.foldl (fun sv node => Function.update sv node NodeState.S) sv) u
      = if u ∈ l then NodeState.S else sv u := by
  induction l generalizing sv with
  | nil => simp
  | cons a l ih =>
    rw [List.foldl_cons, ih]
    by_cases h1 : u ∈ l
    · simp [h1]
    · by_cases h2 : u = a
      · subst h2; simp [h1]
      · simp [h1, h2, Function.update_noteq h2]

theorem PopulationInv.of_infect {s s' : Sim} {v : Node} (h : PopulationInv s) (hv : v < s.size)
    (hs : s.state_vector_ v = NodeState.S) (he : InfectEffect s s' v) : PopulationInv s' := by
  have hsize : s'.size = s.size := he.params.size_eq
  refine ⟨?_, ?_, ?_, ?_⟩
  · rw [he.infected_node_set_]; exact nodup_set_insert v h.infected_nodup
  · rw [he.recovered_node_set_]; exact h.recovered_nodup
  · intro u
    rw [he.infected_node_set_, he.state_vector_, hsize, mem_set_insert, h.infected_iff]
    by_cases huv : u = v
    · subst huv; simp [hv]
    · simp [huv, Function.update_noteq huv]
  · intro u
    rw [he.recovered_node_set_, he.state_vector_, hsize, h.recovered_iff]
    by_cases huv : u = v
    · subst huv; simp [hs]
    · simp [Function.update_noteq huv]

theorem PopulationInv.of_recover {s s' : Sim} {v : Node} (h : PopulationInv s) (hv : v < s.size)
    (hs : s.state_vector_ v = NodeState.I) (he : RecoverEffect s s' v) : PopulationInv s' := by
  have hsize : s'.size = s.size := he.params.size_eq
  refine ⟨?_, ?_, ?_, ?_⟩
  · rw [he.infected_node_set_]; exact nodup_set_erase v h.infected_nodup
  · rw [he.recovered_node_set_]; exact nodup_set_insert v h.recovered_nodup
  · intro u
    rw [he.infected_node_set_, he.state_vector_, hsize, mem_set_erase, h.infected_iff]
    by_cases huv : u = v
    · subst huv; simp
    · simp [huv, Function.update_noteq huv]
  · intro u
    rw [he.recovered_node_set_, he.state_vector_, hsize, mem_set_insert, h.recovered_iff]
    by_cases huv : u = v
    · subst huv; simp [hv]
    · simp [huv, Function.update_noteq huv]

theorem PopulationInv.infect (s : Sim) (v : Node) (h : PopulationInv s) :
    PopulationInv (infect s v).st := by
  by_cases hv : v < s.size
  · by_cases hs : s.state_vector_ v = NodeState.S
    · exact h.of_infect hv hs (infect_effect s v hv hs)
    · rw [infect_of_not_susceptible s v hv hs]; exact h
  · rw [infect_of_not_node s v hv]; exact h

theorem PopulationInv.recover (s : Sim) (v : Node) (h : PopulationInv s) :
    PopulationInv (recover s v).st := by
  by_cases hv : v < s.size
  · by_cases hs : s.state_vector_ v = NodeState.I
    · exact h.of_recover hv hs (recover_effect s v hv hs)
    · rw [recover_of_not_infected s v hv hs]; exact h
  · rw [recover_of_not_node s v hv]; exact h

theorem PopulationInv.population_stable : Stable PopulationInv where
  infect := PopulationInv.infect
  recover := PopulationInv.recover
  generation := fun _ _ h => ⟨h.1, h.2, h.3, h.4⟩
  tree := fun _ _ h => ⟨h.1, h.2, h.3, h.4⟩
  snapshot := fun _ _ h => ⟨h.1, h.2, h.3, h.4⟩
  clock := fun _ _ _ h => ⟨h.1, h.2, h.3, h.4⟩
  clear_sets := fun _ h => ⟨h.1, h.2, h.3, h.4⟩
  refill_sets := fun _ h => ⟨h.1, h.2, h.3, h.4⟩
  flip := by
    intro s h
    refine ⟨h.1, List.nodup_nil, ?_, ?_⟩
    · intro u
      show u ∈ s.infected_node_set_ ↔ u < s.size ∧
        (s.recovered_node_set_.foldl (fun sv node => Function.update sv node NodeState.S)
          s.state_vector_) u = NodeState.I
      rw [foldl_update_apply, h.infected_iff]
      by_cases hu : u ∈ s.recovered_node_set_
      · have := (h.recovered_iff u).1 hu
        simp [hu, this.2]
      · simp [hu]
    · intro u
      show u ∈ ([] : List Node) ↔ u < s.size ∧
        (s.recovered_node_set_.foldl (fun sv node => Function.update sv node NodeState.S)
          s.state_vector_) u = NodeState.R
      rw [foldl_update_apply]
      by_cases hu : u ∈ s.recovered_node_set_
      · simp [hu]
      · have := (h.recovered_iff u).not.1 hu
        simp only [hu, if_false, List.not_mem_nil, false_iff]
        exact this

theorem PopulationInv.population_of_fresh (s : Sim) (h1 : s.infected_node_set_ = [])
    (h2 : s.recovered_node_set_ = []) (h3 : ∀ v, s.state_vector_ v = NodeState.S) :
    PopulationInv s := by
  refine ⟨by rw [h1]; exact List.nodup_nil, by rw [h2]; exact List.nodup_nil, ?_, ?_⟩
  · intro v; simp [h1, h3]
  · intro v; simp [h2, h3]

/-- The population invariant holds in every reachable state. -/
theorem PopulationInv.population_of_reachable {s : Sim} (h : Reachable s) : PopulationInv s :=
  PopulationInv.population_stable.reachable
    (fun _ _ _ => PopulationInv.population_of_fresh _ rfl rfl (fun _ => rfl))
    (fun _ _ _ _ => PopulationInv.population_of_fresh _ rfl rfl (fun _ => rfl))
    (fun _ _ _ _ _ _ => PopulationInv.population_of_fresh _ rfl rfl (fun _ => rfl)) h

/-- A list without repetition that lists the nodes satisfying `p` has as many elements as
there are such nodes. -/
theorem length_eq_count {l : List Node} {n : Nat} {p : Node → Prop} [DecidablePred p]
    (hl : l.Nodup) (hmem : ∀ v, v ∈ l ↔ v < n ∧ p v) :
    l.length = ((List.range n).filter (fun v => decide (p v))).length := by
  apply List.Perm.length_eq
  rw [List.perm_ext_iff_of_nodup hl ((List.nodup_range n).filter _)]
  intro v
  simp [hmem]

theorem count_partition (f : Node → NodeState) (l : List Node) :
    (l.filter (fun v => decide (f v = NodeState.S))).length
      + (l.filter (fun v => decide (f v = NodeState.I))).length
      + (l.filter (fun v => decide (f v = NodeState.R))).length = l.length := by
  induction l with
  | nil => rfl
  | cons a l ih =>
    cases h : f a <;> simp [List.filter_cons, h] <;> omega

theorem count_state_sum (s : Sim) :
    count_state s NodeState.S + count_state s NodeState.I + count_state s NodeState.R = s.size := by
  unfold count_state
  rw [count_partition s.state_vector_ (List.range s.size), List.length_range]

theorem PopulationInv.macro_state {s : Sim} (h : PopulationInv s) (hN : s.size < 2 ^ 64) :
    s.get_current_macro_state
      = ⟨s.current_time_, count_state s NodeState.S, count_state s NodeState.I,
          count_state s NodeState.R⟩ := by
  have hI : s.infected_node_set_.length = count_state s NodeState.I :=
    length_eq_count h.infected_nodup h.infected_iff
  have hR : s.recovered_node_set_.length = count_state s NodeState.R :=
    length_eq_count h.recovered_nodup h.recovered_iff
  have hsum := count_state_sum s
  unfold Sim.get_current_macro_state
  rw [hI, hR]
  congr 1
  have e : ((s.size : Int) - (count_state s NodeState.I : Int) - (count_state s NodeState.R : Int))
      = ((count_state s NodeState.S : Nat) : Int) := by omega
  rw [e]
  have hlt : count_state s NodeState.S < 2 ^ 64 := by omega
  have : ((count_state s NodeState.S : Nat) : Int) % 2 ^ 64 = (count_state s NodeState.S : Int) := by
    apply Int.emod_eq_of_lt
    · exact Int.ofNat_nonneg _
    · exact_mod_cast hlt
  rw [this]
  exact Int.toNat_natCast _

end Population

/-! ## C1 -/

/-- C1. In every state reachable from the construction of any of the three strategies by
calls of `infect_fraction`, `infect_node_set`, `evolve`, `clear` and `reset`, the set
`infected_node_set_` holds exactly the nodes whose state is `I`, `recovered_node_set_`
exactly those whose state is `R`, and the snapshot returned by `get_current_macro_state`
and appended by `store_current_macro_state` carries the numbers of susceptible, infected
and recovered nodes, which sum to the number of nodes. -/
theorem C1_population_counts (s : Sim) (h : Reachable s) (hN : s.size < 2 ^ 64) :
    (∀ v, v ∈ s.infected_node_set_ ↔ v < s.size ∧ s.state_vector_ v = NodeState.I)
    ∧ (∀ v, v ∈ s.recovered_node_set_ ↔ v < s.size ∧ s.state_vector_ v = NodeState.R)
    ∧ s.infected_node_set_.Nodup ∧ s.recovered_node_set_.Nodup
    ∧ s.get_current_macro_state
        = ⟨s.current_time_, count_state s NodeState.S, count_state s NodeState.I,
            count_state s NodeState.R⟩
    ∧ s.store_current_macro_state.macro_state_vector_
        = s.macro_state_vector_ ++ [⟨s.current_time_, count_state s NodeState.S,
            count_state s NodeState.I, count_state s NodeState.R⟩]
    ∧ s.get_current_macro_state.nS + s.get_current_macro_state.nI
        + s.get_current_macro_state.nR = s.size := by
  have hp := PopulationInv.population_of_reachable h
  have hm := hp.macro_state hN
  refine ⟨hp.infected_iff, hp.recovered_iff, hp.infected_nodup, hp.recovered_nodup, hm, ?_, ?_⟩
  · unfold Sim.store_current_macro_state
    rw [hm]
  · rw [hm]
    exact count_state_sum s

/-- Instance of C1: a two-node continuous-time simulation after seeding node 0. -/
theorem C1_population_counts_witness :
    (BaseContagion.infect_node_set (ContinuousSIR.create [(0, 1)] 1 [0, 2]) [0]).st.size < 2 ^ 64
    ∧ (BaseContagion.infect_node_set (ContinuousSIR.create [(0, 1)] 1 [0, 2])
        [0]).st.get_current_macro_state
      = ⟨(BaseContagion.infect_node_set (ContinuousSIR.create [(0, 1)] 1 [0, 2])
          [0]).st.current_time_,
        count_state (BaseContagion.infect_node_set (ContinuousSIR.create [(0, 1)] 1 [0, 2]) [0]).st
          NodeState.S,
        count_state (BaseContagion.infect_node_set (ContinuousSIR.create [(0, 1)] 1 [0, 2]) [0]).st
          NodeState.I,
        count_state (BaseContagion.infect_node_set (ContinuousSIR.create [(0, 1)] 1 [0, 2]) [0]).st
          NodeState.R⟩ :=
  ⟨by decide,
    (C1_population_counts
      (BaseContagion.infect_node_set (ContinuousSIR.create [(0, 1)] 1 [0, 2]) [0]).st
      (Reachable.infect_node_set [0] (Reachable.continuous [(0, 1)] 1 [0, 2]))
      (by decide)).2.2.2.2.1⟩


/-! ## C4, C5: the preconditions of `infect` and `recover` -/

section Preconditions

theorem SamplableSet.mem_keys_erase (w : SamplableSet) (k u : Node) :
    u ∈ (w.erase k).keys ↔ u ∈ w.keys ∧ u ≠ k := by
  simp only [SamplableSet.keys, SamplableSet.erase, List.mem_map, List.mem_filter]
  constructor
  · rintro ⟨p, ⟨hp, hk⟩, rfl⟩
    exact ⟨⟨p, hp, rfl⟩, by simpa using hk⟩
  · rintro ⟨⟨p, hp, rfl⟩, hk⟩
    exact ⟨p, ⟨hp, by simpa using hk⟩, rfl⟩

/-- After a call of `recover` that returned, the recovery candidates are the former ones
without the node. -/
theorem recover_recovery_event_set (s : Sim) (v : Node) (h : (recover s v).err = none) :
    (recover s v).st.recovery_event_set_ = s.recovery_event_set_.erase v := by
  by_cases hv : v < s.size
  swap
  · rw [recover_of_not_node s v hv] at h; simp at h
  by_cases hs : s.state_vector_ v = NodeState.I
  swap
  · rw [recover_of_not_infected s v hv hs] at h; simp at h
  unfold recover at h ⊢
  split at h
  · simp only [ContinuousSIR.recover, hv, hs, if_true] at h ⊢
    have h1 := (Res.andThen_err_none h).1
    rw [Res.andThen_of_ok _ h1]
    obtain ⟨l, p, w, hl⟩ := continuous_neighbor_loop_frame (v, Action.RECOVERY)
      (s.network_.adjacent_nodes v) { s with
        state_vector_ := Function.update s.state_vector_ v NodeState.R,
        infected_node_set_ := set_erase s.infected_node_set_ v,
        recovered_node_set_ := set_insert s.recovered_node_set_ v }
    simp only [Res.ok_st]
    rw [hl]
  · simp only [DiscreteSIR.recover, hv, hs, if_true] at h ⊢
    have h1 := (Res.andThen_err_none h).1
    rw [Res.andThen_of_ok _ h1]
    obtain ⟨l, p, w, hl⟩ := discrete_neighbor_loop_frame (v, Action.RECOVERY)
      (s.network_.adjacent_nodes v) { s with
        state_vector_ := Function.update s.state_vector_ v NodeState.R,
        infected_node_set_ := set_erase s.infected_node_set_ v,
        recovered_node_set_ := set_insert s.recovered_node_set_ v }
    simp only [Res.ok_st]
    rw [hl]
  · simp only [AnnealedContinuousSIR.recover, hv, hs, if_true] at h ⊢
    obtain ⟨m, hm⟩ := annealed_update_meanfield_rate_frame { s with
        state_vector_ := Function.update s.state_vector_ v NodeState.R,
        infected_node_set_ := set_erase s.infected_node_set_ v,
        recovered_node_set_ := set_insert s.recovered_node_set_ v,
        recovery_event_set_ := s.recovery_event_set_.erase v }
    rw [hm]

theorem infect_err_not_susceptible_iff (s : Sim) (v : Node) (hv : v < s.size) :
    (infect s v).err = some Err.not_susceptible ↔ s.state_vector_ v ≠ NodeState.S := by
  constructor
  · intro h hs
    exact infect_err_ne s v hv hs Err.not_susceptible (by decide) (by decide) h
  · intro hs
    rw [infect_of_not_susceptible s v hv hs]; rfl

theorem recover_err_not_infected_iff (s : Sim) (v : Node) (hv : v < s.size) :
    (recover s v).err = some Err.not_infected ↔ s.state_vector_ v ≠ NodeState.I := by
  constructor
  · intro h hs
    exact recover_err_ne s v hv hs Err.not_infected (by decide) (by decide) h
  · intro hs
    rw [recover_of_not_infected s v hv hs]; rfl

/-- A call that returned had passed its guard. -/
theorem infect_ok_susceptible (s : Sim) (v : Node) (h : (infect s v).err = none) :
    v < s.size ∧ s.state_vector_ v = NodeState.S := by
  by_cases hv : v < s.size
  · refine ⟨hv, ?_⟩
    by_contra hs
    rw [infect_of_not_susceptible s v hv hs] at h; simp at h
  · rw [infect_of_not_node s v hv] at h; simp at h

theorem recover_ok_infected (s : Sim) (v : Node) (h : (recover s v).err = none) :
    v < s.size ∧ s.state_vector_ v = NodeState.I := by
  by_cases hv : v < s.size
  · refine ⟨hv, ?_⟩
    by_contra hs
    rw [recover_of_not_infected s v hv hs] at h; simp at h
  · rw [recover_of_not_node s v hv] at h; simp at h

end Preconditions

/-- The precondition error of `infect`. For each strategy and each node `v` of the network, `infect(v)` raises its
precondition error exactly when `v` is not susceptible, and the state is then unchanged;
after a call of `infect(v)` that returned, `v` is infected, so every further `infect(v)`
raises the precondition error and leaves the state as the first call left it. On a
susceptible node the call returns, unless a lookup in a table or a list fails. -/
theorem infect_precondition_error (s : Sim) (v : Node) (hv : v < s.size) :
    ((infect s v).err = some Err.not_susceptible ↔ s.state_vector_ v ≠ NodeState.S)
    ∧ (s.state_vector_ v ≠ NodeState.S → infect s v = Res.fail s Err.not_susceptible)
    ∧ ((infect s v).err = none →
        (infect s v).st.state_vector_ v = NodeState.I
        ∧ infect (infect s v).st v = Res.fail (infect s v).st Err.not_susceptible
        ∧ ∀ n : Nat, (fun st => (infect st v).st)^[n] (infect s v).st = (infect s v).st)
    ∧ (s.state_vector_ v = NodeState.S →
        (infect s v).err = none ∨ (infect s v).err = some Err.out_of_range
        ∨ (infect s v).err = some Err.undefined_behaviour) := by
  refine ⟨infect_err_not_susceptible_iff s v hv, infect_of_not_susceptible s v hv, ?_, ?_⟩
  rotate_left
  · intro hS
    have hne := infect_err_ne s v hv hS
    cases he : (infect s v).err with
    | none => exact Or.inl rfl
    | some e =>
      cases e
      case out_of_range => exact Or.inr (Or.inl rfl)
      case undefined_behaviour => exact Or.inr (Or.inr rfl)
      all_goals exact absurd he (hne _ (by decide) (by decide))
  intro h
  have hs := (infect_ok_susceptible s v h).2
  have he := infect_effect s v hv hs
  have hI : (infect s v).st.state_vector_ v = NodeState.I := by
    rw [he.state_vector_]; simp
  have hv' : v < (infect s v).st.size := by rw [he.params.size_eq]; exact hv
  have hfail : infect (infect s v).st v = Res.fail (infect s v).st Err.not_susceptible :=
    infect_of_not_susceptible _ v hv' (by rw [hI]; decide)
  refine ⟨hI, hfail, ?_⟩
  intro n
  induction n with
  | zero => rfl
  | succ n ih => rw [Function.iterate_succ_apply, hfail]; exact ih

/-- An instance: seeding node 0 of a two-node network twice, for the discrete strategy. -/
theorem infect_precondition_error_instance :
    0 < (DiscreteSIR.create [(0, 1)] 1 [0, 1] (fun p => p)).size
    ∧ (infect (infect (DiscreteSIR.create [(0, 1)] 1 [0, 1] (fun p => p)) 0).st 0).err
        = some Err.not_susceptible := by
  have h := infect_precondition_error (DiscreteSIR.create [(0, 1)] 1 [0, 1] (fun p => p)) 0
    (by decide)
  refine ⟨by decide, ?_⟩
  rw [(h.2.2.1 (by with_unfolding_all decide)).2.1]
  rfl

/-- The precondition error of `recover`. For each strategy and each node `v` of the network, `recover(v)` raises its
precondition error exactly when `v` is not infected, and the state is then unchanged;
when the call returns, `v` is recovered, it has left `infected_node_set_` and the recovery
candidates and has entered `recovered_node_set_`, and no other node changed state. On an
infected node the call returns, unless a lookup in a table or a list fails. -/
theorem recover_precondition_error (s : Sim) (v : Node) (hv : v < s.size) :
    ((recover s v).err = some Err.not_infected ↔ s.state_vector_ v ≠ NodeState.I)
    ∧ (s.state_vector_ v ≠ NodeState.I → recover s v = Res.fail s Err.not_infected)
    ∧ ((recover s v).err = none →
        s.state_vector_ v = NodeState.I
        ∧ (recover s v).st.state_vector_ v = NodeState.R
        ∧ (∀ u, u ≠ v → (recover s v).st.state_vector_ u = s.state_vector_ u)
        ∧ (recover s v).st.infected_node_set_ = set_erase s.infected_node_set_ v
        ∧ v ∉ (recover s v).st.infected_node_set_
        ∧ (recover s v).st.recovered_node_set_ = set_insert s.recovered_node_set_ v
        ∧ v ∈ (recover s v).st.recovered_node_set_
        ∧ (recover s v).st.recovery_event_set_ = s.recovery_event_set_.erase v
        ∧ v ∉ (recover s v).st.recovery_event_set_.keys)
    ∧ (s.state_vector_ v = NodeState.I →
        (recover s v).err = none ∨ (recover s v).err = some Err.out_of_range
        ∨ (recover s v).err = some Err.undefined_behaviour) := by
  refine ⟨recover_err_not_infected_iff s v hv, recover_of_not_infected s v hv, ?_, ?_⟩
  rotate_left
  · intro hI
    have hne := recover_err_ne s v hv hI
    cases he : (recover s v).err with
    | none => exact Or.inl rfl
    | some e =>
      cases e
      case out_of_range => exact Or.inr (Or.inl rfl)
      case undefined_behaviour => exact Or.inr (Or.inr rfl)
      all_goals exact absurd he (hne _ (by decide) (by decide))
  intro h
  have hs := (recover_ok_infected s v h).2
  have he := recover_effect s v hv hs
  have hw := recover_recovery_event_set s v h
  refine ⟨hs, ?_, ?_, he.infected_node_set_, ?_, he.recovered_node_set_, ?_, hw, ?_⟩
  · rw [he.state_vector_]; simp
  · intro u hu; rw [he.state_vector_]; exact Function.update_noteq hu _ _
  · rw [he.infected_node_set_, mem_set_erase]; simp
  · rw [he.recovered_node_set_, mem_set_insert]; simp
  · rw [hw, SamplableSet.mem_keys_erase]; simp

/-- An instance: recovery of the seeded node 1 of a path of three nodes. -/
theorem recover_precondition_error_instance :
    1 < (infect (ContinuousSIR.create [(0, 1), (1, 2)] 1 [0, 2, 3]) 1).st.size
    ∧ (recover (infect (ContinuousSIR.create [(0, 1), (1, 2)] 1 [0, 2, 3]) 1).st
        1).st.state_vector_ 1 = NodeState.R := by
  have h := recover_precondition_error
    (infect (ContinuousSIR.create [(0, 1), (1, 2)] 1 [0, 2, 3]) 1).st 1 (by decide)
  exact ⟨by decide, (h.2.2.1 (by with_unfolding_all decide)).2.1⟩


/-! ## C9, C10: no infected node -/

section Exhausted

theorem get_lifetime_of_no_infected (s : Sim) (h : s.infected_node_set_ = []) :
    get_lifetime s = none := by
  unfold get_lifetime
  split <;>
    simp [ContinuousSIR.get_lifetime, DiscreteSIR.get_lifetime,
      AnnealedContinuousSIR.get_lifetime, h]

theorem loop_guard_of_no_infected (s : Sim) (h : s.infected_node_set_ = []) (t0 period : ℚ) :
    BaseContagion.loop_guard s t0 period = false := by
  unfold BaseContagion.loop_guard
  rw [get_lifetime_of_no_infected s h]

theorem evolve_loop_of_guard_false (s : Sim) (t0 period : ℚ) (a b : Bool) (draws : List Draw)
    (h : BaseContagion.loop_guard s t0 period = false) :
    BaseContagion.evolve_loop t0 period a b draws s = ⟨s, none, []⟩ := by
  cases draws <;> simp [BaseContagion.evolve_loop, h]

end Exhausted

/-- C9. For each strategy `get_lifetime()` is `+infinity` when `infected_node_set_` is
empty; for `DiscreteSIR` it is exactly 1 otherwise; an `AnnealedContinuousSIR` with 1000
nodes and degree 4 has lifetime `+infinity` right after construction, whatever value the
uninitialised mean-field rate holds. -/
theorem C9_lifetime (s : Sim) :
    (s.infected_node_set_ = [] → get_lifetime s = none)
    ∧ (s.kind = Kind.discrete → s.infected_node_set_ ≠ [] → get_lifetime s = some 1)
    ∧ (∀ (recovery_rate : ℚ) (infection_rate : List ℚ) (coeff0 : Int) (rate0 : ℚ),
        get_lifetime
          (AnnealedContinuousSIR.create 1000 4 recovery_rate infection_rate coeff0 rate0) = none) := by
  refine ⟨get_lifetime_of_no_infected s, ?_, ?_⟩
  · intro hk hne
    unfold get_lifetime
    rw [hk]
    simp only [DiscreteSIR.get_lifetime]
    rw [if_neg]
    simpa using hne
  · intro rr rates c0 r0
    exact get_lifetime_of_no_infected _ rfl

/-- Instance of C9: the discrete strategy on one edge, before and after seeding node 0. -/
theorem C9_lifetime_witness :
    get_lifetime (DiscreteSIR.create [(0, 1)] 1 [0, 1] (fun p => p)) = none
    ∧ get_lifetime (infect (DiscreteSIR.create [(0, 1)] 1 [0, 1] (fun p => p)) 0).st = some 1 :=
  ⟨(C9_lifetime (DiscreteSIR.create [(0, 1)] 1 [0, 1] (fun p => p))).1 rfl,
    (C9_lifetime (infect (DiscreteSIR.create [(0, 1)] 1 [0, 1] (fun p => p)) 0).st).2.1
      (by decide) (by decide)⟩

/-- C10. In a reachable state where no node is infected, `evolve` applies no event: it
returns the state it found, with the clock advanced by `period` and, when the macro-state
history was empty and its recording is requested, with one snapshot appended; it consumes
no random draw and stamps no event time. -/
theorem C10_evolve_without_infected (s : Sim) (h : Reachable s)
    (hI : ∀ v, v < s.size → s.state_vector_ v ≠ NodeState.I) (period : ℚ)
    (save_transmission_tree save_macro_state : Bool) (draws : List Draw) :
    BaseContagion.evolve s period save_transmission_tree save_macro_state draws
      = ⟨{ s with
            current_time_ := s.current_time_ + period,
            macro_state_vector_ :=
              if save_macro_state = true ∧ s.macro_state_vector_ = [] then
                [s.get_current_macro_state]
              else s.macro_state_vector_ },
          none, []⟩ := by
  have hp := PopulationInv.population_of_reachable h
  have hempty : s.infected_node_set_ = [] := by
    apply List.eq_nil_iff_forall_not_mem.2
    intro v hv
    have := (hp.infected_iff v).1 hv
    exact hI v this.1 this.2
  unfold BaseContagion.evolve
  by_cases hb : save_macro_state = true ∧ s.macro_state_vector_ = []
  · have hb' : save_macro_state = true ∧ s.macro_state_vector_.length = 0 :=
      ⟨hb.1, by rw [hb.2]; rfl⟩
    simp only []
    rw [if_pos hb', if_pos hb, evolve_loop_of_guard_false _ _ _ _ _ _
      (loop_guard_of_no_infected s.store_current_macro_state hempty _ _)]
    simp [Sim.store_current_macro_state, hb.2]
  · have hb' : ¬ (save_macro_state = true ∧ s.macro_state_vector_.length = 0) := by
      intro hc
      exact hb ⟨hc.1, List.length_eq_zero.1 hc.2⟩
    simp only []
    rw [if_neg hb', if_neg hb,
      evolve_loop_of_guard_false _ _ _ _ _ _ (loop_guard_of_no_infected s hempty _ _)]

/-- Instance of C10: an annealed simulation that was never seeded. -/
theorem C10_evolve_without_infected_witness :
    (BaseContagion.evolve (AnnealedContinuousSIR.create 3 2 1 [0, 1, 2] 1 0) 5 true true
      []).st.current_time_ = 5
    ∧ (BaseContagion.evolve (AnnealedContinuousSIR.create 3 2 1 [0, 1, 2] 1 0) 5 true true
      []).event_times = [] := by
  have h := C10_evolve_without_infected (AnnealedContinuousSIR.create 3 2 1 [0, 1, 2] 1 0)
    (Reachable.annealed 3 2 1 [0, 1, 2] 1 0) (fun v _ => by simp [AnnealedContinuousSIR.create])
    5 true true []
  rw [h]
  exact ⟨by norm_num [AnnealedContinuousSIR.create], rfl⟩


/-! ## The event loop: errors, clock and progress -/

section Loop

theorem next_step_err (s : Sim) (d : Draw) :
    (next_step s d).1.err = none ∨ (next_step s d).1.err = some Err.non_finite
      ∨ (next_step s d).1.err = some Err.bad_optional_access := by
  unfold next_step
  split
  · unfold ContinuousSIR.next_step
    split
    · simp
    · simp only; split <;> split <;> simp
  · unfold DiscreteSIR.next_step
    split
    · simp
    · simp only; split
      · simp
      · split <;> simp
  · unfold AnnealedContinuousSIR.next_step
    split
    · simp
    · simp only; split <;> split <;> simp

/-- The state in which `next_step` leaves the object when the lifetime is finite. -/
theorem next_step_st (s : Sim) (d : Draw) (l : ℚ) (h : get_lifetime s = some l) :
    (next_step s d).1.st = { s with
      current_time_ := s.last_event_time_ + l,
      last_event_time_ := s.last_event_time_ + l } := by
  unfold get_lifetime at h
  unfold next_step
  split <;> rename_i hk <;> simp only [hk] at h
  · unfold ContinuousSIR.next_step
    rw [h]; simp only
    split <;> split <;> rfl
  · unfold DiscreteSIR.next_step
    rw [h]; simp only
    split
    · rfl
    · split <;> rfl
  · unfold AnnealedContinuousSIR.next_step
    rw [h]; simp only
    split <;> split <;> rfl

/-- The continuous-time strategies select exactly one event. -/
theorem next_step_single_event (s : Sim) (d : Draw) (hk : s.kind ≠ Kind.discrete)
    (h : (next_step s d).1.err = none) : ∃ e, (next_step s d).2 = [e] := by
  unfold next_step at h ⊢
  split at h
  · unfold ContinuousSIR.next_step at h ⊢
    split at h
    · simp at h
    · rename_i l hl
      simp only at h ⊢
      split at h <;> rename_i hc
      · rw [if_pos hc]
        split at h
        · simp at h
        · exact ⟨_, rfl⟩
      · rw [if_neg hc]
        split at h
        · simp at h
        · exact ⟨_, rfl⟩
  · rename_i hd; exact absurd hd hk
  · unfold AnnealedContinuousSIR.next_step at h ⊢
    split at h
    · simp at h
    · rename_i l hl
      simp only at h ⊢
      split at h <;> rename_i hc
      · rw [if_pos hc]
        split at h
        · simp at h
        · exact ⟨_, rfl⟩
      · rw [if_neg hc]
        split at h
        · simp at h
        · exact ⟨_, rfl⟩

/-- The function `update_transmission_tree` writes the generation map and the transmission tree only. -/
theorem update_transmission_tree_frame (us : Nat → ℚ) (events : List Event) :
    ∀ (i : Nat) (s : Sim), ∃ g tr, (BaseContagion.update_transmission_tree us i events s).st
      = { s with infection_generation_ := g, transmission_tree_ := tr } := by
  induction events with
  | nil => intro i s; exact ⟨s.infection_generation_, s.transmission_tree_, rfl⟩
  | cons event rest ih =>
    intro i s
    unfold BaseContagion.update_transmission_tree
    cases event.2 with
    | RECOVERY => exact ih _ _
    | INFECTION =>
      simp only
      cases BaseContagion.random_infected_neighbor s event.1 (us i) with
      | none => exact ⟨s.infection_generation_, s.transmission_tree_, rfl⟩
      | some infector =>
        simp only
        cases s.infection_generation_ infector with
        | none => exact ⟨s.infection_generation_, s.transmission_tree_, rfl⟩
        | some generation =>
          simp only
          split
          · exact ⟨_, s.transmission_tree_, rfl⟩
          · obtain ⟨g, tr, h⟩ := ih (i + 1) { s with
              infection_generation_ :=
                Function.update s.infection_generation_ event.1 (some (generation + 1)),
              transmission_tree_ := s.transmission_tree_ ++
                [{ time := s.current_time_, generation := generation, infector := infector,
                   infectee := event.1, infected_degree := ‹Nat› }] }
            exact ⟨g, tr, h⟩

theorem update_transmission_tree_err (us : Nat → ℚ) (events : List Event) :
    ∀ (i : Nat) (s : Sim), (BaseContagion.update_transmission_tree us i events s).err = none
      ∨ (BaseContagion.update_transmission_tree us i events s).err = some Err.out_of_range := by
  induction events with
  | nil => intro i s; exact Or.inl rfl
  | cons event rest ih =>
    intro i s
    unfold BaseContagion.update_transmission_tree
    cases event.2 with
    | RECOVERY => exact ih _ _
    | INFECTION =>
      simp only
      cases BaseContagion.random_infected_neighbor s event.1 (us i) with
      | none => exact Or.inr rfl
      | some infector =>
        simp only
        cases s.infection_generation_ infector with
        | none => exact Or.inr rfl
        | some generation =>
          simp only
          split
          · exact Or.inr rfl
          · exact ih _ _

theorem infect_err_ne_out_of_draws (s : Sim) (v : Node) :
    (infect s v).err ≠ some Err.out_of_draws := by
  by_cases hv : v < s.size
  · by_cases hs : s.state_vector_ v = NodeState.S
    · exact infect_err_ne s v hv hs _ (by decide) (by decide)
    · rw [infect_of_not_susceptible s v hv hs]; simp
  · rw [infect_of_not_node s v hv]; simp

theorem recover_err_ne_out_of_draws (s : Sim) (v : Node) :
    (recover s v).err ≠ some Err.out_of_draws := by
  by_cases hv : v < s.size
  · by_cases hs : s.state_vector_ v = NodeState.I
    · exact recover_err_ne s v hv hs _ (by decide) (by decide)
    · rw [recover_of_not_infected s v hv hs]; simp
  · rw [recover_of_not_node s v hv]; simp

theorem apply_events_err_ne_out_of_draws (events : List Event) (s : Sim) :
    (BaseContagion.apply_events events s).err ≠ some Err.out_of_draws := by
  apply for_each_err_ne
  intro s event
  unfold BaseContagion.apply_event
  cases event.2
  · exact recover_err_ne_out_of_draws s _
  · exact infect_err_ne_out_of_draws s _

theorem Res.andThen_err_ne {r : Res} {f : Sim → Res} {e : Err} (h1 : r.err ≠ some e)
    (h2 : ∀ s, (f s).err ≠ some e) : (r.andThen f).err ≠ some e := by
  rcases Res.andThen_cases r f with ⟨_, h⟩ | ⟨_, h⟩
  · rw [h]; exact h2 _
  · rw [h]; exact h1

/-- An iteration of the event loop never reports that the draws ended. -/
theorem loop_body_err_ne_out_of_draws (a b : Bool) (d : Draw) (s : Sim) :
    (BaseContagion.loop_body a b d s).err ≠ some Err.out_of_draws := by
  rw [loop_body_eq]
  apply Res.andThen_err_ne
  · rcases next_step_err s d with h | h | h <;> rw [h] <;> simp
  · intro s1
    apply Res.andThen_err_ne
    · split
      · rcases update_transmission_tree_err d.infector_u (next_step s d).2 0 s1 with h | h <;>
          rw [h] <;> simp
      · simp
    · intro s2
      apply Res.andThen_err_ne (apply_events_err_ne_out_of_draws _ _)
      intro s3
      simp

end Loop


/-! ## Progress of the event loop -/

section Progress

theorem sum_range_update (w : NodeState → Nat) (f : Node → NodeState) (v : Node) (x : NodeState) :
    ∀ n, v < n →
      ((List.range n).map (fun u => w (Function.update f v x u))).sum + w (f v)
        = ((List.range n).map (fun u => w (f u))).sum + w x := by
  intro n
  induction n with
  | zero => intro h; exact absurd h (Nat.not_lt_zero _)
  | succ n ih =>
    intro h
    rw [List.range_succ, List.map_append, List.map_append, List.sum_append, List.sum_append]
    simp only [List.map_cons, List.map_nil, List.sum_cons, List.sum_nil, Nat.add_zero]
    by_cases hvn : v = n
    · subst hvn
      have : (List.range v).map (fun u => w (Function.update f v x u))
          = (List.range v).map (fun u => w (f u)) := by
        apply List.map_congr_left
        intro u hu
        have : u ≠ v := Nat.ne_of_lt (List.mem_range.1 hu)
        rw [Function.update_noteq this]
      rw [this, Function.update_same]
      omega
    · have hlt : v < n := Nat.lt_of_le_of_ne (Nat.lt_succ_iff.1 h) hvn
      have := ih hlt
      rw [Function.update_noteq (Ne.symm hvn)]
      omega

theorem potential_infect {s s' : Sim} {v : Node} (hv : v < s.size)
    (hs : s.state_vector_ v = NodeState.S) (he : InfectEffect s s' v) :
    potential s' + 1 = potential s := by
  unfold potential
  rw [he.params.size_eq, he.state_vector_]
  have := sum_range_update NodeState.weight s.state_vector_ v NodeState.I s.size hv
  rw [hs] at this
  have h2 : NodeState.weight NodeState.S = 2 := rfl
  have h1 : NodeState.weight NodeState.I = 1 := rfl
  rw [h2, h1] at this
  omega

theorem potential_recover {s s' : Sim} {v : Node} (hv : v < s.size)
    (hs : s.state_vector_ v = NodeState.I) (he : RecoverEffect s s' v) :
    potential s' + 1 = potential s := by
  unfold potential
  rw [he.params.size_eq, he.state_vector_]
  have := sum_range_update NodeState.weight s.state_vector_ v NodeState.R s.size hv
  rw [hs] at this
  have h1 : NodeState.weight NodeState.I = 1 := rfl
  have h0 : NodeState.weight NodeState.R = 0 := rfl
  rw [h1, h0] at this
  omega

/-- The kind of the object and the clock are left alone after `next_step`. -/
theorem stableCore_clock (k : Kind) (c c' : Time) :
    StableCore (fun b => b.kind = k ∧ b.last_event_time_ = c ∧ b.current_time_ = c') where
  infect := by
    intro s v h
    obtain ⟨hp, hh⟩ := infect_params_history s v
    exact ⟨hp.kind.trans h.1, hh.last_event_time_.trans h.2.1, hh.current_time_.trans h.2.2⟩
  recover := by
    intro s v h
    obtain ⟨hp, hh⟩ := recover_params_history s v
    exact ⟨hp.kind.trans h.1, hh.last_event_time_.trans h.2.1, hh.current_time_.trans h.2.2⟩
  generation := fun _ _ h => h
  tree := fun _ _ h => h
  snapshot := fun _ _ h => h

/-- Kind and clock after an iteration of the event loop, however it ended. -/
theorem loop_body_clock (a b : Bool) (d : Draw) (s : Sim) (l : ℚ) (h : get_lifetime s = some l) :
    (BaseContagion.loop_body a b d s).st.kind = s.kind
    ∧ (BaseContagion.loop_body a b d s).st.last_event_time_ = s.last_event_time_ + l
    ∧ (BaseContagion.loop_body a b d s).st.current_time_ = s.last_event_time_ + l := by
  rw [loop_body_eq]
  apply Res.andThen_inv (P := fun b => b.kind = s.kind ∧ b.last_event_time_ = s.last_event_time_ + l
    ∧ b.current_time_ = s.last_event_time_ + l)
  · rw [next_step_st s d l h]
    exact ⟨rfl, rfl, rfl⟩
  · intro s1 h1
    exact (stableCore_clock _ _ _).loop_tail a b d _ s1 h1

theorem apply_events_single (e : Event) (s : Sim) :
    BaseContagion.apply_events [e] s
      = (BaseContagion.apply_event s e).andThen Res.ok := rfl

theorem Res.andThen_ok_self (r : Res) : r.andThen Res.ok = r := by
  rcases Res.andThen_cases r Res.ok with ⟨h1, h2⟩ | ⟨_, h2⟩
  · rw [h2]; cases r; simp only [Res.ok] at *; subst h1; rfl
  · exact h2

/-- A successful application of one event lowers the potential by one. -/
theorem apply_event_potential (e : Event) (s : Sim)
    (h : (BaseContagion.apply_event s e).err = none) :
    potential (BaseContagion.apply_event s e).st + 1 = potential s := by
  unfold BaseContagion.apply_event at h ⊢
  cases hact : e.2 <;> simp only [hact] at h ⊢
  · obtain ⟨hv, hs⟩ := recover_ok_infected s e.1 h
    exact potential_recover hv hs (recover_effect s e.1 hv hs)
  · obtain ⟨hv, hs⟩ := infect_ok_susceptible s e.1 h
    exact potential_infect hv hs (infect_effect s e.1 hv hs)

/-- A successful iteration of the event loop of a continuous-time strategy lowers the
potential by one. -/
theorem loop_body_potential (a b : Bool) (d : Draw) (s : Sim) (hk : s.kind ≠ Kind.discrete)
    (h : (BaseContagion.loop_body a b d s).err = none) :
    potential (BaseContagion.loop_body a b d s).st + 1 = potential s := by
  rw [loop_body_eq] at h ⊢
  obtain ⟨h1, h1'⟩ := Res.andThen_err_none h
  rw [Res.andThen_of_ok _ h1] at h ⊢
  obtain ⟨e, he⟩ := next_step_single_event s d hk h1
  obtain ⟨t, t', ht⟩ := next_step_clock s d
  rw [he] at h ⊢
  obtain ⟨h2, h2'⟩ := Res.andThen_err_none h
  rw [Res.andThen_of_ok _ h2] at h ⊢
  obtain ⟨h3, _⟩ := Res.andThen_err_none h
  rw [Res.andThen_of_ok _ h3]
  rw [apply_events_single, Res.andThen_ok_self] at h3 ⊢
  have hp := apply_event_potential e _ h3
  have hstore : ∀ s3 : Sim, potential (Res.ok (if b = true then s3.store_current_macro_state
      else s3)).st = potential s3 := by
    intro s3; split <;> rfl
  rw [hstore, ← Nat.add_right_cancel_iff (n := 0)]
  have h0 : potential (if a = true ∧ [e].length > 0 then
      BaseContagion.update_transmission_tree d.infector_u 0 [e] (next_step s d).1.st
        else Res.ok (next_step s d).1.st).st = potential s := by
    split
    · obtain ⟨g, tr, hg⟩ := update_transmission_tree_frame d.infector_u [e] 0 (next_step s d).1.st
      rw [hg, ht]; rfl
    · rw [Res.ok_st, ht]; rfl
  omega

theorem loop_guard_true {s : Sim} {t0 period : ℚ} (h : BaseContagion.loop_guard s t0 period = true) :
    ∃ l, get_lifetime s = some l ∧ s.last_event_time_ + l - t0 ≤ period := by
  unfold BaseContagion.loop_guard at h
  split at h
  · simp at h
  · rename_i l hl
    exact ⟨l, hl, by simpa using h⟩

theorem get_lifetime_discrete {s : Sim} {l : ℚ} (hk : s.kind = Kind.discrete)
    (h : get_lifetime s = some l) : l = 1 := by
  unfold get_lifetime at h
  rw [hk] at h
  simp only [DiscreteSIR.get_lifetime] at h
  split at h
  · simp at h
  · simpa using h.symm

/-- A successful iteration entered under the guard lowers the bound on the iterations. -/
theorem loop_bound_decrease (a b : Bool) (d : Draw) (s : Sim) (t0 period : ℚ)
    (hg : BaseContagion.loop_guard s t0 period = true)
    (h : (BaseContagion.loop_body a b d s).err = none) :
    loop_bound (BaseContagion.loop_body a b d s).st t0 period < loop_bound s t0 period := by
  obtain ⟨l, hl, hle⟩ := loop_guard_true hg
  obtain ⟨hkind, hlast, _⟩ := loop_body_clock a b d s l hl
  by_cases hk : s.kind = Kind.discrete
  · have hl1 := get_lifetime_discrete hk hl
    subst hl1
    unfold loop_bound
    rw [hkind, hk, hlast]
    simp only
    have e : period + t0 - (s.last_event_time_ + 1) = (period + t0 - s.last_event_time_) - 1 := by
      ring
    rw [e, Int.floor_sub_one]
    have h1 : (1 : Int) ≤ ⌊period + t0 - s.last_event_time_⌋ := by
      apply Int.le_floor.2
      push_cast
      linarith
    omega
  · have hp := loop_body_potential a b d s hk h
    have hk' : (BaseContagion.loop_body a b d s).st.kind ≠ Kind.discrete := by rw [hkind]; exact hk
    have e1 : loop_bound (BaseContagion.loop_body a b d s).st t0 period
        = potential (BaseContagion.loop_body a b d s).st := by
      unfold loop_bound
      split
      · rename_i hd; exact absurd hd hk'
      · rfl
    have e2 : loop_bound s t0 period = potential s := by
      unfold loop_bound
      split
      · rename_i hd; exact absurd hd hk
      · rfl
    omega

/-- With more draws than `loop_bound`, the event loop ends before the draws do. -/
theorem evolve_loop_terminates (t0 period : ℚ) (a b : Bool) (draws : List Draw) :
    ∀ s, loop_bound s t0 period < draws.length →
      (BaseContagion.evolve_loop t0 period a b draws s).err ≠ some Err.out_of_draws := by
  induction draws with
  | nil => intro s h; simp at h
  | cons d ds ih =>
    intro s h
    unfold BaseContagion.evolve_loop
    split
    · rename_i hg
      simp only
      split
      · rename_i e he
        simp only
        intro hc
        apply loop_body_err_ne_out_of_draws a b d s
        rw [he, hc]
      · rename_i he
        simp only
        apply ih
        have := loop_bound_decrease a b d s t0 period hg he
        simp only [List.length_cons] at h
        omega
    · simp

theorem evolve_err (s : Sim) (period : ℚ) (a b : Bool) (draws : List Draw) :
    (BaseContagion.evolve s period a b draws).err
      = (BaseContagion.evolve_loop
          (if b = true ∧ s.macro_state_vector_.length = 0 then s.store_current_macro_state
            else s).current_time_ period a b draws
          (if b = true ∧ s.macro_state_vector_.length = 0 then s.store_current_macro_state
            else s)).err := by
  unfold BaseContagion.evolve
  simp only
  split
  · rfl
  · rename_i h; rw [h]

/-- When `evolve` returns, the clock is the one found at the call plus the period. -/
theorem evolve_current_time (s : Sim) (period : ℚ) (a b : Bool) (draws : List Draw)
    (h : (BaseContagion.evolve s period a b draws).err = none) :
    (BaseContagion.evolve s period a b draws).st.current_time_ = s.current_time_ + period := by
  rw [evolve_err] at h
  unfold BaseContagion.evolve
  simp only
  rw [h]
  simp only
  split <;> rfl

end Progress

/-! ## C6 -/

/-- C6. For every strategy, state, period and value of the two recording flags: a call
of `evolve` that returns leaves `current_time` equal to its value before the call plus
`period`, whether or not the loop stopped early; the call does end, since the event loop
with more draws than `loop_bound` never asks for a further one; and over a sequence of
returning calls with non-negative periods the clock read between calls never decreases. -/
theorem C6_evolve_clock (s : Sim) (period : ℚ) (save_transmission_tree save_macro_state : Bool) :
    (∀ draws, (BaseContagion.evolve s period save_transmission_tree save_macro_state draws).err
        = none →
      (BaseContagion.evolve s period save_transmission_tree save_macro_state
        draws).st.current_time_ = s.current_time_ + period)
    ∧ (∃ n, ∀ draws : List Draw, n ≤ draws.length →
      (BaseContagion.evolve s period save_transmission_tree save_macro_state draws).err
        ≠ some Err.out_of_draws)
    ∧ (∀ (calls : List (ℚ × Bool × Bool × List Draw)) (ts : List Time),
        (∀ c ∈ calls, 0 ≤ c.1) → clock_after_calls s calls = some ts →
        List.Chain (fun x y => x ≤ y) s.current_time_ ts) := by
  refine ⟨fun draws h => evolve_current_time s period _ _ draws h, ?_, ?_⟩
  · refine ⟨loop_bound (if save_macro_state = true ∧ s.macro_state_vector_.length = 0 then
        s.store_current_macro_state else s)
      (if save_macro_state = true ∧ s.macro_state_vector_.length = 0 then
        s.store_current_macro_state else s).current_time_ period + 1, ?_⟩
    intro draws hn
    rw [evolve_err]
    exact evolve_loop_terminates _ _ _ _ draws _ (by omega)
  · intro calls
    induction calls generalizing s with
    | nil =>
      intro ts _ h
      simp only [clock_after_calls, Option.some.injEq] at h
      subst h
      exact List.Chain.nil
    | cons c cs ih =>
      intro ts hpos h
      unfold clock_after_calls at h
      split at h
      · simp at h
      · rename_i herr
        simp only [Option.map_eq_some'] at h
        obtain ⟨ts', hts', rfl⟩ := h
        have ht := evolve_current_time s c.1 c.2.1 c.2.2.1 c.2.2.2 herr
        refine List.Chain.cons ?_ ?_
        · rw [ht]
          have := hpos c (List.mem_cons_self _ _)
          linarith
        · exact ih _ ts' (fun c' hc' => hpos c' (List.mem_cons_of_mem _ hc')) hts'

/-- Instance of C6: one node seeded on a single edge, recovery rate 1, period 10; the only
event is the recovery at time 1 and the call returns with the clock at 10. -/
theorem C6_evolve_clock_witness :
    (BaseContagion.evolve (BaseContagion.infect_node_set (ContinuousSIR.create [(0, 1)] 1 [0, 0])
        [0]).st 10 true true
        [⟨1 / 2, 0, 0, fun _ => 0, fun _ => 0, fun _ => 0⟩]).err = none
    ∧ (BaseContagion.evolve (BaseContagion.infect_node_set (ContinuousSIR.create [(0, 1)] 1 [0, 0])
        [0]).st 10 true true
        [⟨1 / 2, 0, 0, fun _ => 0, fun _ => 0, fun _ => 0⟩]).st.current_time_
      = (BaseContagion.infect_node_set (ContinuousSIR.create [(0, 1)] 1 [0, 0])
        [0]).st.current_time_ + 10 :=
  ⟨by with_unfolding_all decide,
    (C6_evolve_clock (BaseContagion.infect_node_set (ContinuousSIR.create [(0, 1)] 1 [0, 0])
        [0]).st 10 true true).1 _ (by with_unfolding_all decide)⟩


/-! ## Signs of the rates -/

section Rates

theorem SamplableSet.mem_items_erase {w : SamplableSet} {k : Node} {p : Node × ℚ}
    (h : p ∈ (w.erase k).items) : p ∈ w.items := by
  simp only [SamplableSet.erase, List.mem_filter] at h
  exact h.1

theorem SamplableSet.mem_items_insert {w : SamplableSet} {k : Node} {x : ℚ} {p : Node × ℚ}
    (h : p ∈ (w.insert k x).items) : p ∈ w.items ∨ p = (k, x) := by
  unfold SamplableSet.insert at h
  split at h
  · exact Or.inl h
  · simpa using h

theorem SamplableSet.mem_items_set_weight {w : SamplableSet} {k : Node} {x : ℚ} {p : Node × ℚ}
    (h : p ∈ (w.set_weight k x).items) : p ∈ w.items ∨ p = (k, x) := by
  rcases SamplableSet.mem_items_insert h with h1 | h1
  · exact Or.inl (SamplableSet.mem_items_erase h1)
  · exact Or.inr h1

theorem SamplableSet.total_weight_nonneg {w : SamplableSet} (h : ∀ p ∈ w.items, 0 ≤ p.2) :
    0 ≤ w.total_weight := by
  unfold SamplableSet.total_weight
  apply List.sum_nonneg
  intro x hx
  obtain ⟨p, hp, rfl⟩ := List.mem_map.1 hx
  exact h p hp

theorem SamplableSet.refill_weights (l : List Node) (w : SamplableSet)
    (h : ∀ p ∈ w.items, 0 ≤ p.2) :
    ∀ p ∈ (l.foldl (fun w node => w.insert node 1) w).items, 0 ≤ p.2 := by
  induction l generalizing w with
  | nil => exact h
  | cons a l ih =>
    rw [List.foldl_cons]
    apply ih
    intro p hp
    rcases SamplableSet.mem_items_insert hp with h1 | h1
    · exact h p h1
    · rw [h1]; norm_num

theorem NonnegParams.of_same {s s' : Sim} (h : SameParams s s') (hp : NonnegParams s') :
    NonnegParams s := by
  refine ⟨by rw [← h.recovery_rate_]; exact hp.recovery_rate, ?_⟩
  intro hk
  have := hp.annealed (by rw [h.kind]; exact hk)
  rw [h.infection_rate_, h.binomial_coeff_, h.degree_] at this
  exact this

/-- The loop over the neighbours keeps the signs of the weights. -/
theorem continuous_visit_neighbor_rates (event : Event) (s : Sim) (neighbor : Node)
    (h : RatesInv s) : RatesInv (ContinuousSIR.visit_neighbor event s neighbor).st := by
  unfold ContinuousSIR.visit_neighbor
  split
  swap
  · exact h
  rename_i hlt
  split
  swap
  · exact h
  unfold ContinuousSIR.update_infection_rate
  rw [if_pos hlt]
  cases h1 : update_infected_neighbors s neighbor event with
  | none => exact h
  | some s1 =>
    obtain ⟨l, p, w, hf⟩ := update_infected_neighbors_frame h1
    have hw : w = s.infection_event_set_ := by
      unfold update_infected_neighbors at h1
      cases ha : event.2 <;> simp only [ha] at h1
      · split at h1
        · simp only [Option.some.injEq] at h1
          rw [hf] at h1
          exact (congrArg Sim.infection_event_set_ h1).symm
        · exact absurd h1 (by simp)
      · simp only [Option.some.injEq] at h1
        rw [hf] at h1
        exact (congrArg Sim.infection_event_set_ h1).symm
    subst hw
    have h' : RatesInv s1 := by rw [hf]; exact ⟨h.1, h.2, h.3⟩
    simp only
    cases h2 : ContinuousSIR.get_infection_rate s1 neighbor with
    | none => exact h'
    | some new_rate =>
      simp only
      split
      · rename_i hpos
        refine ⟨?_, h'.2, h'.3⟩
        intro q hq
        rcases SamplableSet.mem_items_set_weight hq with h3 | h3
        · exact h'.1 q h3
        · rw [h3]; exact le_of_lt hpos
      · refine ⟨?_, h'.2, h'.3⟩
        intro q hq
        exact h'.1 q (SamplableSet.mem_items_erase hq)

theorem discrete_visit_neighbor_rates (event : Event) (s : Sim) (neighbor : Node)
    (h : RatesInv s) : RatesInv (DiscreteSIR.visit_neighbor event s neighbor).st := by
  unfold DiscreteSIR.visit_neighbor
  split
  swap
  · exact h
  rename_i hlt
  split
  swap
  · exact h
  unfold DiscreteSIR.update_infection_propensity
  rw [if_pos hlt]
  cases h1 : update_infected_neighbors s neighbor event with
  | none => exact h
  | some s1 =>
    obtain ⟨l, p, w, hf⟩ := update_infected_neighbors_frame h1
    have hw : w = s.infection_event_set_ := by
      unfold update_infected_neighbors at h1
      cases ha : event.2 <;> simp only [ha] at h1
      · split at h1
        · simp only [Option.some.injEq] at h1
          rw [hf] at h1
          exact (congrArg Sim.infection_event_set_ h1).symm
        · exact absurd h1 (by simp)
      · simp only [Option.some.injEq] at h1
        rw [hf] at h1
        exact (congrArg Sim.infection_event_set_ h1).symm
    subst hw
    have h' : RatesInv s1 := by rw [hf]; exact ⟨h.1, h.2, h.3⟩
    simp only
    cases h2 : DiscreteSIR.get_infection_propensity s1 neighbor with
    | none => exact h'
    | some new_rate =>
      simp only
      split
      · rename_i hpos
        refine ⟨?_, h'.2, h'.3⟩
        intro q hq
        rcases SamplableSet.mem_items_set_weight hq with h3 | h3
        · exact h'.1 q h3
        · rw [h3]; exact le_of_lt hpos
      · refine ⟨?_, h'.2, h'.3⟩
        intro q hq
        exact h'.1 q (SamplableSet.mem_items_erase hq)

end Rates


section RatesOps

theorem PopulationInv.infected_le {s : Sim} (h : PopulationInv s) :
    s.infected_node_set_.length ≤ s.size := by
  rw [length_eq_count h.infected_nodup h.infected_iff]
  calc ((List.range s.size).filter _).length ≤ (List.range s.size).length := List.length_filter_le _ _
    _ = s.size := List.length_range _

theorem meanfield_sum_isSome (s : Sim) (prevalence : ℚ) :
    ∀ n, n ≤ s.infection_rate_.length →
      ∃ x, AnnealedContinuousSIR.meanfield_sum s prevalence n = some x := by
  intro n
  induction n with
  | zero => intro _; exact ⟨0, rfl⟩
  | succ n ih =>
    intro h
    obtain ⟨x, hx⟩ := ih (by omega)
    have hn : n < s.infection_rate_.length := by omega
    unfold AnnealedContinuousSIR.meanfield_sum
    rw [hx, List.get?_eq_get hn]
    exact ⟨_, rfl⟩

theorem meanfield_sum_nonneg (s : Sim) (prevalence : ℚ) (h0 : 0 ≤ prevalence)
    (h1 : prevalence ≤ 1) (hr : ∀ r ∈ s.infection_rate_, 0 ≤ r)
    (hc : ∀ c ∈ s.binomial_coeff_, 0 ≤ c) :
    ∀ n x, AnnealedContinuousSIR.meanfield_sum s prevalence n = some x → 0 ≤ x := by
  intro n
  induction n with
  | zero =>
    intro x hx
    simp only [AnnealedContinuousSIR.meanfield_sum, Option.some.injEq] at hx
    rw [← hx]
  | succ n ih =>
    intro x hx
    unfold AnnealedContinuousSIR.meanfield_sum at hx
    split at hx
    · rename_i sum rate hsum hrate
      simp only [Option.some.injEq] at hx
      rw [← hx]
      have hs := ih sum hsum
      have hrate' : 0 ≤ rate := hr rate (List.get?_mem hrate)
      have hcoef : (0 : ℚ) ≤ ((s.binomial_coeff_.getD n 0 : Int) : ℚ) := by
        have : (0 : Int) ≤ s.binomial_coeff_.getD n 0 := by
          rw [List.getD_eq_getElem?_getD]
          cases hget : s.binomial_coeff_[n]? with
          | none => simp
          | some c => simpa using hc c (List.getElem?_mem hget)
        exact_mod_cast this
      have hp1 : 0 ≤ prevalence ^ n := pow_nonneg h0 n
      have hp2 : 0 ≤ (1 - prevalence) ^ (s.degree_ - n) := pow_nonneg (by linarith) _
      have := mul_nonneg (mul_nonneg (mul_nonneg hcoef hp1) hp2) hrate'
      linarith
    · simp at hx

/-- With a complete table of non-negative rates, `update_meanfield_rate` succeeds and
stores a non-negative value. -/
theorem annealed_update_meanfield_rate_nonneg (s : Sim)
    (hle : s.infected_node_set_.length ≤ s.size) (hr : ∀ r ∈ s.infection_rate_, 0 ≤ r)
    (hc : ∀ c ∈ s.binomial_coeff_, 0 ≤ c) (hd : s.degree_ < s.infection_rate_.length) :
    ∃ m, 0 ≤ m ∧ AnnealedContinuousSIR.update_meanfield_rate s
      = Res.ok { s with meanfield_infection_rate_ := m } := by
  have h0 : (0 : ℚ) ≤ (s.get_number_of_infected_nodes : ℚ) / (s.size : ℚ) :=
    div_nonneg (Nat.cast_nonneg _) (Nat.cast_nonneg _)
  have h1 : (s.get_number_of_infected_nodes : ℚ) / (s.size : ℚ) ≤ 1 := by
    apply div_le_one_of_le₀
    · unfold Sim.get_number_of_infected_nodes; exact_mod_cast hle
    · exact Nat.cast_nonneg _
  obtain ⟨x, hx⟩ := meanfield_sum_isSome s
    ((s.get_number_of_infected_nodes : ℚ) / (s.size : ℚ)) (s.degree_ + 1) (by omega)
  refine ⟨x, meanfield_sum_nonneg s _ h0 h1 hr hc _ x hx, ?_⟩
  unfold AnnealedContinuousSIR.update_meanfield_rate
  simp only
  rw [hx]

theorem Res.andThen_rates_kind (k : Kind) {r : Res} {f : Sim → Res}
    (h1 : RatesInv r.st ∧ r.st.kind = k)
    (h2 : ∀ s, RatesInv s ∧ s.kind = k → RatesInv (f s).st ∧ (f s).st.kind = k) :
    RatesInv (r.andThen f).st :=
  (@Res.andThen_inv (fun b => RatesInv b ∧ b.kind = k) r f h1 h2).1

/-- The function `infect` keeps the signs of the rates. -/
theorem infect_rates (s : Sim) (v : Node) (hpop : PopulationInv s) (hpar : NonnegParams s)
    (h : RatesInv s) : RatesInv (infect s v).st := by
  by_cases hv : v < s.size
  swap
  · rw [infect_of_not_node s v hv]; exact h
  by_cases hs : s.state_vector_ v = NodeState.S
  swap
  · rw [infect_of_not_susceptible s v hv hs]; exact h
  unfold infect
  split <;> rename_i hk
  · simp only [ContinuousSIR.infect, hv, hs, if_true]
    have hloop := for_each_inv (fun b => RatesInv b ∧ b.kind = Kind.continuous)
      (ContinuousSIR.visit_neighbor (v, Action.INFECTION))
      (fun b x hb => ⟨continuous_visit_neighbor_rates _ b x hb.1,
        (continuous_visit_neighbor_frame _ b x).core.params.kind.trans hb.2⟩)
      (s.network_.adjacent_nodes v)
      { s with
        infection_event_set_ := s.infection_event_set_.erase v,
        state_vector_ := Function.update s.state_vector_ v NodeState.I,
        infected_node_set_ := set_insert s.infected_node_set_ v }
      ⟨⟨fun q hq => h.1 q (SamplableSet.mem_items_erase hq), h.2,
        fun hc => absurd (hk.symm.trans hc) (by decide)⟩, hk⟩
    apply Res.andThen_rates_kind Kind.continuous hloop
    intro s2 h2
    refine ⟨⟨h2.1.1, ?_, fun hc => absurd (h2.2.symm.trans hc) (by decide)⟩, h2.2⟩
    intro q hq
    rcases SamplableSet.mem_items_insert hq with h3 | h3
    · exact h2.1.2 q h3
    · rw [h3]; norm_num
  · simp only [DiscreteSIR.infect, hv, hs, if_true]
    have hloop := for_each_inv (fun b => RatesInv b ∧ b.kind = Kind.discrete)
      (DiscreteSIR.visit_neighbor (v, Action.INFECTION))
      (fun b x hb => ⟨discrete_visit_neighbor_rates _ b x hb.1,
        (discrete_visit_neighbor_frame _ b x).core.params.kind.trans hb.2⟩)
      (s.network_.adjacent_nodes v)
      { s with
        infection_event_set_ := s.infection_event_set_.erase v,
        state_vector_ := Function.update s.state_vector_ v NodeState.I,
        infected_node_set_ := set_insert s.infected_node_set_ v }
      ⟨⟨fun q hq => h.1 q (SamplableSet.mem_items_erase hq), h.2,
        fun hc => absurd (hk.symm.trans hc) (by decide)⟩, hk⟩
    apply Res.andThen_rates_kind Kind.discrete hloop
    intro s2 h2
    refine ⟨⟨h2.1.1, ?_, fun hc => absurd (h2.2.symm.trans hc) (by decide)⟩, h2.2⟩
    intro q hq
    rcases SamplableSet.mem_items_insert hq with h3 | h3
    · exact h2.1.2 q h3
    · rw [h3]; norm_num
  · simp only [AnnealedContinuousSIR.infect, hv, hs, if_true]
    obtain ⟨hr, hc, hd⟩ := hpar.annealed hk
    have hpop1 : PopulationInv { s with
        infection_event_set_ := s.infection_event_set_.erase v,
        state_vector_ := Function.update s.state_vector_ v NodeState.I,
        infected_node_set_ := set_insert s.infected_node_set_ v,
        recovery_event_set_ := s.recovery_event_set_.insert v 1 } :=
      hpop.of_infect hv hs
        ⟨rfl, rfl, rfl, ⟨rfl, rfl, rfl, rfl, rfl, rfl, rfl⟩, ⟨rfl, rfl, rfl, rfl, rfl⟩⟩
    obtain ⟨m, hm, heq⟩ := annealed_update_meanfield_rate_nonneg _ hpop1.infected_le hr hc hd
    rw [heq]
    refine ⟨fun q hq => h.1 q (SamplableSet.mem_items_erase hq), ?_, fun _ => Or.inr hm⟩
    intro q hq
    rcases SamplableSet.mem_items_insert hq with h3 | h3
    · exact h.2 q h3
    · rw [h3]; norm_num

/-- The function `recover` keeps the signs of the rates. -/
theorem recover_rates (s : Sim) (v : Node) (hpop : PopulationInv s) (hpar : NonnegParams s)
    (h : RatesInv s) : RatesInv (recover s v).st := by
  by_cases hv : v < s.size
  swap
  · rw [recover_of_not_node s v hv]; exact h
  by_cases hs : s.state_vector_ v = NodeState.I
  swap
  · rw [recover_of_not_infected s v hv hs]; exact h
  unfold recover
  split <;> rename_i hk
  · simp only [ContinuousSIR.recover, hv, hs, if_true]
    have hloop := for_each_inv (fun b => RatesInv b ∧ b.kind = Kind.continuous)
      (ContinuousSIR.visit_neighbor (v, Action.RECOVERY))
      (fun b x hb => ⟨continuous_visit_neighbor_rates _ b x hb.1,
        (continuous_visit_neighbor_frame _ b x).core.params.kind.trans hb.2⟩)
      (s.network_.adjacent_nodes v)
      { s with
        state_vector_ := Function.update s.state_vector_ v NodeState.R,
        infected_node_set_ := set_erase s.infected_node_set_ v,
        recovered_node_set_ := set_insert s.recovered_node_set_ v }
      ⟨⟨h.1, h.2, fun hc => absurd (hk.symm.trans hc) (by decide)⟩, hk⟩
    apply Res.andThen_rates_kind Kind.continuous hloop
    intro s2 h2
    refine ⟨⟨h2.1.1, ?_, fun hc => absurd (h2.2.symm.trans hc) (by decide)⟩, h2.2⟩
    intro q hq
    exact h2.1.2 q (SamplableSet.mem_items_erase hq)
  · simp only [DiscreteSIR.recover, hv, hs, if_true]
    have hloop := for_each_inv (fun b => RatesInv b ∧ b.kind = Kind.discrete)
      (DiscreteSIR.visit_neighbor (v, Action.RECOVERY))
      (fun b x hb => ⟨discrete_visit_neighbor_rates _ b x hb.1,
        (discrete_visit_neighbor_frame _ b x).core.params.kind.trans hb.2⟩)
      (s.network_.adjacent_nodes v)
      { s with
        state_vector_ := Function.update s.state_vector_ v NodeState.R,
        infected_node_set_ := set_erase s.infected_node_set_ v,
        recovered_node_set_ := set_insert s.recovered_node_set_ v }
      ⟨⟨h.1, h.2, fun hc => absurd (hk.symm.trans hc) (by decide)⟩, hk⟩
    apply Res.andThen_rates_kind Kind.discrete hloop
    intro s2 h2
    refine ⟨⟨h2.1.1, ?_, fun hc => absurd (h2.2.symm.trans hc) (by decide)⟩, h2.2⟩
    intro q hq
    exact h2.1.2 q (SamplableSet.mem_items_erase hq)
  · simp only [AnnealedContinuousSIR.recover, hv, hs, if_true]
    obtain ⟨hr, hc, hd⟩ := hpar.annealed hk
    have hpop1 : PopulationInv { s with
        state_vector_ := Function.update s.state_vector_ v NodeState.R,
        infected_node_set_ := set_erase s.infected_node_set_ v,
        recovered_node_set_ := set_insert s.recovered_node_set_ v,
        recovery_event_set_ := s.recovery_event_set_.erase v } :=
      hpop.of_recover hv hs
        ⟨rfl, rfl, rfl, ⟨rfl, rfl, rfl, rfl, rfl, rfl, rfl⟩, ⟨rfl, rfl, rfl, rfl, rfl⟩⟩
    obtain ⟨m, hm, heq⟩ := annealed_update_meanfield_rate_nonneg _ hpop1.infected_le hr hc hd
    rw [heq]
    exact ⟨h.1, fun q hq => h.2 q (SamplableSet.mem_items_erase hq), fun _ => Or.inr hm⟩

theorem RatesOK.rates_stable : Stable RatesOK where
  infect := fun s v h => ⟨h.1.infect s v, fun hp =>
    infect_rates s v h.1 (NonnegParams.of_same (infect_params_history s v).1 hp)
      (h.2 (NonnegParams.of_same (infect_params_history s v).1 hp))⟩
  recover := fun s v h => ⟨h.1.recover s v, fun hp =>
    recover_rates s v h.1 (NonnegParams.of_same (recover_params_history s v).1 hp)
      (h.2 (NonnegParams.of_same (recover_params_history s v).1 hp))⟩
  generation := fun s g h => ⟨PopulationInv.population_stable.generation s g h.1, fun hp =>
    have hr := h.2 ⟨hp.1, hp.2⟩
    ⟨hr.1, hr.2, hr.3⟩⟩
  tree := fun s tr h => ⟨PopulationInv.population_stable.tree s tr h.1, fun hp =>
    have hr := h.2 ⟨hp.1, hp.2⟩
    ⟨hr.1, hr.2, hr.3⟩⟩
  snapshot := fun s m h => ⟨PopulationInv.population_stable.snapshot s m h.1, fun hp =>
    have hr := h.2 ⟨hp.1, hp.2⟩
    ⟨hr.1, hr.2, hr.3⟩⟩
  clock := fun s t t' h => ⟨PopulationInv.population_stable.clock s t t' h.1, fun hp =>
    have hr := h.2 ⟨hp.1, hp.2⟩
    ⟨hr.1, hr.2, hr.3⟩⟩
  flip := fun s h => ⟨PopulationInv.population_stable.flip s h.1, fun hp =>
    have hr := h.2 ⟨hp.1, hp.2⟩
    ⟨hr.1, hr.2, hr.3⟩⟩
  clear_sets := fun s h => ⟨PopulationInv.population_stable.clear_sets s h.1, fun hp =>
    have hr := h.2 ⟨hp.1, hp.2⟩
    ⟨fun q hq => absurd hq (List.not_mem_nil q), fun q hq => absurd hq (List.not_mem_nil q),
      hr.3⟩⟩
  refill_sets := fun s h => ⟨PopulationInv.population_stable.refill_sets s h.1, fun hp =>
    have hr := h.2 ⟨hp.1, hp.2⟩
    ⟨SamplableSet.refill_weights _ _ (fun q hq => absurd hq (List.not_mem_nil q)),
      fun q hq => absurd hq (List.not_mem_nil q), hr.3⟩⟩

theorem RatesOK.rates_of_fresh (s : Sim) (hp : PopulationInv s) (h1 : s.infected_node_set_ = [])
    (h2 : ∀ p ∈ s.infection_event_set_.items, 0 ≤ p.2) (h3 : s.recovery_event_set_.items = []) :
    RatesOK s :=
  ⟨hp, fun _ => ⟨h2, fun q hq => by rw [h3] at hq; exact absurd hq (List.not_mem_nil q),
    fun _ => Or.inl h1⟩⟩

/-- The invariant on the rates holds in every reachable state. -/
theorem RatesOK.rates_of_reachable {s : Sim} (h : Reachable s) : RatesOK s :=
  RatesOK.rates_stable.reachable
    (fun _ _ _ => RatesOK.rates_of_fresh _ (PopulationInv.population_of_fresh _ rfl rfl (fun _ => rfl)) rfl
      (fun q hq => absurd hq (List.not_mem_nil q)) rfl)
    (fun _ _ _ _ => RatesOK.rates_of_fresh _ (PopulationInv.population_of_fresh _ rfl rfl (fun _ => rfl)) rfl
      (fun q hq => absurd hq (List.not_mem_nil q)) rfl)
    (fun _ _ _ _ _ _ => RatesOK.rates_of_fresh _ (PopulationInv.population_of_fresh _ rfl rfl (fun _ => rfl)) rfl
      (SamplableSet.refill_weights _ _ (fun q hq => absurd hq (List.not_mem_nil q))) rfl) h

end RatesOps


/-! ## C8: the event times of one call -/

section EventTimes

theorem NonnegParams.to_same {s s' : Sim} (h : SameParams s s') (hp : NonnegParams s) :
    NonnegParams s' := by
  refine ⟨by rw [h.recovery_rate_]; exact hp.recovery_rate, ?_⟩
  intro hk
  rw [h.infection_rate_, h.binomial_coeff_, h.degree_]
  exact hp.annealed (by rw [← h.kind]; exact hk)

theorem NonnegParams.params_stable : Stable NonnegParams where
  infect := fun s v h => h.to_same (infect_params_history s v).1
  recover := fun s v h => h.to_same (recover_params_history s v).1
  generation := fun _ _ h => ⟨h.1, h.2⟩
  tree := fun _ _ h => ⟨h.1, h.2⟩
  snapshot := fun _ _ h => ⟨h.1, h.2⟩
  clock := fun _ _ _ h => ⟨h.1, h.2⟩
  flip := fun _ h => ⟨h.1, h.2⟩
  clear_sets := fun _ h => ⟨h.1, h.2⟩
  refill_sets := fun _ h => ⟨h.1, h.2⟩

/-- With rates that are rates, a finite lifetime is positive. -/
theorem lifetime_pos (s : Sim) (hpar : NonnegParams s) (h : RatesInv s) (l : ℚ)
    (hl : get_lifetime s = some l) : 0 < l := by
  have hI := SamplableSet.total_weight_nonneg h.infection_weights
  have hR := SamplableSet.total_weight_nonneg h.recovery_weights
  have hrr := hpar.recovery_rate
  unfold get_lifetime at hl
  split at hl <;> rename_i hk
  · unfold ContinuousSIR.get_lifetime at hl
    split at hl
    · simp at hl
    · split at hl
      · simp at hl
      · rename_i hne
        simp only [Option.some.injEq] at hl
        rw [← hl]
        apply one_div_pos.2
        have : 0 ≤ ContinuousSIR.get_total_rate s := by
          unfold ContinuousSIR.get_total_rate
          exact add_nonneg hI (mul_nonneg hrr hR)
        exact lt_of_le_of_ne this (Ne.symm hne)
  · unfold DiscreteSIR.get_lifetime at hl
    split at hl
    · simp at hl
    · simp only [Option.some.injEq] at hl
      rw [← hl]; norm_num
  · unfold AnnealedContinuousSIR.get_lifetime at hl
    split at hl
    · simp at hl
    · rename_i hlen
      split at hl
      · simp at hl
      · rename_i hne
        simp only [Option.some.injEq] at hl
        rw [← hl]
        apply one_div_pos.2
        have hm : 0 ≤ s.meanfield_infection_rate_ := by
          rcases h.meanfield hk with h1 | h1
          · rw [h1] at hlen; simp at hlen
          · exact h1
        have : 0 ≤ AnnealedContinuousSIR.get_total_rate s := by
          unfold AnnealedContinuousSIR.get_total_rate
          exact add_nonneg (mul_nonneg hm hI) (mul_nonneg hrr hR)
        exact lt_of_le_of_ne this (Ne.symm hne)

/-- No event of the loop is stamped later than the end of the period. -/
theorem evolve_loop_times_bound (t0 period : ℚ) (a b : Bool) (draws : List Draw) :
    ∀ s, ∀ t ∈ (BaseContagion.evolve_loop t0 period a b draws s).event_times,
      t ≤ t0 + period := by
  induction draws with
  | nil =>
    intro s t ht
    unfold BaseContagion.evolve_loop at ht
    split at ht <;> simp at ht
  | cons d ds ih =>
    intro s t ht
    unfold BaseContagion.evolve_loop at ht
    split at ht
    · rename_i hg
      obtain ⟨l, hl, hle⟩ := loop_guard_true hg
      have htime : (next_step s d).1.st.current_time_ = s.last_event_time_ + l := by
        rw [next_step_st s d l hl]
      simp only at ht
      split at ht
      · simp only [List.mem_singleton] at ht
        rw [ht, htime]; linarith
      · simp only [List.mem_cons] at ht
        rcases ht with ht | ht
        · rw [ht, htime]; linarith
        · exact ih _ t ht
    · simp at ht

theorem Stable.conj {P Q : Sim → Prop} (hP : Stable P) (hQ : Stable Q) :
    Stable (fun s => P s ∧ Q s) where
  infect := fun s v h => ⟨hP.infect s v h.1, hQ.infect s v h.2⟩
  recover := fun s v h => ⟨hP.recover s v h.1, hQ.recover s v h.2⟩
  generation := fun s g h => ⟨hP.generation s g h.1, hQ.generation s g h.2⟩
  tree := fun s tr h => ⟨hP.tree s tr h.1, hQ.tree s tr h.2⟩
  snapshot := fun s m h => ⟨hP.snapshot s m h.1, hQ.snapshot s m h.2⟩
  clock := fun s t t' h => ⟨hP.clock s t t' h.1, hQ.clock s t t' h.2⟩
  flip := fun s h => ⟨hP.flip s h.1, hQ.flip s h.2⟩
  clear_sets := fun s h => ⟨hP.clear_sets s h.1, hQ.clear_sets s h.2⟩
  refill_sets := fun s h => ⟨hP.refill_sets s h.1, hQ.refill_sets s h.2⟩

/-- No mutation changes the dynamic type of the object. -/
theorem stable_kind (k : Kind) : Stable (fun s => s.kind = k) where
  infect := fun s v h => (infect_params_history s v).1.kind.trans h
  recover := fun s v h => (recover_params_history s v).1.kind.trans h
  generation := fun _ _ h => h
  tree := fun _ _ h => h
  snapshot := fun _ _ h => h
  clock := fun _ _ _ h => h
  flip := fun _ h => h
  clear_sets := fun _ h => h
  refill_sets := fun _ h => h

/-- Along states in which every finite lifetime is positive, the event times of the loop
increase strictly, starting above the time of the last event before the loop. -/
theorem evolve_loop_times_chain {Q : Sim → Prop} (hQ : Stable Q)
    (hpos : ∀ s, Q s → ∀ l, get_lifetime s = some l → 0 < l) (t0 period : ℚ) (a b : Bool)
    (draws : List Draw) :
    ∀ s, Q s →
      List.Chain (fun x y => x < y) s.last_event_time_
        (BaseContagion.evolve_loop t0 period a b draws s).event_times := by
  induction draws with
  | nil =>
    intro s _
    unfold BaseContagion.evolve_loop
    split <;> exact List.Chain.nil
  | cons d ds ih =>
    intro s hq
    unfold BaseContagion.evolve_loop
    split
    · rename_i hg
      obtain ⟨l, hl, hle⟩ := loop_guard_true hg
      have hlpos := hpos s hq l hl
      have htime : (next_step s d).1.st.current_time_ = s.last_event_time_ + l := by
        rw [next_step_st s d l hl]
      simp only
      split
      · exact List.Chain.cons (by rw [htime]; linarith) List.Chain.nil
      · refine List.Chain.cons (by rw [htime]; linarith) ?_
        have hc := ih (BaseContagion.loop_body a b d s).st (hQ.loop_body a b d s hq)
        rw [(loop_body_clock a b d s l hl).2.1] at hc
        rw [htime]
        exact hc
    · exact List.Chain.nil

/-- The event times of a call of `evolve` entered in a state from which every finite
lifetime stays positive increase strictly. -/
theorem evolve_times_chain {Q : Sim → Prop} (hQ : Stable Q)
    (hpos : ∀ s, Q s → ∀ l, get_lifetime s = some l → 0 < l) (s : Sim) (hq : Q s) (period : ℚ)
    (a b : Bool) (draws : List Draw) :
    List.Chain' (fun x y => x < y) (BaseContagion.evolve s period a b draws).event_times := by
  have e : (BaseContagion.evolve s period a b draws).event_times
      = (BaseContagion.evolve_loop
          (if b = true ∧ s.macro_state_vector_.length = 0 then s.store_current_macro_state
            else s).current_time_ period a b draws
          (if b = true ∧ s.macro_state_vector_.length = 0 then s.store_current_macro_state
            else s)).event_times := by
    unfold BaseContagion.evolve
    simp only
    split <;> rfl
  rw [e]
  have hc := evolve_loop_times_chain hQ hpos
    (if b = true ∧ s.macro_state_vector_.length = 0 then
      s.store_current_macro_state else s).current_time_ period a b draws
    (if b = true ∧ s.macro_state_vector_.length = 0 then
      s.store_current_macro_state else s)
    (by split
        · exact hQ.toStableCore.store s hq
        · exact hq)
  exact List.Chain'.tail (l := _ :: _) hc

theorem evolve_event_times (s : Sim) (period : ℚ) (a b : Bool) (draws : List Draw) :
    (BaseContagion.evolve s period a b draws).event_times
      = (BaseContagion.evolve_loop
          (if b = true ∧ s.macro_state_vector_.length = 0 then s.store_current_macro_state
            else s).current_time_ period a b draws
          (if b = true ∧ s.macro_state_vector_.length = 0 then s.store_current_macro_state
            else s)).event_times := by
  unfold BaseContagion.evolve
  simp only
  split <;> rfl

end EventTimes

/-- The event times over exact arithmetic. Every value that `next_step` gives to the clock during a call of `evolve` is at
most the time at the start of the call plus the period, for every strategy and state; these
values increase strictly along the call, for `DiscreteSIR` in every state, and for every
strategy in every reachable state of a simulation whose rates are rates (non-negative
recovery rate; for the annealed strategy a complete table of non-negative rates and
non-negative binomial coefficients). -/
theorem event_times_of_rates :
    (∀ (s : Sim) (period : ℚ) (save_transmission_tree save_macro_state : Bool)
        (draws : List Draw),
        ∀ t ∈ (BaseContagion.evolve s period save_transmission_tree save_macro_state
          draws).event_times, t ≤ s.current_time_ + period)
    ∧ (∀ s : Sim, s.kind = Kind.discrete →
        ∀ (period : ℚ) (save_transmission_tree save_macro_state : Bool) (draws : List Draw),
          List.Chain' (fun x y => x < y)
            (BaseContagion.evolve s period save_transmission_tree save_macro_state
              draws).event_times)
    ∧ (∀ s : Sim, Reachable s → NonnegParams s →
        ∀ (period : ℚ) (save_transmission_tree save_macro_state : Bool) (draws : List Draw),
          List.Chain' (fun x y => x < y)
            (BaseContagion.evolve s period save_transmission_tree save_macro_state
              draws).event_times) := by
  refine ⟨?_, ?_, ?_⟩
  · intro s period a b draws t ht
    rw [evolve_event_times] at ht
    have := evolve_loop_times_bound _ period a b draws _ t ht
    have e : (if b = true ∧ s.macro_state_vector_.length = 0 then
        s.store_current_macro_state else s).current_time_ = s.current_time_ := by
      split <;> rfl
    rw [e] at this
    exact this
  · intro s hk period a b draws
    apply evolve_times_chain (stable_kind Kind.discrete) _ s hk
    intro s' hk' l hl
    rw [get_lifetime_discrete hk' hl]
    norm_num
  · intro s h hpar period a b draws
    apply evolve_times_chain (RatesOK.rates_stable.conj NonnegParams.params_stable) _ s
      ⟨RatesOK.rates_of_reachable h, hpar⟩
    intro s' hq l hl
    exact lifetime_pos s' hq.2 (hq.1.2 hq.2) l hl

/-- An instance: both nodes of an edge seeded, recovery rate 1; the two recoveries of a
call with period 10 are stamped 1/2 and 3/2. -/
theorem event_times_of_rates_instance :
    (BaseContagion.evolve (BaseContagion.infect_node_set (ContinuousSIR.create [(0, 1)] 1 [0, 0])
        [0, 1]).st 10 true true
        [⟨1 / 2, 0, 0, fun _ => 0, fun _ => 0, fun _ => 0⟩,
         ⟨1 / 2, 0, 0, fun _ => 0, fun _ => 0, fun _ => 0⟩]).event_times = [1 / 2, 3 / 2]
    ∧ List.Chain' (fun x y => x < y)
        (BaseContagion.evolve (BaseContagion.infect_node_set (ContinuousSIR.create [(0, 1)] 1 [0, 0])
          [0, 1]).st 10 true true
          [⟨1 / 2, 0, 0, fun _ => 0, fun _ => 0, fun _ => 0⟩,
           ⟨1 / 2, 0, 0, fun _ => 0, fun _ => 0, fun _ => 0⟩]).event_times :=
  ⟨by with_unfolding_all decide,
    event_times_of_rates.2.2 _
      (Reachable.infect_node_set [0, 1] (Reachable.continuous [(0, 1)] 1 [0, 0]))
      ⟨by with_unfolding_all decide, fun hk => absurd hk (by decide)⟩ 10 true true _⟩

/-! ## C7: the clock during a call of `evolve` -/

/-- C7, evaluated where the code departs from it.  `ContinuousSIR` on the edge `{0,1}`,
recovery rate 1, infection rates 0: node 0 is seeded and `evolve(10)` applies its recovery
at time 1 and returns with `current_time = 10` and `last_event_time = 1`; node 1 is then
seeded and `evolve(5)` is called.  The call returns, and the event it applies, with the
snapshot it records, is stamped 2, which is before the time 10 at which the call
started. -/
theorem C7_clock_moves_backwards :
    (BaseContagion.infect_node_set
      (BaseContagion.evolve
        (BaseContagion.infect_node_set (ContinuousSIR.create [(0, 1)] 1 [0, 0]) [0]).st
        10 true true [⟨1 / 2, 0, 0, fun _ => 0, fun _ => 0, fun _ => 0⟩]).st [1]).st.current_time_
      = 10
    ∧ (BaseContagion.evolve
        (BaseContagion.infect_node_set
          (BaseContagion.evolve
            (BaseContagion.infect_node_set (ContinuousSIR.create [(0, 1)] 1 [0, 0]) [0]).st
            10 true true [⟨1 / 2, 0, 0, fun _ => 0, fun _ => 0, fun _ => 0⟩]).st [1]).st
        5 true true [⟨1 / 2, 0, 0, fun _ => 0, fun _ => 0, fun _ => 0⟩]).err = none
    ∧ (BaseContagion.evolve
        (BaseContagion.infect_node_set
          (BaseContagion.evolve
            (BaseContagion.infect_node_set (ContinuousSIR.create [(0, 1)] 1 [0, 0]) [0]).st
            10 true true [⟨1 / 2, 0, 0, fun _ => 0, fun _ => 0, fun _ => 0⟩]).st [1]).st
        5 true true [⟨1 / 2, 0, 0, fun _ => 0, fun _ => 0, fun _ => 0⟩]).event_times = [2]
    ∧ (BaseContagion.evolve
        (BaseContagion.infect_node_set
          (BaseContagion.evolve
            (BaseContagion.infect_node_set (ContinuousSIR.create [(0, 1)] 1 [0, 0]) [0]).st
            10 true true [⟨1 / 2, 0, 0, fun _ => 0, fun _ => 0, fun _ => 0⟩]).st [1]).st
        5 true true
        [⟨1 / 2, 0, 0, fun _ => 0, fun _ => 0, fun _ => 0⟩]).st.macro_state_vector_.map
          (fun m => m.time) = [0, 1, 2]
    ∧ (2 : ℚ) < 10 := by
  refine ⟨?_, ?_, ?_, ?_, by norm_num⟩ <;> with_unfolding_all decide

/-! ## C3: the infected neighbours recorded by `DiscreteSIR` -/

/-- C3, evaluated where the code departs from it.  `DiscreteSIR` on the edge `{0,1}`:
`infect(0)`, `infect(1)`, `clear()`, all successful.  After `clear()` both nodes are
susceptible, yet node 1 still records node 0 as an infected neighbour, so its recorded
infected degree is 1 and not 0 (`DiscreteSIR::infect`, unlike `ContinuousSIR::infect`, does
not empty the list of the node it infects); a further `infect(0)` appends node 0 a second
time and the look-up of the propensity at infected degree 2 is out of range.  The `clear`
of the base class, which the binding exposes, leaves the same list. -/
theorem C3_stale_infected_neighbors :
    (infect (DiscreteSIR.create [(0, 1)] 1 [0, 1] (fun p => p)) 0).err = none
    ∧ (infect (infect (DiscreteSIR.create [(0, 1)] 1 [0, 1] (fun p => p)) 0).st 1).err = none
    ∧ (DiscreteSIR.clear
        (infect (infect (DiscreteSIR.create [(0, 1)] 1 [0, 1] (fun p => p)) 0).st 1).st).err = none
    ∧ (DiscreteSIR.clear
        (infect (infect (DiscreteSIR.create [(0, 1)] 1 [0, 1] (fun p => p)) 0).st
          1).st).st.state_vector_ 0 = NodeState.S
    ∧ (DiscreteSIR.clear
        (infect (infect (DiscreteSIR.create [(0, 1)] 1 [0, 1] (fun p => p)) 0).st
          1).st).st.state_vector_ 1 = NodeState.S
    ∧ (DiscreteSIR.clear
        (infect (infect (DiscreteSIR.create [(0, 1)] 1 [0, 1] (fun p => p)) 0).st
          1).st).st.infected_neighbors_vector_ 1 = [0]
    ∧ (DiscreteSIR.clear
        (infect (infect (DiscreteSIR.create [(0, 1)] 1 [0, 1] (fun p => p)) 0).st
          1).st).st.get_infected_degree 1 = some 1
    ∧ (BaseContagion.clear
        (infect (infect (DiscreteSIR.create [(0, 1)] 1 [0, 1] (fun p => p)) 0).st
          1).st).st.infected_neighbors_vector_ 1 = [0]
    ∧ (infect (DiscreteSIR.clear
        (infect (infect (DiscreteSIR.create [(0, 1)] 1 [0, 1] (fun p => p)) 0).st
          1).st).st 0).err = some Err.out_of_range
    ∧ (infect (DiscreteSIR.clear
        (infect (infect (DiscreteSIR.create [(0, 1)] 1 [0, 1] (fun p => p)) 0).st
          1).st).st 0).st.infected_neighbors_vector_ 1 = [0, 0] := by
  refine ⟨?_, ?_, ?_, ?_, ?_, ?_, ?_, ?_, ?_, ?_⟩ <;> with_unfolding_all decide


/-! ## The swap-and-pop bookkeeping of one node -/

section Slot

theorem update_infected_neighbors_eq (s : Sim) (node : Node) (event : Event) :
    update_infected_neighbors s node event
      = (slot_update event (s.infected_neighbors_vector_ node)
          (s.infected_neighbor_position_vector_ node)).map
        (fun r => { s with
          infected_neighbors_vector_ := Function.update s.infected_neighbors_vector_ node r.1,
          infected_neighbor_position_vector_ :=
            Function.update s.infected_neighbor_position_vector_ node r.2 }) := by
  unfold update_infected_neighbors slot_update
  cases event.2 with
  | INFECTION => rfl
  | RECOVERY =>
    simp only
    split <;> rfl

theorem SlotOK.inj {l : List Node} {p : Node → Option Nat} (h : SlotOK l p) {i j : Nat} {u : Node}
    (hi : l.get? i = some u) (hj : l.get? j = some u) : i = j := by
  have h1 := (h u i).2 hi
  have h2 := (h u j).2 hj
  rw [h1] at h2
  exact Option.some.inj h2

theorem SlotOK.nodup {l : List Node} {p : Node → Option Nat} (h : SlotOK l p) : l.Nodup := by
  rw [List.nodup_iff_get?_ne_get?]
  intro i j hij hj heq
  have hjj : l.get? j = some (l.get ⟨j, hj⟩) := List.get?_eq_get hj
  rw [hjj] at heq
  have := h.inj heq hjj
  omega

theorem SlotOK.mem_iff {l : List Node} {p : Node → Option Nat} (h : SlotOK l p) (u : Node) :
    u ∈ l ↔ ∃ i, p u = some i := by
  rw [List.mem_iff_get?]
  constructor
  · rintro ⟨i, hi⟩; exact ⟨i, (h u i).2 hi⟩
  · rintro ⟨i, hi⟩; exact ⟨i, (h u i).1 hi⟩

theorem SlotOK.nil : SlotOK [] (fun _ => none) := by
  intro u i; simp

/-- Appending a node that the list does not hold. -/
theorem SlotOK.push {l : List Node} {p : Node → Option Nat} (h : SlotOK l p) {node : Node}
    (hnot : node ∉ l) :
    SlotOK (l ++ [node]) (Function.update p node (some l.length)) := by
  intro u i
  by_cases hu : u = node
  · subst hu
    rw [Function.update_same]
    simp only [List.get?_eq_getElem?, List.getElem?_append, Option.some.injEq]
    constructor
    · intro hi; subst hi; simp
    · intro hi
      split at hi
      · exact absurd (List.getElem?_mem hi) hnot
      · rename_i hge
        have : i - l.length = 0 := by
          by_contra hne
          have : ([u] : List Node)[i - l.length]? = none := by
            apply List.getElem?_eq_none
            simp; omega
          rw [this] at hi; simp at hi
        omega
  · rw [Function.update_noteq hu, h u i]
    simp only [List.get?_eq_getElem?, List.getElem?_append]
    constructor
    · intro hi
      have hlt : i < l.length := by
        by_contra hge
        rw [List.getElem?_eq_none (by omega)] at hi
        simp at hi
      rw [if_pos hlt]; exact hi
    · intro hi
      split at hi
      · exact hi
      · exfalso
        by_cases h0 : i - l.length = 0
        · rw [h0] at hi; simp at hi; exact hu hi.symm
        · have : ([node] : List Node)[i - l.length]? = none := by
            apply List.getElem?_eq_none
            simp; omega
          rw [this] at hi; simp at hi

/-- The swap-and-pop removal of a node that the list holds: it succeeds, keeps list and
index consistent, and removes exactly that node. -/
theorem SlotOK.swap_pop {l : List Node} {p : Node → Option Nat} (h : SlotOK l p) {node : Node}
    (hmem : node ∈ l) :
    ∃ l' p', slot_update (node, Action.RECOVERY) l p = some (l', p')
      ∧ SlotOK l' p' ∧ (∀ u, u ∈ l' ↔ u ∈ l ∧ u ≠ node) ∧ l'.length + 1 = l.length := by
  obtain ⟨pos, hpos⟩ := (h.mem_iff node).1 hmem
  have hget : l.get? pos = some node := (h node pos).1 hpos
  have hlt : pos < l.length := by
    by_contra hge
    rw [List.get?_eq_none.2 (by omega)] at hget
    simp at hget
  have hlen : 0 < l.length := by omega
  obtain ⟨back, hback⟩ : ∃ back, l.get? (l.length - 1) = some back :=
    ⟨l.get ⟨l.length - 1, by omega⟩, List.get?_eq_get _⟩
  have hlast : l.getLast? = some back := by
    rw [List.getLast?_eq_getElem?]; simpa using hback
  -- the list after the removal, by index
  have hl' : ∀ i, (((l.set pos back).set (l.length - 1) node).dropLast).get? i
      = if i < l.length - 1 then (if i = pos then some back else l.get? i) else none := by
    intro i
    simp only [List.get?_eq_getElem?, List.getElem?_dropLast, List.length_set, List.getElem?_set]
    by_cases hi : i < l.length - 1
    · have h1 : ¬ (l.length - 1 = i) := by omega
      simp only [hi, h1, if_true, if_false]
      by_cases hip : pos = i
      · subst hip; simp [hlt]
      · have : ¬ (i = pos) := fun hc => hip hc.symm
        simp [hip, this]
    · simp [hi]
  refine ⟨((l.set pos back).set (l.length - 1) node).dropLast,
    Function.update (Function.update p
      (((l.set pos back).set (l.length - 1) node).getD pos back) (some pos)) node none, ?_, ?_, ?_, ?_⟩
  · unfold slot_update
    simp only [hpos, Option.getD_some, hget, hlast]
  · -- consistency of the index
    have hslot : SlotOK (((l.set pos back).set (l.length - 1) node).dropLast)
        (Function.update (Function.update p
          (((l.set pos back).set (l.length - 1) node).getD pos back) (some pos)) node none) := by
      intro u i
      rw [hl']
      by_cases hu : u = node
      · subst hu
        rw [Function.update_same]
        constructor
        · intro hc; simp at hc
        · intro hc
          exfalso
          split at hc
          · split at hc
            · rename_i _ hip
              subst hip
              simp only [Option.some.injEq] at hc
              subst hc
              have := h.inj hget hback
              omega
            · rename_i _ hip
              exact hip (h.inj hc hget)
          · simp at hc
      · rw [Function.update_noteq hu]
        by_cases hpl : pos = l.length - 1
        · -- the node is the last element
          have hbn : back = node := by
            rw [hpl] at hget; rw [hget] at hback; exact (Option.some.inj hback).symm
          have hbk : ((l.set pos back).set (l.length - 1) node).getD pos back = node := by
            rw [List.getD_eq_getElem?_getD, List.getElem?_set, if_pos hpl.symm]
            simp [hlen]
          rw [hbk, Function.update_noteq hu, h u i]
          constructor
          · intro hi
            have hne : i ≠ pos := fun hc => by
              subst hc; rw [hget] at hi; exact hu (Option.some.inj hi).symm
            have hil : i < l.length := by
              by_contra hge
              rw [List.get?_eq_none.2 (by omega)] at hi
              simp at hi
            rw [if_pos (by omega), if_neg hne]; exact hi
          · intro hi
            split at hi
            · split at hi
              · rename_i _ hip
                simp only [Option.some.injEq] at hi
                exact absurd (hi.symm.trans hbn) hu
              · exact hi
            · simp at hi
        · -- the last element moves to the position of the node
          have hbk : ((l.set pos back).set (l.length - 1) node).getD pos back = back := by
            rw [List.getD_eq_getElem?_getD, List.getElem?_set, if_neg (fun hc => hpl hc.symm),
              List.getElem?_set, if_pos rfl, if_pos hlt]
            rfl
          rw [hbk]
          by_cases hub : u = back
          · subst hub
            rw [Function.update_same]
            constructor
            · intro hi
              simp only [Option.some.injEq] at hi
              subst hi
              rw [if_pos (by omega), if_pos rfl]
            · intro hi
              split at hi
              · split at hi
                · rename_i _ hip; rw [hip]
                · rename_i hil _
                  have := h.inj hi hback
                  omega
              · simp at hi
          · rw [Function.update_noteq hub, h u i]
            constructor
            · intro hi
              have hne : i ≠ pos := fun hc => by
                subst hc; rw [hget] at hi; exact hu (Option.some.inj hi).symm
              have hne2 : i ≠ l.length - 1 := fun hc => by
                subst hc; rw [hback] at hi; exact hub (Option.some.inj hi).symm
              have hil : i < l.length := by
                by_contra hge
                rw [List.get?_eq_none.2 (by omega)] at hi
                simp at hi
              rw [if_pos (by omega), if_neg hne]; exact hi
            · intro hi
              split at hi
              · split at hi
                · simp only [Option.some.injEq] at hi
                  exact absurd hi.symm hub
                · exact hi
              · simp at hi
    exact hslot
  · -- membership
    intro u
    rw [List.mem_iff_get?, List.mem_iff_get?]
    constructor
    · rintro ⟨i, hi⟩
      rw [hl'] at hi
      split at hi
      · rename_i hil
        split at hi
        · rename_i hip
          simp only [Option.some.injEq] at hi
          subst hi
          refine ⟨⟨_, hback⟩, ?_⟩
          intro hc
          subst hc
          have := h.inj hget hback
          omega
        · rename_i hip
          refine ⟨⟨i, hi⟩, ?_⟩
          intro hc
          subst hc
          exact hip (h.inj hi hget)
      · simp at hi
    · rintro ⟨⟨i, hi⟩, hne⟩
      have hil : i < l.length := by
        by_contra hge
        rw [List.get?_eq_none.2 (by omega)] at hi
        simp at hi
      have hip : i ≠ pos := fun hc => by
        subst hc; rw [hget] at hi; exact hne (Option.some.inj hi).symm
      by_cases hlast' : i = l.length - 1
      · refine ⟨pos, ?_⟩
        rw [hl', if_pos (by omega), if_pos rfl]
        rw [hlast', hback] at hi
        exact hi
      · refine ⟨i, ?_⟩
        rw [hl', if_pos (by omega), if_neg hip]
        exact hi
  · simp only [List.length_dropLast, List.length_set]
    omega

end Slot


/-! ## The network built from an edge list -/

section Graph

theorem Network.push_back_at_length (adj : List (List Node)) (u x : Node) :
    (Network.push_back_at adj u x).length = adj.length := by
  simp [Network.push_back_at]

theorem Network.push_back_at_getD (adj : List (List Node)) (u x v : Node) (hu : u < adj.length) :
    (Network.push_back_at adj u x).getD v [] = adj.getD v [] ++ (if u = v then [x] else []) := by
  unfold Network.push_back_at
  simp only [List.getD_eq_getElem?_getD, List.getElem?_set]
  by_cases huv : u = v
  · subst huv; simp [hu]
  · simp [huv]

theorem Network.fill_length (edge_list : EdgeList) :
    ∀ adj : List (List Node), (Network.fill adj edge_list).length = adj.length := by
  induction edge_list with
  | nil => intro adj; rfl
  | cons e es ih =>
    intro adj
    unfold Network.fill
    rw [List.foldl_cons]
    have := ih (Network.push_back_at (Network.push_back_at adj e.1 e.2) e.2 e.1)
    unfold Network.fill at this
    rw [this, Network.push_back_at_length, Network.push_back_at_length]

theorem Network.fill_getD (edge_list : EdgeList) (v : Node) :
    ∀ adj : List (List Node), (∀ e ∈ edge_list, e.1 < adj.length ∧ e.2 < adj.length) →
      (Network.fill adj edge_list).getD v [] = adj.getD v [] ++ Network.neighbors_from v edge_list := by
  induction edge_list with
  | nil => intro adj _; simp [Network.fill, Network.neighbors_from]
  | cons e es ih =>
    intro adj h
    have he := h e (List.mem_cons_self _ _)
    unfold Network.fill
    rw [List.foldl_cons]
    have := ih (Network.push_back_at (Network.push_back_at adj e.1 e.2) e.2 e.1) (by
      intro f hf
      rw [Network.push_back_at_length, Network.push_back_at_length]
      exact h f (List.mem_cons_of_mem _ hf))
    unfold Network.fill at this
    rw [this, Network.push_back_at_getD _ _ _ _ (by rw [Network.push_back_at_length]; exact he.2),
      Network.push_back_at_getD _ _ _ _ he.1]
    simp [Network.neighbors_from, List.append_assoc]

theorem Network.label_step (n : Nat) (e : Node × Node) :
    n ≤ (let nb1 := if e.1 > n then e.1 else n
          if e.2 > nb1 then e.2 else nb1)
    ∧ e.1 ≤ (let nb1 := if e.1 > n then e.1 else n
          if e.2 > nb1 then e.2 else nb1)
    ∧ e.2 ≤ (let nb1 := if e.1 > n then e.1 else n
          if e.2 > nb1 then e.2 else nb1) := by
  show n ≤ (if e.2 > (if e.1 > n then e.1 else n) then e.2 else (if e.1 > n then e.1 else n))
    ∧ e.1 ≤ (if e.2 > (if e.1 > n then e.1 else n) then e.2 else (if e.1 > n then e.1 else n))
    ∧ e.2 ≤ (if e.2 > (if e.1 > n then e.1 else n) then e.2 else (if e.1 > n then e.1 else n))
  by_cases h1 : e.1 > n
  · rw [if_pos h1]
    by_cases h2 : e.2 > e.1
    · rw [if_pos h2]
      exact ⟨le_of_lt (lt_trans h1 h2), le_of_lt h2, le_refl _⟩
    · rw [if_neg h2]
      exact ⟨le_of_lt h1, le_refl _, not_lt.1 h2⟩
  · rw [if_neg h1]
    by_cases h2 : e.2 > n
    · rw [if_pos h2]
      exact ⟨le_of_lt h2, le_trans (not_lt.1 h1) (le_of_lt h2), le_refl _⟩
    · rw [if_neg h2]
      exact ⟨le_refl _, not_lt.1 h1, not_lt.1 h2⟩

theorem Network.max_label_fold (edge_list : EdgeList) :
    ∀ init : Nat,
      init ≤ edge_list.foldl (fun nb_nodes e =>
          let nb1 := if e.1 > nb_nodes then e.1 else nb_nodes
          if e.2 > nb1 then e.2 else nb1) init
      ∧ ∀ e ∈ edge_list,
          e.1 ≤ edge_list.foldl (fun nb_nodes e =>
            let nb1 := if e.1 > nb_nodes then e.1 else nb_nodes
            if e.2 > nb1 then e.2 else nb1) init
          ∧ e.2 ≤ edge_list.foldl (fun nb_nodes e =>
            let nb1 := if e.1 > nb_nodes then e.1 else nb_nodes
            if e.2 > nb1 then e.2 else nb1) init := by
  induction edge_list with
  | nil => intro init; simp
  | cons e es ih =>
    intro init
    rw [List.foldl_cons]
    obtain ⟨h1, h2⟩ := ih (let nb1 := if e.1 > init then e.1 else init
          if e.2 > nb1 then e.2 else nb1)
    have hstep := Network.label_step init e
    refine ⟨le_trans hstep.1 h1, ?_⟩
    intro f hf
    rcases List.mem_cons.1 hf with hfe | hfe
    · subst hfe
      exact ⟨le_trans hstep.2.1 h1, le_trans hstep.2.2 h1⟩
    · exact h2 f hfe

theorem Network.le_max_label (edge_list : EdgeList) :
    ∀ e ∈ edge_list, e.1 ≤ Network.max_label edge_list ∧ e.2 ≤ Network.max_label edge_list :=
  (Network.max_label_fold edge_list 0).2

theorem Network.degree_bounds_fold (adj : List (List Node)) (nodes : List Node) :
    ∀ mm : Nat × Nat,
      mm.2 ≤ (Network.degree_bounds.go adj nodes mm).2
      ∧ ∀ v ∈ nodes, (adj.getD v []).length ≤ (Network.degree_bounds.go adj nodes mm).2 := by
  induction nodes with
  | nil => intro mm; simp [Network.degree_bounds.go]
  | cons a l ih =>
    intro mm
    unfold Network.degree_bounds.go
    rw [List.foldl_cons]
    obtain ⟨h1, h2⟩ := ih (let deg := (adj.getD a []).length
      let mn := if a = 0 then deg else mm.1
      let mn := if deg < mn then deg else mn
      let mx := if deg > mm.2 then deg else mm.2
      (mn, mx))
    unfold Network.degree_bounds.go at h1 h2
    have hstep : mm.2 ≤ (if (adj.getD a []).length > mm.2 then (adj.getD a []).length else mm.2)
        ∧ (adj.getD a []).length
          ≤ (if (adj.getD a []).length > mm.2 then (adj.getD a []).length else mm.2) := by
      split <;> omega
    refine ⟨le_trans hstep.1 h1, ?_⟩
    intro v hv
    rcases List.mem_cons.1 hv with hva | hva
    · subst hva; exact le_trans hstep.2 h1
    · exact h2 v hva

end Graph


section SimpleGraph

theorem Network.ofEdgeList_size (edge_list : EdgeList) :
    (Network.ofEdgeList edge_list).size = Network.max_label edge_list + 1 := by
  unfold Network.ofEdgeList Network.size
  simp only
  rw [Network.fill_length, List.length_replicate]

theorem Network.ofEdgeList_adjacent (edge_list : EdgeList) (v : Node) :
    (Network.ofEdgeList edge_list).adjacent_nodes v = Network.neighbors_from v edge_list := by
  unfold Network.ofEdgeList Network.adjacent_nodes
  simp only
  rw [Network.fill_getD]
  · have : (List.replicate (Network.max_label edge_list + 1) ([] : List Node)).getD v [] = [] := by
      rw [List.getD_eq_getElem?_getD]
      cases h : (List.replicate (Network.max_label edge_list + 1) ([] : List Node))[v]? with
      | none => rfl
      | some x =>
        have := List.getElem?_mem h
        rw [List.mem_replicate] at this
        simp [this.2]
    rw [this, List.nil_append]
  · intro e he
    rw [List.length_replicate]
    have := Network.le_max_label edge_list e he
    exact ⟨Nat.lt_succ_of_le this.1, Nat.lt_succ_of_le this.2⟩

theorem Network.mem_neighbors_from (v u : Node) (edge_list : EdgeList) :
    u ∈ Network.neighbors_from v edge_list ↔ (v, u) ∈ edge_list ∨ (u, v) ∈ edge_list := by
  induction edge_list with
  | nil => simp [Network.neighbors_from]
  | cons e es ih =>
    unfold Network.neighbors_from
    rw [List.mem_append, List.mem_append, ih]
    obtain ⟨a, b⟩ := e
    simp only [List.mem_cons, Prod.mk.injEq]
    constructor
    · rintro ((h | h) | h)
      · split at h
        · rename_i hav
          simp only [List.mem_singleton] at h
          exact Or.inl (Or.inl ⟨hav.symm, h⟩)
        · simp at h
      · split at h
        · rename_i hbv
          simp only [List.mem_singleton] at h
          exact Or.inr (Or.inl ⟨h, hbv.symm⟩)
        · simp at h
      · rcases h with h | h
        · exact Or.inl (Or.inr h)
        · exact Or.inr (Or.inr h)
    · rintro ((⟨h1, h2⟩ | h) | (⟨h1, h2⟩ | h))
      · exact Or.inl (Or.inl (by rw [if_pos h1.symm]; simp [h2]))
      · exact Or.inr (Or.inl h)
      · exact Or.inl (Or.inr (by rw [if_pos h2.symm]; simp [h1]))
      · exact Or.inr (Or.inr h)

theorem Network.nodup_neighbors_from (v : Node) (edge_list : EdgeList)
    (h : SimpleEdgeList edge_list) : (Network.neighbors_from v edge_list).Nodup := by
  induction edge_list with
  | nil => simp [Network.neighbors_from]
  | cons e es ih =>
    obtain ⟨hloop, hpair⟩ := h
    rw [List.pairwise_cons] at hpair
    have ih' := ih ⟨fun f hf => hloop f (List.mem_cons_of_mem _ hf), hpair.2⟩
    have hne := hloop e (List.mem_cons_self _ _)
    obtain ⟨a, b⟩ := e
    simp only at hne
    unfold Network.neighbors_from
    simp only
    have hfresh : ∀ x, ((a = v ∧ x = b) ∨ (b = v ∧ x = a)) → x ∉ Network.neighbors_from v es := by
      intro x hx hmem
      rw [Network.mem_neighbors_from] at hmem
      rcases hx with ⟨h1, h2⟩ | ⟨h1, h2⟩ <;> rcases hmem with hm | hm
      · exact (hpair.1 _ hm).1 (by rw [← h1, h2])
      · exact (hpair.1 _ hm).2 (by simp [← h1, h2])
      · exact (hpair.1 _ hm).2 (by simp [← h1, h2])
      · exact (hpair.1 _ hm).1 (by rw [← h1, h2])
    by_cases h1 : a = v
    · have h2 : ¬ b = v := fun hc => hne (h1.trans hc.symm)
      rw [if_pos h1, if_neg h2]
      simp only [List.append_nil, List.singleton_append, List.nodup_cons]
      exact ⟨hfresh b (Or.inl ⟨h1, rfl⟩), ih'⟩
    · rw [if_neg h1]
      by_cases h2 : b = v
      · rw [if_pos h2]
        simp only [List.nil_append, List.singleton_append, List.nodup_cons]
        exact ⟨hfresh a (Or.inr ⟨h2, rfl⟩), ih'⟩
      · rw [if_neg h2]
        simpa using ih'

/-- The network of an edge list without self-loop and repeated edge is a simple graph. -/
theorem Network.simple_of_edge_list (edge_list : EdgeList) (h : SimpleEdgeList edge_list) :
    Network.Simple (Network.ofEdgeList edge_list) := by
  refine ⟨?_, ?_, ?_, ?_, ?_⟩
  · intro v
    rw [Network.ofEdgeList_adjacent]
    exact Network.nodup_neighbors_from v edge_list h
  · intro v hv
    rw [Network.ofEdgeList_adjacent, Network.mem_neighbors_from] at hv
    rcases hv with hv | hv <;> exact h.1 _ hv rfl
  · intro v u hu
    rw [Network.ofEdgeList_adjacent, Network.mem_neighbors_from] at hu ⊢
    exact hu.symm
  · intro v u hu
    rw [Network.ofEdgeList_adjacent, Network.mem_neighbors_from] at hu
    rw [Network.ofEdgeList_size]
    rcases hu with hu | hu
    · exact Nat.lt_succ_of_le (Network.le_max_label edge_list _ hu).2
    · exact Nat.lt_succ_of_le (Network.le_max_label edge_list _ hu).1
  · intro v
    by_cases hv : v < Network.max_label edge_list + 1
    · have := (Network.degree_bounds_fold
        (Network.fill (List.replicate (Network.max_label edge_list + 1) []) edge_list)
        (List.range (Network.max_label edge_list + 1)) (0, 0)).2 v (List.mem_range.2 hv)
      exact this
    · have : (Network.ofEdgeList edge_list).adjacent_nodes v = [] := by
        unfold Network.ofEdgeList Network.adjacent_nodes
        simp only
        rw [List.getD_eq_getElem?_getD, List.getElem?_eq_none]
        · rfl
        · rw [Network.fill_length, List.length_replicate]; exact Nat.le_of_not_lt hv
      rw [this]
      exact Nat.zero_le _

end SimpleGraph


/-! ## The loop over the neighbours, entry by entry -/

section NeighborLoop

/-- One visit of a neighbour whose entry can be updated and whose new infected degree is
in the table: the visit succeeds and rewrites that entry only. -/
theorem continuous_visit_neighbor_slot (event : Event) (s : Sim) (x : Node) (hx : x < s.size)
    (h : s.state_vector_ x = NodeState.S →
      ∃ r, slot_update event (s.infected_neighbors_vector_ x)
          (s.infected_neighbor_position_vector_ x) = some r
        ∧ r.1.length < s.infection_rate_.length) :
    ∃ s', ContinuousSIR.visit_neighbor event s x = Res.ok s'
      ∧ SameCore s s'
      ∧ (s.state_vector_ x = NodeState.S →
          ∃ r, slot_update event (s.infected_neighbors_vector_ x)
              (s.infected_neighbor_position_vector_ x) = some r
            ∧ s'.infected_neighbors_vector_ = Function.update s.infected_neighbors_vector_ x r.1
            ∧ s'.infected_neighbor_position_vector_
                = Function.update s.infected_neighbor_position_vector_ x r.2)
      ∧ (s.state_vector_ x ≠ NodeState.S →
          s'.infected_neighbors_vector_ = s.infected_neighbors_vector_
          ∧ s'.infected_neighbor_position_vector_ = s.infected_neighbor_position_vector_) := by
  unfold ContinuousSIR.visit_neighbor
  rw [if_pos hx]
  by_cases hs : s.state_vector_ x = NodeState.S
  swap
  · rw [if_neg hs]
    exact ⟨s, rfl, SameCore.refl_core s, fun hc => absurd hc hs, fun _ => ⟨rfl, rfl⟩⟩
  rw [if_pos hs]
  obtain ⟨r, hr, hlen⟩ := h hs
  unfold ContinuousSIR.update_infection_rate
  rw [if_pos hx, update_infected_neighbors_eq, hr]
  simp only [Option.map_some']
  have hrate : ∃ rate, ContinuousSIR.get_infection_rate { s with
      infected_neighbors_vector_ := Function.update s.infected_neighbors_vector_ x r.1,
      infected_neighbor_position_vector_ :=
        Function.update s.infected_neighbor_position_vector_ x r.2 } x = some rate := by
    unfold ContinuousSIR.get_infection_rate Sim.get_infected_degree
    have hx' : x < Sim.size { s with
      infected_neighbors_vector_ := Function.update s.infected_neighbors_vector_ x r.1,
      infected_neighbor_position_vector_ :=
        Function.update s.infected_neighbor_position_vector_ x r.2 } := hx
    rw [if_pos hx']
    simp only [Function.update_same]
    exact ⟨_, List.get?_eq_get hlen⟩
  obtain ⟨rate, hrate⟩ := hrate
  rw [hrate]
  simp only
  split
  · exact ⟨_, rfl, ⟨rfl, rfl, rfl, ⟨rfl, rfl, rfl, rfl, rfl, rfl, rfl⟩, ⟨rfl, rfl, rfl, rfl, rfl⟩⟩,
      fun _ => ⟨r, rfl, rfl, rfl⟩, fun hc => absurd hs hc⟩
  · exact ⟨_, rfl, ⟨rfl, rfl, rfl, ⟨rfl, rfl, rfl, rfl, rfl, rfl, rfl⟩, ⟨rfl, rfl, rfl, rfl, rfl⟩⟩,
      fun _ => ⟨r, rfl, rfl, rfl⟩, fun hc => absurd hs hc⟩

/-- The loop over a list of distinct neighbours whose entries can all be updated: it
succeeds, rewrites the entry of each susceptible neighbour once and no other entry. -/
theorem continuous_neighbor_loop_slots (event : Event) :
    ∀ (xs : List Node) (s : Sim), xs.Nodup → (∀ u ∈ xs, u < s.size) →
      (∀ u ∈ xs, s.state_vector_ u = NodeState.S →
        ∃ r, slot_update event (s.infected_neighbors_vector_ u)
            (s.infected_neighbor_position_vector_ u) = some r
          ∧ r.1.length < s.infection_rate_.length) →
      (for_each (ContinuousSIR.visit_neighbor event) xs s).err = none
      ∧ ∀ u,
          ((u ∈ xs ∧ s.state_vector_ u = NodeState.S) →
            ∃ r, slot_update event (s.infected_neighbors_vector_ u)
                (s.infected_neighbor_position_vector_ u) = some r
              ∧ (for_each (ContinuousSIR.visit_neighbor event) xs s).st.infected_neighbors_vector_ u
                  = r.1
              ∧ (for_each (ContinuousSIR.visit_neighbor event) xs
                  s).st.infected_neighbor_position_vector_ u = r.2)
          ∧ (¬ (u ∈ xs ∧ s.state_vector_ u = NodeState.S) →
              (for_each (ContinuousSIR.visit_neighbor event) xs s).st.infected_neighbors_vector_ u
                = s.infected_neighbors_vector_ u
              ∧ (for_each (ContinuousSIR.visit_neighbor event) xs
                  s).st.infected_neighbor_position_vector_ u
                = s.infected_neighbor_position_vector_ u) := by
  intro xs
  induction xs with
  | nil =>
    intro s _ _ _
    refine ⟨rfl, fun u => ⟨fun hc => absurd hc.1 (List.not_mem_nil u), fun _ => ⟨rfl, rfl⟩⟩⟩
  | cons x xs ih =>
    intro s hnd hlt hslot
    rw [List.nodup_cons] at hnd
    obtain ⟨s', hvisit, hcore, hS, hnS⟩ := continuous_visit_neighbor_slot event s x
      (hlt x (List.mem_cons_self _ _)) (hslot x (List.mem_cons_self _ _))
    rw [for_each_cons, hvisit, Res.andThen_of_ok _ rfl]
    simp only [Res.ok_st]
    -- entries other than that of `x` are as before the visit
    have hother : ∀ u, u ≠ x →
        s'.infected_neighbors_vector_ u = s.infected_neighbors_vector_ u
        ∧ s'.infected_neighbor_position_vector_ u = s.infected_neighbor_position_vector_ u := by
      intro u hu
      by_cases hs : s.state_vector_ x = NodeState.S
      · obtain ⟨r, _, h1, h2⟩ := hS hs
        rw [h1, h2]
        exact ⟨Function.update_noteq hu _ _, Function.update_noteq hu _ _⟩
      · obtain ⟨h1, h2⟩ := hnS hs
        rw [h1, h2]; exact ⟨rfl, rfl⟩
    have hsize : s'.size = s.size := hcore.params.size_eq
    obtain ⟨herr, hres⟩ := ih s' hnd.2
      (by intro u hu; rw [hsize]; exact hlt u (List.mem_cons_of_mem _ hu))
      (by
        intro u hu hsu
        have hux : u ≠ x := fun hc => hnd.1 (hc ▸ hu)
        rw [(hother u hux).1, (hother u hux).2, hcore.params.infection_rate_]
        rw [hcore.state_vector_] at hsu
        exact hslot u (List.mem_cons_of_mem _ hu) hsu)
    refine ⟨herr, ?_⟩
    intro u
    by_cases hux : u = x
    · subst hux
      have hnot : ¬ (u ∈ xs ∧ s'.state_vector_ u = NodeState.S) := fun hc => hnd.1 hc.1
      obtain ⟨e1, e2⟩ := (hres u).2 hnot
      rw [e1, e2]
      constructor
      · intro hc
        obtain ⟨r, hr, h1, h2⟩ := hS hc.2
        exact ⟨r, hr, by rw [h1, Function.update_same], by rw [h2, Function.update_same]⟩
      · intro hc
        have hs : s.state_vector_ u ≠ NodeState.S := fun hs => hc ⟨List.mem_cons_self _ _, hs⟩
        obtain ⟨h1, h2⟩ := hnS hs
        rw [h1, h2]; exact ⟨rfl, rfl⟩
    · obtain ⟨o1, o2⟩ := hother u hux
      constructor
      · intro hc
        have hu : u ∈ xs := by
          rcases List.mem_cons.1 hc.1 with h | h
          · exact absurd h hux
          · exact h
        obtain ⟨r, hr, h1, h2⟩ := (hres u).1 ⟨hu, by rw [hcore.state_vector_]; exact hc.2⟩
        rw [o1, o2] at hr
        exact ⟨r, hr, h1, h2⟩
      · intro hc
        have hnot : ¬ (u ∈ xs ∧ s'.state_vector_ u = NodeState.S) := by
          intro hd
          rw [hcore.state_vector_] at hd
          exact hc ⟨List.mem_cons_of_mem _ hd.1, hd.2⟩
        obtain ⟨e1, e2⟩ := (hres u).2 hnot
        rw [e1, e2]; exact ⟨o1, o2⟩

end NeighborLoop


/-! ## `ContinuousSIR`: the bookkeeping after `infect` and `recover` -/

section ContinuousOps

theorem length_le_of_nodup_subset {l l' : List Node} (hd : l.Nodup) (hs : ∀ u ∈ l, u ∈ l') :
    l.length ≤ l'.length :=
  (List.subperm_of_subset hd hs).length_le

theorem infect_continuous (s : Sim) (v : Node) (hk : s.kind = Kind.continuous) :
    infect s v = ContinuousSIR.infect s v := by
  unfold infect; rw [hk]

theorem recover_continuous (s : Sim) (v : Node) (hk : s.kind = Kind.continuous) :
    recover s v = ContinuousSIR.recover s v := by
  unfold recover; rw [hk]

/-- The entries after a call of `infect` on a susceptible node: the call succeeds, the
node is appended to the entry of each susceptible neighbour, and its own entry is
emptied. -/
theorem continuous_infect_slots {g : Network} {rates : List ℚ} {s : Sim} (hg : g.Simple)
    (hlen : g.max_degree_ + 1 ≤ rates.length) (h : ContinuousInv g rates s) (v : Node)
    (hv : v < s.size) (hs : s.state_vector_ v = NodeState.S) :
    (infect s v).err = none
    ∧ (infect s v).st.infected_neighbors_vector_ v = []
    ∧ (infect s v).st.infected_neighbor_position_vector_ v = (fun _ => none)
    ∧ ∀ u, u ≠ v →
        ((u ∈ g.adjacent_nodes v ∧ s.state_vector_ u = NodeState.S) →
          (infect s v).st.infected_neighbors_vector_ u = s.infected_neighbors_vector_ u ++ [v]
          ∧ (infect s v).st.infected_neighbor_position_vector_ u
              = Function.update (s.infected_neighbor_position_vector_ u) v
                  (some (s.infected_neighbors_vector_ u).length))
        ∧ (¬ (u ∈ g.adjacent_nodes v ∧ s.state_vector_ u = NodeState.S) →
          (infect s v).st.infected_neighbors_vector_ u = s.infected_neighbors_vector_ u
          ∧ (infect s v).st.infected_neighbor_position_vector_ u
              = s.infected_neighbor_position_vector_ u) := by
  have hnet := h.network
  have hsz : s.size = g.size := by unfold Sim.size; rw [hnet]
  have hloop := continuous_neighbor_loop_slots (v, Action.INFECTION)
    (s.network_.adjacent_nodes v)
    { s with
        infection_event_set_ := s.infection_event_set_.erase v,
        state_vector_ := Function.update s.state_vector_ v NodeState.I,
        infected_node_set_ := set_insert s.infected_node_set_ v }
    (by rw [hnet]; exact hg.nodup v)
    (by
      intro u hu
      rw [hnet] at hu
      show u < s.size
      rw [hsz]; exact hg.lt_size v u hu)
    (by
      intro u hu hsu
      rw [hnet] at hu
      have huv : u ≠ v := fun hc => hg.irrefl v (hc ▸ hu)
      have hsu' : s.state_vector_ u = NodeState.S := by
        have : Function.update s.state_vector_ v NodeState.I u = NodeState.S := hsu
        rwa [Function.update_noteq huv] at this
      have hul : u < s.size := by rw [hsz]; exact hg.lt_size v u hu
      obtain ⟨hnd, hmem, hslot⟩ := h.bookkeeping.susceptible u hul hsu'
      refine ⟨(s.infected_neighbors_vector_ u ++ [v],
        Function.update (s.infected_neighbor_position_vector_ u) v
          (some (s.infected_neighbors_vector_ u).length)), rfl, ?_⟩
      show (s.infected_neighbors_vector_ u ++ [v]).length < s.infection_rate_.length
      rw [h.rates]
      have hvnot : v ∉ s.infected_neighbors_vector_ u := by
        intro hc
        have := ((hmem v).1 hc).2
        rw [hs] at this; exact absurd this (by decide)
      have hnd' : (s.infected_neighbors_vector_ u ++ [v]).Nodup := by
        rw [List.nodup_append]
        refine ⟨hnd, List.nodup_singleton v, ?_⟩
        intro a ha hb
        rw [List.mem_singleton] at hb
        exact hvnot (hb ▸ ha)
      have hsub : ∀ a ∈ s.infected_neighbors_vector_ u ++ [v], a ∈ g.adjacent_nodes u := by
        intro a ha
        rcases List.mem_append.1 ha with ha | ha
        · have := ((hmem a).1 ha).1
          rwa [hnet] at this
        · rw [List.mem_singleton] at ha
          rw [ha]; exact hg.symm v u hu
      have := length_le_of_nodup_subset hnd' hsub
      have := hg.degree_le u
      omega)
  obtain ⟨herr, hres⟩ := hloop
  rw [infect_continuous s v h.kind]
  unfold ContinuousSIR.infect
  simp only [hv, hs, if_true]
  rw [Res.andThen_of_ok _ herr]
  simp only [Res.ok_err, Res.ok_st, Function.update_same, true_and]
  intro u huv
  simp only [Function.update_noteq huv]
  constructor
  · intro hc
    obtain ⟨r, hr, h1, h2⟩ := (hres u).1 ⟨by rw [hnet]; exact hc.1, by
      show Function.update s.state_vector_ v NodeState.I u = NodeState.S
      rw [Function.update_noteq huv]; exact hc.2⟩
    have hr' : r = (s.infected_neighbors_vector_ u ++ [v],
        Function.update (s.infected_neighbor_position_vector_ u) v
          (some (s.infected_neighbors_vector_ u).length)) := by
      have : slot_update (v, Action.INFECTION) (s.infected_neighbors_vector_ u)
          (s.infected_neighbor_position_vector_ u) = some (s.infected_neighbors_vector_ u ++ [v],
        Function.update (s.infected_neighbor_position_vector_ u) v
          (some (s.infected_neighbors_vector_ u).length)) := rfl
      rw [this] at hr
      exact (Option.some.inj hr).symm
    rw [h1, h2, hr']
    exact ⟨rfl, rfl⟩
  · intro hc
    exact (hres u).2 (by
      intro hd
      apply hc
      refine ⟨by rw [← hnet]; exact hd.1, ?_⟩
      have : Function.update s.state_vector_ v NodeState.I u = NodeState.S := hd.2
      rwa [Function.update_noteq huv] at this)

/-- The entries after a call of `recover` on an infected node: the call succeeds and the
node is removed from the entry of each susceptible neighbour, which stays consistent. -/
theorem continuous_recover_slots {g : Network} {rates : List ℚ} {s : Sim} (hg : g.Simple)
    (hlen : g.max_degree_ + 1 ≤ rates.length) (h : ContinuousInv g rates s) (v : Node)
    (hv : v < s.size) (hs : s.state_vector_ v = NodeState.I) :
    (recover s v).err = none
    ∧ ∀ u,
        ((u ∈ g.adjacent_nodes v ∧ s.state_vector_ u = NodeState.S) →
          SlotOK ((recover s v).st.infected_neighbors_vector_ u)
            ((recover s v).st.infected_neighbor_position_vector_ u)
          ∧ ∀ a, a ∈ (recover s v).st.infected_neighbors_vector_ u ↔
              a ∈ s.infected_neighbors_vector_ u ∧ a ≠ v)
        ∧ (¬ (u ∈ g.adjacent_nodes v ∧ s.state_vector_ u = NodeState.S) →
          (recover s v).st.infected_neighbors_vector_ u = s.infected_neighbors_vector_ u
          ∧ (recover s v).st.infected_neighbor_position_vector_ u
              = s.infected_neighbor_position_vector_ u) := by
  have hnet := h.network
  have hsz : s.size = g.size := by unfold Sim.size; rw [hnet]
  -- what the removal does to the entry of a susceptible neighbour
  have hpop : ∀ u, u ∈ g.adjacent_nodes v → s.state_vector_ u = NodeState.S →
      ∃ l' p', slot_update (v, Action.RECOVERY) (s.infected_neighbors_vector_ u)
          (s.infected_neighbor_position_vector_ u) = some (l', p')
        ∧ SlotOK l' p' ∧ (∀ a, a ∈ l' ↔ a ∈ s.infected_neighbors_vector_ u ∧ a ≠ v)
        ∧ l'.length + 1 = (s.infected_neighbors_vector_ u).length := by
    intro u hu hsu
    have hul : u < s.size := by rw [hsz]; exact hg.lt_size v u hu
    obtain ⟨hnd, hmem, hslot⟩ := h.bookkeeping.susceptible u hul hsu
    apply hslot.swap_pop
    rw [hmem]
    exact ⟨by rw [hnet]; exact hg.symm v u hu, hs⟩
  have hloop := continuous_neighbor_loop_slots (v, Action.RECOVERY)
    (s.network_.adjacent_nodes v)
    { s with
        state_vector_ := Function.update s.state_vector_ v NodeState.R,
        infected_node_set_ := set_erase s.infected_node_set_ v,
        recovered_node_set_ := set_insert s.recovered_node_set_ v }
    (by rw [hnet]; exact hg.nodup v)
    (by
      intro u hu
      rw [hnet] at hu
      show u < s.size
      rw [hsz]; exact hg.lt_size v u hu)
    (by
      intro u hu hsu
      rw [hnet] at hu
      have huv : u ≠ v := fun hc => hg.irrefl v (hc ▸ hu)
      have hsu' : s.state_vector_ u = NodeState.S := by
        have : Function.update s.state_vector_ v NodeState.R u = NodeState.S := hsu
        rwa [Function.update_noteq huv] at this
      have hul : u < s.size := by rw [hsz]; exact hg.lt_size v u hu
      obtain ⟨hnd, hmem, hslot⟩ := h.bookkeeping.susceptible u hul hsu'
      obtain ⟨l', p', hr, _, _, hl⟩ := hpop u hu hsu'
      refine ⟨(l', p'), hr, ?_⟩
      show l'.length < s.infection_rate_.length
      rw [h.rates]
      have hsub : ∀ a ∈ s.infected_neighbors_vector_ u, a ∈ g.adjacent_nodes u := by
        intro a ha
        have := ((hmem a).1 ha).1
        rwa [hnet] at this
      have := length_le_of_nodup_subset hnd hsub
      have := hg.degree_le u
      omega)
  obtain ⟨herr, hres⟩ := hloop
  rw [recover_continuous s v h.kind]
  unfold ContinuousSIR.recover
  simp only [hv, hs, if_true]
  rw [Res.andThen_of_ok _ herr]
  simp only [Res.ok_err, Res.ok_st, true_and]
  intro u
  constructor
  · intro hc
    have huv : u ≠ v := fun hd => hg.irrefl v (hd ▸ hc.1)
    obtain ⟨r, hr, h1, h2⟩ := (hres u).1 ⟨by rw [hnet]; exact hc.1, by
      show Function.update s.state_vector_ v NodeState.R u = NodeState.S
      rw [Function.update_noteq huv]; exact hc.2⟩
    obtain ⟨l', p', hr', hok, hmem', _⟩ := hpop u hc.1 hc.2
    rw [hr'] at hr
    have hr'' := (Option.some.inj hr).symm
    rw [h1, h2, hr'']
    exact ⟨hok, hmem'⟩
  · intro hc
    exact (hres u).2 (by
      intro hd
      apply hc
      have hu : u ∈ g.adjacent_nodes v := by rw [← hnet]; exact hd.1
      have huv : u ≠ v := fun he => hg.irrefl v (he ▸ hu)
      refine ⟨hu, ?_⟩
      have : Function.update s.state_vector_ v NodeState.R u = NodeState.S := hd.2
      rwa [Function.update_noteq huv] at this)

end ContinuousOps


/-! ## `ContinuousSIR`: the invariant along `infect`, `recover` and `clear` -/

section ContinuousInvariant

theorem continuous_infect_inv {g : Network} {rates : List ℚ} {s : Sim} (hg : g.Simple)
    (hlen : g.max_degree_ + 1 ≤ rates.length) (h : ContinuousInv g rates s) (v : Node)
    (hv : v < s.size) (hs : s.state_vector_ v = NodeState.S) :
    (infect s v).err = none ∧ ContinuousInv g rates (infect s v).st := by
  obtain ⟨herr, hself, hselfp, hslots⟩ := continuous_infect_slots hg hlen h v hv hs
  have he := infect_effect s v hv hs
  have hsize : (infect s v).st.size = s.size := he.params.size_eq
  have hnet : (infect s v).st.network_ = g := he.params.network_.trans h.network
  refine ⟨herr, he.params.kind.trans h.kind, hnet, he.params.infection_rate_.trans h.rates,
    h.population.of_infect hv hs he, ?_, ?_⟩
  · intro w hw hsw
    rw [hsize] at hw
    rw [he.state_vector_] at hsw
    have hwv : w ≠ v := by
      intro hc; subst hc; rw [Function.update_same] at hsw; exact absurd hsw (by decide)
    rw [Function.update_noteq hwv] at hsw
    obtain ⟨hnd, hmem, hslot⟩ := h.bookkeeping.susceptible w hw hsw
    rw [hnet, he.state_vector_]
    by_cases hadj : w ∈ g.adjacent_nodes v
    · obtain ⟨e1, e2⟩ := (hslots w hwv).1 ⟨hadj, hsw⟩
      rw [e1, e2]
      have hvnot : v ∉ s.infected_neighbors_vector_ w := by
        intro hc
        have := ((hmem v).1 hc).2
        rw [hs] at this; exact absurd this (by decide)
      have hpush := hslot.push hvnot
      refine ⟨hpush.nodup, ?_, hpush⟩
      intro u
      rw [List.mem_append, List.mem_singleton, hmem, h.network]
      by_cases huv : u = v
      · subst huv
        simp only [Function.update_same, or_true, and_true, true_iff]
        exact hg.symm _ _ hadj
      · simp [huv, Function.update_noteq huv]
    · obtain ⟨e1, e2⟩ := (hslots w hwv).2 (fun hc => hadj hc.1)
      rw [e1, e2]
      refine ⟨hnd, ?_, hslot⟩
      intro u
      rw [hmem, h.network]
      by_cases huv : u = v
      · subst huv
        simp only [Function.update_same, hs, and_true]
        constructor
        · intro hc; exact absurd hc.2 (by decide)
        · intro hc; exact absurd (hg.symm _ _ hc) hadj
      · simp [Function.update_noteq huv]
  · intro w hw hsw
    rw [hsize] at hw
    by_cases hwv : w = v
    · subst hwv; exact ⟨hself, hselfp⟩
    · rw [he.state_vector_, Function.update_noteq hwv] at hsw
      obtain ⟨e1, e2⟩ := (hslots w hwv).2 (fun hc => hsw hc.2)
      rw [e1, e2]
      exact h.bookkeeping.other w hw hsw

theorem continuous_recover_inv {g : Network} {rates : List ℚ} {s : Sim} (hg : g.Simple)
    (hlen : g.max_degree_ + 1 ≤ rates.length) (h : ContinuousInv g rates s) (v : Node)
    (hv : v < s.size) (hs : s.state_vector_ v = NodeState.I) :
    (recover s v).err = none ∧ ContinuousInv g rates (recover s v).st := by
  obtain ⟨herr, hslots⟩ := continuous_recover_slots hg hlen h v hv hs
  have he := recover_effect s v hv hs
  have hsize : (recover s v).st.size = s.size := he.params.size_eq
  have hnet : (recover s v).st.network_ = g := he.params.network_.trans h.network
  refine ⟨herr, he.params.kind.trans h.kind, hnet, he.params.infection_rate_.trans h.rates,
    h.population.of_recover hv hs he, ?_, ?_⟩
  · intro w hw hsw
    rw [hsize] at hw
    rw [he.state_vector_] at hsw
    have hwv : w ≠ v := by
      intro hc; subst hc; rw [Function.update_same] at hsw; exact absurd hsw (by decide)
    rw [Function.update_noteq hwv] at hsw
    obtain ⟨hnd, hmem, hslot⟩ := h.bookkeeping.susceptible w hw hsw
    rw [hnet, he.state_vector_]
    by_cases hadj : w ∈ g.adjacent_nodes v
    · obtain ⟨hok, hmem'⟩ := (hslots w).1 ⟨hadj, hsw⟩
      refine ⟨hok.nodup, ?_, hok⟩
      intro u
      rw [hmem', hmem, h.network]
      by_cases huv : u = v
      · subst huv; simp
      · simp [huv, Function.update_noteq huv]
    · obtain ⟨e1, e2⟩ := (hslots w).2 (fun hc => hadj hc.1)
      rw [e1, e2]
      refine ⟨hnd, ?_, hslot⟩
      intro u
      rw [hmem, h.network]
      by_cases huv : u = v
      · subst huv
        simp only [Function.update_same, hs]
        constructor
        · intro hc; exact absurd (hg.symm _ _ hc.1) hadj
        · intro hc; exact absurd hc.2 (by decide)
      · simp [Function.update_noteq huv]
  · intro w hw hsw
    rw [hsize] at hw
    obtain ⟨e1, e2⟩ := (hslots w).2 (by
      intro hc
      have hwv : w ≠ v := fun hd => hg.irrefl v (hd ▸ hc.1)
      rw [he.state_vector_, Function.update_noteq hwv] at hsw
      exact hsw hc.2)
    rw [e1, e2]
    by_cases hwv : w = v
    · subst hwv
      exact h.bookkeeping.other w hw (by rw [hs]; decide)
    · rw [he.state_vector_, Function.update_noteq hwv] at hsw
      exact h.bookkeeping.other w hw hsw

/-- Recovering, one after the other, distinct infected nodes: every call succeeds and no
node outside the list changes state. -/
theorem continuous_recover_all {g : Network} {rates : List ℚ} (hg : g.Simple)
    (hlen : g.max_degree_ + 1 ≤ rates.length) :
    ∀ (xs : List Node) (s : Sim), ContinuousInv g rates s → xs.Nodup →
      (∀ w ∈ xs, w < s.size ∧ s.state_vector_ w = NodeState.I) →
      (for_each recover xs s).err = none
      ∧ ContinuousInv g rates (for_each recover xs s).st
      ∧ ∀ u, (for_each recover xs s).st.state_vector_ u = NodeState.I →
          s.state_vector_ u = NodeState.I ∧ u ∉ xs := by
  intro xs
  induction xs with
  | nil =>
    intro s h _ _
    exact ⟨rfl, h, fun u hu => ⟨hu, List.not_mem_nil u⟩⟩
  | cons x xs ih =>
    intro s h hnd hall
    rw [List.nodup_cons] at hnd
    obtain ⟨hx, hsx⟩ := hall x (List.mem_cons_self _ _)
    obtain ⟨herr, hinv⟩ := continuous_recover_inv hg hlen h x hx hsx
    have he := recover_effect s x hx hsx
    rw [for_each_cons, Res.andThen_of_ok _ herr]
    obtain ⟨herr', hinv', hst⟩ := ih (recover s x).st hinv hnd.2 (by
      intro w hw
      have hwx : w ≠ x := fun hc => hnd.1 (hc ▸ hw)
      obtain ⟨h1, h2⟩ := hall w (List.mem_cons_of_mem _ hw)
      rw [he.params.size_eq, he.state_vector_, Function.update_noteq hwx]
      exact ⟨h1, h2⟩)
    refine ⟨herr', hinv', ?_⟩
    intro u hu
    obtain ⟨h1, h2⟩ := hst u hu
    rw [he.state_vector_] at h1
    have hux : u ≠ x := by
      intro hc; subst hc; rw [Function.update_same] at h1; exact absurd h1 (by decide)
    rw [Function.update_noteq hux] at h1
    refine ⟨h1, ?_⟩
    intro hc
    rcases List.mem_cons.1 hc with hc | hc
    · exact hux hc
    · exact h2 hc

theorem continuous_base_clear_inv {g : Network} {rates : List ℚ} {s : Sim} (hg : g.Simple)
    (hlen : g.max_degree_ + 1 ≤ rates.length) (h : ContinuousInv g rates s) :
    (BaseContagion.clear s).err = none ∧ ContinuousInv g rates (BaseContagion.clear s).st := by
  obtain ⟨herr, hinv, hst⟩ := continuous_recover_all hg hlen s.infected_node_set_ s h
    h.population.infected_nodup (fun w hw => (h.population.infected_iff w).1 hw)
  have hnoI : ∀ u, u < s.size →
      (for_each recover s.infected_node_set_ s).st.state_vector_ u ≠ NodeState.I := by
    intro u hu hc
    obtain ⟨h1, h2⟩ := hst u hc
    exact h2 ((h.population.infected_iff u).2 ⟨hu, h1⟩)
  have hsize : (for_each recover s.infected_node_set_ s).st.size = s.size := by
    unfold Sim.size; rw [hinv.network, h.network]
  have hsz : s.size = g.size := by unfold Sim.size; rw [h.network]
  unfold BaseContagion.clear
  simp only
  rw [Res.andThen_of_ok _ herr]
  refine ⟨rfl, hinv.kind, hinv.network, hinv.rates,
    PopulationInv.population_stable.generation _ _
      (PopulationInv.population_stable.flip _ hinv.population), ?_, ?_⟩
  · intro w hw hsw
    have hw' : w < (for_each recover s.infected_node_set_ s).st.size := hw
    have hfalse : ∀ u, ¬ (u ∈ g.adjacent_nodes w
        ∧ ((for_each recover s.infected_node_set_ s).st.recovered_node_set_.foldl
            (fun sv node => Function.update sv node NodeState.S)
            (for_each recover s.infected_node_set_ s).st.state_vector_) u = NodeState.I) := by
      intro u hc
      have hu : u < s.size := by rw [hsz]; exact hg.lt_size w u hc.1
      have h2 := hc.2
      rw [foldl_update_apply] at h2
      split at h2
      · exact absurd h2 (by decide)
      · exact hnoI u hu h2
    show (Sim.infected_neighbors_vector_ (for_each recover s.infected_node_set_ s).st w).Nodup
      ∧ (∀ u, u ∈ Sim.infected_neighbors_vector_ (for_each recover s.infected_node_set_ s).st w ↔
          u ∈ (for_each recover s.infected_node_set_ s).st.network_.adjacent_nodes w
          ∧ ((for_each recover s.infected_node_set_ s).st.recovered_node_set_.foldl
              (fun sv node => Function.update sv node NodeState.S)
              (for_each recover s.infected_node_set_ s).st.state_vector_) u = NodeState.I)
      ∧ SlotOK (Sim.infected_neighbors_vector_ (for_each recover s.infected_node_set_ s).st w)
          (Sim.infected_neighbor_position_vector_ (for_each recover s.infected_node_set_ s).st w)
    rw [hinv.network]
    by_cases hs1 : (for_each recover s.infected_node_set_ s).st.state_vector_ w = NodeState.S
    · obtain ⟨hnd, hmem, hslot⟩ := hinv.bookkeeping.susceptible w hw' hs1
      refine ⟨hnd, ?_, hslot⟩
      intro u
      constructor
      · intro hu
        have := (hmem u).1 hu
        rw [hinv.network] at this
        have hul : u < s.size := by rw [hsz]; exact hg.lt_size w u this.1
        exact absurd this.2 (hnoI u hul)
      · intro hu; exact absurd hu (hfalse u)
    · obtain ⟨e1, e2⟩ := hinv.bookkeeping.other w hw' hs1
      rw [e1, e2]
      refine ⟨List.nodup_nil, ?_, SlotOK.nil⟩
      intro u
      constructor
      · intro hu; exact absurd hu (List.not_mem_nil u)
      · intro hu; exact absurd hu (hfalse u)
  · intro w hw hsw
    have hw' : w < (for_each recover s.infected_node_set_ s).st.size := hw
    have hsw' : ((for_each recover s.infected_node_set_ s).st.recovered_node_set_.foldl
        (fun sv node => Function.update sv node NodeState.S)
        (for_each recover s.infected_node_set_ s).st.state_vector_) w ≠ NodeState.S := hsw
    rw [foldl_update_apply] at hsw'
    split at hsw'
    · exact absurd rfl hsw'
    · exact hinv.bookkeeping.other w hw' hsw'

theorem continuous_clear_inv {g : Network} {rates : List ℚ} {s : Sim} (hg : g.Simple)
    (hlen : g.max_degree_ + 1 ≤ rates.length) (h : ContinuousInv g rates s) :
    (ContinuousSIR.clear s).err = none ∧ ContinuousInv g rates (ContinuousSIR.clear s).st := by
  obtain ⟨herr, hinv⟩ := continuous_base_clear_inv hg hlen h
  unfold ContinuousSIR.clear
  rw [Res.andThen_of_ok _ herr]
  exact ⟨rfl, hinv.kind, hinv.network, hinv.rates,
    ⟨hinv.population.1, hinv.population.2, hinv.population.3, hinv.population.4⟩,
    ⟨hinv.bookkeeping.1, hinv.bookkeeping.2⟩⟩

theorem continuous_create_inv (edge_list : EdgeList) (recovery_rate : ℚ)
    (infection_rate : List ℚ) :
    ContinuousInv (Network.ofEdgeList edge_list) infection_rate
      (ContinuousSIR.create edge_list recovery_rate infection_rate) := by
  refine ⟨rfl, rfl, rfl, PopulationInv.population_of_fresh _ rfl rfl (fun _ => rfl), ?_, ?_⟩
  · intro v _ _
    refine ⟨List.nodup_nil, ?_, SlotOK.nil⟩
    intro u
    constructor
    · intro hu; exact absurd hu (List.not_mem_nil u)
    · intro hu; exact absurd hu.2 (by simp [ContinuousSIR.create])
  · intro v _ hs
    exact absurd rfl hs

/-- The invariant holds in every state of `ContinuousSIR.Reach`. -/
theorem continuous_reach_inv {edge_list : EdgeList} {recovery_rate : ℚ}
    {infection_rate : List ℚ} (hsimple : SimpleEdgeList edge_list)
    (hlen : (Network.ofEdgeList edge_list).max_degree_ + 1 ≤ infection_rate.length) {s : Sim}
    (h : ContinuousSIR.Reach edge_list recovery_rate infection_rate s) :
    ContinuousInv (Network.ofEdgeList edge_list) infection_rate s := by
  have hg := Network.simple_of_edge_list edge_list hsimple
  induction h with
  | create => exact continuous_create_inv edge_list recovery_rate infection_rate
  | infect v _ hv hs ih => exact (continuous_infect_inv hg hlen ih v hv hs).2
  | recover v _ hv hs ih => exact (continuous_recover_inv hg hlen ih v hv hs).2
  | clear _ ih => exact (continuous_clear_inv hg hlen ih).2
  | base_clear _ ih => exact (continuous_base_clear_inv hg hlen ih).2

end ContinuousInvariant

/-! ## C2 -/

/-- C2. `ContinuousSIR` on an edge list without self-loop and repeated edge, with a rate
table of length at least `max_degree + 1`: in every state reached by calls of `infect` on
susceptible nodes, of `recover` on infected nodes and of `clear`, the entry of
`infected_neighbors_vector_` of each susceptible node `v` has no repeated element, its
elements are exactly the infected neighbours of `v`, and the entry of
`infected_neighbor_position_vector_` maps each element to its index in the list and has
no other key. -/
theorem C2_infected_neighbors (edge_list : EdgeList) (recovery_rate : ℚ)
    (infection_rate : List ℚ) (hsimple : SimpleEdgeList edge_list)
    (hlen : (Network.ofEdgeList edge_list).max_degree_ + 1 ≤ infection_rate.length) (s : Sim)
    (h : ContinuousSIR.Reach edge_list recovery_rate infection_rate s) (v : Node)
    (hv : v < s.size) (hS : s.state_vector_ v = NodeState.S) :
    (s.infected_neighbors_vector_ v).Nodup
    ∧ (∀ u, u ∈ s.infected_neighbors_vector_ v ↔
        u ∈ s.network_.adjacent_nodes v ∧ s.state_vector_ u = NodeState.I)
    ∧ (∀ u i, s.infected_neighbor_position_vector_ v u = some i ↔
        (s.infected_neighbors_vector_ v).get? i = some u) :=
  (continuous_reach_inv hsimple hlen h).bookkeeping.susceptible v hv hS

/-- Instance of C2: the path 0 - 1 - 2 after `infect(1)`, at the susceptible node 0, whose
entry is `[1]`. -/
theorem C2_infected_neighbors_witness :
    (infect (ContinuousSIR.create [(0, 1), (1, 2)] 1 [0, 2, 3]) 1).st.infected_neighbors_vector_ 0
      = [1]
    ∧ (∀ u, u ∈ (infect (ContinuousSIR.create [(0, 1), (1, 2)] 1 [0, 2, 3])
          1).st.infected_neighbors_vector_ 0 ↔
        u ∈ (infect (ContinuousSIR.create [(0, 1), (1, 2)] 1 [0, 2, 3])
          1).st.network_.adjacent_nodes 0
        ∧ (infect (ContinuousSIR.create [(0, 1), (1, 2)] 1 [0, 2, 3]) 1).st.state_vector_ u
          = NodeState.I) :=
  ⟨by decide,
    (C2_infected_neighbors [(0, 1), (1, 2)] 1 [0, 2, 3] ⟨by decide, by decide⟩ (by decide) _
      (ContinuousSIR.Reach.infect 1 ContinuousSIR.Reach.create (by decide) (by decide)) 0
      (by decide) (by decide)).2.1⟩

section KeptEngine

variable {P : Sim → Prop}

/-- A property kept by every run of the body that returned is kept by a loop that returned. -/
theorem for_each_kept {α : Type} (P : Sim → Prop) (body : Sim → α → Res)
    (hbody : ∀ s x, P s → (body s x).err = none → P (body s x).st) :
    ∀ (xs : List α) (s : Sim), P s → (for_each body xs s).err = none →
      P (for_each body xs s).st := by
  intro xs
  induction xs with
  | nil => intro s h _; exact h
  | cons x xs ih =>
    intro s h herr
    rw [for_each_cons] at herr ⊢
    obtain ⟨h1, h2⟩ := Res.andThen_err_none herr
    rw [Res.andThen_of_ok _ h1]
    exact ih _ (hbody s x h h1) h2

theorem Res.andThen_kept {r : Res} {f : Sim → Res} (h : (r.andThen f).err = none)
    (h1 : r.err = none → P r.st) (h2 : ∀ s, P s → (f s).err = none → P (f s).st) :
    P (r.andThen f).st := by
  obtain ⟨e1, e2⟩ := Res.andThen_err_none h
  rw [Res.andThen_of_ok _ e1]
  exact h2 _ (h1 e1) e2

theorem kept_next_step (hP : Kept P) (s : Sim) (d : Draw) (h : P s) :
    P (next_step s d).1.st := by
  obtain ⟨t, t', ht⟩ := next_step_clock s d
  rw [ht]; exact hP.clock s t t' h

theorem kept_update_transmission_tree (hP : Kept P) (us : Nat → ℚ) (events : List Event) :
    ∀ (i : Nat) (s : Sim), P s → P (BaseContagion.update_transmission_tree us i events s).st := by
  induction events with
  | nil => intro i s h; exact h
  | cons event rest ih =>
    intro i s h
    unfold BaseContagion.update_transmission_tree
    cases event.2 with
    | RECOVERY => exact ih _ _ h
    | INFECTION =>
      simp only
      cases BaseContagion.random_infected_neighbor s event.1 (us i) with
      | none => exact h
      | some infector =>
        simp only
        cases s.infection_generation_ infector with
        | none => exact h
        | some generation =>
          simp only
          split
          · exact hP.generation s _ h
          · apply ih
            have h1 := hP.generation s
              (Function.update s.infection_generation_ event.1 (some (generation + 1))) h
            exact hP.tree _ _ h1

theorem kept_apply_events (hP : Kept P) (events : List Event) (s : Sim) (h : P s)
    (herr : (BaseContagion.apply_events events s).err = none) :
    P (BaseContagion.apply_events events s).st := by
  apply for_each_kept P _ _ events s h herr
  intro s event h
  unfold BaseContagion.apply_event
  cases event.2
  · exact hP.recover s _ h
  · exact hP.infect s _ h

theorem kept_loop_body (hP : Kept P) (a b : Bool) (d : Draw) (s : Sim) (h : P s)
    (herr : (BaseContagion.loop_body a b d s).err = none) :
    P (BaseContagion.loop_body a b d s).st := by
  rw [loop_body_eq] at herr ⊢
  apply Res.andThen_kept herr (fun _ => kept_next_step hP s d h)
  intro s1 h1 herr1
  apply Res.andThen_kept herr1
  · intro _
    split
    · exact kept_update_transmission_tree hP _ _ _ _ h1
    · exact h1
  · intro s2 h2 herr2
    apply Res.andThen_kept herr2 (fun e => kept_apply_events hP _ _ h2 e)
    intro s3 h3 _
    simp only [Res.ok_st]
    split
    · exact hP.snapshot s3 _ h3
    · exact h3

end KeptEngine

section KeptEngine2
variable {P : Sim → Prop}

theorem evolve_loop_cons (t0 period : ℚ) (a b : Bool) (d : Draw) (ds : List Draw) (s : Sim) :
    BaseContagion.evolve_loop t0 period a b (d :: ds) s
      = if BaseContagion.loop_guard s t0 period = true then
          match (BaseContagion.loop_body a b d s).err with
          | some e => ⟨(BaseContagion.loop_body a b d s).st, some e,
              [(next_step s d).1.st.current_time_]⟩
          | none =>
            ⟨(BaseContagion.evolve_loop t0 period a b ds (BaseContagion.loop_body a b d s).st).st,
              (BaseContagion.evolve_loop t0 period a b ds (BaseContagion.loop_body a b d s).st).err,
              (next_step s d).1.st.current_time_ ::
                (BaseContagion.evolve_loop t0 period a b ds
                  (BaseContagion.loop_body a b d s).st).event_times⟩
        else ⟨s, none, []⟩ := rfl

theorem evolve_loop_err_none (t0 period : ℚ) (a b : Bool) (d : Draw) (ds : List Draw) (s : Sim)
    (hg : BaseContagion.loop_guard s t0 period = true)
    (herr : (BaseContagion.evolve_loop t0 period a b (d :: ds) s).err = none) :
    (BaseContagion.loop_body a b d s).err = none
    ∧ (BaseContagion.evolve_loop t0 period a b (d :: ds) s).st
        = (BaseContagion.evolve_loop t0 period a b ds (BaseContagion.loop_body a b d s).st).st
    ∧ (BaseContagion.evolve_loop t0 period a b ds (BaseContagion.loop_body a b d s).st).err
        = none := by
  rw [evolve_loop_cons, if_pos hg] at herr ⊢
  cases h : (BaseContagion.loop_body a b d s).err with
  | some e => rw [h] at herr; simp at herr
  | none =>
    rw [h] at herr
    simp only at herr
    exact ⟨rfl, rfl, herr⟩

theorem kept_evolve_loop (hP : Kept P) (t0 period : ℚ) (a b : Bool) (draws : List Draw) :
    ∀ s, P s → (BaseContagion.evolve_loop t0 period a b draws s).err = none →
      P (BaseContagion.evolve_loop t0 period a b draws s).st := by
  induction draws with
  | nil =>
    intro s h _
    unfold BaseContagion.evolve_loop
    split <;> exact h
  | cons d ds ih =>
    intro s h herr
    by_cases hg : BaseContagion.loop_guard s t0 period = true
    · obtain ⟨h1, h2, h3⟩ := evolve_loop_err_none t0 period a b d ds s hg herr
      rw [h2]
      exact ih _ (kept_loop_body hP a b d s h h1) h3
    · unfold BaseContagion.evolve_loop
      rw [if_neg hg]
      exact h

theorem kept_evolve (hP : Kept P) (s : Sim) (period : ℚ) (a b : Bool) (draws : List Draw)
    (h : P s) (herr : (BaseContagion.evolve s period a b draws).err = none) :
    P (BaseContagion.evolve s period a b draws).st := by
  unfold BaseContagion.evolve at herr ⊢
  simp only at herr ⊢
  have h0 : P (if b = true ∧ s.macro_state_vector_.length = 0
      then s.store_current_macro_state else s) := by
    split
    · exact hP.snapshot s _ h
    · exact h
  split
  · rename_i e he
    rw [he] at herr
    simp only at herr
    rw [he] at herr
    exact absurd herr (by simp)
  · rename_i he
    exact hP.clock _ _ _ (kept_evolve_loop hP _ period a b draws _ h0 he)

theorem kept_infect_fraction_loop (hP : Kept P) (n : Nat) (draws : List ℚ) :
    ∀ (count : Nat) (s : Sim), P s →
      (BaseContagion.infect_fraction_loop n draws count s).err = none →
      P (BaseContagion.infect_fraction_loop n draws count s).st := by
  induction draws with
  | nil =>
    intro count s h _
    unfold BaseContagion.infect_fraction_loop
    split <;> exact h
  | cons u us ih =>
    intro count s h herr
    unfold BaseContagion.infect_fraction_loop at herr ⊢
    split
    · rename_i hc
      rw [if_pos hc] at herr
      simp only at herr ⊢
      split
      · rename_i hn
        rw [if_pos hn] at herr
        split
        · rename_i hs
          rw [if_pos hs] at herr
          apply Res.andThen_kept herr (fun e => hP.infect s _ h e)
          intro s1 h1 e1
          exact ih _ _ (hP.generation s1 _ h1) e1
        · rename_i hs
          rw [if_neg hs] at herr
          exact ih _ _ h herr
      · exact h
    · exact h

theorem kept_infect_fraction (hP : Kept P) (s : Sim) (fraction : ℚ) (draws : List ℚ)
    (h : P s) (herr : (BaseContagion.infect_fraction s fraction draws).err = none) :
    P (BaseContagion.infect_fraction s fraction draws).st :=
  kept_infect_fraction_loop hP _ draws 0 s h herr

theorem kept_infect_node_set (hP : Kept P) (s : Sim) (node_set : List Node) (h : P s)
    (herr : (BaseContagion.infect_node_set s node_set).err = none) :
    P (BaseContagion.infect_node_set s node_set).st := by
  apply for_each_kept P _ _ node_set s h herr
  intro s node h herr
  unfold BaseContagion.infect_node_set_body at herr ⊢
  split
  · rename_i hn
    rw [if_pos hn] at herr
    split
    · rename_i hs
      rw [if_pos hs] at herr
      apply Res.andThen_kept herr (fun e => hP.infect s _ h e)
      intro s1 h1 _
      exact hP.generation s1 _ h1
    · exact h
  · exact h

end KeptEngine2

section KeptEngine3
variable {P : Sim → Prop}

/-- After a loop of calls of `recover` that all returned, the infected nodes are the former
ones that the loop did not visit, and the visited nodes were infected nodes. -/
theorem recover_all_infected_node_set :
    ∀ (xs : List Node) (s : Sim), (for_each recover xs s).err = none →
      ∀ v, v ∈ (for_each recover xs s).st.infected_node_set_ ↔
        v ∈ s.infected_node_set_ ∧ v ∉ xs := by
  intro xs
  induction xs with
  | nil => intro s _ v; simp
  | cons x xs ih =>
    intro s herr v
    rw [for_each_cons] at herr ⊢
    obtain ⟨h1, h2⟩ := Res.andThen_err_none herr
    rw [Res.andThen_of_ok _ h1]
    obtain ⟨hx, hs⟩ := recover_ok_infected s x h1
    have he := recover_effect s x hx hs
    rw [ih _ h2 v, he.infected_node_set_, mem_set_erase, List.mem_cons]
    constructor
    · rintro ⟨⟨h3, h4⟩, h5⟩
      exact ⟨h3, fun hc => hc.elim h4 h5⟩
    · rintro ⟨h3, h4⟩
      exact ⟨⟨h3, fun hc => h4 (Or.inl hc)⟩, fun hc => h4 (Or.inr hc)⟩

/-- After the loop of `BaseContagion::clear` returned, no node is listed as infected. -/
theorem recover_all_infected_nil (s : Sim)
    (herr : (for_each recover s.infected_node_set_ s).err = none) :
    (for_each recover s.infected_node_set_ s).st.infected_node_set_ = [] := by
  rw [List.eq_nil_iff_forall_not_mem]
  intro v hv
  have := (recover_all_infected_node_set _ s herr v).1 hv
  exact this.2 this.1

theorem base_clear_eq (s : Sim) :
    BaseContagion.clear s
      = (for_each recover s.infected_node_set_ s).andThen fun s1 =>
          Res.ok { s1 with
            state_vector_ :=
              s1.recovered_node_set_.foldl (fun sv node => Function.update sv node NodeState.S)
                s1.state_vector_,
            recovered_node_set_ := [],
            infection_generation_ := fun _ => none } := rfl

theorem base_clear_err_none (s : Sim) (herr : (BaseContagion.clear s).err = none) :
    (for_each recover s.infected_node_set_ s).err = none := by
  rw [base_clear_eq] at herr
  exact (Res.andThen_err_none herr).1

/-- The node sets after a call of `BaseContagion::clear` that returned. -/
theorem base_clear_node_sets (s : Sim) (herr : (BaseContagion.clear s).err = none) :
    (BaseContagion.clear s).st.infected_node_set_ = []
    ∧ (BaseContagion.clear s).st.recovered_node_set_ = [] := by
  have h1 := base_clear_err_none s herr
  rw [base_clear_eq, Res.andThen_of_ok _ h1]
  exact ⟨recover_all_infected_nil s h1, rfl⟩

theorem kept_base_clear (hP : Kept P) (s : Sim) (h : P s)
    (herr : (BaseContagion.clear s).err = none) : P (BaseContagion.clear s).st := by
  have h1 := base_clear_err_none s herr
  rw [base_clear_eq, Res.andThen_of_ok _ h1]
  have h2 := for_each_kept P _ (fun s v h e => hP.recover s v h e) _ s h h1
  exact hP.generation _ _ (hP.flip _ h2 (recover_all_infected_nil s h1))

theorem reset_eq (s : Sim) :
    BaseContagion.reset s
      = (BaseContagion.clear s).andThen fun s1 =>
          Res.ok { s1 with
            macro_state_vector_ := [],
            transmission_tree_ := [],
            current_time_ := 0,
            last_event_time_ := 0 } := rfl

theorem kept_reset (hP : Kept P) (s : Sim) (h : P s)
    (herr : (BaseContagion.reset s).err = none) : P (BaseContagion.reset s).st := by
  rw [reset_eq] at herr ⊢
  have h1 := (Res.andThen_err_none herr).1
  rw [Res.andThen_of_ok _ h1]
  exact hP.clock _ 0 0 (hP.tree _ [] (hP.snapshot _ [] (kept_base_clear hP s h h1)))

/-- The `clear` of each strategy is that of the base class followed by the rebuilding of the
two event sets. -/
theorem derived_clear_eq (s : Sim) :
    fastsir.clear s
      = (BaseContagion.clear s).andThen fun s1 =>
          Res.ok { s1 with
            infection_event_set_ :=
              if s.kind = Kind.annealed then
                (List.range s1.size).foldl (fun w node => w.insert node 1)
                  s1.infection_event_set_.clear
              else s1.infection_event_set_.clear,
            recovery_event_set_ := s1.recovery_event_set_.clear } := by
  unfold fastsir.clear
  cases s.kind <;> rfl

theorem base_clear_params (s : Sim) : SameParams s (BaseContagion.clear s).st := by
  rw [base_clear_eq]
  have h1 : SameParams s (for_each recover s.infected_node_set_ s).st :=
    for_each_rel SameParams SameParams.refl_params (fun _ _ _ h1 h2 => h1.trans_params h2) _
      (fun s v => (recover_params_history s v).1) _ s
  rcases Res.andThen_cases (for_each recover s.infected_node_set_ s) (fun s1 =>
      Res.ok { s1 with
        state_vector_ :=
          s1.recovered_node_set_.foldl (fun sv node => Function.update sv node NodeState.S)
            s1.state_vector_,
        recovered_node_set_ := [],
        infection_generation_ := fun _ => none }) with ⟨_, h⟩ | ⟨_, h⟩
  · rw [h]
    exact ⟨h1.1, h1.2, h1.3, h1.4, h1.5, h1.6, h1.7⟩
  · rw [h]; exact h1

theorem kept_derived_clear (hP : Kept P) (s : Sim) (h : P s)
    (herr : (fastsir.clear s).err = none) : P (fastsir.clear s).st := by
  rw [derived_clear_eq] at herr ⊢
  have h1 := (Res.andThen_err_none herr).1
  rw [Res.andThen_of_ok _ h1]
  have h2 := kept_base_clear hP s h h1
  obtain ⟨h3, h4⟩ := base_clear_node_sets s h1
  have hk := (base_clear_params s).kind
  simp only [Res.ok_st]
  by_cases hann : s.kind = Kind.annealed
  · rw [if_pos hann]
    exact hP.refill_sets _ h2 (hk.trans hann) h3 h4
  · rw [if_neg hann]
    exact hP.clear_sets _ h2 (by rw [hk]; exact hann) h3 h4

/-- A kept property that holds after every construction holds in every state reached by
calls that returned. -/
theorem kept_reached (hP : Kept P)
    (hc : ∀ el rr rates, P (ContinuousSIR.create el rr rates))
    (hd : ∀ el rp probs f, P (DiscreteSIR.create el rp probs f))
    (ha : ∀ n d rr rates c0 r0, P (AnnealedContinuousSIR.create n d rr rates c0 r0))
    {s : Sim} (h : Reached s) : P s := by
  induction h with
  | continuous el rr rates => exact hc el rr rates
  | discrete el rp probs f => exact hd el rp probs f
  | annealed n d rr rates c0 r0 => exact ha n d rr rates c0 r0
  | infect_fraction fraction draws _ he ih => exact kept_infect_fraction hP _ fraction draws ih he
  | infect_node_set node_set _ he ih => exact kept_infect_node_set hP _ node_set ih he
  | evolve period a b draws _ he ih => exact kept_evolve hP _ period a b draws ih he
  | base_clear _ he ih => exact kept_base_clear hP _ ih he
  | clear _ he ih => exact kept_derived_clear hP _ ih he
  | reset _ he ih => exact kept_reset hP _ ih he

/-- A state reached by calls that returned is a reachable state. -/
theorem Reached.to_reachable {s : Sim} (h : Reached s) : Reachable s := by
  induction h with
  | continuous el rr rates => exact Reachable.continuous el rr rates
  | discrete el rp probs f => exact Reachable.discrete el rp probs f
  | annealed n d rr rates c0 r0 => exact Reachable.annealed n d rr rates c0 r0
  | infect_fraction fraction draws _ _ ih => exact Reachable.infect_fraction fraction draws ih
  | infect_node_set node_set _ _ ih => exact Reachable.infect_node_set node_set ih
  | evolve period a b draws _ _ ih => exact Reachable.evolve period a b draws ih
  | base_clear _ _ ih => exact Reachable.base_clear ih
  | clear _ _ ih => exact Reachable.clear ih
  | reset _ _ ih => exact Reachable.reset ih

/-- A property that every mutation keeps is kept by those that returned. -/
theorem Stable.kept (hP : Stable P) : Kept P where
  infect := fun s v h _ => hP.infect s v h
  recover := fun s v h _ => hP.recover s v h
  generation := hP.generation
  tree := hP.tree
  snapshot := hP.snapshot
  clock := hP.clock
  flip := fun s h _ => hP.flip s h
  clear_sets := fun s h _ _ _ => hP.clear_sets s h
  refill_sets := fun s h _ _ _ => hP.refill_sets s h

end KeptEngine3

section EventSets

theorem SamplableSet.mem_items_erase_iff (w : SamplableSet) (k : Node) (p : Node × ℚ) :
    p ∈ (w.erase k).items ↔ p ∈ w.items ∧ p.1 ≠ k := by
  simp [SamplableSet.erase, List.mem_filter]

theorem SamplableSet.keys_nodup_erase {w : SamplableSet} (k : Node) (h : w.keys.Nodup) :
    (w.erase k).keys.Nodup := by
  unfold SamplableSet.keys SamplableSet.erase
  exact h.sublist ((List.filter_sublist _).map _)

theorem SamplableSet.not_mem_keys_erase (w : SamplableSet) (k : Node) : k ∉ (w.erase k).keys := by
  rw [SamplableSet.mem_keys_erase]
  exact fun h => h.2 rfl

theorem SamplableSet.mem_keys_iff (w : SamplableSet) (u : Node) :
    u ∈ w.keys ↔ ∃ x, (u, x) ∈ w.items := by
  simp [SamplableSet.keys]

theorem SamplableSet.mem_items_insert_iff (w : SamplableSet) (k : Node) (x : ℚ) (p : Node × ℚ)
    (hk : k ∉ w.keys) : p ∈ (w.insert k x).items ↔ p ∈ w.items ∨ p = (k, x) := by
  unfold SamplableSet.insert
  rw [if_neg hk]
  simp

theorem SamplableSet.mem_keys_insert (w : SamplableSet) (k u : Node) (x : ℚ) :
    u ∈ (w.insert k x).keys ↔ u ∈ w.keys ∨ u = k := by
  unfold SamplableSet.insert
  split
  · rename_i hk
    constructor
    · exact Or.inl
    · rintro (h | h)
      · exact h
      · rw [h]; exact hk
  · simp [SamplableSet.keys]

theorem SamplableSet.keys_nodup_insert {w : SamplableSet} (k : Node) (x : ℚ) (h : w.keys.Nodup) :
    (w.insert k x).keys.Nodup := by
  unfold SamplableSet.insert
  split
  · exact h
  · rename_i hk
    unfold SamplableSet.keys at hk ⊢
    simp only [List.map_append, List.map_cons, List.map_nil]
    rw [List.nodup_append]
    refine ⟨h, List.nodup_singleton k, ?_⟩
    intro a ha hb
    rw [List.mem_singleton] at hb
    exact hk (hb ▸ ha)

theorem SamplableSet.keys_nodup_set_weight {w : SamplableSet} (k : Node) (x : ℚ)
    (h : w.keys.Nodup) : (w.set_weight k x).keys.Nodup :=
  SamplableSet.keys_nodup_insert k x (SamplableSet.keys_nodup_erase k h)

theorem SamplableSet.mem_items_set_weight_iff (w : SamplableSet) (k : Node) (x : ℚ)
    (p : Node × ℚ) : p ∈ (w.set_weight k x).items ↔ (p ∈ w.items ∧ p.1 ≠ k) ∨ p = (k, x) := by
  unfold SamplableSet.set_weight
  rw [SamplableSet.mem_items_insert_iff _ _ _ _ (SamplableSet.not_mem_keys_erase w k),
    SamplableSet.mem_items_erase_iff]

theorem SamplableSet.mem_keys_set_weight (w : SamplableSet) (k u : Node) (x : ℚ) :
    u ∈ (w.set_weight k x).keys ↔ u ∈ w.keys ∨ u = k := by
  unfold SamplableSet.set_weight
  rw [SamplableSet.mem_keys_insert, SamplableSet.mem_keys_erase]
  constructor
  · rintro (h | h)
    · exact Or.inl h.1
    · exact Or.inr h
  · rintro (h | h)
    · by_cases huk : u = k
      · exact Or.inr huk
      · exact Or.inl ⟨h, huk⟩
    · exact Or.inr h

/-- In a set without repeated key, a key has one weight. -/
theorem SamplableSet.weight_unique {w : SamplableSet} (h : w.keys.Nodup) {k : Node} {x y : ℚ}
    (hx : (k, x) ∈ w.items) (hy : (k, y) ∈ w.items) : x = y := by
  have := List.inj_on_of_nodup_map h hx hy rfl
  exact (Prod.mk.inj this).2

/-- After a call of `infect` that returned, the recovery candidates are the former ones
and the node, with weight 1. -/
theorem infect_recovery_event_set (s : Sim) (v : Node) (h : (infect s v).err = none) :
    (infect s v).st.recovery_event_set_ = s.recovery_event_set_.insert v 1 := by
  obtain ⟨hv, hs⟩ := infect_ok_susceptible s v h
  unfold infect at h ⊢
  split at h
  · simp only [ContinuousSIR.infect, hv, hs, if_true] at h ⊢
    have h1 := (Res.andThen_err_none h).1
    rw [Res.andThen_of_ok _ h1]
    obtain ⟨l, p, w, hl⟩ := continuous_neighbor_loop_frame (v, Action.INFECTION)
      (s.network_.adjacent_nodes v) { s with
        infection_event_set_ := s.infection_event_set_.erase v,
        state_vector_ := Function.update s.state_vector_ v NodeState.I,
        infected_node_set_ := set_insert s.infected_node_set_ v }
    simp only [Res.ok_st]
    rw [hl]
  · simp only [DiscreteSIR.infect, hv, hs, if_true] at h ⊢
    have h1 := (Res.andThen_err_none h).1
    rw [Res.andThen_of_ok _ h1]
    obtain ⟨l, p, w, hl⟩ := discrete_neighbor_loop_frame (v, Action.INFECTION)
      (s.network_.adjacent_nodes v) { s with
        infection_event_set_ := s.infection_event_set_.erase v,
        state_vector_ := Function.update s.state_vector_ v NodeState.I,
        infected_node_set_ := set_insert s.infected_node_set_ v }
    simp only [Res.ok_st]
    rw [hl]
  · simp only [AnnealedContinuousSIR.infect, hv, hs, if_true] at h ⊢
    obtain ⟨m, hm⟩ := annealed_update_meanfield_rate_frame { s with
        infection_event_set_ := s.infection_event_set_.erase v,
        state_vector_ := Function.update s.state_vector_ v NodeState.I,
        infected_node_set_ := set_insert s.infected_node_set_ v,
        recovery_event_set_ := s.recovery_event_set_.insert v 1 }
    rw [hm]

theorem RecoveryInv.kept_recovery : Kept RecoveryInv where
  infect := by
    intro s v h herr
    obtain ⟨hv, hs⟩ := infect_ok_susceptible s v herr
    have he := infect_effect s v hv hs
    have hw := infect_recovery_event_set s v herr
    refine ⟨?_, ?_, ?_⟩
    · rw [hw]; exact SamplableSet.keys_nodup_insert v 1 h.keys_nodup
    · intro u
      rw [hw, he.infected_node_set_, SamplableSet.mem_keys_insert, mem_set_insert, h.keys_iff]
    · intro p hp
      rw [hw] at hp
      rcases SamplableSet.mem_items_insert hp with h1 | h1
      · exact h.weight_one p h1
      · rw [h1]
  recover := by
    intro s v h herr
    obtain ⟨hv, hs⟩ := recover_ok_infected s v herr
    have he := recover_effect s v hv hs
    have hw := recover_recovery_event_set s v herr
    refine ⟨?_, ?_, ?_⟩
    · rw [hw]; exact SamplableSet.keys_nodup_erase v h.keys_nodup
    · intro u
      rw [hw, he.infected_node_set_, SamplableSet.mem_keys_erase, mem_set_erase, h.keys_iff]
    · intro p hp
      rw [hw] at hp
      exact h.weight_one p (SamplableSet.mem_items_erase hp)
  generation := fun _ _ h => ⟨h.1, h.2, h.3⟩
  tree := fun _ _ h => ⟨h.1, h.2, h.3⟩
  snapshot := fun _ _ h => ⟨h.1, h.2, h.3⟩
  clock := fun _ _ _ h => ⟨h.1, h.2, h.3⟩
  flip := fun _ h _ => ⟨h.1, h.2, h.3⟩
  clear_sets := by
    intro s _ _ hI _
    refine ⟨List.nodup_nil, ?_, ?_⟩
    · intro v
      show v ∈ ([] : List Node) ↔ v ∈ s.infected_node_set_
      rw [hI]
    · intro p hp
      exact absurd hp (List.not_mem_nil p)
  refill_sets := by
    intro s _ _ hI _
    refine ⟨List.nodup_nil, ?_, ?_⟩
    · intro v
      show v ∈ ([] : List Node) ↔ v ∈ s.infected_node_set_
      rw [hI]
    · intro p hp
      exact absurd hp (List.not_mem_nil p)

theorem RecoveryInv.recovery_of_fresh (s : Sim) (h1 : s.recovery_event_set_ = SamplableSet.empty)
    (h2 : s.infected_node_set_ = []) : RecoveryInv s := by
  refine ⟨by rw [h1]; exact List.nodup_nil, ?_, ?_⟩
  · intro v; rw [h1, h2]; exact Iff.rfl
  · intro p hp; rw [h1] at hp; exact absurd hp (List.not_mem_nil p)

theorem RecoveryInv.recovery_of_reached {s : Sim} (h : Reached s) : RecoveryInv s :=
  kept_reached RecoveryInv.kept_recovery
    (fun _ _ _ => RecoveryInv.recovery_of_fresh _ rfl rfl)
    (fun _ _ _ _ => RecoveryInv.recovery_of_fresh _ rfl rfl)
    (fun _ _ _ _ _ _ => RecoveryInv.recovery_of_fresh _ rfl rfl) h

end EventSets

/-- The recovery candidates after calls that returned. For each of the three strategies, in every state reached from construction by calls
of `infect_fraction`, `infect_node_set`, `evolve`, `clear` and `reset` that returned, the
keys of `recovery_event_set_` are the elements of `infected_node_set_`, no key is repeated
and every key has weight 1. -/
theorem recovery_candidates_of_reached (s : Sim) (h : Reached s) :
    (∀ v, v ∈ s.recovery_event_set_.keys ↔ v ∈ s.infected_node_set_)
    ∧ (∀ p ∈ s.recovery_event_set_.items, p.2 = 1)
    ∧ s.recovery_event_set_.keys.Nodup :=
  ⟨(RecoveryInv.recovery_of_reached h).keys_iff, (RecoveryInv.recovery_of_reached h).weight_one,
    (RecoveryInv.recovery_of_reached h).keys_nodup⟩

/-- An instance: a discrete-time simulation on a path of three nodes, after seeding
nodes 0 and 2 and one tick in which node 0 recovers: the only recovery candidate is node 2. -/
theorem recovery_candidates_of_reached_instance :
    (BaseContagion.evolve
        (BaseContagion.infect_node_set
          (DiscreteSIR.create [(0, 1), (1, 2)] 1 [0, 1, 2] (fun p => p)) [0, 2]).st
        1 false true [⟨0, 1, 0, fun _ => 0, fun _ => 0, fun _ => 0⟩]).st.recovery_event_set_.keys
      = [2]
    ∧ ∀ v, v ∈ (BaseContagion.evolve
        (BaseContagion.infect_node_set
          (DiscreteSIR.create [(0, 1), (1, 2)] 1 [0, 1, 2] (fun p => p)) [0, 2]).st
        1 false true [⟨0, 1, 0, fun _ => 0, fun _ => 0, fun _ => 0⟩]).st.recovery_event_set_.keys
      ↔ v ∈ (BaseContagion.evolve
        (BaseContagion.infect_node_set
          (DiscreteSIR.create [(0, 1), (1, 2)] 1 [0, 1, 2] (fun p => p)) [0, 2]).st
        1 false true [⟨0, 1, 0, fun _ => 0, fun _ => 0, fun _ => 0⟩]).st.infected_node_set_ :=
  ⟨by with_unfolding_all decide,
    (recovery_candidates_of_reached _
      (Reached.evolve 1 false true [⟨0, 1, 0, fun _ => 0, fun _ => 0, fun _ => 0⟩]
        (Reached.infect_node_set [0, 2]
          (Reached.discrete [(0, 1), (1, 2)] 1 [0, 1, 2] (fun p => p))
          (by with_unfolding_all decide))
        (by with_unfolding_all decide))).1⟩

section Clear

theorem recover_all_history (xs : List Node) (s : Sim) :
    SameHistory s (for_each recover xs s).st :=
  for_each_rel SameHistory SameHistory.refl_history (fun _ _ _ h1 h2 => h1.trans_history h2) _
    (fun s v => (recover_params_history s v).2) xs s

theorem recover_all_params (xs : List Node) (s : Sim) :
    SameParams s (for_each recover xs s).st :=
  for_each_rel SameParams SameParams.refl_params (fun _ _ _ h1 h2 => h1.trans_params h2) _
    (fun s v => (recover_params_history s v).1) xs s

/-- Whether or not it returns, `BaseContagion::clear` leaves the histories and the clock. -/
theorem base_clear_records (s : Sim) : SameRecords s (BaseContagion.clear s).st := by
  have h1 := recover_all_history s.infected_node_set_ s
  rw [base_clear_eq]
  rcases Res.andThen_cases (for_each recover s.infected_node_set_ s) (fun s1 =>
      Res.ok { s1 with
        state_vector_ :=
          s1.recovered_node_set_.foldl (fun sv node => Function.update sv node NodeState.S)
            s1.state_vector_,
        recovered_node_set_ := [],
        infection_generation_ := fun _ => none }) with ⟨_, h⟩ | ⟨_, h⟩
  · rw [h]; exact ⟨h1.2, h1.3, h1.4, h1.5⟩
  · rw [h]; exact ⟨h1.2, h1.3, h1.4, h1.5⟩

theorem derived_clear_records (s : Sim) : SameRecords s (fastsir.clear s).st := by
  have h1 := base_clear_records s
  rw [derived_clear_eq]
  rcases Res.andThen_cases (BaseContagion.clear s) (fun s1 =>
      Res.ok { s1 with
        infection_event_set_ :=
          if s.kind = Kind.annealed then
            (List.range s1.size).foldl (fun w node => w.insert node 1)
              s1.infection_event_set_.clear
          else s1.infection_event_set_.clear,
        recovery_event_set_ := s1.recovery_event_set_.clear }) with ⟨_, h⟩ | ⟨_, h⟩
  · rw [h]; exact ⟨h1.1, h1.2, h1.3, h1.4⟩
  · rw [h]; exact h1

/-- After a call of `BaseContagion::clear` that returned, in a state in which the node sets
list the infected and the recovered nodes, every node is susceptible. -/
theorem base_clear_all_susceptible (s : Sim) (hp : PopulationInv s)
    (herr : (BaseContagion.clear s).err = none) : AllSusceptible (BaseContagion.clear s).st := by
  have h1 := base_clear_err_none s herr
  have hp1 : PopulationInv (for_each recover s.infected_node_set_ s).st :=
    for_each_inv PopulationInv _ (fun s v h => PopulationInv.recover s v h) _ s hp
  have hI := recover_all_infected_nil s h1
  rw [base_clear_eq, Res.andThen_of_ok _ h1]
  refine ⟨?_, hI, rfl, fun _ => rfl⟩
  intro v hv
  have hv1 : v < (for_each recover s.infected_node_set_ s).st.size := hv
  show ((for_each recover s.infected_node_set_ s).st.recovered_node_set_.foldl
      (fun sv node => Function.update sv node NodeState.S)
      (for_each recover s.infected_node_set_ s).st.state_vector_) v = NodeState.S
  rw [foldl_update_apply]
  split
  · rfl
  · rename_i hR
    cases hst : (for_each recover s.infected_node_set_ s).st.state_vector_ v with
    | S => rfl
    | I =>
      have := (hp1.infected_iff v).2 ⟨hv1, hst⟩
      rw [hI] at this
      exact absurd this (List.not_mem_nil v)
    | R => exact absurd ((hp1.recovered_iff v).2 ⟨hv1, hst⟩) hR

theorem derived_clear_all_susceptible (s : Sim) (hp : PopulationInv s)
    (herr : (fastsir.clear s).err = none) : AllSusceptible (fastsir.clear s).st := by
  rw [derived_clear_eq] at herr ⊢
  have h1 := (Res.andThen_err_none herr).1
  have h2 := base_clear_all_susceptible s hp h1
  rw [Res.andThen_of_ok _ h1]
  exact ⟨h2.1, h2.2, h2.3, h2.4⟩

/-- A loop of calls of `recover` on distinct infected nodes raises nothing but the two
access errors. -/
theorem recover_all_err_ne (e : Err) (h1 : e ≠ Err.undefined_behaviour)
    (h2 : e ≠ Err.out_of_range) :
    ∀ (xs : List Node) (s : Sim), xs.Nodup →
      (∀ x ∈ xs, x < s.size ∧ s.state_vector_ x = NodeState.I) →
      (for_each recover xs s).err ≠ some e := by
  intro xs
  induction xs with
  | nil => intro s _ _; simp
  | cons x xs ih =>
    intro s hnd hall
    rw [List.nodup_cons] at hnd
    obtain ⟨hx, hs⟩ := hall x (List.mem_cons_self _ _)
    rw [for_each_cons]
    rcases Res.andThen_cases (recover s x) (for_each recover xs) with ⟨_, h⟩ | ⟨_, h⟩
    · rw [h]
      have he := recover_effect s x hx hs
      apply ih _ hnd.2
      intro y hy
      have hyx : y ≠ x := fun hc => hnd.1 (hc ▸ hy)
      rw [he.params.size_eq, he.state_vector_, Function.update_noteq hyx]
      exact hall y (List.mem_cons_of_mem _ hy)
    · rw [h]; exact recover_err_ne s x hx hs e h1 h2

theorem base_clear_err_ne (s : Sim) (hp : PopulationInv s) (e : Err)
    (h1 : e ≠ Err.undefined_behaviour) (h2 : e ≠ Err.out_of_range) :
    (BaseContagion.clear s).err ≠ some e := by
  rw [base_clear_eq]
  intro hc
  rcases Res.andThen_cases (for_each recover s.infected_node_set_ s) (fun s1 =>
      Res.ok { s1 with
        state_vector_ :=
          s1.recovered_node_set_.foldl (fun sv node => Function.update sv node NodeState.S)
            s1.state_vector_,
        recovered_node_set_ := [],
        infection_generation_ := fun _ => none }) with ⟨_, h⟩ | ⟨_, h⟩
  · rw [h] at hc; simp at hc
  · rw [h] at hc
    exact recover_all_err_ne e h1 h2 _ s hp.infected_nodup
      (fun x hx => (hp.infected_iff x).1 hx) hc

theorem derived_clear_err_ne (s : Sim) (hp : PopulationInv s) (e : Err)
    (h1 : e ≠ Err.undefined_behaviour) (h2 : e ≠ Err.out_of_range) :
    (fastsir.clear s).err ≠ some e := by
  rw [derived_clear_eq]
  intro hc
  rcases Res.andThen_cases (BaseContagion.clear s) (fun s1 =>
      Res.ok { s1 with
        infection_event_set_ :=
          if s.kind = Kind.annealed then
            (List.range s1.size).foldl (fun w node => w.insert node 1)
              s1.infection_event_set_.clear
          else s1.infection_event_set_.clear,
        recovery_event_set_ := s1.recovery_event_set_.clear }) with ⟨_, h⟩ | ⟨_, h⟩
  · rw [h] at hc; simp at hc
  · rw [h] at hc; exact base_clear_err_ne s hp e h1 h2 hc

/-- The outcome of an operation is a return or one of the two access errors. -/
theorem err_cases {o : Option Err}
    (h : ∀ e, e ≠ Err.undefined_behaviour → e ≠ Err.out_of_range → o ≠ some e) :
    o = none ∨ o = some Err.out_of_range ∨ o = some Err.undefined_behaviour := by
  cases o with
  | none => exact Or.inl rfl
  | some e =>
    cases e
    case out_of_range => exact Or.inr (Or.inl rfl)
    case undefined_behaviour => exact Or.inr (Or.inr rfl)
    all_goals exact absurd rfl (h _ (by decide) (by decide))

end Clear

section Reset

/-- With the fraction 0 the loop of `infect_fraction` is not entered: no draw is read and
the state is returned as it is. -/
theorem infect_fraction_zero (s : Sim) (draws : List ℚ) :
    BaseContagion.infect_fraction s 0 draws = Res.ok s := by
  unfold BaseContagion.infect_fraction BaseContagion.number_of_infection
  simp only [mul_zero, Int.floor_zero, Int.toNat_zero]
  cases draws <;> simp [BaseContagion.infect_fraction_loop]

theorem reset_all_susceptible (s : Sim) (hp : PopulationInv s)
    (herr : (BaseContagion.reset s).err = none) : AsConstructed (BaseContagion.reset s).st := by
  rw [reset_eq] at herr ⊢
  have h1 := (Res.andThen_err_none herr).1
  have h2 := base_clear_all_susceptible s hp h1
  rw [Res.andThen_of_ok _ h1]
  exact ⟨⟨h2.1, h2.2, h2.3, h2.4⟩, rfl, rfl, rfl, rfl⟩

theorem reset_err_ne (s : Sim) (hp : PopulationInv s) (e : Err)
    (h1 : e ≠ Err.undefined_behaviour) (h2 : e ≠ Err.out_of_range) :
    (BaseContagion.reset s).err ≠ some e := by
  rw [reset_eq]
  intro hc
  rcases Res.andThen_cases (BaseContagion.clear s) (fun s1 =>
      Res.ok { s1 with
        macro_state_vector_ := [],
        transmission_tree_ := [],
        current_time_ := 0,
        last_event_time_ := 0 }) with ⟨_, h⟩ | ⟨_, h⟩
  · rw [h] at hc; simp at hc
  · rw [h] at hc; exact base_clear_err_ne s hp e h1 h2 hc

end Reset

section Seeding

/-- The body of the loop of `infect_node_set` raises nothing but the two access errors. -/
theorem infect_node_set_body_err_ne (s : Sim) (x : Node) (e : Err)
    (h1 : e ≠ Err.undefined_behaviour) (h2 : e ≠ Err.out_of_range) :
    (BaseContagion.infect_node_set_body s x).err ≠ some e := by
  unfold BaseContagion.infect_node_set_body
  split
  · rename_i hx
    split
    · rename_i hs
      intro hc
      rcases Res.andThen_cases (infect s x) (fun s1 => Res.ok { s1 with
          infection_generation_ := Function.update s1.infection_generation_ x (some 0) })
        with ⟨_, h⟩ | ⟨_, h⟩
      · rw [h] at hc; simp at hc
      · rw [h] at hc; exact infect_err_ne s x hx hs e h1 h2 hc
    · simp
  · simp only [Res.fail_err, ne_eq, Option.some.injEq]
    exact fun hc => h1 hc.symm

/-- What an iteration of the loop of `infect_node_set` that returned did. -/
theorem infect_node_set_body_returned (s : Sim) (x : Node)
    (herr : (BaseContagion.infect_node_set_body s x).err = none) :
    x < s.size
    ∧ (BaseContagion.infect_node_set_body s x).st.state_vector_
        = (if s.state_vector_ x = NodeState.S then Function.update s.state_vector_ x NodeState.I
            else s.state_vector_)
    ∧ (BaseContagion.infect_node_set_body s x).st.infection_generation_
        = (if s.state_vector_ x = NodeState.S then
            Function.update s.infection_generation_ x (some 0)
          else s.infection_generation_) := by
  unfold BaseContagion.infect_node_set_body at herr ⊢
  by_cases hx : x < s.size
  swap
  · rw [if_neg hx] at herr; simp at herr
  rw [if_pos hx] at herr ⊢
  refine ⟨hx, ?_⟩
  by_cases hs : s.state_vector_ x = NodeState.S
  · rw [if_pos hs] at herr ⊢
    have h1 := (Res.andThen_err_none herr).1
    have he := infect_effect s x hx hs
    rw [Res.andThen_of_ok _ h1, if_pos hs, if_pos hs]
    exact ⟨he.state_vector_, by
      show Function.update (infect s x).st.infection_generation_ x (some 0) = _
      rw [he.history.infection_generation_]⟩
  · rw [if_neg hs, if_neg hs, if_neg hs]
    exact ⟨rfl, rfl⟩

/-- The states and the generations after a call of `infect_node_set` that returned. -/
theorem infect_node_set_effect :
    ∀ (xs : List Node) (s : Sim), (BaseContagion.infect_node_set s xs).err = none →
      (∀ x ∈ xs, x < s.size)
      ∧ ∀ v,
        (BaseContagion.infect_node_set s xs).st.state_vector_ v
          = (if v ∈ xs ∧ s.state_vector_ v = NodeState.S then NodeState.I
              else s.state_vector_ v)
        ∧ (BaseContagion.infect_node_set s xs).st.infection_generation_ v
          = (if v ∈ xs ∧ s.state_vector_ v = NodeState.S then some 0
              else s.infection_generation_ v) := by
  intro xs
  induction xs with
  | nil =>
    intro s _
    exact ⟨fun x hx => absurd hx (List.not_mem_nil x), fun v => by
      simp [BaseContagion.infect_node_set]⟩
  | cons x xs ih =>
    intro s herr
    unfold BaseContagion.infect_node_set at herr ⊢
    rw [for_each_cons] at herr ⊢
    obtain ⟨h1, h2⟩ := Res.andThen_err_none herr
    obtain ⟨hx, hst, hgen⟩ := infect_node_set_body_returned s x h1
    rw [Res.andThen_of_ok _ h1]
    obtain ⟨hlt, hall⟩ := ih (BaseContagion.infect_node_set_body s x).st h2
    unfold BaseContagion.infect_node_set at hall
    have hsize : (BaseContagion.infect_node_set_body s x).st.size = s.size := by
      unfold BaseContagion.infect_node_set_body
      rw [if_pos hx]
      split
      · exact (Res.andThen_rel (fun a b => b.size = a.size) (fun _ _ _ h1 h2 => h2.trans h1)
          (infect_params_history s x).1.size_eq (fun _ => rfl))
      · rfl
    refine ⟨?_, ?_⟩
    · intro y hy
      rcases List.mem_cons.1 hy with hy | hy
      · rw [hy]; exact hx
      · rw [← hsize]; exact hlt y hy
    intro v
    obtain ⟨e1, e2⟩ := hall v
    rw [e1, e2, hst, hgen]
    by_cases hs : s.state_vector_ x = NodeState.S
    · simp only [if_pos hs]
      by_cases hvx : v = x
      · subst hvx
        simp [hs]
      · simp [hvx, Function.update_noteq hvx]
    · simp only [if_neg hs]
      by_cases hvx : v = x
      · subst hvx
        simp [hs]
      · simp [hvx]

end Seeding

section Fraction

theorem infect_fraction_loop_nil (n count : Nat) (s : Sim) :
    BaseContagion.infect_fraction_loop n [] count s
      = if count < n then Res.fail s Err.out_of_draws else Res.ok s := rfl

theorem infect_fraction_loop_cons (n count : Nat) (u : ℚ) (us : List ℚ) (s : Sim) :
    BaseContagion.infect_fraction_loop n (u :: us) count s
      = if count < n then
          if Int.toNat ⌊u * (s.size : ℚ)⌋ < s.size then
            if s.state_vector_ (Int.toNat ⌊u * (s.size : ℚ)⌋) = NodeState.S then
              (infect s (Int.toNat ⌊u * (s.size : ℚ)⌋)).andThen fun s1 =>
                BaseContagion.infect_fraction_loop n us (count + 1) { s1 with
                  infection_generation_ :=
                    Function.update s1.infection_generation_ (Int.toNat ⌊u * (s.size : ℚ)⌋)
                      (some 0) }
            else BaseContagion.infect_fraction_loop n us count s
          else Res.fail s Err.undefined_behaviour
        else Res.ok s := rfl

/-- The loop of `infect_fraction` raises no precondition error. -/
theorem infect_fraction_loop_err_ne (n : Nat) (e : Err) (h1 : e ≠ Err.undefined_behaviour)
    (h2 : e ≠ Err.out_of_range) (h3 : e ≠ Err.out_of_draws) :
    ∀ (draws : List ℚ) (count : Nat) (s : Sim),
      (BaseContagion.infect_fraction_loop n draws count s).err ≠ some e := by
  intro draws
  induction draws with
  | nil =>
    intro count s
    rw [infect_fraction_loop_nil]
    split
    · simp only [Res.fail_err, ne_eq, Option.some.injEq]
      exact fun hc => h3 hc.symm
    · simp
  | cons u us ih =>
    intro count s
    rw [infect_fraction_loop_cons]
    split
    · split
      · rename_i hn
        split
        · rename_i hs
          intro hc
          rcases Res.andThen_cases (infect s (Int.toNat ⌊u * (s.size : ℚ)⌋)) (fun s1 =>
              BaseContagion.infect_fraction_loop n us (count + 1) { s1 with
                infection_generation_ :=
                  Function.update s1.infection_generation_ (Int.toNat ⌊u * (s.size : ℚ)⌋)
                    (some 0) }) with ⟨_, h⟩ | ⟨_, h⟩
          · rw [h] at hc; exact ih _ _ hc
          · rw [h] at hc; exact infect_err_ne s _ hn hs e h1 h2 hc
        · exact ih _ _
      · simp only [Res.fail_err, ne_eq, Option.some.injEq]
        exact fun hc => h1 hc.symm
    · simp

/-- The nodes infected by a run of the loop of `infect_fraction` that returned. -/
theorem infect_fraction_loop_effect (n : Nat) :
    ∀ (draws : List ℚ) (count : Nat) (s : Sim), count ≤ n →
      (BaseContagion.infect_fraction_loop n draws count s).err = none →
      ∃ l : List Node, l.Nodup ∧ count + l.length = n
        ∧ (∀ v ∈ l, v < s.size ∧ s.state_vector_ v = NodeState.S
            ∧ (BaseContagion.infect_fraction_loop n draws count s).st.state_vector_ v
                = NodeState.I
            ∧ (BaseContagion.infect_fraction_loop n draws count s).st.infection_generation_ v
                = some 0)
        ∧ (∀ v, v ∉ l →
            (BaseContagion.infect_fraction_loop n draws count s).st.state_vector_ v
                = s.state_vector_ v
            ∧ (BaseContagion.infect_fraction_loop n draws count s).st.infection_generation_ v
                = s.infection_generation_ v) := by
  intro draws
  induction draws with
  | nil =>
    intro count s hle herr
    rw [infect_fraction_loop_nil] at herr ⊢
    by_cases hc : count < n
    · rw [if_pos hc] at herr; simp at herr
    · rw [if_neg hc]
      exact ⟨[], List.nodup_nil, by simp; omega, fun v hv => absurd hv (List.not_mem_nil v),
        fun v _ => ⟨rfl, rfl⟩⟩
  | cons u us ih =>
    intro count s hle herr
    rw [infect_fraction_loop_cons] at herr ⊢
    by_cases hc : count < n
    swap
    · rw [if_neg hc]
      exact ⟨[], List.nodup_nil, by simp; omega, fun v hv => absurd hv (List.not_mem_nil v),
        fun v _ => ⟨rfl, rfl⟩⟩
    rw [if_pos hc] at herr ⊢
    by_cases hn : Int.toNat ⌊u * (s.size : ℚ)⌋ < s.size
    swap
    · rw [if_neg hn] at herr; simp at herr
    rw [if_pos hn] at herr ⊢
    by_cases hs : s.state_vector_ (Int.toNat ⌊u * (s.size : ℚ)⌋) = NodeState.S
    swap
    · rw [if_neg hs] at herr ⊢
      exact ih count s hle herr
    rw [if_pos hs] at herr ⊢
    obtain ⟨h1, h2⟩ := Res.andThen_err_none herr
    rw [Res.andThen_of_ok _ h1]
    have he := infect_effect s _ hn hs
    obtain ⟨l, hnd, hlen, hin, hout⟩ := ih (count + 1) _ (by omega) h2
    have hnot : Int.toNat ⌊u * (s.size : ℚ)⌋ ∉ l := by
      intro hmem
      have := (hin _ hmem).2.1
      have e : (infect s (Int.toNat ⌊u * (s.size : ℚ)⌋)).st.state_vector_
          (Int.toNat ⌊u * (s.size : ℚ)⌋) = NodeState.S := this
      rw [he.state_vector_, Function.update_same] at e
      exact absurd e (by decide)
    refine ⟨Int.toNat ⌊u * (s.size : ℚ)⌋ :: l, List.nodup_cons.2 ⟨hnot, hnd⟩,
      by simp only [List.length_cons]; omega, ?_, ?_⟩
    · intro v hv
      rcases List.mem_cons.1 hv with hv | hv
      · rw [hv]
        obtain ⟨e1, e2⟩ := hout _ hnot
        refine ⟨hn, hs, ?_, ?_⟩
        · rw [e1]
          show (infect s (Int.toNat ⌊u * (s.size : ℚ)⌋)).st.state_vector_ _ = NodeState.I
          rw [he.state_vector_, Function.update_same]
        · rw [e2]
          show Function.update (infect s (Int.toNat ⌊u * (s.size : ℚ)⌋)).st.infection_generation_
            _ (some 0) _ = some 0
          rw [Function.update_same]
      · obtain ⟨e0, e1, e2, e3⟩ := hin v hv
        have hvn : v ≠ Int.toNat ⌊u * (s.size : ℚ)⌋ := fun hc => hnot (hc ▸ hv)
        refine ⟨?_, ?_, e2, e3⟩
        · have : v < (infect s (Int.toNat ⌊u * (s.size : ℚ)⌋)).st.size := e0
          rwa [he.params.size_eq] at this
        · have : (infect s (Int.toNat ⌊u * (s.size : ℚ)⌋)).st.state_vector_ v = NodeState.S := e1
          rwa [he.state_vector_, Function.update_noteq hvn] at this
    · intro v hv
      have hvn : v ≠ Int.toNat ⌊u * (s.size : ℚ)⌋ := fun hc => hv (hc ▸ List.mem_cons_self _ _)
      have hvl : v ∉ l := fun hc => hv (List.mem_cons_of_mem _ hc)
      obtain ⟨e1, e2⟩ := hout v hvl
      rw [e1, e2]
      constructor
      · show (infect s (Int.toNat ⌊u * (s.size : ℚ)⌋)).st.state_vector_ v = _
        rw [he.state_vector_, Function.update_noteq hvn]
      · show Function.update (infect s (Int.toNat ⌊u * (s.size : ℚ)⌋)).st.infection_generation_
          _ (some 0) v = _
        rw [Function.update_noteq hvn, he.history.infection_generation_]

/-- A list without repetition of susceptible nodes is not longer than their number. -/
theorem length_le_count_state (s : Sim) (l : List Node) (hnd : l.Nodup)
    (h : ∀ v ∈ l, v < s.size ∧ s.state_vector_ v = NodeState.S) :
    l.length ≤ count_state s NodeState.S := by
  unfold count_state
  apply length_le_of_nodup_subset hnd
  intro v hv
  obtain ⟨h1, h2⟩ := h v hv
  simp [h1, h2]

end Fraction
section Multiplicity

theorem count_endpoint (a b u v : Node) :
    List.count u (if a = v then [b] else []) = if a = v ∧ b = u then 1 else 0 := by
  by_cases h1 : a = v
  · by_cases h2 : b = u
    · simp [h1, h2]
    · have : ¬ (b == u) = true := by simpa using h2
      simp [h1, h2, List.count_cons, this]
  · simp [h1]

theorem Network.count_neighbors_from (u v : Node) (edge_list : EdgeList) :
    (Network.neighbors_from v edge_list).count u = (Network.neighbors_from u edge_list).count v := by
  by_cases huv : u = v
  · rw [huv]
  have hvu : ¬ v = u := fun h => huv h.symm
  induction edge_list with
  | nil => rfl
  | cons e es ih =>
    unfold Network.neighbors_from
    rw [List.count_append, List.count_append, List.count_append, List.count_append, ih,
      count_endpoint, count_endpoint, count_endpoint, count_endpoint]
    by_cases h1 : e.1 = v <;> by_cases h2 : e.2 = v <;> by_cases h3 : e.1 = u <;>
      by_cases h4 : e.2 = u <;> simp [h1, h2, h3, h4, huv, hvu]

theorem Network.symmetric_of_edge_list (edge_list : EdgeList) :
    Network.Symmetric (Network.ofEdgeList edge_list) := by
  refine ⟨?_, ?_⟩
  · intro u v
    rw [Network.ofEdgeList_adjacent, Network.ofEdgeList_adjacent]
    exact Network.count_neighbors_from u v edge_list
  · intro v u hu
    rw [Network.ofEdgeList_adjacent, Network.mem_neighbors_from] at hu
    rw [Network.ofEdgeList_size]
    rcases hu with hu | hu
    · exact Nat.lt_succ_of_le (Network.le_max_label edge_list _ hu).2
    · exact Nat.lt_succ_of_le (Network.le_max_label edge_list _ hu).1

/-- Infecting a node that was not infected adds its occurrences to the infected entries. -/
theorem countP_update_infect (f : Node → NodeState) (v : Node) (l : List Node)
    (hv : f v ≠ NodeState.I) :
    l.countP (fun u => decide (Function.update f v NodeState.I u = NodeState.I))
      = l.countP (fun u => decide (f u = NodeState.I)) + l.count v := by
  induction l with
  | nil => rfl
  | cons a l ih =>
    rw [List.countP_cons, List.countP_cons, List.count_cons, ih]
    by_cases hav : a = v
    · subst hav
      simp [hv]
      omega
    · have hva : ¬ (a == v) = true := by simpa using hav
      simp [Function.update_noteq hav, hva]
      omega

/-- The recovery of an infected node removes its occurrences from the infected entries. -/
theorem countP_update_recover (f : Node → NodeState) (v : Node) (l : List Node)
    (hv : f v = NodeState.I) :
    l.countP (fun u => decide (Function.update f v NodeState.R u = NodeState.I)) + l.count v
      = l.countP (fun u => decide (f u = NodeState.I)) := by
  induction l with
  | nil => rfl
  | cons a l ih =>
    rw [List.countP_cons, List.countP_cons, List.count_cons, ← ih]
    by_cases hav : a = v
    · subst hav
      simp [hv]
      omega
    · have hva : ¬ (a == v) = true := by simpa using hav
      simp [Function.update_noteq hav, hva]
      omega

theorem countP_eq_zero_of_none (f : Node → NodeState) (l : List Node)
    (h : ∀ u ∈ l, f u ≠ NodeState.I) :
    l.countP (fun u => decide (f u = NodeState.I)) = 0 := by
  rw [List.countP_eq_zero]
  intro u hu
  simpa using h u hu

end Multiplicity

section Visit

theorem slot_update_length_infection (u : Node) (l : List Node) (p : Node → Option Nat)
    (r : List Node × (Node → Option Nat))
    (h : slot_update (u, Action.INFECTION) l p = some r) : r.1.length = l.length + 1 := by
  unfold slot_update at h
  simp only [Option.some.injEq] at h
  rw [← h]
  simp

theorem slot_update_length_recovery (u : Node) (l : List Node) (p : Node → Option Nat)
    (r : List Node × (Node → Option Nat))
    (h : slot_update (u, Action.RECOVERY) l p = some r) : r.1.length + 1 = l.length := by
  unfold slot_update at h
  simp only at h
  split at h
  · rename_i x back hx hback
    simp only [Option.some.injEq] at h
    rw [← h]
    have hpos : 0 < l.length := by
      have := List.get?_eq_some.1 hx
      obtain ⟨hlt, _⟩ := this
      omega
    simp only [List.length_dropLast, List.length_set]
    omega
  · exact absurd h (by simp)

/-- What a visit of a neighbour that returned did: nothing to a neighbour that is not
susceptible; for a susceptible one, the update of its entry and, with the rate that the
table gives for the new length of its list, of its weight. -/
theorem continuous_visit_neighbor_returned (event : Event) (s : Sim) (x : Node)
    (h : (ContinuousSIR.visit_neighbor event s x).err = none) :
    x < s.size
    ∧ (s.state_vector_ x ≠ NodeState.S → ContinuousSIR.visit_neighbor event s x = Res.ok s)
    ∧ (s.state_vector_ x = NodeState.S →
        ∃ r rate, slot_update event (s.infected_neighbors_vector_ x)
            (s.infected_neighbor_position_vector_ x) = some r
          ∧ s.infection_rate_.get? r.1.length = some rate
          ∧ (ContinuousSIR.visit_neighbor event s x).st = { s with
              infected_neighbors_vector_ := Function.update s.infected_neighbors_vector_ x r.1,
              infected_neighbor_position_vector_ :=
                Function.update s.infected_neighbor_position_vector_ x r.2,
              infection_event_set_ :=
                if 0 < rate then s.infection_event_set_.set_weight x rate
                else s.infection_event_set_.erase x }) := by
  unfold ContinuousSIR.visit_neighbor at h ⊢
  by_cases hx : x < s.size
  swap
  · rw [if_neg hx] at h; simp at h
  rw [if_pos hx] at h ⊢
  refine ⟨hx, ?_, ?_⟩
  · intro hs; rw [if_neg hs]
  intro hs
  rw [if_pos hs] at h ⊢
  unfold ContinuousSIR.update_infection_rate at h ⊢
  rw [if_pos hx, update_infected_neighbors_eq] at h ⊢
  cases hr : slot_update event (s.infected_neighbors_vector_ x)
      (s.infected_neighbor_position_vector_ x) with
  | none => rw [hr] at h; simp at h
  | some r =>
    rw [hr] at h
    simp only [Option.map_some'] at h ⊢
    have hdeg : ContinuousSIR.get_infection_rate { s with
        infected_neighbors_vector_ := Function.update s.infected_neighbors_vector_ x r.1,
        infected_neighbor_position_vector_ :=
          Function.update s.infected_neighbor_position_vector_ x r.2 } x
        = s.infection_rate_.get? r.1.length := by
      unfold ContinuousSIR.get_infection_rate Sim.get_infected_degree
      have hx' : x < Sim.size { s with
        infected_neighbors_vector_ := Function.update s.infected_neighbors_vector_ x r.1,
        infected_neighbor_position_vector_ :=
          Function.update s.infected_neighbor_position_vector_ x r.2 } := hx
      rw [if_pos hx']
      simp only [Function.update_same]
    rw [hdeg] at h ⊢
    cases hrate : s.infection_rate_.get? r.1.length with
    | none => rw [hrate] at h; simp at h
    | some rate =>
      refine ⟨r, rate, rfl, hrate, ?_⟩
      by_cases hpos : 0 < rate
      · simp only [hrate, gt_iff_lt, if_pos hpos]
        rfl
      · simp only [hrate, gt_iff_lt, if_neg hpos]
        rfl

end Visit

section VisitWeights

/-- A visit that returned keeps the invariant of the infection candidates. -/
theorem InfectionWeights.visit {s : Sim} (h : InfectionWeights s) (event : Event) (x : Node)
    (herr : (ContinuousSIR.visit_neighbor event s x).err = none) :
    InfectionWeights (ContinuousSIR.visit_neighbor event s x).st := by
  obtain ⟨hx, hnS, hS⟩ := continuous_visit_neighbor_returned event s x herr
  by_cases hs : s.state_vector_ x = NodeState.S
  swap
  · rw [hnS hs]; exact h
  obtain ⟨r, rate, _, hrate, hst⟩ := hS hs
  rw [hst]
  by_cases hpos : 0 < rate
  · simp only [if_pos hpos]
    refine ⟨SamplableSet.keys_nodup_set_weight x rate h.keys_nodup, ?_, ?_⟩
    · intro v hv
      rcases (SamplableSet.mem_keys_set_weight _ _ _ _).1 hv with hv | hv
      · exact h.key_susceptible v hv
      · rw [hv]; exact ⟨hx, hs⟩
    · intro v hv hsv
      by_cases hvx : v = x
      · subst hvx
        refine ⟨rate, ?_, ?_, ?_⟩
        · show s.infection_rate_.get? (Function.update s.infected_neighbors_vector_ v r.1 v).length
            = some rate
          rw [Function.update_same]; exact hrate
        · intro _
          exact (SamplableSet.mem_items_set_weight_iff _ _ _ _).2 (Or.inr rfl)
        · intro hc; exact absurd hpos hc
      · obtain ⟨rv, h1, h2, h3⟩ := h.rate v hv hsv
        refine ⟨rv, ?_, ?_, ?_⟩
        · show s.infection_rate_.get? (Function.update s.infected_neighbors_vector_ x r.1 v).length
            = some rv
          rw [Function.update_noteq hvx]; exact h1
        · intro hp
          exact (SamplableSet.mem_items_set_weight_iff _ _ _ _).2 (Or.inl ⟨h2 hp, hvx⟩)
        · intro hp hc
          rcases (SamplableSet.mem_keys_set_weight _ _ _ _).1 hc with hc | hc
          · exact h3 hp hc
          · exact hvx hc
  · simp only [if_neg hpos]
    refine ⟨SamplableSet.keys_nodup_erase x h.keys_nodup, ?_, ?_⟩
    · intro v hv
      exact h.key_susceptible v ((SamplableSet.mem_keys_erase _ _ _).1 hv).1
    · intro v hv hsv
      by_cases hvx : v = x
      · subst hvx
        refine ⟨rate, ?_, ?_, ?_⟩
        · show s.infection_rate_.get? (Function.update s.infected_neighbors_vector_ v r.1 v).length
            = some rate
          rw [Function.update_same]; exact hrate
        · intro hc; exact absurd hc hpos
        · intro _
          exact SamplableSet.not_mem_keys_erase _ _
      · obtain ⟨rv, h1, h2, h3⟩ := h.rate v hv hsv
        refine ⟨rv, ?_, ?_, ?_⟩
        · show s.infection_rate_.get? (Function.update s.infected_neighbors_vector_ x r.1 v).length
            = some rv
          rw [Function.update_noteq hvx]; exact h1
        · intro hp
          exact (SamplableSet.mem_items_erase_iff _ _ _).2 ⟨h2 hp, hvx⟩
        · intro hp hc
          exact h3 hp ((SamplableSet.mem_keys_erase _ _ _).1 hc).1

/-- A loop over the neighbours that returned keeps the invariant of the infection
candidates. -/
theorem InfectionWeights.neighbor_loop (event : Event) (xs : List Node) (s : Sim)
    (h : InfectionWeights s)
    (herr : (for_each (ContinuousSIR.visit_neighbor event) xs s).err = none) :
    InfectionWeights (for_each (ContinuousSIR.visit_neighbor event) xs s).st :=
  for_each_kept InfectionWeights _ (fun _ x h e => h.visit event x e) xs s h herr

/-- The lists after a loop over the neighbours for an infection, when it returned: that of a
susceptible node has grown by the number of its occurrences among the neighbours, the
others are as before. -/
theorem continuous_infection_loop_lengths (w : Node) :
    ∀ (xs : List Node) (s : Sim),
      (for_each (ContinuousSIR.visit_neighbor (w, Action.INFECTION)) xs s).err = none →
      ∀ u,
        (s.state_vector_ u ≠ NodeState.S →
          (for_each (ContinuousSIR.visit_neighbor (w, Action.INFECTION)) xs
            s).st.infected_neighbors_vector_ u = s.infected_neighbors_vector_ u)
        ∧ (s.state_vector_ u = NodeState.S →
          ((for_each (ContinuousSIR.visit_neighbor (w, Action.INFECTION)) xs
            s).st.infected_neighbors_vector_ u).length
            = (s.infected_neighbors_vector_ u).length + xs.count u) := by
  intro xs
  induction xs with
  | nil => intro s _ u; exact ⟨fun _ => rfl, fun _ => rfl⟩
  | cons x xs ih =>
    intro s herr u
    rw [for_each_cons] at herr ⊢
    obtain ⟨h1, h2⟩ := Res.andThen_err_none herr
    rw [Res.andThen_of_ok _ h1]
    obtain ⟨hx, hnS, hS⟩ := continuous_visit_neighbor_returned _ s x h1
    have hcore := (continuous_visit_neighbor_frame (w, Action.INFECTION) s x).core
    obtain ⟨i1, i2⟩ := ih _ h2 u
    rw [hcore.state_vector_] at i1 i2
    by_cases hs : s.state_vector_ x = NodeState.S
    · obtain ⟨r, rate, hr, _, hst⟩ := hS hs
      have hlen := slot_update_length_infection w _ _ r hr
      constructor
      · intro hu
        rw [i1 hu, hst]
        have hux : u ≠ x := fun hc => hu (hc ▸ hs)
        exact Function.update_noteq hux _ _
      · intro hu
        rw [i2 hu, hst]
        by_cases hux : u = x
        · subst hux
          rw [List.count_cons_self]
          simp only [Function.update_same, hlen]
          omega
        · rw [List.count_cons_of_ne hux]
          simp only [Function.update_noteq hux]
    · rw [hnS hs]
      rw [hnS hs] at i1 i2
      refine ⟨i1, fun hu => ?_⟩
      have hux : u ≠ x := fun hc => hs (hc ▸ hu)
      rw [i2 hu, List.count_cons_of_ne hux]
      rfl

/-- The lists after a loop over the neighbours for a recovery, when it returned: that of a
susceptible node has lost as many elements as it occurs among the neighbours, the others
are as before. -/
theorem continuous_recovery_loop_lengths (w : Node) :
    ∀ (xs : List Node) (s : Sim),
      (for_each (ContinuousSIR.visit_neighbor (w, Action.RECOVERY)) xs s).err = none →
      ∀ u,
        (s.state_vector_ u ≠ NodeState.S →
          (for_each (ContinuousSIR.visit_neighbor (w, Action.RECOVERY)) xs
            s).st.infected_neighbors_vector_ u = s.infected_neighbors_vector_ u)
        ∧ (s.state_vector_ u = NodeState.S →
          ((for_each (ContinuousSIR.visit_neighbor (w, Action.RECOVERY)) xs
            s).st.infected_neighbors_vector_ u).length + xs.count u
            = (s.infected_neighbors_vector_ u).length) := by
  intro xs
  induction xs with
  | nil => intro s _ u; exact ⟨fun _ => rfl, fun _ => rfl⟩
  | cons x xs ih =>
    intro s herr u
    rw [for_each_cons] at herr ⊢
    obtain ⟨h1, h2⟩ := Res.andThen_err_none herr
    rw [Res.andThen_of_ok _ h1]
    obtain ⟨hx, hnS, hS⟩ := continuous_visit_neighbor_returned _ s x h1
    have hcore := (continuous_visit_neighbor_frame (w, Action.RECOVERY) s x).core
    obtain ⟨i1, i2⟩ := ih _ h2 u
    rw [hcore.state_vector_] at i1 i2
    by_cases hs : s.state_vector_ x = NodeState.S
    · obtain ⟨r, rate, hr, _, hst⟩ := hS hs
      have hlen := slot_update_length_recovery w _ _ r hr
      constructor
      · intro hu
        rw [i1 hu, hst]
        have hux : u ≠ x := fun hc => hu (hc ▸ hs)
        exact Function.update_noteq hux _ _
      · intro hu
        have i3 := i2 hu
        have hl : (ContinuousSIR.visit_neighbor (w, Action.RECOVERY) s x).st.infected_neighbors_vector_
            = Function.update s.infected_neighbors_vector_ x r.1 := by rw [hst]
        rw [hl] at i3
        by_cases hux : u = x
        · subst hux
          rw [List.count_cons_self]
          simp only [Function.update_same] at i3
          omega
        · rw [List.count_cons_of_ne hux]
          simp only [Function.update_noteq hux] at i3
          exact i3
    · rw [hnS hs]
      rw [hnS hs] at i1 i2
      refine ⟨i1, fun hu => ?_⟩
      have hux : u ≠ x := fun hc => hs (hc ▸ hu)
      rw [List.count_cons_of_ne hux]
      exact i2 hu

end VisitWeights

section ContinuousWeights

/-- The steps of a call of `ContinuousSIR::infect` that returned. -/
theorem continuous_infect_returned (s : Sim) (v : Node) (hk : s.kind = Kind.continuous)
    (herr : (infect s v).err = none) :
    (for_each (ContinuousSIR.visit_neighbor (v, Action.INFECTION)) (s.network_.adjacent_nodes v)
      { s with
        infection_event_set_ := s.infection_event_set_.erase v,
        state_vector_ := Function.update s.state_vector_ v NodeState.I,
        infected_node_set_ := set_insert s.infected_node_set_ v }).err = none
    ∧ (infect s v).st.infection_event_set_
        = (for_each (ContinuousSIR.visit_neighbor (v, Action.INFECTION))
            (s.network_.adjacent_nodes v)
            { s with
              infection_event_set_ := s.infection_event_set_.erase v,
              state_vector_ := Function.update s.state_vector_ v NodeState.I,
              infected_node_set_ := set_insert s.infected_node_set_ v }).st.infection_event_set_
    ∧ (infect s v).st.infected_neighbors_vector_
        = Function.update (for_each (ContinuousSIR.visit_neighbor (v, Action.INFECTION))
            (s.network_.adjacent_nodes v)
            { s with
              infection_event_set_ := s.infection_event_set_.erase v,
              state_vector_ := Function.update s.state_vector_ v NodeState.I,
              infected_node_set_ := set_insert s.infected_node_set_ v }).st.infected_neighbors_vector_
            v [] := by
  obtain ⟨hv, hs⟩ := infect_ok_susceptible s v herr
  rw [infect_continuous s v hk] at herr ⊢
  unfold ContinuousSIR.infect at herr ⊢
  simp only [hv, hs, if_true] at herr ⊢
  have h1 := (Res.andThen_err_none herr).1
  rw [Res.andThen_of_ok _ h1]
  exact ⟨h1, rfl, rfl⟩

/-- The steps of a call of `ContinuousSIR::recover` that returned. -/
theorem continuous_recover_returned (s : Sim) (v : Node) (hk : s.kind = Kind.continuous)
    (herr : (recover s v).err = none) :
    (for_each (ContinuousSIR.visit_neighbor (v, Action.RECOVERY)) (s.network_.adjacent_nodes v)
      { s with
        state_vector_ := Function.update s.state_vector_ v NodeState.R,
        infected_node_set_ := set_erase s.infected_node_set_ v,
        recovered_node_set_ := set_insert s.recovered_node_set_ v }).err = none
    ∧ (recover s v).st.infection_event_set_
        = (for_each (ContinuousSIR.visit_neighbor (v, Action.RECOVERY))
            (s.network_.adjacent_nodes v)
            { s with
              state_vector_ := Function.update s.state_vector_ v NodeState.R,
              infected_node_set_ := set_erase s.infected_node_set_ v,
              recovered_node_set_ := set_insert s.recovered_node_set_ v }).st.infection_event_set_
    ∧ (recover s v).st.infected_neighbors_vector_
        = (for_each (ContinuousSIR.visit_neighbor (v, Action.RECOVERY))
            (s.network_.adjacent_nodes v)
            { s with
              state_vector_ := Function.update s.state_vector_ v NodeState.R,
              infected_node_set_ := set_erase s.infected_node_set_ v,
              recovered_node_set_ :=
                set_insert s.recovered_node_set_ v }).st.infected_neighbors_vector_ := by
  obtain ⟨hv, hs⟩ := recover_ok_infected s v herr
  rw [recover_continuous s v hk] at herr ⊢
  unfold ContinuousSIR.recover at herr ⊢
  simp only [hv, hs, if_true] at herr ⊢
  have h1 := (Res.andThen_err_none herr).1
  rw [Res.andThen_of_ok _ h1]
  exact ⟨h1, rfl, rfl⟩

/-- A state that differs in the infection candidates, the lists and the states only has
the invariant of the infection candidates when its own members satisfy it. -/
theorem InfectionWeights.of_fields {s s' : Sim} (h : InfectionWeights s)
    (hsize : s'.size = s.size) (hstate : s'.state_vector_ = s.state_vector_)
    (hrates : s'.infection_rate_ = s.infection_rate_)
    (hset : s'.infection_event_set_ = s.infection_event_set_)
    (hlist : ∀ v, s.state_vector_ v = NodeState.S →
      s'.infected_neighbors_vector_ v = s.infected_neighbors_vector_ v) :
    InfectionWeights s' := by
  refine ⟨by rw [hset]; exact h.keys_nodup, ?_, ?_⟩
  · intro v hv
    rw [hset] at hv
    rw [hsize, hstate]
    exact h.key_susceptible v hv
  · intro v hv hs
    rw [hsize] at hv
    rw [hstate] at hs
    rw [hrates, hset, hlist v hs]
    exact h.rate v hv hs

theorem continuous_infect_weights {s : Sim} (hk : s.kind = Kind.continuous)
    (hsym : Network.Symmetric s.network_) (hw : InfectionWeights s) (hd : InfectedDegreeInv s)
    (v : Node) (herr : (infect s v).err = none) :
    InfectionWeights (infect s v).st ∧ InfectedDegreeInv (infect s v).st := by
  obtain ⟨hv, hs⟩ := infect_ok_susceptible s v herr
  have he := infect_effect s v hv hs
  obtain ⟨h1, hset, hlist⟩ := continuous_infect_returned s v hk herr
  have hcore := (continuous_neighbor_loop_frame (v, Action.INFECTION)
    (s.network_.adjacent_nodes v)
    { s with
      infection_event_set_ := s.infection_event_set_.erase v,
      state_vector_ := Function.update s.state_vector_ v NodeState.I,
      infected_node_set_ := set_insert s.infected_node_set_ v }).core
  have hlen := continuous_infection_loop_lengths v (s.network_.adjacent_nodes v) _ h1
  -- the candidates before the loop
  have hw1 : InfectionWeights { s with
      infection_event_set_ := s.infection_event_set_.erase v,
      state_vector_ := Function.update s.state_vector_ v NodeState.I,
      infected_node_set_ := set_insert s.infected_node_set_ v } := by
    refine ⟨SamplableSet.keys_nodup_erase v hw.keys_nodup, ?_, ?_⟩
    · intro u hu
      obtain ⟨hu1, hu2⟩ := (SamplableSet.mem_keys_erase _ _ _).1 hu
      obtain ⟨h3, h4⟩ := hw.key_susceptible u hu1
      exact ⟨h3, by
        show Function.update s.state_vector_ v NodeState.I u = NodeState.S
        rw [Function.update_noteq hu2]; exact h4⟩
    · intro u hu hsu
      have huv : u ≠ v := by
        intro hc
        have : Function.update s.state_vector_ v NodeState.I u = NodeState.S := hsu
        rw [hc, Function.update_same] at this
        exact absurd this (by decide)
      have hsu' : s.state_vector_ u = NodeState.S := by
        have : Function.update s.state_vector_ v NodeState.I u = NodeState.S := hsu
        rwa [Function.update_noteq huv] at this
      obtain ⟨r, e1, e2, e3⟩ := hw.rate u hu hsu'
      refine ⟨r, e1, ?_, ?_⟩
      · intro hp
        exact (SamplableSet.mem_items_erase_iff _ _ _).2 ⟨e2 hp, huv⟩
      · intro hp hc
        exact e3 hp ((SamplableSet.mem_keys_erase _ _ _).1 hc).1
  have hw2 := InfectionWeights.neighbor_loop _ _ _ hw1 h1
  constructor
  · apply hw2.of_fields
    · rw [he.params.size_eq]; exact hcore.params.size_eq.symm
    · rw [he.state_vector_]; exact hcore.state_vector_.symm
    · rw [he.params.infection_rate_]; exact hcore.params.infection_rate_.symm
    · exact hset
    · intro u hu
      rw [hlist]
      have huv : u ≠ v := by
        intro hc
        rw [hcore.state_vector_] at hu
        have : Function.update s.state_vector_ v NodeState.I u = NodeState.S := hu
        rw [hc, Function.update_same] at this
        exact absurd this (by decide)
      exact Function.update_noteq huv _ _
  · refine ⟨?_, ?_⟩
    · intro u hu
      rw [hlist]
      by_cases huv : u = v
      · rw [huv, Function.update_same]
      · rw [Function.update_noteq huv]
        rw [he.state_vector_, Function.update_noteq huv] at hu
        rw [(hlen u).1 (by
          show Function.update s.state_vector_ v NodeState.I u ≠ NodeState.S
          rw [Function.update_noteq huv]; exact hu)]
        exact hd.other u hu
    · intro u hu hsu
      rw [he.params.size_eq] at hu
      rw [he.state_vector_] at hsu
      have huv : u ≠ v := by
        intro hc
        rw [hc, Function.update_same] at hsu
        exact absurd hsu (by decide)
      rw [Function.update_noteq huv] at hsu
      rw [hlist, Function.update_noteq huv]
      rw [(hlen u).2 (by
        show Function.update s.state_vector_ v NodeState.I u = NodeState.S
        rw [Function.update_noteq huv]; exact hsu)]
      unfold Sim.infected_slots
      rw [he.params.network_, he.state_vector_,
        countP_update_infect _ _ _ (by rw [hs]; decide)]
      have h5 := hd.degree u hu hsu
      unfold Sim.infected_slots at h5
      have h6 := hsym.count_symm u v
      show (s.infected_neighbors_vector_ u).length + _ = _
      omega

end ContinuousWeights

section ContinuousWeights2

theorem continuous_recover_weights {s : Sim} (hk : s.kind = Kind.continuous)
    (hsym : Network.Symmetric s.network_) (hw : InfectionWeights s) (hd : InfectedDegreeInv s)
    (v : Node) (herr : (recover s v).err = none) :
    InfectionWeights (recover s v).st ∧ InfectedDegreeInv (recover s v).st := by
  obtain ⟨hv, hs⟩ := recover_ok_infected s v herr
  have he := recover_effect s v hv hs
  obtain ⟨h1, hset, hlist⟩ := continuous_recover_returned s v hk herr
  have hcore := (continuous_neighbor_loop_frame (v, Action.RECOVERY)
    (s.network_.adjacent_nodes v)
    { s with
      state_vector_ := Function.update s.state_vector_ v NodeState.R,
      infected_node_set_ := set_erase s.infected_node_set_ v,
      recovered_node_set_ := set_insert s.recovered_node_set_ v }).core
  have hlen := continuous_recovery_loop_lengths v (s.network_.adjacent_nodes v) _ h1
  have hne : ∀ u, Function.update s.state_vector_ v NodeState.R u = NodeState.S →
      u ≠ v ∧ s.state_vector_ u = NodeState.S := by
    intro u hu
    have huv : u ≠ v := by
      intro hc
      rw [hc, Function.update_same] at hu
      exact absurd hu (by decide)
    rw [Function.update_noteq huv] at hu
    exact ⟨huv, hu⟩
  have hw1 : InfectionWeights { s with
      state_vector_ := Function.update s.state_vector_ v NodeState.R,
      infected_node_set_ := set_erase s.infected_node_set_ v,
      recovered_node_set_ := set_insert s.recovered_node_set_ v } := by
    refine ⟨hw.keys_nodup, ?_, ?_⟩
    · intro u hu
      obtain ⟨h3, h4⟩ := hw.key_susceptible u hu
      have huv : u ≠ v := fun hc => by rw [hc, hs] at h4; exact absurd h4 (by decide)
      exact ⟨h3, by
        show Function.update s.state_vector_ v NodeState.R u = NodeState.S
        rw [Function.update_noteq huv]; exact h4⟩
    · intro u hu hsu
      exact hw.rate u hu (hne u hsu).2
  have hw2 := InfectionWeights.neighbor_loop _ _ _ hw1 h1
  constructor
  · apply hw2.of_fields
    · rw [he.params.size_eq]; exact hcore.params.size_eq.symm
    · rw [he.state_vector_]; exact hcore.state_vector_.symm
    · rw [he.params.infection_rate_]; exact hcore.params.infection_rate_.symm
    · exact hset
    · intro u _
      rw [hlist]
  · refine ⟨?_, ?_⟩
    · intro u hu
      rw [hlist]
      rw [he.state_vector_] at hu
      rw [(hlen u).1 hu]
      apply hd.other u
      by_cases huv : u = v
      · rw [huv, hs]; decide
      · rwa [Function.update_noteq huv] at hu
    · intro u hu hsu
      rw [he.params.size_eq] at hu
      rw [he.state_vector_] at hsu
      obtain ⟨huv, hsu'⟩ := hne u hsu
      have h4 := (hlen u).2 hsu
      have h5 := hd.degree u hu hsu'
      have h6 := hsym.count_symm u v
      have h7 := countP_update_recover s.state_vector_ v (s.network_.adjacent_nodes u) hs
      unfold Sim.infected_slots at h5 ⊢
      rw [he.params.network_, he.state_vector_, hlist]
      have h8 : (s.infected_neighbors_vector_ u).length
          = (Sim.infected_neighbors_vector_ { s with
              state_vector_ := Function.update s.state_vector_ v NodeState.R,
              infected_node_set_ := set_erase s.infected_node_set_ v,
              recovered_node_set_ := set_insert s.recovered_node_set_ v } u).length := rfl
      omega

/-- In a state without infected node, no entry of an adjacency list is infected. -/
theorem infected_slots_eq_zero {s : Sim} (hp : PopulationInv s)
    (hsym : Network.Symmetric s.network_) (hI : s.infected_node_set_ = []) (v : Node) :
    s.infected_slots v = 0 := by
  unfold Sim.infected_slots
  apply countP_eq_zero_of_none
  intro u hu hc
  have := (hp.infected_iff u).2 ⟨hsym.lt_size v u hu, hc⟩
  rw [hI] at this
  exact absurd this (List.not_mem_nil u)

theorem ContinuousOK.kept_continuous : Kept ContinuousOK where
  infect := by
    intro s v h herr
    refine ⟨PopulationInv.infect s v h.1, ?_⟩
    intro hk h0
    have hpar := (infect_params_history s v).1
    rw [hpar.kind] at hk
    rw [hpar.infection_rate_] at h0
    obtain ⟨hsym, hw, hd⟩ := h.2 hk h0
    rw [hpar.network_]
    exact ⟨hsym, continuous_infect_weights hk hsym hw hd v herr⟩
  recover := by
    intro s v h herr
    refine ⟨PopulationInv.recover s v h.1, ?_⟩
    intro hk h0
    have hpar := (recover_params_history s v).1
    rw [hpar.kind] at hk
    rw [hpar.infection_rate_] at h0
    obtain ⟨hsym, hw, hd⟩ := h.2 hk h0
    rw [hpar.network_]
    exact ⟨hsym, continuous_recover_weights hk hsym hw hd v herr⟩
  generation := fun s g h => ⟨PopulationInv.population_stable.generation s g h.1, fun hk h0 =>
    ⟨(h.2 hk h0).1, ⟨(h.2 hk h0).2.1.1, (h.2 hk h0).2.1.2, (h.2 hk h0).2.1.3⟩,
      ⟨(h.2 hk h0).2.2.1, (h.2 hk h0).2.2.2⟩⟩⟩
  tree := fun s g h => ⟨PopulationInv.population_stable.tree s g h.1, fun hk h0 =>
    ⟨(h.2 hk h0).1, ⟨(h.2 hk h0).2.1.1, (h.2 hk h0).2.1.2, (h.2 hk h0).2.1.3⟩,
      ⟨(h.2 hk h0).2.2.1, (h.2 hk h0).2.2.2⟩⟩⟩
  snapshot := fun s g h => ⟨PopulationInv.population_stable.snapshot s g h.1, fun hk h0 =>
    ⟨(h.2 hk h0).1, ⟨(h.2 hk h0).2.1.1, (h.2 hk h0).2.1.2, (h.2 hk h0).2.1.3⟩,
      ⟨(h.2 hk h0).2.2.1, (h.2 hk h0).2.2.2⟩⟩⟩
  clock := fun s t t' h => ⟨PopulationInv.population_stable.clock s t t' h.1, fun hk h0 =>
    ⟨(h.2 hk h0).1, ⟨(h.2 hk h0).2.1.1, (h.2 hk h0).2.1.2, (h.2 hk h0).2.1.3⟩,
      ⟨(h.2 hk h0).2.2.1, (h.2 hk h0).2.2.2⟩⟩⟩
  flip := by
    intro s h hI
    refine ⟨PopulationInv.population_stable.flip s h.1, ?_⟩
    intro hk h0
    obtain ⟨hsym, hw, hd⟩ := h.2 hk h0
    have hp := h.1
    have hnoI : ∀ u, u < s.size → s.state_vector_ u ≠ NodeState.I := by
      intro u hu hc
      have := (hp.infected_iff u).2 ⟨hu, hc⟩
      rw [hI] at this
      exact absurd this (List.not_mem_nil u)
    refine ⟨hsym, ⟨hw.keys_nodup, ?_, ?_⟩, ⟨?_, ?_⟩⟩
    · intro v hv
      obtain ⟨h1, h2⟩ := hw.key_susceptible v hv
      refine ⟨h1, ?_⟩
      show (s.recovered_node_set_.foldl (fun sv node => Function.update sv node NodeState.S)
        s.state_vector_) v = NodeState.S
      rw [foldl_update_apply]
      split
      · rfl
      · exact h2
    · intro v hv hsv
      have hsv' : (s.recovered_node_set_.foldl (fun sv node => Function.update sv node NodeState.S)
        s.state_vector_) v = NodeState.S := hsv
      rw [foldl_update_apply] at hsv'
      by_cases hR : v ∈ s.recovered_node_set_
      · have hvR := ((hp.recovered_iff v).1 hR).2
        have hl : s.infected_neighbors_vector_ v = [] := hd.other v (by rw [hvR]; decide)
        refine ⟨0, ?_, fun hc => absurd hc (lt_irrefl 0), fun _ hc => ?_⟩
        · show s.infection_rate_.get? (s.infected_neighbors_vector_ v).length = some 0
          rw [hl]; exact h0
        · have := (hw.key_susceptible v hc).2
          rw [hvR] at this
          exact absurd this (by decide)
      · rw [if_neg hR] at hsv'
        exact hw.rate v hv hsv'
    · intro v hv
      have hv' : (s.recovered_node_set_.foldl (fun sv node => Function.update sv node NodeState.S)
        s.state_vector_) v ≠ NodeState.S := hv
      rw [foldl_update_apply] at hv'
      split at hv'
      · exact absurd rfl hv'
      · exact hd.other v hv'
    · intro v hv hsv
      have hsv' : (s.recovered_node_set_.foldl (fun sv node => Function.update sv node NodeState.S)
        s.state_vector_) v = NodeState.S := hsv
      rw [foldl_update_apply] at hsv'
      have hzero : Sim.infected_slots { s with
          state_vector_ :=
            s.recovered_node_set_.foldl (fun sv node => Function.update sv node NodeState.S)
              s.state_vector_,
          recovered_node_set_ := [] } v = 0 := by
        unfold Sim.infected_slots
        apply countP_eq_zero_of_none
        intro u hu hc
        have hc' : (s.recovered_node_set_.foldl
          (fun sv node => Function.update sv node NodeState.S) s.state_vector_) u
            = NodeState.I := hc
        rw [foldl_update_apply] at hc'
        split at hc'
        · exact absurd hc' (by decide)
        · exact hnoI u (hsym.lt_size v u hu) hc'
      rw [hzero]
      show (s.infected_neighbors_vector_ v).length = 0
      by_cases hR : v ∈ s.recovered_node_set_
      · have hvR := ((hp.recovered_iff v).1 hR).2
        rw [hd.other v (by rw [hvR]; decide)]
        rfl
      · rw [if_neg hR] at hsv'
        rw [hd.degree v hv hsv', infected_slots_eq_zero hp hsym hI]
  clear_sets := by
    intro s h _ hI _
    refine ⟨PopulationInv.population_stable.clear_sets s h.1, ?_⟩
    intro hk h0
    obtain ⟨hsym, hw, hd⟩ := h.2 hk h0
    refine ⟨hsym, ⟨List.nodup_nil, ?_, ?_⟩, ⟨hd.1, hd.2⟩⟩
    · intro v hv
      exact absurd hv (List.not_mem_nil v)
    · intro v hv hsv
      have hl : (s.infected_neighbors_vector_ v).length = 0 := by
        rw [hd.degree v hv hsv, infected_slots_eq_zero h.1 hsym hI]
      refine ⟨0, ?_, fun hc => absurd hc (lt_irrefl 0), fun _ hc => absurd hc (List.not_mem_nil v)⟩
      show s.infection_rate_.get? (s.infected_neighbors_vector_ v).length = some 0
      rw [hl]; exact h0
  refill_sets := by
    intro s h hk _ _
    refine ⟨PopulationInv.population_stable.refill_sets s h.1, ?_⟩
    intro hk' _
    have : s.kind = Kind.continuous := hk'
    rw [hk] at this
    exact absurd this (by decide)

theorem ContinuousOK.continuous_of_reached {s : Sim} (h : Reached s) : ContinuousOK s := by
  apply kept_reached ContinuousOK.kept_continuous _ _ _ h
  · intro el rr rates
    refine ⟨PopulationInv.population_of_fresh _ rfl rfl (fun _ => rfl), ?_⟩
    intro _ h0
    refine ⟨Network.symmetric_of_edge_list el, ⟨List.nodup_nil, ?_, ?_⟩, ⟨fun _ _ => rfl, ?_⟩⟩
    · intro v hv; exact absurd hv (List.not_mem_nil v)
    · intro v _ _
      exact ⟨0, h0, fun hc => absurd hc (lt_irrefl 0), fun _ hc => absurd hc (List.not_mem_nil v)⟩
    · intro v _ _
      unfold Sim.infected_slots
      symm
      apply countP_eq_zero_of_none
      intro u _ hc
      exact absurd hc (by simp [ContinuousSIR.create])
  · intro el rp probs f
    exact ⟨PopulationInv.population_of_fresh _ rfl rfl (fun _ => rfl),
      fun hk => absurd hk (by simp [DiscreteSIR.create])⟩
  · intro n d rr rates c0 r0
    exact ⟨PopulationInv.population_of_fresh _ rfl rfl (fun _ => rfl),
      fun hk => absurd hk (by simp [AnnealedContinuousSIR.create])⟩

end ContinuousWeights2

section TotalRate

theorem get_infection_rate_eq (s : Sim) (v : Node) (hv : v < s.size) :
    ContinuousSIR.get_infection_rate s v
      = s.infection_rate_.get? (s.infected_neighbors_vector_ v).length := by
  unfold ContinuousSIR.get_infection_rate Sim.get_infected_degree
  rw [if_pos hv]

/-- The weight of a key is the rate that the table gives to its node. -/
theorem InfectionWeights.weight_eq {s : Sim} (h : InfectionWeights s) {v : Node} {w : ℚ}
    (hw : (v, w) ∈ s.infection_event_set_.items) :
    ContinuousSIR.get_infection_rate s v = some w ∧ 0 < w := by
  have hkey : v ∈ s.infection_event_set_.keys := (SamplableSet.mem_keys_iff _ _).2 ⟨w, hw⟩
  obtain ⟨hv, hs⟩ := h.key_susceptible v hkey
  obtain ⟨r, h1, h2, h3⟩ := h.rate v hv hs
  have hpos : 0 < r := by
    by_contra hc
    exact h3 hc hkey
  have := SamplableSet.weight_unique h.keys_nodup hw (h2 hpos)
  rw [get_infection_rate_eq s v hv, h1, this]
  exact ⟨rfl, hpos⟩

theorem InfectionWeights.key_iff {s : Sim} (h : InfectionWeights s) (v : Node) :
    v ∈ s.infection_event_set_.keys ↔
      v < s.size ∧ s.state_vector_ v = NodeState.S
        ∧ ∃ r, ContinuousSIR.get_infection_rate s v = some r ∧ 0 < r := by
  constructor
  · intro hkey
    obtain ⟨hv, hs⟩ := h.key_susceptible v hkey
    obtain ⟨w, hw⟩ := (SamplableSet.mem_keys_iff _ _).1 hkey
    exact ⟨hv, hs, w, h.weight_eq hw⟩
  · rintro ⟨hv, hs, r, hr, hpos⟩
    obtain ⟨r', h1, h2, _⟩ := h.rate v hv hs
    rw [get_infection_rate_eq s v hv, h1] at hr
    rw [Option.some.inj hr] at h2
    exact (SamplableSet.mem_keys_iff _ _).2 ⟨r, h2 hpos⟩

theorem sum_weights_one (l : List (Node × ℚ)) (h : ∀ p ∈ l, p.2 = 1) :
    (l.map Prod.snd).sum = (l.length : ℚ) := by
  induction l with
  | nil => simp
  | cons a l ih =>
    rw [List.map_cons, List.sum_cons, ih (fun p hp => h p (List.mem_cons_of_mem _ hp)),
      h a (List.mem_cons_self _ _), List.length_cons]
    push_cast
    ring

/-- The total weight of the recovery candidates is the number of infected nodes. -/
theorem RecoveryInv.recovery_total_weight {s : Sim} (h : RecoveryInv s) (hp : PopulationInv s) :
    s.recovery_event_set_.total_weight = (s.infected_node_set_.length : ℚ) := by
  unfold SamplableSet.total_weight
  rw [sum_weights_one _ h.weight_one]
  have : s.recovery_event_set_.items.length = s.recovery_event_set_.keys.length := by
    unfold SamplableSet.keys; rw [List.length_map]
  rw [this]
  have hperm : s.recovery_event_set_.keys.Perm s.infected_node_set_ :=
    (List.perm_ext_iff_of_nodup h.keys_nodup hp.infected_nodup).2 h.keys_iff
  rw [hperm.length_eq]

/-- With a table without negative rate, the total weight of the infection candidates is the
sum of the rates of the susceptible nodes. -/
theorem InfectionWeights.infection_total_weight {s : Sim} (h : InfectionWeights s)
    (hnn : ∀ r ∈ s.infection_rate_, 0 ≤ r) :
    s.infection_event_set_.total_weight = ContinuousSIR.susceptible_rate_sum s := by
  unfold SamplableSet.total_weight ContinuousSIR.susceptible_rate_sum
  have e1 : s.infection_event_set_.items.map Prod.snd
      = s.infection_event_set_.keys.map
          (fun v => (ContinuousSIR.get_infection_rate s v).getD 0) := by
    unfold SamplableSet.keys
    rw [List.map_map]
    apply List.map_congr_left
    intro p hp
    have := (h.weight_eq (v := p.1) (w := p.2) hp).1
    simp only [Function.comp_apply, this, Option.getD_some]
  rw [e1, ← List.sum_toFinset _ h.keys_nodup,
    ← List.sum_toFinset _ ((List.nodup_range s.size).filter _)]
  apply Finset.sum_subset
  · intro v hv
    rw [List.mem_toFinset] at hv ⊢
    obtain ⟨h1, h2⟩ := h.key_susceptible v hv
    simp [h1, h2]
  · intro v hv hnot
    rw [List.mem_toFinset] at hv hnot
    simp only [List.mem_filter, List.mem_range, decide_eq_true_eq] at hv
    obtain ⟨r, h1, h2, _⟩ := h.rate v hv.1 hv.2
    rw [get_infection_rate_eq s v hv.1, h1]
    simp only [Option.getD_some]
    have h0 : 0 ≤ r := hnn r (List.get?_mem h1)
    by_contra hc
    have hpos : 0 < r := lt_of_le_of_ne h0 (Ne.symm hc)
    exact hnot ((SamplableSet.mem_keys_iff _ _).2 ⟨r, h2 hpos⟩)

end TotalRate
/-- C11. For `ContinuousSIR` with a table of rates (none negative) that gives the rate 0 to
the infected degree 0, in every state reached from construction by calls that returned:
the total weight of the recovery candidates is the number of infected nodes, the total
weight of the infection candidates is the sum over the susceptible nodes of the rate that
the table gives to their infected degree, which it has an entry for, the infected degree
of a susceptible node being the number of infected entries of its adjacency list; so, with
at least one infected node,
`get_lifetime()` is the inverse of the sum of these rates plus `recovery_rate_` times the
number of infected nodes (`+infinity`, the value of `1./0.`, when that total is 0). -/
theorem C11_continuous_lifetime (s : Sim) (h : Reached s) (hk : s.kind = Kind.continuous)
    (h0 : s.infection_rate_.get? 0 = some 0) (hnn : ∀ r ∈ s.infection_rate_, 0 ≤ r) :
    s.recovery_event_set_.total_weight = (count_state s NodeState.I : ℚ)
    ∧ s.infection_event_set_.total_weight = ContinuousSIR.susceptible_rate_sum s
    ∧ (∀ v, v < s.size → s.state_vector_ v = NodeState.S →
        s.get_infected_degree v = some (s.infected_slots v)
        ∧ ∃ r, ContinuousSIR.get_infection_rate s v = some r)
    ∧ ContinuousSIR.get_total_rate s
        = ContinuousSIR.susceptible_rate_sum s
          + s.recovery_rate_ * (count_state s NodeState.I : ℚ)
    ∧ (0 < count_state s NodeState.I →
        get_lifetime s
          = if ContinuousSIR.susceptible_rate_sum s
                + s.recovery_rate_ * (count_state s NodeState.I : ℚ) = 0 then none
            else some (1 / (ContinuousSIR.susceptible_rate_sum s
                + s.recovery_rate_ * (count_state s NodeState.I : ℚ)))) := by
  have hok := ContinuousOK.continuous_of_reached h
  obtain ⟨_, hw, hd⟩ := hok.2 hk h0
  have hrec := (RecoveryInv.recovery_of_reached h).recovery_total_weight hok.1
  have hI : s.infected_node_set_.length = count_state s NodeState.I :=
    length_eq_count hok.1.infected_nodup hok.1.infected_iff
  rw [hI] at hrec
  have hinf := hw.infection_total_weight hnn
  have htot : ContinuousSIR.get_total_rate s
      = ContinuousSIR.susceptible_rate_sum s
        + s.recovery_rate_ * (count_state s NodeState.I : ℚ) := by
    unfold ContinuousSIR.get_total_rate
    rw [hinf, hrec]
  refine ⟨hrec, hinf, ?_, htot, ?_⟩
  · intro v hv hs
    constructor
    · unfold Sim.get_infected_degree
      rw [if_pos hv, hd.degree v hv hs]
    · obtain ⟨r, hr, _, _⟩ := hw.rate v hv hs
      exact ⟨r, by rw [get_infection_rate_eq s v hv, hr]⟩
  · intro hpos
    unfold get_lifetime
    rw [hk]
    simp only
    unfold ContinuousSIR.get_lifetime
    rw [hI, if_neg (by omega), htot]

/-- Instance of C11: on the path 0 - 1 - 2 with the table `[0, 2, 3]` and recovery rate 1,
after seeding node 1 the lifetime is `1 / (2 + 2 + 1)`. -/
theorem C11_continuous_lifetime_witness :
    get_lifetime (BaseContagion.infect_node_set
        (ContinuousSIR.create [(0, 1), (1, 2)] 1 [0, 2, 3]) [1]).st = some (1 / 5)
    ∧ ContinuousSIR.get_total_rate (BaseContagion.infect_node_set
        (ContinuousSIR.create [(0, 1), (1, 2)] 1 [0, 2, 3]) [1]).st
      = ContinuousSIR.susceptible_rate_sum (BaseContagion.infect_node_set
          (ContinuousSIR.create [(0, 1), (1, 2)] 1 [0, 2, 3]) [1]).st
        + (BaseContagion.infect_node_set
            (ContinuousSIR.create [(0, 1), (1, 2)] 1 [0, 2, 3]) [1]).st.recovery_rate_
          * (count_state (BaseContagion.infect_node_set
              (ContinuousSIR.create [(0, 1), (1, 2)] 1 [0, 2, 3]) [1]).st NodeState.I : ℚ) :=
  ⟨by with_unfolding_all decide,
    (C11_continuous_lifetime _
      (Reached.infect_node_set [1] (Reached.continuous [(0, 1), (1, 2)] 1 [0, 2, 3])
        (by with_unfolding_all decide))
      (by with_unfolding_all decide) (by with_unfolding_all decide)
      (by with_unfolding_all decide)).2.2.2.1⟩

/-- C13, as amended. For `ContinuousSIR` with a table that gives the rate 0 to the infected
degree 0, in every state reached from construction by calls that returned, a node is a key
of `infection_event_set_` exactly when it is a susceptible node whose rate
`infection_rate_[infected degree]` is positive; its weight is then that rate; no key is
repeated; the infected degree of a susceptible node is the number of infected entries of
its adjacency list. -/
theorem C13_infection_candidates (s : Sim) (h : Reached s) (hk : s.kind = Kind.continuous)
    (h0 : s.infection_rate_.get? 0 = some 0) (v : Node) :
    (v ∈ s.infection_event_set_.keys ↔
      v < s.size ∧ s.state_vector_ v = NodeState.S
        ∧ ∃ r, ContinuousSIR.get_infection_rate s v = some r ∧ 0 < r)
    ∧ (∀ w, (v, w) ∈ s.infection_event_set_.items →
        ContinuousSIR.get_infection_rate s v = some w)
    ∧ s.infection_event_set_.keys.Nodup
    ∧ (v < s.size → s.state_vector_ v = NodeState.S →
        s.get_infected_degree v = some (s.infected_slots v)) := by
  obtain ⟨_, hw, hd⟩ := (ContinuousOK.continuous_of_reached h).2 hk h0
  refine ⟨hw.key_iff v, fun w hw' => (hw.weight_eq hw').1, hw.keys_nodup, ?_⟩
  intro hv hs
  unfold Sim.get_infected_degree
  rw [if_pos hv, hd.degree v hv hs]

/-- Instance of C13: on the path 0 - 1 - 2 with the table `[0, 2, 3]`, after seeding node 1
the candidates are nodes 0 and 2, each with weight 2. -/
theorem C13_infection_candidates_witness :
    (BaseContagion.infect_node_set
        (ContinuousSIR.create [(0, 1), (1, 2)] 1 [0, 2, 3]) [1]).st.infection_event_set_.items
      = [(0, 2), (2, 2)]
    ∧ ∀ w, (0, w) ∈ (BaseContagion.infect_node_set
        (ContinuousSIR.create [(0, 1), (1, 2)] 1 [0, 2, 3]) [1]).st.infection_event_set_.items →
      ContinuousSIR.get_infection_rate (BaseContagion.infect_node_set
        (ContinuousSIR.create [(0, 1), (1, 2)] 1 [0, 2, 3]) [1]).st 0 = some w :=
  ⟨by with_unfolding_all decide,
    (C13_infection_candidates _
      (Reached.infect_node_set [1] (Reached.continuous [(0, 1), (1, 2)] 1 [0, 2, 3])
        (by with_unfolding_all decide))
      (by with_unfolding_all decide) (by with_unfolding_all decide) 0).2.1⟩

/-- C13 as stated fails: with the table `[1, 2]`, whose rates are not negative, right after
construction node 0 is susceptible and its rate `infection_rate_[0] = 1` is positive, but
`infection_event_set_` is empty. -/
theorem C13_positive_rate_at_degree_zero :
    (∀ r ∈ (ContinuousSIR.create [(0, 1)] 1 [1, 2]).infection_rate_, 0 ≤ r)
    ∧ (ContinuousSIR.create [(0, 1)] 1 [1, 2]).state_vector_ 0 = NodeState.S
    ∧ ContinuousSIR.get_infection_rate (ContinuousSIR.create [(0, 1)] 1 [1, 2]) 0 = some 1
    ∧ (ContinuousSIR.create [(0, 1)] 1 [1, 2]).infection_event_set_.keys = []
    ∧ ¬ (0 ∈ (ContinuousSIR.create [(0, 1)] 1 [1, 2]).infection_event_set_.keys ↔
          0 < (ContinuousSIR.create [(0, 1)] 1 [1, 2]).size
          ∧ (ContinuousSIR.create [(0, 1)] 1 [1, 2]).state_vector_ 0 = NodeState.S
          ∧ ∃ r, ContinuousSIR.get_infection_rate (ContinuousSIR.create [(0, 1)] 1 [1, 2]) 0
              = some r ∧ 0 < r) := by
  refine ⟨by with_unfolding_all decide, rfl, by with_unfolding_all decide, rfl, ?_⟩
  intro hc
  have : (0 : Node) ∈ ([] : List Node) :=
    hc.2 ⟨by decide, rfl, 1, by with_unfolding_all decide, by norm_num⟩
  exact absurd this (List.not_mem_nil 0)

section Annealed

/-- The set filled by the loop of the constructor and of `clear`. -/
theorem SamplableSet.refill (l : List Node) :
    ∀ w : SamplableSet, w.keys.Nodup → (∀ p ∈ w.items, p.2 = 1) →
      (l.foldl (fun w node => w.insert node 1) w).keys.Nodup
      ∧ (∀ v, v ∈ (l.foldl (fun w node => w.insert node 1) w).keys ↔ v ∈ w.keys ∨ v ∈ l)
      ∧ (∀ p ∈ (l.foldl (fun w node => w.insert node 1) w).items, p.2 = 1) := by
  induction l with
  | nil => intro w h1 h2; exact ⟨h1, fun v => by simp, h2⟩
  | cons a l ih =>
    intro w h1 h2
    rw [List.foldl_cons]
    obtain ⟨i1, i2, i3⟩ := ih (w.insert a 1) (SamplableSet.keys_nodup_insert a 1 h1) (by
      intro p hp
      rcases SamplableSet.mem_items_insert hp with h | h
      · exact h2 p h
      · rw [h])
    refine ⟨i1, ?_, i3⟩
    intro v
    rw [i2, SamplableSet.mem_keys_insert, List.mem_cons]
    constructor
    · rintro ((h | h) | h)
      · exact Or.inl h
      · exact Or.inr (Or.inl h)
      · exact Or.inr (Or.inr h)
    · rintro (h | h | h)
      · exact Or.inl (Or.inl h)
      · exact Or.inl (Or.inr h)
      · exact Or.inr h

theorem infect_annealed (s : Sim) (v : Node) (hk : s.kind = Kind.annealed) :
    infect s v = AnnealedContinuousSIR.infect s v := by
  unfold infect; rw [hk]

theorem recover_annealed (s : Sim) (v : Node) (hk : s.kind = Kind.annealed) :
    recover s v = AnnealedContinuousSIR.recover s v := by
  unfold recover; rw [hk]

/-- The infection candidates after `AnnealedContinuousSIR::infect` on a susceptible node. -/
theorem annealed_infect_candidates (s : Sim) (v : Node) (hk : s.kind = Kind.annealed)
    (hv : v < s.size) (hs : s.state_vector_ v = NodeState.S) :
    (infect s v).st.infection_event_set_ = s.infection_event_set_.erase v := by
  rw [infect_annealed s v hk]
  unfold AnnealedContinuousSIR.infect
  simp only [hv, hs, if_true]
  obtain ⟨m, hm⟩ := annealed_update_meanfield_rate_frame { s with
      infection_event_set_ := s.infection_event_set_.erase v,
      state_vector_ := Function.update s.state_vector_ v NodeState.I,
      infected_node_set_ := set_insert s.infected_node_set_ v,
      recovery_event_set_ := s.recovery_event_set_.insert v 1 }
  rw [hm]

/-- The infection candidates after `AnnealedContinuousSIR::recover` on an infected node. -/
theorem annealed_recover_candidates (s : Sim) (v : Node) (hk : s.kind = Kind.annealed)
    (hv : v < s.size) (hs : s.state_vector_ v = NodeState.I) :
    (recover s v).st.infection_event_set_ = s.infection_event_set_ := by
  rw [recover_annealed s v hk]
  unfold AnnealedContinuousSIR.recover
  simp only [hv, hs, if_true]
  obtain ⟨m, hm⟩ := annealed_update_meanfield_rate_frame { s with
      state_vector_ := Function.update s.state_vector_ v NodeState.R,
      infected_node_set_ := set_erase s.infected_node_set_ v,
      recovered_node_set_ := set_insert s.recovered_node_set_ v,
      recovery_event_set_ := s.recovery_event_set_.erase v }
  rw [hm]

theorem annealed_clear_eq (s : Sim) :
    AnnealedContinuousSIR.clear s
      = (BaseContagion.clear s).andThen fun s1 =>
          Res.ok { s1 with
            infection_event_set_ :=
              (List.range s1.size).foldl (fun w node => w.insert node 1)
                s1.infection_event_set_.clear,
            recovery_event_set_ := s1.recovery_event_set_.clear } := rfl

/-- The invariant of the infection candidates along `AnnealedContinuousSIR.Reach`. -/
theorem annealed_reach_inv {n d : Nat} {rr : ℚ} {rates : List ℚ} {c0 : Int} {r0 : ℚ} {s : Sim}
    (h : AnnealedContinuousSIR.Reach n d rr rates c0 r0 s) :
    SameParams (AnnealedContinuousSIR.create n d rr rates c0 r0) s
    ∧ PopulationInv s ∧ AnnealedCandidates s := by
  induction h with
  | create =>
    refine ⟨SameParams.refl_params _, PopulationInv.population_of_fresh _ rfl rfl (fun _ => rfl), ?_⟩
    obtain ⟨h1, h2, h3⟩ := SamplableSet.refill
      (List.range (Network.ofEdgeList (AnnealedContinuousSIR.dummy_edge_list n)).size)
      SamplableSet.empty List.nodup_nil (fun p hp => absurd hp (List.not_mem_nil p))
    refine ⟨h1, ?_, h3⟩
    intro v
    have := h2 v
    simp only [SamplableSet.empty, SamplableSet.keys, List.map_nil, List.not_mem_nil, false_or,
      List.mem_range] at this
    show v ∈ SamplableSet.keys _ ↔ v < (Network.ofEdgeList _).size ∧ NodeState.S = NodeState.S
    simp only [and_true]
    exact this
  | infect v _ herr ih =>
    obtain ⟨hpar, hp, hc⟩ := ih
    obtain ⟨hv, hs⟩ := infect_ok_susceptible _ v herr
    have he := infect_effect _ v hv hs
    have hk := hpar.kind
    have hset := annealed_infect_candidates _ v hk hv hs
    refine ⟨hpar.trans_params he.params, hp.of_infect hv hs he, ?_, ?_, ?_⟩
    · rw [hset]; exact SamplableSet.keys_nodup_erase v hc.keys_nodup
    · intro u
      rw [hset, SamplableSet.mem_keys_erase, hc.keys_iff, he.params.size_eq, he.state_vector_]
      by_cases huv : u = v
      · subst huv; simp
      · simp [huv, Function.update_noteq huv]
    · intro p hp'
      rw [hset] at hp'
      exact hc.weight_one p (SamplableSet.mem_items_erase hp')
  | recover v _ herr ih =>
    obtain ⟨hpar, hp, hc⟩ := ih
    obtain ⟨hv, hs⟩ := recover_ok_infected _ v herr
    have he := recover_effect _ v hv hs
    have hk := hpar.kind
    have hset := annealed_recover_candidates _ v hk hv hs
    refine ⟨hpar.trans_params he.params, hp.of_recover hv hs he, ?_, ?_, ?_⟩
    · rw [hset]; exact hc.keys_nodup
    · intro u
      rw [hset, hc.keys_iff, he.params.size_eq, he.state_vector_]
      by_cases huv : u = v
      · subst huv; simp [hs]
      · simp [Function.update_noteq huv]
    · intro p hp'
      rw [hset] at hp'
      exact hc.weight_one p hp'
  | clear _ herr ih =>
    obtain ⟨hpar, hp, hc⟩ := ih
    rename_i s0 _
    rw [annealed_clear_eq] at herr ⊢
    have h1 := (Res.andThen_err_none herr).1
    have hall := base_clear_all_susceptible s0 hp h1
    have hp1 : PopulationInv (BaseContagion.clear s0).st :=
      PopulationInv.population_stable.base_clear s0 hp
    rw [Res.andThen_of_ok _ h1]
    obtain ⟨e1, e2, e3⟩ := SamplableSet.refill (List.range (BaseContagion.clear s0).st.size)
      (BaseContagion.clear s0).st.infection_event_set_.clear List.nodup_nil
      (fun p hp => absurd hp (List.not_mem_nil p))
    refine ⟨hpar.trans_params ?_, ⟨hp1.1, hp1.2, hp1.3, hp1.4⟩, e1, ?_, e3⟩
    · have := base_clear_params s0
      exact ⟨this.1, this.2, this.3, this.4, this.5, this.6, this.7⟩
    · intro v
      have hmem : v ∈ ((List.range (BaseContagion.clear s0).st.size).foldl
          (fun w node => w.insert node 1)
          (BaseContagion.clear s0).st.infection_event_set_.clear).keys ↔
          v < (BaseContagion.clear s0).st.size := by
        rw [e2 v]
        simp [SamplableSet.clear, SamplableSet.keys]
      constructor
      · intro hv
        have := hmem.1 hv
        exact ⟨this, hall.susceptible v this⟩
      · intro hv
        exact hmem.2 hv.1

theorem Network.max_label_fold_le (edge_list : EdgeList) (b : Nat)
    (h : ∀ e ∈ edge_list, e.1 ≤ b ∧ e.2 ≤ b) :
    ∀ init : Nat, init ≤ b →
      edge_list.foldl (fun nb_nodes e =>
          let nb1 := if e.1 > nb_nodes then e.1 else nb_nodes
          if e.2 > nb1 then e.2 else nb1) init ≤ b := by
  induction edge_list with
  | nil => intro init hi; exact hi
  | cons e es ih =>
    intro init hi
    rw [List.foldl_cons]
    apply ih (fun e' he' => h e' (List.mem_cons_of_mem _ he'))
    obtain ⟨h1, h2⟩ := h e (List.mem_cons_self _ _)
    have h1' : @LE.le Nat _ e.1 b := h1
    have h2' : @LE.le Nat _ e.2 b := h2
    simp only
    split <;> split <;> assumption

/-- The network that the constructor of `AnnealedContinuousSIR` builds for `N ≥ 1` has `N`
nodes. -/
theorem annealed_network_size (n : Nat) (hn : 1 ≤ n) :
    (Network.ofEdgeList (AnnealedContinuousSIR.dummy_edge_list n)).size = n := by
  rw [Network.ofEdgeList_size]
  have hle : Network.max_label (AnnealedContinuousSIR.dummy_edge_list n) ≤ n - 1 := by
    apply Network.max_label_fold_le _ _ _ 0 (Nat.zero_le _)
    intro e he
    unfold AnnealedContinuousSIR.dummy_edge_list at he
    obtain ⟨i, hi, rfl⟩ := List.mem_map.1 he
    rw [List.mem_range] at hi
    exact ⟨Nat.zero_le _, Nat.le_sub_one_of_lt hi⟩
  have hge : n - 1 ≤ Network.max_label (AnnealedContinuousSIR.dummy_edge_list n) := by
    have hmem : ((0 : Node), n - 1) ∈ AnnealedContinuousSIR.dummy_edge_list n := by
      unfold AnnealedContinuousSIR.dummy_edge_list
      exact List.mem_map.2 ⟨n - 1, List.mem_range.2 (by omega), rfl⟩
    exact (Network.le_max_label _ _ hmem).2
  omega

end Annealed

/-- C14. For `AnnealedContinuousSIR` built for `N ≥ 1` nodes, the network has `N` nodes and,
in every state reached from construction by calls of `infect`, of `recover` and of
`AnnealedContinuousSIR::clear` that returned, the keys of `infection_event_set_` are exactly
the susceptible nodes, no key is repeated and every key has weight 1. -/
theorem C14_annealed_candidates (number_of_nodes degree : Nat) (recovery_rate : ℚ)
    (infection_rate : List ℚ) (coeff0 : Int) (rate0 : ℚ) (hN : 1 ≤ number_of_nodes) (s : Sim)
    (h : AnnealedContinuousSIR.Reach number_of_nodes degree recovery_rate infection_rate
      coeff0 rate0 s) :
    s.size = number_of_nodes
    ∧ (∀ v, v ∈ s.infection_event_set_.keys ↔ v < s.size ∧ s.state_vector_ v = NodeState.S)
    ∧ (∀ p ∈ s.infection_event_set_.items, p.2 = 1)
    ∧ s.infection_event_set_.keys.Nodup := by
  obtain ⟨hpar, _, hc⟩ := annealed_reach_inv h
  refine ⟨?_, hc.keys_iff, hc.weight_one, hc.keys_nodup⟩
  rw [hpar.size_eq]
  exact annealed_network_size number_of_nodes hN

/-- Instance of C14: three nodes, node 1 infected then recovered, node 2 infected: the
only candidate left is node 0. -/
theorem C14_annealed_candidates_witness :
    (infect (recover (infect (AnnealedContinuousSIR.create 3 1 1 [0, 1] 1 0) 1).st 1).st
        2).st.infection_event_set_.items = [(0, 1)]
    ∧ ∀ v, v ∈ (infect (recover (infect (AnnealedContinuousSIR.create 3 1 1 [0, 1] 1 0) 1).st
        1).st 2).st.infection_event_set_.keys ↔
      v < (infect (recover (infect (AnnealedContinuousSIR.create 3 1 1 [0, 1] 1 0) 1).st 1).st
        2).st.size
      ∧ (infect (recover (infect (AnnealedContinuousSIR.create 3 1 1 [0, 1] 1 0) 1).st 1).st
        2).st.state_vector_ v = NodeState.S :=
  ⟨by with_unfolding_all decide,
    (C14_annealed_candidates 3 1 1 [0, 1] 1 0 (by decide) _
      (AnnealedContinuousSIR.Reach.infect 2
        (AnnealedContinuousSIR.Reach.recover 1
          (AnnealedContinuousSIR.Reach.infect 1 AnnealedContinuousSIR.Reach.create
            (by with_unfolding_all decide))
          (by with_unfolding_all decide))
        (by with_unfolding_all decide))).2.1⟩

/-- C15 fails: `reset()` runs `BaseContagion::clear`, not the `clear` of the strategy. For an
`AnnealedContinuousSIR` on two nodes in which node 0 was seeded, `reset()` returns and
leaves both nodes susceptible, but node 0 is not put back among the infection candidates,
whose only key is node 1; `AnnealedContinuousSIR::clear` in the same state, like the
constructor, lists both nodes. -/
theorem C15_reset_skips_strategy_clear :
    (BaseContagion.reset (BaseContagion.infect_node_set
        (AnnealedContinuousSIR.create 2 1 1 [0, 1] 1 0) [0]).st).err = none
    ∧ (BaseContagion.reset (BaseContagion.infect_node_set
        (AnnealedContinuousSIR.create 2 1 1 [0, 1] 1 0) [0]).st).st.state_vector_ 0 = NodeState.S
    ∧ (BaseContagion.reset (BaseContagion.infect_node_set
        (AnnealedContinuousSIR.create 2 1 1 [0, 1] 1 0) [0]).st).st.state_vector_ 1 = NodeState.S
    ∧ (BaseContagion.reset (BaseContagion.infect_node_set
        (AnnealedContinuousSIR.create 2 1 1 [0, 1] 1 0) [0]).st).st.infection_event_set_.items
        = [(1, 1)]
    ∧ (AnnealedContinuousSIR.clear (BaseContagion.infect_node_set
        (AnnealedContinuousSIR.create 2 1 1 [0, 1] 1 0) [0]).st).st.infection_event_set_.items
        = [(0, 1), (1, 1)]
    ∧ (AnnealedContinuousSIR.create 2 1 1 [0, 1] 1 0).infection_event_set_.items
        = [(0, 1), (1, 1)] := by
  refine ⟨?_, ?_, ?_, ?_, ?_, ?_⟩ <;> with_unfolding_all decide

section MeanField

/-- Over unbounded integers, the loop of `BinomialCoefficient(n, k)` computes binomial
coefficients: its entry `i` is `C(n - k + 1 + i, i + 1)`. -/
theorem aSolutions_eq_choose (n k : Int) (m : Nat) (hm : n - k + 1 = (m : Int)) :
    ∀ i : Nat, AnnealedContinuousSIR.aSolutions n k i = (Nat.choose (m + i) (i + 1) : Int) := by
  intro i
  induction i with
  | zero =>
    unfold AnnealedContinuousSIR.aSolutions
    rw [hm]
    simp
  | succ i ih =>
    unfold AnnealedContinuousSIR.aSolutions
    rw [ih, hm]
    have h := Nat.succ_mul_choose_eq (m + i) (i + 1)
    have e : ((Nat.choose (m + i) (i + 1) : Int) * ((m : Int) + ((i : Int) + 1)))
        = (Nat.choose (m + (i + 1)) (i + 1 + 1) : Int) * ((i : Int) + 1 + 1) := by
      have h' : ((m + i).succ * Nat.choose (m + i) (i + 1) : Int)
          = ((Nat.choose (m + i).succ (i + 1).succ * (i + 1).succ : Nat) : Int) := by
        exact_mod_cast h
      have e1 : m + (i + 1) = (m + i).succ := rfl
      rw [e1]
      linarith
    rw [e]
    exact Int.mul_tdiv_cancel _ (by omega)

/-- For `1 ≤ k ≤ n`, `BinomialCoefficient(n, k)` returns `C(n, k)` over unbounded integers. -/
theorem BinomialCoefficient_eq_choose (n k : Nat) (hk : 1 ≤ k) (hkn : k ≤ n) :
    AnnealedContinuousSIR.BinomialCoefficient n k = some (Nat.choose n k : Int) := by
  unfold AnnealedContinuousSIR.BinomialCoefficient
  rw [if_neg (by omega)]
  rw [aSolutions_eq_choose (n : Int) (k : Int) (n - k + 1) (by omega) (k - 1)]
  have e1 : n - k + 1 + (k - 1) = n := by omega
  have e2 : k - 1 + 1 = k := by omega
  rw [e1, e2]

/-- The table `binomial_coeff_` that the constructor fills: the indeterminate value at
index 0, the binomial coefficients elsewhere. -/
theorem annealed_binomial_coeff (n d : Nat) (rr : ℚ) (rates : List ℚ) (c0 : Int) (r0 : ℚ)
    (i : Nat) (hi : i ≤ d) :
    (AnnealedContinuousSIR.create n d rr rates c0 r0).binomial_coeff_.getD i 0
      = if i = 0 then c0 else (Nat.choose d i : Int) := by
  show ((List.range (d + 1)).map
    (fun i => (AnnealedContinuousSIR.BinomialCoefficient d i).getD c0)).getD i 0 = _
  rw [List.getD_eq_getElem?_getD, List.getElem?_map, List.getElem?_range (by omega)]
  simp only [Option.map_some', Option.getD_some]
  by_cases h0 : i = 0
  · rw [if_pos h0, h0]
    rfl
  · rw [if_neg h0, BinomialCoefficient_eq_choose d i (by omega) hi]
    rfl

/-- The sum that `update_meanfield_rate` accumulates, when the table is long enough. -/
theorem meanfield_sum_eq (s : Sim) (p : ℚ) :
    ∀ n : Nat, n ≤ s.infection_rate_.length →
      AnnealedContinuousSIR.meanfield_sum s p n
        = some (∑ i ∈ Finset.range n,
            (s.binomial_coeff_.getD i 0 : ℚ) * p ^ i * (1 - p) ^ (s.degree_ - i)
              * s.infection_rate_.getD i 0) := by
  intro n
  induction n with
  | zero => intro _; rfl
  | succ n ih =>
    intro hn
    have hlt : n < s.infection_rate_.length := by omega
    have hr : s.infection_rate_.getD n 0 = s.infection_rate_.get ⟨n, hlt⟩ := by
      rw [List.getD_eq_getElem?_getD, List.getElem?_eq_getElem hlt]
      rfl
    unfold AnnealedContinuousSIR.meanfield_sum
    rw [ih (by omega), List.get?_eq_get hlt, Finset.sum_range_succ, hr]

/-- A run of `update_meanfield_rate` that returned read the whole table. -/
theorem meanfield_sum_length (s : Sim) (p : ℚ) :
    ∀ n : Nat, (AnnealedContinuousSIR.meanfield_sum s p n).isSome → n ≤ s.infection_rate_.length := by
  intro n
  induction n with
  | zero => intro _; exact Nat.zero_le _
  | succ n ih =>
    intro h
    unfold AnnealedContinuousSIR.meanfield_sum at h
    cases h1 : AnnealedContinuousSIR.meanfield_sum s p n with
    | none => rw [h1] at h; simp at h
    | some x =>
      cases h2 : s.infection_rate_.get? n with
      | none => rw [h1, h2] at h; simp at h
      | some r =>
        have := (List.get?_eq_some.1 h2).1
        omega

/-- The value that a run of `update_meanfield_rate` that returned leaves in
`meanfield_infection_rate_`. -/
theorem update_meanfield_rate_returned (s : Sim)
    (herr : (AnnealedContinuousSIR.update_meanfield_rate s).err = none) :
    (AnnealedContinuousSIR.update_meanfield_rate s).st.meanfield_infection_rate_
      = ∑ i ∈ Finset.range (s.degree_ + 1),
          (s.binomial_coeff_.getD i 0 : ℚ) * s.prevalence ^ i
            * (1 - s.prevalence) ^ (s.degree_ - i) * s.infection_rate_.getD i 0 := by
  unfold AnnealedContinuousSIR.update_meanfield_rate at herr ⊢
  simp only at herr ⊢
  cases h : AnnealedContinuousSIR.meanfield_sum s
      ((s.get_number_of_infected_nodes : ℚ) / (s.size : ℚ)) (s.degree_ + 1) with
  | none => rw [h] at herr; simp at herr
  | some x =>
    have hlen := meanfield_sum_length s _ (s.degree_ + 1) (by rw [h]; rfl)
    rw [meanfield_sum_eq s _ _ hlen] at h
    simp only
    rw [← Option.some.inj h]
    rfl

/-- The mean-field rate after a call of `infect` of `AnnealedContinuousSIR` that returned. -/
theorem annealed_infect_meanfield (s : Sim) (v : Node) (hk : s.kind = Kind.annealed)
    (herr : (infect s v).err = none) :
    (infect s v).st.meanfield_infection_rate_
      = ∑ i ∈ Finset.range (s.degree_ + 1),
          (s.binomial_coeff_.getD i 0 : ℚ) * (infect s v).st.prevalence ^ i
            * (1 - (infect s v).st.prevalence) ^ (s.degree_ - i) * s.infection_rate_.getD i 0 := by
  obtain ⟨hv, hs⟩ := infect_ok_susceptible s v herr
  rw [infect_annealed s v hk] at herr ⊢
  unfold AnnealedContinuousSIR.infect at herr ⊢
  simp only [hv, hs, if_true] at herr ⊢
  rw [update_meanfield_rate_returned _ herr]
  obtain ⟨m, hm⟩ := annealed_update_meanfield_rate_frame { s with
      infection_event_set_ := s.infection_event_set_.erase v,
      state_vector_ := Function.update s.state_vector_ v NodeState.I,
      infected_node_set_ := set_insert s.infected_node_set_ v,
      recovery_event_set_ := s.recovery_event_set_.insert v 1 }
  rw [hm]
  rfl

/-- The mean-field rate after a call of `recover` of `AnnealedContinuousSIR` that returned. -/
theorem annealed_recover_meanfield (s : Sim) (v : Node) (hk : s.kind = Kind.annealed)
    (herr : (recover s v).err = none) :
    (recover s v).st.meanfield_infection_rate_
      = ∑ i ∈ Finset.range (s.degree_ + 1),
          (s.binomial_coeff_.getD i 0 : ℚ) * (recover s v).st.prevalence ^ i
            * (1 - (recover s v).st.prevalence) ^ (s.degree_ - i)
            * s.infection_rate_.getD i 0 := by
  obtain ⟨hv, hs⟩ := recover_ok_infected s v herr
  rw [recover_annealed s v hk] at herr ⊢
  unfold AnnealedContinuousSIR.recover at herr ⊢
  simp only [hv, hs, if_true] at herr ⊢
  rw [update_meanfield_rate_returned _ herr]
  obtain ⟨m, hm⟩ := annealed_update_meanfield_rate_frame { s with
      state_vector_ := Function.update s.state_vector_ v NodeState.R,
      infected_node_set_ := set_erase s.infected_node_set_ v,
      recovered_node_set_ := set_insert s.recovered_node_set_ v,
      recovery_event_set_ := s.recovery_event_set_.erase v }
  rw [hm]
  rfl

/-- The sum of the code against the formula of the specification: they differ by the term
of index 0, which the code weighs by the indeterminate `binomial_coeff_[0]`. -/
theorem meanfield_sum_vs_spec (n d : Nat) (rr : ℚ) (rates : List ℚ) (c0 : Int) (r0 : ℚ)
    (rho : ℚ) :
    ∑ i ∈ Finset.range (d + 1),
        ((AnnealedContinuousSIR.create n d rr rates c0 r0).binomial_coeff_.getD i 0 : ℚ)
          * rho ^ i * (1 - rho) ^ (d - i) * rates.getD i 0
      = spec_binomial_mixing d rho (fun i => rates.getD i 0)
        + ((c0 : ℚ) - 1) * (1 - rho) ^ d * rates.getD 0 0 := by
  unfold spec_binomial_mixing
  rw [Finset.sum_range_succ', Finset.sum_range_succ']
  have h0 := annealed_binomial_coeff n d rr rates c0 r0 0 (Nat.zero_le _)
  rw [if_pos rfl] at h0
  rw [h0]
  have hsum : ∑ i ∈ Finset.range d,
      ((AnnealedContinuousSIR.create n d rr rates c0 r0).binomial_coeff_.getD (i + 1) 0 : ℚ)
        * rho ^ (i + 1) * (1 - rho) ^ (d - (i + 1)) * rates.getD (i + 1) 0
      = ∑ i ∈ Finset.range d,
          (Nat.choose d (i + 1) : ℚ) * rho ^ (i + 1) * (1 - rho) ^ (d - (i + 1))
            * rates.getD (i + 1) 0 := by
    apply Finset.sum_congr rfl
    intro i hi
    rw [Finset.mem_range] at hi
    rw [annealed_binomial_coeff n d rr rates c0 r0 (i + 1) (by omega), if_neg (by omega)]
    norm_cast
  rw [hsum]
  simp only [Nat.choose_zero_right, pow_zero, Nat.sub_zero, Nat.cast_one]
  ring

theorem update_meanfield_rate_returns (s : Sim)
    (hlen : s.degree_ + 1 ≤ s.infection_rate_.length) :
    (AnnealedContinuousSIR.update_meanfield_rate s).err = none := by
  unfold AnnealedContinuousSIR.update_meanfield_rate
  simp only
  rw [meanfield_sum_eq s _ _ hlen]
  rfl

/-- With a table that has an entry for each of `0 .. degree_`, `infect` of
`AnnealedContinuousSIR` returns on every susceptible node. -/
theorem annealed_infect_returns (s : Sim) (v : Node) (hk : s.kind = Kind.annealed)
    (hv : v < s.size) (hs : s.state_vector_ v = NodeState.S)
    (hlen : s.degree_ + 1 ≤ s.infection_rate_.length) : (infect s v).err = none := by
  rw [infect_annealed s v hk]
  unfold AnnealedContinuousSIR.infect
  simp only [hv, hs, if_true]
  exact update_meanfield_rate_returns _ hlen

/-- With a table that has an entry for each of `0 .. degree_`, `recover` of
`AnnealedContinuousSIR` returns on every infected node. -/
theorem annealed_recover_returns (s : Sim) (v : Node) (hk : s.kind = Kind.annealed)
    (hv : v < s.size) (hs : s.state_vector_ v = NodeState.I)
    (hlen : s.degree_ + 1 ≤ s.infection_rate_.length) : (recover s v).err = none := by
  rw [recover_annealed s v hk]
  unfold AnnealedContinuousSIR.recover
  simp only [hv, hs, if_true]
  exact update_meanfield_rate_returns _ hlen

end MeanField

/-- C16 fails: `binomial_coeff_[0]` is what `BinomialCoefficient(degree, 0)` returns, a call
that writes `aSolutions[0]` and reads `aSolutions[-1]` of an empty vector; `coeff0` stands
for that value. After every call of `infect` or `recover` that returned, the mean-field
rate is the formula of the specification plus `(coeff0 - 1) (1 - ρ)^d rate(0)`. For two
nodes, degree 1 and the table `[1, 0]`, after the infection of node 0 the rate is
`coeff0 / 2` and the formula gives `1 / 2`. -/
theorem C16_meanfield_rate_indeterminate_term :
    (∀ (n d : Nat) (rr : ℚ) (rates : List ℚ) (c0 : Int) (r0 : ℚ) (s : Sim),
        AnnealedContinuousSIR.Reach n d rr rates c0 r0 s → ∀ v : Node,
        ((infect s v).err = none →
          (infect s v).st.meanfield_infection_rate_
            = spec_binomial_mixing d (infect s v).st.prevalence (fun i => rates.getD i 0)
              + ((c0 : ℚ) - 1) * (1 - (infect s v).st.prevalence) ^ d * rates.getD 0 0)
        ∧ ((recover s v).err = none →
          (recover s v).st.meanfield_infection_rate_
            = spec_binomial_mixing d (recover s v).st.prevalence (fun i => rates.getD i 0)
              + ((c0 : ℚ) - 1) * (1 - (recover s v).st.prevalence) ^ d * rates.getD 0 0))
    ∧ (∀ (c0 : Int) (r0 : ℚ),
        (infect (AnnealedContinuousSIR.create 2 1 1 [1, 0] c0 r0) 0).err = none
        ∧ (infect (AnnealedContinuousSIR.create 2 1 1 [1, 0] c0 r0) 0).st.prevalence = 1 / 2
        ∧ (infect (AnnealedContinuousSIR.create 2 1 1 [1, 0] c0 r0) 0).st.meanfield_infection_rate_
            = (c0 : ℚ) / 2
        ∧ spec_binomial_mixing 1 (1 / 2) (fun i => [(1 : ℚ), 0].getD i 0) = 1 / 2)
    ∧ (infect (AnnealedContinuousSIR.create 2 1 1 [1, 0] 0 0) 0).st.meanfield_infection_rate_ = 0 := by
  have hgen : ∀ (n d : Nat) (rr : ℚ) (rates : List ℚ) (c0 : Int) (r0 : ℚ) (s : Sim),
      AnnealedContinuousSIR.Reach n d rr rates c0 r0 s → ∀ v : Node,
      ((infect s v).err = none →
        (infect s v).st.meanfield_infection_rate_
          = spec_binomial_mixing d (infect s v).st.prevalence (fun i => rates.getD i 0)
            + ((c0 : ℚ) - 1) * (1 - (infect s v).st.prevalence) ^ d * rates.getD 0 0)
      ∧ ((recover s v).err = none →
        (recover s v).st.meanfield_infection_rate_
          = spec_binomial_mixing d (recover s v).st.prevalence (fun i => rates.getD i 0)
            + ((c0 : ℚ) - 1) * (1 - (recover s v).st.prevalence) ^ d * rates.getD 0 0) := by
    intro n d rr rates c0 r0 s h v
    obtain ⟨hpar, _, _⟩ := annealed_reach_inv h
    have hk : s.kind = Kind.annealed := hpar.kind
    have hd : s.degree_ = d := hpar.degree_
    have hr : s.infection_rate_ = rates := hpar.infection_rate_
    have hb := hpar.binomial_coeff_
    constructor
    · intro herr
      rw [annealed_infect_meanfield s v hk herr, hd, hr, hb]
      exact meanfield_sum_vs_spec n d rr rates c0 r0 _
    · intro herr
      rw [annealed_recover_meanfield s v hk herr, hd, hr, hb]
      exact meanfield_sum_vs_spec n d rr rates c0 r0 _
  refine ⟨hgen, ?_, by with_unfolding_all decide⟩
  intro c0 r0
  have hsize : (AnnealedContinuousSIR.create 2 1 1 [1, 0] c0 r0).size = 2 :=
    annealed_network_size 2 (by decide)
  have hv : (0 : Node) < (AnnealedContinuousSIR.create 2 1 1 [1, 0] c0 r0).size := by
    rw [hsize]; decide
  have herr : (infect (AnnealedContinuousSIR.create 2 1 1 [1, 0] c0 r0) 0).err = none :=
    annealed_infect_returns _ 0 rfl hv rfl (by
      show 1 + 1 ≤ [(1 : ℚ), 0].length
      decide)
  have he := infect_effect (AnnealedContinuousSIR.create 2 1 1 [1, 0] c0 r0) 0 hv rfl
  have hrho : (infect (AnnealedContinuousSIR.create 2 1 1 [1, 0] c0 r0) 0).st.prevalence
      = 1 / 2 := by
    unfold Sim.prevalence Sim.get_number_of_infected_nodes
    rw [he.infected_node_set_, he.params.size_eq, hsize]
    have : set_insert (AnnealedContinuousSIR.create 2 1 1 [1, 0] c0 r0).infected_node_set_ 0
        = [0] := rfl
    rw [this]
    norm_num
  have hspec : spec_binomial_mixing 1 (1 / 2) (fun i => [(1 : ℚ), 0].getD i 0) = 1 / 2 := by
    unfold spec_binomial_mixing
    simp [Finset.sum_range_succ]
    norm_num
  refine ⟨herr, hrho, ?_, hspec⟩
  rw [(hgen 2 1 1 [1, 0] c0 r0 _ AnnealedContinuousSIR.Reach.create 0).1 herr, hrho, hspec]
  simp only [List.getD_cons_zero, pow_one]
  ring

section Binomial

/-- The work vector of `BinomialCoefficient(n, k)`, `1 ≤ k`, after `i < k` iterations:
no access was outside it, and its entries `0 .. i` are those of the recurrence. -/
theorem work_vector_entries (n k : Nat) (hk : 1 ≤ k) :
    ∀ i : Nat, i < k →
      ∃ v, AnnealedContinuousSIR.work_vector n k i = some v ∧ v.length = k
        ∧ ∀ j, j ≤ i → v.get? j = some (AnnealedContinuousSIR.aSolutions n k j) := by
  intro i
  induction i with
  | zero =>
    intro _
    refine ⟨(List.replicate k (0 : Int)).set 0 ((n : Int) - (k : Int) + 1), ?_, by simp, ?_⟩
    · unfold AnnealedContinuousSIR.work_vector
      rw [if_pos (by simpa using hk)]
    · intro j hj
      have hj0 : j = 0 := by omega
      subst hj0
      rw [List.get?_eq_getElem?, List.getElem?_set_self (by simpa using hk)]
      rfl
  | succ i ih =>
    intro hi
    obtain ⟨v, hv, hlen, hent⟩ := ih (by omega)
    refine ⟨v.set (i + 1)
      (Int.tdiv (AnnealedContinuousSIR.aSolutions n k i
        * ((n : Int) - (k : Int) + 1 + ((i : Int) + 1))) ((i : Int) + 1 + 1)), ?_, by simpa using hlen, ?_⟩
    · rw [AnnealedContinuousSIR.work_vector, hv]
      simp only [hent i (le_refl i)]
      rw [if_pos (by omega)]
    · intro j hj
      by_cases hji : j = i + 1
      · subst hji
        rw [List.get?_eq_getElem?, List.getElem?_set_self (by omega)]
        rfl
      · rw [List.get?_eq_getElem?, List.getElem?_set_ne (by omega), ← List.get?_eq_getElem?]
        exact hent j (by omega)

/-- The two models of `BinomialCoefficient` agree: the one on the work vector returns the
last entry of the recurrence for `1 ≤ k`, and fails for `k = 0`. -/
theorem BinomialCoefficient_run_eq (n k : Nat) :
    AnnealedContinuousSIR.BinomialCoefficient_run n k
      = AnnealedContinuousSIR.BinomialCoefficient n k := by
  unfold AnnealedContinuousSIR.BinomialCoefficient_run AnnealedContinuousSIR.BinomialCoefficient
  by_cases hk : k = 0
  · subst hk
    simp [AnnealedContinuousSIR.work_vector]
  · obtain ⟨v, hv, _, hent⟩ := work_vector_entries n k (by omega) (k - 1) (by omega)
    rw [hv]
    simp only [hk, if_false]
    exact hent (k - 1) (le_refl _)

/-- Every division of the loop of `BinomialCoefficient(n, k)` is exact, `k ≤ n`. -/
theorem aSolutions_division_exact (n k : Nat) (hkn : k ≤ n) (i : Nat) :
    Int.tdiv (AnnealedContinuousSIR.aSolutions n k i
        * ((n : Int) - (k : Int) + 1 + ((i : Int) + 1))) ((i : Int) + 1 + 1) * ((i : Int) + 1 + 1)
      = AnnealedContinuousSIR.aSolutions n k i * ((n : Int) - (k : Int) + 1 + ((i : Int) + 1)) := by
  have hm : (n : Int) - (k : Int) + 1 = ((n - k + 1 : Nat) : Int) := by omega
  rw [aSolutions_eq_choose (n : Int) (k : Int) (n - k + 1) hm i, hm]
  have h := Nat.succ_mul_choose_eq (n - k + 1 + i) (i + 1)
  have e : ((Nat.choose (n - k + 1 + i) (i + 1) : Int) * (((n - k + 1 : Nat) : Int) + ((i : Int) + 1)))
      = (Nat.choose (n - k + 1 + (i + 1)) (i + 1 + 1) : Int) * ((i : Int) + 1 + 1) := by
    have h' : (((n - k + 1 + i).succ * Nat.choose (n - k + 1 + i) (i + 1) : Nat) : Int)
        = ((Nat.choose (n - k + 1 + i).succ (i + 1).succ * (i + 1).succ : Nat) : Int) := by
      exact_mod_cast h
    have e1 : n - k + 1 + (i + 1) = (n - k + 1 + i).succ := rfl
    rw [e1]
    push_cast at h' ⊢
    linarith
  rw [e, Int.mul_tdiv_cancel _ (by omega)]

end Binomial

/-- C29. For `1 ≤ k ≤ n`, over unbounded integers, `BinomialCoefficient(n, k)` returns the
binomial coefficient `C(n, k)`, without any access outside its work vector; the value
that the loop stores in `aSolutions[i]`, `i < k`, is `C(n - k + 1 + i, i + 1)`, and each
division of the loop is exact: the quotient times the divisor `i + 1` (loop variable `i`)
is the dividend. -/
theorem C29_binomial_coefficient (n k : Nat) (hk : 1 ≤ k) (hkn : k ≤ n) :
    AnnealedContinuousSIR.BinomialCoefficient n k = some (Nat.choose n k : Int)
    ∧ AnnealedContinuousSIR.BinomialCoefficient_run n k = some (Nat.choose n k : Int)
    ∧ (∀ i : Nat, i < k →
        ∃ v, AnnealedContinuousSIR.work_vector n k i = some v ∧ v.length = k
          ∧ ∀ j, j ≤ i → v.get? j = some (Nat.choose (n - k + 1 + j) (j + 1) : Int))
    ∧ (∀ i : Nat, i + 1 < k →
        Int.tdiv (AnnealedContinuousSIR.aSolutions n k i
            * ((n : Int) - (k : Int) + 1 + ((i : Int) + 1))) ((i : Int) + 1 + 1)
          * ((i : Int) + 1 + 1)
          = AnnealedContinuousSIR.aSolutions n k i
            * ((n : Int) - (k : Int) + 1 + ((i : Int) + 1))) := by
  have hm : (n : Int) - (k : Int) + 1 = ((n - k + 1 : Nat) : Int) := by omega
  refine ⟨BinomialCoefficient_eq_choose n k hk hkn, ?_, ?_, ?_⟩
  · rw [BinomialCoefficient_run_eq]
    exact BinomialCoefficient_eq_choose n k hk hkn
  · intro i hi
    obtain ⟨v, hv, hlen, hent⟩ := work_vector_entries n k hk i hi
    refine ⟨v, hv, hlen, fun j hj => ?_⟩
    rw [hent j hj, aSolutions_eq_choose (n : Int) (k : Int) (n - k + 1) hm j]
  · intro i _
    exact aSolutions_division_exact n k hkn i

/-- C29, on `BinomialCoefficient(5, 2) = 10`. -/
theorem C29_binomial_coefficient_witness :
    AnnealedContinuousSIR.BinomialCoefficient 5 2 = some 10
    ∧ AnnealedContinuousSIR.BinomialCoefficient_run 5 2 = some 10 :=
  ⟨(C29_binomial_coefficient 5 2 (by decide) (by decide)).1,
    (C29_binomial_coefficient 5 2 (by decide) (by decide)).2.1⟩

/-- C30. For every `n`, the call `BinomialCoefficient(n, 0)` is not well defined: its work
vector has no element, so the write of `aSolutions[0]` is outside it (and so is the read
of `aSolutions[k - 1]`); the call returns no determined value, and the entry
`binomial_coeff_[0]` that the constructor of `AnnealedContinuousSIR` fills with it is the
indeterminate value, which need not be `C(n, 0) = 1`. -/
theorem C30_binomial_coefficient_zero :
    (∀ n : Nat, (List.replicate 0 (0 : Int)).length = 0
      ∧ AnnealedContinuousSIR.work_vector n 0 0 = none
      ∧ AnnealedContinuousSIR.BinomialCoefficient_run n 0 = none
      ∧ AnnealedContinuousSIR.BinomialCoefficient n 0 = none)
    ∧ (∀ (n d : Nat) (rr : ℚ) (rates : List ℚ) (c0 : Int) (r0 : ℚ),
        (AnnealedContinuousSIR.create n d rr rates c0 r0).binomial_coeff_.get? 0 = some c0)
    ∧ (AnnealedContinuousSIR.create 2 1 1 [1, 0] 0 0).binomial_coeff_ = [0, 1]
    ∧ Nat.choose 1 0 = 1 := by
  refine ⟨fun n => ⟨rfl, rfl, rfl, rfl⟩, ?_, by decide, rfl⟩
  intro n d rr rates c0 r0
  have h := annealed_binomial_coeff n d rr rates c0 r0 0 (Nat.zero_le d)
  rw [if_pos rfl] at h
  have hlen : 0 < (AnnealedContinuousSIR.create n d rr rates c0 r0).binomial_coeff_.length := by
    show 0 < ((List.range (d + 1)).map
      (fun i => (AnnealedContinuousSIR.BinomialCoefficient d i).getD c0)).length
    simp
  rw [List.getD_eq_getElem?_getD, List.getElem?_eq_getElem hlen] at h
  rw [List.get?_eq_getElem?, List.getElem?_eq_getElem hlen]
  simpa using h

section GraphCounts

/-- The first loop of the constructor of `Network` returns its initial value or a label
of the edge list. -/
theorem Network.max_label_fold_attained (edge_list : EdgeList) :
    ∀ init : Nat,
      edge_list.foldl (fun nb_nodes e =>
          let nb1 := if e.1 > nb_nodes then e.1 else nb_nodes
          if e.2 > nb1 then e.2 else nb1) init = init
      ∨ ∃ e ∈ edge_list,
          e.1 = edge_list.foldl (fun nb_nodes e =>
            let nb1 := if e.1 > nb_nodes then e.1 else nb_nodes
            if e.2 > nb1 then e.2 else nb1) init
          ∨ e.2 = edge_list.foldl (fun nb_nodes e =>
            let nb1 := if e.1 > nb_nodes then e.1 else nb_nodes
            if e.2 > nb1 then e.2 else nb1) init := by
  induction edge_list with
  | nil => intro init; left; rfl
  | cons e es ih =>
    intro init
    rw [List.foldl_cons]
    have hstep : (let nb1 := if e.1 > init then e.1 else init
          if e.2 > nb1 then e.2 else nb1) = init
        ∨ (let nb1 := if e.1 > init then e.1 else init
          if e.2 > nb1 then e.2 else nb1) = e.1
        ∨ (let nb1 := if e.1 > init then e.1 else init
          if e.2 > nb1 then e.2 else nb1) = e.2 := by
      show (if e.2 > (if e.1 > init then e.1 else init) then e.2
          else (if e.1 > init then e.1 else init)) = init
        ∨ (if e.2 > (if e.1 > init then e.1 else init) then e.2
          else (if e.1 > init then e.1 else init)) = e.1
        ∨ (if e.2 > (if e.1 > init then e.1 else init) then e.2
          else (if e.1 > init then e.1 else init)) = e.2
      by_cases h1 : e.1 > init
      · rw [if_pos h1]
        by_cases h2 : e.2 > e.1
        · rw [if_pos h2]; right; right; rfl
        · rw [if_neg h2]; right; left; rfl
      · rw [if_neg h1]
        by_cases h2 : e.2 > init
        · rw [if_pos h2]; right; right; rfl
        · rw [if_neg h2]; left; rfl
    rcases ih (let nb1 := if e.1 > init then e.1 else init
          if e.2 > nb1 then e.2 else nb1) with h | ⟨f, hf, h⟩
    · rw [h]
      rcases hstep with h0 | h1 | h2
      · left; exact h0
      · right; exact ⟨e, List.mem_cons_self _ _, Or.inl h1.symm⟩
      · right; exact ⟨e, List.mem_cons_self _ _, Or.inr h2.symm⟩
    · right
      exact ⟨f, List.mem_cons_of_mem _ hf, h⟩

/-- The value of the first loop of the constructor is the largest label of a non-empty
edge list: it bounds every label and it is one of them. -/
theorem Network.max_label_attained (edge_list : EdgeList) (h : edge_list ≠ []) :
    ∃ e ∈ edge_list, e.1 = Network.max_label edge_list ∨ e.2 = Network.max_label edge_list := by
  rcases Network.max_label_fold_attained edge_list 0 with h0 | h1
  · cases edge_list with
    | nil => exact absurd rfl h
    | cons e es =>
      refine ⟨e, List.mem_cons_self _ _, Or.inl ?_⟩
      have hle := (Network.le_max_label (e :: es) e (List.mem_cons_self _ _)).1
      have h0' : Network.max_label (e :: es) = 0 := h0
      rw [h0'] at hle ⊢
      exact Nat.le_zero.1 hle
  · exact h1

/-- The number of neighbours listed for `v`: the number of edge endpoints equal to `v`. -/
theorem Network.length_neighbors_from (v : Node) (edge_list : EdgeList) :
    (Network.neighbors_from v edge_list).length
      = edge_list.countP (fun e => decide (e.1 = v)) + edge_list.countP (fun e => decide (e.2 = v)) := by
  induction edge_list with
  | nil => rfl
  | cons e es ih =>
    rw [Network.neighbors_from, List.length_append, List.length_append, ih,
      List.countP_cons, List.countP_cons]
    by_cases h1 : e.1 = v <;> by_cases h2 : e.2 = v <;> simp [h1, h2] <;> omega

/-- The lengths of the neighbour lists of the nodes `0 .. n - 1` add up to twice the
number of edges, when every label is below `n`. -/
theorem Network.sum_length_neighbors_from (n : Nat) (edge_list : EdgeList)
    (h : ∀ e ∈ edge_list, e.1 < n ∧ e.2 < n) :
    ∑ v ∈ Finset.range n, (Network.neighbors_from v edge_list).length = 2 * edge_list.length := by
  induction edge_list with
  | nil => simp [Network.neighbors_from]
  | cons e es ih =>
    have he := h e (List.mem_cons_self _ _)
    have ih' := ih (fun f hf => h f (List.mem_cons_of_mem _ hf))
    have e1 : ∀ v, (Network.neighbors_from v (e :: es)).length
        = (if e.1 = v then 1 else 0) + (if e.2 = v then 1 else 0)
          + (Network.neighbors_from v es).length := by
      intro v
      rw [Network.neighbors_from, List.length_append, List.length_append]
      by_cases h1 : e.1 = v <;> by_cases h2 : e.2 = v <;> simp [h1, h2]
    simp only [e1, Finset.sum_add_distrib, ih']
    rw [Finset.sum_ite_eq, Finset.sum_ite_eq, if_pos (Finset.mem_range.2 he.1),
      if_pos (Finset.mem_range.2 he.2), List.length_cons]
    omega

/-- The number of times `u` is listed as a neighbour of `v`: the number of times the edge
is listed, in either orientation (a self-loop counts twice). -/
theorem Network.count_neighbors_edges (v u : Node) (edge_list : EdgeList) :
    (Network.neighbors_from v edge_list).count u
      = edge_list.count (v, u) + edge_list.count (u, v) := by
  induction edge_list with
  | nil => rfl
  | cons e es ih =>
    rw [Network.neighbors_from, List.count_append, List.count_append, ih, count_endpoint,
      count_endpoint, List.count_cons, List.count_cons]
    have h1 : (e == (v, u)) = decide (e.1 = v ∧ e.2 = u) := by
      rcases e with ⟨a, b⟩
      rw [Bool.eq_iff_iff]
      simp [Prod.ext_iff]
    have h2 : (e == (u, v)) = decide (e.2 = v ∧ e.1 = u) := by
      rcases e with ⟨a, b⟩
      rw [Bool.eq_iff_iff]
      simp [Prod.ext_iff, and_comm]
    rw [h1, h2]
    by_cases c1 : e.1 = v ∧ e.2 = u <;> by_cases c2 : e.2 = v ∧ e.1 = u <;>
      simp [c1, c2] <;> omega

/-- The third loop of the constructor of `Network`, on nodes other than 0: the first
component is the least of its initial value and of the degrees of the nodes visited. -/
theorem Network.degree_bounds_go_min (adj : List (List Node)) (nodes : List Node) (h0 : 0 ∉ nodes) :
    ∀ mm : Nat × Nat,
      (Network.degree_bounds.go adj nodes mm).1 ≤ mm.1
      ∧ (∀ v ∈ nodes, (Network.degree_bounds.go adj nodes mm).1 ≤ (adj.getD v []).length)
      ∧ ((Network.degree_bounds.go adj nodes mm).1 = mm.1
          ∨ ∃ v ∈ nodes, (Network.degree_bounds.go adj nodes mm).1 = (adj.getD v []).length) := by
  induction nodes with
  | nil => intro mm; simp [Network.degree_bounds.go]
  | cons a l ih =>
    intro mm
    have ha : a ≠ 0 := fun h => h0 (h ▸ List.mem_cons_self _ _)
    have hl : 0 ∉ l := fun h => h0 (List.mem_cons_of_mem _ h)
    have hgo : Network.degree_bounds.go adj (a :: l) mm
        = Network.degree_bounds.go adj l
            ((if (adj.getD a []).length < mm.1 then (adj.getD a []).length else mm.1),
             (if (adj.getD a []).length > mm.2 then (adj.getD a []).length else mm.2)) := by
      unfold Network.degree_bounds.go
      rw [List.foldl_cons]
      simp only [ha, if_false]
    rw [hgo]
    obtain ⟨h1, h2, h3⟩ := ih hl
      ((if (adj.getD a []).length < mm.1 then (adj.getD a []).length else mm.1),
       (if (adj.getD a []).length > mm.2 then (adj.getD a []).length else mm.2))
    have hstep : (if (adj.getD a []).length < mm.1 then (adj.getD a []).length else mm.1) ≤ mm.1
        ∧ (if (adj.getD a []).length < mm.1 then (adj.getD a []).length else mm.1)
            ≤ (adj.getD a []).length
        ∧ ((if (adj.getD a []).length < mm.1 then (adj.getD a []).length else mm.1) = mm.1
            ∨ (if (adj.getD a []).length < mm.1 then (adj.getD a []).length else mm.1)
              = (adj.getD a []).length) := by
      split <;> omega
    refine ⟨le_trans h1 hstep.1, ?_, ?_⟩
    · intro v hv
      rcases List.mem_cons.1 hv with hva | hva
      · subst hva; exact le_trans h1 hstep.2.1
      · exact h2 v hva
    · rcases h3 with h3 | ⟨v, hv, h3⟩
      · rcases hstep.2.2 with hs | hs
        · left; exact h3.trans hs
        · right; exact ⟨a, List.mem_cons_self _ _, h3.trans hs⟩
      · right; exact ⟨v, List.mem_cons_of_mem _ hv, h3⟩

/-- The third loop of the constructor of `Network`: the second component is its initial
value or the degree of a node visited. -/
theorem Network.degree_bounds_go_max (adj : List (List Node)) (nodes : List Node) :
    ∀ mm : Nat × Nat,
      (Network.degree_bounds.go adj nodes mm).2 = mm.2
        ∨ ∃ v ∈ nodes, (Network.degree_bounds.go adj nodes mm).2 = (adj.getD v []).length := by
  induction nodes with
  | nil => intro mm; left; rfl
  | cons a l ih =>
    intro mm
    have hgo : Network.degree_bounds.go adj (a :: l) mm
        = Network.degree_bounds.go adj l
            ((let mn := if a = 0 then (adj.getD a []).length else mm.1
              if (adj.getD a []).length < mn then (adj.getD a []).length else mn),
             (if (adj.getD a []).length > mm.2 then (adj.getD a []).length else mm.2)) := by
      unfold Network.degree_bounds.go
      rw [List.foldl_cons]
    rw [hgo]
    rcases ih ((let mn := if a = 0 then (adj.getD a []).length else mm.1
              if (adj.getD a []).length < mn then (adj.getD a []).length else mn),
             (if (adj.getD a []).length > mm.2 then (adj.getD a []).length else mm.2))
      with h | ⟨v, hv, h⟩
    · rw [h]
      show (if (adj.getD a []).length > mm.2 then (adj.getD a []).length else mm.2) = mm.2 ∨ _
      by_cases hc : (adj.getD a []).length > mm.2
      · rw [if_pos hc]; right; exact ⟨a, List.mem_cons_self _ _, rfl⟩
      · rw [if_neg hc]; left; rfl
    · right; exact ⟨v, List.mem_cons_of_mem _ hv, h⟩

end GraphCounts

/-- The cached degree bounds of the network built from an edge list are the least and the
largest degree of a node. -/
theorem Network.ofEdgeList_degree_bounds (edge_list : EdgeList) :
    (∀ v, v < (Network.ofEdgeList edge_list).size →
      (Network.ofEdgeList edge_list).min_degree_ ≤ (Network.ofEdgeList edge_list).degree v)
    ∧ (∃ v, v < (Network.ofEdgeList edge_list).size
        ∧ (Network.ofEdgeList edge_list).degree v = (Network.ofEdgeList edge_list).min_degree_)
    ∧ (∀ v, v < (Network.ofEdgeList edge_list).size →
      (Network.ofEdgeList edge_list).degree v ≤ (Network.ofEdgeList edge_list).max_degree_)
    ∧ (∃ v, v < (Network.ofEdgeList edge_list).size
        ∧ (Network.ofEdgeList edge_list).degree v = (Network.ofEdgeList edge_list).max_degree_) := by
  have hsize := Network.ofEdgeList_size edge_list
  generalize hadj : Network.fill (List.replicate (Network.max_label edge_list + 1) []) edge_list
    = adj
  have hdeg : ∀ v, (Network.ofEdgeList edge_list).degree v = (adj.getD v []).length := by
    intro v; rw [← hadj]; rfl
  have hmin : (Network.ofEdgeList edge_list).min_degree_
      = (Network.degree_bounds.go adj (List.range (Network.max_label edge_list + 1)) (0, 0)).1 := by
    rw [← hadj]; rfl
  have hmax : (Network.ofEdgeList edge_list).max_degree_
      = (Network.degree_bounds.go adj (List.range (Network.max_label edge_list + 1)) (0, 0)).2 := by
    rw [← hadj]; rfl
  have hgo : Network.degree_bounds.go adj (List.range (Network.max_label edge_list + 1)) (0, 0)
      = Network.degree_bounds.go adj ((List.range (Network.max_label edge_list)).map Nat.succ)
          ((adj.getD 0 []).length, (adj.getD 0 []).length) := by
    rw [List.range_succ_eq_map]
    unfold Network.degree_bounds.go
    rw [List.foldl_cons]
    congr 1
    simp only [if_true, lt_irrefl, if_false, gt_iff_lt]
    by_cases h : 0 < (adj.getD 0 []).length
    · rw [if_pos h]
    · rw [if_neg h]
      have : (adj.getD 0 []).length = 0 := by omega
      rw [this]
  have h0 : 0 ∉ (List.range (Network.max_label edge_list)).map Nat.succ := by
    simp
  have hmem : ∀ v, v ∈ (List.range (Network.max_label edge_list)).map Nat.succ →
      v < Network.max_label edge_list + 1 := by
    intro v hv
    obtain ⟨w, hw, rfl⟩ := List.mem_map.1 hv
    have := List.mem_range.1 hw
    omega
  have hmem2 : ∀ v, v < Network.max_label edge_list + 1 → v ≠ 0 →
      v ∈ (List.range (Network.max_label edge_list)).map Nat.succ := by
    intro v hv hv0
    refine List.mem_map.2 ⟨v - 1, List.mem_range.2 (by omega), by omega⟩
  obtain ⟨m1, m2, m3⟩ := Network.degree_bounds_go_min adj _ h0
    ((adj.getD 0 []).length, (adj.getD 0 []).length)
  obtain ⟨x1, x2⟩ := Network.degree_bounds_fold adj
    ((List.range (Network.max_label edge_list)).map Nat.succ)
    ((adj.getD 0 []).length, (adj.getD 0 []).length)
  have x3 := Network.degree_bounds_go_max adj
    ((List.range (Network.max_label edge_list)).map Nat.succ)
    ((adj.getD 0 []).length, (adj.getD 0 []).length)
  rw [hsize, hmin, hmax, hgo]
  simp only [hdeg]
  refine ⟨?_, ?_, ?_, ?_⟩
  · intro v hv
    by_cases hv0 : v = 0
    · rw [hv0]; exact m1
    · exact m2 v (hmem2 v hv hv0)
  · rcases m3 with h | ⟨v, hv, h⟩
    · exact ⟨0, Nat.succ_pos _, h.symm⟩
    · exact ⟨v, hmem v hv, h.symm⟩
  · intro v hv
    by_cases hv0 : v = 0
    · rw [hv0]; exact x1
    · exact x2 v (hmem2 v hv hv0)
  · rcases x3 with h | ⟨v, hv, h⟩
    · exact ⟨0, Nat.succ_pos _, h.symm⟩
    · exact ⟨v, hmem v hv, h.symm⟩

/-- C25. For every non-empty edge list, the network built from it has (largest label of
an edge) + 1 nodes; the neighbour list of every node `v` is, in edge-list order, the other
endpoint of each edge incident to `v`, so that `u` is listed as often as the edge is
listed in either orientation (a self-loop twice); the degree of `v` is the number of edge
endpoints equal to `v`; the degrees add up to twice the number of edges; `min_degree()`
and `max_degree()` are the least and the largest degree of a node. -/
theorem C25_network_of_edge_list (edge_list : EdgeList) (h : edge_list ≠ []) :
    (Network.ofEdgeList edge_list).size = Network.max_label edge_list + 1
    ∧ (∀ e ∈ edge_list, e.1 ≤ Network.max_label edge_list ∧ e.2 ≤ Network.max_label edge_list)
    ∧ (∃ e ∈ edge_list, e.1 = Network.max_label edge_list ∨ e.2 = Network.max_label edge_list)
    ∧ (∀ v, (Network.ofEdgeList edge_list).adjacent_nodes v = Network.neighbors_from v edge_list)
    ∧ (∀ v u, ((Network.ofEdgeList edge_list).adjacent_nodes v).count u
        = edge_list.count (v, u) + edge_list.count (u, v))
    ∧ (∀ v, (Network.ofEdgeList edge_list).degree v
        = edge_list.countP (fun e => decide (e.1 = v))
          + edge_list.countP (fun e => decide (e.2 = v)))
    ∧ ∑ v ∈ Finset.range (Network.ofEdgeList edge_list).size,
        (Network.ofEdgeList edge_list).degree v = 2 * edge_list.length
    ∧ (∀ v, v < (Network.ofEdgeList edge_list).size →
        (Network.ofEdgeList edge_list).min_degree_ ≤ (Network.ofEdgeList edge_list).degree v)
    ∧ (∃ v, v < (Network.ofEdgeList edge_list).size
        ∧ (Network.ofEdgeList edge_list).degree v = (Network.ofEdgeList edge_list).min_degree_)
    ∧ (∀ v, v < (Network.ofEdgeList edge_list).size →
        (Network.ofEdgeList edge_list).degree v ≤ (Network.ofEdgeList edge_list).max_degree_)
    ∧ (∃ v, v < (Network.ofEdgeList edge_list).size
        ∧ (Network.ofEdgeList edge_list).degree v
          = (Network.ofEdgeList edge_list).max_degree_) := by
  have hdeg : ∀ v, (Network.ofEdgeList edge_list).degree v
      = (Network.neighbors_from v edge_list).length := by
    intro v
    rw [← Network.ofEdgeList_adjacent]
    rfl
  refine ⟨Network.ofEdgeList_size edge_list, Network.le_max_label edge_list,
    Network.max_label_attained edge_list h, Network.ofEdgeList_adjacent edge_list, ?_, ?_, ?_,
    Network.ofEdgeList_degree_bounds edge_list⟩
  · intro v u
    rw [Network.ofEdgeList_adjacent, Network.count_neighbors_edges]
  · intro v
    rw [hdeg, Network.length_neighbors_from]
  · simp only [hdeg]
    rw [Network.ofEdgeList_size]
    exact Network.sum_length_neighbors_from _ edge_list (fun e he =>
      ⟨Nat.lt_succ_of_le (Network.le_max_label edge_list e he).1,
        Nat.lt_succ_of_le (Network.le_max_label edge_list e he).2⟩)

/-- C25, on the edge list `(0,2), (2,0), (1,1)`: three nodes; node 0 lists 2 twice, node 1
lists itself twice, node 2 lists 0 twice. -/
theorem C25_network_of_edge_list_witness :
    ([(0, 2), (2, 0), (1, 1)] : EdgeList) ≠ []
    ∧ (Network.ofEdgeList [(0, 2), (2, 0), (1, 1)]).size = 3
    ∧ (Network.ofEdgeList [(0, 2), (2, 0), (1, 1)]).adjacency_list_ = [[2, 2], [1, 1], [0, 0]]
    ∧ ∑ v ∈ Finset.range (Network.ofEdgeList [(0, 2), (2, 0), (1, 1)]).size,
        (Network.ofEdgeList [(0, 2), (2, 0), (1, 1)]).degree v = 2 * 3 :=
  ⟨by decide, by decide, by decide,
    (C25_network_of_edge_list [(0, 2), (2, 0), (1, 1)] (by decide)).2.2.2.2.2.2.1⟩

section InfectionKeys

/-- What a visit of a neighbour does to the state, whether it returns or not: it
rewrites the bookkeeping and, for a susceptible node only, sets or erases its weight. -/
theorem continuous_visit_neighbor_set (event : Event) (s : Sim) (x : Node) :
    ∃ l p w, (ContinuousSIR.visit_neighbor event s x).st = { s with
        infected_neighbors_vector_ := l,
        infected_neighbor_position_vector_ := p,
        infection_event_set_ := w }
      ∧ (w = s.infection_event_set_
        ∨ (x < s.size ∧ s.state_vector_ x = NodeState.S
          ∧ (w = s.infection_event_set_.erase x
            ∨ ∃ r, w = s.infection_event_set_.set_weight x r))) := by
  unfold ContinuousSIR.visit_neighbor
  by_cases hx : x < s.size
  swap
  · rw [if_neg hx]; exact ⟨_, _, _, rfl, Or.inl rfl⟩
  rw [if_pos hx]
  by_cases hs : s.state_vector_ x = NodeState.S
  swap
  · rw [if_neg hs]; exact ⟨_, _, _, rfl, Or.inl rfl⟩
  rw [if_pos hs]
  unfold ContinuousSIR.update_infection_rate
  rw [if_pos hx, update_infected_neighbors_eq]
  cases hr : slot_update event (s.infected_neighbors_vector_ x)
      (s.infected_neighbor_position_vector_ x) with
  | none => exact ⟨_, _, _, rfl, Or.inl rfl⟩
  | some r =>
    simp only [Option.map_some']
    cases hrate : ContinuousSIR.get_infection_rate { s with
        infected_neighbors_vector_ := Function.update s.infected_neighbors_vector_ x r.1,
        infected_neighbor_position_vector_ :=
          Function.update s.infected_neighbor_position_vector_ x r.2 } x with
    | none => exact ⟨_, _, _, rfl, Or.inl rfl⟩
    | some rate =>
      by_cases hpos : rate > 0
      · simp only [if_pos hpos]
        exact ⟨_, _, _, rfl, Or.inr ⟨hx, hs, Or.inr ⟨rate, rfl⟩⟩⟩
      · simp only [if_neg hpos]
        exact ⟨_, _, _, rfl, Or.inr ⟨hx, hs, Or.inl rfl⟩⟩

/-- What a visit of a neighbour does to the state, for `DiscreteSIR`. -/
theorem discrete_visit_neighbor_set (event : Event) (s : Sim) (x : Node) :
    ∃ l p w, (DiscreteSIR.visit_neighbor event s x).st = { s with
        infected_neighbors_vector_ := l,
        infected_neighbor_position_vector_ := p,
        infection_event_set_ := w }
      ∧ (w = s.infection_event_set_
        ∨ (x < s.size ∧ s.state_vector_ x = NodeState.S
          ∧ (w = s.infection_event_set_.erase x
            ∨ ∃ r, w = s.infection_event_set_.set_weight x r))) := by
  unfold DiscreteSIR.visit_neighbor
  by_cases hx : x < s.size
  swap
  · rw [if_neg hx]; exact ⟨_, _, _, rfl, Or.inl rfl⟩
  rw [if_pos hx]
  by_cases hs : s.state_vector_ x = NodeState.S
  swap
  · rw [if_neg hs]; exact ⟨_, _, _, rfl, Or.inl rfl⟩
  rw [if_pos hs]
  unfold DiscreteSIR.update_infection_propensity
  rw [if_pos hx, update_infected_neighbors_eq]
  cases hr : slot_update event (s.infected_neighbors_vector_ x)
      (s.infected_neighbor_position_vector_ x) with
  | none => exact ⟨_, _, _, rfl, Or.inl rfl⟩
  | some r =>
    simp only [Option.map_some']
    cases hrate : DiscreteSIR.get_infection_propensity { s with
        infected_neighbors_vector_ := Function.update s.infected_neighbors_vector_ x r.1,
        infected_neighbor_position_vector_ :=
          Function.update s.infected_neighbor_position_vector_ x r.2 } x with
    | none => exact ⟨_, _, _, rfl, Or.inl rfl⟩
    | some rate =>
      by_cases hpos : rate > 0
      · simp only [if_pos hpos]
        exact ⟨_, _, _, rfl, Or.inr ⟨hx, hs, Or.inr ⟨rate, rfl⟩⟩⟩
      · simp only [if_neg hpos]
        exact ⟨_, _, _, rfl, Or.inr ⟨hx, hs, Or.inl rfl⟩⟩

/-- A rewriting of the bookkeeping and of the weight of a susceptible node keeps the
candidates susceptible. -/
theorem InfectionKeysInv.of_visit {s : Sim} (h : InfectionKeysInv s) {x : Node}
    {l : Node → List Node} {p : Node → Node → Option Nat} {w : SamplableSet}
    (hw : w = s.infection_event_set_
        ∨ (x < s.size ∧ s.state_vector_ x = NodeState.S
          ∧ (w = s.infection_event_set_.erase x
            ∨ ∃ r, w = s.infection_event_set_.set_weight x r))) :
    InfectionKeysInv { s with
        infected_neighbors_vector_ := l,
        infected_neighbor_position_vector_ := p,
        infection_event_set_ := w } := by
  intro v hv
  have hv' : v ∈ w.keys := hv
  show v < s.size ∧ s.state_vector_ v = NodeState.S
  rcases hw with hw | ⟨hx, hs, hw | ⟨r, hw⟩⟩
  · rw [hw] at hv'; exact h v hv'
  · rw [hw, SamplableSet.mem_keys_erase] at hv'; exact h v hv'.1
  · rw [hw, SamplableSet.mem_keys_set_weight] at hv'
    rcases hv' with h1 | h1
    · exact h v h1
    · rw [h1]; exact ⟨hx, hs⟩

theorem InfectionKeysInv.continuous_loop (event : Event) (xs : List Node) (s : Sim)
    (h : InfectionKeysInv s) :
    InfectionKeysInv (for_each (ContinuousSIR.visit_neighbor event) xs s).st :=
  for_each_inv InfectionKeysInv _ (fun s x hs => by
    obtain ⟨l, p, w, hst, hw⟩ := continuous_visit_neighbor_set event s x
    rw [hst]
    exact hs.of_visit hw) xs s h

theorem InfectionKeysInv.discrete_loop (event : Event) (xs : List Node) (s : Sim)
    (h : InfectionKeysInv s) :
    InfectionKeysInv (for_each (DiscreteSIR.visit_neighbor event) xs s).st :=
  for_each_inv InfectionKeysInv _ (fun s x hs => by
    obtain ⟨l, p, w, hst, hw⟩ := discrete_visit_neighbor_set event s x
    rw [hst]
    exact hs.of_visit hw) xs s h

/-- The state in which `infect` enters its loop over the neighbours. -/
theorem InfectionKeysInv.infect_entry {s : Sim} (h : InfectionKeysInv s) (v : Node)
    (l : List Node) (w : SamplableSet) :
    InfectionKeysInv { s with
      infection_event_set_ := s.infection_event_set_.erase v,
      state_vector_ := Function.update s.state_vector_ v NodeState.I,
      infected_node_set_ := l,
      recovery_event_set_ := w } := by
  intro u hu
  have hu' : u ∈ (s.infection_event_set_.erase v).keys := hu
  rw [SamplableSet.mem_keys_erase] at hu'
  show u < s.size ∧ Function.update s.state_vector_ v NodeState.I u = NodeState.S
  rw [Function.update_noteq hu'.2]
  exact h u hu'.1

/-- The state in which `recover` enters its loop over the neighbours. -/
theorem InfectionKeysInv.recover_entry {s : Sim} (h : InfectionKeysInv s) (v : Node)
    (hs : s.state_vector_ v = NodeState.I) (l l' : List Node) (w : SamplableSet) :
    InfectionKeysInv { s with
      state_vector_ := Function.update s.state_vector_ v NodeState.R,
      infected_node_set_ := l,
      recovered_node_set_ := l',
      recovery_event_set_ := w } := by
  intro u hu
  have hu' : u ∈ s.infection_event_set_.keys := hu
  show u < s.size ∧ Function.update s.state_vector_ v NodeState.R u = NodeState.S
  have hne : u ≠ v := by
    intro huv
    rw [huv] at hu'
    have := (h v hu').2
    rw [hs] at this
    exact absurd this (by decide)
  rw [Function.update_noteq hne]
  exact h u hu'

end InfectionKeys

section InfectionKeysOps

/-- The candidates stay susceptible along `infect`, whether the call returns or not. -/
theorem InfectionKeysInv.infect_keys (s : Sim) (v : Node) (h : InfectionKeysInv s) :
    InfectionKeysInv (infect s v).st := by
  unfold infect
  split
  · unfold ContinuousSIR.infect
    by_cases hv : v < s.size
    swap
    · rw [if_neg hv]; exact h
    rw [if_pos hv]
    by_cases hs : s.state_vector_ v = NodeState.S
    swap
    · rw [if_neg hs]; exact h
    rw [if_pos hs]
    refine Res.andThen_inv (P := InfectionKeysInv) ?_ ?_
    · exact InfectionKeysInv.continuous_loop _ _ _
        (h.infect_entry v (set_insert s.infected_node_set_ v) s.recovery_event_set_)
    · intro s2 h2 u hu
      exact h2 u hu
  · unfold DiscreteSIR.infect
    by_cases hv : v < s.size
    swap
    · rw [if_neg hv]; exact h
    rw [if_pos hv]
    by_cases hs : s.state_vector_ v = NodeState.S
    swap
    · rw [if_neg hs]; exact h
    rw [if_pos hs]
    refine Res.andThen_inv (P := InfectionKeysInv) ?_ ?_
    · exact InfectionKeysInv.discrete_loop _ _ _
        (h.infect_entry v (set_insert s.infected_node_set_ v) s.recovery_event_set_)
    · intro s2 h2 u hu
      exact h2 u hu
  · unfold AnnealedContinuousSIR.infect
    by_cases hv : v < s.size
    swap
    · rw [if_neg hv]; exact h
    rw [if_pos hv]
    by_cases hs : s.state_vector_ v = NodeState.S
    swap
    · rw [if_neg hs]; exact h
    rw [if_pos hs]
    obtain ⟨m, hm⟩ := annealed_update_meanfield_rate_frame { s with
        infection_event_set_ := s.infection_event_set_.erase v,
        state_vector_ := Function.update s.state_vector_ v NodeState.I,
        infected_node_set_ := set_insert s.infected_node_set_ v,
        recovery_event_set_ := s.recovery_event_set_.insert v 1 }
    rw [hm]
    intro u hu
    exact h.infect_entry v (set_insert s.infected_node_set_ v)
      (s.recovery_event_set_.insert v 1) u hu

/-- The candidates stay susceptible along `recover`, whether the call returns or not. -/
theorem InfectionKeysInv.recover_keys (s : Sim) (v : Node) (h : InfectionKeysInv s) :
    InfectionKeysInv (recover s v).st := by
  unfold recover
  split
  · unfold ContinuousSIR.recover
    by_cases hv : v < s.size
    swap
    · rw [if_neg hv]; exact h
    rw [if_pos hv]
    by_cases hs : s.state_vector_ v = NodeState.I
    swap
    · rw [if_neg hs]; exact h
    rw [if_pos hs]
    refine Res.andThen_inv (P := InfectionKeysInv) ?_ ?_
    · exact InfectionKeysInv.continuous_loop _ _ _
        (h.recover_entry v hs (set_erase s.infected_node_set_ v)
          (set_insert s.recovered_node_set_ v) s.recovery_event_set_)
    · intro s2 h2 u hu
      exact h2 u hu
  · unfold DiscreteSIR.recover
    by_cases hv : v < s.size
    swap
    · rw [if_neg hv]; exact h
    rw [if_pos hv]
    by_cases hs : s.state_vector_ v = NodeState.I
    swap
    · rw [if_neg hs]; exact h
    rw [if_pos hs]
    refine Res.andThen_inv (P := InfectionKeysInv) ?_ ?_
    · exact InfectionKeysInv.discrete_loop _ _ _
        (h.recover_entry v hs (set_erase s.infected_node_set_ v)
          (set_insert s.recovered_node_set_ v) s.recovery_event_set_)
    · intro s2 h2 u hu
      exact h2 u hu
  · unfold AnnealedContinuousSIR.recover
    by_cases hv : v < s.size
    swap
    · rw [if_neg hv]; exact h
    rw [if_pos hv]
    by_cases hs : s.state_vector_ v = NodeState.I
    swap
    · rw [if_neg hs]; exact h
    rw [if_pos hs]
    obtain ⟨m, hm⟩ := annealed_update_meanfield_rate_frame { s with
        state_vector_ := Function.update s.state_vector_ v NodeState.R,
        infected_node_set_ := set_erase s.infected_node_set_ v,
        recovered_node_set_ := set_insert s.recovered_node_set_ v,
        recovery_event_set_ := s.recovery_event_set_.erase v }
    rw [hm]
    intro u hu
    exact h.recover_entry v hs (set_erase s.infected_node_set_ v)
      (set_insert s.recovered_node_set_ v) (s.recovery_event_set_.erase v) u hu

/-- The population invariant together with the susceptibility of the infection
candidates is kept by the engine. -/
theorem InfectionKeysInv.kept_keys : Kept (fun s => PopulationInv s ∧ InfectionKeysInv s) where
  infect := fun s v h _ => ⟨h.1.infect s v, h.2.infect_keys s v⟩
  recover := fun s v h _ => ⟨h.1.recover s v, h.2.recover_keys s v⟩
  generation := fun s g h => ⟨PopulationInv.population_stable.generation s g h.1, h.2⟩
  tree := fun s tr h => ⟨PopulationInv.population_stable.tree s tr h.1, h.2⟩
  snapshot := fun s m h => ⟨PopulationInv.population_stable.snapshot s m h.1, h.2⟩
  clock := fun s t t' h => ⟨PopulationInv.population_stable.clock s t t' h.1, h.2⟩
  flip := by
    intro s h _
    refine ⟨PopulationInv.population_stable.flip s h.1, ?_⟩
    intro u hu
    have hu' : u ∈ s.infection_event_set_.keys := hu
    show u < s.size ∧ (s.recovered_node_set_.foldl
      (fun sv node => Function.update sv node NodeState.S) s.state_vector_) u = NodeState.S
    rw [foldl_update_apply]
    refine ⟨(h.2 u hu').1, ?_⟩
    by_cases hm : u ∈ s.recovered_node_set_
    · rw [if_pos hm]
    · rw [if_neg hm]; exact (h.2 u hu').2
  clear_sets := by
    intro s h _ _ _
    refine ⟨PopulationInv.population_stable.clear_sets s h.1, ?_⟩
    intro u hu
    exact absurd hu (List.not_mem_nil u)
  refill_sets := by
    intro s h _ hI hR
    refine ⟨PopulationInv.population_stable.refill_sets s h.1, ?_⟩
    intro u hu
    have hu' : u ∈ ((List.range s.size).foldl (fun w node => w.insert node 1)
        s.infection_event_set_.clear).keys := hu
    have hr := (SamplableSet.refill (List.range s.size) s.infection_event_set_.clear
      List.nodup_nil (fun p hp => absurd hp (List.not_mem_nil p))).2.1 u
    rw [hr] at hu'
    have hlt : u < s.size := by
      rcases hu' with h1 | h1
      · exact absurd h1 (List.not_mem_nil u)
      · exact List.mem_range.1 h1
    refine ⟨hlt, ?_⟩
    show s.state_vector_ u = NodeState.S
    cases hst : s.state_vector_ u with
    | S => rfl
    | I =>
      have := (h.1.infected_iff u).2 ⟨hlt, hst⟩
      rw [hI] at this
      exact absurd this (List.not_mem_nil u)
    | R =>
      have := (h.1.recovered_iff u).2 ⟨hlt, hst⟩
      rw [hR] at this
      exact absurd this (List.not_mem_nil u)

theorem InfectionKeysInv.keys_of_reached {s : Sim} (h : Reached s) :
    PopulationInv s ∧ InfectionKeysInv s := by
  refine kept_reached InfectionKeysInv.kept_keys ?_ ?_ ?_ h
  · intro el rr rates
    exact ⟨PopulationInv.population_of_fresh _ rfl rfl (fun _ => rfl),
      fun u hu => absurd hu (List.not_mem_nil u)⟩
  · intro el rp probs f
    exact ⟨PopulationInv.population_of_fresh _ rfl rfl (fun _ => rfl),
      fun u hu => absurd hu (List.not_mem_nil u)⟩
  · intro n d rr rates c0 r0
    refine ⟨PopulationInv.population_of_fresh _ rfl rfl (fun _ => rfl), ?_⟩
    intro u hu
    have hu' : u ∈ ((List.range (Network.ofEdgeList
        (AnnealedContinuousSIR.dummy_edge_list n)).size).foldl
        (fun w node => w.insert node 1) SamplableSet.empty).keys := hu
    have hr := (SamplableSet.refill (List.range (Network.ofEdgeList
        (AnnealedContinuousSIR.dummy_edge_list n)).size) SamplableSet.empty
      List.nodup_nil (fun p hp => absurd hp (List.not_mem_nil p))).2.1 u
    rw [hr] at hu'
    rcases hu' with h1 | h1
    · exact absurd h1 (List.not_mem_nil u)
    · exact ⟨List.mem_range.1 h1, rfl⟩

end InfectionKeysOps

section DiscreteBatch

theorem SamplableSet.sample_mem {w : SamplableSet} {draw : Nat} {p : Node × ℚ}
    (h : w.sample draw = some p) : p ∈ w.items ∧ p.1 ∈ w.keys := by
  unfold SamplableSet.sample at h
  split at h
  · exact absurd h (by simp)
  · have hm : p ∈ w.items := List.get?_mem h
    exact ⟨hm, List.mem_map.2 ⟨p, hm, rfl⟩⟩

/-- One more iteration of a sampling loop of `DiscreteSIR::next_step`. -/
theorem sample_distinct_succ (w : SamplableSet) (pick : Nat → Nat) (n : Nat) :
    DiscreteSIR.sample_distinct w pick (n + 1)
      = match DiscreteSIR.sample_distinct w pick n, w.sample (pick n) with
        | some l, some p => some (set_insert l p.1)
        | _, _ => none := by
  unfold DiscreteSIR.sample_distinct
  rw [List.range_succ, List.foldl_append]
  rfl

/-- A sampling loop of `DiscreteSIR::next_step` that returned collected distinct keys of
the set, at most one per draw. -/
theorem sample_distinct_spec (w : SamplableSet) (pick : Nat → Nat) :
    ∀ (n : Nat) (l : List Node), DiscreteSIR.sample_distinct w pick n = some l →
      l.Nodup ∧ l.length ≤ n ∧ ∀ v ∈ l, v ∈ w.keys := by
  intro n
  induction n with
  | zero =>
    intro l h
    have : l = [] := by
      have h' : some ([] : List Node) = some l := h
      exact (Option.some.inj h').symm
    subst this
    exact ⟨List.nodup_nil, le_refl _, fun v hv => absurd hv (List.not_mem_nil v)⟩
  | succ n ih =>
    intro l h
    rw [sample_distinct_succ] at h
    cases h1 : DiscreteSIR.sample_distinct w pick n with
    | none => rw [h1] at h; exact absurd h (by simp)
    | some l0 =>
      cases h2 : w.sample (pick n) with
      | none => rw [h1, h2] at h; exact absurd h (by simp)
      | some p =>
        rw [h1, h2] at h
        have hl : set_insert l0 p.1 = l := Option.some.inj h
        obtain ⟨i1, i2, i3⟩ := ih l0 h1
        subst hl
        refine ⟨nodup_set_insert _ i1, ?_, ?_⟩
        · unfold set_insert
          split
          · omega
          · rw [List.length_append, List.length_singleton]; omega
        · intro v hv
          rcases mem_set_insert.1 hv with h3 | h3
          · exact i3 v h3
          · rw [h3]; exact (SamplableSet.sample_mem h2).2

/-- The batch that `DiscreteSIR::next_step` returns: the recoveries sampled, then the
infections sampled; empty when the call raises. -/
theorem discrete_next_step_batch (s : Sim) (d : Draw) :
    ∃ recs infs : List Node,
      (DiscreteSIR.next_step s d).2
        = recs.map (fun node => (node, Action.RECOVERY))
          ++ infs.map (fun node => (node, Action.INFECTION))
      ∧ recs.Nodup ∧ infs.Nodup
      ∧ recs.length ≤ d.nb_rec ∧ infs.length ≤ d.nb_inf
      ∧ (∀ v ∈ recs, v ∈ s.recovery_event_set_.keys)
      ∧ (∀ v ∈ infs, v ∈ s.infection_event_set_.keys) := by
  have hnil : ∃ recs infs : List Node,
      ([] : List Event) = recs.map (fun node => (node, Action.RECOVERY))
          ++ infs.map (fun node => (node, Action.INFECTION))
      ∧ recs.Nodup ∧ infs.Nodup
      ∧ recs.length ≤ d.nb_rec ∧ infs.length ≤ d.nb_inf
      ∧ (∀ v ∈ recs, v ∈ s.recovery_event_set_.keys)
      ∧ (∀ v ∈ infs, v ∈ s.infection_event_set_.keys) :=
    ⟨[], [], rfl, List.nodup_nil, List.nodup_nil, Nat.zero_le _, Nat.zero_le _,
      fun v hv => absurd hv (List.not_mem_nil v), fun v hv => absurd hv (List.not_mem_nil v)⟩
  unfold DiscreteSIR.next_step
  cases hl : DiscreteSIR.get_lifetime s with
  | none => exact hnil
  | some lifetime =>
    simp only
    cases h1 : DiscreteSIR.sample_distinct s.recovery_event_set_ d.rec_pick d.nb_rec with
    | none => exact hnil
    | some recs =>
      cases h2 : DiscreteSIR.sample_distinct s.infection_event_set_ d.inf_pick d.nb_inf with
      | none => exact hnil
      | some infs =>
        obtain ⟨a1, a2, a3⟩ := sample_distinct_spec _ _ _ _ h1
        obtain ⟨b1, b2, b3⟩ := sample_distinct_spec _ _ _ _ h2
        exact ⟨recs, infs, rfl, a1, b1, a2, b2, a3, b3⟩

end DiscreteBatch

/-- The batch of a tick after calls that returned. For `DiscreteSIR` in every state reached by calls that returned, and for every
outcome of the random draws, the batch returned by `next_step` lists recoveries, then
infections; no node occurs twice in it; every node to recover is infected and every node
to infect is susceptible in the current state; the recoveries are at most as many as the
binomial draw and the infections at most as many as the Poisson draw; the number of
trials of the binomial distribution, `recovery_event_set_.size()`, is the number of
infected nodes. -/
theorem discrete_batch_of_reached (s : Sim) (h : Reached s) (hk : s.kind = Kind.discrete) (d : Draw) :
    ∃ recs infs : List Node,
      (next_step s d).2
        = recs.map (fun node => (node, Action.RECOVERY))
          ++ infs.map (fun node => (node, Action.INFECTION))
      ∧ ((next_step s d).2.map Prod.fst).Nodup
      ∧ (∀ v ∈ recs, v < s.size ∧ s.state_vector_ v = NodeState.I)
      ∧ (∀ v ∈ infs, v < s.size ∧ s.state_vector_ v = NodeState.S)
      ∧ recs.length ≤ d.nb_rec ∧ infs.length ≤ d.nb_inf
      ∧ s.recovery_event_set_.size = count_state s NodeState.I := by
  obtain ⟨hp, hkeys⟩ := InfectionKeysInv.keys_of_reached h
  have hrec := RecoveryInv.recovery_of_reached h
  obtain ⟨recs, infs, hev, hn1, hn2, hl1, hl2, hm1, hm2⟩ := discrete_next_step_batch s d
  have hstep : next_step s d = DiscreteSIR.next_step s d := by
    unfold next_step; rw [hk]
  have hI : ∀ v ∈ recs, v < s.size ∧ s.state_vector_ v = NodeState.I := fun v hv =>
    (hp.infected_iff v).1 ((hrec.keys_iff v).1 (hm1 v hv))
  have hS : ∀ v ∈ infs, v < s.size ∧ s.state_vector_ v = NodeState.S := fun v hv =>
    hkeys v (hm2 v hv)
  refine ⟨recs, infs, by rw [hstep]; exact hev, ?_, hI, hS, hl1, hl2, ?_⟩
  · rw [hstep, hev, List.map_append, List.map_map, List.map_map]
    have e1 : (Prod.fst ∘ fun node : Node => (node, Action.RECOVERY)) = id := rfl
    have e2 : (Prod.fst ∘ fun node : Node => (node, Action.INFECTION)) = id := rfl
    rw [e1, e2, List.map_id, List.map_id]
    refine List.Nodup.append hn1 hn2 ?_
    intro v hv1 hv2
    have := (hI v hv1).2
    rw [(hS v hv2).2] at this
    exact absurd this (by decide)
  · have e : s.recovery_event_set_.size = s.recovery_event_set_.keys.length := by
      unfold SamplableSet.size SamplableSet.keys
      rw [List.length_map]
    rw [e]
    exact length_eq_count hrec.keys_nodup (fun v => by
      rw [hrec.keys_iff, hp.infected_iff])

/-- An instance, on the path 0 - 1 - 2 with the nodes 0 and 2 infected: a binomial draw of 2 and
a Poisson draw of 3 give the batch recover 0, recover 2, infect 1. -/
theorem discrete_batch_of_reached_instance :
    (next_step (BaseContagion.infect_node_set
        (DiscreteSIR.create [(0, 1), (1, 2)] 1 [0, 1, 2] (fun p => p)) [0, 2]).st
        ⟨0, 2, 3, fun i => i, fun _ => 0, fun _ => 0⟩).2
      = [(0, Action.RECOVERY), (2, Action.RECOVERY), (1, Action.INFECTION)]
    ∧ ∃ recs infs : List Node,
      (next_step (BaseContagion.infect_node_set
        (DiscreteSIR.create [(0, 1), (1, 2)] 1 [0, 1, 2] (fun p => p)) [0, 2]).st
        ⟨0, 2, 3, fun i => i, fun _ => 0, fun _ => 0⟩).2
        = recs.map (fun node => (node, Action.RECOVERY))
          ++ infs.map (fun node => (node, Action.INFECTION))
      ∧ recs.length ≤ 2 ∧ infs.length ≤ 3 := by
  refine ⟨by with_unfolding_all decide, ?_⟩
  obtain ⟨recs, infs, h1, _, _, _, h5, h6, _⟩ := discrete_batch_of_reached
    (BaseContagion.infect_node_set
        (DiscreteSIR.create [(0, 1), (1, 2)] 1 [0, 1, 2] (fun p => p)) [0, 2]).st
    (Reached.infect_node_set _ (Reached.discrete _ _ _ _) (by with_unfolding_all decide)) rfl
    ⟨0, 2, 3, fun i => i, fun _ => 0, fun _ => 0⟩
  exact ⟨recs, infs, h1, h5, h6⟩

section RobustEngine

variable {P : Sim → Prop}

theorem robust_next_step (hP : Robust P) (s : Sim) (d : Draw) (h : P s) :
    P (next_step s d).1.st := by
  obtain ⟨t, t', ht⟩ := next_step_clock s d
  rw [ht]; exact hP.clock s t t' h

theorem robust_loop_body (hP : Robust P) (a b : Bool) (d : Draw) (s : Sim) (h : P s) :
    P (BaseContagion.loop_body a b d s).st := by
  rw [loop_body_eq]
  apply Res.andThen_inv (robust_next_step hP s d h)
  intro s1 h1
  exact hP.toStableCore.loop_tail a b d _ s1 h1

theorem robust_evolve_loop (hP : Robust P) (t0 period : ℚ) (a b : Bool) (draws : List Draw) :
    ∀ s, P s → P (BaseContagion.evolve_loop t0 period a b draws s).st := by
  induction draws with
  | nil =>
    intro s h
    unfold BaseContagion.evolve_loop
    split <;> exact h
  | cons d ds ih =>
    intro s h
    unfold BaseContagion.evolve_loop
    split
    · simp only
      split
      · exact robust_loop_body hP a b d s h
      · exact ih _ (robust_loop_body hP a b d s h)
    · exact h

theorem robust_evolve (hP : Robust P) (s : Sim) (period : ℚ) (a b : Bool) (draws : List Draw)
    (h : P s) : P (BaseContagion.evolve s period a b draws).st := by
  unfold BaseContagion.evolve
  simp only
  have h0 : P (if b = true ∧ s.macro_state_vector_.length = 0
      then s.store_current_macro_state else s) := by
    split
    · exact hP.toStableCore.store s h
    · exact h
  have h1 := robust_evolve_loop hP (if b = true ∧ s.macro_state_vector_.length = 0
      then s.store_current_macro_state else s).current_time_ period a b draws _ h0
  split
  · exact h1
  · exact hP.clock _ _ _ h1

theorem robust_infect_fraction_loop (hP : Robust P) (n : Nat) (draws : List ℚ) :
    ∀ (count : Nat) (s : Sim), P s →
      P (BaseContagion.infect_fraction_loop n draws count s).st := by
  induction draws with
  | nil =>
    intro count s h
    unfold BaseContagion.infect_fraction_loop
    split <;> exact h
  | cons u us ih =>
    intro count s h
    unfold BaseContagion.infect_fraction_loop
    split
    · simp only
      split
      · split
        · apply Res.andThen_inv (hP.infect s _ h)
          intro s1 h1
          exact ih _ _ (hP.generation s1 _ h1)
        · exact ih _ _ h
      · exact h
    · exact h

theorem robust_infect_node_set (hP : Robust P) (s : Sim) (node_set : List Node) (h : P s) :
    P (BaseContagion.infect_node_set s node_set).st := by
  apply for_each_inv P _ _ node_set s h
  intro s node h
  unfold BaseContagion.infect_node_set_body
  split
  · split
    · apply Res.andThen_inv (hP.infect s _ h)
      intro s1 h1
      exact hP.generation s1 _ h1
    · exact h
  · exact h

theorem robust_base_clear (hP : Robust P) (s : Sim) (h : P s) :
    P (BaseContagion.clear s).st := by
  have h1 : P (for_each recover s.infected_node_set_ s).st :=
    for_each_inv P _ (fun s v h => hP.recover s v h) _ s h
  rw [base_clear_eq]
  rcases Res.andThen_cases (for_each recover s.infected_node_set_ s) (fun s1 =>
      Res.ok { s1 with
        state_vector_ :=
          s1.recovered_node_set_.foldl (fun sv node => Function.update sv node NodeState.S)
            s1.state_vector_,
        recovered_node_set_ := [],
        infection_generation_ := fun _ => none }) with ⟨he, heq⟩ | ⟨_, heq⟩
  · rw [heq]
    exact hP.generation _ _ (hP.flip _ h1 (recover_all_infected_nil s he))
  · rw [heq]; exact h1

theorem robust_reset (hP : Robust P) (s : Sim) (h : P s) : P (BaseContagion.reset s).st := by
  unfold BaseContagion.reset
  apply Res.andThen_inv (robust_base_clear hP s h)
  intro s1 h1
  exact hP.clock _ 0 0 (hP.tree _ [] (hP.snapshot s1 [] h1))

theorem robust_derived_clear (hP : Robust P) (s : Sim) (h : P s) : P (fastsir.clear s).st := by
  have hb := robust_base_clear hP s h
  have hk := (base_clear_params s).kind
  rw [derived_clear_eq]
  by_cases he : (BaseContagion.clear s).err = none
  · rw [Res.andThen_of_ok _ he]
    obtain ⟨hI, hR⟩ := base_clear_node_sets s he
    simp only [Res.ok_st]
    by_cases hann : s.kind = Kind.annealed
    · rw [if_pos hann]
      exact hP.refill_sets _ hb (hk.trans hann) hI hR
    · rw [if_neg hann]
      exact hP.clear_sets _ hb (by rw [hk]; exact hann) hI hR
  · cases hc : (BaseContagion.clear s).err with
    | none => exact absurd hc he
    | some e =>
      rw [Res.andThen_of_err _ hc]
      exact hb

/-- A robust property that holds after every construction holds in every reachable
state, the states left by calls that raised included. -/
theorem robust_reachable (hP : Robust P)
    (hc : ∀ el rr rates, P (ContinuousSIR.create el rr rates))
    (hd : ∀ el rp probs f, P (DiscreteSIR.create el rp probs f))
    (ha : ∀ n d rr rates c0 r0, P (AnnealedContinuousSIR.create n d rr rates c0 r0))
    {s : Sim} (h : Reachable s) : P s := by
  induction h with
  | continuous el rr rates => exact hc el rr rates
  | discrete el rp probs f => exact hd el rp probs f
  | annealed n d rr rates c0 r0 => exact ha n d rr rates c0 r0
  | infect_fraction fraction draws _ ih => exact robust_infect_fraction_loop hP _ draws 0 _ ih
  | infect_node_set node_set _ ih => exact robust_infect_node_set hP _ node_set ih
  | evolve period a b draws _ ih => exact robust_evolve hP _ period a b draws ih
  | base_clear _ ih => exact robust_base_clear hP _ ih
  | clear _ ih => exact robust_derived_clear hP _ ih
  | reset _ ih => exact robust_reset hP _ ih

end RobustEngine

section ContinuousRobust

/-- Once no node is infected, making the recovered nodes susceptible keeps the invariant. -/
theorem continuous_flip_inv {g : Network} {rates : List ℚ} {s : Sim} (hg : g.Simple)
    (h : ContinuousInv g rates s) (hI : s.infected_node_set_ = []) :
    ContinuousInv g rates { s with
      state_vector_ :=
        s.recovered_node_set_.foldl (fun sv node => Function.update sv node NodeState.S)
          s.state_vector_,
      recovered_node_set_ := [] } := by
  have hsz : s.size = g.size := by unfold Sim.size; rw [h.network]
  have hnoI : ∀ u, u < s.size → s.state_vector_ u ≠ NodeState.I := by
    intro u hu hc
    have := (h.population.infected_iff u).2 ⟨hu, hc⟩
    rw [hI] at this
    exact absurd this (List.not_mem_nil u)
  have hfalse : ∀ w u, ¬ (u ∈ g.adjacent_nodes w
      ∧ (s.recovered_node_set_.foldl (fun sv node => Function.update sv node NodeState.S)
          s.state_vector_) u = NodeState.I) := by
    intro w u hc
    have hu : u < s.size := by rw [hsz]; exact hg.lt_size w u hc.1
    have h2 := hc.2
    rw [foldl_update_apply] at h2
    split at h2
    · exact absurd h2 (by decide)
    · exact hnoI u hu h2
  refine ⟨h.kind, h.network, h.rates, PopulationInv.population_stable.flip _ h.population, ?_, ?_⟩
  · intro w hw hsw
    have hw' : w < s.size := hw
    show (s.infected_neighbors_vector_ w).Nodup
      ∧ (∀ u, u ∈ s.infected_neighbors_vector_ w ↔
          u ∈ s.network_.adjacent_nodes w
          ∧ (s.recovered_node_set_.foldl (fun sv node => Function.update sv node NodeState.S)
              s.state_vector_) u = NodeState.I)
      ∧ SlotOK (s.infected_neighbors_vector_ w) (s.infected_neighbor_position_vector_ w)
    rw [h.network]
    by_cases hs1 : s.state_vector_ w = NodeState.S
    · obtain ⟨hnd, hmem, hslot⟩ := h.bookkeeping.susceptible w hw' hs1
      refine ⟨hnd, ?_, hslot⟩
      intro u
      constructor
      · intro hu
        have := (hmem u).1 hu
        rw [h.network] at this
        have hul : u < s.size := by rw [hsz]; exact hg.lt_size w u this.1
        exact absurd this.2 (hnoI u hul)
      · intro hu; exact absurd hu (hfalse w u)
    · obtain ⟨e1, e2⟩ := h.bookkeeping.other w hw' hs1
      rw [e1, e2]
      refine ⟨List.nodup_nil, ?_, SlotOK.nil⟩
      intro u
      constructor
      · intro hu; exact absurd hu (List.not_mem_nil u)
      · intro hu; exact absurd hu (hfalse w u)
  · intro w hw hsw
    have hw' : w < s.size := hw
    have hsw' : (s.recovered_node_set_.foldl
        (fun sv node => Function.update sv node NodeState.S) s.state_vector_) w ≠ NodeState.S := hsw
    rw [foldl_update_apply] at hsw'
    split at hsw'
    · exact absurd rfl hsw'
    · exact h.bookkeeping.other w hw' hsw'

/-- The invariant of `ContinuousSIR` on a simple graph with a long enough rate table is
kept by every call of `infect` and `recover`, and by the other mutations of the engine. -/
theorem ContinuousGuarded.robust_guarded : Robust ContinuousGuarded where
  infect := by
    intro s v h hk hsim hlen
    have par := (infect_params_history s v).1
    rw [par.network_] at hsim hlen ⊢
    rw [par.infection_rate_] at hlen ⊢
    have inv := h (par.kind ▸ hk) hsim hlen
    by_cases hv : v < s.size
    · by_cases hs : s.state_vector_ v = NodeState.S
      · exact (continuous_infect_inv hsim hlen inv v hv hs).2
      · rw [infect_of_not_susceptible s v hv hs]; exact inv
    · rw [infect_of_not_node s v hv]; exact inv
  recover := by
    intro s v h hk hsim hlen
    have par := (recover_params_history s v).1
    rw [par.network_] at hsim hlen ⊢
    rw [par.infection_rate_] at hlen ⊢
    have inv := h (par.kind ▸ hk) hsim hlen
    by_cases hv : v < s.size
    · by_cases hs : s.state_vector_ v = NodeState.I
      · exact (continuous_recover_inv hsim hlen inv v hv hs).2
      · rw [recover_of_not_infected s v hv hs]; exact inv
    · rw [recover_of_not_node s v hv]; exact inv
  generation := by
    intro s g h hk hsim hlen
    have inv := h hk hsim hlen
    exact ⟨inv.kind, inv.network, inv.rates,
      ⟨inv.population.1, inv.population.2, inv.population.3, inv.population.4⟩,
      ⟨inv.bookkeeping.1, inv.bookkeeping.2⟩⟩
  tree := by
    intro s g h hk hsim hlen
    have inv := h hk hsim hlen
    exact ⟨inv.kind, inv.network, inv.rates,
      ⟨inv.population.1, inv.population.2, inv.population.3, inv.population.4⟩,
      ⟨inv.bookkeeping.1, inv.bookkeeping.2⟩⟩
  snapshot := by
    intro s g h hk hsim hlen
    have inv := h hk hsim hlen
    exact ⟨inv.kind, inv.network, inv.rates,
      ⟨inv.population.1, inv.population.2, inv.population.3, inv.population.4⟩,
      ⟨inv.bookkeeping.1, inv.bookkeeping.2⟩⟩
  clock := by
    intro s t t' h hk hsim hlen
    have inv := h hk hsim hlen
    exact ⟨inv.kind, inv.network, inv.rates,
      ⟨inv.population.1, inv.population.2, inv.population.3, inv.population.4⟩,
      ⟨inv.bookkeeping.1, inv.bookkeeping.2⟩⟩
  flip := by
    intro s h hI hk hsim hlen
    exact continuous_flip_inv hsim (h hk hsim hlen) hI
  clear_sets := by
    intro s h _ _ _ hk hsim hlen
    have inv := h hk hsim hlen
    exact ⟨inv.kind, inv.network, inv.rates,
      ⟨inv.population.1, inv.population.2, inv.population.3, inv.population.4⟩,
      ⟨inv.bookkeeping.1, inv.bookkeeping.2⟩⟩
  refill_sets := by
    intro s _ ha _ _ hk _ _
    have hk' : s.kind = Kind.continuous := hk
    rw [ha] at hk'
    exact absurd hk' (by decide)

theorem ContinuousGuarded.guarded_of_reachable {s : Sim} (h : Reachable s) :
    ContinuousGuarded s := by
  refine robust_reachable ContinuousGuarded.robust_guarded ?_ ?_ ?_ h
  · intro el rr rates _ _ _
    exact continuous_create_inv el rr rates
  · intro el rp probs f hk _ _
    exact absurd hk (by simp [DiscreteSIR.create])
  · intro n d rr rates c0 r0 hk _ _
    exact absurd hk (by simp [AnnealedContinuousSIR.create])

end ContinuousRobust

/-- C26. `ContinuousSIR` on an edge list without self-loop and repeated edge, with a rate
table of at least `max_degree + 1` entries: in every reachable state (after any calls of
the public mutators, `clear` and `reset` included, whether they returned or raised), the
recorded infected degree of every susceptible node is at most its degree, hence an index
of the rate table; every call of `infect` on a susceptible node and of `recover` on an
infected node returns; no call of `infect` or `recover` raises `out_of_range`; `clear` and
`reset` return. -/
theorem C26_rate_lookup (edge_list : EdgeList) (hsimple : SimpleEdgeList edge_list) (s : Sim)
    (h : Reachable s) (hk : s.kind = Kind.continuous)
    (hnet : s.network_ = Network.ofEdgeList edge_list)
    (hlen : s.network_.max_degree_ + 1 ≤ s.infection_rate_.length) :
    (∀ v, v < s.size → s.state_vector_ v = NodeState.S →
      ∃ k r, s.get_infected_degree v = some k ∧ k ≤ s.network_.degree v
        ∧ k < s.infection_rate_.length ∧ ContinuousSIR.get_infection_rate s v = some r)
    ∧ (∀ v, v < s.size → s.state_vector_ v = NodeState.S → (infect s v).err = none)
    ∧ (∀ v, v < s.size → s.state_vector_ v = NodeState.I → (recover s v).err = none)
    ∧ (∀ v, (infect s v).err ≠ some Err.out_of_range
        ∧ (recover s v).err ≠ some Err.out_of_range)
    ∧ (BaseContagion.clear s).err = none ∧ (clear s).err = none
    ∧ (BaseContagion.reset s).err = none := by
  have hg : Network.Simple s.network_ := by
    rw [hnet]; exact Network.simple_of_edge_list edge_list hsimple
  have inv := ContinuousGuarded.guarded_of_reachable h hk hg hlen
  have hinf : ∀ v, v < s.size → s.state_vector_ v = NodeState.S → (infect s v).err = none :=
    fun v hv hs => (continuous_infect_inv hg hlen inv v hv hs).1
  have hrec : ∀ v, v < s.size → s.state_vector_ v = NodeState.I → (recover s v).err = none :=
    fun v hv hs => (continuous_recover_inv hg hlen inv v hv hs).1
  have hbc := (continuous_base_clear_inv hg hlen inv).1
  refine ⟨?_, hinf, hrec, ?_, hbc, ?_, ?_⟩
  · intro v hv hs
    obtain ⟨hnd, hmem, _⟩ := inv.bookkeeping.susceptible v hv hs
    have hle : (s.infected_neighbors_vector_ v).length ≤ (s.network_.adjacent_nodes v).length :=
      length_le_of_nodup_subset hnd (fun u hu => ((hmem u).1 hu).1)
    have hdeg := hg.degree_le v
    have hlt : (s.infected_neighbors_vector_ v).length < s.infection_rate_.length := by omega
    refine ⟨(s.infected_neighbors_vector_ v).length,
      s.infection_rate_.get ⟨_, hlt⟩, ?_, hle, hlt, ?_⟩
    · unfold Sim.get_infected_degree
      rw [if_pos hv]
    · rw [get_infection_rate_eq s v hv]
      exact List.get?_eq_get hlt
  · intro v
    constructor
    · by_cases hv : v < s.size
      · by_cases hs : s.state_vector_ v = NodeState.S
        · rw [hinf v hv hs]; exact fun hc => by cases hc
        · rw [infect_of_not_susceptible s v hv hs]; exact fun hc => by cases hc
      · rw [infect_of_not_node s v hv]; exact fun hc => by cases hc
    · by_cases hv : v < s.size
      · by_cases hs : s.state_vector_ v = NodeState.I
        · rw [hrec v hv hs]; exact fun hc => by cases hc
        · rw [recover_of_not_infected s v hv hs]; exact fun hc => by cases hc
      · rw [recover_of_not_node s v hv]; exact fun hc => by cases hc
  · have e : clear s = ContinuousSIR.clear s := by unfold clear; rw [hk]
    rw [e]
    exact (continuous_clear_inv hg hlen inv).1
  · rw [reset_eq, Res.andThen_of_ok _ hbc]
    rfl

/-- C26, on the path 0 - 1 - 2 with the table `[0, 2, 3]`, after the seeding of node 1:
the susceptible node 0 has the recorded infected degree 1, and its infection returns. -/
theorem C26_rate_lookup_witness :
    (BaseContagion.infect_node_set
        (ContinuousSIR.create [(0, 1), (1, 2)] 1 [0, 2, 3]) [1]).st.get_infected_degree 0 = some 1
    ∧ (infect (BaseContagion.infect_node_set
        (ContinuousSIR.create [(0, 1), (1, 2)] 1 [0, 2, 3]) [1]).st 0).err = none :=
  ⟨by decide,
    (C26_rate_lookup [(0, 1), (1, 2)] ⟨by decide, by decide⟩
      (BaseContagion.infect_node_set
        (ContinuousSIR.create [(0, 1), (1, 2)] 1 [0, 2, 3]) [1]).st
      (Reachable.infect_node_set _ (Reachable.continuous _ _ _)) rfl rfl (by decide)).2.1 0
      (by decide) (by decide)⟩

section TreeRecords

theorem update_transmission_tree_nil (us : Nat → ℚ) (i : Nat) (s : Sim) :
    BaseContagion.update_transmission_tree us i [] s = Res.ok s := by
  unfold BaseContagion.update_transmission_tree
  rfl

/-- The function `update_transmission_tree` skips a recovery. -/
theorem update_transmission_tree_recovery (us : Nat → ℚ) (i : Nat) (e : Event)
    (rest : List Event) (s : Sim) (he : e.2 = Action.RECOVERY) :
    BaseContagion.update_transmission_tree us i (e :: rest) s
      = BaseContagion.update_transmission_tree us (i + 1) rest s := by
  rw [BaseContagion.update_transmission_tree]
  simp only [he]

/-- The function `update_transmission_tree` on an infection whose infector is found and
has a generation: the generation of the infectee is set, a record is appended, and the
rest of the batch is processed. -/
theorem update_transmission_tree_infection (us : Nat → ℚ) (i : Nat) (e : Event)
    (rest : List Event) (s : Sim) (he : e.2 = Action.INFECTION) (u : Node) (g : Generation)
    (hu : BaseContagion.random_infected_neighbor s e.1 (us i) = some u)
    (hg : s.infection_generation_ u = some g) :
    ∃ k, s.get_infected_degree e.1 = some k
      ∧ BaseContagion.update_transmission_tree us i (e :: rest) s
        = BaseContagion.update_transmission_tree us (i + 1) rest { s with
            infection_generation_ := Function.update s.infection_generation_ e.1 (some (g + 1)),
            transmission_tree_ := s.transmission_tree_ ++
              [{ time := s.current_time_, generation := g, infector := u, infectee := e.1,
                 infected_degree := k }] } := by
  have hlt : e.1 < s.size := by
    unfold BaseContagion.random_infected_neighbor at hu
    by_contra hc
    rw [if_neg hc] at hu
    exact absurd hu (by simp)
  refine ⟨(s.infected_neighbors_vector_ e.1).length, ?_, ?_⟩
  · unfold Sim.get_infected_degree
    rw [if_pos hlt]
  · rw [BaseContagion.update_transmission_tree]
    simp only [he, hu, hg]
    have hd : Sim.get_infected_degree { s with
        infection_generation_ := Function.update s.infection_generation_ e.1 (some (g + 1)) } e.1
        = some (s.infected_neighbors_vector_ e.1).length := by
      unfold Sim.get_infected_degree
      have hlt' : e.1 < Sim.size { s with
        infection_generation_ := Function.update s.infection_generation_ e.1 (some (g + 1)) } := hlt
      rw [if_pos hlt']
    simp only [hd]

/-- The function `update_transmission_tree` on an infection whose infector is not found or
has no generation: it raises, and the tree is as before. -/
theorem update_transmission_tree_raise (us : Nat → ℚ) (i : Nat) (e : Event)
    (rest : List Event) (s : Sim) (he : e.2 = Action.INFECTION)
    (h : ∀ u g, BaseContagion.random_infected_neighbor s e.1 (us i) = some u →
      s.infection_generation_ u = some g → False) :
    (BaseContagion.update_transmission_tree us i (e :: rest) s).st = s := by
  rw [BaseContagion.update_transmission_tree]
  simp only [he]
  cases hu : BaseContagion.random_infected_neighbor s e.1 (us i) with
  | none => rfl
  | some u =>
    simp only
    cases hg : s.infection_generation_ u with
    | none => rfl
    | some g => exact absurd (h u g hu hg) id

end TreeRecords

section TreeBatch

theorem createdAt_after_recovery {us : Nat → ℚ} {i : Nat} {e : Event} {rest : List Event}
    {s : Sim} {t : Transmission} {k : Nat} (he : e.2 = Action.RECOVERY)
    (h : BaseContagion.CreatedAt us (i + 1) rest s t k) :
    BaseContagion.CreatedAt us i (e :: rest) s t (k + 1) := by
  unfold BaseContagion.CreatedAt at h ⊢
  have e1 : i + (k + 1) = i + 1 + k := by omega
  rw [List.take_succ_cons, List.take_succ_cons, update_transmission_tree_recovery _ _ _ _ _ he,
    update_transmission_tree_recovery _ _ _ _ _ he, e1]
  exact h

theorem createdAt_after_infection {us : Nat → ℚ} {i : Nat} {e : Event} {rest : List Event}
    {s s2 : Sim} {t : Transmission} {k : Nat}
    (hstep : ∀ l, BaseContagion.update_transmission_tree us i (e :: l) s
      = BaseContagion.update_transmission_tree us (i + 1) l s2)
    (h : BaseContagion.CreatedAt us (i + 1) rest s2 t k) :
    BaseContagion.CreatedAt us i (e :: rest) s t (k + 1) := by
  unfold BaseContagion.CreatedAt at h ⊢
  have e1 : i + (k + 1) = i + 1 + k := by omega
  rw [List.take_succ_cons, List.take_succ_cons, hstep, hstep, e1]
  exact h

/-- The records that `update_transmission_tree` appends: each one is created at an
infection of the batch, as `CreatedAt` says; when the call returns, there is one record
for each infection of the batch, in order. -/
theorem update_transmission_tree_records (us : Nat → ℚ) (events : List Event) :
    ∀ (i : Nat) (s : Sim),
      ∃ new : List Transmission,
        (BaseContagion.update_transmission_tree us i events s).st.transmission_tree_
          = s.transmission_tree_ ++ new
        ∧ (∀ t ∈ new, ∃ k, BaseContagion.CreatedAt us i events s t k)
        ∧ ((BaseContagion.update_transmission_tree us i events s).err = none →
            new.map (fun t => t.infectee)
              = (events.filter (fun e => decide (e.2 = Action.INFECTION))).map Prod.fst) := by
  induction events with
  | nil =>
    intro i s
    refine ⟨[], ?_, fun t ht => absurd ht (List.not_mem_nil t), fun _ => rfl⟩
    rw [update_transmission_tree_nil, List.append_nil]
    rfl
  | cons e rest ih =>
    intro i s
    cases he : e.2 with
    | RECOVERY =>
      obtain ⟨new, h1, h2, h3⟩ := ih (i + 1) s
      rw [update_transmission_tree_recovery _ _ _ _ _ he]
      refine ⟨new, h1, fun t ht => ?_, fun herr => ?_⟩
      · obtain ⟨k, hk⟩ := h2 t ht
        exact ⟨k + 1, createdAt_after_recovery he hk⟩
      · rw [h3 herr, List.filter_cons_of_neg (by simp [he])]
    | INFECTION =>
      by_cases hfound : ∃ u g, BaseContagion.random_infected_neighbor s e.1 (us i) = some u
          ∧ s.infection_generation_ u = some g
      · obtain ⟨u, g, hu, hg⟩ := hfound
        obtain ⟨d, hd, _⟩ := update_transmission_tree_infection us i e rest s he u g hu hg
        have hstep : ∀ l, BaseContagion.update_transmission_tree us i (e :: l) s
            = BaseContagion.update_transmission_tree us (i + 1) l { s with
              infection_generation_ := Function.update s.infection_generation_ e.1 (some (g + 1)),
              transmission_tree_ := s.transmission_tree_ ++
                [{ time := s.current_time_, generation := g, infector := u, infectee := e.1,
                   infected_degree := d }] } := by
          intro l
          obtain ⟨d', hd', heq⟩ := update_transmission_tree_infection us i e l s he u g hu hg
          rw [hd] at hd'
          cases hd'
          exact heq
        obtain ⟨new, h1, h2, h3⟩ := ih (i + 1) { s with
              infection_generation_ := Function.update s.infection_generation_ e.1 (some (g + 1)),
              transmission_tree_ := s.transmission_tree_ ++
                [{ time := s.current_time_, generation := g, infector := u, infectee := e.1,
                   infected_degree := d }] }
        rw [hstep]
        refine ⟨{ time := s.current_time_, generation := g, infector := u, infectee := e.1,
                   infected_degree := d } :: new, ?_, ?_, ?_⟩
        · rw [h1]
          simp only [List.append_assoc, List.singleton_append]
        · intro t ht
          rcases List.mem_cons.1 ht with ht | ht
          · refine ⟨0, ?_⟩
            subst ht
            unfold BaseContagion.CreatedAt
            simp only [List.take_zero, update_transmission_tree_nil, Res.ok_st, Res.ok_err,
              Nat.add_zero, List.take_succ_cons, hstep]
            refine ⟨?_, trivial, hu, hg, hd, trivial, ?_⟩
            · show some e = some (e.1, Action.INFECTION)
              rw [← he]
            · show Function.update s.infection_generation_ e.1 (some (g + 1)) e.1 = some (g + 1)
              rw [Function.update_same]
          · obtain ⟨k, hk⟩ := h2 t ht
            exact ⟨k + 1, createdAt_after_infection hstep hk⟩
        · intro herr
          rw [List.map_cons, h3 herr, List.filter_cons_of_pos (by simp [he]), List.map_cons]
      · have hst := update_transmission_tree_raise us i e rest s he (fun u g hu hg =>
          hfound ⟨u, g, hu, hg⟩)
        rw [hst]
        refine ⟨[], (List.append_nil _).symm, fun t ht => absurd ht (List.not_mem_nil t), ?_⟩
        intro herr
        exfalso
        rw [BaseContagion.update_transmission_tree] at herr
        simp only [he] at herr
        cases hu : BaseContagion.random_infected_neighbor s e.1 (us i) with
        | none => rw [hu] at herr; simp at herr
        | some u =>
          rw [hu] at herr
          simp only at herr
          cases hg : s.infection_generation_ u with
          | none => rw [hg] at herr; simp at herr
          | some g => exact hfound ⟨u, g, hu, hg⟩

end TreeBatch

section VisitedStates

variable {P : Sim → Prop}

/-- A robust property is kept by the calls that return. -/
theorem Robust.to_kept (hP : Robust P) : Kept P where
  infect := fun s v h _ => hP.infect s v h
  recover := fun s v h _ => hP.recover s v h
  generation := hP.generation
  tree := hP.tree
  snapshot := hP.snapshot
  clock := hP.clock
  flip := hP.flip
  clear_sets := hP.clear_sets
  refill_sets := hP.refill_sets

/-- A kept property of the states reached by calls that returned holds whenever an
iteration of the event loop starts. -/
theorem kept_visited (hP : Kept P) (hr : ∀ s, Reached s → P s) {s : Sim} (h : Visited s) :
    P s := by
  induction h with
  | reached h0 => exact hr _ h0
  | store _ ih => exact hP.snapshot _ _ ih
  | iteration a b d _ herr ih => exact kept_loop_body hP a b d _ ih herr

/-- The event that `ContinuousSIR::next_step` returns: none when it raises, else the
infection of a key of the infection set or the recovery of a key of the recovery set. -/
theorem continuous_next_step_event (s : Sim) (d : Draw) :
    (ContinuousSIR.next_step s d).2 = []
    ∨ (∃ v, v ∈ s.infection_event_set_.keys
        ∧ (ContinuousSIR.next_step s d).2 = [(v, Action.INFECTION)]
        ∧ s.infection_event_set_.total_weight / ContinuousSIR.get_total_rate s > d.u)
    ∨ (∃ v, v ∈ s.recovery_event_set_.keys
        ∧ (ContinuousSIR.next_step s d).2 = [(v, Action.RECOVERY)]) := by
  unfold ContinuousSIR.next_step
  cases ContinuousSIR.get_lifetime s with
  | none => left; rfl
  | some l =>
    simp only
    by_cases hc : s.infection_event_set_.total_weight / ContinuousSIR.get_total_rate s > d.u
    · have hc' : s.infection_event_set_.total_weight / ContinuousSIR.get_total_rate
          { s with current_time_ := s.last_event_time_ + l,
                   last_event_time_ := s.last_event_time_ + l } > d.u := hc
      rw [if_pos hc']
      cases hp : s.infection_event_set_.sample (d.inf_pick 0) with
      | none => left; rfl
      | some p =>
        right; left
        exact ⟨p.1, (SamplableSet.sample_mem hp).2, rfl, hc⟩
    · have hc' : ¬ s.infection_event_set_.total_weight / ContinuousSIR.get_total_rate
          { s with current_time_ := s.last_event_time_ + l,
                   last_event_time_ := s.last_event_time_ + l } > d.u := hc
      rw [if_neg hc']
      cases hp : s.recovery_event_set_.sample (d.rec_pick 0) with
      | none => left; rfl
      | some p =>
        right; right
        exact ⟨p.1, (SamplableSet.sample_mem hp).2, rfl⟩

/-- The event that `AnnealedContinuousSIR::next_step` returns. -/
theorem annealed_next_step_event (s : Sim) (d : Draw) :
    (AnnealedContinuousSIR.next_step s d).2 = []
    ∨ (∃ v, v ∈ s.infection_event_set_.keys
        ∧ (AnnealedContinuousSIR.next_step s d).2 = [(v, Action.INFECTION)])
    ∨ (∃ v, v ∈ s.recovery_event_set_.keys
        ∧ (AnnealedContinuousSIR.next_step s d).2 = [(v, Action.RECOVERY)]) := by
  unfold AnnealedContinuousSIR.next_step
  cases AnnealedContinuousSIR.get_lifetime s with
  | none => left; rfl
  | some l =>
    simp only
    split
    · cases hp : s.infection_event_set_.sample (d.inf_pick 0) with
      | none => left; rfl
      | some p =>
        right; left
        exact ⟨p.1, (SamplableSet.sample_mem hp).2, rfl⟩
    · cases hp : s.recovery_event_set_.sample (d.rec_pick 0) with
      | none => left; rfl
      | some p =>
        right; right
        exact ⟨p.1, (SamplableSet.sample_mem hp).2, rfl⟩

/-- The batch that `next_step` returns, for each strategy: recoveries of distinct keys
of the recovery set, then infections of distinct keys of the infection set. -/
theorem next_step_batch (s : Sim) (d : Draw) :
    ∃ recs infs : List Node,
      (next_step s d).2
        = recs.map (fun node => (node, Action.RECOVERY))
          ++ infs.map (fun node => (node, Action.INFECTION))
      ∧ recs.Nodup ∧ infs.Nodup
      ∧ (∀ v ∈ recs, v ∈ s.recovery_event_set_.keys)
      ∧ (∀ v ∈ infs, v ∈ s.infection_event_set_.keys) := by
  have hnil : ∃ recs infs : List Node,
      ([] : List Event) = recs.map (fun node => (node, Action.RECOVERY))
          ++ infs.map (fun node => (node, Action.INFECTION))
      ∧ recs.Nodup ∧ infs.Nodup
      ∧ (∀ v ∈ recs, v ∈ s.recovery_event_set_.keys)
      ∧ (∀ v ∈ infs, v ∈ s.infection_event_set_.keys) :=
    ⟨[], [], rfl, List.nodup_nil, List.nodup_nil,
      fun v hv => absurd hv (List.not_mem_nil v), fun v hv => absurd hv (List.not_mem_nil v)⟩
  have hinf : ∀ v, v ∈ s.infection_event_set_.keys → ∃ recs infs : List Node,
      [(v, Action.INFECTION)] = recs.map (fun node => (node, Action.RECOVERY))
          ++ infs.map (fun node => (node, Action.INFECTION))
      ∧ recs.Nodup ∧ infs.Nodup
      ∧ (∀ v ∈ recs, v ∈ s.recovery_event_set_.keys)
      ∧ (∀ v ∈ infs, v ∈ s.infection_event_set_.keys) := fun v hv =>
    ⟨[], [v], rfl, List.nodup_nil, List.nodup_singleton v,
      fun u hu => absurd hu (List.not_mem_nil u),
      fun u hu => by rw [List.mem_singleton.1 hu]; exact hv⟩
  have hrec : ∀ v, v ∈ s.recovery_event_set_.keys → ∃ recs infs : List Node,
      [(v, Action.RECOVERY)] = recs.map (fun node => (node, Action.RECOVERY))
          ++ infs.map (fun node => (node, Action.INFECTION))
      ∧ recs.Nodup ∧ infs.Nodup
      ∧ (∀ v ∈ recs, v ∈ s.recovery_event_set_.keys)
      ∧ (∀ v ∈ infs, v ∈ s.infection_event_set_.keys) := fun v hv =>
    ⟨[v], [], rfl, List.nodup_singleton v, List.nodup_nil,
      fun u hu => by rw [List.mem_singleton.1 hu]; exact hv,
      fun u hu => absurd hu (List.not_mem_nil u)⟩
  unfold next_step
  split
  · rcases continuous_next_step_event s d with h | ⟨v, hv, h, _⟩ | ⟨v, hv, h⟩
    · rw [h]; exact hnil
    · rw [h]; exact hinf v hv
    · rw [h]; exact hrec v hv
  · obtain ⟨recs, infs, h1, h2, h3, _, _, h6, h7⟩ := discrete_next_step_batch s d
    exact ⟨recs, infs, h1, h2, h3, h6, h7⟩
  · rcases annealed_next_step_event s d with h | ⟨v, hv, h⟩ | ⟨v, hv, h⟩
    · rw [h]; exact hnil
    · rw [h]; exact hinf v hv
    · rw [h]; exact hrec v hv

end VisitedStates

section QuietStates

theorem OnlyRecoveries.refl_only (s : Sim) : OnlyRecoveries s s :=
  ⟨SameParams.refl_params s, fun _ => Iff.rfl, fun _ h => h⟩

theorem OnlyRecoveries.trans_only {a b c : Sim} (h1 : OnlyRecoveries a b)
    (h2 : OnlyRecoveries b c) : OnlyRecoveries a c :=
  ⟨h1.params.trans_params h2.params, fun v => (h2.susceptible v).trans (h1.susceptible v),
    fun v h => h1.infected v (h2.infected v h)⟩

/-- A change of the members that are neither constructor members nor the states. -/
theorem OnlyRecoveries.of_core {s s' : Sim} (h : SameCore s s') : OnlyRecoveries s s' :=
  ⟨h.params, fun v => by rw [h.state_vector_], fun v hv => by rw [h.state_vector_] at hv; exact hv⟩

/-- A call of `recover`, returning or not, makes no node susceptible or infected. -/
theorem OnlyRecoveries.of_recover_call (s : Sim) (v : Node) : OnlyRecoveries s (recover s v).st := by
  by_cases hv : v < s.size
  · by_cases hs : s.state_vector_ v = NodeState.I
    · have he := recover_effect s v hv hs
      refine ⟨he.params, ?_, ?_⟩
      · intro u
        rw [he.state_vector_]
        by_cases huv : u = v
        · subst huv
          rw [Function.update_same, hs]
          constructor <;> intro hc <;> exact absurd hc (by decide)
        · rw [Function.update_noteq huv]
      · intro u hu
        rw [he.state_vector_] at hu
        by_cases huv : u = v
        · subst huv; exact hs
        · rw [Function.update_noteq huv] at hu; exact hu
    · rw [recover_of_not_infected s v hv hs]; exact OnlyRecoveries.refl_only s
  · rw [recover_of_not_node s v hv]; exact OnlyRecoveries.refl_only s

/-- Applying a batch of recoveries makes no node susceptible or infected. -/
theorem OnlyRecoveries.of_apply_events :
    ∀ (events : List Event) (s : Sim), (∀ e ∈ events, e.2 = Action.RECOVERY) →
      OnlyRecoveries s (BaseContagion.apply_events events s).st := by
  intro events
  induction events with
  | nil => intro s _; exact OnlyRecoveries.refl_only s
  | cons e rest ih =>
    intro s hall
    have he := hall e (List.mem_cons_self _ _)
    have h1 : OnlyRecoveries s (BaseContagion.apply_event s e).st := by
      unfold BaseContagion.apply_event
      rw [he]
      exact OnlyRecoveries.of_recover_call s e.1
    show OnlyRecoveries s ((BaseContagion.apply_event s e).andThen
      (for_each BaseContagion.apply_event rest)).st
    rcases Res.andThen_cases (BaseContagion.apply_event s e)
      (for_each BaseContagion.apply_event rest) with ⟨_, h⟩ | ⟨_, h⟩
    · rw [h]
      exact h1.trans_only (ih _ (fun f hf => hall f (List.mem_cons_of_mem _ hf)))
    · rw [h]; exact h1

/-- An iteration of the event loop whose batch is made of recoveries makes no node
susceptible or infected, whether it returns or not. -/
theorem OnlyRecoveries.of_loop_body (a b : Bool) (d : Draw) (s : Sim)
    (hall : ∀ e ∈ (next_step s d).2, e.2 = Action.RECOVERY) :
    OnlyRecoveries s (BaseContagion.loop_body a b d s).st := by
  rw [loop_body_eq]
  have h1 : OnlyRecoveries s (next_step s d).1.st := by
    obtain ⟨t, t', ht⟩ := next_step_clock s d
    rw [ht]
    exact ⟨⟨rfl, rfl, rfl, rfl, rfl, rfl, rfl⟩, fun _ => Iff.rfl, fun _ h => h⟩
  refine Res.andThen_rel OnlyRecoveries (fun _ _ _ x y => x.trans_only y) h1 ?_
  intro s1
  refine Res.andThen_rel OnlyRecoveries (fun _ _ _ x y => x.trans_only y) ?_ ?_
  · split
    · obtain ⟨g, tr, hg⟩ := update_transmission_tree_frame d.infector_u (next_step s d).2 0 s1
      rw [hg]
      exact ⟨⟨rfl, rfl, rfl, rfl, rfl, rfl, rfl⟩, fun _ => Iff.rfl, fun _ h => h⟩
    · exact OnlyRecoveries.refl_only s1
  · intro s2
    refine Res.andThen_rel OnlyRecoveries (fun _ _ _ x y => x.trans_only y)
      (OnlyRecoveries.of_apply_events _ s2 hall) ?_
    intro s3
    simp only [Res.ok_st]
    split
    · exact ⟨⟨rfl, rfl, rfl, rfl, rfl, rfl, rfl⟩, fun _ => Iff.rfl, fun _ h => h⟩
    · exact OnlyRecoveries.refl_only s3

/-- Recoveries keep the state quiet. -/
theorem Quiet.of_only_recoveries {s s' : Sim} (h : Quiet s) (hr : OnlyRecoveries s s') :
    Quiet s' := by
  intro v hv hs
  have hv' : v < s.size := by rw [← hr.params.size_eq]; exact hv
  have h0 := h v hv' ((hr.susceptible v).1 hs)
  unfold Sim.infected_slots at h0 ⊢
  rw [hr.params.network_]
  rw [List.countP_eq_zero] at h0 ⊢
  intro u hu hc
  exact h0 u hu (by simpa using hr.infected u (by simpa using hc))

end QuietStates

section ContinuousSelection

theorem ContinuousOK.continuous_of_visited {s : Sim} (h : Visited s) : ContinuousOK s :=
  kept_visited ContinuousOK.kept_continuous (fun _ hr => ContinuousOK.continuous_of_reached hr) h

/-- A positive number of infected entries of the adjacency list: an infected neighbour. -/
theorem infected_slots_pos {s : Sim} {v : Node} (h : 1 ≤ s.infected_slots v) :
    ∃ u, u ∈ s.network_.adjacent_nodes v ∧ s.state_vector_ u = NodeState.I := by
  unfold Sim.infected_slots at h
  have hpos : 0 < (s.network_.adjacent_nodes v).countP
      (fun u => decide (s.state_vector_ u = NodeState.I)) := h
  rw [List.countP_pos_iff] at hpos
  obtain ⟨u, hu, hc⟩ := hpos
  exact ⟨u, hu, by simpa using hc⟩

/-- An infection candidate of `ContinuousSIR`, when the rate at the infected degree 0 is
0: a susceptible node with a non-empty list of infected neighbours, as long as the number
of infected entries of its adjacency list. -/
theorem continuous_candidate_has_infected {s : Sim} (h : Visited s)
    (hk : s.kind = Kind.continuous) (h0 : s.infection_rate_.get? 0 = some 0) {v : Node}
    (hv : v ∈ s.infection_event_set_.keys) :
    v < s.size ∧ s.state_vector_ v = NodeState.S
    ∧ (s.infected_neighbors_vector_ v).length = s.infected_slots v
    ∧ 1 ≤ s.infected_slots v := by
  obtain ⟨_, hw, hd⟩ := (ContinuousOK.continuous_of_visited h).2 hk h0
  obtain ⟨hlt, hs, r, hr, hpos⟩ := (hw.key_iff v).1 hv
  have hlen := hd.degree v hlt hs
  refine ⟨hlt, hs, hlen, ?_⟩
  rw [get_infection_rate_eq s v hlt] at hr
  by_contra hc
  have hz : (s.infected_neighbors_vector_ v).length = 0 := by omega
  rw [hz, h0] at hr
  have : (0 : ℚ) = r := Option.some.inj hr
  rw [← this] at hpos
  exact absurd hpos (lt_irrefl 0)

/-- The infection that `next_step` of `ContinuousSIR` selects is that of a candidate. -/
theorem continuous_selected_candidate {s : Sim} (hk : s.kind = Kind.continuous) {d : Draw}
    {v : Node} (h : (v, Action.INFECTION) ∈ (next_step s d).2) :
    v ∈ s.infection_event_set_.keys := by
  have hstep : next_step s d = ContinuousSIR.next_step s d := by
    unfold next_step; rw [hk]
  rw [hstep] at h
  rcases continuous_next_step_event s d with h1 | ⟨u, hu, h1, _⟩ | ⟨u, _, h1⟩
  · rw [h1] at h; exact absurd h (List.not_mem_nil _)
  · rw [h1, List.mem_singleton] at h
    have : v = u := congrArg Prod.fst h
    rw [this]; exact hu
  · rw [h1, List.mem_singleton] at h
    have : Action.INFECTION = Action.RECOVERY := congrArg Prod.snd h
    exact absurd this (by decide)

/-- In a quiet state of `ContinuousSIR`, every event that `next_step` returns is a
recovery. -/
theorem quiet_next_step {s : Sim} (h : Visited s) (hk : s.kind = Kind.continuous)
    (h0 : s.infection_rate_.get? 0 = some 0) (hq : Quiet s) (d : Draw) :
    ∀ e ∈ (next_step s d).2, e.2 = Action.RECOVERY := by
  intro e he
  cases hact : e.2 with
  | RECOVERY => rfl
  | INFECTION =>
    exfalso
    have he' : (e.1, Action.INFECTION) ∈ (next_step s d).2 := by
      rw [← hact]; exact he
    obtain ⟨hlt, hs, _, hpos⟩ :=
      continuous_candidate_has_infected h hk h0 (continuous_selected_candidate hk he')
    have := hq e.1 hlt hs
    omega

/-- From a quiet state of `ContinuousSIR`, the event loop of `evolve` makes no node
susceptible or infected, however it ends. -/
theorem quiet_evolve_loop (t0 period : ℚ) (a b : Bool) (draws : List Draw) :
    ∀ s, Visited s → s.kind = Kind.continuous → s.infection_rate_.get? 0 = some 0 → Quiet s →
      OnlyRecoveries s (BaseContagion.evolve_loop t0 period a b draws s).st := by
  induction draws with
  | nil =>
    intro s _ _ _ _
    unfold BaseContagion.evolve_loop
    split <;> exact OnlyRecoveries.refl_only s
  | cons d ds ih =>
    intro s hv hk h0 hq
    have hbody := OnlyRecoveries.of_loop_body a b d s (quiet_next_step hv hk h0 hq d)
    rw [evolve_loop_cons]
    by_cases hg : BaseContagion.loop_guard s t0 period = true
    · rw [if_pos hg]
      cases herr : (BaseContagion.loop_body a b d s).err with
      | some e => exact hbody
      | none =>
        simp only
        refine hbody.trans_only (ih _ (Visited.iteration a b d hv herr)
          (hbody.params.kind.trans hk) (by rw [hbody.params.infection_rate_]; exact h0)
          (hq.of_only_recoveries hbody))
    · rw [if_neg hg]
      exact OnlyRecoveries.refl_only s

end ContinuousSelection

/-- C24. `ContinuousSIR` with the infection rate 0 at the infected degree 0, on any edge
list, in every state in which an iteration of the event loop starts: a node that
`next_step` selects for infection is susceptible and has an infected neighbour; when no
susceptible node has an infected neighbour, every event that `next_step` returns is a
recovery, and whatever `evolve` then does, for every period, flags and draws, the
susceptible nodes stay susceptible and no node becomes infected. -/
theorem C24_infection_needs_infected_neighbour (s : Sim) (h : Visited s)
    (hk : s.kind = Kind.continuous) (h0 : s.infection_rate_.get? 0 = some 0) :
    (∀ (d : Draw) (v : Node), (v, Action.INFECTION) ∈ (next_step s d).2 →
      v < s.size ∧ s.state_vector_ v = NodeState.S
      ∧ ∃ u, u ∈ s.network_.adjacent_nodes v ∧ s.state_vector_ u = NodeState.I)
    ∧ (Quiet s → ∀ (d : Draw), ∀ e ∈ (next_step s d).2, e.2 = Action.RECOVERY)
    ∧ (Quiet s → ∀ (period : ℚ) (save_transmission_tree save_macro_state : Bool)
        (draws : List Draw),
        (∀ v, (BaseContagion.evolve s period save_transmission_tree save_macro_state
            draws).st.state_vector_ v = NodeState.S ↔ s.state_vector_ v = NodeState.S)
        ∧ (∀ v, (BaseContagion.evolve s period save_transmission_tree save_macro_state
            draws).st.state_vector_ v = NodeState.I → s.state_vector_ v = NodeState.I)) := by
  refine ⟨?_, fun hq d => quiet_next_step h hk h0 hq d, ?_⟩
  · intro d v hv
    obtain ⟨hlt, hs, _, hpos⟩ :=
      continuous_candidate_has_infected h hk h0 (continuous_selected_candidate hk hv)
    exact ⟨hlt, hs, infected_slots_pos hpos⟩
  · intro hq period a b draws
    have hs0 : Visited (if b = true ∧ s.macro_state_vector_.length = 0
        then s.store_current_macro_state else s) := by
      split
      · exact Visited.store h
      · exact h
    have hr0 : OnlyRecoveries s (if b = true ∧ s.macro_state_vector_.length = 0
        then s.store_current_macro_state else s) := by
      split
      · exact ⟨⟨rfl, rfl, rfl, rfl, rfl, rfl, rfl⟩, fun _ => Iff.rfl, fun _ hx => hx⟩
      · exact OnlyRecoveries.refl_only s
    have hloop := quiet_evolve_loop (if b = true ∧ s.macro_state_vector_.length = 0
        then s.store_current_macro_state else s).current_time_ period a b draws _ hs0
      (hr0.params.kind.trans hk) (by rw [hr0.params.infection_rate_]; exact h0)
      (hq.of_only_recoveries hr0)
    have hall : OnlyRecoveries s (BaseContagion.evolve s period a b draws).st := by
      unfold BaseContagion.evolve
      simp only
      split
      · exact hr0.trans_only hloop
      · exact hr0.trans_only (hloop.trans_only
          ⟨⟨rfl, rfl, rfl, rfl, rfl, rfl, rfl⟩, fun _ => Iff.rfl, fun _ hx => hx⟩)
    exact ⟨hall.susceptible, hall.infected⟩

/-- C24, on the star with the centre 0 and the leaves 1 to 5, recovery rate 1 and rate
table `[0, 2]`, centre seeded: a first `evolve` infects leaf 1 and then recovers the
centre; from that state, whatever the draws, leaf 2 stays susceptible, and an `evolve`
of period 100 with one draw returns with no infected node. -/
theorem C24_infection_needs_infected_neighbour_witness :
    (List.range 6).map (BaseContagion.evolve
      (BaseContagion.infect_node_set
        (ContinuousSIR.create [(0, 1), (0, 2), (0, 3), (0, 4), (0, 5)] 1 [0, 2]) [0]).st
      (1 / 2) true true
      [⟨0, 0, 0, fun _ => 0, fun _ => 0, fun _ => 0⟩,
       ⟨9 / 10, 0, 0, fun _ => 0, fun _ => 0, fun _ => 0⟩]).st.state_vector_
      = [NodeState.R, NodeState.I, NodeState.S, NodeState.S, NodeState.S, NodeState.S]
    ∧ (∀ (draws : List Draw),
        (BaseContagion.evolve (BaseContagion.evolve
      (BaseContagion.infect_node_set
        (ContinuousSIR.create [(0, 1), (0, 2), (0, 3), (0, 4), (0, 5)] 1 [0, 2]) [0]).st
      (1 / 2) true true
      [⟨0, 0, 0, fun _ => 0, fun _ => 0, fun _ => 0⟩,
       ⟨9 / 10, 0, 0, fun _ => 0, fun _ => 0, fun _ => 0⟩]).st 100 true true draws).st.state_vector_ 2 = NodeState.S)
    ∧ (BaseContagion.evolve (BaseContagion.evolve
      (BaseContagion.infect_node_set
        (ContinuousSIR.create [(0, 1), (0, 2), (0, 3), (0, 4), (0, 5)] 1 [0, 2]) [0]).st
      (1 / 2) true true
      [⟨0, 0, 0, fun _ => 0, fun _ => 0, fun _ => 0⟩,
       ⟨9 / 10, 0, 0, fun _ => 0, fun _ => 0, fun _ => 0⟩]).st 100 true true
        [⟨0, 0, 0, fun _ => 0, fun _ => 0, fun _ => 0⟩]).err = none
    ∧ (BaseContagion.evolve (BaseContagion.evolve
      (BaseContagion.infect_node_set
        (ContinuousSIR.create [(0, 1), (0, 2), (0, 3), (0, 4), (0, 5)] 1 [0, 2]) [0]).st
      (1 / 2) true true
      [⟨0, 0, 0, fun _ => 0, fun _ => 0, fun _ => 0⟩,
       ⟨9 / 10, 0, 0, fun _ => 0, fun _ => 0, fun _ => 0⟩]).st 100 true true
        [⟨0, 0, 0, fun _ => 0, fun _ => 0, fun _ => 0⟩]).st.infected_node_set_ = [] := by
  refine ⟨by with_unfolding_all decide, ?_, by with_unfolding_all decide,
    by with_unfolding_all decide⟩
  intro draws
  have hq : Quiet (BaseContagion.evolve
      (BaseContagion.infect_node_set
        (ContinuousSIR.create [(0, 1), (0, 2), (0, 3), (0, 4), (0, 5)] 1 [0, 2]) [0]).st
      (1 / 2) true true
      [⟨0, 0, 0, fun _ => 0, fun _ => 0, fun _ => 0⟩,
       ⟨9 / 10, 0, 0, fun _ => 0, fun _ => 0, fun _ => 0⟩]).st := by
    intro v hv hs
    have hsz : (BaseContagion.evolve
      (BaseContagion.infect_node_set
        (ContinuousSIR.create [(0, 1), (0, 2), (0, 3), (0, 4), (0, 5)] 1 [0, 2]) [0]).st
      (1 / 2) true true
      [⟨0, 0, 0, fun _ => 0, fun _ => 0, fun _ => 0⟩,
       ⟨9 / 10, 0, 0, fun _ => 0, fun _ => 0, fun _ => 0⟩]).st.size = 6 := by
      with_unfolding_all decide
    rw [hsz] at hv
    interval_cases v
    · exact absurd hs (by with_unfolding_all decide)
    · exact absurd hs (by with_unfolding_all decide)
    · with_unfolding_all decide
    · with_unfolding_all decide
    · with_unfolding_all decide
    · with_unfolding_all decide
  exact ((C24_infection_needs_infected_neighbour (BaseContagion.evolve
      (BaseContagion.infect_node_set
        (ContinuousSIR.create [(0, 1), (0, 2), (0, 3), (0, 4), (0, 5)] 1 [0, 2]) [0]).st
      (1 / 2) true true
      [⟨0, 0, 0, fun _ => 0, fun _ => 0, fun _ => 0⟩,
       ⟨9 / 10, 0, 0, fun _ => 0, fun _ => 0, fun _ => 0⟩]).st
    (Visited.reached (Reached.evolve _ _ _ _
      (Reached.infect_node_set _ (Reached.continuous _ _ _) (by with_unfolding_all decide))
      (by with_unfolding_all decide)))
    (by with_unfolding_all decide) (by with_unfolding_all decide)).2.2 hq 100 true true
      draws).1 2 |>.2 (by with_unfolding_all decide)

section ContinuousRecords

theorem ContinuousGuarded.guarded_of_visited {s : Sim} (h : Visited s) : ContinuousGuarded s :=
  kept_visited ContinuousGuarded.robust_guarded.to_kept
    (fun _ hr => ContinuousGuarded.guarded_of_reachable hr.to_reachable) h

theorem random_infected_neighbor_mem {s : Sim} {v u : Node} {x : ℚ}
    (h : BaseContagion.random_infected_neighbor s v x = some u) :
    v < s.size ∧ u ∈ s.infected_neighbors_vector_ v := by
  unfold BaseContagion.random_infected_neighbor at h
  by_cases hv : v < s.size
  · rw [if_pos hv] at h
    exact ⟨hv, List.get?_mem h⟩
  · rw [if_neg hv] at h
    exact absurd h (by simp)

/-- The records that an iteration of the event loop of a `ContinuousSIR` appends, on a
simple graph with a long enough rate table that gives the rate 0 to the infected degree
0: in the state in which the iteration starts, the infector is an infected neighbour of
the infectee, the infectee is susceptible, and the infected degree of the record is the
number of infected neighbours of the infectee, which is not 0. -/
theorem continuous_records_valid (edge_list : EdgeList) (hsimple : SimpleEdgeList edge_list)
    (s : Sim) (h : Visited s) (hk : s.kind = Kind.continuous)
    (hnet : s.network_ = Network.ofEdgeList edge_list)
    (hlen : s.network_.max_degree_ + 1 ≤ s.infection_rate_.length)
    (h0 : s.infection_rate_.get? 0 = some 0) (d : Draw) :
    ∃ new : List Transmission,
      (BaseContagion.update_transmission_tree d.infector_u 0 (next_step s d).2
        (next_step s d).1.st).st.transmission_tree_ = s.transmission_tree_ ++ new
      ∧ ∀ t ∈ new,
          t.infector ∈ s.network_.adjacent_nodes t.infectee
          ∧ s.state_vector_ t.infector = NodeState.I
          ∧ s.state_vector_ t.infectee = NodeState.S
          ∧ t.infected_degree = s.infected_slots t.infectee
          ∧ 1 ≤ t.infected_degree := by
  have hg : Network.Simple s.network_ := by
    rw [hnet]; exact Network.simple_of_edge_list edge_list hsimple
  have inv := ContinuousGuarded.guarded_of_visited h hk hg hlen
  obtain ⟨new, htree, hcreated, _⟩ := update_transmission_tree_records d.infector_u
    (next_step s d).2 0 (next_step s d).1.st
  obtain ⟨c, c', hst⟩ := next_step_clock s d
  have hstep : next_step s d = ContinuousSIR.next_step s d := by
    unfold next_step; rw [hk]
  refine ⟨new, by rw [htree, hst], ?_⟩
  intro t ht
  obtain ⟨k, hget, _, hrin, _, hdeg, _, _⟩ := hcreated t ht
  have hmem : (t.infectee, Action.INFECTION) ∈ (next_step s d).2 := List.get?_mem hget
  have hk0 : k = 0 := by
    have hlt : k < (next_step s d).2.length := by
      rw [List.get?_eq_some] at hget
      exact hget.1
    rw [hstep] at hlt
    rcases continuous_next_step_event s d with h1 | ⟨u, _, h1, _⟩ | ⟨u, _, h1⟩
    · rw [h1] at hlt; exact absurd hlt (by simp)
    · rw [h1] at hlt; simpa using hlt
    · rw [h1] at hlt; simpa using hlt
  subst hk0
  obtain ⟨hlt, hs, hslots, hpos⟩ :=
    continuous_candidate_has_infected h hk h0 (continuous_selected_candidate hk hmem)
  rw [List.take_zero, update_transmission_tree_nil, Res.ok_st, hst] at hrin hdeg
  obtain ⟨_, hin⟩ := random_infected_neighbor_mem hrin
  have hin' : t.infector ∈ s.infected_neighbors_vector_ t.infectee := hin
  obtain ⟨_, hiff, _⟩ := inv.bookkeeping.susceptible t.infectee hlt hs
  have hadj := (hiff t.infector).1 hin'
  have hd : t.infected_degree = (s.infected_neighbors_vector_ t.infectee).length := by
    unfold Sim.get_infected_degree at hdeg
    have hlt' : t.infectee < Sim.size { s with current_time_ := c, last_event_time_ := c' } := hlt
    rw [if_pos hlt'] at hdeg
    exact (Option.some.inj hdeg).symm
  refine ⟨hadj.1, hadj.2, hs, by rw [hd, hslots], by rw [hd, hslots]; exact hpos⟩

/-- Applying a batch of events leaves the transmission tree alone. -/
theorem apply_events_tree (events : List Event) (s : Sim) :
    (BaseContagion.apply_events events s).st.transmission_tree_ = s.transmission_tree_ := by
  unfold BaseContagion.apply_events
  refine for_each_rel (fun a b => b.transmission_tree_ = a.transmission_tree_) (fun _ => rfl)
    (fun _ _ _ h1 h2 => h2.trans h1) BaseContagion.apply_event ?_ events s
  intro a e
  unfold BaseContagion.apply_event
  split
  · exact (infect_params_history a e.1).2.transmission_tree_
  · exact (recover_params_history a e.1).2.transmission_tree_

/-- The transmission tree after an iteration of the event loop: that of the state in
which it started, or, when transmissions are recorded, the one that
`update_transmission_tree` left for the batch of `next_step`. -/
theorem loop_body_tree (a b : Bool) (d : Draw) (s : Sim) :
    (BaseContagion.loop_body a b d s).st.transmission_tree_ = s.transmission_tree_
    ∨ (a = true
        ∧ (BaseContagion.loop_body a b d s).st.transmission_tree_
          = (BaseContagion.update_transmission_tree d.infector_u 0 (next_step s d).2
              (next_step s d).1.st).st.transmission_tree_) := by
  rw [loop_body_eq]
  have htail : ∀ s2 : Sim,
      ((BaseContagion.apply_events (next_step s d).2 s2).andThen fun s3 =>
        Res.ok (if b = true then s3.store_current_macro_state else s3)).st.transmission_tree_
        = s2.transmission_tree_ := by
    intro s2
    refine Res.andThen_rel (fun x y => y.transmission_tree_ = x.transmission_tree_)
      (fun _ _ _ h1 h2 => h2.trans h1) (apply_events_tree _ s2) ?_
    intro s3
    simp only [Res.ok_st]
    split <;> rfl
  obtain ⟨c, c', hst⟩ := next_step_clock s d
  have hs1 : (next_step s d).1.st.transmission_tree_ = s.transmission_tree_ := by rw [hst]
  rcases Res.andThen_cases (next_step s d).1 (fun s1 =>
      (if a = true ∧ (next_step s d).2.length > 0 then
          BaseContagion.update_transmission_tree d.infector_u 0 (next_step s d).2 s1
        else Res.ok s1).andThen fun s2 =>
        (BaseContagion.apply_events (next_step s d).2 s2).andThen fun s3 =>
          Res.ok (if b = true then s3.store_current_macro_state else s3)) with ⟨_, h⟩ | ⟨_, h⟩
  · rw [h]
    by_cases hc : a = true ∧ (next_step s d).2.length > 0
    · right
      refine ⟨hc.1, ?_⟩
      simp only [if_pos hc]
      exact Res.andThen_rel (fun x y => y.transmission_tree_ = x.transmission_tree_)
        (fun _ _ _ h1 h2 => h2.trans h1) rfl htail
    · left
      simp only [if_neg hc]
      rw [Res.andThen_of_ok _ (Res.ok_err _), Res.ok_st, htail]
      exact hs1
  · rw [h]; left; exact hs1

/-- The records that an iteration of the event loop of `evolve` appends for a
`ContinuousSIR`, whether the iteration returns or not. -/
theorem continuous_loop_body_records (edge_list : EdgeList) (hsimple : SimpleEdgeList edge_list)
    (s : Sim) (h : Visited s) (hk : s.kind = Kind.continuous)
    (hnet : s.network_ = Network.ofEdgeList edge_list)
    (hlen : s.network_.max_degree_ + 1 ≤ s.infection_rate_.length)
    (h0 : s.infection_rate_.get? 0 = some 0) (a b : Bool) (d : Draw) :
    ∃ new : List Transmission,
      (BaseContagion.loop_body a b d s).st.transmission_tree_ = s.transmission_tree_ ++ new
      ∧ ∀ t ∈ new,
          t.infector ∈ s.network_.adjacent_nodes t.infectee
          ∧ s.state_vector_ t.infector = NodeState.I
          ∧ s.state_vector_ t.infectee = NodeState.S
          ∧ t.infected_degree = s.infected_slots t.infectee
          ∧ 1 ≤ t.infected_degree := by
  rcases loop_body_tree a b d s with h1 | ⟨_, h1⟩
  · exact ⟨[], by rw [h1, List.append_nil], fun t ht => absurd ht (List.not_mem_nil t)⟩
  · obtain ⟨new, hnew, hall⟩ := continuous_records_valid edge_list hsimple s h hk hnet hlen h0 d
    exact ⟨new, h1.trans hnew, hall⟩

end ContinuousRecords

section DiscreteCandidates

/-- A visit of a neighbour by `DiscreteSIR` sets a positive entry of the propensity table
as a weight, or erases a weight, or leaves the weights alone. -/
theorem discrete_visit_neighbor_weight (event : Event) (s : Sim) (x : Node) :
    ∃ l p w, (DiscreteSIR.visit_neighbor event s x).st = { s with
        infected_neighbors_vector_ := l,
        infected_neighbor_position_vector_ := p,
        infection_event_set_ := w }
      ∧ (w = s.infection_event_set_ ∨ w = s.infection_event_set_.erase x
          ∨ ∃ r, 0 < r ∧ r ∈ s.infection_propensity_
              ∧ w = s.infection_event_set_.set_weight x r) := by
  unfold DiscreteSIR.visit_neighbor
  by_cases hx : x < s.size
  swap
  · rw [if_neg hx]; exact ⟨_, _, _, rfl, Or.inl rfl⟩
  rw [if_pos hx]
  by_cases hs : s.state_vector_ x = NodeState.S
  swap
  · rw [if_neg hs]; exact ⟨_, _, _, rfl, Or.inl rfl⟩
  rw [if_pos hs]
  unfold DiscreteSIR.update_infection_propensity
  rw [if_pos hx, update_infected_neighbors_eq]
  cases hr : slot_update event (s.infected_neighbors_vector_ x)
      (s.infected_neighbor_position_vector_ x) with
  | none => exact ⟨_, _, _, rfl, Or.inl rfl⟩
  | some r =>
    simp only [Option.map_some']
    cases hrate : DiscreteSIR.get_infection_propensity { s with
        infected_neighbors_vector_ := Function.update s.infected_neighbors_vector_ x r.1,
        infected_neighbor_position_vector_ :=
          Function.update s.infected_neighbor_position_vector_ x r.2 } x with
    | none => exact ⟨_, _, _, rfl, Or.inl rfl⟩
    | some rate =>
      have hmem : rate ∈ s.infection_propensity_ := by
        unfold DiscreteSIR.get_infection_propensity at hrate
        split at hrate
        · exact absurd hrate (by simp)
        · exact List.get?_mem hrate
      by_cases hpos : rate > 0
      · simp only [if_pos hpos]
        exact ⟨_, _, _, rfl, Or.inr (Or.inr ⟨rate, hpos, hmem, rfl⟩)⟩
      · simp only [if_neg hpos]
        exact ⟨_, _, _, rfl, Or.inr (Or.inl rfl)⟩

/-- The loop over the neighbours in `DiscreteSIR::infect` and `DiscreteSIR::recover`
keeps the weights positive entries of the propensity table. -/
theorem discrete_loop_weights (event : Event) (xs : List Node) (s : Sim)
    (h : ∀ p ∈ s.infection_event_set_.items, 0 < p.2 ∧ p.2 ∈ s.infection_propensity_) :
    ∀ p ∈ (for_each (DiscreteSIR.visit_neighbor event) xs s).st.infection_event_set_.items,
      0 < p.2 ∧ p.2 ∈ (for_each (DiscreteSIR.visit_neighbor event) xs s).st.infection_propensity_ :=
  for_each_inv
    (fun s => ∀ p ∈ s.infection_event_set_.items, 0 < p.2 ∧ p.2 ∈ s.infection_propensity_) _
    (fun s x hs => by
      obtain ⟨l, q, w, hst, hw⟩ := discrete_visit_neighbor_weight event s x
      rw [hst]
      intro p hp
      have hp' : p ∈ w.items := hp
      show 0 < p.2 ∧ p.2 ∈ s.infection_propensity_
      rcases hw with hw | hw | ⟨r, h1, h2, hw⟩
      · rw [hw] at hp'; exact hs p hp'
      · rw [hw] at hp'; exact hs p (SamplableSet.mem_items_erase hp')
      · rw [hw] at hp'
        rcases SamplableSet.mem_items_set_weight hp' with h3 | h3
        · exact hs p h3
        · rw [h3]; exact ⟨h1, h2⟩) xs s h

theorem DiscreteWeights.infect_weights (s : Sim) (v : Node) (h : DiscreteWeights s) :
    DiscreteWeights (infect s v).st := by
  intro hk'
  have hk : s.kind = Kind.discrete := by
    rw [← (infect_params_history s v).1.kind]; exact hk'
  have h' := h hk
  unfold infect
  rw [hk]
  show ∀ p ∈ (DiscreteSIR.infect s v).st.infection_event_set_.items,
    0 < p.2 ∧ p.2 ∈ (DiscreteSIR.infect s v).st.infection_propensity_
  unfold DiscreteSIR.infect
  by_cases hv : v < s.size
  swap
  · rw [if_neg hv]; exact h'
  rw [if_pos hv]
  by_cases hs : s.state_vector_ v = NodeState.S
  swap
  · rw [if_neg hs]; exact h'
  rw [if_pos hs]
  refine Res.andThen_inv
    (P := fun s => ∀ p ∈ s.infection_event_set_.items, 0 < p.2 ∧ p.2 ∈ s.infection_propensity_)
    ?_ ?_
  · apply discrete_loop_weights
    intro p hp
    exact h' p (SamplableSet.mem_items_erase hp)
  · intro s2 h2 p hp
    exact h2 p hp

theorem DiscreteWeights.recover_weights (s : Sim) (v : Node) (h : DiscreteWeights s) :
    DiscreteWeights (recover s v).st := by
  intro hk'
  have hk : s.kind = Kind.discrete := by
    rw [← (recover_params_history s v).1.kind]; exact hk'
  have h' := h hk
  unfold recover
  rw [hk]
  show ∀ p ∈ (DiscreteSIR.recover s v).st.infection_event_set_.items,
    0 < p.2 ∧ p.2 ∈ (DiscreteSIR.recover s v).st.infection_propensity_
  unfold DiscreteSIR.recover
  by_cases hv : v < s.size
  swap
  · rw [if_neg hv]; exact h'
  rw [if_pos hv]
  by_cases hs : s.state_vector_ v = NodeState.I
  swap
  · rw [if_neg hs]; exact h'
  rw [if_pos hs]
  refine Res.andThen_inv
    (P := fun s => ∀ p ∈ s.infection_event_set_.items, 0 < p.2 ∧ p.2 ∈ s.infection_propensity_)
    ?_ ?_
  · apply discrete_loop_weights
    intro p hp
    exact h' p hp
  · intro s2 h2 p hp
    exact h2 p hp

/-- The weights of the infection candidates of `DiscreteSIR` stay positive entries of the
propensity table. -/
theorem DiscreteWeights.kept_weights : Kept DiscreteWeights where
  infect := fun s v h _ => h.infect_weights s v
  recover := fun s v h _ => h.recover_weights s v
  generation := fun _ _ h => h
  tree := fun _ _ h => h
  snapshot := fun _ _ h => h
  clock := fun _ _ _ h => h
  flip := fun _ h _ => h
  clear_sets := fun _ _ _ _ _ _ p hp => absurd hp (List.not_mem_nil p)
  refill_sets := by
    intro s _ hk _ _ hk'
    have hk2 : s.kind = Kind.discrete := hk'
    rw [hk] at hk2
    exact absurd hk2 (by decide)

theorem DiscreteWeights.weights_of_reached {s : Sim} (h : Reached s) : DiscreteWeights s :=
  kept_reached DiscreteWeights.kept_weights
    (fun _ _ _ _ p hp => absurd hp (List.not_mem_nil p))
    (fun _ _ _ _ _ p hp => absurd hp (List.not_mem_nil p))
    (fun _ _ _ _ _ _ hk => Kind.noConfusion hk) h

end DiscreteCandidates

section Seeding

/-- A reflexive and transitive relation that `infect` and the writes of the generation map
satisfy is satisfied by `infect_node_set`, whether it returns or not. -/
theorem infect_node_set_rel (Rel : Sim → Sim → Prop) (hrefl : ∀ s, Rel s s)
    (htrans : ∀ a b c, Rel a b → Rel b c → Rel a c)
    (hinf : ∀ s v, Rel s (infect s v).st)
    (hgen : ∀ (s : Sim) (g : Node → Option Generation), Rel s { s with infection_generation_ := g })
    (s : Sim) (node_set : List Node) :
    Rel s (BaseContagion.infect_node_set s node_set).st := by
  refine for_each_rel Rel hrefl htrans _ ?_ node_set s
  intro s node
  unfold BaseContagion.infect_node_set_body
  split
  · split
    · refine Res.andThen_rel Rel htrans (hinf s node) ?_
      intro s1
      exact hgen s1 _
    · exact hrefl s
  · exact hrefl s

/-- The same for the loop of `infect_fraction`. -/
theorem infect_fraction_loop_rel (Rel : Sim → Sim → Prop) (hrefl : ∀ s, Rel s s)
    (htrans : ∀ a b c, Rel a b → Rel b c → Rel a c)
    (hinf : ∀ s v, Rel s (infect s v).st)
    (hgen : ∀ (s : Sim) (g : Node → Option Generation), Rel s { s with infection_generation_ := g })
    (n : Nat) (draws : List ℚ) :
    ∀ (count : Nat) (s : Sim), Rel s (BaseContagion.infect_fraction_loop n draws count s).st := by
  induction draws with
  | nil =>
    intro count s
    unfold BaseContagion.infect_fraction_loop
    split <;> exact hrefl s
  | cons u us ih =>
    intro count s
    unfold BaseContagion.infect_fraction_loop
    split
    · simp only
      split
      · split
        · refine Res.andThen_rel Rel htrans (hinf s _) ?_
          intro s1
          exact htrans _ _ _ (hgen s1 _) (ih _ _)
        · exact ih _ _
      · exact hrefl s
    · exact hrefl s

/-- In every case `infect` leaves the set of recovered nodes alone. -/
theorem infect_recovered (s : Sim) (v : Node) :
    (infect s v).st.recovered_node_set_ = s.recovered_node_set_ := by
  by_cases hv : v < s.size
  · by_cases h : s.state_vector_ v = NodeState.S
    · exact (infect_effect s v hv h).recovered_node_set_
    · rw [infect_of_not_susceptible s v hv h]; rfl
  · rw [infect_of_not_node s v hv]; rfl

end Seeding

section FreshClock

/-- The event loop of a `DiscreteSIR`, on a returning run: a clock that is not negative
stays so, and no node is recovered while it shows 0. -/
theorem discrete_evolve_loop_clock (t0 period : ℚ) (a b : Bool) (draws : List Draw) :
    ∀ s : Sim, s.kind = Kind.discrete →
      (0 ≤ s.last_event_time_ ∧ (s.last_event_time_ = 0 → s.recovered_node_set_ = [])) →
      (BaseContagion.evolve_loop t0 period a b draws s).err = none →
      (BaseContagion.evolve_loop t0 period a b draws s).st.kind = Kind.discrete
      ∧ 0 ≤ (BaseContagion.evolve_loop t0 period a b draws s).st.last_event_time_
      ∧ ((BaseContagion.evolve_loop t0 period a b draws s).st.last_event_time_ = 0 →
          (BaseContagion.evolve_loop t0 period a b draws s).st.recovered_node_set_ = []) := by
  induction draws with
  | nil =>
    intro s hk h _
    unfold BaseContagion.evolve_loop
    split <;> exact ⟨hk, h.1, h.2⟩
  | cons d ds ih =>
    intro s hk h herr
    by_cases hg : BaseContagion.loop_guard s t0 period = true
    · obtain ⟨h1, h2, h3⟩ := evolve_loop_err_none t0 period a b d ds s hg herr
      rw [h2]
      obtain ⟨l, hl, _⟩ := loop_guard_true hg
      obtain ⟨c1, c2, _⟩ := loop_body_clock a b d s l hl
      have hl1 : l = 1 := get_lifetime_discrete hk hl
      refine ih _ (c1.trans hk) ⟨by rw [c2, hl1]; linarith [h.1], ?_⟩ h3
      intro h0
      rw [c2, hl1] at h0
      linarith [h.1]
    · unfold BaseContagion.evolve_loop
      rw [if_neg hg]
      exact ⟨hk, h.1, h.2⟩

/-- The clock of a `DiscreteSIR` counts the ticks since the construction or the last
`reset()`: it is not negative, and no node is recovered while it shows 0. -/
theorem discrete_clock_fresh {s : Sim} (h : Reached s) :
    s.kind = Kind.discrete →
      0 ≤ s.last_event_time_ ∧ (s.last_event_time_ = 0 → s.recovered_node_set_ = []) := by
  induction h with
  | continuous el rr rates => intro hk; exact Kind.noConfusion hk
  | discrete el rp probs f => intro _; exact ⟨le_refl _, fun _ => rfl⟩
  | annealed n d rr rates c0 r0 => intro hk; exact Kind.noConfusion hk
  | @infect_fraction s fraction draws _ _ ih =>
    intro hk
    have hrel := infect_fraction_loop_rel
      (fun a b : Sim => b.kind = a.kind ∧ b.recovered_node_set_ = a.recovered_node_set_
        ∧ b.last_event_time_ = a.last_event_time_)
      (fun _ => ⟨rfl, rfl, rfl⟩)
      (fun _ _ _ h1 h2 => ⟨h2.1.trans h1.1, h2.2.1.trans h1.2.1, h2.2.2.trans h1.2.2⟩)
      (fun s v => ⟨(infect_params_history s v).1.kind, infect_recovered s v,
        (infect_params_history s v).2.last_event_time_⟩)
      (fun _ _ => ⟨rfl, rfl, rfl⟩)
      (BaseContagion.number_of_infection s fraction) draws 0 s
    have hrel' : (BaseContagion.infect_fraction s fraction draws).st.kind = s.kind
        ∧ (BaseContagion.infect_fraction s fraction draws).st.recovered_node_set_
            = s.recovered_node_set_
        ∧ (BaseContagion.infect_fraction s fraction draws).st.last_event_time_
            = s.last_event_time_ := hrel
    rw [hrel'.2.1, hrel'.2.2]
    exact ih (hrel'.1.symm.trans hk)
  | @infect_node_set s node_set _ _ ih =>
    intro hk
    have hrel := infect_node_set_rel
      (fun a b : Sim => b.kind = a.kind ∧ b.recovered_node_set_ = a.recovered_node_set_
        ∧ b.last_event_time_ = a.last_event_time_)
      (fun _ => ⟨rfl, rfl, rfl⟩)
      (fun _ _ _ h1 h2 => ⟨h2.1.trans h1.1, h2.2.1.trans h1.2.1, h2.2.2.trans h1.2.2⟩)
      (fun s v => ⟨(infect_params_history s v).1.kind, infect_recovered s v,
        (infect_params_history s v).2.last_event_time_⟩)
      (fun _ _ => ⟨rfl, rfl, rfl⟩) s node_set
    rw [hrel.2.1, hrel.2.2]
    exact ih (hrel.1.symm.trans hk)
  | @evolve s period a b draws hr herr ih =>
    intro hk
    have hks : s.kind = Kind.discrete := by
      rw [← (stable_kind s.kind).evolve s period a b draws rfl]; exact hk
    unfold BaseContagion.evolve at herr ⊢
    simp only at herr ⊢
    have h0 : (if b = true ∧ s.macro_state_vector_.length = 0
        then s.store_current_macro_state else s).kind = Kind.discrete
        ∧ 0 ≤ (if b = true ∧ s.macro_state_vector_.length = 0
            then s.store_current_macro_state else s).last_event_time_
        ∧ ((if b = true ∧ s.macro_state_vector_.length = 0
            then s.store_current_macro_state else s).last_event_time_ = 0 →
          (if b = true ∧ s.macro_state_vector_.length = 0
            then s.store_current_macro_state else s).recovered_node_set_ = []) := by
      split
      · exact ⟨hks, (ih hks).1, (ih hks).2⟩
      · exact ⟨hks, (ih hks).1, (ih hks).2⟩
    split
    · rename_i e he
      rw [he] at herr
      simp only at herr
      rw [he] at herr
      exact absurd herr (by simp)
    · rename_i he
      have h1 := discrete_evolve_loop_clock _ period a b draws _ h0.1 h0.2 he
      exact ⟨h1.2.1, h1.2.2⟩
  | @base_clear s _ herr ih =>
    intro hk
    have hks : s.kind = Kind.discrete := by rw [← (base_clear_params s).kind]; exact hk
    rw [(base_clear_records s).last_event_time_]
    exact ⟨(ih hks).1, fun _ => (base_clear_node_sets s herr).2⟩
  | @clear s _ herr ih =>
    intro hk
    rw [derived_clear_eq] at herr hk ⊢
    have h1 := (Res.andThen_err_none herr).1
    rw [Res.andThen_of_ok _ h1] at hk ⊢
    have hk1 : (BaseContagion.clear s).st.kind = Kind.discrete := hk
    have hks : s.kind = Kind.discrete := by rw [← (base_clear_params s).kind]; exact hk1
    show 0 ≤ (BaseContagion.clear s).st.last_event_time_
      ∧ ((BaseContagion.clear s).st.last_event_time_ = 0 →
          (BaseContagion.clear s).st.recovered_node_set_ = [])
    rw [(base_clear_records s).last_event_time_]
    exact ⟨(ih hks).1, fun _ => (base_clear_node_sets s h1).2⟩
  | @reset s _ herr ih =>
    intro _
    rw [reset_eq] at herr ⊢
    have h1 := (Res.andThen_err_none herr).1
    rw [Res.andThen_of_ok _ h1]
    exact ⟨le_refl _, fun _ => (base_clear_node_sets s h1).2⟩

end FreshClock

section AppliedEvents

/-- An event that was applied without exception: its node was in the state that the
event requires, and it is now in the state that the event gives. -/
theorem apply_event_returned (s : Sim) (e : Event)
    (herr : (BaseContagion.apply_event s e).err = none) :
    e.1 < s.size ∧ s.state_vector_ e.1 = e.2.source
    ∧ (BaseContagion.apply_event s e).st.state_vector_
        = Function.update s.state_vector_ e.1 e.2.outcome := by
  unfold BaseContagion.apply_event at herr ⊢
  cases he : e.2 with
  | INFECTION =>
    rw [he] at herr
    simp only at herr ⊢
    by_cases hv : e.1 < s.size
    · by_cases hs : s.state_vector_ e.1 = NodeState.S
      · exact ⟨hv, hs, (infect_effect s e.1 hv hs).state_vector_⟩
      · rw [infect_of_not_susceptible s e.1 hv hs] at herr
        exact absurd herr (by simp [Res.fail])
    · rw [infect_of_not_node s e.1 hv] at herr
      exact absurd herr (by simp [Res.fail])
  | RECOVERY =>
    rw [he] at herr
    simp only at herr ⊢
    by_cases hv : e.1 < s.size
    · by_cases hs : s.state_vector_ e.1 = NodeState.I
      · exact ⟨hv, hs, (recover_effect s e.1 hv hs).state_vector_⟩
      · rw [recover_of_not_infected s e.1 hv hs] at herr
        exact absurd herr (by simp [Res.fail])
    · rw [recover_of_not_node s e.1 hv] at herr
      exact absurd herr (by simp [Res.fail])

/-- The states of the nodes after a batch of events that was applied without exception. -/
theorem apply_events_states (events : List Event) :
    ∀ s : Sim, (BaseContagion.apply_events events s).err = none →
      (BaseContagion.apply_events events s).st.state_vector_
        = events.foldl (fun sv e => Function.update sv e.1 e.2.outcome) s.state_vector_ := by
  induction events with
  | nil => intro s _; rfl
  | cons e rest ih =>
    intro s herr
    unfold BaseContagion.apply_events at herr ⊢
    rw [for_each_cons] at herr ⊢
    obtain ⟨h1, h2⟩ := Res.andThen_err_none herr
    rw [Res.andThen_of_ok _ h1, List.foldl_cons, ← (apply_event_returned s e h1).2.2]
    exact ih _ h2

/-- The states of the nodes after an iteration of the event loop that returned. -/
theorem loop_body_states (a b : Bool) (d : Draw) (s : Sim)
    (herr : (BaseContagion.loop_body a b d s).err = none) :
    (next_step s d).1.err = none
    ∧ (BaseContagion.loop_body a b d s).st.state_vector_
        = (next_step s d).2.foldl (fun sv e => Function.update sv e.1 e.2.outcome)
            s.state_vector_ := by
  rw [loop_body_eq] at herr ⊢
  obtain ⟨h1, herr2⟩ := Res.andThen_err_none herr
  refine ⟨h1, ?_⟩
  rw [Res.andThen_of_ok _ h1] at herr ⊢
  obtain ⟨h2, herr3⟩ := Res.andThen_err_none herr2
  rw [Res.andThen_of_ok _ h2] at herr ⊢
  obtain ⟨h3, _⟩ := Res.andThen_err_none herr3
  rw [Res.andThen_of_ok _ h3]
  obtain ⟨c, c', hst⟩ := next_step_clock s d
  have hsv : ∀ s2 : Sim, (if b = true then (BaseContagion.apply_events (next_step s d).2 s2).st.store_current_macro_state
      else (BaseContagion.apply_events (next_step s d).2 s2).st).state_vector_
        = (BaseContagion.apply_events (next_step s d).2 s2).st.state_vector_ := by
    intro s2; split <;> rfl
  simp only [Res.ok_st]
  rw [hsv, apply_events_states _ _ h3]
  congr 1
  split
  · obtain ⟨g, tr, hg⟩ := update_transmission_tree_frame d.infector_u (next_step s d).2 0
      (next_step s d).1.st
    rw [hg, hst]
  · rw [Res.ok_st, hst]

end AppliedEvents

section RecoveryTick

theorem eq_singleton_of_nodup {l : List Node} {u : Node} (hnd : l.Nodup)
    (hmem : ∀ v, v ∈ l ↔ v = u) : l = [u] := by
  have hp : l.Perm [u] :=
    (List.perm_ext_iff_of_nodup hnd (List.nodup_singleton u)).2 (fun v => by simp [hmem v])
  exact List.perm_singleton.1 hp

/-- A sampling loop of one draw from a set whose only key is `u` collects `u`. -/
theorem sample_distinct_one (w : SamplableSet) (pick : Nat → Nat) (u : Node)
    (hkeys : w.keys = [u]) : DiscreteSIR.sample_distinct w pick 1 = some [u] := by
  have hlen : w.items.length = 1 := by
    have := congrArg List.length hkeys
    simpa [SamplableSet.keys] using this
  rw [sample_distinct_succ]
  have h0 : DiscreteSIR.sample_distinct w pick 0 = some [] := rfl
  rw [h0]
  have hs : ∃ p, w.sample (pick 0) = some p := by
    unfold SamplableSet.sample
    rw [if_neg (by omega), hlen, Nat.mod_one]
    exact ⟨w.items.get ⟨0, by omega⟩, List.get?_eq_get (by omega)⟩
  obtain ⟨p, hp⟩ := hs
  rw [hp]
  have hmem := (SamplableSet.sample_mem hp).2
  rw [hkeys, List.mem_singleton] at hmem
  simp only [hmem]
  simp [set_insert]

/-- A sampling loop collects nothing from an empty set. -/
theorem sample_distinct_empty (w : SamplableSet) (pick : Nat → Nat) (n : Nat) (l : List Node)
    (hkeys : w.keys = []) (h : DiscreteSIR.sample_distinct w pick n = some l) : l = [] := by
  obtain ⟨_, _, h3⟩ := sample_distinct_spec w pick n l h
  rcases l with _ | ⟨x, xs⟩
  · rfl
  · have := h3 x (List.mem_cons_self _ _)
    rw [hkeys] at this
    exact absurd this (List.not_mem_nil x)

/-- The tick of a `DiscreteSIR` whose only recovery candidate is `u`, when the binomial
draw is 1: the clock advances by 1 and, if the call returns, the batch is the recovery of
`u` followed by infections of candidates. -/
theorem discrete_tick_batch (s : Sim) (hk : s.kind = Kind.discrete) (u : Node)
    (hkeys : s.recovery_event_set_.keys = [u]) (hinf : s.infected_node_set_ ≠ [])
    (d : Draw) (hrec : d.nb_rec = 1) :
    (next_step s d).1.st.current_time_ = s.last_event_time_ + 1
    ∧ ((next_step s d).1.err = none →
        ∃ infs : List Node,
          (next_step s d).2
            = (u, Action.RECOVERY) :: infs.map (fun node => (node, Action.INFECTION))
          ∧ (∀ v ∈ infs, v ∈ s.infection_event_set_.keys)) := by
  have hlife : DiscreteSIR.get_lifetime s = some 1 := by
    unfold DiscreteSIR.get_lifetime
    rw [if_neg (by simpa using hinf)]
  have hstep : next_step s d = DiscreteSIR.next_step s d := by
    unfold next_step; rw [hk]
  rw [hstep]
  unfold DiscreteSIR.next_step
  rw [hlife]
  simp only [hrec]
  rw [sample_distinct_one s.recovery_event_set_ d.rec_pick u hkeys]
  simp only
  cases hs : DiscreteSIR.sample_distinct s.infection_event_set_ d.inf_pick d.nb_inf with
  | none =>
    refine ⟨rfl, fun herr => ?_⟩
    exact absurd herr (by simp [Res.fail])
  | some infs =>
    refine ⟨rfl, fun _ => ⟨infs, rfl, ?_⟩⟩
    exact (sample_distinct_spec _ _ _ _ hs).2.2

/-- The event loop of `evolve(1, ...)` on a `DiscreteSIR` with an infected node whose
clock shows 0, started at time 0: exactly one iteration, at time 1. -/
theorem discrete_single_tick (s : Sim) (hk : s.kind = Kind.discrete)
    (hlast : s.last_event_time_ = 0) (hinf : s.infected_node_set_ ≠ [])
    (a b : Bool) (d : Draw) (ds : List Draw) :
    BaseContagion.evolve_loop 0 1 a b (d :: ds) s
      = ⟨(BaseContagion.loop_body a b d s).st, (BaseContagion.loop_body a b d s).err,
          [(next_step s d).1.st.current_time_]⟩ := by
  have hlife : get_lifetime s = some 1 := by
    unfold get_lifetime
    rw [hk]
    show DiscreteSIR.get_lifetime s = some 1
    unfold DiscreteSIR.get_lifetime
    rw [if_neg (by simpa using hinf)]
  have hg : BaseContagion.loop_guard s 0 1 = true := by
    unfold BaseContagion.loop_guard
    rw [hlife, hlast]
    simp
  rw [evolve_loop_cons, if_pos hg]
  cases herr : (BaseContagion.loop_body a b d s).err with
  | some e => rfl
  | none =>
    obtain ⟨c1, c2, _⟩ := loop_body_clock a b d s 1 hlife
    have hg2 : BaseContagion.loop_guard (BaseContagion.loop_body a b d s).st 0 1 = false := by
      cases hgg : BaseContagion.loop_guard (BaseContagion.loop_body a b d s).st 0 1 with
      | false => rfl
      | true =>
        obtain ⟨l, hl, hle⟩ := loop_guard_true hgg
        have hl1 : l = 1 := get_lifetime_discrete (c1.trans hk) hl
        rw [c2, hlast, hl1] at hle
        norm_num at hle
    simp only
    rw [evolve_loop_of_guard_false _ 0 1 a b ds hg2]

/-- The states of the nodes after a list of infections. -/
theorem infections_states (infs : List Node) :
    ∀ (sv : Node → NodeState) (v : Node),
      ((infs.map (fun node => (node, Action.INFECTION))).foldl
          (fun sv (e : Event) => Function.update sv e.1 e.2.outcome) sv) v
        = if v ∈ infs then NodeState.I else sv v := by
  induction infs with
  | nil => intro sv v; simp
  | cons x l ih =>
    intro sv v
    rw [List.map_cons, List.foldl_cons, ih]
    by_cases h1 : v ∈ l
    · simp [h1]
    · by_cases h2 : v = x
      · subst h2; simp [h1, Action.outcome]
      · simp [h1, h2, Function.update_noteq h2]

/-- The states of the nodes after a batch made of the recovery of `u` and of infections. -/
theorem tick_batch_states (sv : Node → NodeState) (u : Node) (infs : List Node) (v : Node) :
    (((u, Action.RECOVERY) :: infs.map (fun node => (node, Action.INFECTION))).foldl
        (fun sv (e : Event) => Function.update sv e.1 e.2.outcome) sv) v
      = if v ∈ infs then NodeState.I else if v = u then NodeState.R else sv v := by
  rw [List.foldl_cons, infections_states]
  by_cases h1 : v ∈ infs
  · simp [h1]
  · by_cases h2 : v = u
    · subst h2; simp [h1, Action.outcome]
    · simp [h1, h2, Function.update_noteq h2]

end RecoveryTick

section RecoveryTickEffect

theorem evolve_state_vector (s : Sim) (period : ℚ) (a b : Bool) (draws : List Draw) :
    (BaseContagion.evolve s period a b draws).st.state_vector_
      = (BaseContagion.evolve_loop
          (if b = true ∧ s.macro_state_vector_.length = 0 then s.store_current_macro_state
            else s).current_time_ period a b draws
          (if b = true ∧ s.macro_state_vector_.length = 0 then s.store_current_macro_state
            else s)).st.state_vector_ := by
  unfold BaseContagion.evolve
  simp only
  split <;> rfl

/-- The tick of a `DiscreteSIR` whose only infected node is `u` and in which no node is
recovered, when the binomial draw is 1. -/
theorem discrete_recovery_tick (s : Sim) (hk : s.kind = Kind.discrete) (hpop : PopulationInv s)
    (hki : InfectionKeysInv s) (hrc : RecoveryInv s) (hw : DiscreteWeights s)
    (hnorec : s.recovered_node_set_ = []) (u : Node) (hu : u < s.size)
    (huI : s.state_vector_ u = NodeState.I)
    (honly : ∀ v, v < s.size → s.state_vector_ v = NodeState.I → v = u)
    (d : Draw) (hrec : d.nb_rec = 1) (a b : Bool) :
    s.infected_node_set_ = [u]
    ∧ s.recovery_event_set_.size = 1
    ∧ ((next_step s d).1.err = none →
        ∃ infs : List Node,
          (next_step s d).2
            = (u, Action.RECOVERY) :: infs.map (fun node => (node, Action.INFECTION))
          ∧ (∀ v ∈ infs, v < s.size ∧ s.state_vector_ v = NodeState.S))
    ∧ ((BaseContagion.loop_body a b d s).err = none →
        (BaseContagion.loop_body a b d s).st.state_vector_ u = NodeState.R
        ∧ (∀ v, v < s.size → v ≠ u →
            (BaseContagion.loop_body a b d s).st.state_vector_ v ≠ NodeState.R)
        ∧ ((∀ q ∈ s.infection_propensity_, q = 0) → ∀ v, v < s.size → v ≠ u →
            (BaseContagion.loop_body a b d s).st.state_vector_ v = NodeState.S)) := by
  have hinf : s.infected_node_set_ = [u] :=
    eq_singleton_of_nodup hpop.infected_nodup (fun v => by
      rw [hpop.infected_iff]
      constructor
      · intro h; exact honly v h.1 h.2
      · intro h; rw [h]; exact ⟨hu, huI⟩)
  have hkeys : s.recovery_event_set_.keys = [u] :=
    eq_singleton_of_nodup hrc.keys_nodup (fun v => by
      rw [hrc.keys_iff, hinf, List.mem_singleton])
  have hne : s.infected_node_set_ ≠ [] := by rw [hinf]; simp
  have hS : ∀ v, v < s.size → v ≠ u → s.state_vector_ v = NodeState.S := by
    intro v hv hvu
    cases hst : s.state_vector_ v with
    | S => rfl
    | I => exact absurd (honly v hv hst) hvu
    | R =>
      have := (hpop.recovered_iff v).2 ⟨hv, hst⟩
      rw [hnorec] at this
      exact absurd this (List.not_mem_nil v)
  obtain ⟨_, hbatch⟩ := discrete_tick_batch s hk u hkeys hne d hrec
  refine ⟨hinf, ?_, ?_, ?_⟩
  · have := congrArg List.length hkeys
    simpa [SamplableSet.keys, SamplableSet.size] using this
  · intro herr
    obtain ⟨infs, h1, h2⟩ := hbatch herr
    exact ⟨infs, h1, fun v hv => hki v (h2 v hv)⟩
  · intro herr
    obtain ⟨hstep, hsv⟩ := loop_body_states a b d s herr
    obtain ⟨infs, h1, h2⟩ := hbatch hstep
    have hun : u ∉ infs := by
      intro hmem
      have := (hki u (h2 u hmem)).2
      rw [huI] at this
      exact absurd this (by decide)
    rw [hsv, h1]
    refine ⟨?_, ?_, ?_⟩
    · rw [tick_batch_states, if_neg hun, if_pos rfl]
    · intro v hv hvu
      rw [tick_batch_states]
      by_cases hm : v ∈ infs
      · rw [if_pos hm]; decide
      · rw [if_neg hm, if_neg hvu, hS v hv hvu]; decide
    · intro hz v hv hvu
      have hempty : infs = [] := by
        rcases infs with _ | ⟨x, xs⟩
        · rfl
        · have hx := h2 x (List.mem_cons_self _ _)
          obtain ⟨p, hp, _⟩ := List.mem_map.1 hx
          have := hw hk p hp
          rw [hz p.2 this.2] at this
          exact absurd this.1 (lt_irrefl 0)
      rw [tick_batch_states, hempty, if_neg (List.not_mem_nil v), if_neg hvu]
      exact hS v hv hvu

end RecoveryTickEffect

/-- The state in which the event loop of `evolve` starts, next to the state of the call:
what the tick of a `DiscreteSIR` reads is the same in both. -/
theorem evolve_start_facts (s : Sim) (b : Bool) (hpop : PopulationInv s)
    (hki : InfectionKeysInv s) (hrc : RecoveryInv s) (hw : DiscreteWeights s) :
    ∀ s0 : Sim, s0 = (if b = true ∧ s.macro_state_vector_.length = 0
        then s.store_current_macro_state else s) →
      s0.kind = s.kind ∧ s0.current_time_ = s.current_time_
      ∧ s0.last_event_time_ = s.last_event_time_ ∧ s0.size = s.size
      ∧ s0.state_vector_ = s.state_vector_ ∧ s0.recovered_node_set_ = s.recovered_node_set_
      ∧ s0.infection_propensity_ = s.infection_propensity_
      ∧ PopulationInv s0 ∧ InfectionKeysInv s0 ∧ RecoveryInv s0 ∧ DiscreteWeights s0 := by
  intro s0 h0
  by_cases hc : b = true ∧ s.macro_state_vector_.length = 0
  · rw [if_pos hc] at h0
    rw [h0]
    exact ⟨rfl, rfl, rfl, rfl, rfl, rfl, rfl,
      PopulationInv.population_stable.toStableCore.store s hpop, hki,
      ⟨hrc.keys_nodup, hrc.keys_iff, hrc.weight_one⟩, hw⟩
  · rw [if_neg hc] at h0
    rw [h0]
    exact ⟨rfl, rfl, rfl, rfl, rfl, rfl, rfl, hpop, hki, hrc, hw⟩

/-- The tick of a single infected node after calls that returned. `DiscreteSIR` with recovery probability 1.0, in a state reached by calls that
returned, at time 0 (both clock members), with exactly one infected node `u`; with
probability 1.0 the binomial draw is its number of trials, the size of the recovery set.
That size is 1, so the draw is 1; no node is recovered at time 0; one call
`evolve(1, ...)`, with any flags, performs exactly one tick, at time 1, and needs no
further draw; in the tick that starts in this state the batch is the recovery of `u`
followed by infections of susceptible nodes; and when the call returns, `u` is recovered,
`current_time` is 1, no other node is recovered, and if the probability table is 0 at
every infected degree (so is then the propensity table, `-log(1 - 0) = 0`) every other
node is still susceptible. -/
theorem recovery_tick_of_reached (s : Sim) (h : Reached s) (hk : s.kind = Kind.discrete)
    (hp : s.recovery_rate_ = 1) (hcur : s.current_time_ = 0) (hlast : s.last_event_time_ = 0)
    (u : Node) (hu : u < s.size) (huI : s.state_vector_ u = NodeState.I)
    (honly : ∀ v, v < s.size → s.state_vector_ v = NodeState.I → v = u)
    (a b : Bool) (d : Draw) (ds : List Draw)
    (hrec : s.recovery_rate_ = 1 → d.nb_rec = s.recovery_event_set_.size) :
    s.recovery_event_set_.size = 1
    ∧ d.nb_rec = 1
    ∧ (∀ v, v < s.size → s.state_vector_ v ≠ NodeState.R)
    ∧ (BaseContagion.evolve s 1 a b (d :: ds)).err ≠ some Err.out_of_draws
    ∧ (BaseContagion.evolve s 1 a b (d :: ds)).event_times = [1]
    ∧ ((next_step s d).1.err = none →
        ∃ infs : List Node,
          (next_step s d).2
            = (u, Action.RECOVERY) :: infs.map (fun node => (node, Action.INFECTION))
          ∧ (∀ v ∈ infs, v < s.size ∧ s.state_vector_ v = NodeState.S))
    ∧ ((BaseContagion.evolve s 1 a b (d :: ds)).err = none →
        (BaseContagion.evolve s 1 a b (d :: ds)).st.state_vector_ u = NodeState.R
        ∧ (BaseContagion.evolve s 1 a b (d :: ds)).st.current_time_ = 1
        ∧ (∀ v, v < s.size → v ≠ u →
            (BaseContagion.evolve s 1 a b (d :: ds)).st.state_vector_ v ≠ NodeState.R)
        ∧ (∀ f : ℚ → ℚ, f 0 = 0 → s.infection_propensity_ = s.infection_rate_.map f →
            (∀ p ∈ s.infection_rate_, p = 0) →
            ∀ v, v < s.size → v ≠ u →
              (BaseContagion.evolve s 1 a b (d :: ds)).st.state_vector_ v = NodeState.S)) := by
  obtain ⟨hpop, hki⟩ := InfectionKeysInv.keys_of_reached h
  have hrc := RecoveryInv.recovery_of_reached h
  have hw := DiscreteWeights.weights_of_reached h
  have hnorec := (discrete_clock_fresh h hk).2 hlast
  have hcore := discrete_recovery_tick s hk hpop hki hrc hw hnorec u hu huI honly
  have hsize : s.recovery_event_set_.size = 1 := by
    have hinf : s.infected_node_set_ = [u] :=
      eq_singleton_of_nodup hpop.infected_nodup (fun v => by
        rw [hpop.infected_iff]
        constructor
        · intro h; exact honly v h.1 h.2
        · intro h; rw [h]; exact ⟨hu, huI⟩)
    have hkeys : s.recovery_event_set_.keys = [u] :=
      eq_singleton_of_nodup hrc.keys_nodup (fun v => by
        rw [hrc.keys_iff, hinf, List.mem_singleton])
    have := congrArg List.length hkeys
    simpa [SamplableSet.keys, SamplableSet.size] using this
  have hd : d.nb_rec = 1 := (hrec hp).trans hsize
  obtain ⟨f1, f2, f3, f4, f5, f6, f7, g1, g2, g3, g4⟩ :=
    evolve_start_facts s b hpop hki hrc hw _ rfl
  have hu0 : u < (if b = true ∧ s.macro_state_vector_.length = 0
      then s.store_current_macro_state else s).size := by rw [f4]; exact hu
  have hcore0 := discrete_recovery_tick _ (f1.trans hk) g1 g2 g3 g4 (f6.trans hnorec) u hu0
    (by rw [f5]; exact huI) (fun v hv hI => honly v (by rw [← f4]; exact hv) (by rw [← f5]; exact hI))
    d hd a b
  have hne0 : (if b = true ∧ s.macro_state_vector_.length = 0
      then s.store_current_macro_state else s).infected_node_set_ ≠ [] := by
    rw [hcore0.1]; simp
  have hloop := discrete_single_tick _ (f1.trans hk) (f3.trans hlast) hne0 a b d ds
  have htime := (discrete_tick_batch _ (f1.trans hk) u
    (eq_singleton_of_nodup g3.keys_nodup (fun v => by
      rw [g3.keys_iff, hcore0.1, List.mem_singleton])) hne0 d hd).1
  rw [f3, hlast] at htime
  have herr := evolve_err s 1 a b (d :: ds)
  have htimes := evolve_event_times s 1 a b (d :: ds)
  have hsv := evolve_state_vector s 1 a b (d :: ds)
  rw [f2, hcur, hloop] at herr htimes hsv
  simp only at herr htimes hsv
  refine ⟨hsize, hd, ?_, ?_, ?_, (hcore d hd a b).2.2.1, ?_⟩
  · intro v hv hR
    have := (hpop.recovered_iff v).2 ⟨hv, hR⟩
    rw [hnorec] at this
    exact absurd this (List.not_mem_nil v)
  · rw [herr]
    exact loop_body_err_ne_out_of_draws a b d _
  · rw [htimes, htime]; norm_num
  · intro hret
    have hbody := hret
    rw [herr] at hbody
    obtain ⟨r1, r2, r3⟩ := hcore0.2.2.2 hbody
    rw [hsv]
    refine ⟨r1, ?_, ?_, ?_⟩
    · rw [evolve_current_time s 1 a b (d :: ds) hret, hcur]; norm_num
    · intro v hv hvu
      exact r2 v (by rw [f4]; exact hv) hvu
    · intro f hf0 hf hz v hv hvu
      refine r3 ?_ v (by rw [f4]; exact hv) hvu
      intro q hq
      rw [f7, hf] at hq
      obtain ⟨p, hp1, hp2⟩ := List.mem_map.1 hq
      rw [← hp2, hz p hp1, hf0]

/-- An instance, on the single edge `{0,1}` with node 0 seeded, recovery probability 1 and a
probability table that is 0 at every infected degree: `evolve(1, true, true)` returns
after one tick at time 1, node 0 is recovered, node 1 is susceptible, the time is 1. -/
theorem recovery_tick_of_reached_instance :
    (BaseContagion.evolve (BaseContagion.infect_node_set
        (DiscreteSIR.create [(0, 1)] 1 [0, 0] (fun p => p)) [0]).st 1 true true
        [⟨0, 1, 0, fun _ => 0, fun _ => 0, fun _ => 0⟩]).err = none
    ∧ (BaseContagion.evolve (BaseContagion.infect_node_set
        (DiscreteSIR.create [(0, 1)] 1 [0, 0] (fun p => p)) [0]).st 1 true true
        [⟨0, 1, 0, fun _ => 0, fun _ => 0, fun _ => 0⟩]).event_times = [1]
    ∧ (BaseContagion.evolve (BaseContagion.infect_node_set
        (DiscreteSIR.create [(0, 1)] 1 [0, 0] (fun p => p)) [0]).st 1 true true
        [⟨0, 1, 0, fun _ => 0, fun _ => 0, fun _ => 0⟩]).st.state_vector_ 0 = NodeState.R
    ∧ (BaseContagion.evolve (BaseContagion.infect_node_set
        (DiscreteSIR.create [(0, 1)] 1 [0, 0] (fun p => p)) [0]).st 1 true true
        [⟨0, 1, 0, fun _ => 0, fun _ => 0, fun _ => 0⟩]).st.current_time_ = 1
    ∧ (BaseContagion.evolve (BaseContagion.infect_node_set
        (DiscreteSIR.create [(0, 1)] 1 [0, 0] (fun p => p)) [0]).st 1 true true
        [⟨0, 1, 0, fun _ => 0, fun _ => 0, fun _ => 0⟩]).st.state_vector_ 1 = NodeState.S := by
  have hsz : (BaseContagion.infect_node_set
      (DiscreteSIR.create [(0, 1)] 1 [0, 0] (fun p => p)) [0]).st.size = 2 := by
    with_unfolding_all decide
  have key := recovery_tick_of_reached
    (BaseContagion.infect_node_set (DiscreteSIR.create [(0, 1)] 1 [0, 0] (fun p => p)) [0]).st
    (Reached.infect_node_set [0] (Reached.discrete _ _ _ _) (by with_unfolding_all decide))
    (by with_unfolding_all decide) (by with_unfolding_all decide)
    (by with_unfolding_all decide) (by with_unfolding_all decide)
    0 (by with_unfolding_all decide) (by with_unfolding_all decide)
    (by
      intro v hv hI
      rw [hsz] at hv
      interval_cases v
      · rfl
      · exact absurd hI (by with_unfolding_all decide))
    true true ⟨0, 1, 0, fun _ => 0, fun _ => 0, fun _ => 0⟩ []
    (fun _ => by with_unfolding_all decide)
  have herr : (BaseContagion.evolve (BaseContagion.infect_node_set
      (DiscreteSIR.create [(0, 1)] 1 [0, 0] (fun p => p)) [0]).st 1 true true
      [⟨0, 1, 0, fun _ => 0, fun _ => 0, fun _ => 0⟩]).err = none := by
    with_unfolding_all decide
  obtain ⟨r1, r2, _, r4⟩ := key.2.2.2.2.2.2 herr
  exact ⟨herr, key.2.2.2.2.1, r1, r2,
    r4 (fun p => p) rfl (by with_unfolding_all decide) (by with_unfolding_all decide) 1
      (by rw [hsz]; decide) (by decide)⟩

section Forest

theorem Seeded.to_reached {s : Sim} {seeds : List Node} (h : Seeded s seeds) : Reached s := by
  induction h with
  | continuous el rr rates => exact Reached.continuous el rr rates
  | discrete el rp probs f => exact Reached.discrete el rp probs f
  | annealed n d rr rates c0 r0 => exact Reached.annealed n d rr rates c0 r0
  | reset hr he => exact Reached.reset hr he
  | infect_node_set node_set _ he ih => exact Reached.infect_node_set node_set ih he
  | infect_fraction fraction draws _ he ih => exact Reached.infect_fraction fraction draws ih he
  | evolve period a b draws _ he ih => exact Reached.evolve period a b draws ih he

theorem Action.outcome_ne (x : Action) : x.outcome ≠ NodeState.S := by
  cases x <;> decide

/-- Applied events make no node susceptible. -/
theorem outcomes_keep_infected (events : List Event) :
    ∀ (sv : Node → NodeState) (w : Node), sv w ≠ NodeState.S →
      (events.foldl (fun sv (e : Event) => Function.update sv e.1 e.2.outcome) sv) w
        ≠ NodeState.S := by
  induction events with
  | nil => intro sv w h; exact h
  | cons e rest ih =>
    intro sv w h
    rw [List.foldl_cons]
    apply ih
    by_cases hw : w = e.1
    · rw [hw, Function.update_same]; exact Action.outcome_ne e.2
    · rw [Function.update_noteq hw]; exact h

/-- The node of an applied event is not susceptible afterwards. -/
theorem outcomes_at_event (events : List Event) :
    ∀ (sv : Node → NodeState), ∀ e ∈ events,
      (events.foldl (fun sv (e : Event) => Function.update sv e.1 e.2.outcome) sv) e.1
        ≠ NodeState.S := by
  induction events with
  | nil => intro sv e he; exact absurd he (List.not_mem_nil e)
  | cons x rest ih =>
    intro sv e he
    rw [List.foldl_cons]
    rcases List.mem_cons.1 he with h1 | h1
    · apply outcomes_keep_infected
      rw [h1, Function.update_same]
      exact Action.outcome_ne x.2
    · exact ih _ e h1

/-- The infections of a batch made of recoveries followed by infections. -/
theorem batch_infections (recs infs : List Node) :
    ((recs.map (fun node => (node, Action.RECOVERY))
        ++ infs.map (fun node => (node, Action.INFECTION))).filter
      (fun e : Event => decide (e.2 = Action.INFECTION))).map Prod.fst = infs := by
  rw [List.filter_append]
  have h1 : (recs.map (fun node => (node, Action.RECOVERY))).filter
      (fun e : Event => decide (e.2 = Action.INFECTION)) = [] := by
    rw [List.filter_eq_nil_iff]
    intro e he
    obtain ⟨x, _, hx⟩ := List.mem_map.1 he
    rw [← hx]
    simp
  have h2 : (infs.map (fun node => (node, Action.INFECTION))).filter
      (fun e : Event => decide (e.2 = Action.INFECTION))
        = infs.map (fun node => (node, Action.INFECTION)) := by
    rw [List.filter_eq_self]
    intro e he
    obtain ⟨x, _, hx⟩ := List.mem_map.1 he
    rw [← hx]
    simp
  rw [h1, h2, List.nil_append, List.map_map]
  exact List.map_id _

/-- The transmission tree after an iteration of the event loop that returned. -/
theorem loop_body_tree_returned (a b : Bool) (d : Draw) (s : Sim)
    (herr : (BaseContagion.loop_body a b d s).err = none) :
    ∃ new : List Transmission,
      (BaseContagion.loop_body a b d s).st.transmission_tree_ = s.transmission_tree_ ++ new
      ∧ (new = []
        ∨ new.map (fun t => t.infectee)
            = ((next_step s d).2.filter (fun e => decide (e.2 = Action.INFECTION))).map
                Prod.fst) := by
  rcases loop_body_tree a b d s with h1 | ⟨ha, h1⟩
  · exact ⟨[], by rw [h1, List.append_nil], Or.inl rfl⟩
  · obtain ⟨c, c', hst⟩ := next_step_clock s d
    obtain ⟨new, hn1, _, hn3⟩ := update_transmission_tree_records d.infector_u
      (next_step s d).2 0 (next_step s d).1.st
    have hn1' : (BaseContagion.update_transmission_tree d.infector_u 0 (next_step s d).2
        (next_step s d).1.st).st.transmission_tree_ = s.transmission_tree_ ++ new := by
      rw [hn1, hst]
    refine ⟨new, h1.trans hn1', ?_⟩
    by_cases hlen : (next_step s d).2.length > 0
    · right
      apply hn3
      rw [loop_body_eq] at herr
      obtain ⟨e1, herr2⟩ := Res.andThen_err_none herr
      simp only [if_pos (And.intro ha hlen)] at herr2
      exact (Res.andThen_err_none herr2).1
    · left
      have hnil : (next_step s d).2 = [] := List.length_eq_zero.1 (by omega)
      rw [hnil, update_transmission_tree_nil, Res.ok_st, hst] at hn1
      have : s.transmission_tree_ ++ new = s.transmission_tree_ ++ [] := by
        rw [List.append_nil]; exact hn1.symm
      exact List.append_cancel_left this

end Forest

section ForestSteps

/-- Records appended for distinct nodes that were susceptible and are no longer so, while
no node becomes susceptible, keep the forest. -/
theorem ForestInv.of_records {s s' : Sim} {seeds : List Node} (h : ForestInv s seeds)
    (l : List Node)
    (htree : s'.transmission_tree_.map (fun t => t.infectee)
      = s.transmission_tree_.map (fun t => t.infectee) ++ l)
    (hnd : l.Nodup)
    (hl : ∀ v ∈ l, s.state_vector_ v = NodeState.S ∧ s'.state_vector_ v ≠ NodeState.S)
    (hmono : ∀ w, s.state_vector_ w ≠ NodeState.S → s'.state_vector_ w ≠ NodeState.S) :
    ForestInv s' seeds := by
  refine ⟨?_, ?_, ?_, ?_⟩
  · rw [htree]
    refine List.Nodup.append h.infectee_nodup hnd ?_
    intro v hv1 hv2
    exact h.infectee_state v hv1 (hl v hv2).1
  · intro v hv
    rw [htree] at hv
    rcases List.mem_append.1 hv with h1 | h1
    · exact hmono v (h.infectee_state v h1)
    · exact (hl v h1).2
  · intro v hv
    exact hmono v (h.seed_state v hv)
  · intro v hv hmem
    rw [htree] at hmem
    rcases List.mem_append.1 hmem with h1 | h1
    · exact h.seed_root v hv h1
    · exact h.seed_state v hv (hl v h1).1

/-- Seeding nodes that were susceptible, with the tree left alone, keeps the forest. -/
theorem ForestInv.forest_seeding {s s' : Sim} {seeds : List Node} (h : ForestInv s seeds)
    (l : List Node) (htree : s'.transmission_tree_ = s.transmission_tree_)
    (hl : ∀ v ∈ l, s.state_vector_ v = NodeState.S ∧ s'.state_vector_ v ≠ NodeState.S)
    (hmono : ∀ w, s.state_vector_ w ≠ NodeState.S → s'.state_vector_ w ≠ NodeState.S) :
    ForestInv s' (seeds ++ l) := by
  refine ⟨?_, ?_, ?_, ?_⟩
  · rw [htree]; exact h.infectee_nodup
  · intro v hv
    rw [htree] at hv
    exact hmono v (h.infectee_state v hv)
  · intro v hv
    rcases List.mem_append.1 hv with h1 | h1
    · exact hmono v (h.seed_state v h1)
    · exact (hl v h1).2
  · intro v hv hmem
    rw [htree] at hmem
    rcases List.mem_append.1 hv with h1 | h1
    · exact h.seed_root v h1 hmem
    · exact h.infectee_state v hmem (hl v h1).1

/-- In every case `infect` leaves the tree alone and makes no node susceptible. -/
theorem infect_tree_states (s : Sim) (v : Node) :
    (infect s v).st.transmission_tree_ = s.transmission_tree_
    ∧ ∀ w, s.state_vector_ w ≠ NodeState.S → (infect s v).st.state_vector_ w ≠ NodeState.S := by
  refine ⟨(infect_params_history s v).2.transmission_tree_, ?_⟩
  intro w hw
  by_cases hv : v < s.size
  · by_cases h : s.state_vector_ v = NodeState.S
    · rw [(infect_effect s v hv h).state_vector_]
      by_cases hwv : w = v
      · rw [hwv, Function.update_same]; decide
      · rw [Function.update_noteq hwv]; exact hw
    · rw [infect_of_not_susceptible s v hv h]; exact hw
  · rw [infect_of_not_node s v hv]; exact hw

/-- An iteration of the event loop that returned keeps the forest. -/
theorem ForestInv.forest_loop_body {s : Sim} {seeds : List Node} (h : ForestInv s seeds)
    (hv : Visited s) (a b : Bool) (d : Draw)
    (herr : (BaseContagion.loop_body a b d s).err = none) :
    ForestInv (BaseContagion.loop_body a b d s).st seeds := by
  obtain ⟨_, hki⟩ := kept_visited InfectionKeysInv.kept_keys
    (fun _ hr => InfectionKeysInv.keys_of_reached hr) hv
  obtain ⟨recs, infs, hev, _, hnd, _, hinfs⟩ := next_step_batch s d
  obtain ⟨_, hsv⟩ := loop_body_states a b d s herr
  obtain ⟨new, hn1, hn2⟩ := loop_body_tree_returned a b d s herr
  have hmono : ∀ w, s.state_vector_ w ≠ NodeState.S →
      (BaseContagion.loop_body a b d s).st.state_vector_ w ≠ NodeState.S := by
    intro w hw
    rw [hsv]
    exact outcomes_keep_infected _ _ w hw
  have htree : (BaseContagion.loop_body a b d s).st.transmission_tree_.map (fun t => t.infectee)
      = s.transmission_tree_.map (fun t => t.infectee) ++ new.map (fun t => t.infectee) := by
    rw [hn1, List.map_append]
  rcases hn2 with hn2 | hn2
  · refine h.of_records [] ?_ List.nodup_nil (fun v hv => absurd hv (List.not_mem_nil v)) hmono
    rw [htree, hn2]; rfl
  · rw [hev, batch_infections] at hn2
    rw [hn2] at htree
    refine h.of_records infs htree hnd ?_ hmono
    intro v hv
    refine ⟨(hki v (hinfs v hv)).2, ?_⟩
    rw [hsv]
    have hmem : (v, Action.INFECTION) ∈ (next_step s d).2 := by
      rw [hev]
      exact List.mem_append_right _ (List.mem_map.2 ⟨v, hv, rfl⟩)
    exact outcomes_at_event _ _ _ hmem

/-- The event loop of a call of `evolve` that returned keeps the forest. -/
theorem ForestInv.forest_evolve_loop (seeds : List Node) (t0 period : ℚ) (a b : Bool)
    (draws : List Draw) :
    ∀ s, Visited s → ForestInv s seeds →
      (BaseContagion.evolve_loop t0 period a b draws s).err = none →
      ForestInv (BaseContagion.evolve_loop t0 period a b draws s).st seeds := by
  induction draws with
  | nil =>
    intro s _ h _
    unfold BaseContagion.evolve_loop
    split <;> exact h
  | cons d ds ih =>
    intro s hv h herr
    by_cases hg : BaseContagion.loop_guard s t0 period = true
    · obtain ⟨h1, h2, h3⟩ := evolve_loop_err_none t0 period a b d ds s hg herr
      rw [h2]
      exact ih _ (Visited.iteration a b d hv h1) (h.forest_loop_body hv a b d h1) h3
    · unfold BaseContagion.evolve_loop
      rw [if_neg hg]
      exact h

/-- A call of `evolve` that returned keeps the forest. -/
theorem ForestInv.forest_evolve {s : Sim} {seeds : List Node} (h : ForestInv s seeds)
    (hr : Reached s) (period : ℚ) (a b : Bool) (draws : List Draw)
    (herr : (BaseContagion.evolve s period a b draws).err = none) :
    ForestInv (BaseContagion.evolve s period a b draws).st seeds := by
  unfold BaseContagion.evolve at herr ⊢
  simp only at herr ⊢
  have h0 : Visited (if b = true ∧ s.macro_state_vector_.length = 0
      then s.store_current_macro_state else s)
      ∧ ForestInv (if b = true ∧ s.macro_state_vector_.length = 0
      then s.store_current_macro_state else s) seeds := by
    split
    · exact ⟨Visited.store (Visited.reached hr),
        ⟨h.infectee_nodup, h.infectee_state, h.seed_state, h.seed_root⟩⟩
    · exact ⟨Visited.reached hr, h⟩
  split
  · rename_i e he
    rw [he] at herr
    simp only at herr
    rw [he] at herr
    exact absurd herr (by simp)
  · rename_i he
    have h1 := ForestInv.forest_evolve_loop seeds _ period a b draws _ h0.1 h0.2 he
    exact ⟨h1.infectee_nodup, h1.infectee_state, h1.seed_state, h1.seed_root⟩

end ForestSteps

section RootedSteps

theorem Rooted.rooted_fields {s s' : Sim} {seeds : List Node} (h : Rooted s seeds)
    (hg : s'.infection_generation_ = s.infection_generation_)
    (ht : s'.transmission_tree_ = s.transmission_tree_) : Rooted s' seeds :=
  ⟨by rw [hg, ht]; exact h.generation_known, by rw [ht]; exact h.infector_known⟩

/-- The record that `update_transmission_tree` appends for an infector with a stored
generation keeps the records rooted. -/
theorem Rooted.append_record {s : Sim} {seeds : List Node} (h : Rooted s seeds)
    (u v : Node) (g : Generation) (hu : s.infection_generation_ u = some g)
    (time : Time) (k : InfectedDegree) :
    Rooted { s with
      infection_generation_ := Function.update s.infection_generation_ v (some (g + 1)),
      transmission_tree_ := s.transmission_tree_ ++
        [({ time := time, generation := g, infector := u, infectee := v,
            infected_degree := k } : Transmission)] } seeds := by
  constructor
  · intro w hw
    show w ∈ seeds ∨ w ∈ (s.transmission_tree_ ++
      [(⟨time, g, u, v, k⟩ : Transmission)]).map (fun t : Transmission => t.infectee)
    have hw' : Function.update s.infection_generation_ v (some (g + 1)) w ≠ none := hw
    rw [List.map_append]
    by_cases hwv : w = v
    · right
      rw [hwv]
      exact List.mem_append_right _ (List.mem_singleton.2 rfl)
    · rw [Function.update_noteq hwv] at hw'
      rcases h.generation_known w hw' with h1 | h1
      · exact Or.inl h1
      · exact Or.inr (List.mem_append_left _ h1)
  · intro i t ht
    have ht' : (s.transmission_tree_ ++ [(⟨time, g, u, v, k⟩ : Transmission)]).get? i
        = some t := ht
    show t.infector ∈ seeds ∨ t.infector ∈ ((s.transmission_tree_ ++
      [(⟨time, g, u, v, k⟩ : Transmission)]).take i).map (fun t : Transmission => t.infectee)
    by_cases hi : i < s.transmission_tree_.length
    · rw [List.get?_eq_getElem?, List.getElem?_append_left hi, ← List.get?_eq_getElem?] at ht'
      rw [List.take_append_of_le_length (le_of_lt hi)]
      exact h.infector_known i t ht'
    · rw [List.get?_eq_getElem?, List.getElem?_append_right (by omega),
        ← List.get?_eq_getElem?] at ht'
      have hi0 : i - s.transmission_tree_.length = 0 := by
        by_contra hne
        obtain ⟨m, hm⟩ := Nat.exists_eq_succ_of_ne_zero hne
        rw [hm] at ht'
        simp at ht'
      rw [hi0] at ht'
      have hte : t = (⟨time, g, u, v, k⟩ : Transmission) := by
        simpa using ht'.symm
      have hil : i = s.transmission_tree_.length := by omega
      rw [hil, List.take_left, hte]
      exact h.generation_known u (by rw [hu]; simp)

/-- The function `update_transmission_tree` keeps the records rooted, whether it returns
or not. -/
theorem Rooted.of_update_tree (seeds : List Node) (us : Nat → ℚ) (events : List Event) :
    ∀ (i : Nat) (s : Sim), Rooted s seeds →
      Rooted (BaseContagion.update_transmission_tree us i events s).st seeds := by
  induction events with
  | nil =>
    intro i s h
    rw [update_transmission_tree_nil]
    exact h
  | cons e rest ih =>
    intro i s h
    cases he : e.2 with
    | RECOVERY =>
      rw [update_transmission_tree_recovery _ _ _ _ _ he]
      exact ih _ _ h
    | INFECTION =>
      cases hu : BaseContagion.random_infected_neighbor s e.1 (us i) with
      | none =>
        rw [update_transmission_tree_raise us i e rest s he (fun u g h1 _ => by
          rw [hu] at h1; exact absurd h1 (by simp))]
        exact h
      | some u =>
        cases hg : s.infection_generation_ u with
        | none =>
          rw [update_transmission_tree_raise us i e rest s he (fun u' g h1 h2 => by
            rw [hu] at h1
            have : u = u' := Option.some.inj h1
            rw [← this, hg] at h2
            exact absurd h2 (by simp))]
          exact h
        | some g =>
          obtain ⟨k, _, hk⟩ := update_transmission_tree_infection us i e rest s he u g hu hg
          rw [hk]
          exact ih _ _ (h.append_record u e.1 g hg s.current_time_ k)

/-- Applying a batch of events leaves the generation map and the tree alone. -/
theorem apply_events_history (events : List Event) (s : Sim) :
    SameHistory s (BaseContagion.apply_events events s).st := by
  unfold BaseContagion.apply_events
  refine for_each_rel SameHistory SameHistory.refl_history
    (fun _ _ _ h1 h2 => h1.trans_history h2) BaseContagion.apply_event ?_ events s
  intro a e
  unfold BaseContagion.apply_event
  split
  · exact (infect_params_history a e.1).2
  · exact (recover_params_history a e.1).2

/-- An iteration of the event loop keeps the records rooted, whether it returns or not. -/
theorem Rooted.rooted_loop_body {s : Sim} {seeds : List Node} (h : Rooted s seeds)
    (a b : Bool) (d : Draw) : Rooted (BaseContagion.loop_body a b d s).st seeds := by
  rw [loop_body_eq]
  obtain ⟨c, c', hst⟩ := next_step_clock s d
  have h1 : Rooted (next_step s d).1.st seeds := by
    rw [hst]; exact h.rooted_fields rfl rfl
  refine Res.andThen_inv (P := fun x => Rooted x seeds) h1 ?_
  intro s1 hs1
  refine Res.andThen_inv (P := fun x => Rooted x seeds) ?_ ?_
  · split
    · exact Rooted.of_update_tree seeds _ _ _ _ hs1
    · exact hs1
  · intro s2 hs2
    refine Res.andThen_inv (P := fun x => Rooted x seeds) ?_ ?_
    · exact hs2.rooted_fields (apply_events_history _ s2).infection_generation_
        (apply_events_history _ s2).transmission_tree_
    · intro s3 hs3
      simp only [Res.ok_st]
      split
      · exact hs3.rooted_fields rfl rfl
      · exact hs3

theorem Rooted.rooted_evolve_loop (seeds : List Node) (t0 period : ℚ) (a b : Bool)
    (draws : List Draw) :
    ∀ s, Rooted s seeds → Rooted (BaseContagion.evolve_loop t0 period a b draws s).st seeds := by
  induction draws with
  | nil =>
    intro s h
    unfold BaseContagion.evolve_loop
    split <;> exact h
  | cons d ds ih =>
    intro s h
    rw [evolve_loop_cons]
    split
    · split
      · exact h.rooted_loop_body a b d
      · exact ih _ (h.rooted_loop_body a b d)
    · exact h

/-- A call of `evolve` keeps the records rooted, whether it returns or not. -/
theorem Rooted.rooted_evolve {s : Sim} {seeds : List Node} (h : Rooted s seeds)
    (period : ℚ) (a b : Bool) (draws : List Draw) :
    Rooted (BaseContagion.evolve s period a b draws).st seeds := by
  unfold BaseContagion.evolve
  simp only
  have h0 : Rooted (if b = true ∧ s.macro_state_vector_.length = 0
      then s.store_current_macro_state else s) seeds := by
    split
    · exact h.rooted_fields rfl rfl
    · exact h
  have h1 := Rooted.rooted_evolve_loop seeds (if b = true ∧ s.macro_state_vector_.length = 0
      then s.store_current_macro_state else s).current_time_ period a b draws _ h0
  split
  · exact h1
  · exact h1.rooted_fields rfl rfl

/-- Seeding keeps the records rooted, when the nodes that get a generation are among the
new seeds. -/
theorem Rooted.rooted_seeding {s s' : Sim} {seeds : List Node} (h : Rooted s seeds)
    (l : List Node) (htree : s'.transmission_tree_ = s.transmission_tree_)
    (hgen : ∀ v, s'.infection_generation_ v ≠ none →
      s.infection_generation_ v ≠ none ∨ v ∈ l) :
    Rooted s' (seeds ++ l) := by
  constructor
  · intro v hv
    rw [htree]
    rcases hgen v hv with h1 | h1
    · rcases h.generation_known v h1 with h2 | h2
      · exact Or.inl (List.mem_append_left _ h2)
      · exact Or.inr h2
    · exact Or.inl (List.mem_append_right _ h1)
  · intro i t ht
    rw [htree] at ht ⊢
    rcases h.infector_known i t ht with h2 | h2
    · exact Or.inl (List.mem_append_left _ h2)
    · exact Or.inr h2

end RootedSteps

section ForestProof

/-- Distinct infectees, seeds that are no infectee and infectors that are seeds or earlier
infectees: no record has for infectee the infector of a record that is not later. -/
theorem forest_acyclic (tree : List Transmission) (seeds : List Node)
    (hnd : (tree.map (fun t => t.infectee)).Nodup)
    (hroot : ∀ v ∈ seeds, v ∉ tree.map (fun t => t.infectee))
    (hinf : ∀ i t, tree.get? i = some t →
      t.infector ∈ seeds ∨ t.infector ∈ (tree.take i).map (fun t => t.infectee)) :
    ∀ i j ti tj, tree.get? i = some ti → tree.get? j = some tj → i ≤ j →
      tj.infectee ≠ ti.infector := by
  intro i j ti tj hi hj hij heq
  have hjm : tj.infectee ∈ tree.map (fun t => t.infectee) :=
    List.mem_map.2 ⟨tj, List.get?_mem hj, rfl⟩
  rcases hinf i ti hi with h1 | h1
  · exact hroot _ h1 (heq ▸ hjm)
  · obtain ⟨t', ht', hte⟩ := List.mem_map.1 h1
    obtain ⟨k, hk⟩ := List.mem_iff_getElem?.1 ht'
    rw [List.getElem?_take] at hk
    by_cases hki : k < i
    · rw [if_pos hki] at hk
      rw [List.get?_eq_getElem?] at hj
      have hjl : j < tree.length := by
        by_contra hc
        rw [List.getElem?_eq_none (by omega)] at hj
        exact absurd hj (by simp)
      have h2 := (List.nodup_iff_getElem?_ne_getElem?.1 hnd) k j (by omega)
        (by rw [List.length_map]; exact hjl)
      apply h2
      rw [List.getElem?_map, List.getElem?_map, hk, hj]
      show some t'.infectee = some tj.infectee
      rw [hte, heq]
    · rw [if_neg hki] at hk
      exact absurd hk (by simp)

/-- In every case `infect_node_set` leaves the tree alone and makes no node susceptible. -/
theorem infect_node_set_tree_states (s : Sim) (node_set : List Node) :
    (BaseContagion.infect_node_set s node_set).st.transmission_tree_ = s.transmission_tree_
    ∧ ∀ w, s.state_vector_ w ≠ NodeState.S →
        (BaseContagion.infect_node_set s node_set).st.state_vector_ w ≠ NodeState.S :=
  infect_node_set_rel
    (fun a b : Sim => b.transmission_tree_ = a.transmission_tree_
      ∧ ∀ w, a.state_vector_ w ≠ NodeState.S → b.state_vector_ w ≠ NodeState.S)
    (fun _ => ⟨rfl, fun _ h => h⟩)
    (fun _ _ _ h1 h2 => ⟨h2.1.trans h1.1, fun w hw => h2.2 w (h1.2 w hw)⟩)
    infect_tree_states (fun _ _ => ⟨rfl, fun _ h => h⟩) s node_set

/-- In every case `infect_fraction` leaves the tree alone and makes no node susceptible. -/
theorem infect_fraction_tree_states (s : Sim) (fraction : ℚ) (draws : List ℚ) :
    (BaseContagion.infect_fraction s fraction draws).st.transmission_tree_
      = s.transmission_tree_
    ∧ ∀ w, s.state_vector_ w ≠ NodeState.S →
        (BaseContagion.infect_fraction s fraction draws).st.state_vector_ w ≠ NodeState.S :=
  infect_fraction_loop_rel
    (fun a b : Sim => b.transmission_tree_ = a.transmission_tree_
      ∧ ∀ w, a.state_vector_ w ≠ NodeState.S → b.state_vector_ w ≠ NodeState.S)
    (fun _ => ⟨rfl, fun _ h => h⟩)
    (fun _ _ _ h1 h2 => ⟨h2.1.trans h1.1, fun w hw => h2.2 w (h1.2 w hw)⟩)
    infect_tree_states (fun _ _ => ⟨rfl, fun _ h => h⟩)
    (BaseContagion.number_of_infection s fraction) draws 0 s

/-- The forest since the construction or the last `reset()`. -/
theorem forest_of_seeded {s : Sim} {seeds : List Node} (h : Seeded s seeds) :
    ForestInv s seeds ∧ Rooted s seeds := by
  induction h with
  | continuous el rr rates =>
    exact ⟨⟨List.nodup_nil, fun v hv => absurd hv (List.not_mem_nil v),
      fun v hv => absurd hv (List.not_mem_nil v), fun v hv => absurd hv (List.not_mem_nil v)⟩,
      ⟨fun v hv => absurd rfl hv, fun i t ht => absurd ht (by simp [ContinuousSIR.create])⟩⟩
  | discrete el rp probs f =>
    exact ⟨⟨List.nodup_nil, fun v hv => absurd hv (List.not_mem_nil v),
      fun v hv => absurd hv (List.not_mem_nil v), fun v hv => absurd hv (List.not_mem_nil v)⟩,
      ⟨fun v hv => absurd rfl hv, fun i t ht => absurd ht (by simp [DiscreteSIR.create])⟩⟩
  | annealed n d rr rates c0 r0 =>
    exact ⟨⟨List.nodup_nil, fun v hv => absurd hv (List.not_mem_nil v),
      fun v hv => absurd hv (List.not_mem_nil v), fun v hv => absurd hv (List.not_mem_nil v)⟩,
      ⟨fun v hv => absurd rfl hv,
        fun i t ht => absurd ht (by simp [AnnealedContinuousSIR.create])⟩⟩
  | @reset s hr herr =>
    have hc := reset_all_susceptible s
      (PopulationInv.population_of_reachable hr.to_reachable) herr
    refine ⟨⟨?_, ?_, fun v hv => absurd hv (List.not_mem_nil v),
      fun v hv => absurd hv (List.not_mem_nil v)⟩, ⟨?_, ?_⟩⟩
    · rw [hc.transmission_tree_]; exact List.nodup_nil
    · rw [hc.transmission_tree_]; intro v hv; exact absurd hv (List.not_mem_nil v)
    · intro v hv; exact absurd (hc.population.infection_generation_ v) hv
    · rw [hc.transmission_tree_]; intro i t ht; exact absurd ht (by simp)
  | @infect_node_set s seeds node_set _ herr ih =>
    obtain ⟨htree, hmono⟩ := infect_node_set_tree_states s node_set
    obtain ⟨_, heff⟩ := infect_node_set_effect node_set s herr
    refine ⟨ih.1.forest_seeding _ htree ?_ hmono, ih.2.rooted_seeding _ htree ?_⟩
    · intro v hv
      obtain ⟨hv1, hv2⟩ := List.mem_filter.1 hv
      have hS : s.state_vector_ v = NodeState.S := of_decide_eq_true hv2
      refine ⟨hS, ?_⟩
      rw [(heff v).1, if_pos ⟨hv1, hS⟩]
      decide
    · intro v hv
      rw [(heff v).2] at hv
      by_cases hc : v ∈ node_set ∧ s.state_vector_ v = NodeState.S
      · exact Or.inr (List.mem_filter.2 ⟨hc.1, decide_eq_true hc.2⟩)
      · rw [if_neg hc] at hv
        exact Or.inl hv
  | @infect_fraction s seeds fraction draws _ herr ih =>
    obtain ⟨htree, hmono⟩ := infect_fraction_tree_states s fraction draws
    obtain ⟨l, _, _, hl1, hl2⟩ := infect_fraction_loop_effect
      (BaseContagion.number_of_infection s fraction) draws 0 s (Nat.zero_le _) herr
    refine ⟨ih.1.forest_seeding _ htree ?_ hmono, ih.2.rooted_seeding _ htree ?_⟩
    · intro v hv
      obtain ⟨_, hv2⟩ := List.mem_filter.1 hv
      have h2 := of_decide_eq_true hv2
      refine ⟨h2.1, ?_⟩
      rw [h2.2]
      decide
    · intro v hv
      by_cases hc : v ∈ l
      · right
        obtain ⟨a1, a2, a3, _⟩ := hl1 v hc
        exact List.mem_filter.2 ⟨List.mem_range.2 a1, decide_eq_true ⟨a2, a3⟩⟩
      · left
        have h3 : (BaseContagion.infect_fraction s fraction draws).st.infection_generation_ v
            = s.infection_generation_ v := (hl2 v hc).2
        rw [h3] at hv
        exact hv
  | @evolve s seeds period a b draws hs herr ih =>
    exact ⟨ih.1.forest_evolve hs.to_reached period a b draws herr, ih.2.rooted_evolve period a b draws⟩

end ForestProof

/-- The transmission forest along calls that returned. Since the construction or the last `reset()`, along seeding calls and calls of
`evolve` that returned (with any flags) and without `clear()`: no node is the infectee of
two records of the transmission tree; a node that `infect_node_set` or `infect_fraction`
infected is the infectee of no record; the infector of every record is such a seed or the
infectee of an earlier record, so that no record has for infectee the infector of a record
that is not later: the records form a forest rooted at the seeds.  The seeds and the
infectees are not susceptible. -/
theorem transmission_forest_of_seeded (s : Sim) (seeds : List Node) (h : Seeded s seeds) :
    (s.transmission_tree_.map (fun t => t.infectee)).Nodup
    ∧ (∀ v ∈ seeds, v ∉ s.transmission_tree_.map (fun t => t.infectee))
    ∧ (∀ i t, s.transmission_tree_.get? i = some t →
        t.infector ∈ seeds
          ∨ t.infector ∈ (s.transmission_tree_.take i).map (fun t => t.infectee))
    ∧ (∀ i j ti tj, s.transmission_tree_.get? i = some ti →
        s.transmission_tree_.get? j = some tj → i ≤ j → tj.infectee ≠ ti.infector)
    ∧ (∀ v ∈ seeds, s.state_vector_ v ≠ NodeState.S)
    ∧ (∀ t ∈ s.transmission_tree_, s.state_vector_ t.infectee ≠ NodeState.S) := by
  obtain ⟨hf, hr⟩ := forest_of_seeded h
  refine ⟨hf.infectee_nodup, hf.seed_root, hr.infector_known,
    forest_acyclic _ seeds hf.infectee_nodup hf.seed_root hr.infector_known,
    hf.seed_state, ?_⟩
  intro t ht
  exact hf.infectee_state _ (List.mem_map.2 ⟨t, ht, rfl⟩)

/-- An instance, on the path `0 - 1 - 2` of a `DiscreteSIR` with node 0 seeded: two ticks
infect node 1 from node 0, then node 2 from node 1; the two records have distinct
infectees and the seed 0 is no infectee. -/
theorem transmission_forest_of_seeded_instance :
    (BaseContagion.evolve (BaseContagion.infect_node_set
        (DiscreteSIR.create [(0, 1), (1, 2)] (1 / 2) [0, 1 / 2, 1 / 2] (fun p => p)) [0]).st
        2 true false
        [⟨0, 0, 1, fun _ => 0, fun _ => 0, fun _ => 0⟩,
         ⟨0, 0, 1, fun _ => 0, fun _ => 0, fun _ => 0⟩]).st.transmission_tree_
      = [⟨1, 0, 0, 1, 1⟩, ⟨2, 1, 1, 2, 1⟩]
    ∧ ((BaseContagion.evolve (BaseContagion.infect_node_set
        (DiscreteSIR.create [(0, 1), (1, 2)] (1 / 2) [0, 1 / 2, 1 / 2] (fun p => p)) [0]).st
        2 true false
        [⟨0, 0, 1, fun _ => 0, fun _ => 0, fun _ => 0⟩,
         ⟨0, 0, 1, fun _ => 0, fun _ => 0, fun _ => 0⟩]).st.transmission_tree_.map
          (fun t => t.infectee)).Nodup
    ∧ 0 ∉ (BaseContagion.evolve (BaseContagion.infect_node_set
        (DiscreteSIR.create [(0, 1), (1, 2)] (1 / 2) [0, 1 / 2, 1 / 2] (fun p => p)) [0]).st
        2 true false
        [⟨0, 0, 1, fun _ => 0, fun _ => 0, fun _ => 0⟩,
         ⟨0, 0, 1, fun _ => 0, fun _ => 0, fun _ => 0⟩]).st.transmission_tree_.map
          (fun t => t.infectee) := by
  have key := transmission_forest_of_seeded _ _
    (Seeded.evolve 2 true false
      [⟨0, 0, 1, fun _ => 0, fun _ => 0, fun _ => 0⟩,
       ⟨0, 0, 1, fun _ => 0, fun _ => 0, fun _ => 0⟩]
      (Seeded.infect_node_set [0]
        (Seeded.discrete [(0, 1), (1, 2)] (1 / 2) [0, 1 / 2, 1 / 2] (fun p => p))
        (by with_unfolding_all decide))
      (by with_unfolding_all decide))
  exact ⟨by with_unfolding_all decide, key.1, key.2.1 0 (by with_unfolding_all decide)⟩

section KeptCoreEngine

variable {P : Sim → Prop}

theorem core_update_transmission_tree (hP : KeptCore P) (us : Nat → ℚ) (events : List Event) :
    ∀ (i : Nat) (s : Sim), P s → P (BaseContagion.update_transmission_tree us i events s).st := by
  intro i s h
  obtain ⟨g, tr, hg⟩ := update_transmission_tree_frame us events i s
  rw [hg]
  exact hP.tree _ tr (hP.generation s g h)

theorem core_apply_events (hP : KeptCore P) (events : List Event) (s : Sim) (h : P s)
    (herr : (BaseContagion.apply_events events s).err = none) :
    P (BaseContagion.apply_events events s).st := by
  apply for_each_kept P _ _ events s h herr
  intro s event h
  unfold BaseContagion.apply_event
  cases event.2
  · exact hP.recover s _ h
  · exact hP.infect s _ h

theorem core_loop_body (hP : KeptCore P) (a b : Bool) (d : Draw) (s : Sim) (h : P s)
    (herr : (BaseContagion.loop_body a b d s).err = none) :
    P (BaseContagion.loop_body a b d s).st := by
  rw [loop_body_eq] at herr ⊢
  have h0 : P (next_step s d).1.st := by
    obtain ⟨t, t', ht⟩ := next_step_clock s d
    rw [ht]; exact hP.clock s t t' h
  apply Res.andThen_kept herr (fun _ => h0)
  intro s1 h1 herr1
  apply Res.andThen_kept herr1
  · intro _
    split
    · exact core_update_transmission_tree hP _ _ _ _ h1
    · exact h1
  · intro s2 h2 herr2
    apply Res.andThen_kept herr2 (fun e => core_apply_events hP _ _ h2 e)
    intro s3 h3 _
    simp only [Res.ok_st]
    split
    · exact hP.snapshot s3 _ h3
    · exact h3

theorem core_evolve_loop (hP : KeptCore P) (t0 period : ℚ) (a b : Bool) (draws : List Draw) :
    ∀ s, P s → (BaseContagion.evolve_loop t0 period a b draws s).err = none →
      P (BaseContagion.evolve_loop t0 period a b draws s).st := by
  induction draws with
  | nil =>
    intro s h _
    unfold BaseContagion.evolve_loop
    split <;> exact h
  | cons d ds ih =>
    intro s h herr
    by_cases hg : BaseContagion.loop_guard s t0 period = true
    · obtain ⟨h1, h2, h3⟩ := evolve_loop_err_none t0 period a b d ds s hg herr
      rw [h2]
      exact ih _ (core_loop_body hP a b d s h h1) h3
    · unfold BaseContagion.evolve_loop
      rw [if_neg hg]
      exact h

theorem core_evolve (hP : KeptCore P) (s : Sim) (period : ℚ) (a b : Bool) (draws : List Draw)
    (h : P s) (herr : (BaseContagion.evolve s period a b draws).err = none) :
    P (BaseContagion.evolve s period a b draws).st := by
  unfold BaseContagion.evolve at herr ⊢
  simp only at herr ⊢
  have h0 : P (if b = true ∧ s.macro_state_vector_.length = 0
      then s.store_current_macro_state else s) := by
    split
    · exact hP.snapshot s _ h
    · exact h
  split
  · rename_i e he
    rw [he] at herr
    simp only at herr
    rw [he] at herr
    exact absurd herr (by simp)
  · rename_i he
    exact hP.clock _ _ _ (core_evolve_loop hP _ period a b draws _ h0 he)

theorem core_infect_fraction_loop (hP : KeptCore P) (n : Nat) (draws : List ℚ) :
    ∀ (count : Nat) (s : Sim), P s →
      (BaseContagion.infect_fraction_loop n draws count s).err = none →
      P (BaseContagion.infect_fraction_loop n draws count s).st := by
  induction draws with
  | nil =>
    intro count s h _
    unfold BaseContagion.infect_fraction_loop
    split <;> exact h
  | cons u us ih =>
    intro count s h herr
    unfold BaseContagion.infect_fraction_loop at herr ⊢
    split
    · rename_i hc
      rw [if_pos hc] at herr
      simp only at herr ⊢
      split
      · rename_i hn
        rw [if_pos hn] at herr
        split
        · rename_i hs
          rw [if_pos hs] at herr
          apply Res.andThen_kept herr (fun e => hP.infect s _ h e)
          intro s1 h1 e1
          exact ih _ _ (hP.generation s1 _ h1) e1
        · rename_i hs
          rw [if_neg hs] at herr
          exact ih _ _ h herr
      · exact h
    · exact h

theorem core_infect_node_set (hP : KeptCore P) (s : Sim) (node_set : List Node) (h : P s)
    (herr : (BaseContagion.infect_node_set s node_set).err = none) :
    P (BaseContagion.infect_node_set s node_set).st := by
  apply for_each_kept P _ _ node_set s h herr
  intro s node h herr
  unfold BaseContagion.infect_node_set_body at herr ⊢
  split
  · rename_i hn
    rw [if_pos hn] at herr
    split
    · rename_i hs
      rw [if_pos hs] at herr
      apply Res.andThen_kept herr (fun e => hP.infect s _ h e)
      intro s1 h1 _
      exact hP.generation s1 _ h1
    · exact h
  · exact h

/-- A property kept by the mutations of a run without `clear()` or `reset()` that holds
after the three constructors holds in every state of such a run. -/
theorem core_fresh (hP : KeptCore P)
    (hc : ∀ el rr rates, P (ContinuousSIR.create el rr rates))
    (hd : ∀ el rp probs f, P (DiscreteSIR.create el rp probs f))
    (ha : ∀ n d rr rates c0 r0, P (AnnealedContinuousSIR.create n d rr rates c0 r0))
    {s : Sim} (h : Fresh s) : P s := by
  induction h with
  | continuous el rr rates => exact hc el rr rates
  | discrete el rp probs f => exact hd el rp probs f
  | annealed n d rr rates c0 r0 => exact ha n d rr rates c0 r0
  | infect_fraction fraction draws _ he ih =>
    exact core_infect_fraction_loop hP _ draws 0 _ ih he
  | infect_node_set node_set _ he ih => exact core_infect_node_set hP _ node_set ih he
  | evolve period a b draws _ he ih => exact core_evolve hP _ period a b draws ih he
  | store _ ih => exact hP.snapshot _ _ ih
  | iteration a b d _ he ih => exact core_loop_body hP a b d _ ih he

theorem Kept.to_core (hP : Kept P) : KeptCore P :=
  ⟨hP.infect, hP.recover, hP.generation, hP.tree, hP.snapshot, hP.clock⟩

/-- The population invariant and the susceptibility of the infection candidates in the
states of a run without `clear()` or `reset()`. -/
theorem InfectionKeysInv.keys_of_fresh {s : Sim} (h : Fresh s) :
    PopulationInv s ∧ InfectionKeysInv s := by
  refine core_fresh InfectionKeysInv.kept_keys.to_core ?_ ?_ ?_ h
  · intro el rr rates
    exact InfectionKeysInv.keys_of_reached (Reached.continuous el rr rates)
  · intro el rp probs f
    exact InfectionKeysInv.keys_of_reached (Reached.discrete el rp probs f)
  · intro n d rr rates c0 r0
    exact InfectionKeysInv.keys_of_reached (Reached.annealed n d rr rates c0 r0)

end KeptCoreEngine

section DiscreteLoop

/-- A visit of a neighbour by `DiscreteSIR` that returned: the entry of a susceptible
neighbour was updated as `slot_update` says, and no other entry was touched. -/
theorem discrete_visit_returned (event : Event) (s : Sim) (x : Node)
    (herr : (DiscreteSIR.visit_neighbor event s x).err = none) :
    ∃ l p w, (DiscreteSIR.visit_neighbor event s x).st = { s with
        infected_neighbors_vector_ := l,
        infected_neighbor_position_vector_ := p,
        infection_event_set_ := w }
      ∧ (s.state_vector_ x = NodeState.S →
          ∃ r, slot_update event (s.infected_neighbors_vector_ x)
              (s.infected_neighbor_position_vector_ x) = some r
            ∧ l = Function.update s.infected_neighbors_vector_ x r.1
            ∧ p = Function.update s.infected_neighbor_position_vector_ x r.2)
      ∧ (s.state_vector_ x ≠ NodeState.S →
          l = s.infected_neighbors_vector_ ∧ p = s.infected_neighbor_position_vector_) := by
  unfold DiscreteSIR.visit_neighbor at herr ⊢
  by_cases hx : x < s.size
  swap
  · rw [if_neg hx] at herr
    exact absurd herr (by simp [Res.fail])
  rw [if_pos hx] at herr ⊢
  by_cases hs : s.state_vector_ x = NodeState.S
  swap
  · rw [if_neg hs]
    exact ⟨_, _, _, rfl, fun hc => absurd hc hs, fun _ => ⟨rfl, rfl⟩⟩
  rw [if_pos hs] at herr ⊢
  unfold DiscreteSIR.update_infection_propensity at herr ⊢
  rw [if_pos hx, update_infected_neighbors_eq] at herr ⊢
  cases hr : slot_update event (s.infected_neighbors_vector_ x)
      (s.infected_neighbor_position_vector_ x) with
  | none =>
    rw [hr] at herr
    exact absurd herr (by simp [Res.fail])
  | some r =>
    rw [hr] at herr
    simp only [Option.map_some'] at herr ⊢
    cases hrate : DiscreteSIR.get_infection_propensity { s with
        infected_neighbors_vector_ := Function.update s.infected_neighbors_vector_ x r.1,
        infected_neighbor_position_vector_ :=
          Function.update s.infected_neighbor_position_vector_ x r.2 } x with
    | none =>
      rw [hrate] at herr
      exact absurd herr (by simp [Res.fail])
    | some rate =>
      by_cases hpos : rate > 0
      · simp only [if_pos hpos]
        exact ⟨_, _, _, rfl, fun _ => ⟨r, rfl, rfl, rfl⟩, fun hc => absurd hs hc⟩
      · simp only [if_neg hpos]
        exact ⟨_, _, _, rfl, fun _ => ⟨r, rfl, rfl, rfl⟩, fun hc => absurd hs hc⟩

/-- The loop over a list of distinct neighbours that returned: the entry of each
susceptible neighbour was updated once, and no other entry was touched. -/
theorem discrete_neighbor_loop_returned (event : Event) :
    ∀ (xs : List Node) (s : Sim), xs.Nodup →
      (for_each (DiscreteSIR.visit_neighbor event) xs s).err = none →
      (for_each (DiscreteSIR.visit_neighbor event) xs s).st.state_vector_ = s.state_vector_
      ∧ (for_each (DiscreteSIR.visit_neighbor event) xs s).st.network_ = s.network_
      ∧ (for_each (DiscreteSIR.visit_neighbor event) xs s).st.kind = s.kind
      ∧ ∀ u,
          ((u ∈ xs ∧ s.state_vector_ u = NodeState.S) →
            ∃ r, slot_update event (s.infected_neighbors_vector_ u)
                (s.infected_neighbor_position_vector_ u) = some r
              ∧ (for_each (DiscreteSIR.visit_neighbor event) xs s).st.infected_neighbors_vector_ u
                  = r.1
              ∧ (for_each (DiscreteSIR.visit_neighbor event) xs
                  s).st.infected_neighbor_position_vector_ u = r.2)
          ∧ (¬ (u ∈ xs ∧ s.state_vector_ u = NodeState.S) →
              (for_each (DiscreteSIR.visit_neighbor event) xs s).st.infected_neighbors_vector_ u
                = s.infected_neighbors_vector_ u
              ∧ (for_each (DiscreteSIR.visit_neighbor event) xs
                  s).st.infected_neighbor_position_vector_ u
                = s.infected_neighbor_position_vector_ u) := by
  intro xs
  induction xs with
  | nil =>
    intro s _ _
    exact ⟨rfl, rfl, rfl, fun u => ⟨fun hc => absurd hc.1 (List.not_mem_nil u),
      fun _ => ⟨rfl, rfl⟩⟩⟩
  | cons x xs ih =>
    intro s hnd herr
    rw [List.nodup_cons] at hnd
    rw [for_each_cons] at herr ⊢
    obtain ⟨e1, e2⟩ := Res.andThen_err_none herr
    rw [Res.andThen_of_ok _ e1]
    obtain ⟨l, p, w, hst, hS, hnS⟩ := discrete_visit_returned event s x e1
    obtain ⟨i1, i2, i3, hres⟩ := ih (DiscreteSIR.visit_neighbor event s x).st hnd.2 e2
    have hsv : (DiscreteSIR.visit_neighbor event s x).st.state_vector_ = s.state_vector_ := by
      rw [hst]
    have hl : (DiscreteSIR.visit_neighbor event s x).st.infected_neighbors_vector_ = l := by
      rw [hst]
    have hp : (DiscreteSIR.visit_neighbor event s x).st.infected_neighbor_position_vector_
        = p := by rw [hst]
    have hother : ∀ u, u ≠ x →
        l u = s.infected_neighbors_vector_ u ∧ p u = s.infected_neighbor_position_vector_ u := by
      intro u hu
      by_cases hs : s.state_vector_ x = NodeState.S
      · obtain ⟨r, _, h1, h2⟩ := hS hs
        rw [h1, h2]
        exact ⟨Function.update_noteq hu _ _, Function.update_noteq hu _ _⟩
      · obtain ⟨h1, h2⟩ := hnS hs
        rw [h1, h2]; exact ⟨rfl, rfl⟩
    refine ⟨i1.trans hsv, i2.trans (by rw [hst]), i3.trans (by rw [hst]), ?_⟩
    intro u
    rw [hsv, hl, hp] at hres
    by_cases hux : u = x
    · subst hux
      have hnot : ¬ (u ∈ xs ∧ s.state_vector_ u = NodeState.S) := fun hc => hnd.1 hc.1
      obtain ⟨a1, a2⟩ := (hres u).2 hnot
      rw [a1, a2]
      constructor
      · intro hc
        obtain ⟨r, hr, h1, h2⟩ := hS hc.2
        exact ⟨r, hr, by rw [h1, Function.update_same], by rw [h2, Function.update_same]⟩
      · intro hc
        have hs : s.state_vector_ u ≠ NodeState.S := fun hs => hc ⟨List.mem_cons_self _ _, hs⟩
        obtain ⟨h1, h2⟩ := hnS hs
        rw [h1, h2]; exact ⟨rfl, rfl⟩
    · obtain ⟨o1, o2⟩ := hother u hux
      constructor
      · intro hc
        have hu : u ∈ xs := by
          rcases List.mem_cons.1 hc.1 with h | h
          · exact absurd h hux
          · exact h
        obtain ⟨r, hr, h1, h2⟩ := (hres u).1 ⟨hu, hc.2⟩
        rw [o1, o2] at hr
        exact ⟨r, hr, h1, h2⟩
      · intro hc
        have hnot : ¬ (u ∈ xs ∧ s.state_vector_ u = NodeState.S) := by
          intro hd
          exact hc ⟨List.mem_cons_of_mem _ hd.1, hd.2⟩
        obtain ⟨a1, a2⟩ := (hres u).2 hnot
        rw [a1, a2]; exact ⟨o1, o2⟩

end DiscreteLoop

section DiscreteOps

theorem infect_discrete (s : Sim) (v : Node) (hk : s.kind = Kind.discrete) :
    infect s v = DiscreteSIR.infect s v := by
  unfold infect; rw [hk]

theorem recover_discrete (s : Sim) (v : Node) (hk : s.kind = Kind.discrete) :
    recover s v = DiscreteSIR.recover s v := by
  unfold recover; rw [hk]

/-- A call of `DiscreteSIR::infect` that returned, on a graph whose adjacency lists have
no repetition: the node was susceptible, it is appended to the entry of each susceptible
neighbour, and no other entry is touched (its own entry is left as it was). -/
theorem discrete_infect_returned (s : Sim) (v : Node) (hk : s.kind = Kind.discrete)
    (hnd : (s.network_.adjacent_nodes v).Nodup) (herr : (infect s v).err = none) :
    v < s.size ∧ s.state_vector_ v = NodeState.S
    ∧ (infect s v).st.state_vector_ = Function.update s.state_vector_ v NodeState.I
    ∧ ∀ u,
        ((u ∈ s.network_.adjacent_nodes v
            ∧ Function.update s.state_vector_ v NodeState.I u = NodeState.S) →
          (infect s v).st.infected_neighbors_vector_ u = s.infected_neighbors_vector_ u ++ [v]
          ∧ (infect s v).st.infected_neighbor_position_vector_ u
              = Function.update (s.infected_neighbor_position_vector_ u) v
                  (some (s.infected_neighbors_vector_ u).length))
        ∧ (¬ (u ∈ s.network_.adjacent_nodes v
            ∧ Function.update s.state_vector_ v NodeState.I u = NodeState.S) →
          (infect s v).st.infected_neighbors_vector_ u = s.infected_neighbors_vector_ u
          ∧ (infect s v).st.infected_neighbor_position_vector_ u
              = s.infected_neighbor_position_vector_ u) := by
  have hv : v < s.size := by
    by_contra hc
    rw [infect_of_not_node s v hc] at herr
    exact absurd herr (by simp [Res.fail])
  have hs : s.state_vector_ v = NodeState.S := by
    by_contra hc
    rw [infect_of_not_susceptible s v hv hc] at herr
    exact absurd herr (by simp [Res.fail])
  refine ⟨hv, hs, (infect_effect s v hv hs).state_vector_, ?_⟩
  rw [infect_discrete s v hk] at herr ⊢
  unfold DiscreteSIR.infect at herr ⊢
  simp only [hv, hs, if_true] at herr ⊢
  obtain ⟨e1, _⟩ := Res.andThen_err_none herr
  rw [Res.andThen_of_ok _ e1]
  obtain ⟨_, _, _, hres⟩ := discrete_neighbor_loop_returned (v, Action.INFECTION)
    (s.network_.adjacent_nodes v)
    { s with
        infection_event_set_ := s.infection_event_set_.erase v,
        state_vector_ := Function.update s.state_vector_ v NodeState.I,
        infected_node_set_ := set_insert s.infected_node_set_ v } hnd e1
  intro u
  constructor
  · intro hc
    obtain ⟨r, hr, h1, h2⟩ := (hres u).1 hc
    have hr' : r = (s.infected_neighbors_vector_ u ++ [v],
        Function.update (s.infected_neighbor_position_vector_ u) v
          (some (s.infected_neighbors_vector_ u).length)) := by
      have : slot_update (v, Action.INFECTION) (s.infected_neighbors_vector_ u)
          (s.infected_neighbor_position_vector_ u) = some (s.infected_neighbors_vector_ u ++ [v],
        Function.update (s.infected_neighbor_position_vector_ u) v
          (some (s.infected_neighbors_vector_ u).length)) := rfl
      have hr2 : slot_update (v, Action.INFECTION) (s.infected_neighbors_vector_ u)
          (s.infected_neighbor_position_vector_ u) = some r := hr
      rw [this] at hr2
      exact (Option.some.inj hr2).symm
    simp only [Res.ok_st]
    rw [hr'] at h1 h2
    exact ⟨h1, h2⟩
  · intro hc
    simp only [Res.ok_st]
    exact (hres u).2 hc

/-- A call of `DiscreteSIR::recover` that returned, on a graph whose adjacency lists have
no repetition: the node was infected, the entry of each susceptible neighbour was updated
by the swap-and-pop removal, and no other entry is touched. -/
theorem discrete_recover_returned (s : Sim) (v : Node) (hk : s.kind = Kind.discrete)
    (hnd : (s.network_.adjacent_nodes v).Nodup) (herr : (recover s v).err = none) :
    v < s.size ∧ s.state_vector_ v = NodeState.I
    ∧ (recover s v).st.state_vector_ = Function.update s.state_vector_ v NodeState.R
    ∧ ∀ u,
        ((u ∈ s.network_.adjacent_nodes v
            ∧ Function.update s.state_vector_ v NodeState.R u = NodeState.S) →
          ∃ r, slot_update (v, Action.RECOVERY) (s.infected_neighbors_vector_ u)
              (s.infected_neighbor_position_vector_ u) = some r
            ∧ (recover s v).st.infected_neighbors_vector_ u = r.1
            ∧ (recover s v).st.infected_neighbor_position_vector_ u = r.2)
        ∧ (¬ (u ∈ s.network_.adjacent_nodes v
            ∧ Function.update s.state_vector_ v NodeState.R u = NodeState.S) →
          (recover s v).st.infected_neighbors_vector_ u = s.infected_neighbors_vector_ u
          ∧ (recover s v).st.infected_neighbor_position_vector_ u
              = s.infected_neighbor_position_vector_ u) := by
  have hv : v < s.size := by
    by_contra hc
    rw [recover_of_not_node s v hc] at herr
    exact absurd herr (by simp [Res.fail])
  have hs : s.state_vector_ v = NodeState.I := by
    by_contra hc
    rw [recover_of_not_infected s v hv hc] at herr
    exact absurd herr (by simp [Res.fail])
  refine ⟨hv, hs, (recover_effect s v hv hs).state_vector_, ?_⟩
  rw [recover_discrete s v hk] at herr ⊢
  unfold DiscreteSIR.recover at herr ⊢
  simp only [hv, hs, if_true] at herr ⊢
  obtain ⟨e1, _⟩ := Res.andThen_err_none herr
  rw [Res.andThen_of_ok _ e1]
  obtain ⟨_, _, _, hres⟩ := discrete_neighbor_loop_returned (v, Action.RECOVERY)
    (s.network_.adjacent_nodes v)
    { s with
        state_vector_ := Function.update s.state_vector_ v NodeState.R,
        infected_node_set_ := set_erase s.infected_node_set_ v,
        recovered_node_set_ := set_insert s.recovered_node_set_ v } hnd e1
  intro u
  constructor
  · intro hc
    simp only [Res.ok_st]
    exact (hres u).1 hc
  · intro hc
    simp only [Res.ok_st]
    exact (hres u).2 hc

end DiscreteOps

section DiscreteBookkeeping

/-- A call of `DiscreteSIR::infect` that returned keeps the bookkeeping of the susceptible
nodes exact. -/
theorem DiscreteBook.infect_book (s : Sim) (v : Node) (h : DiscreteBook s)
    (herr : (infect s v).err = none) : DiscreteBook (infect s v).st := by
  intro hk' hg'
  have hpar := (infect_params_history s v).1
  have hk : s.kind = Kind.discrete := by rw [← hpar.kind]; exact hk'
  have hnet : (infect s v).st.network_ = s.network_ := hpar.network_
  have hg : Network.Simple s.network_ := by rw [← hnet]; exact hg'
  obtain ⟨hv, hs, hsv, hres⟩ := discrete_infect_returned s v hk (hg.nodup v) herr
  intro w hw hsw
  have hwlt : w < s.size := by rw [← hpar.size_eq]; exact hw
  rw [hsv] at hsw
  have hwv : w ≠ v := by
    intro hc
    rw [hc, Function.update_same] at hsw
    exact absurd hsw (by decide)
  have hsw' : s.state_vector_ w = NodeState.S := by
    rw [Function.update_noteq hwv] at hsw; exact hsw
  obtain ⟨hslot, hmem⟩ := h hk hg w hwlt hsw'
  rw [hsv, hnet]
  have hstate : ∀ u, u ≠ v →
      (Function.update s.state_vector_ v NodeState.I u = NodeState.I
        ↔ s.state_vector_ u = NodeState.I) := by
    intro u hu; rw [Function.update_noteq hu]
  by_cases hadj : w ∈ s.network_.adjacent_nodes v
  · obtain ⟨h1, h2⟩ := (hres w).1 ⟨hadj, hsw⟩
    rw [h1, h2]
    have hvnot : v ∉ s.infected_neighbors_vector_ w := by
      intro hc
      have := ((hmem v).1 hc).2
      rw [hs] at this
      exact absurd this (by decide)
    refine ⟨hslot.push hvnot, ?_⟩
    intro u
    rw [List.mem_append, List.mem_singleton]
    by_cases huv : u = v
    · rw [huv, Function.update_same]
      exact ⟨fun _ => ⟨hg.symm v w hadj, rfl⟩, fun _ => Or.inr rfl⟩
    · rw [hstate u huv, hmem u]
      exact ⟨fun hc => hc.elim id (fun e => absurd e huv), Or.inl⟩
  · obtain ⟨h1, h2⟩ := (hres w).2 (fun hc => hadj hc.1)
    rw [h1, h2]
    refine ⟨hslot, ?_⟩
    intro u
    by_cases huv : u = v
    · rw [huv, Function.update_same, hmem v]
      have hnadj : v ∉ s.network_.adjacent_nodes w := fun hc => hadj (hg.symm w v hc)
      exact ⟨fun hc => absurd hc.1 hnadj, fun hc => absurd hc.1 hnadj⟩
    · rw [hstate u huv]; exact hmem u

/-- A call of `DiscreteSIR::recover` that returned keeps the bookkeeping of the
susceptible nodes exact. -/
theorem DiscreteBook.recover_book (s : Sim) (v : Node) (h : DiscreteBook s)
    (herr : (recover s v).err = none) : DiscreteBook (recover s v).st := by
  intro hk' hg'
  have hpar := (recover_params_history s v).1
  have hk : s.kind = Kind.discrete := by rw [← hpar.kind]; exact hk'
  have hnet : (recover s v).st.network_ = s.network_ := hpar.network_
  have hg : Network.Simple s.network_ := by rw [← hnet]; exact hg'
  obtain ⟨hv, hs, hsv, hres⟩ := discrete_recover_returned s v hk (hg.nodup v) herr
  intro w hw hsw
  have hwlt : w < s.size := by rw [← hpar.size_eq]; exact hw
  rw [hsv] at hsw
  have hwv : w ≠ v := by
    intro hc
    rw [hc, Function.update_same] at hsw
    exact absurd hsw (by decide)
  have hsw' : s.state_vector_ w = NodeState.S := by
    rw [Function.update_noteq hwv] at hsw; exact hsw
  obtain ⟨hslot, hmem⟩ := h hk hg w hwlt hsw'
  rw [hsv, hnet]
  have hstate : ∀ u, u ≠ v →
      (Function.update s.state_vector_ v NodeState.R u = NodeState.I
        ↔ s.state_vector_ u = NodeState.I) := by
    intro u hu; rw [Function.update_noteq hu]
  by_cases hadj : w ∈ s.network_.adjacent_nodes v
  · obtain ⟨r, hr, h1, h2⟩ := (hres w).1 ⟨hadj, hsw⟩
    have hvin : v ∈ s.infected_neighbors_vector_ w := (hmem v).2 ⟨hg.symm v w hadj, hs⟩
    obtain ⟨l', p', hsp, hslot', hmem', _⟩ := hslot.swap_pop hvin
    rw [hsp] at hr
    have hr' : r = (l', p') := (Option.some.inj hr).symm
    rw [h1, h2, hr']
    refine ⟨hslot', ?_⟩
    intro u
    rw [hmem' u]
    by_cases huv : u = v
    · rw [huv, Function.update_same]
      exact ⟨fun hc => absurd rfl hc.2, fun hc => absurd hc.2 (by decide)⟩
    · rw [hstate u huv, hmem u]
      exact ⟨fun hc => hc.1, fun hc => ⟨hc, huv⟩⟩
  · obtain ⟨h1, h2⟩ := (hres w).2 (fun hc => hadj hc.1)
    rw [h1, h2]
    refine ⟨hslot, ?_⟩
    intro u
    by_cases huv : u = v
    · rw [huv, Function.update_same, hmem v]
      have hnadj : v ∉ s.network_.adjacent_nodes w := fun hc => hadj (hg.symm w v hc)
      exact ⟨fun hc => absurd hc.1 hnadj, fun hc => absurd hc.2 (by decide)⟩
    · rw [hstate u huv]; exact hmem u

/-- The bookkeeping of the susceptible nodes of a `DiscreteSIR` is kept by the mutations
of a run without `clear()` or `reset()`. -/
theorem DiscreteBook.core_book : KeptCore DiscreteBook where
  infect := fun s v h e => h.infect_book s v e
  recover := fun s v h e => h.recover_book s v e
  generation := fun _ _ h => h
  tree := fun _ _ h => h
  snapshot := fun _ _ h => h
  clock := fun _ _ _ h => h

theorem DiscreteBook.book_of_fresh {s : Sim} (h : Fresh s) : DiscreteBook s := by
  refine core_fresh DiscreteBook.core_book ?_ ?_ ?_ h
  · intro el rr rates hk
    exact Kind.noConfusion hk
  · intro el rp probs f _ _ v _ _
    refine ⟨SlotOK.nil, fun u => ?_⟩
    constructor
    · intro hu; exact absurd hu (List.not_mem_nil u)
    · intro hu
      have h2 : NodeState.S = NodeState.I := hu.2
      exact absurd h2 (by decide)
  · intro n d rr rates c0 r0 hk
    exact Kind.noConfusion hk

end DiscreteBookkeeping

section DiscreteRecords

/-- A list without repetition that holds the elements of a list without repetition that
satisfy a predicate is as long as their number. -/
theorem length_eq_countP_of_mem_iff {l adj : List Node} (p : Node → Bool) (hl : l.Nodup)
    (hadj : adj.Nodup) (h : ∀ u, u ∈ l ↔ u ∈ adj ∧ p u = true) :
    l.length = adj.countP p := by
  have hperm : l.Perm (adj.filter p) :=
    (List.perm_ext_iff_of_nodup hl (hadj.filter _)).2 (fun u => by
      rw [h u, List.mem_filter])
  rw [hperm.length_eq, List.countP_eq_length_filter]

/-- The records that an iteration of the event loop of `evolve` appends for a
`DiscreteSIR` on a simple graph, in a run without `clear()` or `reset()`, whether the
iteration returns or not: in the state in which the iteration starts, the infector is an
infected neighbour of the infectee, the infectee is susceptible, and the infected degree
of the record is the number of infected neighbours of the infectee, which is not 0. -/
theorem discrete_loop_body_records (edge_list : EdgeList) (hsimple : SimpleEdgeList edge_list)
    (s : Sim) (h : Fresh s) (hk : s.kind = Kind.discrete)
    (hnet : s.network_ = Network.ofEdgeList edge_list) (a b : Bool) (d : Draw) :
    ∃ new : List Transmission,
      (BaseContagion.loop_body a b d s).st.transmission_tree_ = s.transmission_tree_ ++ new
      ∧ ∀ t ∈ new,
          t.infector ∈ s.network_.adjacent_nodes t.infectee
          ∧ s.state_vector_ t.infector = NodeState.I
          ∧ s.state_vector_ t.infectee = NodeState.S
          ∧ t.infected_degree = s.infected_slots t.infectee
          ∧ 1 ≤ t.infected_degree := by
  have hg : Network.Simple s.network_ := by
    rw [hnet]; exact Network.simple_of_edge_list edge_list hsimple
  have hbook := DiscreteBook.book_of_fresh h hk hg
  obtain ⟨_, hki⟩ := InfectionKeysInv.keys_of_fresh h
  rcases loop_body_tree a b d s with h1 | ⟨_, h1⟩
  · exact ⟨[], by rw [h1, List.append_nil], fun t ht => absurd ht (List.not_mem_nil t)⟩
  obtain ⟨new, htree, hcreated, _⟩ := update_transmission_tree_records d.infector_u
    (next_step s d).2 0 (next_step s d).1.st
  obtain ⟨c, c', hst⟩ := next_step_clock s d
  refine ⟨new, h1.trans (by rw [htree, hst]), ?_⟩
  intro t ht
  obtain ⟨k, hget, _, hrin, _, hdeg, _, _⟩ := hcreated t ht
  obtain ⟨recs, infs, hev, _, _, _, hinfs⟩ := next_step_batch s d
  have hmem : (t.infectee, Action.INFECTION) ∈ (next_step s d).2 := List.get?_mem hget
  have hin : t.infectee ∈ infs := by
    rw [hev] at hmem
    rcases List.mem_append.1 hmem with h2 | h2
    · obtain ⟨x, _, hx⟩ := List.mem_map.1 h2
      have : Action.RECOVERY = Action.INFECTION := congrArg Prod.snd hx
      exact absurd this (by decide)
    · obtain ⟨x, hx1, hx2⟩ := List.mem_map.1 h2
      have : x = t.infectee := congrArg Prod.fst hx2
      rw [← this]; exact hx1
  obtain ⟨hlt, hS⟩ := hki _ (hinfs _ hin)
  obtain ⟨g, tr, hfr⟩ := update_transmission_tree_frame d.infector_u
    ((next_step s d).2.take k) 0 (next_step s d).1.st
  rw [hfr, hst] at hrin hdeg
  obtain ⟨_, hinl⟩ := random_infected_neighbor_mem hrin
  have hinl' : t.infector ∈ s.infected_neighbors_vector_ t.infectee := hinl
  obtain ⟨hslot, hiff⟩ := hbook t.infectee hlt hS
  have hadj := (hiff t.infector).1 hinl'
  have hd : t.infected_degree = (s.infected_neighbors_vector_ t.infectee).length := by
    unfold Sim.get_infected_degree at hdeg
    have hlt' : t.infectee < Sim.size { s with
      current_time_ := c, last_event_time_ := c', infection_generation_ := g,
      transmission_tree_ := tr } := hlt
    rw [if_pos hlt'] at hdeg
    exact (Option.some.inj hdeg).symm
  have hlen : (s.infected_neighbors_vector_ t.infectee).length = s.infected_slots t.infectee := by
    unfold Sim.infected_slots
    exact length_eq_countP_of_mem_iff _ hslot.nodup (hg.nodup _) (fun u => by
      rw [hiff u, decide_eq_true_iff])
  refine ⟨hadj.1, hadj.2, hS, by rw [hd, hlen], ?_⟩
  rw [hd]
  exact List.length_pos_of_mem hinl'

end DiscreteRecords

/-- C21. For `ContinuousSIR` the claim holds: on a graph without self-loop and without
repeated edge, with a rate table that covers the degrees and gives 0 to the infected
degree 0, every record that an iteration of the event loop of `evolve` appends names, in
the state in which the iteration starts (before the events of the step are applied), an
infector that is adjacent to the infectee and infected, an infectee that is susceptible,
and an infected degree that is the number of infected neighbours of the infectee, at
least 1.  For `DiscreteSIR` the same holds in a run since the construction without
`clear()` or `reset()`, and it fails after `reset()`, because `DiscreteSIR::infect` does
not empty the list of infected neighbours of the node it infects.  On the edge `{0,1}`:
seed node 0, one tick infects node 1, `reset()`, seed node 0 again; the next tick records
the infected degree 2 for node 1, which has one neighbour.  On the path `0 - 1 - 2`: seed
node 0, one tick infects node 1, `reset()`, seed nodes 0 and 2, one tick in which node 0
recovers; the next tick records node 0, which is recovered, as the infector of node 1. -/
theorem C21_transmission_records :
    (∀ (edge_list : EdgeList) (s : Sim) (a b : Bool) (d : Draw),
        SimpleEdgeList edge_list → Visited s → s.kind = Kind.continuous →
        s.network_ = Network.ofEdgeList edge_list →
        s.network_.max_degree_ + 1 ≤ s.infection_rate_.length →
        s.infection_rate_.get? 0 = some 0 →
        ∃ new : List Transmission,
          (BaseContagion.loop_body a b d s).st.transmission_tree_ = s.transmission_tree_ ++ new
          ∧ ∀ t ∈ new,
              t.infector ∈ s.network_.adjacent_nodes t.infectee
              ∧ s.state_vector_ t.infector = NodeState.I
              ∧ s.state_vector_ t.infectee = NodeState.S
              ∧ t.infected_degree = s.infected_slots t.infectee
              ∧ 1 ≤ t.infected_degree)
    ∧ (∀ (edge_list : EdgeList) (s : Sim) (a b : Bool) (d : Draw),
        SimpleEdgeList edge_list → Fresh s → s.kind = Kind.discrete →
        s.network_ = Network.ofEdgeList edge_list →
        ∃ new : List Transmission,
          (BaseContagion.loop_body a b d s).st.transmission_tree_ = s.transmission_tree_ ++ new
          ∧ ∀ t ∈ new,
              t.infector ∈ s.network_.adjacent_nodes t.infectee
              ∧ s.state_vector_ t.infector = NodeState.I
              ∧ s.state_vector_ t.infectee = NodeState.S
              ∧ t.infected_degree = s.infected_slots t.infectee
              ∧ 1 ≤ t.infected_degree)
    ∧ (∃ s : Sim,
        s = (BaseContagion.infect_node_set (BaseContagion.reset (BaseContagion.evolve
              (BaseContagion.infect_node_set
                (DiscreteSIR.create [(0, 1)] (1 / 2) [0, 1 / 2, 3 / 4] (fun p => p)) [0]).st
              1 true false [⟨0, 0, 1, fun _ => 0, fun _ => 0, fun _ => 0⟩]).st).st [0]).st
        ∧ Reached s
        ∧ SimpleEdgeList [(0, 1)]
        ∧ s.network_ = Network.ofEdgeList [(0, 1)]
        ∧ s.kind = Kind.discrete
        ∧ s.infection_rate_ = [0, 1 / 2, 3 / 4]
        ∧ s.transmission_tree_ = []
        ∧ s.state_vector_ 0 = NodeState.I
        ∧ s.state_vector_ 1 = NodeState.S
        ∧ s.network_.adjacent_nodes 1 = [0]
        ∧ s.infected_slots 1 = 1
        ∧ (BaseContagion.evolve s 1 true false
            [⟨0, 0, 1, fun _ => 0, fun _ => 0, fun _ => 0⟩]).err = none
        ∧ (BaseContagion.evolve s 1 true false
            [⟨0, 0, 1, fun _ => 0, fun _ => 0, fun _ => 0⟩]).st.transmission_tree_
            = [⟨1, 0, 0, 1, 2⟩])
    ∧ (∃ s : Sim,
        s = (BaseContagion.evolve (BaseContagion.infect_node_set (BaseContagion.reset
              (BaseContagion.evolve
                (BaseContagion.infect_node_set
                  (DiscreteSIR.create [(0, 1), (1, 2)] (1 / 2) [0, 1 / 2, 1 / 2, 1 / 2]
                    (fun p => p)) [0]).st
                1 true false [⟨0, 0, 1, fun _ => 0, fun _ => 0, fun _ => 0⟩]).st).st [0, 2]).st
              1 true false [⟨0, 1, 0, fun _ => 0, fun _ => 0, fun _ => 0⟩]).st
        ∧ Reached s
        ∧ SimpleEdgeList [(0, 1), (1, 2)]
        ∧ s.network_ = Network.ofEdgeList [(0, 1), (1, 2)]
        ∧ s.kind = Kind.discrete
        ∧ s.infection_rate_ = [0, 1 / 2, 1 / 2, 1 / 2]
        ∧ s.transmission_tree_ = []
        ∧ s.state_vector_ 0 = NodeState.R
        ∧ s.state_vector_ 1 = NodeState.S
        ∧ s.state_vector_ 2 = NodeState.I
        ∧ s.infected_slots 1 = 1
        ∧ (BaseContagion.evolve s 1 true false
            [⟨0, 0, 1, fun _ => 0, fun _ => 0, fun _ => 0⟩]).err = none
        ∧ (BaseContagion.evolve s 1 true false
            [⟨0, 0, 1, fun _ => 0, fun _ => 0, fun _ => 0⟩]).st.transmission_tree_
            = [⟨2, 0, 0, 1, 2⟩]) := by
  refine ⟨?_, ?_, ?_, ?_⟩
  · intro edge_list s a b d hsimple h hk hnet hlen h0
    exact continuous_loop_body_records edge_list hsimple s h hk hnet hlen h0 a b d
  · intro edge_list s a b d hsimple h hk hnet
    exact discrete_loop_body_records edge_list hsimple s h hk hnet a b d
  · refine ⟨_, rfl, ?_, ⟨by decide, by decide⟩, by with_unfolding_all rfl, ?_⟩
    · refine Reached.infect_node_set [0] (Reached.reset (Reached.evolve 1 true false _
        (Reached.infect_node_set [0] (Reached.discrete _ _ _ _) ?_) ?_) ?_) ?_ <;>
        with_unfolding_all decide
    · refine ⟨?_, ?_, ?_, ?_, ?_, ?_, ?_, ?_, ?_⟩ <;> with_unfolding_all decide
  · refine ⟨_, rfl, ?_, ⟨by decide, by decide⟩, by with_unfolding_all rfl, ?_⟩
    · refine Reached.evolve 1 true false _ (Reached.infect_node_set [0, 2] (Reached.reset
        (Reached.evolve 1 true false _
          (Reached.infect_node_set [0] (Reached.discrete _ _ _ _) ?_) ?_) ?_) ?_) ?_ <;>
        with_unfolding_all decide
    · refine ⟨?_, ?_, ?_, ?_, ?_, ?_, ?_, ?_, ?_⟩ <;> with_unfolding_all decide

section IterationBound

/-- The sum of the weights of the states of a list of nodes. -/
theorem weight_sum_eq_counts (f : Node → NodeState) (l : List Node) :
    (l.map (fun v => (f v).weight)).sum
      = 2 * (l.filter (fun v => f v = NodeState.S)).length
        + (l.filter (fun v => f v = NodeState.I)).length := by
  induction l with
  | nil => rfl
  | cons x l ih =>
    rw [List.map_cons, List.sum_cons, ih]
    cases hx : f x <;> simp [NodeState.weight, List.filter_cons, hx] <;> omega

/-- The potential is twice the number of susceptible nodes plus the number of infected
nodes. -/
theorem potential_eq_counts (s : Sim) :
    potential s = 2 * count_state s NodeState.S + count_state s NodeState.I := by
  unfold potential count_state
  exact weight_sum_eq_counts s.state_vector_ (List.range s.size)

/-- With an infected node the potential is not 0. -/
theorem potential_pos_of_infected {s : Sim} (hp : PopulationInv s)
    (h : s.infected_node_set_ ≠ []) : 1 ≤ potential s := by
  obtain ⟨v, hv⟩ := List.exists_mem_of_ne_nil _ h
  obtain ⟨hlt, hI⟩ := (hp.infected_iff v).1 hv
  rw [potential_eq_counts]
  have hmem : v ∈ (List.range s.size).filter (fun v => s.state_vector_ v = NodeState.I) :=
    List.mem_filter.2 ⟨List.mem_range.2 hlt, by simpa using hI⟩
  have := List.length_pos_of_mem hmem
  unfold count_state
  omega

/-- The event loop of a `ContinuousSIR` or of an `AnnealedContinuousSIR` performs at most
as many iterations as the potential of the state in which it starts, and needs no more
draws. -/
theorem evolve_loop_iterations (t0 period : ℚ) (a b : Bool) (draws : List Draw) :
    ∀ s : Sim, PopulationInv s → s.kind ≠ Kind.discrete →
      (BaseContagion.evolve_loop t0 period a b draws s).event_times.length ≤ potential s
      ∧ (potential s ≤ draws.length →
          (BaseContagion.evolve_loop t0 period a b draws s).err ≠ some Err.out_of_draws) := by
  induction draws with
  | nil =>
    intro s hp _
    by_cases hg : BaseContagion.loop_guard s t0 period = true
    · have hne : s.infected_node_set_ ≠ [] := by
        intro hc
        rw [loop_guard_of_no_infected s hc] at hg
        exact absurd hg (by decide)
      have hpos := potential_pos_of_infected hp hne
      unfold BaseContagion.evolve_loop
      rw [if_pos hg]
      exact ⟨Nat.zero_le _, fun hc => absurd hc (by simp; omega)⟩
    · unfold BaseContagion.evolve_loop
      rw [if_neg hg]
      exact ⟨Nat.zero_le _, fun _ => by simp⟩
  | cons d ds ih =>
    intro s hp hk
    by_cases hg : BaseContagion.loop_guard s t0 period = true
    · have hne : s.infected_node_set_ ≠ [] := by
        intro hc
        rw [loop_guard_of_no_infected s hc] at hg
        exact absurd hg (by decide)
      have hpos := potential_pos_of_infected hp hne
      rw [evolve_loop_cons, if_pos hg]
      cases herr : (BaseContagion.loop_body a b d s).err with
      | some e =>
        refine ⟨hpos, fun _ hc => ?_⟩
        have h1 : some e = some Err.out_of_draws := hc
        rw [← herr] at h1
        exact loop_body_err_ne_out_of_draws a b d s h1
      | none =>
        have hpot := loop_body_potential a b d s hk herr
        obtain ⟨l, hl, _⟩ := loop_guard_true hg
        have hkind := (loop_body_clock a b d s l hl).1
        obtain ⟨i1, i2⟩ := ih (BaseContagion.loop_body a b d s).st
          (PopulationInv.population_stable.loop_body a b d s hp) (by rw [hkind]; exact hk)
        refine ⟨?_, fun hc => ?_⟩
        · show ((next_step s d).1.st.current_time_ :: _).length ≤ potential s
          rw [List.length_cons]
          omega
        · apply i2
          rw [List.length_cons] at hc
          omega
    · unfold BaseContagion.evolve_loop
      rw [if_neg hg]
      exact ⟨Nat.zero_le _, fun _ => by simp⟩

/-- The state in which an iteration of the event loop that returned applied its events:
its nodes are in the states in which the iteration started. -/
theorem loop_body_applied (a b : Bool) (d : Draw) (s : Sim)
    (herr : (BaseContagion.loop_body a b d s).err = none) :
    ∃ s2 : Sim, s2.state_vector_ = s.state_vector_ ∧ s2.network_ = s.network_
      ∧ (BaseContagion.apply_events (next_step s d).2 s2).err = none := by
  rw [loop_body_eq] at herr
  obtain ⟨h1, herr2⟩ := Res.andThen_err_none herr
  obtain ⟨h2, herr3⟩ := Res.andThen_err_none herr2
  obtain ⟨h3, _⟩ := Res.andThen_err_none herr3
  obtain ⟨c, c', hst⟩ := next_step_clock s d
  refine ⟨_, ?_, ?_, h3⟩
  · split
    · obtain ⟨g, tr, hg⟩ := update_transmission_tree_frame d.infector_u (next_step s d).2 0
        (next_step s d).1.st
      rw [hg, hst]
    · rw [Res.ok_st, hst]
  · split
    · obtain ⟨g, tr, hg⟩ := update_transmission_tree_frame d.infector_u (next_step s d).2 0
        (next_step s d).1.st
      rw [hg, hst]
    · rw [Res.ok_st, hst]

/-- An iteration of the event loop of a `ContinuousSIR` or of an `AnnealedContinuousSIR`
that returned applied exactly one event: a susceptible node became infected, or an
infected node became recovered, and no other node changed state. -/
theorem loop_body_one_event (a b : Bool) (d : Draw) (s : Sim) (hk : s.kind ≠ Kind.discrete)
    (herr : (BaseContagion.loop_body a b d s).err = none) :
    ∃ e : Event, (next_step s d).2 = [e] ∧ e.1 < s.size
      ∧ s.state_vector_ e.1 = e.2.source
      ∧ (BaseContagion.loop_body a b d s).st.state_vector_
          = Function.update s.state_vector_ e.1 e.2.outcome := by
  obtain ⟨hstep, hsv⟩ := loop_body_states a b d s herr
  obtain ⟨e, he⟩ := next_step_single_event s d hk hstep
  obtain ⟨s2, hs2, hnet, happ⟩ := loop_body_applied a b d s herr
  rw [he] at happ hsv
  rw [apply_events_single, Res.andThen_ok_self] at happ
  obtain ⟨hlt, hsrc, _⟩ := apply_event_returned s2 e happ
  refine ⟨e, he, ?_, by rw [← hs2]; exact hsrc, hsv⟩
  have : s2.size = s.size := by unfold Sim.size; rw [hnet]
  rw [← this]; exact hlt

end IterationBound

section RecoveredForGood

/-- A recovered node stays recovered along the mutations of a run without `clear()` or
`reset()`. -/
theorem recovered_core (v : Node) : KeptCore (fun x => x.state_vector_ v = NodeState.R) where
  infect := by
    intro s w h herr
    obtain ⟨hw, hs⟩ := infect_ok_susceptible s w herr
    show (infect s w).st.state_vector_ v = NodeState.R
    rw [(infect_effect s w hw hs).state_vector_]
    have hvw : v ≠ w := fun hc => by
      rw [hc] at h
      have h2 : s.state_vector_ w = NodeState.R := h
      rw [hs] at h2
      exact absurd h2 (by decide)
    rw [Function.update_noteq hvw]
    exact h
  recover := by
    intro s w h herr
    obtain ⟨hw, hs⟩ := recover_ok_infected s w herr
    show (recover s w).st.state_vector_ v = NodeState.R
    rw [(recover_effect s w hw hs).state_vector_]
    by_cases hvw : v = w
    · rw [hvw, Function.update_same]
    · rw [Function.update_noteq hvw]
      exact h
  generation := fun _ _ h => h
  tree := fun _ _ h => h
  snapshot := fun _ _ h => h
  clock := fun _ _ _ h => h

/-- A node that is not susceptible does not become susceptible along the mutations of a
run without `clear()` or `reset()`. -/
theorem not_susceptible_core (v : Node) :
    KeptCore (fun x => x.state_vector_ v ≠ NodeState.S) where
  infect := fun s w h _ => (infect_tree_states s w).2 v h
  recover := by
    intro s w h herr
    obtain ⟨hw, hs⟩ := recover_ok_infected s w herr
    show (recover s w).st.state_vector_ v ≠ NodeState.S
    rw [(recover_effect s w hw hs).state_vector_]
    by_cases hvw : v = w
    · rw [hvw, Function.update_same]; decide
    · rw [Function.update_noteq hvw]
      exact h
  generation := fun _ _ h => h
  tree := fun _ _ h => h
  snapshot := fun _ _ h => h
  clock := fun _ _ _ h => h

end RecoveredForGood

/-- C32. For `ContinuousSIR` and `AnnealedContinuousSIR`, in every reachable state, for
every period, flags and draws: the event loop of `evolve` performs at most `2*s + i`
iterations, `s` and `i` being the numbers of susceptible and infected nodes when the call
starts, and it needs no more draws than that, so the call ends.  An iteration that
returns applies exactly one event, the infection of a susceptible node or the recovery of
an infected node, and changes the state of no other node; along a call that returns a
recovered node stays recovered and no node becomes susceptible again. -/
theorem C32_iteration_bound (s : Sim) (h : Reachable s) (hk : s.kind ≠ Kind.discrete)
    (period : ℚ) (a b : Bool) (draws : List Draw) :
    (BaseContagion.evolve s period a b draws).event_times.length
      ≤ 2 * count_state s NodeState.S + count_state s NodeState.I
    ∧ (2 * count_state s NodeState.S + count_state s NodeState.I ≤ draws.length →
        (BaseContagion.evolve s period a b draws).err ≠ some Err.out_of_draws)
    ∧ (∀ (x : Sim) (d : Draw), x.kind ≠ Kind.discrete →
        (BaseContagion.loop_body a b d x).err = none →
        ∃ e : Event, (next_step x d).2 = [e] ∧ e.1 < x.size
          ∧ x.state_vector_ e.1 = e.2.source
          ∧ (BaseContagion.loop_body a b d x).st.state_vector_
              = Function.update x.state_vector_ e.1 e.2.outcome
          ∧ potential (BaseContagion.loop_body a b d x).st + 1 = potential x)
    ∧ ((BaseContagion.evolve s period a b draws).err = none →
        ∀ v, (s.state_vector_ v = NodeState.R →
                (BaseContagion.evolve s period a b draws).st.state_vector_ v = NodeState.R)
          ∧ (s.state_vector_ v ≠ NodeState.S →
                (BaseContagion.evolve s period a b draws).st.state_vector_ v
                  ≠ NodeState.S)) := by
  have hp := PopulationInv.population_of_reachable h
  have h0 : PopulationInv (if b = true ∧ s.macro_state_vector_.length = 0
      then s.store_current_macro_state else s)
      ∧ (if b = true ∧ s.macro_state_vector_.length = 0
      then s.store_current_macro_state else s).kind ≠ Kind.discrete
      ∧ potential (if b = true ∧ s.macro_state_vector_.length = 0
      then s.store_current_macro_state else s) = potential s := by
    split
    · exact ⟨PopulationInv.population_stable.toStableCore.store s hp, hk, rfl⟩
    · exact ⟨hp, hk, rfl⟩
  obtain ⟨i1, i2⟩ := evolve_loop_iterations (if b = true ∧ s.macro_state_vector_.length = 0
      then s.store_current_macro_state else s).current_time_ period a b draws _ h0.1 h0.2.1
  rw [h0.2.2, potential_eq_counts] at i1 i2
  refine ⟨?_, ?_, ?_, ?_⟩
  · rw [evolve_event_times]; exact i1
  · rw [evolve_err]; exact i2
  · intro x d hx herr
    obtain ⟨e, h1, h2, h3, h4⟩ := loop_body_one_event a b d x hx herr
    exact ⟨e, h1, h2, h3, h4, loop_body_potential a b d x hx herr⟩
  · intro herr v
    exact ⟨fun hv => core_evolve (recovered_core v) s period a b draws hv herr,
      fun hv => core_evolve (not_susceptible_core v) s period a b draws hv herr⟩

/-- C32, on the edge `{0,1}` of a `ContinuousSIR` with node 0 seeded: one susceptible and
one infected node, and a call of `evolve` that performs three iterations (the infection of
node 1 and two recoveries) and returns. -/
theorem C32_iteration_bound_witness :
    2 * count_state (BaseContagion.infect_node_set
        (ContinuousSIR.create [(0, 1)] 1 [0, 2]) [0]).st NodeState.S
      + count_state (BaseContagion.infect_node_set
        (ContinuousSIR.create [(0, 1)] 1 [0, 2]) [0]).st NodeState.I = 3
    ∧ (BaseContagion.evolve (BaseContagion.infect_node_set
        (ContinuousSIR.create [(0, 1)] 1 [0, 2]) [0]).st 100 true true
        [⟨0, 0, 0, fun _ => 0, fun _ => 0, fun _ => 0⟩,
         ⟨0, 0, 0, fun _ => 0, fun _ => 0, fun _ => 0⟩,
         ⟨0, 0, 0, fun _ => 0, fun _ => 0, fun _ => 0⟩]).event_times.length = 3
    ∧ (BaseContagion.evolve (BaseContagion.infect_node_set
        (ContinuousSIR.create [(0, 1)] 1 [0, 2]) [0]).st 100 true true
        [⟨0, 0, 0, fun _ => 0, fun _ => 0, fun _ => 0⟩,
         ⟨0, 0, 0, fun _ => 0, fun _ => 0, fun _ => 0⟩,
         ⟨0, 0, 0, fun _ => 0, fun _ => 0, fun _ => 0⟩]).err ≠ some Err.out_of_draws := by
  have key := C32_iteration_bound
    (BaseContagion.infect_node_set (ContinuousSIR.create [(0, 1)] 1 [0, 2]) [0]).st
    (Reachable.infect_node_set _ (Reachable.continuous _ _ _)) (by with_unfolding_all decide)
    100 true true
    [⟨0, 0, 0, fun _ => 0, fun _ => 0, fun _ => 0⟩,
     ⟨0, 0, 0, fun _ => 0, fun _ => 0, fun _ => 0⟩,
     ⟨0, 0, 0, fun _ => 0, fun _ => 0, fun _ => 0⟩]
  have hc : 2 * count_state (BaseContagion.infect_node_set
        (ContinuousSIR.create [(0, 1)] 1 [0, 2]) [0]).st NodeState.S
      + count_state (BaseContagion.infect_node_set
        (ContinuousSIR.create [(0, 1)] 1 [0, 2]) [0]).st NodeState.I = 3 := by
    with_unfolding_all decide
  refine ⟨hc, ?_, key.2.1 (by rw [hc]; decide)⟩
  with_unfolding_all decide

section RepeatedEdges

/-- A call of `ContinuousSIR::infect` that returned keeps the lengths of the
infected-neighbour lists equal to the numbers of infected entries of the adjacency lists,
repeated entries included. -/
theorem continuous_infect_degree {s : Sim} (hk : s.kind = Kind.continuous)
    (hsym : Network.Symmetric s.network_) (hd : InfectedDegreeInv s)
    (v : Node) (herr : (infect s v).err = none) : InfectedDegreeInv (infect s v).st := by
  obtain ⟨hv, hs⟩ := infect_ok_susceptible s v herr
  have he := infect_effect s v hv hs
  obtain ⟨h1, _, hlist⟩ := continuous_infect_returned s v hk herr
  have hlen := continuous_infection_loop_lengths v (s.network_.adjacent_nodes v) _ h1
  refine ⟨?_, ?_⟩
  · intro u hu
    rw [hlist]
    by_cases huv : u = v
    · rw [huv, Function.update_same]
    · rw [Function.update_noteq huv]
      rw [he.state_vector_, Function.update_noteq huv] at hu
      rw [(hlen u).1 (by
        show Function.update s.state_vector_ v NodeState.I u ≠ NodeState.S
        rw [Function.update_noteq huv]; exact hu)]
      exact hd.other u hu
  · intro u hu hsu
    rw [he.params.size_eq] at hu
    rw [he.state_vector_] at hsu
    have huv : u ≠ v := by
      intro hc
      rw [hc, Function.update_same] at hsu
      exact absurd hsu (by decide)
    rw [Function.update_noteq huv] at hsu
    rw [hlist, Function.update_noteq huv]
    rw [(hlen u).2 (by
      show Function.update s.state_vector_ v NodeState.I u = NodeState.S
      rw [Function.update_noteq huv]; exact hsu)]
    unfold Sim.infected_slots
    rw [he.params.network_, he.state_vector_,
      countP_update_infect _ _ _ (by rw [hs]; decide)]
    have h5 := hd.degree u hu hsu
    unfold Sim.infected_slots at h5
    have h6 := hsym.count_symm u v
    show (s.infected_neighbors_vector_ u).length + _ = _
    omega

/-- A call of `ContinuousSIR::recover` that returned keeps the lengths of the
infected-neighbour lists equal to the numbers of infected entries of the adjacency lists,
repeated entries included. -/
theorem continuous_recover_degree {s : Sim} (hk : s.kind = Kind.continuous)
    (hsym : Network.Symmetric s.network_) (hd : InfectedDegreeInv s)
    (v : Node) (herr : (recover s v).err = none) : InfectedDegreeInv (recover s v).st := by
  obtain ⟨hv, hs⟩ := recover_ok_infected s v herr
  have he := recover_effect s v hv hs
  obtain ⟨h1, _, hlist⟩ := continuous_recover_returned s v hk herr
  have hlen := continuous_recovery_loop_lengths v (s.network_.adjacent_nodes v) _ h1
  have hne : ∀ u, Function.update s.state_vector_ v NodeState.R u = NodeState.S →
      u ≠ v ∧ s.state_vector_ u = NodeState.S := by
    intro u hu
    have huv : u ≠ v := by
      intro hc
      rw [hc, Function.update_same] at hu
      exact absurd hu (by decide)
    rw [Function.update_noteq huv] at hu
    exact ⟨huv, hu⟩
  refine ⟨?_, ?_⟩
  · intro u hu
    rw [hlist]
    rw [he.state_vector_] at hu
    rw [(hlen u).1 hu]
    apply hd.other u
    by_cases huv : u = v
    · rw [huv, hs]; decide
    · rwa [Function.update_noteq huv] at hu
  · intro u hu hsu
    rw [he.params.size_eq] at hu
    rw [he.state_vector_] at hsu
    obtain ⟨huv, hsu2⟩ := hne u hsu
    have h4 := (hlen u).2 hsu
    have h5 := hd.degree u hu hsu2
    have h6 := hsym.count_symm u v
    have h7 := countP_update_recover s.state_vector_ v (s.network_.adjacent_nodes u) hs
    unfold Sim.infected_slots at h5 ⊢
    rw [he.params.network_, he.state_vector_, hlist]
    have h8 : (s.infected_neighbors_vector_ u).length
        = (Sim.infected_neighbors_vector_ { s with
            state_vector_ := Function.update s.state_vector_ v NodeState.R,
            infected_node_set_ := set_erase s.infected_node_set_ v,
            recovered_node_set_ := set_insert s.recovered_node_set_ v } u).length := rfl
    omega

/-- Along returned calls of `infect` and `recover` since the construction, on any edge
list: the instance is a `ContinuousSIR` on the network of the edge list, and the lengths
of the infected-neighbour lists count the infected entries of the adjacency lists. -/
theorem continuous_called_degree {edge_list : EdgeList} {recovery_rate : ℚ}
    {infection_rate : List ℚ} {s : Sim}
    (h : ContinuousSIR.Called edge_list recovery_rate infection_rate s) :
    s.kind = Kind.continuous ∧ s.network_ = Network.ofEdgeList edge_list
      ∧ InfectedDegreeInv s := by
  induction h with
  | create =>
    refine ⟨rfl, rfl, ⟨fun _ _ => rfl, fun v _ _ => ?_⟩⟩
    show 0 = _
    unfold Sim.infected_slots
    symm
    apply countP_eq_zero_of_none
    intro u _ hc
    have h2 : NodeState.S = NodeState.I := hc
    exact absurd h2 (by decide)
  | @infect x v _ herr ih =>
    obtain ⟨hk, hn, hd⟩ := ih
    have hpar := (infect_params_history x v).1
    refine ⟨by rw [hpar.kind]; exact hk, by rw [hpar.network_]; exact hn, ?_⟩
    exact continuous_infect_degree hk (hn ▸ Network.symmetric_of_edge_list edge_list) hd v herr
  | @recover x v _ herr ih =>
    obtain ⟨hk, hn, hd⟩ := ih
    have hpar := (recover_params_history x v).1
    refine ⟨by rw [hpar.kind]; exact hk, by rw [hpar.network_]; exact hn, ?_⟩
    exact continuous_recover_degree hk (hn ▸ Network.symmetric_of_edge_list edge_list) hd v herr

end RepeatedEdges

/-- C34. `ContinuousSIR` on an edge list with repeated edges.  The half of the claim on
the lengths holds on every edge list and for every rate table: after the construction and
any sequence of calls of `infect` and `recover` that returned, the length of the entry of
`infected_neighbors_vector_` of a susceptible node is the number of entries of its
adjacency list that are infected.  The half on the elements fails: on the edge list
`(0,1), (1,0), (1,2)`, which has no self-loop, with a rate table of length
`max_degree + 1 = 4`, the calls `infect(2)`, `infect(0)`, `recover(0)` all return, and
they leave the susceptible node 1 with the entry `[0]`: node 0 is Recovered, and node 2,
which is Infected and adjacent to node 1, is not in the entry. -/
theorem C34_repeated_edge_removes_wrong_neighbor :
    (∀ (edge_list : EdgeList) (recovery_rate : ℚ) (infection_rate : List ℚ) (s : Sim),
      ContinuousSIR.Called edge_list recovery_rate infection_rate s →
      ∀ v, v < s.size → s.state_vector_ v = NodeState.S →
        (s.infected_neighbors_vector_ v).length = s.infected_slots v)
    ∧ (∀ e ∈ [((0 : Node), (1 : Node)), (1, 0), (1, 2)], e.1 ≠ e.2)
    ∧ (Network.ofEdgeList [(0, 1), (1, 0), (1, 2)]).max_degree_ + 1
        ≤ ([0, 1, 2, 3] : List ℚ).length
    ∧ (Network.ofEdgeList [(0, 1), (1, 0), (1, 2)]).adjacent_nodes 1 = [0, 0, 2]
    ∧ (infect (ContinuousSIR.create [(0, 1), (1, 0), (1, 2)] 1 [0, 1, 2, 3]) 2).err = none
    ∧ (infect (infect (ContinuousSIR.create [(0, 1), (1, 0), (1, 2)] 1 [0, 1, 2, 3]) 2).st
        0).err = none
    ∧ (infect (infect (ContinuousSIR.create [(0, 1), (1, 0), (1, 2)] 1 [0, 1, 2, 3]) 2).st
        0).st.infected_neighbors_vector_ 1 = [2, 0, 0]
    ∧ (recover (infect (infect (ContinuousSIR.create [(0, 1), (1, 0), (1, 2)] 1
        [0, 1, 2, 3]) 2).st 0).st 0).err = none
    ∧ (recover (infect (infect (ContinuousSIR.create [(0, 1), (1, 0), (1, 2)] 1
        [0, 1, 2, 3]) 2).st 0).st 0).st.state_vector_ 1 = NodeState.S
    ∧ (recover (infect (infect (ContinuousSIR.create [(0, 1), (1, 0), (1, 2)] 1
        [0, 1, 2, 3]) 2).st 0).st 0).st.infected_neighbors_vector_ 1 = [0]
    ∧ (recover (infect (infect (ContinuousSIR.create [(0, 1), (1, 0), (1, 2)] 1
        [0, 1, 2, 3]) 2).st 0).st 0).st.state_vector_ 0 = NodeState.R
    ∧ (recover (infect (infect (ContinuousSIR.create [(0, 1), (1, 0), (1, 2)] 1
        [0, 1, 2, 3]) 2).st 0).st 0).st.state_vector_ 2 = NodeState.I
    ∧ (recover (infect (infect (ContinuousSIR.create [(0, 1), (1, 0), (1, 2)] 1
        [0, 1, 2, 3]) 2).st 0).st 0).st.infected_slots 1 = 1 := by
  refine ⟨?_, by decide, ?_, ?_, ?_, ?_, ?_, ?_, ?_, ?_, ?_, ?_, ?_⟩
  · intro edge_list recovery_rate infection_rate s h v hv hs
    exact (continuous_called_degree h).2.2.degree v hv hs
  all_goals with_unfolding_all decide

section GenerationEntries

theorem Recorded.recorded_reached {s : Sim} (h : Recorded s) : Reached s := by
  induction h with
  | continuous el rr ir => exact Reached.continuous el rr ir
  | discrete el rp ip f => exact Reached.discrete el rp ip f
  | annealed n d rr ir c0 r0 => exact Reached.annealed n d rr ir c0 r0
  | infect_fraction fr dr _ herr ih => exact Reached.infect_fraction fr dr ih herr
  | infect_node_set ns _ herr ih => exact Reached.infect_node_set ns ih herr
  | evolve p b dr _ herr ih => exact Reached.evolve p true b dr ih herr
  | base_clear _ herr ih => exact Reached.base_clear ih herr
  | clear _ herr ih => exact Reached.clear ih herr
  | reset _ herr ih => exact Reached.reset ih herr

/-- No elementary mutation of the engine changes the network. -/
theorem stable_network (g : Network) : Stable (fun s => s.network_ = g) where
  infect := fun s v h => (infect_params_history s v).1.network_.trans h
  recover := fun s v h => (recover_params_history s v).1.network_.trans h
  generation := fun _ _ h => h
  tree := fun _ _ h => h
  snapshot := fun _ _ h => h
  clock := fun _ _ _ h => h
  flip := fun _ h => h
  clear_sets := fun _ h => h
  refill_sets := fun _ h => h

/-- A state in which every node is susceptible has the invariant. -/
theorem GenerationInv.of_all_susceptible {s : Sim} (h : AllSusceptible s) : GenerationInv s := by
  intro v hv hI
  rw [h.susceptible v hv] at hI
  exact absurd hI (by decide)

/-- A node that a batch of events leaves infected was infected before it or is infected by
one of the events. -/
theorem foldl_update_infected (events : List Event) :
    ∀ (f : Node → NodeState) (v : Node),
      events.foldl (fun sv e => Function.update sv e.1 e.2.outcome) f v = NodeState.I →
      f v = NodeState.I ∨ (v, Action.INFECTION) ∈ events := by
  induction events with
  | nil => intro f v h; exact Or.inl h
  | cons e es ih =>
    intro f v h
    rw [List.foldl_cons] at h
    rcases ih _ v h with h1 | h1
    · by_cases hv : v = e.1
      · right
        rw [hv, Function.update_same] at h1
        have h2 : e.2 = Action.INFECTION := by
          cases h3 : e.2
          · rw [h3] at h1; exact absurd h1 (by decide)
          · rfl
        rw [hv, ← h2]
        exact List.mem_cons_self _ _
      · rw [Function.update_noteq hv] at h1
        exact Or.inl h1
    · exact Or.inr (List.mem_cons_of_mem _ h1)

/-- A call of `update_transmission_tree` that returned removed no entry of
`infection_generation_` and gave one to every node that an event of the batch infects. -/
theorem update_transmission_tree_generation (us : Nat → ℚ) (events : List Event) :
    ∀ (i : Nat) (s : Sim),
      (BaseContagion.update_transmission_tree us i events s).err = none →
      (∀ v, s.infection_generation_ v ≠ none →
        (BaseContagion.update_transmission_tree us i events s).st.infection_generation_ v
          ≠ none)
      ∧ (∀ v, (v, Action.INFECTION) ∈ events →
        (BaseContagion.update_transmission_tree us i events s).st.infection_generation_ v
          ≠ none) := by
  induction events with
  | nil =>
    intro i s _
    rw [update_transmission_tree_nil]
    exact ⟨fun _ h => h, fun v hv => absurd hv (List.not_mem_nil _)⟩
  | cons e es ih =>
    intro i s herr
    cases he : e.2 with
    | RECOVERY =>
      rw [update_transmission_tree_recovery us i e es s he] at herr ⊢
      obtain ⟨i1, i2⟩ := ih (i + 1) s herr
      refine ⟨i1, fun v hv => ?_⟩
      rcases List.mem_cons.1 hv with h1 | h1
      · rw [← h1] at he
        exact Action.noConfusion he
      · exact i2 v h1
    | INFECTION =>
      cases hu : BaseContagion.random_infected_neighbor s e.1 (us i) with
      | none =>
        have hst := congrArg Res.err (show
          BaseContagion.update_transmission_tree us i (e :: es) s
            = Res.fail s Err.out_of_range by
          unfold BaseContagion.update_transmission_tree
          simp only [he, hu])
        rw [hst] at herr
        exact absurd herr (by simp [Res.fail])
      | some u =>
        cases hg : s.infection_generation_ u with
        | none =>
          have hst := congrArg Res.err (show
            BaseContagion.update_transmission_tree us i (e :: es) s
              = Res.fail s Err.out_of_range by
            unfold BaseContagion.update_transmission_tree
            simp only [he, hu, hg])
          rw [hst] at herr
          exact absurd herr (by simp [Res.fail])
        | some g =>
          obtain ⟨k, _, heq⟩ := update_transmission_tree_infection us i e es s he u g hu hg
          rw [heq] at herr ⊢
          obtain ⟨i1, i2⟩ := ih (i + 1) _ herr
          have hnew : ∀ v, (s.infection_generation_ v ≠ none ∨ v = e.1) →
              Function.update s.infection_generation_ e.1 (some (g + 1)) v ≠ none := by
            intro v hv
            by_cases hve : v = e.1
            · rw [hve, Function.update_same]; simp
            · rw [Function.update_noteq hve]
              exact hv.resolve_right hve
          refine ⟨fun v hv => i1 v (hnew v (Or.inl hv)), fun v hv => ?_⟩
          rcases List.mem_cons.1 hv with h1 | h1
          · exact i1 v (hnew v (Or.inr (by rw [← h1])))
          · exact i2 v h1

end GenerationEntries

section GenerationKept

/-- An iteration of the event loop that returned: the tree update returned, and the
generation map it left is the one the iteration leaves. -/
theorem loop_body_generation_eq (a b : Bool) (d : Draw) (s : Sim)
    (herr : (BaseContagion.loop_body a b d s).err = none) :
    (if a = true ∧ (next_step s d).2.length > 0 then
        BaseContagion.update_transmission_tree d.infector_u 0 (next_step s d).2
          (next_step s d).1.st
      else Res.ok (next_step s d).1.st).err = none
    ∧ (BaseContagion.loop_body a b d s).st.infection_generation_
      = (if a = true ∧ (next_step s d).2.length > 0 then
          BaseContagion.update_transmission_tree d.infector_u 0 (next_step s d).2
            (next_step s d).1.st
        else Res.ok (next_step s d).1.st).st.infection_generation_ := by
  rw [loop_body_eq] at herr ⊢
  obtain ⟨h1, herr2⟩ := Res.andThen_err_none herr
  rw [Res.andThen_of_ok _ h1] at herr ⊢
  obtain ⟨h2, herr3⟩ := Res.andThen_err_none herr2
  refine ⟨h2, ?_⟩
  rw [Res.andThen_of_ok _ h2] at herr ⊢
  obtain ⟨h3, _⟩ := Res.andThen_err_none herr3
  rw [Res.andThen_of_ok _ h3]
  have hsv : ∀ s2 : Sim,
      (if b = true then (BaseContagion.apply_events (next_step s d).2 s2).st.store_current_macro_state
        else (BaseContagion.apply_events (next_step s d).2 s2).st).infection_generation_
        = (BaseContagion.apply_events (next_step s d).2 s2).st.infection_generation_ := by
    intro s2; split <;> rfl
  simp only [Res.ok_st]
  rw [hsv]
  exact (apply_events_history _ _).infection_generation_

/-- An iteration of the event loop with `save_transmission_tree` set that returned keeps
the invariant: the nodes it infects are given an entry before they are infected. -/
theorem loop_body_generation (b : Bool) (d : Draw) (s : Sim) (h : GenerationInv s)
    (herr : (BaseContagion.loop_body true b d s).err = none) :
    GenerationInv (BaseContagion.loop_body true b d s).st := by
  intro v hv hI
  have hnet : (BaseContagion.loop_body true b d s).st.network_ = s.network_ :=
    (stable_network s.network_).loop_body true b d s rfl
  have hv2 : v < s.size := by
    unfold Sim.size at hv ⊢
    rwa [hnet] at hv
  obtain ⟨_, hstates⟩ := loop_body_states true b d s herr
  rw [hstates] at hI
  obtain ⟨hX, hgen⟩ := loop_body_generation_eq true b d s herr
  obtain ⟨c, c2, hst⟩ := next_step_clock s d
  have hg0 : (next_step s d).1.st.infection_generation_ = s.infection_generation_ := by
    rw [hst]
  rw [hgen]
  by_cases hlen : (next_step s d).2.length > 0
  · rw [if_pos (And.intro rfl hlen)] at hX ⊢
    obtain ⟨i1, i2⟩ := update_transmission_tree_generation d.infector_u (next_step s d).2 0
      (next_step s d).1.st hX
    rcases foldl_update_infected _ _ v hI with h1 | h1
    · apply i1
      rw [hg0]
      exact h v hv2 h1
    · exact i2 v h1
  · have hnil : (next_step s d).2 = [] := by
      cases hl : (next_step s d).2 with
      | nil => rfl
      | cons e es => rw [hl] at hlen; simp at hlen
    rw [if_neg (fun hc => hlen hc.2), Res.ok_st, hg0]
    rw [hnil] at hI
    rcases foldl_update_infected _ _ v hI with h1 | h1
    · exact h v hv2 h1
    · exact absurd h1 (List.not_mem_nil _)

/-- A property that the iterations of the event loop that returned keep, for given flags,
and that does not depend on the snapshots and the clock, is kept by a call of `evolve`
that returned. -/
theorem evolve_of_loop_body {P : Sim → Prop} (a b : Bool)
    (hbody : ∀ (d : Draw) (s : Sim), P s → (BaseContagion.loop_body a b d s).err = none →
      P (BaseContagion.loop_body a b d s).st)
    (hsnap : ∀ (s : Sim) (m : List MacroState), P s → P { s with macro_state_vector_ := m })
    (hclock : ∀ (s : Sim) (t : Time), P s → P { s with current_time_ := t })
    (s : Sim) (period : ℚ) (draws : List Draw) (h : P s)
    (herr : (BaseContagion.evolve s period a b draws).err = none) :
    P (BaseContagion.evolve s period a b draws).st := by
  have hloop : ∀ (t0 : ℚ) (draws : List Draw) (s : Sim), P s →
      (BaseContagion.evolve_loop t0 period a b draws s).err = none →
      P (BaseContagion.evolve_loop t0 period a b draws s).st := by
    intro t0 draws
    induction draws with
    | nil =>
      intro s h _
      unfold BaseContagion.evolve_loop
      split <;> exact h
    | cons d ds ih =>
      intro s h herr
      by_cases hg : BaseContagion.loop_guard s t0 period = true
      · obtain ⟨h1, h2, h3⟩ := evolve_loop_err_none t0 period a b d ds s hg herr
        rw [h2]
        exact ih _ (hbody d s h h1) h3
      · unfold BaseContagion.evolve_loop
        rw [if_neg hg]
        exact h
  unfold BaseContagion.evolve at herr ⊢
  simp only at herr ⊢
  have h0 : P (if b = true ∧ s.macro_state_vector_.length = 0
      then s.store_current_macro_state else s) := by
    split
    · exact hsnap s _ h
    · exact h
  split
  · rename_i e he
    rw [he] at herr
    simp only at herr
    rw [he] at herr
    exact absurd herr (by simp)
  · rename_i he
    exact hclock _ _ (hloop _ draws _ h0 he)

/-- In every state reached by calls that returned, every call of `evolve` having
`save_transmission_tree` set, every infected node has an entry in `infection_generation_`. -/
theorem generation_of_recorded {s : Sim} (h : Recorded s) : GenerationInv s := by
  induction h with
  | continuous el rr ir =>
    intro v _ hI
    have h2 : NodeState.S = NodeState.I := hI
    exact absurd h2 (by decide)
  | discrete el rp ip f =>
    intro v _ hI
    have h2 : NodeState.S = NodeState.I := hI
    exact absurd h2 (by decide)
  | annealed n d rr ir c0 r0 =>
    intro v _ hI
    have h2 : NodeState.S = NodeState.I := hI
    exact absurd h2 (by decide)
  | @infect_fraction x fr dr _ herr ih =>
    intro v hv hI
    have hnet : (BaseContagion.infect_fraction x fr dr).st.network_ = x.network_ :=
      (stable_network x.network_).infect_fraction x fr dr rfl
    have hv2 : v < x.size := by
      unfold Sim.size at hv ⊢
      rwa [hnet] at hv
    unfold BaseContagion.infect_fraction at herr hI ⊢
    obtain ⟨l, _, _, hin, hout⟩ := infect_fraction_loop_effect
      (BaseContagion.number_of_infection x fr) dr 0 x (Nat.zero_le _) herr
    by_cases hl : v ∈ l
    · rw [(hin v hl).2.2.2]; simp
    · rw [(hout v hl).2]
      rw [(hout v hl).1] at hI
      exact ih v hv2 hI
  | @infect_node_set x ns _ herr ih =>
    intro v hv hI
    have hnet : (BaseContagion.infect_node_set x ns).st.network_ = x.network_ :=
      (stable_network x.network_).infect_node_set x ns rfl
    have hv2 : v < x.size := by
      unfold Sim.size at hv ⊢
      rwa [hnet] at hv
    obtain ⟨h1, h2⟩ := (infect_node_set_effect ns x herr).2 v
    rw [h2]
    rw [h1] at hI
    by_cases hc : v ∈ ns ∧ x.state_vector_ v = NodeState.S
    · rw [if_pos hc]; simp
    · rw [if_neg hc]
      rw [if_neg hc] at hI
      exact ih v hv2 hI
  | @evolve x p b dr _ herr ih =>
    exact evolve_of_loop_body true b (fun d s hs he => loop_body_generation b d s hs he)
      (fun _ _ hs => hs) (fun _ _ hs => hs) x p dr ih herr
  | @base_clear x hx herr _ =>
    exact GenerationInv.of_all_susceptible (base_clear_all_susceptible x
      (PopulationInv.population_of_reachable hx.recorded_reached.to_reachable) herr)
  | @clear x hx herr _ =>
    exact GenerationInv.of_all_susceptible (derived_clear_all_susceptible x
      (PopulationInv.population_of_reachable hx.recorded_reached.to_reachable) herr)
  | @reset x hx herr _ =>
    exact GenerationInv.of_all_susceptible (reset_all_susceptible x
      (PopulationInv.population_of_reachable hx.recorded_reached.to_reachable) herr).population

end GenerationKept

/-- C33. The entries of `infection_generation_` when the flag `save_transmission_tree`
varies between calls of `evolve`.  When every call of `evolve` has the flag set, the claim
holds: in every state reached by calls of `infect_fraction`, `infect_node_set`, `clear`,
`reset` and `evolve` that returned, every infected node has an entry.  With the flag
unset it fails: on the path `(0,1), (1,2)` of a `ContinuousSIR` with node 0 seeded,
`evolve(1/2, false, false)` returns after the infection of node 1 at time `1/3`, and
leaves node 1 Infected without entry; the next call `evolve(1/2, true, false)` selects the
infection of node 2, whose only infected neighbour is node 1, and the lookup of the
generation of node 1 in `update_transmission_tree` raises `out_of_range`. -/
theorem C33_generation_entry_missing :
    (∀ s : Sim, Recorded s →
      ∀ v, v < s.size → s.state_vector_ v = NodeState.I → s.infection_generation_ v ≠ none)
    ∧ Reached (BaseContagion.evolve (BaseContagion.infect_node_set
        (ContinuousSIR.create [(0, 1), (1, 2)] 1 [0, 2, 3]) [0]).st (1 / 2) false false
        [⟨0, 0, 0, fun _ => 0, fun _ => 0, fun _ => 0⟩]).st
    ∧ (BaseContagion.evolve (BaseContagion.infect_node_set
        (ContinuousSIR.create [(0, 1), (1, 2)] 1 [0, 2, 3]) [0]).st (1 / 2) false false
        [⟨0, 0, 0, fun _ => 0, fun _ => 0, fun _ => 0⟩]).event_times = [1 / 3]
    ∧ (BaseContagion.evolve (BaseContagion.infect_node_set
        (ContinuousSIR.create [(0, 1), (1, 2)] 1 [0, 2, 3]) [0]).st (1 / 2) false false
        [⟨0, 0, 0, fun _ => 0, fun _ => 0, fun _ => 0⟩]).st.state_vector_ 1 = NodeState.I
    ∧ (BaseContagion.evolve (BaseContagion.infect_node_set
        (ContinuousSIR.create [(0, 1), (1, 2)] 1 [0, 2, 3]) [0]).st (1 / 2) false false
        [⟨0, 0, 0, fun _ => 0, fun _ => 0, fun _ => 0⟩]).st.infection_generation_ 1 = none
    ∧ (next_step (BaseContagion.evolve (BaseContagion.infect_node_set
        (ContinuousSIR.create [(0, 1), (1, 2)] 1 [0, 2, 3]) [0]).st (1 / 2) false false
        [⟨0, 0, 0, fun _ => 0, fun _ => 0, fun _ => 0⟩]).st
        ⟨0, 0, 0, fun _ => 0, fun _ => 0, fun _ => 0⟩).2 = [(2, Action.INFECTION)]
    ∧ BaseContagion.random_infected_neighbor (BaseContagion.evolve
        (BaseContagion.infect_node_set
          (ContinuousSIR.create [(0, 1), (1, 2)] 1 [0, 2, 3]) [0]).st (1 / 2) false false
        [⟨0, 0, 0, fun _ => 0, fun _ => 0, fun _ => 0⟩]).st 2 0 = some 1
    ∧ (BaseContagion.evolve (BaseContagion.evolve (BaseContagion.infect_node_set
        (ContinuousSIR.create [(0, 1), (1, 2)] 1 [0, 2, 3]) [0]).st (1 / 2) false false
        [⟨0, 0, 0, fun _ => 0, fun _ => 0, fun _ => 0⟩]).st (1 / 2) true false
        [⟨0, 0, 0, fun _ => 0, fun _ => 0, fun _ => 0⟩]).err = some Err.out_of_range := by
  refine ⟨fun s h => generation_of_recorded h, ?_, ?_, ?_, ?_, ?_, ?_, ?_⟩
  · exact Reached.evolve (1 / 2) false false _
      (Reached.infect_node_set [0] (Reached.continuous _ _ _) (by with_unfolding_all decide))
      (by with_unfolding_all decide)
  all_goals with_unfolding_all decide

section EventPreconditions

/-- The precondition depends on the network and the states only. -/
theorem Applicable.applicable_of_same {s s2 : Sim} {e : Event} (h : Applicable s e)
    (hsv : s2.state_vector_ = s.state_vector_) (hnet : s2.network_ = s.network_) :
    Applicable s2 e := by
  unfold Applicable Sim.size at h ⊢
  rw [hsv, hnet]
  exact h

theorem apply_event_network (s : Sim) (e : Event) :
    (BaseContagion.apply_event s e).st.network_ = s.network_ := by
  unfold BaseContagion.apply_event
  split
  · exact (infect_params_history s e.1).1.network_
  · exact (recover_params_history s e.1).1.network_

/-- An event applied under its precondition raises neither precondition error. -/
theorem apply_event_err_ne (s : Sim) (e : Event) (h : Applicable s e) (x : Err)
    (h1 : x ≠ Err.undefined_behaviour) (h2 : x ≠ Err.out_of_range) :
    (BaseContagion.apply_event s e).err ≠ some x := by
  obtain ⟨hv, hs⟩ := h
  unfold BaseContagion.apply_event
  split
  · rename_i he
    rw [he] at hs
    exact infect_err_ne s e.1 hv hs x h1 h2
  · rename_i he
    rw [he] at hs
    exact recover_err_ne s e.1 hv hs x h1 h2

/-- An event that was applied leaves the precondition of the events on other nodes as
it was. -/
theorem apply_event_applicable (s : Sim) (e : Event)
    (herr : (BaseContagion.apply_event s e).err = none) (e2 : Event) (hne : e2.1 ≠ e.1)
    (h : Applicable s e2) : Applicable (BaseContagion.apply_event s e).st e2 := by
  obtain ⟨_, _, hst⟩ := apply_event_returned s e herr
  unfold Applicable Sim.size at h ⊢
  rw [apply_event_network, hst, Function.update_noteq hne]
  exact h

/-- A batch of events on distinct nodes, each applicable when the batch starts: every
event is applicable at the moment it is applied. -/
theorem apply_events_applicable (events : List Event) :
    ∀ (s : Sim), (∀ e ∈ events, Applicable s e) → (events.map Prod.fst).Nodup →
      ∀ (k : Nat) (e : Event), events.get? k = some e →
        (BaseContagion.apply_events (events.take k) s).err = none →
        Applicable (BaseContagion.apply_events (events.take k) s).st e := by
  induction events with
  | nil => intro s _ _ k e hk; simp at hk
  | cons e0 es ih =>
    intro s hall hnd k e hk herr
    cases k with
    | zero =>
      simp only [List.get?_cons_zero, Option.some.injEq] at hk
      rw [← hk]
      exact hall e0 (List.mem_cons_self _ _)
    | succ k =>
      rw [List.get?_cons_succ] at hk
      rw [List.take_succ_cons] at herr ⊢
      unfold BaseContagion.apply_events at herr ⊢
      rw [for_each_cons] at herr ⊢
      obtain ⟨h1, h2⟩ := Res.andThen_err_none herr
      rw [Res.andThen_of_ok _ h1]
      rw [List.map_cons, List.nodup_cons] at hnd
      apply ih _ _ hnd.2 k e hk h2
      intro e2 he2
      apply apply_event_applicable s e0 h1 e2 _ (hall e2 (List.mem_cons_of_mem _ he2))
      intro hc
      exact hnd.1 (hc ▸ List.mem_map_of_mem Prod.fst he2)

/-- A batch of events on distinct nodes, each applicable when the batch starts, raises
neither precondition error. -/
theorem apply_events_err_ne (events : List Event) :
    ∀ (s : Sim), (∀ e ∈ events, Applicable s e) → (events.map Prod.fst).Nodup →
      ∀ x : Err, x ≠ Err.undefined_behaviour → x ≠ Err.out_of_range →
        (BaseContagion.apply_events events s).err ≠ some x := by
  induction events with
  | nil =>
    intro s _ _ x _ _
    unfold BaseContagion.apply_events
    rw [for_each_nil]
    simp
  | cons e0 es ih =>
    intro s hall hnd x hx1 hx2
    unfold BaseContagion.apply_events
    rw [for_each_cons]
    rw [List.map_cons, List.nodup_cons] at hnd
    rcases Res.andThen_cases (BaseContagion.apply_event s e0)
      (for_each BaseContagion.apply_event es) with ⟨h1, h2⟩ | ⟨_, h2⟩
    · rw [h2]
      apply ih _ _ hnd.2 x hx1 hx2
      intro e2 he2
      apply apply_event_applicable s e0 h1 e2 _ (hall e2 (List.mem_cons_of_mem _ he2))
      intro hc
      exact hnd.1 (hc ▸ List.mem_map_of_mem Prod.fst he2)
    · rw [h2]
      exact apply_event_err_ne s e0 (hall e0 (List.mem_cons_self _ _)) x hx1 hx2

/-- In a state in which an iteration of the event loop starts, the events that `next_step`
selects are on distinct nodes and each is applicable: a recovery on an infected node, an
infection on a susceptible node. -/
theorem next_step_applicable {s : Sim} (h : Visited s) (d : Draw) :
    (∀ e ∈ (next_step s d).2, Applicable s e)
    ∧ ((next_step s d).2.map Prod.fst).Nodup := by
  have hrec : RecoveryInv s :=
    kept_visited RecoveryInv.kept_recovery (fun _ hr => RecoveryInv.recovery_of_reached hr) h
  obtain ⟨hpop, hkeys⟩ := kept_visited InfectionKeysInv.kept_keys
    (fun _ hr => InfectionKeysInv.keys_of_reached hr) h
  obtain ⟨recs, infs, heq, hnr, hni, hr, hi⟩ := next_step_batch s d
  have hrec2 : ∀ v ∈ recs, v < s.size ∧ s.state_vector_ v = NodeState.I := fun v hv =>
    (hpop.infected_iff v).1 ((hrec.keys_iff v).1 (hr v hv))
  have hinf2 : ∀ v ∈ infs, v < s.size ∧ s.state_vector_ v = NodeState.S := fun v hv =>
    hkeys v (hi v hv)
  rw [heq]
  constructor
  · intro e he
    rcases List.mem_append.1 he with h1 | h1
    · obtain ⟨v, hv, rfl⟩ := List.mem_map.1 h1
      exact hrec2 v hv
    · obtain ⟨v, hv, rfl⟩ := List.mem_map.1 h1
      exact hinf2 v hv
  · have hmap : (recs.map (fun node => (node, Action.RECOVERY))
        ++ infs.map (fun node => (node, Action.INFECTION))).map Prod.fst = recs ++ infs := by
      simp [List.map_append, List.map_map, Function.comp_def]
    rw [hmap, List.nodup_append]
    refine ⟨hnr, hni, ?_⟩
    intro v hv1 hv2
    have h1 := (hrec2 v hv1).2
    rw [(hinf2 v hv2).2] at h1
    exact absurd h1 (by decide)

end EventPreconditions

section LoopPreconditions

/-- The state that an iteration of the event loop hands to `apply_events` has the network
and the states of the state in which the iteration started. -/
theorem loop_body_handed_state (a : Bool) (d : Draw) (s : Sim) :
    (if a = true ∧ (next_step s d).2.length > 0 then
        BaseContagion.update_transmission_tree d.infector_u 0 (next_step s d).2
          (next_step s d).1.st
      else Res.ok (next_step s d).1.st).st.state_vector_ = s.state_vector_
    ∧ (if a = true ∧ (next_step s d).2.length > 0 then
        BaseContagion.update_transmission_tree d.infector_u 0 (next_step s d).2
          (next_step s d).1.st
      else Res.ok (next_step s d).1.st).st.network_ = s.network_ := by
  obtain ⟨c, c2, hst⟩ := next_step_clock s d
  split
  · obtain ⟨g, tr, hg⟩ := update_transmission_tree_frame d.infector_u (next_step s d).2 0
      (next_step s d).1.st
    rw [hg, hst]
    exact ⟨rfl, rfl⟩
  · rw [Res.ok_st, hst]
    exact ⟨rfl, rfl⟩

/-- An iteration of the event loop that starts in a visited state raises, besides the
errors of `next_step`, only those of a failed lookup or of an access outside a container. -/
theorem loop_body_err_ne_of_next_step {s : Sim} (h : Visited s) (a b : Bool) (d : Draw)
    (x : Err) (h1 : x ≠ Err.undefined_behaviour) (h2 : x ≠ Err.out_of_range)
    (hn : (next_step s d).1.err ≠ some x) :
    (BaseContagion.loop_body a b d s).err ≠ some x := by
  obtain ⟨hall, hnd⟩ := next_step_applicable h d
  obtain ⟨hsv, hnet⟩ := loop_body_handed_state a d s
  rw [loop_body_eq]
  rcases Res.andThen_cases (next_step s d).1 (fun s1 =>
      (if a = true ∧ (next_step s d).2.length > 0 then
          BaseContagion.update_transmission_tree d.infector_u 0 (next_step s d).2 s1
        else Res.ok s1).andThen fun s2 =>
        (BaseContagion.apply_events (next_step s d).2 s2).andThen fun s3 =>
          Res.ok (if b = true then s3.store_current_macro_state else s3))
    with ⟨_, e1⟩ | ⟨_, e1⟩
  swap
  · rw [e1]
    exact hn
  rw [e1]
  rcases Res.andThen_cases (if a = true ∧ (next_step s d).2.length > 0 then
          BaseContagion.update_transmission_tree d.infector_u 0 (next_step s d).2
            (next_step s d).1.st
        else Res.ok (next_step s d).1.st) (fun s2 =>
        (BaseContagion.apply_events (next_step s d).2 s2).andThen fun s3 =>
          Res.ok (if b = true then s3.store_current_macro_state else s3))
    with ⟨_, e2⟩ | ⟨_, e2⟩
  swap
  · rw [e2]
    split
    · rcases update_transmission_tree_err d.infector_u (next_step s d).2 0
        (next_step s d).1.st with e | e <;> rw [e]
      · simp
      · intro hc; exact h2 (Option.some.inj hc).symm
    · simp
  rw [e2]
  have hall2 : ∀ e ∈ (next_step s d).2, Applicable (if a = true ∧ (next_step s d).2.length > 0
      then BaseContagion.update_transmission_tree d.infector_u 0 (next_step s d).2
            (next_step s d).1.st
      else Res.ok (next_step s d).1.st).st e := fun e he => (hall e he).applicable_of_same hsv hnet
  have hap := apply_events_err_ne (next_step s d).2 _ hall2 hnd x h1 h2
  rcases Res.andThen_cases (BaseContagion.apply_events (next_step s d).2
      (if a = true ∧ (next_step s d).2.length > 0
      then BaseContagion.update_transmission_tree d.infector_u 0 (next_step s d).2
            (next_step s d).1.st
      else Res.ok (next_step s d).1.st).st) (fun s3 =>
          Res.ok (if b = true then s3.store_current_macro_state else s3))
    with ⟨_, e3⟩ | ⟨_, e3⟩
  · rw [e3]; simp
  · rw [e3]; exact hap

/-- An iteration of the event loop that starts in a visited state raises neither
precondition error. -/
theorem loop_body_err_ne_precondition {s : Sim} (h : Visited s) (a b : Bool) (d : Draw)
    (x : Err) (h1 : x ≠ Err.undefined_behaviour) (h2 : x ≠ Err.out_of_range)
    (h3 : x ≠ Err.non_finite) (h4 : x ≠ Err.bad_optional_access) :
    (BaseContagion.loop_body a b d s).err ≠ some x := by
  apply loop_body_err_ne_of_next_step h a b d x h1 h2
  rcases next_step_err s d with e | e | e <;> rw [e]
  · simp
  · intro hc; exact h3 (Option.some.inj hc).symm
  · intro hc; exact h4 (Option.some.inj hc).symm

/-- The event loop started in a visited state raises neither precondition error. -/
theorem evolve_loop_err_ne_precondition (t0 period : ℚ) (a b : Bool) (x : Err)
    (h1 : x ≠ Err.undefined_behaviour) (h2 : x ≠ Err.out_of_range)
    (h3 : x ≠ Err.non_finite) (h4 : x ≠ Err.bad_optional_access) (h5 : x ≠ Err.out_of_draws)
    (draws : List Draw) :
    ∀ s : Sim, Visited s → (BaseContagion.evolve_loop t0 period a b draws s).err ≠ some x := by
  induction draws with
  | nil =>
    intro s _
    unfold BaseContagion.evolve_loop
    split
    · intro hc; exact h5 (Option.some.inj hc).symm
    · simp
  | cons d ds ih =>
    intro s h
    rw [evolve_loop_cons]
    split
    · have hb := loop_body_err_ne_precondition h a b d x h1 h2 h3 h4
      cases he : (BaseContagion.loop_body a b d s).err with
      | some e =>
        simp only
        intro hc
        rw [he] at hb
        exact hb hc
      | none =>
        simp only
        exact ih _ (Visited.iteration a b d h he)
    · simp

/-- A call of `evolve` in a visited state raises neither precondition error. -/
theorem evolve_err_ne_precondition {s : Sim} (h : Visited s) (period : ℚ) (a b : Bool)
    (draws : List Draw) (x : Err)
    (h1 : x ≠ Err.undefined_behaviour) (h2 : x ≠ Err.out_of_range)
    (h3 : x ≠ Err.non_finite) (h4 : x ≠ Err.bad_optional_access) (h5 : x ≠ Err.out_of_draws) :
    (BaseContagion.evolve s period a b draws).err ≠ some x := by
  rw [evolve_err]
  apply evolve_loop_err_ne_precondition _ period a b x h1 h2 h3 h4 h5 draws
  split
  · exact Visited.store h
  · exact h

end LoopPreconditions

section NonemptySampling

/-- Sampling from a set that is not empty gives an element. -/
theorem SamplableSet.sample_of_nonempty {w : SamplableSet} (h : w.items ≠ []) (draw : Nat) :
    ∃ p, w.sample draw = some p := by
  have hlen : 0 < w.items.length := List.length_pos.2 h
  unfold SamplableSet.sample
  rw [if_neg (by omega)]
  have hlt : draw % w.items.length < w.items.length := Nat.mod_lt _ hlen
  exact ⟨w.items.get ⟨_, hlt⟩, List.get?_eq_get hlt⟩

/-- A set whose total weight is not 0 is not empty. -/
theorem SamplableSet.nonempty_of_total_weight {w : SamplableSet} (h : w.total_weight ≠ 0) :
    w.items ≠ [] := by
  intro hc
  apply h
  unfold SamplableSet.total_weight
  rw [hc]
  rfl

/-- A sampling loop of `DiscreteSIR::next_step` returns when the set is not empty or no
draw is asked for. -/
theorem sample_distinct_returns (w : SamplableSet) (pick : Nat → Nat) :
    ∀ n : Nat, (w.items = [] → n = 0) → ∃ l, DiscreteSIR.sample_distinct w pick n = some l := by
  intro n
  induction n with
  | zero => intro _; exact ⟨[], rfl⟩
  | succ n ih =>
    intro h
    have hne : w.items ≠ [] := fun hc => absurd (h hc) (by omega)
    obtain ⟨l, hl⟩ := ih (fun hc => absurd hc hne)
    obtain ⟨p, hp⟩ := SamplableSet.sample_of_nonempty hne (pick n)
    rw [sample_distinct_succ, hl, hp]
    exact ⟨_, rfl⟩

/-- A finite lifetime means that some node is infected. -/
theorem infected_of_lifetime {s : Sim} {l : ℚ} (h : get_lifetime s = some l) :
    s.infected_node_set_ ≠ [] := by
  intro hc
  unfold get_lifetime at h
  split at h
  · unfold ContinuousSIR.get_lifetime at h
    rw [hc] at h
    simp at h
  · unfold DiscreteSIR.get_lifetime at h
    rw [hc] at h
    simp at h
  · unfold AnnealedContinuousSIR.get_lifetime at h
    rw [hc] at h
    simp at h

/-- With an infected node, the set of the recovery candidates is not empty. -/
theorem recovery_set_nonempty {s : Sim} (hrec : RecoveryInv s)
    (h : s.infected_node_set_ ≠ []) : s.recovery_event_set_.items ≠ [] := by
  obtain ⟨v, hv⟩ := List.exists_mem_of_ne_nil _ h
  have hk := (hrec.keys_iff v).2 hv
  intro hc
  unfold SamplableSet.keys at hk
  rw [hc] at hk
  simp at hk

end NonemptySampling

section SamplingInTheLoop

/-- A quotient above a non-negative number has a numerator that is not 0. -/
theorem numerator_ne_zero_of_gt {w t u : ℚ} (hu : 0 ≤ u) (h : w / t > u) : w ≠ 0 := by
  intro hc
  rw [hc, zero_div] at h
  exact absurd h (not_lt.2 hu)

/-- In a state in which an iteration of the event loop starts, `next_step` never samples
from an empty set, as long as the uniform draw is not negative and the Poisson draw of a
`DiscreteSIR` whose infection set has total weight 0 is 0. -/
theorem next_step_samples {s : Sim} (h : Visited s) (d : Draw)
    (hu : s.kind ≠ Kind.discrete → 0 ≤ d.u)
    (hp : s.kind = Kind.discrete → s.infection_event_set_.total_weight = 0 → d.nb_inf = 0) :
    (next_step s d).1.err ≠ some Err.bad_optional_access := by
  have hrec : RecoveryInv s :=
    kept_visited RecoveryInv.kept_recovery (fun _ hr => RecoveryInv.recovery_of_reached hr) h
  cases hl : get_lifetime s with
  | none =>
    unfold get_lifetime at hl
    unfold next_step
    split <;> rename_i hk <;> simp only [hk] at hl
    · unfold ContinuousSIR.next_step; rw [hl]; simp
    · unfold DiscreteSIR.next_step; rw [hl]; simp
    · unfold AnnealedContinuousSIR.next_step; rw [hl]; simp
  | some l =>
    have hR := recovery_set_nonempty hrec (infected_of_lifetime hl)
    unfold get_lifetime at hl
    unfold next_step
    split <;> rename_i hk <;> simp only [hk] at hl
    · have hu0 := hu (by rw [hk]; decide)
      unfold ContinuousSIR.next_step
      rw [hl]
      simp only
      split
      · rename_i hc
        have hne := SamplableSet.nonempty_of_total_weight (numerator_ne_zero_of_gt hu0 hc)
        obtain ⟨p, hsp⟩ := SamplableSet.sample_of_nonempty hne (d.inf_pick 0)
        split
        · rename_i hnone
          exact absurd (hsp.symm.trans hnone) (by simp)
        · simp
      · obtain ⟨p, hsp⟩ := SamplableSet.sample_of_nonempty hR (d.rec_pick 0)
        split
        · rename_i hnone
          exact absurd (hsp.symm.trans hnone) (by simp)
        · simp
    · have hp0 := hp hk
      unfold DiscreteSIR.next_step
      rw [hl]
      simp only
      obtain ⟨l1, hl1⟩ := sample_distinct_returns s.recovery_event_set_ d.rec_pick d.nb_rec
        (fun hc => absurd hc hR)
      obtain ⟨l2, hl2⟩ := sample_distinct_returns s.infection_event_set_ d.inf_pick d.nb_inf
        (fun hc => hp0 (by unfold SamplableSet.total_weight; rw [hc]; rfl))
      rw [hl1]
      simp only
      rw [hl2]
      simp
    · have hu0 := hu (by rw [hk]; decide)
      unfold AnnealedContinuousSIR.next_step
      rw [hl]
      simp only
      split
      · rename_i hc
        have hne : s.infection_event_set_.items ≠ [] := by
          apply SamplableSet.nonempty_of_total_weight
          intro hz
          have := numerator_ne_zero_of_gt hu0 hc
          apply this
          show s.meanfield_infection_rate_ * s.infection_event_set_.total_weight = 0
          rw [hz, mul_zero]
        obtain ⟨p, hsp⟩ := SamplableSet.sample_of_nonempty hne (d.inf_pick 0)
        split
        · rename_i hnone
          exact absurd (hsp.symm.trans hnone) (by simp)
        · simp
      · obtain ⟨p, hsp⟩ := SamplableSet.sample_of_nonempty hR (d.rec_pick 0)
        split
        · rename_i hnone
          exact absurd (hsp.symm.trans hnone) (by simp)
        · simp

end SamplingInTheLoop

section SupportedRuns

/-- An iteration of the event loop that starts in a visited state with supported draws
does not sample from an empty set. -/
theorem loop_body_samples {s : Sim} (h : Visited s) (a b : Bool) (d : Draw)
    (hd : DrawSupported s d) :
    (BaseContagion.loop_body a b d s).err ≠ some Err.bad_optional_access :=
  loop_body_err_ne_of_next_step h a b d _ (by decide) (by decide)
    (next_step_samples h d hd.1 hd.2)

/-- The event loop started in a visited state with supported draws never samples from an
empty set. -/
theorem evolve_loop_samples (t0 period : ℚ) (a b : Bool) (draws : List Draw) :
    ∀ s : Sim, Visited s → BaseContagion.SupportedDraws t0 period a b draws s →
      (BaseContagion.evolve_loop t0 period a b draws s).err
        ≠ some Err.bad_optional_access := by
  induction draws with
  | nil =>
    intro s _ _
    unfold BaseContagion.evolve_loop
    split <;> simp
  | cons d ds ih =>
    intro s h hsup
    rw [evolve_loop_cons]
    split
    · rename_i hg
      obtain ⟨hd, hrest⟩ := hsup hg
      have hb := loop_body_samples h a b d hd
      cases he : (BaseContagion.loop_body a b d s).err with
      | some e =>
        simp only
        intro hc
        rw [he] at hb
        exact hb hc
      | none =>
        simp only
        exact ih _ (Visited.iteration a b d h he) (hrest he)
    · simp

end SupportedRuns

/-- The preconditions of the selected events. For the three strategies, in every state in which an iteration of the event loop
of `evolve` starts (after any calls that returned, so also from a constructed or reset
instance that was seeded): each event that `next_step` selects meets the precondition of
the operation that applies it at the moment it is applied, in the state that the events
before it in the batch left (the node exists and is Susceptible for an `INFECTION`,
Infected for a `RECOVERY`); with draws that the generator can give, `next_step` does not
sample from an empty set; so neither an iteration nor a call of `evolve` raises one of the
two precondition errors, and a call of `evolve` whose draws the generator can give raises
no empty-sample error. -/
theorem events_meet_preconditions_of_visited (s : Sim) (h : Visited s) :
    (∀ (a : Bool) (d : Draw) (k : Nat) (e : Event), (next_step s d).2.get? k = some e →
      (BaseContagion.apply_events ((next_step s d).2.take k)
        (if a = true ∧ (next_step s d).2.length > 0 then
            BaseContagion.update_transmission_tree d.infector_u 0 (next_step s d).2
              (next_step s d).1.st
          else Res.ok (next_step s d).1.st).st).err = none →
      Applicable (BaseContagion.apply_events ((next_step s d).2.take k)
        (if a = true ∧ (next_step s d).2.length > 0 then
            BaseContagion.update_transmission_tree d.infector_u 0 (next_step s d).2
              (next_step s d).1.st
          else Res.ok (next_step s d).1.st).st).st e)
    ∧ (∀ d : Draw, DrawSupported s d →
        (next_step s d).1.err ≠ some Err.bad_optional_access)
    ∧ (∀ (a b : Bool) (d : Draw),
        (BaseContagion.loop_body a b d s).err ≠ some Err.not_susceptible
        ∧ (BaseContagion.loop_body a b d s).err ≠ some Err.not_infected)
    ∧ (∀ (period : ℚ) (a b : Bool) (draws : List Draw),
        (BaseContagion.evolve s period a b draws).err ≠ some Err.not_susceptible
        ∧ (BaseContagion.evolve s period a b draws).err ≠ some Err.not_infected)
    ∧ (∀ (period : ℚ) (a b : Bool) (draws : List Draw),
        BaseContagion.SupportedDraws
          (if b = true ∧ s.macro_state_vector_.length = 0 then s.store_current_macro_state
            else s).current_time_ period a b draws
          (if b = true ∧ s.macro_state_vector_.length = 0 then s.store_current_macro_state
            else s) →
        (BaseContagion.evolve s period a b draws).err ≠ some Err.bad_optional_access) := by
  refine ⟨?_, ?_, ?_, ?_, ?_⟩
  · intro a d k e hk herr
    obtain ⟨hall, hnd⟩ := next_step_applicable h d
    obtain ⟨hsv, hnet⟩ := loop_body_handed_state a d s
    exact apply_events_applicable (next_step s d).2 _
      (fun e2 he2 => (hall e2 he2).applicable_of_same hsv hnet) hnd k e hk herr
  · intro d hd
    exact next_step_samples h d hd.1 hd.2
  · intro a b d
    exact ⟨loop_body_err_ne_precondition h a b d _ (by decide) (by decide) (by decide)
        (by decide),
      loop_body_err_ne_precondition h a b d _ (by decide) (by decide) (by decide)
        (by decide)⟩
  · intro period a b draws
    exact ⟨evolve_err_ne_precondition h period a b draws _ (by decide) (by decide)
        (by decide) (by decide) (by decide),
      evolve_err_ne_precondition h period a b draws _ (by decide) (by decide)
        (by decide) (by decide) (by decide)⟩
  · intro period a b draws hsup
    rw [evolve_err]
    apply evolve_loop_samples _ period a b draws _ _ hsup
    split
    · exact Visited.store h
    · exact h

/-- An instance, on the path 0 - 1 - 2 of a `DiscreteSIR` with node 0 seeded, recovery probability
`1/2` and propensity `1/2` at the infected degrees 1 and 2: a tick with one recovery and
one infection selects the batch `(0, RECOVERY), (1, INFECTION)`; node 1 is Susceptible
when its infection is applied, after the recovery of node 0; `next_step` samples from sets
that are not empty, and `evolve` returns. -/
theorem events_meet_preconditions_of_visited_instance :
    (next_step (BaseContagion.infect_node_set
        (DiscreteSIR.create [(0, 1), (1, 2)] (1 / 2) [0, 1 / 2, 1 / 2] (fun p => p)) [0]).st
        ⟨0, 1, 1, fun _ => 0, fun _ => 0, fun _ => 0⟩).2
      = [(0, Action.RECOVERY), (1, Action.INFECTION)]
    ∧ Applicable (BaseContagion.apply_events
        ((next_step (BaseContagion.infect_node_set
          (DiscreteSIR.create [(0, 1), (1, 2)] (1 / 2) [0, 1 / 2, 1 / 2] (fun p => p)) [0]).st
          ⟨0, 1, 1, fun _ => 0, fun _ => 0, fun _ => 0⟩).2.take 1)
        (if true = true ∧ (next_step (BaseContagion.infect_node_set
          (DiscreteSIR.create [(0, 1), (1, 2)] (1 / 2) [0, 1 / 2, 1 / 2] (fun p => p)) [0]).st
          ⟨0, 1, 1, fun _ => 0, fun _ => 0, fun _ => 0⟩).2.length > 0 then
            BaseContagion.update_transmission_tree (fun _ => 0) 0
              (next_step (BaseContagion.infect_node_set
                (DiscreteSIR.create [(0, 1), (1, 2)] (1 / 2) [0, 1 / 2, 1 / 2] (fun p => p))
                [0]).st ⟨0, 1, 1, fun _ => 0, fun _ => 0, fun _ => 0⟩).2
              (next_step (BaseContagion.infect_node_set
                (DiscreteSIR.create [(0, 1), (1, 2)] (1 / 2) [0, 1 / 2, 1 / 2] (fun p => p))
                [0]).st ⟨0, 1, 1, fun _ => 0, fun _ => 0, fun _ => 0⟩).1.st
          else Res.ok (next_step (BaseContagion.infect_node_set
                (DiscreteSIR.create [(0, 1), (1, 2)] (1 / 2) [0, 1 / 2, 1 / 2] (fun p => p))
                [0]).st ⟨0, 1, 1, fun _ => 0, fun _ => 0, fun _ => 0⟩).1.st).st).st
        (1, Action.INFECTION)
    ∧ (next_step (BaseContagion.infect_node_set
        (DiscreteSIR.create [(0, 1), (1, 2)] (1 / 2) [0, 1 / 2, 1 / 2] (fun p => p)) [0]).st
        ⟨0, 1, 1, fun _ => 0, fun _ => 0, fun _ => 0⟩).1.err ≠ some Err.bad_optional_access
    ∧ (BaseContagion.evolve (BaseContagion.infect_node_set
        (DiscreteSIR.create [(0, 1), (1, 2)] (1 / 2) [0, 1 / 2, 1 / 2] (fun p => p)) [0]).st
        1 true true [⟨0, 1, 1, fun _ => 0, fun _ => 0, fun _ => 0⟩]).err = none
    ∧ (BaseContagion.evolve (BaseContagion.infect_node_set
        (DiscreteSIR.create [(0, 1), (1, 2)] (1 / 2) [0, 1 / 2, 1 / 2] (fun p => p)) [0]).st
        1 true true [⟨0, 1, 1, fun _ => 0, fun _ => 0, fun _ => 0⟩]).st.state_vector_ 1
      = NodeState.I := by
  have key := events_meet_preconditions_of_visited
    (BaseContagion.infect_node_set
      (DiscreteSIR.create [(0, 1), (1, 2)] (1 / 2) [0, 1 / 2, 1 / 2] (fun p => p)) [0]).st
    (Visited.reached (Reached.infect_node_set [0] (Reached.discrete _ _ _ _)
      (by with_unfolding_all decide)))
  refine ⟨by with_unfolding_all decide, ?_, ?_, by with_unfolding_all decide,
    by with_unfolding_all decide⟩
  · exact key.1 true ⟨0, 1, 1, fun _ => 0, fun _ => 0, fun _ => 0⟩ 1 (1, Action.INFECTION)
      (by with_unfolding_all decide) (by with_unfolding_all decide)
  · exact key.2.1 ⟨0, 1, 1, fun _ => 0, fun _ => 0, fun _ => 0⟩
      ⟨fun hk => absurd (by with_unfolding_all decide) hk,
        fun _ hw => absurd hw (by with_unfolding_all decide)⟩

/-- C4. The errors of `infect(v)`.  For each strategy and each node `v` of the network,
`infect(v)` raises its precondition error exactly when `v` is not susceptible, and the state
is then unchanged; after a call that returned, every further `infect(v)` raises it and
leaves the state as the first call left it.  But a call on a susceptible node can raise
as well, with part of its writes done: on the edge `(0,1)` of a `DiscreteSIR` with a
table of length `max_degree + 1 = 2`, after `infect_node_set({0})`, `infect_node_set({1})`
and `reset()`, which all return, both nodes are susceptible and the entry of node 1 in
`infected_neighbors_vector_` still holds node 0; `infect(0)` then makes it `[0, 0]`,
the lookup of the propensity at infected degree 2 raises `out_of_range`, and node 0 is
left infected; so does the public call `infect_node_set({0})`. -/
theorem C4_infect_raises_on_susceptible :
    (∀ (s : Sim) (v : Node), v < s.size →
      ((infect s v).err = some Err.not_susceptible ↔ s.state_vector_ v ≠ NodeState.S)
      ∧ (s.state_vector_ v ≠ NodeState.S → infect s v = Res.fail s Err.not_susceptible)
      ∧ ((infect s v).err = none →
          (infect s v).st.state_vector_ v = NodeState.I
          ∧ infect (infect s v).st v = Res.fail (infect s v).st Err.not_susceptible
          ∧ ∀ n : Nat, (fun st => (infect st v).st)^[n] (infect s v).st = (infect s v).st)
      ∧ (s.state_vector_ v = NodeState.S →
          (infect s v).err = none ∨ (infect s v).err = some Err.out_of_range
          ∨ (infect s v).err = some Err.undefined_behaviour))
    ∧ (DiscreteSIR.create [(0, 1)] 1 [0, 1 / 2] (fun p => p)).network_.max_degree_ + 1 ≤
        (DiscreteSIR.create [(0, 1)] 1 [0, 1 / 2] (fun p => p)).infection_rate_.length
    ∧ (BaseContagion.infect_node_set (DiscreteSIR.create [(0, 1)] 1 [0, 1 / 2] (fun p => p))
        [0]).err = none
    ∧ (BaseContagion.infect_node_set (BaseContagion.infect_node_set (DiscreteSIR.create [(0, 1)] 1
        [0, 1 / 2] (fun p => p)) [0]).st [1]).err = none
    ∧ (BaseContagion.reset (BaseContagion.infect_node_set (BaseContagion.infect_node_set
        (DiscreteSIR.create [(0, 1)] 1 [0, 1 / 2] (fun p => p)) [0]).st [1]).st).err = none
    ∧ 0 < (BaseContagion.reset (BaseContagion.infect_node_set (BaseContagion.infect_node_set
        (DiscreteSIR.create [(0, 1)] 1 [0, 1 / 2] (fun p => p)) [0]).st [1]).st).st.size
    ∧ (BaseContagion.reset (BaseContagion.infect_node_set (BaseContagion.infect_node_set
        (DiscreteSIR.create [(0, 1)] 1 [0, 1 / 2] (fun p => p)) [0]).st [1]).st).st.state_vector_
        0 = NodeState.S
    ∧ (BaseContagion.reset (BaseContagion.infect_node_set (BaseContagion.infect_node_set
        (DiscreteSIR.create [(0, 1)] 1 [0, 1 / 2] (fun p => p)) [0]).st [1]).st).st.state_vector_
        1 = NodeState.S
    ∧ (BaseContagion.reset (BaseContagion.infect_node_set (BaseContagion.infect_node_set
        (DiscreteSIR.create [(0, 1)] 1 [0, 1 / 2] (fun p => p)) [0]).st
        [1]).st).st.infected_neighbors_vector_ 1 = [0]
    ∧ (infect (BaseContagion.reset (BaseContagion.infect_node_set (BaseContagion.infect_node_set
        (DiscreteSIR.create [(0, 1)] 1 [0, 1 / 2] (fun p => p)) [0]).st [1]).st).st 0).err = some
        Err.out_of_range
    ∧ (infect (BaseContagion.reset (BaseContagion.infect_node_set (BaseContagion.infect_node_set
        (DiscreteSIR.create [(0, 1)] 1 [0, 1 / 2] (fun p => p)) [0]).st [1]).st).st
        0).st.state_vector_ 0 = NodeState.I
    ∧ (infect (BaseContagion.reset (BaseContagion.infect_node_set (BaseContagion.infect_node_set
        (DiscreteSIR.create [(0, 1)] 1 [0, 1 / 2] (fun p => p)) [0]).st [1]).st).st
        0).st.infected_neighbors_vector_ 1 = [0, 0]
    ∧ (BaseContagion.infect_node_set (BaseContagion.reset (BaseContagion.infect_node_set
        (BaseContagion.infect_node_set (DiscreteSIR.create [(0, 1)] 1 [0, 1 / 2] (fun p => p))
        [0]).st [1]).st).st [0]).err = some Err.out_of_range
    ∧ (BaseContagion.infect_node_set (BaseContagion.reset (BaseContagion.infect_node_set
        (BaseContagion.infect_node_set (DiscreteSIR.create [(0, 1)] 1 [0, 1 / 2] (fun p => p))
        [0]).st [1]).st).st [0]).st.state_vector_ 0 = NodeState.I := by
  refine ⟨fun s v hv => infect_precondition_error s v hv, ?_, ?_, ?_, ?_, ?_, ?_, ?_, ?_, ?_, ?_,
    ?_, ?_, ?_⟩
  all_goals with_unfolding_all decide

/-- C5. The errors of `recover(v)`.  For each strategy and each node `v` of the network,
`recover(v)` raises its precondition error exactly when `v` is not infected, and the state
is then unchanged; a call that returns leaves `v` recovered, out of `infected_node_set_`
and of the recovery candidates, in `recovered_node_set_`, and changes the state of no
other node.  But a call on an infected node can raise as well, with part of its writes
done: on the star `(0,1), (0,2), (0,3)` of a `DiscreteSIR` with a table of length
`max_degree + 1 = 4`, after `infect_node_set({1,2})`, `infect_node_set({0})` and `reset()`
the entry of the centre 0 in `infected_neighbors_vector_` still holds `[1, 2]`;
`infect_node_set({1})` returns, `infect_node_set({2})` and `infect_node_set({3})` raise
`out_of_range` and leave the entry `[1, 2, 1, 2, 3]`; node 1 is infected, and `recover(1)`
raises `out_of_range` at the lookup of the propensity at infected degree 4, after it has
made node 1 recovered and moved it between the node sets, and before it erases it from
the recovery candidates; so does `evolve` when its tick selects that recovery. -/
theorem C5_recover_raises_on_infected :
    (∀ (s : Sim) (v : Node), v < s.size →
      ((recover s v).err = some Err.not_infected ↔ s.state_vector_ v ≠ NodeState.I)
      ∧ (s.state_vector_ v ≠ NodeState.I → recover s v = Res.fail s Err.not_infected)
      ∧ ((recover s v).err = none →
          s.state_vector_ v = NodeState.I
          ∧ (recover s v).st.state_vector_ v = NodeState.R
          ∧ (∀ u, u ≠ v → (recover s v).st.state_vector_ u = s.state_vector_ u)
          ∧ (recover s v).st.infected_node_set_ = set_erase s.infected_node_set_ v
          ∧ v ∉ (recover s v).st.infected_node_set_
          ∧ (recover s v).st.recovered_node_set_ = set_insert s.recovered_node_set_ v
          ∧ v ∈ (recover s v).st.recovered_node_set_
          ∧ (recover s v).st.recovery_event_set_ = s.recovery_event_set_.erase v
          ∧ v ∉ (recover s v).st.recovery_event_set_.keys)
      ∧ (s.state_vector_ v = NodeState.I →
          (recover s v).err = none ∨ (recover s v).err = some Err.out_of_range
          ∨ (recover s v).err = some Err.undefined_behaviour))
    ∧ (DiscreteSIR.create [(0, 1), (0, 2), (0, 3)] (1 / 2) [0, 1 / 2, 1 / 2, 1 / 2]
        (fun p => p)).network_.max_degree_ + 1 ≤ (DiscreteSIR.create [(0, 1), (0, 2), (0, 3)] (1 /
        2) [0, 1 / 2, 1 / 2, 1 / 2] (fun p => p)).infection_rate_.length
    ∧ (BaseContagion.infect_node_set (DiscreteSIR.create [(0, 1), (0, 2), (0, 3)] (1 / 2)
        [0, 1 / 2, 1 / 2, 1 / 2] (fun p => p)) [1, 2]).err = none
    ∧ (BaseContagion.infect_node_set (BaseContagion.infect_node_set (DiscreteSIR.create
        [(0, 1), (0, 2), (0, 3)] (1 / 2) [0, 1 / 2, 1 / 2, 1 / 2] (fun p => p)) [1, 2]).st
        [0]).err = none
    ∧ (BaseContagion.reset (BaseContagion.infect_node_set (BaseContagion.infect_node_set
        (DiscreteSIR.create [(0, 1), (0, 2), (0, 3)] (1 / 2) [0, 1 / 2, 1 / 2, 1 / 2]
        (fun p => p)) [1, 2]).st [0]).st).err = none
    ∧ (BaseContagion.reset (BaseContagion.infect_node_set (BaseContagion.infect_node_set
        (DiscreteSIR.create [(0, 1), (0, 2), (0, 3)] (1 / 2) [0, 1 / 2, 1 / 2, 1 / 2]
        (fun p => p)) [1, 2]).st [0]).st).st.infected_neighbors_vector_ 0 = [1, 2]
    ∧ (BaseContagion.infect_node_set (BaseContagion.reset (BaseContagion.infect_node_set
        (BaseContagion.infect_node_set (DiscreteSIR.create [(0, 1), (0, 2), (0, 3)] (1 / 2)
        [0, 1 / 2, 1 / 2, 1 / 2] (fun p => p)) [1, 2]).st [0]).st).st [1]).err = none
    ∧ (BaseContagion.infect_node_set (BaseContagion.infect_node_set (BaseContagion.reset
        (BaseContagion.infect_node_set (BaseContagion.infect_node_set (DiscreteSIR.create
        [(0, 1), (0, 2), (0, 3)] (1 / 2) [0, 1 / 2, 1 / 2, 1 / 2] (fun p => p)) [1, 2]).st
        [0]).st).st [1]).st [2]).err = some Err.out_of_range
    ∧ (BaseContagion.infect_node_set (BaseContagion.infect_node_set (BaseContagion.infect_node_set
        (BaseContagion.reset (BaseContagion.infect_node_set (BaseContagion.infect_node_set
        (DiscreteSIR.create [(0, 1), (0, 2), (0, 3)] (1 / 2) [0, 1 / 2, 1 / 2, 1 / 2]
        (fun p => p)) [1, 2]).st [0]).st).st [1]).st [2]).st [3]).err = some Err.out_of_range
    ∧ (BaseContagion.infect_node_set (BaseContagion.infect_node_set (BaseContagion.infect_node_set
        (BaseContagion.reset (BaseContagion.infect_node_set (BaseContagion.infect_node_set
        (DiscreteSIR.create [(0, 1), (0, 2), (0, 3)] (1 / 2) [0, 1 / 2, 1 / 2, 1 / 2]
        (fun p => p)) [1, 2]).st [0]).st).st [1]).st [2]).st [3]).st.infected_neighbors_vector_ 0
        = [1, 2, 1, 2, 3]
    ∧ 1 < (BaseContagion.infect_node_set (BaseContagion.infect_node_set
        (BaseContagion.infect_node_set (BaseContagion.reset (BaseContagion.infect_node_set
        (BaseContagion.infect_node_set (DiscreteSIR.create [(0, 1), (0, 2), (0, 3)] (1 / 2)
        [0, 1 / 2, 1 / 2, 1 / 2] (fun p => p)) [1, 2]).st [0]).st).st [1]).st [2]).st [3]).st.size
    ∧ (BaseContagion.infect_node_set (BaseContagion.infect_node_set (BaseContagion.infect_node_set
        (BaseContagion.reset (BaseContagion.infect_node_set (BaseContagion.infect_node_set
        (DiscreteSIR.create [(0, 1), (0, 2), (0, 3)] (1 / 2) [0, 1 / 2, 1 / 2, 1 / 2]
        (fun p => p)) [1, 2]).st [0]).st).st [1]).st [2]).st [3]).st.state_vector_ 1 = NodeState.I
    ∧ (recover (BaseContagion.infect_node_set (BaseContagion.infect_node_set
        (BaseContagion.infect_node_set (BaseContagion.reset (BaseContagion.infect_node_set
        (BaseContagion.infect_node_set (DiscreteSIR.create [(0, 1), (0, 2), (0, 3)] (1 / 2)
        [0, 1 / 2, 1 / 2, 1 / 2] (fun p => p)) [1, 2]).st [0]).st).st [1]).st [2]).st [3]).st
        1).err = some Err.out_of_range
    ∧ (recover (BaseContagion.infect_node_set (BaseContagion.infect_node_set
        (BaseContagion.infect_node_set (BaseContagion.reset (BaseContagion.infect_node_set
        (BaseContagion.infect_node_set (DiscreteSIR.create [(0, 1), (0, 2), (0, 3)] (1 / 2)
        [0, 1 / 2, 1 / 2, 1 / 2] (fun p => p)) [1, 2]).st [0]).st).st [1]).st [2]).st [3]).st
        1).st.state_vector_ 1 = NodeState.R
    ∧ (recover (BaseContagion.infect_node_set (BaseContagion.infect_node_set
        (BaseContagion.infect_node_set (BaseContagion.reset (BaseContagion.infect_node_set
        (BaseContagion.infect_node_set (DiscreteSIR.create [(0, 1), (0, 2), (0, 3)] (1 / 2)
        [0, 1 / 2, 1 / 2, 1 / 2] (fun p => p)) [1, 2]).st [0]).st).st [1]).st [2]).st [3]).st
        1).st.infected_node_set_ = [2, 3]
    ∧ (recover (BaseContagion.infect_node_set (BaseContagion.infect_node_set
        (BaseContagion.infect_node_set (BaseContagion.reset (BaseContagion.infect_node_set
        (BaseContagion.infect_node_set (DiscreteSIR.create [(0, 1), (0, 2), (0, 3)] (1 / 2)
        [0, 1 / 2, 1 / 2, 1 / 2] (fun p => p)) [1, 2]).st [0]).st).st [1]).st [2]).st [3]).st
        1).st.recovered_node_set_ = [1]
    ∧ (recover (BaseContagion.infect_node_set (BaseContagion.infect_node_set
        (BaseContagion.infect_node_set (BaseContagion.reset (BaseContagion.infect_node_set
        (BaseContagion.infect_node_set (DiscreteSIR.create [(0, 1), (0, 2), (0, 3)] (1 / 2)
        [0, 1 / 2, 1 / 2, 1 / 2] (fun p => p)) [1, 2]).st [0]).st).st [1]).st [2]).st [3]).st
        1).st.recovery_event_set_.keys = [1]
    ∧ (BaseContagion.evolve (BaseContagion.infect_node_set (BaseContagion.infect_node_set
        (BaseContagion.infect_node_set (BaseContagion.reset (BaseContagion.infect_node_set
        (BaseContagion.infect_node_set (DiscreteSIR.create [(0, 1), (0, 2), (0, 3)] (1 / 2)
        [0, 1 / 2, 1 / 2, 1 / 2] (fun p => p)) [1, 2]).st [0]).st).st [1]).st [2]).st [3]).st 1
        false false [⟨0, 1, 0, fun _ => 0, fun _ => 0, fun _ => 0⟩]).err = some Err.out_of_range
    ∧ (BaseContagion.evolve (BaseContagion.infect_node_set (BaseContagion.infect_node_set
        (BaseContagion.infect_node_set (BaseContagion.reset (BaseContagion.infect_node_set
        (BaseContagion.infect_node_set (DiscreteSIR.create [(0, 1), (0, 2), (0, 3)] (1 / 2)
        [0, 1 / 2, 1 / 2, 1 / 2] (fun p => p)) [1, 2]).st [0]).st).st [1]).st [2]).st [3]).st 1
        false false [⟨0, 1, 0, fun _ => 0, fun _ => 0, fun _ => 0⟩]).st.state_vector_ 1 =
        NodeState.R := by
  refine ⟨fun s v hv => recover_precondition_error s v hv, ?_, ?_, ?_, ?_, ?_, ?_, ?_, ?_, ?_, ?_,
    ?_, ?_, ?_, ?_, ?_, ?_, ?_, ?_⟩
  all_goals with_unfolding_all decide

/-- C12. The recovery candidates.  In every state reached by calls that returned, for the
three strategies, the keys of `recovery_event_set_` are the elements of
`infected_node_set_`, each once and with weight 1.  The states that a call leaves when it
raises are reachable too, and there the claim fails: on the edge `(0,1)` of a
`DiscreteSIR` with a table of length `max_degree + 1 = 2`, after `infect_node_set({0})`,
`infect_node_set({1})` and `reset()`, the call `infect_node_set({0})` raises `out_of_range`
inside `infect(0)`, after the insertion of node 0 into `infected_node_set_` and before the
insertion of its recovery key: node 0 is infected, `infected_node_set_` is `{0}` and
`recovery_event_set_` has no key. -/
theorem C12_infected_without_recovery_key :
    (∀ s : Sim, Reached s →
      (∀ v, v ∈ s.recovery_event_set_.keys ↔ v ∈ s.infected_node_set_)
      ∧ (∀ p ∈ s.recovery_event_set_.items, p.2 = 1)
      ∧ s.recovery_event_set_.keys.Nodup)
    ∧ (DiscreteSIR.create [(0, 1)] 1 [0, 1 / 2] (fun p => p)).network_.max_degree_ + 1 ≤
        (DiscreteSIR.create [(0, 1)] 1 [0, 1 / 2] (fun p => p)).infection_rate_.length
    ∧ (BaseContagion.infect_node_set (DiscreteSIR.create [(0, 1)] 1 [0, 1 / 2] (fun p => p))
        [0]).err = none
    ∧ (BaseContagion.infect_node_set (BaseContagion.infect_node_set (DiscreteSIR.create [(0, 1)] 1
        [0, 1 / 2] (fun p => p)) [0]).st [1]).err = none
    ∧ (BaseContagion.reset (BaseContagion.infect_node_set (BaseContagion.infect_node_set
        (DiscreteSIR.create [(0, 1)] 1 [0, 1 / 2] (fun p => p)) [0]).st [1]).st).err = none
    ∧ (BaseContagion.infect_node_set (BaseContagion.reset (BaseContagion.infect_node_set
        (BaseContagion.infect_node_set (DiscreteSIR.create [(0, 1)] 1 [0, 1 / 2] (fun p => p))
        [0]).st [1]).st).st [0]).err = some Err.out_of_range
    ∧ Reachable (BaseContagion.infect_node_set (BaseContagion.reset (BaseContagion.infect_node_set
        (BaseContagion.infect_node_set (DiscreteSIR.create [(0, 1)] 1 [0, 1 / 2] (fun p => p))
        [0]).st [1]).st).st [0]).st
    ∧ (BaseContagion.infect_node_set (BaseContagion.reset (BaseContagion.infect_node_set
        (BaseContagion.infect_node_set (DiscreteSIR.create [(0, 1)] 1 [0, 1 / 2] (fun p => p))
        [0]).st [1]).st).st [0]).st.state_vector_ 0 = NodeState.I
    ∧ (BaseContagion.infect_node_set (BaseContagion.reset (BaseContagion.infect_node_set
        (BaseContagion.infect_node_set (DiscreteSIR.create [(0, 1)] 1 [0, 1 / 2] (fun p => p))
        [0]).st [1]).st).st [0]).st.infected_node_set_ = [0]
    ∧ (BaseContagion.infect_node_set (BaseContagion.reset (BaseContagion.infect_node_set
        (BaseContagion.infect_node_set (DiscreteSIR.create [(0, 1)] 1 [0, 1 / 2] (fun p => p))
        [0]).st [1]).st).st [0]).st.recovery_event_set_.keys = [] := by
  refine ⟨fun s h => recovery_candidates_of_reached s h, ?_, ?_, ?_, ?_, ?_,
    Reachable.infect_node_set [0] (Reachable.reset (Reachable.infect_node_set [1]
      (Reachable.infect_node_set [0] (Reachable.discrete _ _ _ _)))), ?_, ?_, ?_⟩
  all_goals with_unfolding_all decide

/-- C23. The tick of a single infected node.  For a `DiscreteSIR` with recovery
probability 1.0 in a state reached by calls that returned, at time 0 and with exactly one
infected node `u`, the claim holds: the recovery set has size 1, so the binomial draw is 1,
`evolve(1, ...)` performs one tick at time 1 in which `u` recovers, and nothing else is
recovered.  It fails in a state that a raised call left: on the edge `(0,1)` with a table
of length `max_degree + 1 = 2`, after `infect_node_set({0})`, `infect_node_set({1})`,
`reset()` and the call `infect_node_set({0})`, which raises `out_of_range`, the time is 0,
node 0 is the only infected node and the recovery set is empty.  The binomial draw has 0
trials, so it is 0: `evolve(1, ...)` returns after one tick at time 1 without event and
node 0 is still infected; were the draw 1, the tick would raise on the empty set and
node 0 would be infected as well. -/
theorem C23_single_infected_not_recovered :
    (∀ (s : Sim), Reached s → s.kind = Kind.discrete → s.recovery_rate_ = 1 →
      s.current_time_ = 0 → s.last_event_time_ = 0 →
      ∀ (u : Node), u < s.size → s.state_vector_ u = NodeState.I →
      (∀ v, v < s.size → s.state_vector_ v = NodeState.I → v = u) →
      ∀ (a b : Bool) (d : Draw) (ds : List Draw),
      (s.recovery_rate_ = 1 → d.nb_rec = s.recovery_event_set_.size) →
        s.recovery_event_set_.size = 1
        ∧ d.nb_rec = 1
        ∧ (∀ v, v < s.size → s.state_vector_ v ≠ NodeState.R)
        ∧ (BaseContagion.evolve s 1 a b (d :: ds)).err ≠ some Err.out_of_draws
        ∧ (BaseContagion.evolve s 1 a b (d :: ds)).event_times = [1]
        ∧ ((next_step s d).1.err = none →
            ∃ infs : List Node,
              (next_step s d).2
                = (u, Action.RECOVERY) :: infs.map (fun node => (node, Action.INFECTION))
              ∧ (∀ v ∈ infs, v < s.size ∧ s.state_vector_ v = NodeState.S))
        ∧ ((BaseContagion.evolve s 1 a b (d :: ds)).err = none →
            (BaseContagion.evolve s 1 a b (d :: ds)).st.state_vector_ u = NodeState.R
            ∧ (BaseContagion.evolve s 1 a b (d :: ds)).st.current_time_ = 1
            ∧ (∀ v, v < s.size → v ≠ u →
                (BaseContagion.evolve s 1 a b (d :: ds)).st.state_vector_ v ≠ NodeState.R)
            ∧ (∀ f : ℚ → ℚ, f 0 = 0 → s.infection_propensity_ = s.infection_rate_.map f →
                (∀ p ∈ s.infection_rate_, p = 0) →
                ∀ v, v < s.size → v ≠ u →
                  (BaseContagion.evolve s 1 a b (d :: ds)).st.state_vector_ v
                    = NodeState.S)))
    ∧ (DiscreteSIR.create [(0, 1)] 1 [0, 1 / 2] (fun p => p)).network_.max_degree_ + 1 ≤
        (DiscreteSIR.create [(0, 1)] 1 [0, 1 / 2] (fun p => p)).infection_rate_.length
    ∧ (BaseContagion.infect_node_set (DiscreteSIR.create [(0, 1)] 1 [0, 1 / 2] (fun p => p))
        [0]).err = none
    ∧ (BaseContagion.infect_node_set (BaseContagion.infect_node_set (DiscreteSIR.create [(0, 1)] 1
        [0, 1 / 2] (fun p => p)) [0]).st [1]).err = none
    ∧ (BaseContagion.reset (BaseContagion.infect_node_set (BaseContagion.infect_node_set
        (DiscreteSIR.create [(0, 1)] 1 [0, 1 / 2] (fun p => p)) [0]).st [1]).st).err = none
    ∧ (BaseContagion.infect_node_set (BaseContagion.reset (BaseContagion.infect_node_set
        (BaseContagion.infect_node_set (DiscreteSIR.create [(0, 1)] 1 [0, 1 / 2] (fun p => p))
        [0]).st [1]).st).st [0]).err = some Err.out_of_range
    ∧ Reachable (BaseContagion.infect_node_set (BaseContagion.reset (BaseContagion.infect_node_set
        (BaseContagion.infect_node_set (DiscreteSIR.create [(0, 1)] 1 [0, 1 / 2] (fun p => p))
        [0]).st [1]).st).st [0]).st
    ∧ (BaseContagion.infect_node_set (BaseContagion.reset (BaseContagion.infect_node_set
        (BaseContagion.infect_node_set (DiscreteSIR.create [(0, 1)] 1 [0, 1 / 2] (fun p => p))
        [0]).st [1]).st).st [0]).st.kind = Kind.discrete
    ∧ (BaseContagion.infect_node_set (BaseContagion.reset (BaseContagion.infect_node_set
        (BaseContagion.infect_node_set (DiscreteSIR.create [(0, 1)] 1 [0, 1 / 2] (fun p => p))
        [0]).st [1]).st).st [0]).st.recovery_rate_ = 1
    ∧ (BaseContagion.infect_node_set (BaseContagion.reset (BaseContagion.infect_node_set
        (BaseContagion.infect_node_set (DiscreteSIR.create [(0, 1)] 1 [0, 1 / 2] (fun p => p))
        [0]).st [1]).st).st [0]).st.current_time_ = 0
    ∧ (BaseContagion.infect_node_set (BaseContagion.reset (BaseContagion.infect_node_set
        (BaseContagion.infect_node_set (DiscreteSIR.create [(0, 1)] 1 [0, 1 / 2] (fun p => p))
        [0]).st [1]).st).st [0]).st.last_event_time_ = 0
    ∧ (BaseContagion.infect_node_set (BaseContagion.reset (BaseContagion.infect_node_set
        (BaseContagion.infect_node_set (DiscreteSIR.create [(0, 1)] 1 [0, 1 / 2] (fun p => p))
        [0]).st [1]).st).st [0]).st.state_vector_ 0 = NodeState.I
    ∧ (∀ v, v < (BaseContagion.infect_node_set (BaseContagion.reset (BaseContagion.infect_node_set
        (BaseContagion.infect_node_set (DiscreteSIR.create [(0, 1)] 1 [0, 1 / 2] (fun p => p))
        [0]).st [1]).st).st [0]).st.size → (BaseContagion.infect_node_set (BaseContagion.reset
        (BaseContagion.infect_node_set (BaseContagion.infect_node_set (DiscreteSIR.create [(0, 1)]
        1 [0, 1 / 2] (fun p => p)) [0]).st [1]).st).st [0]).st.state_vector_ v = NodeState.I → v =
        0)
    ∧ (BaseContagion.infect_node_set (BaseContagion.reset (BaseContagion.infect_node_set
        (BaseContagion.infect_node_set (DiscreteSIR.create [(0, 1)] 1 [0, 1 / 2] (fun p => p))
        [0]).st [1]).st).st [0]).st.recovery_event_set_.size = 0
    ∧ (BaseContagion.evolve (BaseContagion.infect_node_set (BaseContagion.reset
        (BaseContagion.infect_node_set (BaseContagion.infect_node_set (DiscreteSIR.create [(0, 1)]
        1 [0, 1 / 2] (fun p => p)) [0]).st [1]).st).st [0]).st 1 true true
        [⟨0, 0, 0, fun _ => 0, fun _ => 0, fun _ => 0⟩]).err = none
    ∧ (BaseContagion.evolve (BaseContagion.infect_node_set (BaseContagion.reset
        (BaseContagion.infect_node_set (BaseContagion.infect_node_set (DiscreteSIR.create [(0, 1)]
        1 [0, 1 / 2] (fun p => p)) [0]).st [1]).st).st [0]).st 1 true true
        [⟨0, 0, 0, fun _ => 0, fun _ => 0, fun _ => 0⟩]).event_times = [1]
    ∧ (BaseContagion.evolve (BaseContagion.infect_node_set (BaseContagion.reset
        (BaseContagion.infect_node_set (BaseContagion.infect_node_set (DiscreteSIR.create [(0, 1)]
        1 [0, 1 / 2] (fun p => p)) [0]).st [1]).st).st [0]).st 1 true true
        [⟨0, 0, 0, fun _ => 0, fun _ => 0, fun _ => 0⟩]).st.current_time_ = 1
    ∧ (BaseContagion.evolve (BaseContagion.infect_node_set (BaseContagion.reset
        (BaseContagion.infect_node_set (BaseContagion.infect_node_set (DiscreteSIR.create [(0, 1)]
        1 [0, 1 / 2] (fun p => p)) [0]).st [1]).st).st [0]).st 1 true true
        [⟨0, 0, 0, fun _ => 0, fun _ => 0, fun _ => 0⟩]).st.state_vector_ 0 = NodeState.I
    ∧ (BaseContagion.evolve (BaseContagion.infect_node_set (BaseContagion.reset
        (BaseContagion.infect_node_set (BaseContagion.infect_node_set (DiscreteSIR.create [(0, 1)]
        1 [0, 1 / 2] (fun p => p)) [0]).st [1]).st).st [0]).st 1 true true
        [⟨0, 1, 0, fun _ => 0, fun _ => 0, fun _ => 0⟩]).err = some Err.bad_optional_access
    ∧ (BaseContagion.evolve (BaseContagion.infect_node_set (BaseContagion.reset
        (BaseContagion.infect_node_set (BaseContagion.infect_node_set (DiscreteSIR.create [(0, 1)]
        1 [0, 1 / 2] (fun p => p)) [0]).st [1]).st).st [0]).st 1 true true
        [⟨0, 1, 0, fun _ => 0, fun _ => 0, fun _ => 0⟩]).st.state_vector_ 0 = NodeState.I := by
  refine ⟨fun s h hk hp hcur hlast u hu huI honly a b d ds hrec =>
      recovery_tick_of_reached s h hk hp hcur hlast u hu huI honly a b d ds hrec,
    ?_, ?_, ?_, ?_, ?_,
    Reachable.infect_node_set [0] (Reachable.reset (Reachable.infect_node_set [1]
      (Reachable.infect_node_set [0] (Reachable.discrete _ _ _ _)))),
    ?_, ?_, ?_, ?_, ?_, ?_, ?_, ?_, ?_, ?_, ?_, ?_, ?_⟩
  all_goals with_unfolding_all decide

/-- C27. The batch of a tick of `DiscreteSIR`.  In every state and for every draw the
batch lists recoveries, then infections, the nodes to recover are distinct keys of the
recovery set, at most as many as the binomial draw, and the nodes to infect are distinct
keys of the infection set, at most as many as the Poisson draw.  In every state reached
by calls that returned, no node occurs twice in the batch, the nodes to recover are
infected, the nodes to infect are susceptible, and the number of trials of the binomial
distribution is the number of infected nodes.  This fails in a state that a raised call
left: on the star `(0,1), (0,2), (0,3)` with a table of length `max_degree + 1 = 4`,
after `infect_node_set({1,2})`, `infect_node_set({0})`, `reset()`, `infect_node_set({1})`,
`infect_node_set({2})` and `infect_node_set({3})` (the last two raise), a tick of
`evolve` selects the recovery of node 1 and `recover(1)` raises `out_of_range` after it
has made node 1 recovered and before it erases the recovery key; in the state left,
`next_step` with a binomial draw of 1 returns the recovery of node 1, which is recovered,
and the recovery set has 1 key for 2 infected nodes. -/
theorem C27_recovery_of_recovered_node :
    (∀ (s : Sim) (d : Draw), ∃ recs infs : List Node,
      (DiscreteSIR.next_step s d).2
        = recs.map (fun node => (node, Action.RECOVERY))
          ++ infs.map (fun node => (node, Action.INFECTION))
      ∧ recs.Nodup ∧ infs.Nodup
      ∧ recs.length ≤ d.nb_rec ∧ infs.length ≤ d.nb_inf
      ∧ (∀ v ∈ recs, v ∈ s.recovery_event_set_.keys)
      ∧ (∀ v ∈ infs, v ∈ s.infection_event_set_.keys))
    ∧ (∀ (s : Sim), Reached s → s.kind = Kind.discrete → ∀ d : Draw,
      ∃ recs infs : List Node,
        (next_step s d).2
          = recs.map (fun node => (node, Action.RECOVERY))
            ++ infs.map (fun node => (node, Action.INFECTION))
        ∧ ((next_step s d).2.map Prod.fst).Nodup
        ∧ (∀ v ∈ recs, v < s.size ∧ s.state_vector_ v = NodeState.I)
        ∧ (∀ v ∈ infs, v < s.size ∧ s.state_vector_ v = NodeState.S)
        ∧ recs.length ≤ d.nb_rec ∧ infs.length ≤ d.nb_inf
        ∧ s.recovery_event_set_.size = count_state s NodeState.I)
    ∧ (DiscreteSIR.create [(0, 1), (0, 2), (0, 3)] (1 / 2) [0, 1 / 2, 1 / 2, 1 / 2]
        (fun p => p)).network_.max_degree_ + 1 ≤ (DiscreteSIR.create [(0, 1), (0, 2), (0, 3)] (1 /
        2) [0, 1 / 2, 1 / 2, 1 / 2] (fun p => p)).infection_rate_.length
    ∧ (BaseContagion.infect_node_set (DiscreteSIR.create [(0, 1), (0, 2), (0, 3)] (1 / 2)
        [0, 1 / 2, 1 / 2, 1 / 2] (fun p => p)) [1, 2]).err = none
    ∧ (BaseContagion.infect_node_set (BaseContagion.infect_node_set (DiscreteSIR.create
        [(0, 1), (0, 2), (0, 3)] (1 / 2) [0, 1 / 2, 1 / 2, 1 / 2] (fun p => p)) [1, 2]).st
        [0]).err = none
    ∧ (BaseContagion.reset (BaseContagion.infect_node_set (BaseContagion.infect_node_set
        (DiscreteSIR.create [(0, 1), (0, 2), (0, 3)] (1 / 2) [0, 1 / 2, 1 / 2, 1 / 2]
        (fun p => p)) [1, 2]).st [0]).st).err = none
    ∧ (BaseContagion.reset (BaseContagion.infect_node_set (BaseContagion.infect_node_set
        (DiscreteSIR.create [(0, 1), (0, 2), (0, 3)] (1 / 2) [0, 1 / 2, 1 / 2, 1 / 2]
        (fun p => p)) [1, 2]).st [0]).st).st.infected_neighbors_vector_ 0 = [1, 2]
    ∧ (BaseContagion.infect_node_set (BaseContagion.reset (BaseContagion.infect_node_set
        (BaseContagion.infect_node_set (DiscreteSIR.create [(0, 1), (0, 2), (0, 3)] (1 / 2)
        [0, 1 / 2, 1 / 2, 1 / 2] (fun p => p)) [1, 2]).st [0]).st).st [1]).err = none
    ∧ (BaseContagion.infect_node_set (BaseContagion.infect_node_set (BaseContagion.reset
        (BaseContagion.infect_node_set (BaseContagion.infect_node_set (DiscreteSIR.create
        [(0, 1), (0, 2), (0, 3)] (1 / 2) [0, 1 / 2, 1 / 2, 1 / 2] (fun p => p)) [1, 2]).st
        [0]).st).st [1]).st [2]).err = some Err.out_of_range
    ∧ (BaseContagion.infect_node_set (BaseContagion.infect_node_set (BaseContagion.infect_node_set
        (BaseContagion.reset (BaseContagion.infect_node_set (BaseContagion.infect_node_set
        (DiscreteSIR.create [(0, 1), (0, 2), (0, 3)] (1 / 2) [0, 1 / 2, 1 / 2, 1 / 2]
        (fun p => p)) [1, 2]).st [0]).st).st [1]).st [2]).st [3]).err = some Err.out_of_range
    ∧ (BaseContagion.infect_node_set (BaseContagion.infect_node_set (BaseContagion.infect_node_set
        (BaseContagion.reset (BaseContagion.infect_node_set (BaseContagion.infect_node_set
        (DiscreteSIR.create [(0, 1), (0, 2), (0, 3)] (1 / 2) [0, 1 / 2, 1 / 2, 1 / 2]
        (fun p => p)) [1, 2]).st [0]).st).st [1]).st [2]).st [3]).st.infected_neighbors_vector_ 0
        = [1, 2, 1, 2, 3]
    ∧ (BaseContagion.infect_node_set (BaseContagion.infect_node_set (BaseContagion.infect_node_set
        (BaseContagion.reset (BaseContagion.infect_node_set (BaseContagion.infect_node_set
        (DiscreteSIR.create [(0, 1), (0, 2), (0, 3)] (1 / 2) [0, 1 / 2, 1 / 2, 1 / 2]
        (fun p => p)) [1, 2]).st [0]).st).st [1]).st [2]).st [3]).st.state_vector_ 1 = NodeState.I
    ∧ (BaseContagion.evolve (BaseContagion.infect_node_set (BaseContagion.infect_node_set
        (BaseContagion.infect_node_set (BaseContagion.reset (BaseContagion.infect_node_set
        (BaseContagion.infect_node_set (DiscreteSIR.create [(0, 1), (0, 2), (0, 3)] (1 / 2)
        [0, 1 / 2, 1 / 2, 1 / 2] (fun p => p)) [1, 2]).st [0]).st).st [1]).st [2]).st [3]).st 1
        false false [⟨0, 1, 0, fun _ => 0, fun _ => 0, fun _ => 0⟩]).err = some Err.out_of_range
    ∧ Reachable (BaseContagion.evolve (BaseContagion.infect_node_set
        (BaseContagion.infect_node_set (BaseContagion.infect_node_set (BaseContagion.reset
        (BaseContagion.infect_node_set (BaseContagion.infect_node_set (DiscreteSIR.create
        [(0, 1), (0, 2), (0, 3)] (1 / 2) [0, 1 / 2, 1 / 2, 1 / 2] (fun p => p)) [1, 2]).st
        [0]).st).st [1]).st [2]).st [3]).st 1 false false
        [⟨0, 1, 0, fun _ => 0, fun _ => 0, fun _ => 0⟩]).st
    ∧ (BaseContagion.evolve (BaseContagion.infect_node_set (BaseContagion.infect_node_set
        (BaseContagion.infect_node_set (BaseContagion.reset (BaseContagion.infect_node_set
        (BaseContagion.infect_node_set (DiscreteSIR.create [(0, 1), (0, 2), (0, 3)] (1 / 2)
        [0, 1 / 2, 1 / 2, 1 / 2] (fun p => p)) [1, 2]).st [0]).st).st [1]).st [2]).st [3]).st 1
        false false [⟨0, 1, 0, fun _ => 0, fun _ => 0, fun _ => 0⟩]).st.kind = Kind.discrete
    ∧ (BaseContagion.evolve (BaseContagion.infect_node_set (BaseContagion.infect_node_set
        (BaseContagion.infect_node_set (BaseContagion.reset (BaseContagion.infect_node_set
        (BaseContagion.infect_node_set (DiscreteSIR.create [(0, 1), (0, 2), (0, 3)] (1 / 2)
        [0, 1 / 2, 1 / 2, 1 / 2] (fun p => p)) [1, 2]).st [0]).st).st [1]).st [2]).st [3]).st 1
        false false [⟨0, 1, 0, fun _ => 0, fun _ => 0, fun _ => 0⟩]).st.state_vector_ 1 =
        NodeState.R
    ∧ (BaseContagion.evolve (BaseContagion.infect_node_set (BaseContagion.infect_node_set
        (BaseContagion.infect_node_set (BaseContagion.reset (BaseContagion.infect_node_set
        (BaseContagion.infect_node_set (DiscreteSIR.create [(0, 1), (0, 2), (0, 3)] (1 / 2)
        [0, 1 / 2, 1 / 2, 1 / 2] (fun p => p)) [1, 2]).st [0]).st).st [1]).st [2]).st [3]).st 1
        false false [⟨0, 1, 0, fun _ => 0, fun _ => 0, fun _ => 0⟩]).st.recovery_event_set_.keys =
        [1]
    ∧ (next_step (BaseContagion.evolve (BaseContagion.infect_node_set
        (BaseContagion.infect_node_set (BaseContagion.infect_node_set (BaseContagion.reset
        (BaseContagion.infect_node_set (BaseContagion.infect_node_set (DiscreteSIR.create
        [(0, 1), (0, 2), (0, 3)] (1 / 2) [0, 1 / 2, 1 / 2, 1 / 2] (fun p => p)) [1, 2]).st
        [0]).st).st [1]).st [2]).st [3]).st 1 false false
        [⟨0, 1, 0, fun _ => 0, fun _ => 0, fun _ => 0⟩]).st
        ⟨0, 1, 0, fun _ => 0, fun _ => 0, fun _ => 0⟩).1.err = none
    ∧ (next_step (BaseContagion.evolve (BaseContagion.infect_node_set
        (BaseContagion.infect_node_set (BaseContagion.infect_node_set (BaseContagion.reset
        (BaseContagion.infect_node_set (BaseContagion.infect_node_set (DiscreteSIR.create
        [(0, 1), (0, 2), (0, 3)] (1 / 2) [0, 1 / 2, 1 / 2, 1 / 2] (fun p => p)) [1, 2]).st
        [0]).st).st [1]).st [2]).st [3]).st 1 false false
        [⟨0, 1, 0, fun _ => 0, fun _ => 0, fun _ => 0⟩]).st
        ⟨0, 1, 0, fun _ => 0, fun _ => 0, fun _ => 0⟩).2 = [(1, Action.RECOVERY)]
    ∧ (BaseContagion.evolve (BaseContagion.infect_node_set (BaseContagion.infect_node_set
        (BaseContagion.infect_node_set (BaseContagion.reset (BaseContagion.infect_node_set
        (BaseContagion.infect_node_set (DiscreteSIR.create [(0, 1), (0, 2), (0, 3)] (1 / 2)
        [0, 1 / 2, 1 / 2, 1 / 2] (fun p => p)) [1, 2]).st [0]).st).st [1]).st [2]).st [3]).st 1
        false false [⟨0, 1, 0, fun _ => 0, fun _ => 0, fun _ => 0⟩]).st.recovery_event_set_.size =
        1
    ∧ count_state (BaseContagion.evolve (BaseContagion.infect_node_set
        (BaseContagion.infect_node_set (BaseContagion.infect_node_set (BaseContagion.reset
        (BaseContagion.infect_node_set (BaseContagion.infect_node_set (DiscreteSIR.create
        [(0, 1), (0, 2), (0, 3)] (1 / 2) [0, 1 / 2, 1 / 2, 1 / 2] (fun p => p)) [1, 2]).st
        [0]).st).st [1]).st [2]).st [3]).st 1 false false
        [⟨0, 1, 0, fun _ => 0, fun _ => 0, fun _ => 0⟩]).st NodeState.I = 2 := by
  refine ⟨fun s d => discrete_next_step_batch s d,
    fun s h hk d => discrete_batch_of_reached s h hk d,
    ?_, ?_, ?_, ?_, ?_, ?_, ?_, ?_, ?_, ?_, ?_,
    Reachable.evolve 1 false false _ (Reachable.infect_node_set [3]
      (Reachable.infect_node_set [2] (Reachable.infect_node_set [1] (Reachable.reset
        (Reachable.infect_node_set [0] (Reachable.infect_node_set [1, 2]
          (Reachable.discrete _ _ _ _))))))),
    ?_, ?_, ?_, ?_, ?_, ?_, ?_⟩
  all_goals with_unfolding_all decide

/-- C28. The transmission forest.  Since the construction or the last `reset()`, along
seeding calls and calls of `evolve` that returned, without `clear()`, the claim holds: no
node is the infectee of two records, no seed is an infectee, and the infector of every
record is a seed or the infectee of an earlier record.  It fails when a call of `evolve`
raises in between: on the edge list `(0,1), (1,2), (2,3), (4,5)` of a `DiscreteSIR` with
a table of length `max_degree + 1 = 3`, after `infect_node_set({1})`,
`infect_node_set({3})`, `infect_node_set({2})`, `reset()`, `infect_node_set({0})` and
`infect_node_set({4})`, which all return, a tick of `evolve(1, true, false)` selects the
infections of the nodes 1 and 5; their records are appended, then `infect(1)` raises
`out_of_range` and the infection of node 5 is not applied; node 5 is still susceptible
and a candidate, and the tick of the next `evolve(1, true, false)` infects it and appends
a second record with infectee 5. -/
theorem C28_infectee_recorded_twice :
    (∀ (s : Sim) (seeds : List Node), Seeded s seeds →
      (s.transmission_tree_.map (fun t => t.infectee)).Nodup
      ∧ (∀ v ∈ seeds, v ∉ s.transmission_tree_.map (fun t => t.infectee))
      ∧ (∀ i t, s.transmission_tree_.get? i = some t →
          t.infector ∈ seeds
            ∨ t.infector ∈ (s.transmission_tree_.take i).map (fun t => t.infectee))
      ∧ (∀ i j ti tj, s.transmission_tree_.get? i = some ti →
          s.transmission_tree_.get? j = some tj → i ≤ j → tj.infectee ≠ ti.infector)
      ∧ (∀ v ∈ seeds, s.state_vector_ v ≠ NodeState.S)
      ∧ (∀ t ∈ s.transmission_tree_, s.state_vector_ t.infectee ≠ NodeState.S))
    ∧ (DiscreteSIR.create [(0, 1), (1, 2), (2, 3), (4, 5)] (1 / 2) [0, 1 / 2, 1 / 2]
        (fun p => p)).network_.max_degree_ + 1 ≤ (DiscreteSIR.create
        [(0, 1), (1, 2), (2, 3), (4, 5)] (1 / 2) [0, 1 / 2, 1 / 2]
        (fun p => p)).infection_rate_.length
    ∧ (BaseContagion.infect_node_set (DiscreteSIR.create [(0, 1), (1, 2), (2, 3), (4, 5)] (1 / 2)
        [0, 1 / 2, 1 / 2] (fun p => p)) [1]).err = none
    ∧ (BaseContagion.infect_node_set (BaseContagion.infect_node_set (DiscreteSIR.create
        [(0, 1), (1, 2), (2, 3), (4, 5)] (1 / 2) [0, 1 / 2, 1 / 2] (fun p => p)) [1]).st [3]).err
        = none
    ∧ (BaseContagion.infect_node_set (BaseContagion.infect_node_set (BaseContagion.infect_node_set
        (DiscreteSIR.create [(0, 1), (1, 2), (2, 3), (4, 5)] (1 / 2) [0, 1 / 2, 1 / 2]
        (fun p => p)) [1]).st [3]).st [2]).err = none
    ∧ (BaseContagion.reset (BaseContagion.infect_node_set (BaseContagion.infect_node_set
        (BaseContagion.infect_node_set (DiscreteSIR.create [(0, 1), (1, 2), (2, 3), (4, 5)] (1 /
        2) [0, 1 / 2, 1 / 2] (fun p => p)) [1]).st [3]).st [2]).st).err = none
    ∧ (BaseContagion.reset (BaseContagion.infect_node_set (BaseContagion.infect_node_set
        (BaseContagion.infect_node_set (DiscreteSIR.create [(0, 1), (1, 2), (2, 3), (4, 5)] (1 /
        2) [0, 1 / 2, 1 / 2] (fun p => p)) [1]).st [3]).st [2]).st).st.transmission_tree_ = []
    ∧ (BaseContagion.reset (BaseContagion.infect_node_set (BaseContagion.infect_node_set
        (BaseContagion.infect_node_set (DiscreteSIR.create [(0, 1), (1, 2), (2, 3), (4, 5)] (1 /
        2) [0, 1 / 2, 1 / 2] (fun p => p)) [1]).st [3]).st [2]).st).st.infected_neighbors_vector_
        2 = [1, 3]
    ∧ (BaseContagion.infect_node_set (BaseContagion.reset (BaseContagion.infect_node_set
        (BaseContagion.infect_node_set (BaseContagion.infect_node_set (DiscreteSIR.create
        [(0, 1), (1, 2), (2, 3), (4, 5)] (1 / 2) [0, 1 / 2, 1 / 2] (fun p => p)) [1]).st [3]).st
        [2]).st).st [0]).err = none
    ∧ (BaseContagion.infect_node_set (BaseContagion.infect_node_set (BaseContagion.reset
        (BaseContagion.infect_node_set (BaseContagion.infect_node_set
        (BaseContagion.infect_node_set (DiscreteSIR.create [(0, 1), (1, 2), (2, 3), (4, 5)] (1 /
        2) [0, 1 / 2, 1 / 2] (fun p => p)) [1]).st [3]).st [2]).st).st [0]).st [4]).err = none
    ∧ (next_step (BaseContagion.infect_node_set (BaseContagion.infect_node_set
        (BaseContagion.reset (BaseContagion.infect_node_set (BaseContagion.infect_node_set
        (BaseContagion.infect_node_set (DiscreteSIR.create [(0, 1), (1, 2), (2, 3), (4, 5)] (1 /
        2) [0, 1 / 2, 1 / 2] (fun p => p)) [1]).st [3]).st [2]).st).st [0]).st [4]).st
        ⟨0, 0, 2, fun _ => 0, fun i => i, fun _ => 0⟩).2 =
        [(1, Action.INFECTION), (5, Action.INFECTION)]
    ∧ (BaseContagion.evolve (BaseContagion.infect_node_set (BaseContagion.infect_node_set
        (BaseContagion.reset (BaseContagion.infect_node_set (BaseContagion.infect_node_set
        (BaseContagion.infect_node_set (DiscreteSIR.create [(0, 1), (1, 2), (2, 3), (4, 5)] (1 /
        2) [0, 1 / 2, 1 / 2] (fun p => p)) [1]).st [3]).st [2]).st).st [0]).st [4]).st 1 true
        false [⟨0, 0, 2, fun _ => 0, fun i => i, fun _ => 0⟩]).err = some Err.out_of_range
    ∧ (BaseContagion.evolve (BaseContagion.infect_node_set (BaseContagion.infect_node_set
        (BaseContagion.reset (BaseContagion.infect_node_set (BaseContagion.infect_node_set
        (BaseContagion.infect_node_set (DiscreteSIR.create [(0, 1), (1, 2), (2, 3), (4, 5)] (1 /
        2) [0, 1 / 2, 1 / 2] (fun p => p)) [1]).st [3]).st [2]).st).st [0]).st [4]).st 1 true
        false [⟨0, 0, 2, fun _ => 0, fun i => i, fun _ => 0⟩]).st.transmission_tree_ =
        [⟨1, 0, 0, 1, 1⟩, ⟨1, 0, 4, 5, 1⟩]
    ∧ (BaseContagion.evolve (BaseContagion.infect_node_set (BaseContagion.infect_node_set
        (BaseContagion.reset (BaseContagion.infect_node_set (BaseContagion.infect_node_set
        (BaseContagion.infect_node_set (DiscreteSIR.create [(0, 1), (1, 2), (2, 3), (4, 5)] (1 /
        2) [0, 1 / 2, 1 / 2] (fun p => p)) [1]).st [3]).st [2]).st).st [0]).st [4]).st 1 true
        false [⟨0, 0, 2, fun _ => 0, fun i => i, fun _ => 0⟩]).st.state_vector_ 1 = NodeState.I
    ∧ (BaseContagion.evolve (BaseContagion.infect_node_set (BaseContagion.infect_node_set
        (BaseContagion.reset (BaseContagion.infect_node_set (BaseContagion.infect_node_set
        (BaseContagion.infect_node_set (DiscreteSIR.create [(0, 1), (1, 2), (2, 3), (4, 5)] (1 /
        2) [0, 1 / 2, 1 / 2] (fun p => p)) [1]).st [3]).st [2]).st).st [0]).st [4]).st 1 true
        false [⟨0, 0, 2, fun _ => 0, fun i => i, fun _ => 0⟩]).st.state_vector_ 5 = NodeState.S
    ∧ (BaseContagion.evolve (BaseContagion.evolve (BaseContagion.infect_node_set
        (BaseContagion.infect_node_set (BaseContagion.reset (BaseContagion.infect_node_set
        (BaseContagion.infect_node_set (BaseContagion.infect_node_set (DiscreteSIR.create
        [(0, 1), (1, 2), (2, 3), (4, 5)] (1 / 2) [0, 1 / 2, 1 / 2] (fun p => p)) [1]).st [3]).st
        [2]).st).st [0]).st [4]).st 1 true false
        [⟨0, 0, 2, fun _ => 0, fun i => i, fun _ => 0⟩]).st 1 true false
        [⟨0, 0, 1, fun _ => 0, fun _ => 0, fun _ => 0⟩]).err = none
    ∧ (BaseContagion.evolve (BaseContagion.evolve (BaseContagion.infect_node_set
        (BaseContagion.infect_node_set (BaseContagion.reset (BaseContagion.infect_node_set
        (BaseContagion.infect_node_set (BaseContagion.infect_node_set (DiscreteSIR.create
        [(0, 1), (1, 2), (2, 3), (4, 5)] (1 / 2) [0, 1 / 2, 1 / 2] (fun p => p)) [1]).st [3]).st
        [2]).st).st [0]).st [4]).st 1 true false
        [⟨0, 0, 2, fun _ => 0, fun i => i, fun _ => 0⟩]).st 1 true false
        [⟨0, 0, 1, fun _ => 0, fun _ => 0, fun _ => 0⟩]).st.transmission_tree_ = [⟨1, 0, 0, 1, 1⟩,
        ⟨1, 0, 4, 5, 1⟩, ⟨2, 0, 4, 5, 1⟩]
    ∧ ¬ ((BaseContagion.evolve (BaseContagion.evolve (BaseContagion.infect_node_set
        (BaseContagion.infect_node_set (BaseContagion.reset (BaseContagion.infect_node_set
        (BaseContagion.infect_node_set (BaseContagion.infect_node_set (DiscreteSIR.create
        [(0, 1), (1, 2), (2, 3), (4, 5)] (1 / 2) [0, 1 / 2, 1 / 2] (fun p => p)) [1]).st [3]).st
        [2]).st).st [0]).st [4]).st 1 true false
        [⟨0, 0, 2, fun _ => 0, fun i => i, fun _ => 0⟩]).st 1 true false
        [⟨0, 0, 1, fun _ => 0, fun _ => 0, fun _ => 0⟩]).st.transmission_tree_.map
        (fun t => t.infectee)).Nodup := by
  refine ⟨fun s seeds h => transmission_forest_of_seeded s seeds h, ?_, ?_, ?_, ?_, ?_, ?_, ?_,
    ?_, ?_, ?_, ?_, ?_, ?_, ?_, ?_, ?_, ?_⟩
  all_goals with_unfolding_all decide

/-- C31. The preconditions of the selected events.  In every state in which an iteration
of the event loop starts after calls that returned, for the three strategies, each event
that `next_step` selects meets the precondition of the operation that applies it at the
moment it is applied, `next_step` does not sample from an empty set with draws that the
generator can give, and neither an iteration nor a call of `evolve` raises a precondition
error.  It fails after a call that raised: on the star `(0,1), (0,2), (0,3)` of a
`DiscreteSIR` with recovery probability `1/2` and a table of non-negative probabilities
of length `max_degree + 1 = 4`, after `infect_node_set({1,2})`, `infect_node_set({0})`
and `reset()`, the instance is seeded by `infect_node_set({1})`, `infect_node_set({2})`
and `infect_node_set({3})` (the last two raise `out_of_range`); a first `evolve` selects
the recovery of node 1 and `recover(1)` raises `out_of_range`, leaving node 1 recovered
and among the recovery candidates; in the next `evolve`, `next_step` returns the recovery
of node 1 and `apply_events` raises the precondition error of `recover`. -/
theorem C31_evolve_raises_not_infected :
    (∀ (s : Sim), Visited s →
      (∀ (a : Bool) (d : Draw) (k : Nat) (e : Event), (next_step s d).2.get? k = some e →
        (BaseContagion.apply_events ((next_step s d).2.take k)
          (if a = true ∧ (next_step s d).2.length > 0 then
              BaseContagion.update_transmission_tree d.infector_u 0 (next_step s d).2
                (next_step s d).1.st
            else Res.ok (next_step s d).1.st).st).err = none →
        Applicable (BaseContagion.apply_events ((next_step s d).2.take k)
          (if a = true ∧ (next_step s d).2.length > 0 then
              BaseContagion.update_transmission_tree d.infector_u 0 (next_step s d).2
                (next_step s d).1.st
            else Res.ok (next_step s d).1.st).st).st e)
      ∧ (∀ d : Draw, DrawSupported s d →
          (next_step s d).1.err ≠ some Err.bad_optional_access)
      ∧ (∀ (a b : Bool) (d : Draw),
          (BaseContagion.loop_body a b d s).err ≠ some Err.not_susceptible
          ∧ (BaseContagion.loop_body a b d s).err ≠ some Err.not_infected)
      ∧ (∀ (period : ℚ) (a b : Bool) (draws : List Draw),
          (BaseContagion.evolve s period a b draws).err ≠ some Err.not_susceptible
          ∧ (BaseContagion.evolve s period a b draws).err ≠ some Err.not_infected)
      ∧ (∀ (period : ℚ) (a b : Bool) (draws : List Draw),
          BaseContagion.SupportedDraws
            (if b = true ∧ s.macro_state_vector_.length = 0 then s.store_current_macro_state
              else s).current_time_ period a b draws
            (if b = true ∧ s.macro_state_vector_.length = 0 then s.store_current_macro_state
              else s) →
          (BaseContagion.evolve s period a b draws).err ≠ some Err.bad_optional_access))
    ∧ (DiscreteSIR.create [(0, 1), (0, 2), (0, 3)] (1 / 2) [0, 1 / 2, 1 / 2, 1 / 2]
        (fun p => p)).network_.max_degree_ + 1 ≤ (DiscreteSIR.create [(0, 1), (0, 2), (0, 3)] (1 /
        2) [0, 1 / 2, 1 / 2, 1 / 2] (fun p => p)).infection_rate_.length
    ∧ (BaseContagion.infect_node_set (DiscreteSIR.create [(0, 1), (0, 2), (0, 3)] (1 / 2)
        [0, 1 / 2, 1 / 2, 1 / 2] (fun p => p)) [1, 2]).err = none
    ∧ (BaseContagion.infect_node_set (BaseContagion.infect_node_set (DiscreteSIR.create
        [(0, 1), (0, 2), (0, 3)] (1 / 2) [0, 1 / 2, 1 / 2, 1 / 2] (fun p => p)) [1, 2]).st
        [0]).err = none
    ∧ (BaseContagion.reset (BaseContagion.infect_node_set (BaseContagion.infect_node_set
        (DiscreteSIR.create [(0, 1), (0, 2), (0, 3)] (1 / 2) [0, 1 / 2, 1 / 2, 1 / 2]
        (fun p => p)) [1, 2]).st [0]).st).err = none
    ∧ (BaseContagion.reset (BaseContagion.infect_node_set (BaseContagion.infect_node_set
        (DiscreteSIR.create [(0, 1), (0, 2), (0, 3)] (1 / 2) [0, 1 / 2, 1 / 2, 1 / 2]
        (fun p => p)) [1, 2]).st [0]).st).st.infected_neighbors_vector_ 0 = [1, 2]
    ∧ (BaseContagion.infect_node_set (BaseContagion.reset (BaseContagion.infect_node_set
        (BaseContagion.infect_node_set (DiscreteSIR.create [(0, 1), (0, 2), (0, 3)] (1 / 2)
        [0, 1 / 2, 1 / 2, 1 / 2] (fun p => p)) [1, 2]).st [0]).st).st [1]).err = none
    ∧ (BaseContagion.infect_node_set (BaseContagion.infect_node_set (BaseContagion.reset
        (BaseContagion.infect_node_set (BaseContagion.infect_node_set (DiscreteSIR.create
        [(0, 1), (0, 2), (0, 3)] (1 / 2) [0, 1 / 2, 1 / 2, 1 / 2] (fun p => p)) [1, 2]).st
        [0]).st).st [1]).st [2]).err = some Err.out_of_range
    ∧ (BaseContagion.infect_node_set (BaseContagion.infect_node_set (BaseContagion.infect_node_set
        (BaseContagion.reset (BaseContagion.infect_node_set (BaseContagion.infect_node_set
        (DiscreteSIR.create [(0, 1), (0, 2), (0, 3)] (1 / 2) [0, 1 / 2, 1 / 2, 1 / 2]
        (fun p => p)) [1, 2]).st [0]).st).st [1]).st [2]).st [3]).err = some Err.out_of_range
    ∧ (BaseContagion.infect_node_set (BaseContagion.infect_node_set (BaseContagion.infect_node_set
        (BaseContagion.reset (BaseContagion.infect_node_set (BaseContagion.infect_node_set
        (DiscreteSIR.create [(0, 1), (0, 2), (0, 3)] (1 / 2) [0, 1 / 2, 1 / 2, 1 / 2]
        (fun p => p)) [1, 2]).st [0]).st).st [1]).st [2]).st [3]).st.infected_neighbors_vector_ 0
        = [1, 2, 1, 2, 3]
    ∧ 0 < (DiscreteSIR.create [(0, 1), (0, 2), (0, 3)] (1 / 2) [0, 1 / 2, 1 / 2, 1 / 2]
        (fun p => p)).recovery_rate_
    ∧ (∀ p ∈ (DiscreteSIR.create [(0, 1), (0, 2), (0, 3)] (1 / 2) [0, 1 / 2, 1 / 2, 1 / 2]
        (fun p => p)).infection_rate_, 0 ≤ p)
    ∧ (BaseContagion.infect_node_set (BaseContagion.infect_node_set (BaseContagion.infect_node_set
        (BaseContagion.reset (BaseContagion.infect_node_set (BaseContagion.infect_node_set
        (DiscreteSIR.create [(0, 1), (0, 2), (0, 3)] (1 / 2) [0, 1 / 2, 1 / 2, 1 / 2]
        (fun p => p)) [1, 2]).st [0]).st).st [1]).st [2]).st [3]).st.state_vector_ 1 = NodeState.I
    ∧ (next_step (BaseContagion.infect_node_set (BaseContagion.infect_node_set
        (BaseContagion.infect_node_set (BaseContagion.reset (BaseContagion.infect_node_set
        (BaseContagion.infect_node_set (DiscreteSIR.create [(0, 1), (0, 2), (0, 3)] (1 / 2)
        [0, 1 / 2, 1 / 2, 1 / 2] (fun p => p)) [1, 2]).st [0]).st).st [1]).st [2]).st [3]).st
        ⟨0, 1, 0, fun _ => 0, fun _ => 0, fun _ => 0⟩).2 = [(1, Action.RECOVERY)]
    ∧ (BaseContagion.evolve (BaseContagion.infect_node_set (BaseContagion.infect_node_set
        (BaseContagion.infect_node_set (BaseContagion.reset (BaseContagion.infect_node_set
        (BaseContagion.infect_node_set (DiscreteSIR.create [(0, 1), (0, 2), (0, 3)] (1 / 2)
        [0, 1 / 2, 1 / 2, 1 / 2] (fun p => p)) [1, 2]).st [0]).st).st [1]).st [2]).st [3]).st 1
        false false [⟨0, 1, 0, fun _ => 0, fun _ => 0, fun _ => 0⟩]).err = some Err.out_of_range
    ∧ (BaseContagion.evolve (BaseContagion.infect_node_set (BaseContagion.infect_node_set
        (BaseContagion.infect_node_set (BaseContagion.reset (BaseContagion.infect_node_set
        (BaseContagion.infect_node_set (DiscreteSIR.create [(0, 1), (0, 2), (0, 3)] (1 / 2)
        [0, 1 / 2, 1 / 2, 1 / 2] (fun p => p)) [1, 2]).st [0]).st).st [1]).st [2]).st [3]).st 1
        false false [⟨0, 1, 0, fun _ => 0, fun _ => 0, fun _ => 0⟩]).st.state_vector_ 1 =
        NodeState.R
    ∧ (next_step (BaseContagion.evolve (BaseContagion.infect_node_set
        (BaseContagion.infect_node_set (BaseContagion.infect_node_set (BaseContagion.reset
        (BaseContagion.infect_node_set (BaseContagion.infect_node_set (DiscreteSIR.create
        [(0, 1), (0, 2), (0, 3)] (1 / 2) [0, 1 / 2, 1 / 2, 1 / 2] (fun p => p)) [1, 2]).st
        [0]).st).st [1]).st [2]).st [3]).st 1 false false
        [⟨0, 1, 0, fun _ => 0, fun _ => 0, fun _ => 0⟩]).st
        ⟨0, 1, 0, fun _ => 0, fun _ => 0, fun _ => 0⟩).1.err = none
    ∧ (next_step (BaseContagion.evolve (BaseContagion.infect_node_set
        (BaseContagion.infect_node_set (BaseContagion.infect_node_set (BaseContagion.reset
        (BaseContagion.infect_node_set (BaseContagion.infect_node_set (DiscreteSIR.create
        [(0, 1), (0, 2), (0, 3)] (1 / 2) [0, 1 / 2, 1 / 2, 1 / 2] (fun p => p)) [1, 2]).st
        [0]).st).st [1]).st [2]).st [3]).st 1 false false
        [⟨0, 1, 0, fun _ => 0, fun _ => 0, fun _ => 0⟩]).st
        ⟨0, 1, 0, fun _ => 0, fun _ => 0, fun _ => 0⟩).2 = [(1, Action.RECOVERY)]
    ∧ (BaseContagion.evolve (BaseContagion.evolve (BaseContagion.infect_node_set
        (BaseContagion.infect_node_set (BaseContagion.infect_node_set (BaseContagion.reset
        (BaseContagion.infect_node_set (BaseContagion.infect_node_set (DiscreteSIR.create
        [(0, 1), (0, 2), (0, 3)] (1 / 2) [0, 1 / 2, 1 / 2, 1 / 2] (fun p => p)) [1, 2]).st
        [0]).st).st [1]).st [2]).st [3]).st 1 false false
        [⟨0, 1, 0, fun _ => 0, fun _ => 0, fun _ => 0⟩]).st 1 false false
        [⟨0, 1, 0, fun _ => 0, fun _ => 0, fun _ => 0⟩]).err = some Err.not_infected := by
  refine ⟨fun s h => events_meet_preconditions_of_visited s h, ?_, ?_, ?_, ?_, ?_, ?_, ?_, ?_, ?_,
    ?_, ?_, ?_, ?_, ?_, ?_, ?_, ?_, ?_⟩
  all_goals with_unfolding_all decide

section ShortTable

/-- With a rate table shorter than `degree_ + 1`, `update_meanfield_rate` raises. -/
theorem update_meanfield_rate_short (s : Sim) (h : s.infection_rate_.length ≤ s.degree_) :
    (AnnealedContinuousSIR.update_meanfield_rate s).err = some Err.out_of_range := by
  unfold AnnealedContinuousSIR.update_meanfield_rate
  simp only
  cases hm : AnnealedContinuousSIR.meanfield_sum s
      ((s.get_number_of_infected_nodes : ℚ) / (s.size : ℚ)) (s.degree_ + 1) with
  | none => rfl
  | some x =>
    have := meanfield_sum_length s _ (s.degree_ + 1) (by rw [hm]; rfl)
    omega

/-- With a rate table shorter than `degree_ + 1`, no event of an `AnnealedContinuousSIR`
is applied without an exception. -/
theorem annealed_apply_event_short (s : Sim) (e : Event) (hk : s.kind = Kind.annealed)
    (h : s.infection_rate_.length ≤ s.degree_) :
    (BaseContagion.apply_event s e).err ≠ none := by
  unfold BaseContagion.apply_event
  split
  · rw [infect_annealed s e.1 hk]
    unfold AnnealedContinuousSIR.infect
    split
    · split
      · rw [update_meanfield_rate_short _ (by exact h)]; simp
      · simp
    · simp
  · rw [recover_annealed s e.1 hk]
    unfold AnnealedContinuousSIR.recover
    split
    · split
      · rw [update_meanfield_rate_short _ (by exact h)]; simp
      · simp
    · simp

/-- The state that an iteration of the event loop hands to `apply_events` has the kind,
the rate table and the degree of the state in which the iteration started. -/
theorem loop_body_handed_params (a : Bool) (d : Draw) (s : Sim) :
    (if a = true ∧ (next_step s d).2.length > 0 then
        BaseContagion.update_transmission_tree d.infector_u 0 (next_step s d).2
          (next_step s d).1.st
      else Res.ok (next_step s d).1.st).st.kind = s.kind
    ∧ (if a = true ∧ (next_step s d).2.length > 0 then
        BaseContagion.update_transmission_tree d.infector_u 0 (next_step s d).2
          (next_step s d).1.st
      else Res.ok (next_step s d).1.st).st.infection_rate_ = s.infection_rate_
    ∧ (if a = true ∧ (next_step s d).2.length > 0 then
        BaseContagion.update_transmission_tree d.infector_u 0 (next_step s d).2
          (next_step s d).1.st
      else Res.ok (next_step s d).1.st).st.degree_ = s.degree_ := by
  obtain ⟨c, c2, hst⟩ := next_step_clock s d
  split
  · obtain ⟨g, tr, hg⟩ := update_transmission_tree_frame d.infector_u (next_step s d).2 0
      (next_step s d).1.st
    rw [hg, hst]
    exact ⟨rfl, rfl, rfl⟩
  · rw [Res.ok_st, hst]
    exact ⟨rfl, rfl, rfl⟩

/-- With a rate table shorter than `degree_ + 1`, every iteration of the event loop of an
`AnnealedContinuousSIR` raises. -/
theorem annealed_loop_body_short (a b : Bool) (d : Draw) (s : Sim) (hk : s.kind = Kind.annealed)
    (h : s.infection_rate_.length ≤ s.degree_) :
    (BaseContagion.loop_body a b d s).err ≠ none := by
  intro herr
  rw [loop_body_eq] at herr
  obtain ⟨h1, herr2⟩ := Res.andThen_err_none herr
  obtain ⟨_, herr3⟩ := Res.andThen_err_none herr2
  obtain ⟨h3, _⟩ := Res.andThen_err_none herr3
  obtain ⟨e, he⟩ := next_step_single_event s d (by rw [hk]; decide) h1
  obtain ⟨p1, p2, p3⟩ := loop_body_handed_params a d s
  rw [he] at h3 p1 p2 p3
  rw [apply_events_single] at h3
  have h4 := (Res.andThen_err_none h3).1
  exact annealed_apply_event_short _ e (by rw [p1]; exact hk) (by rw [p2, p3]; exact h) h4

/-- With a rate table shorter than `degree_ + 1`, a run of the event loop of an
`AnnealedContinuousSIR` stamps at most one event. -/
theorem annealed_evolve_loop_short (t0 period : ℚ) (a b : Bool) (draws : List Draw) (s : Sim)
    (hk : s.kind = Kind.annealed) (h : s.infection_rate_.length ≤ s.degree_) :
    (BaseContagion.evolve_loop t0 period a b draws s).event_times.length ≤ 1 := by
  cases draws with
  | nil =>
    unfold BaseContagion.evolve_loop
    split <;> simp
  | cons d ds =>
    rw [evolve_loop_cons]
    split
    · cases he : (BaseContagion.loop_body a b d s).err with
      | none => exact absurd he (annealed_loop_body_short a b d s hk h)
      | some e => simp
    · simp

theorem chain_of_length_le_one {l : List ℚ} (h : l.length ≤ 1) :
    List.Chain' (fun x y => x < y) l := by
  cases l with
  | nil => exact List.chain'_nil
  | cons x xs =>
    cases xs with
    | nil => exact List.chain'_singleton x
    | cons y ys => simp at h

end ShortTable

/-- C8. Over exact arithmetic: every value that `next_step` gives to the clock during a
call of `evolve` is at most the time at the start of the call plus the period, for every
strategy and every state; these values increase strictly along the call for `DiscreteSIR`
in every state, and for `ContinuousSIR` and `AnnealedContinuousSIR` in every reachable
state when the recovery rate is not negative and, for `AnnealedContinuousSIR`, no
infection rate and no binomial coefficient is negative. -/
theorem C8_event_times :
    (∀ (s : Sim) (period : ℚ) (save_transmission_tree save_macro_state : Bool)
        (draws : List Draw),
        ∀ t ∈ (BaseContagion.evolve s period save_transmission_tree save_macro_state
          draws).event_times, t ≤ s.current_time_ + period)
    ∧ (∀ s : Sim, s.kind = Kind.discrete →
        ∀ (period : ℚ) (save_transmission_tree save_macro_state : Bool) (draws : List Draw),
          List.Chain' (fun x y => x < y)
            (BaseContagion.evolve s period save_transmission_tree save_macro_state
              draws).event_times)
    ∧ (∀ s : Sim, Reachable s → 0 ≤ s.recovery_rate_ →
        (s.kind = Kind.annealed →
          (∀ r ∈ s.infection_rate_, 0 ≤ r) ∧ (∀ c ∈ s.binomial_coeff_, 0 ≤ c)) →
        ∀ (period : ℚ) (save_transmission_tree save_macro_state : Bool) (draws : List Draw),
          List.Chain' (fun x y => x < y)
            (BaseContagion.evolve s period save_transmission_tree save_macro_state
              draws).event_times) := by
  refine ⟨event_times_of_rates.1, event_times_of_rates.2.1, ?_⟩
  intro s h hr ha period a b draws
  by_cases hshort : s.kind = Kind.annealed ∧ s.infection_rate_.length ≤ s.degree_
  · rw [evolve_event_times]
    apply chain_of_length_le_one
    apply annealed_evolve_loop_short
    · split <;> exact hshort.1
    · split <;> exact hshort.2
  · have hpar : NonnegParams s :=
      ⟨hr, fun hk => ⟨(ha hk).1, (ha hk).2,
        Nat.lt_of_not_le (fun hc => hshort ⟨hk, hc⟩)⟩⟩
    exact event_times_of_rates.2.2 s h hpar period a b draws

/-- C8, with both nodes of an edge seeded and recovery rate 1: the two recoveries of a
call with period 10 are stamped 1/2 and 3/2. -/
theorem C8_event_times_witness :
    (BaseContagion.evolve (BaseContagion.infect_node_set (ContinuousSIR.create [(0, 1)] 1 [0, 0])
        [0, 1]).st 10 true true
        [⟨1 / 2, 0, 0, fun _ => 0, fun _ => 0, fun _ => 0⟩,
         ⟨1 / 2, 0, 0, fun _ => 0, fun _ => 0, fun _ => 0⟩]).event_times = [1 / 2, 3 / 2]
    ∧ List.Chain' (fun x y => x < y)
        (BaseContagion.evolve (BaseContagion.infect_node_set (ContinuousSIR.create [(0, 1)] 1 [0, 0])
          [0, 1]).st 10 true true
          [⟨1 / 2, 0, 0, fun _ => 0, fun _ => 0, fun _ => 0⟩,
           ⟨1 / 2, 0, 0, fun _ => 0, fun _ => 0, fun _ => 0⟩]).event_times :=
  ⟨by with_unfolding_all decide,
    C8_event_times.2.2 _
      (Reachable.infect_node_set [0, 1] (Reachable.continuous [(0, 1)] 1 [0, 0]))
      (by with_unfolding_all decide) (fun hk => absurd hk (by decide)) 10 true true _⟩

/-- C8, where the event times of one call do not increase.  (1) `ContinuousSIR` on the edge
`{0,1}` with recovery rate `-1` and both nodes seeded: the two recoveries of `evolve(10)`
are stamped `-1/2` and `-3/2`.  (2) `AnnealedContinuousSIR` with 3 nodes, degree 1,
recovery rate 1 and the table `{1, 0}`, when the value that the constructor leaves in
`binomial_coeff_[0]` is `-8`: with node 0 seeded the events of `evolve(10)` are stamped
`-3/29`, then `-93/58`.  (3) The same with the table `{0, -30}` and
`binomial_coeff_[0] = 1`: the events are stamped `-1/19`, then `-37/342`.  (4) In `double`
arithmetic: `ContinuousSIR` on the path `0 - 1 - 2` with recovery rate 1 and the table
`{0, 1e20, 0}`, the nodes 0 and 2 seeded.  The total rate is 2 and the first event, the
recovery of node 0, is stamped `1/2`, exactly; node 1 then has the rate `1e20`, which is a
`double`, and the total rate is `1e20 + 1`.  Over exact arithmetic the second event is
stamped `1/2 + 1/(1e20 + 1)`; rounded to `double` the total rate is `1e20`, the loop
goes on and the second event is stamped `1/2`, as the first one. -/
theorem C8_event_times_not_increasing :
    (BaseContagion.infect_node_set (ContinuousSIR.create [(0, 1)] (-1) [0, 0]) [0, 1]).err = none
    ∧ (BaseContagion.evolve (BaseContagion.infect_node_set (ContinuousSIR.create [(0, 1)] (-1)
        [0, 0]) [0, 1]).st 10 false false [⟨1 / 2, 0, 0, fun _ => 0, fun _ => 0, fun _ => 0⟩,
        ⟨1 / 2, 0, 0, fun _ => 0, fun _ => 0, fun _ => 0⟩]).err = none
    ∧ (BaseContagion.evolve (BaseContagion.infect_node_set (ContinuousSIR.create [(0, 1)] (-1)
        [0, 0]) [0, 1]).st 10 false false [⟨1 / 2, 0, 0, fun _ => 0, fun _ => 0, fun _ => 0⟩,
        ⟨1 / 2, 0, 0, fun _ => 0, fun _ => 0, fun _ => 0⟩]).event_times = [-1 / 2, -3 / 2]
    ∧ ¬ List.Chain' (fun x y => x < y) (BaseContagion.evolve (BaseContagion.infect_node_set
        (ContinuousSIR.create [(0, 1)] (-1) [0, 0]) [0, 1]).st 10 false false
        [⟨1 / 2, 0, 0, fun _ => 0, fun _ => 0, fun _ => 0⟩,
        ⟨1 / 2, 0, 0, fun _ => 0, fun _ => 0, fun _ => 0⟩]).event_times
    ∧ 0 ≤ (AnnealedContinuousSIR.create 3 1 1 [1, 0] (-8) 0).recovery_rate_
    ∧ (∀ r ∈ (AnnealedContinuousSIR.create 3 1 1 [1, 0] (-8) 0).infection_rate_, 0 ≤ r)
    ∧ (AnnealedContinuousSIR.create 3 1 1 [1, 0] (-8) 0).degree_ < (AnnealedContinuousSIR.create 3
        1 1 [1, 0] (-8) 0).infection_rate_.length
    ∧ (AnnealedContinuousSIR.create 3 1 1 [1, 0] (-8) 0).binomial_coeff_ = [-8, 1]
    ∧ (BaseContagion.infect_node_set (AnnealedContinuousSIR.create 3 1 1 [1, 0] (-8) 0) [0]).err =
        none
    ∧ (BaseContagion.evolve (BaseContagion.infect_node_set (AnnealedContinuousSIR.create 3 1 1
        [1, 0] (-8) 0) [0]).st 10 false false [⟨1 / 2, 0, 0, fun _ => 0, fun _ => 0, fun _ => 0⟩,
        ⟨1 / 2, 0, 0, fun _ => 0, fun _ => 0, fun _ => 0⟩,
        ⟨1 / 2, 0, 0, fun _ => 0, fun _ => 0, fun _ => 0⟩,
        ⟨1 / 2, 0, 0, fun _ => 0, fun _ => 0, fun _ => 0⟩,
        ⟨1 / 2, 0, 0, fun _ => 0, fun _ => 0, fun _ => 0⟩]).err = none
    ∧ (BaseContagion.evolve (BaseContagion.infect_node_set (AnnealedContinuousSIR.create 3 1 1
        [1, 0] (-8) 0) [0]).st 10 false false [⟨1 / 2, 0, 0, fun _ => 0, fun _ => 0, fun _ => 0⟩,
        ⟨1 / 2, 0, 0, fun _ => 0, fun _ => 0, fun _ => 0⟩,
        ⟨1 / 2, 0, 0, fun _ => 0, fun _ => 0, fun _ => 0⟩,
        ⟨1 / 2, 0, 0, fun _ => 0, fun _ => 0, fun _ => 0⟩,
        ⟨1 / 2, 0, 0, fun _ => 0, fun _ => 0, fun _ => 0⟩]).event_times =
        [-3 / 29, -93 / 58, -221 / 174, -67 / 87, 20 / 87]
    ∧ ¬ List.Chain' (fun x y => x < y) (BaseContagion.evolve (BaseContagion.infect_node_set
        (AnnealedContinuousSIR.create 3 1 1 [1, 0] (-8) 0) [0]).st 10 false false
        [⟨1 / 2, 0, 0, fun _ => 0, fun _ => 0, fun _ => 0⟩,
        ⟨1 / 2, 0, 0, fun _ => 0, fun _ => 0, fun _ => 0⟩,
        ⟨1 / 2, 0, 0, fun _ => 0, fun _ => 0, fun _ => 0⟩,
        ⟨1 / 2, 0, 0, fun _ => 0, fun _ => 0, fun _ => 0⟩,
        ⟨1 / 2, 0, 0, fun _ => 0, fun _ => 0, fun _ => 0⟩]).event_times
    ∧ (AnnealedContinuousSIR.create 3 1 1 [0, -30] 1 0).binomial_coeff_ = [1, 1]
    ∧ (BaseContagion.infect_node_set (AnnealedContinuousSIR.create 3 1 1 [0, -30] 1 0) [0]).err =
        none
    ∧ (BaseContagion.evolve (BaseContagion.infect_node_set (AnnealedContinuousSIR.create 3 1 1
        [0, -30] 1 0) [0]).st 10 false false [⟨1 / 2, 0, 0, fun _ => 0, fun _ => 0, fun _ => 0⟩,
        ⟨1 / 2, 0, 0, fun _ => 0, fun _ => 0, fun _ => 0⟩,
        ⟨1 / 2, 0, 0, fun _ => 0, fun _ => 0, fun _ => 0⟩,
        ⟨1 / 2, 0, 0, fun _ => 0, fun _ => 0, fun _ => 0⟩,
        ⟨1 / 2, 0, 0, fun _ => 0, fun _ => 0, fun _ => 0⟩]).err = none
    ∧ (BaseContagion.evolve (BaseContagion.infect_node_set (AnnealedContinuousSIR.create 3 1 1
        [0, -30] 1 0) [0]).st 10 false false [⟨1 / 2, 0, 0, fun _ => 0, fun _ => 0, fun _ => 0⟩,
        ⟨1 / 2, 0, 0, fun _ => 0, fun _ => 0, fun _ => 0⟩,
        ⟨1 / 2, 0, 0, fun _ => 0, fun _ => 0, fun _ => 0⟩,
        ⟨1 / 2, 0, 0, fun _ => 0, fun _ => 0, fun _ => 0⟩,
        ⟨1 / 2, 0, 0, fun _ => 0, fun _ => 0, fun _ => 0⟩]).event_times =
        [-1 / 19, -37 / 342, 77 / 342, 124 / 171, 295 / 171]
    ∧ ¬ List.Chain' (fun x y => x < y) (BaseContagion.evolve (BaseContagion.infect_node_set
        (AnnealedContinuousSIR.create 3 1 1 [0, -30] 1 0) [0]).st 10 false false
        [⟨1 / 2, 0, 0, fun _ => 0, fun _ => 0, fun _ => 0⟩,
        ⟨1 / 2, 0, 0, fun _ => 0, fun _ => 0, fun _ => 0⟩,
        ⟨1 / 2, 0, 0, fun _ => 0, fun _ => 0, fun _ => 0⟩,
        ⟨1 / 2, 0, 0, fun _ => 0, fun _ => 0, fun _ => 0⟩,
        ⟨1 / 2, 0, 0, fun _ => 0, fun _ => 0, fun _ => 0⟩]).event_times
    ∧ (BaseContagion.infect_node_set (ContinuousSIR.create [(0, 1), (1, 2)] 1 [0, 10 ^ 20, 0])
        [0, 2]).err = none
    ∧ (BaseContagion.evolve (BaseContagion.infect_node_set (ContinuousSIR.create [(0, 1), (1, 2)]
        1 [0, 10 ^ 20, 0]) [0, 2]).st 1 false false
        [⟨1 / 2, 0, 0, fun _ => 0, fun _ => 0, fun _ => 0⟩,
        ⟨1 / 2, 0, 0, fun _ => 0, fun _ => 0, fun _ => 0⟩]).err = none
    ∧ (BaseContagion.evolve (BaseContagion.infect_node_set (ContinuousSIR.create [(0, 1), (1, 2)]
        1 [0, 10 ^ 20, 0]) [0, 2]).st 1 false false
        [⟨1 / 2, 0, 0, fun _ => 0, fun _ => 0, fun _ => 0⟩,
        ⟨1 / 2, 0, 0, fun _ => 0, fun _ => 0, fun _ => 0⟩]).event_times =
        [1 / 2, 1 / 2 + 1 / (10 ^ 20 + 1)]
    ∧ (BaseContagion.infect_node_set (ContinuousSIR.create [(0, 1), (1, 2)] 1 [0, 10 ^ 20, 0])
        [0, 2]).st.last_event_time_ = 0
    ∧ ContinuousSIR.get_total_rate_double (BaseContagion.infect_node_set (ContinuousSIR.create
        [(0, 1), (1, 2)] 1 [0, 10 ^ 20, 0]) [0, 2]).st = 2
    ∧ ContinuousSIR.next_event_time_double (BaseContagion.infect_node_set (ContinuousSIR.create
        [(0, 1), (1, 2)] 1 [0, 10 ^ 20, 0]) [0, 2]).st = 1 / 2
    ∧ ContinuousSIR.loop_guard_double (BaseContagion.infect_node_set (ContinuousSIR.create
        [(0, 1), (1, 2)] 1 [0, 10 ^ 20, 0]) [0, 2]).st 0 1 = true
    ∧ (BaseContagion.loop_body false false ⟨1 / 2, 0, 0, fun _ => 0, fun _ => 0, fun _ => 0⟩
        (BaseContagion.infect_node_set (ContinuousSIR.create [(0, 1), (1, 2)] 1 [0, 10 ^ 20, 0])
        [0, 2]).st).err = none
    ∧ (BaseContagion.loop_body false false ⟨1 / 2, 0, 0, fun _ => 0, fun _ => 0, fun _ => 0⟩
        (BaseContagion.infect_node_set (ContinuousSIR.create [(0, 1), (1, 2)] 1 [0, 10 ^ 20, 0])
        [0, 2]).st).st.last_event_time_ = 1 / 2
    ∧ (BaseContagion.loop_body false false ⟨1 / 2, 0, 0, fun _ => 0, fun _ => 0, fun _ => 0⟩
        (BaseContagion.infect_node_set (ContinuousSIR.create [(0, 1), (1, 2)] 1 [0, 10 ^ 20, 0])
        [0, 2]).st).st.infection_event_set_.items = [(1, 10 ^ 20)]
    ∧ (BaseContagion.loop_body false false ⟨1 / 2, 0, 0, fun _ => 0, fun _ => 0, fun _ => 0⟩
        (BaseContagion.infect_node_set (ContinuousSIR.create [(0, 1), (1, 2)] 1 [0, 10 ^ 20, 0])
        [0, 2]).st).st.recovery_event_set_.items = [(2, 1)]
    ∧ round_double (10 ^ 20) = 10 ^ 20
    ∧ ContinuousSIR.get_total_rate_double (BaseContagion.loop_body false false
        ⟨1 / 2, 0, 0, fun _ => 0, fun _ => 0, fun _ => 0⟩ (BaseContagion.infect_node_set
        (ContinuousSIR.create [(0, 1), (1, 2)] 1 [0, 10 ^ 20, 0]) [0, 2]).st).st = 10 ^ 20
    ∧ ContinuousSIR.next_event_time_double (BaseContagion.loop_body false false
        ⟨1 / 2, 0, 0, fun _ => 0, fun _ => 0, fun _ => 0⟩ (BaseContagion.infect_node_set
        (ContinuousSIR.create [(0, 1), (1, 2)] 1 [0, 10 ^ 20, 0]) [0, 2]).st).st = 1 / 2
    ∧ ContinuousSIR.loop_guard_double (BaseContagion.loop_body false false
        ⟨1 / 2, 0, 0, fun _ => 0, fun _ => 0, fun _ => 0⟩ (BaseContagion.infect_node_set
        (ContinuousSIR.create [(0, 1), (1, 2)] 1 [0, 10 ^ 20, 0]) [0, 2]).st).st 0 1 = true := by
  have e0 : (BaseContagion.evolve (BaseContagion.infect_node_set (ContinuousSIR.create [(0, 1)]
      (-1) [0, 0]) [0, 1]).st 10 false false [⟨1 / 2, 0, 0, fun _ => 0, fun _ => 0, fun _ => 0⟩,
      ⟨1 / 2, 0, 0, fun _ => 0, fun _ => 0, fun _ => 0⟩]).event_times = [-1 / 2, -3 / 2] := by
    decide!
  have e1 : (BaseContagion.evolve (BaseContagion.infect_node_set (AnnealedContinuousSIR.create 3 1
      1 [1, 0] (-8) 0) [0]).st 10 false false [⟨1 / 2, 0, 0, fun _ => 0, fun _ => 0, fun _ => 0⟩,
      ⟨1 / 2, 0, 0, fun _ => 0, fun _ => 0, fun _ => 0⟩,
      ⟨1 / 2, 0, 0, fun _ => 0, fun _ => 0, fun _ => 0⟩,
      ⟨1 / 2, 0, 0, fun _ => 0, fun _ => 0, fun _ => 0⟩,
      ⟨1 / 2, 0, 0, fun _ => 0, fun _ => 0, fun _ => 0⟩]).event_times =
      [-3 / 29, -93 / 58, -221 / 174, -67 / 87, 20 / 87] := by
    decide!
  have e2 : (BaseContagion.evolve (BaseContagion.infect_node_set (AnnealedContinuousSIR.create 3 1
      1 [0, -30] 1 0) [0]).st 10 false false [⟨1 / 2, 0, 0, fun _ => 0, fun _ => 0, fun _ => 0⟩,
      ⟨1 / 2, 0, 0, fun _ => 0, fun _ => 0, fun _ => 0⟩,
      ⟨1 / 2, 0, 0, fun _ => 0, fun _ => 0, fun _ => 0⟩,
      ⟨1 / 2, 0, 0, fun _ => 0, fun _ => 0, fun _ => 0⟩,
      ⟨1 / 2, 0, 0, fun _ => 0, fun _ => 0, fun _ => 0⟩]).event_times =
      [-1 / 19, -37 / 342, 77 / 342, 124 / 171, 295 / 171] := by
    decide!
  refine ⟨?_, ?_,
    e0,
    fun hc => by
      rw [e0] at hc
      exact absurd (List.chain'_cons.1 hc).1 (by norm_num),
    ?_, ?_, ?_, ?_, ?_, ?_,
    e1,
    fun hc => by
      rw [e1] at hc
      exact absurd (List.chain'_cons.1 hc).1 (by norm_num),
    ?_, ?_, ?_,
    e2,
    fun hc => by
      rw [e2] at hc
      exact absurd (List.chain'_cons.1 hc).1 (by norm_num),
    ?_, ?_, ?_, ?_, ?_, ?_, ?_, ?_, ?_, ?_, ?_, ?_, ?_, ?_, ?_⟩
  all_goals decide!

end fastsir
